import Mathlib

/-! # The per-source mixing core of `Alc/mixer.c`

A shallow embedding of the resampling kernels, the eighteen mixers generated by the two
`DECL_TEMPLATE` families, the kernel selectors and the source feed loop `MixSource`,
followed by theorems about them.

Conventions of the embedding.

* `ALuint` values are natural numbers below `2 ^ 32`; every `ALuint` operation that can
  leave that range is wrapped explicitly (`u32`, `usub`, `toU32`).  `ALint64` values are
  integers.
* `ALfloat` is an arbitrary type `α` carrying `+`, `-`, `*`, `/` and a conversion from
  integers, with no laws assumed: what is proved holds for every rounding behaviour.
* Memory the code reads through a pointer is explicit.  A read outside the assembled
  window, a null dereference, a division by zero and a copy that leaves the source buffer
  are faults; loops that the C code does not bound take fuel.
* Constants, tables and inline helpers of headers that are not part of `mixer.c`
  (`alu.h`, `alMain.h`, `alFilter.h`) are fields of `Env`.
-/

namespace OpenAL

/-! ## Machine arithmetic -/

/-- Modelled from the spec: `FRACTIONBITS` of `alu.h`, the width of the fixed-point phase
("typically 14"). -/
def FRACTIONBITS : Nat := 14

/-- Modelled from the spec: `FRACTIONONE = 1 << FRACTIONBITS`. -/
def FRACTIONONE : Nat := 1 <<< FRACTIONBITS

/-- Modelled from the spec: `FRACTIONMASK = FRACTIONONE - 1`. -/
def FRACTIONMASK : Nat := FRACTIONONE - 1

/-- Reduction of a natural number to the range of `ALuint`. -/
def u32 (x : Nat) : Nat := x % 4294967296

/-- The `ALuint` difference `a - b`, wrapping below zero. -/
def usub (a b : Nat) : Nat := (a + 4294967296 - b % 4294967296) % 4294967296

/-- Conversion of a signed integer to `ALuint` (two's complement). -/
def toU32 (x : Int) : Nat := (x % 4294967296).toNat

/-- Conversion of an `ALuint` to `ALint` (two's complement). -/
def toI32 (x : Nat) : Int :=
  if x % 4294967296 < 2147483648 then ((x % 4294967296 : Nat) : Int)
  else ((x % 4294967296 : Nat) : Int) - 4294967296

/-- The ways in which an execution can fail to produce a result. -/
inductive Fault where
  | outOfFuel
  | nullDeref
  | divByZero
  | badRead
  | badCopy
  | badIndex
  | overflow
  deriving DecidableEq, Repr

/-- Counted loop `for(i = i0; i < i0 + n; i++) s = body(i, s)`. -/
def forLoop {σ : Type} (body : Nat → σ → Except Fault σ) : Nat → Nat → σ → Except Fault σ
  | 0, _, s => .ok s
  | n + 1, i, s =>
    match body i s with
    | .ok s1 => forLoop body n (i + 1) s1
    | .error e => .error e

/-! ## Enumerations and function names -/

/-- The `enum FmtType` of a buffer; `other` stands for any value outside the three
enumerators. -/
inductive FmtType where
  | FmtByte
  | FmtShort
  | FmtFloat
  | other
  deriving DecidableEq, Repr

/-- The `enum Resampler`; `other` stands for any value outside the enumerators. -/
inductive Resampler where
  | POINT_RESAMPLER
  | LINEAR_RESAMPLER
  | CUBIC_RESAMPLER
  | RESAMPLER_MAX
  | RESAMPLER_MIN
  | other
  deriving DecidableEq, Repr

/-- The nine sampling kernels defined at the top of the file. -/
inductive SamplerId where
  | point32
  | lerp32
  | cubic32
  | point16
  | lerp16
  | cubic16
  | point8
  | lerp8
  | cubic8
  deriving DecidableEq, Repr

/-- The eighteen functions generated by the two mixer templates: the values a `MixerFunc`
pointer can take besides null. -/
inductive MixerFunc where
  | Mix_ALfloat_point32
  | Mix_ALfloat_lerp32
  | Mix_ALfloat_cubic32
  | Mix_ALshort_point16
  | Mix_ALshort_lerp16
  | Mix_ALshort_cubic16
  | Mix_ALbyte_point8
  | Mix_ALbyte_lerp8
  | Mix_ALbyte_cubic8
  | Mix_Hrtf_ALfloat_point32
  | Mix_Hrtf_ALfloat_lerp32
  | Mix_Hrtf_ALfloat_cubic32
  | Mix_Hrtf_ALshort_point16
  | Mix_Hrtf_ALshort_lerp16
  | Mix_Hrtf_ALshort_cubic16
  | Mix_Hrtf_ALbyte_point8
  | Mix_Hrtf_ALbyte_lerp8
  | Mix_Hrtf_ALbyte_cubic8
  deriving DecidableEq, Repr

/-- The source states (`AL_INITIAL`, `AL_PLAYING`, `AL_PAUSED`, `AL_STOPPED`). -/
inductive ALstate where
  | AL_INITIAL
  | AL_PLAYING
  | AL_PAUSED
  | AL_STOPPED
  deriving DecidableEq, Repr

/-- The source types (`AL_STATIC`, `AL_STREAMING`, `AL_UNDETERMINED`). -/
inductive SourceType where
  | AL_STATIC
  | AL_STREAMING
  | AL_UNDETERMINED
  deriving DecidableEq, Repr

/-! ## Data model -/

/-- What `mixer.c` takes from headers outside it: sizes, channel indices, the
element-to-float conversions of the three sample types, the interpolators `lerp` and
`cubic` of `alu.h` and the low-pass filters of `alFilter.h` over a filter state `F`. -/
structure Env (α F : Type) where
  STACK_DATA_SIZE : Nat
  MAXCHANNELS : Nat
  FRONT_LEFT : Nat
  FRONT_RIGHT : Nat
  HRIR_BITS : Nat
  SRC_HISTORY_BITS : Nat
  AL_EFFECT_NULL : Nat
  ofByte : List Nat → α
  ofShort : List Nat → α
  ofFloat : List Nat → α
  lerp : α → α → α → α
  cubic : α → α → α → α → α → α
  lpFilter2P : F → Nat → α → F × α
  lpFilter2PC : F → Nat → α → α
  lpFilter1P : F → Nat → α → F × α
  lpFilter1PC : F → Nat → α → α

/-- The number of taps `HRIR_LENGTH = 1 << HRIR_BITS`. -/
def Env.HRIR_LENGTH {α F : Type} (E : Env α F) : Nat := 1 <<< E.HRIR_BITS

/-- The mask `HRIR_MASK = HRIR_LENGTH - 1`. -/
def Env.HRIR_MASK {α F : Type} (E : Env α F) : Nat := E.HRIR_LENGTH - 1

/-- The mask `SRC_HISTORY_MASK = (1 << SRC_HISTORY_BITS) - 1`. -/
def Env.SRC_HISTORY_MASK {α F : Type} (E : Env α F) : Nat := (1 <<< E.SRC_HISTORY_BITS) - 1

/-- An `ALbuffer`: its bytes (`size` is their number), loop points and format. -/
structure ALbuffer where
  data : List Nat
  LoopStart : Nat
  LoopEnd : Nat
  FmtType : FmtType
  deriving DecidableEq, Repr

/-- The field `size` of a buffer, in bytes. -/
def ALbuffer.size (b : ALbuffer) : Nat := b.data.length

/-- An `ALeffectslot`, as far as the mixers touch it. -/
structure ALeffectslot (α : Type) where
  effectType : Nat
  WetBuffer : Nat → α
  ClickRemoval : Nat → α
  PendingClicks : Nat → α

/-- An `ALCdevice`, as far as the mixers touch it. -/
structure ALCdevice (α : Type) where
  DryBuffer : Nat → Nat → α
  ClickRemoval : Nat → α
  PendingClicks : Nat → α
  NumAuxSends : Nat

/-- One entry of `Source->Params.Send[]`; `Slot` is the address of the effect slot. -/
structure SendParams (α F : Type) where
  Slot : Option Nat
  WetGain : α
  iirFilter : F

/-- The structure `Source->Params`. -/
structure SourceParams (α F : Type) where
  Step : Nat
  DoMix : Option MixerFunc
  iirFilter : F
  DryGains : Nat → Nat → α
  HrtfCoeffs : Nat → Nat → Nat → α
  HrtfCoeffStep : Nat → Nat → α
  HrtfDelay : Nat → Nat → Nat
  HrtfDelayStep : Nat → Int
  Send : Nat → SendParams α F

/-- An `ALsource`.  The queue is the list of its items, each with its buffer or none; an
item pointer is an index into it. -/
structure ALsource (α F : Type) where
  state : ALstate
  BuffersPlayed : Nat
  position : Nat
  position_fraction : Nat
  bLooping : Bool
  Resampler : Resampler
  NumChannels : Nat
  SampleSize : Nat
  lSourceType : SourceType
  queue : List (Option ALbuffer)
  BuffersInQueue : Nat
  HrtfOffset : Nat
  HrtfCounter : Nat
  HrtfMoving : Bool
  HrtfHistory : Nat → Nat → α
  HrtfValues : Nat → Nat → Nat → α
  Params : SourceParams α F

/-- The memory a mixer call works on: the source, the device and the effect slots by
address. -/
structure Mem (α F : Type) where
  Source : ALsource α F
  Device : ALCdevice α
  Slot : Nat → ALeffectslot α

/-- A pointer into the assembled window: the bytes of the window and a byte offset. -/
structure SrcPtr where
  bytes : List Nat
  off : Int
  deriving DecidableEq, Repr

/-- Reads the element of `sz` bytes at element index `e` relative to the pointer.  The
read faults when it leaves the window. -/
def SrcPtr.read (p : SrcPtr) (sz : Nat) (e : Int) : Except Fault (List Nat) :=
  if 0 ≤ p.off + e * sz ∧ (p.off + e * sz).toNat + sz ≤ p.bytes.length then
    .ok ((p.bytes.drop (p.off + e * sz).toNat).take sz)
  else .error .badRead

/-! ## Sampling kernels -/

section Kernels

variable {α F : Type} [Add α] [Sub α] [Mul α] [Div α] [IntCast α]

/-- The float constant `1.0f/n`. -/
def recip (α : Type) [Div α] [IntCast α] (n : Nat) : α := ((1 : Int) : α) / (((n : Nat) : Int) : α)

/-- The phase as the kernels use it: `frac * (1.0f/FRACTIONONE)`. -/
def mu (α : Type) [Mul α] [Div α] [IntCast α] (frac : Int) : α := (frac : α) * recip α FRACTIONONE

/-- The kernel `point32`. -/
def point32 (E : Env α F) (vals : Int → Except Fault (List Nat)) (_step _frac : Int) :
    Except Fault α :=
  match vals 0 with
  | .error e => .error e
  | .ok v0 => .ok (E.ofFloat v0)

/-- The kernel `lerp32`. -/
def lerp32 (E : Env α F) (vals : Int → Except Fault (List Nat)) (step frac : Int) :
    Except Fault α :=
  match vals 0, vals step with
  | .ok v0, .ok v1 => .ok (E.lerp (E.ofFloat v0) (E.ofFloat v1) (mu α frac))
  | .error e, _ => .error e
  | _, .error e => .error e

/-- The kernel `cubic32`. -/
def cubic32 (E : Env α F) (vals : Int → Except Fault (List Nat)) (step frac : Int) :
    Except Fault α :=
  match vals (-step), vals 0, vals step, vals (step + step) with
  | .ok vm, .ok v0, .ok v1, .ok v2 =>
    .ok (E.cubic (E.ofFloat vm) (E.ofFloat v0) (E.ofFloat v1) (E.ofFloat v2) (mu α frac))
  | .error e, _, _, _ => .error e
  | _, .error e, _, _ => .error e
  | _, _, .error e, _ => .error e
  | _, _, _, .error e => .error e

/-- The kernel `point16`. -/
def point16 (E : Env α F) (vals : Int → Except Fault (List Nat)) (_step _frac : Int) :
    Except Fault α :=
  match vals 0 with
  | .error e => .error e
  | .ok v0 => .ok (E.ofShort v0 * recip α 32767)

/-- The kernel `lerp16`. -/
def lerp16 (E : Env α F) (vals : Int → Except Fault (List Nat)) (step frac : Int) :
    Except Fault α :=
  match vals 0, vals step with
  | .ok v0, .ok v1 =>
    .ok (E.lerp (E.ofShort v0) (E.ofShort v1) (mu α frac) * recip α 32767)
  | .error e, _ => .error e
  | _, .error e => .error e

/-- The kernel `cubic16`. -/
def cubic16 (E : Env α F) (vals : Int → Except Fault (List Nat)) (step frac : Int) :
    Except Fault α :=
  match vals (-step), vals 0, vals step, vals (step + step) with
  | .ok vm, .ok v0, .ok v1, .ok v2 =>
    .ok (E.cubic (E.ofShort vm) (E.ofShort v0) (E.ofShort v1) (E.ofShort v2) (mu α frac)
          * recip α 32767)
  | .error e, _, _, _ => .error e
  | _, .error e, _, _ => .error e
  | _, _, .error e, _ => .error e
  | _, _, _, .error e => .error e

/-- The kernel `point8`. -/
def point8 (E : Env α F) (vals : Int → Except Fault (List Nat)) (_step _frac : Int) :
    Except Fault α :=
  match vals 0 with
  | .error e => .error e
  | .ok v0 => .ok (E.ofByte v0 * recip α 127)

/-- The kernel `lerp8`. -/
def lerp8 (E : Env α F) (vals : Int → Except Fault (List Nat)) (step frac : Int) :
    Except Fault α :=
  match vals 0, vals step with
  | .ok v0, .ok v1 =>
    .ok (E.lerp (E.ofByte v0) (E.ofByte v1) (mu α frac) * recip α 127)
  | .error e, _ => .error e
  | _, .error e => .error e

/-- The kernel `cubic8`. -/
def cubic8 (E : Env α F) (vals : Int → Except Fault (List Nat)) (step frac : Int) :
    Except Fault α :=
  match vals (-step), vals 0, vals step, vals (step + step) with
  | .ok vm, .ok v0, .ok v1, .ok v2 =>
    .ok (E.cubic (E.ofByte vm) (E.ofByte v0) (E.ofByte v1) (E.ofByte v2) (mu α frac)
          * recip α 127)
  | .error e, _, _, _ => .error e
  | _, .error e, _, _ => .error e
  | _, _, .error e, _ => .error e
  | _, _, _, .error e => .error e

/-- The size in bytes of the element type `T` a kernel is instantiated with. -/
def SamplerId.sizeofT : SamplerId → Nat
  | .point32 | .lerp32 | .cubic32 => 4
  | .point16 | .lerp16 | .cubic16 => 2
  | .point8 | .lerp8 | .cubic8 => 1

/-- The call `sampler(vals, step, frac)` for the kernel named by the template argument. -/
def SamplerId.run (s : SamplerId) (E : Env α F) (vals : Int → Except Fault (List Nat))
    (step frac : Int) : Except Fault α :=
  match s with
  | .point32 => OpenAL.point32 E vals step frac
  | .lerp32 => OpenAL.lerp32 E vals step frac
  | .cubic32 => OpenAL.cubic32 E vals step frac
  | .point16 => OpenAL.point16 E vals step frac
  | .lerp16 => OpenAL.lerp16 E vals step frac
  | .cubic16 => OpenAL.cubic16 E vals step frac
  | .point8 => OpenAL.point8 E vals step frac
  | .lerp8 => OpenAL.lerp8 E vals step frac
  | .cubic8 => OpenAL.cubic8 E vals step frac

/-- The pointer `data + pos*NumChannels + i` as an accessor: `vals[k]` for a `T` of `sz`
bytes. -/
def elemAt (data : SrcPtr) (sz NumChannels pos i : Nat) (k : Int) : Except Fault (List Nat) :=
  data.read sz (((u32 (pos * NumChannels) : Nat) : Int) + ((i : Nat) : Int) + k)

/-- The value `sampler(data + pos*NumChannels + i, NumChannels, frac)` of the mixers. -/
def sample (E : Env α F) (smp : SamplerId) (data : SrcPtr) (NumChannels pos frac i : Nat) :
    Except Fault α :=
  smp.run E (elemAt data smp.sizeofT NumChannels pos i) (toI32 NumChannels) (toI32 frac)

end Kernels

/-! ## The mixers -/

section Mixers

variable {α F : Type} [Add α] [Sub α] [Mul α] [Div α] [IntCast α]

/-- Stores `Source->Params.iirFilter`. -/
def Mem.setDryFilter (m : Mem α F) (f : F) : Mem α F :=
  { m with Source := { m.Source with Params := { m.Source.Params with iirFilter := f } } }

/-- Stores `Source->Params.Send[out].iirFilter`. -/
def Mem.setSendFilter (m : Mem α F) (out : Nat) (f : F) : Mem α F :=
  { m with Source := { m.Source with Params := { m.Source.Params with
      Send := fun o => if o = out then { m.Source.Params.Send o with iirFilter := f }
                       else m.Source.Params.Send o } } }

/-- Stores the effect slot at address `a`. -/
def Mem.setSlot (m : Mem α F) (a : Nat) (s : ALeffectslot α) : Mem α F :=
  { m with Slot := fun b => if b = a then s else m.Slot b }

/-- The locals the sample loops of a mixer carry, with the memory they work on. -/
structure Cur (α F : Type) where
  mem : Mem α F
  pos : Nat
  frac : Nat
  OutPos : Nat

/-- The phase advance `frac += increment; pos += frac>>FRACTIONBITS; frac &= FRACTIONMASK;
OutPos++` that ends every sample loop body. -/
def Cur.advance (c : Cur α F) (increment : Nat) (m : Mem α F) : Cur α F :=
  { mem := m
    pos := u32 (c.pos + (u32 (c.frac + increment) >>> FRACTIONBITS))
    frac := u32 (c.frac + increment) &&& FRACTIONMASK
    OutPos := u32 (c.OutPos + 1) }

/-- The body of the dry sample loop of `Mix_##T##_##sampler` for source channel `i`. -/
def mixDryStep (E : Env α F) (smp : SamplerId) (data : SrcPtr) (NumChannels increment i : Nat)
    (DrySend : Nat → α) (c : Cur α F) : Except Fault (Cur α F) :=
  match sample E smp data NumChannels c.pos c.frac i with
  | .error e => .error e
  | .ok value =>
    let r := E.lpFilter2P c.mem.Source.Params.iirFilter i value
    let m := c.mem.setDryFilter r.1
    let D := m.Device.DryBuffer
    .ok (c.advance increment { m with Device := { m.Device with
      DryBuffer := fun o ch =>
        if o = c.OutPos ∧ ch < E.MAXCHANNELS then D o ch + r.2 * DrySend ch else D o ch } })

/-- The leading click-removal block of `Mix_##T##_##sampler` (taken when `OutPos == 0`). -/
def mixDryLead (E : Env α F) (smp : SamplerId) (data : SrcPtr) (NumChannels i : Nat)
    (DrySend : Nat → α) (c : Cur α F) : Except Fault (Cur α F) :=
  match sample E smp data NumChannels c.pos c.frac i with
  | .error e => .error e
  | .ok value =>
    let v := E.lpFilter2PC c.mem.Source.Params.iirFilter i value
    let C := c.mem.Device.ClickRemoval
    .ok { c with mem := { c.mem with Device := { c.mem.Device with
      ClickRemoval := fun ch => if ch < E.MAXCHANNELS then C ch - v * DrySend ch else C ch } } }

/-- The trailing click-removal block of `Mix_##T##_##sampler` (taken when
`OutPos == SamplesToDo`). -/
def mixDryTrail (E : Env α F) (smp : SamplerId) (data : SrcPtr) (NumChannels i : Nat)
    (DrySend : Nat → α) (c : Cur α F) : Except Fault (Cur α F) :=
  match sample E smp data NumChannels c.pos c.frac i with
  | .error e => .error e
  | .ok value =>
    let v := E.lpFilter2PC c.mem.Source.Params.iirFilter i value
    let P := c.mem.Device.PendingClicks
    .ok { c with mem := { c.mem with Device := { c.mem.Device with
      PendingClicks := fun ch => if ch < E.MAXCHANNELS then P ch + v * DrySend ch else P ch } } }

/-- The body of the channel loop of `Mix_##T##_##sampler` for source channel `i`. -/
def mixDryChannel (E : Env α F) (smp : SamplerId) (data : SrcPtr)
    (NumChannels increment DataPosFrac SamplesToDo BufferSize : Nat) (i : Nat) (c : Cur α F) :
    Except Fault (Cur α F) :=
  let DrySend : Nat → α := c.mem.Source.Params.DryGains i
  let c0 : Cur α F := { c with pos := 0, frac := DataPosFrac }
  match (if c0.OutPos = 0 then mixDryLead E smp data NumChannels i DrySend c0 else .ok c0) with
  | .error e => .error e
  | .ok c1 =>
    match forLoop (fun _ => mixDryStep E smp data NumChannels increment i DrySend)
            BufferSize 0 c1 with
    | .error e => .error e
    | .ok c2 =>
      match (if c2.OutPos = SamplesToDo then mixDryTrail E smp data NumChannels i DrySend c2
             else .ok c2) with
      | .error e => .error e
      | .ok c3 => .ok { c3 with OutPos := usub c3.OutPos BufferSize }

/-- The body of the wet sample loop for send `out`, slot address `a`, source channel `i`. -/
def mixWetStep (E : Env α F) (smp : SamplerId) (data : SrcPtr) (NumChannels increment : Nat)
    (out a i : Nat) (c : Cur α F) : Except Fault (Cur α F) :=
  match sample E smp data NumChannels c.pos c.frac i with
  | .error e => .error e
  | .ok value =>
    let r := E.lpFilter1P (c.mem.Source.Params.Send out).iirFilter i value
    let m := c.mem.setSendFilter out r.1
    let S := m.Slot a
    .ok (c.advance increment (m.setSlot a { S with
      WetBuffer := fun o =>
        if o = c.OutPos then S.WetBuffer o + r.2 * (m.Source.Params.Send out).WetGain
        else S.WetBuffer o }))

/-- The leading click-removal block of the wet path. -/
def mixWetLead (E : Env α F) (smp : SamplerId) (data : SrcPtr) (NumChannels : Nat)
    (out a i : Nat) (c : Cur α F) : Except Fault (Cur α F) :=
  match sample E smp data NumChannels c.pos c.frac i with
  | .error e => .error e
  | .ok value =>
    let v := E.lpFilter1PC (c.mem.Source.Params.Send out).iirFilter i value
    let S := c.mem.Slot a
    .ok { c with mem := c.mem.setSlot a { S with
      ClickRemoval := fun k =>
        if k = 0 then S.ClickRemoval 0 - v * (c.mem.Source.Params.Send out).WetGain
        else S.ClickRemoval k } }

/-- The trailing click-removal block of the wet path. -/
def mixWetTrail (E : Env α F) (smp : SamplerId) (data : SrcPtr) (NumChannels : Nat)
    (out a i : Nat) (c : Cur α F) : Except Fault (Cur α F) :=
  match sample E smp data NumChannels c.pos c.frac i with
  | .error e => .error e
  | .ok value =>
    let v := E.lpFilter1PC (c.mem.Source.Params.Send out).iirFilter i value
    let S := c.mem.Slot a
    .ok { c with mem := c.mem.setSlot a { S with
      PendingClicks := fun k =>
        if k = 0 then S.PendingClicks 0 + v * (c.mem.Source.Params.Send out).WetGain
        else S.PendingClicks k } }

/-- The body of the channel loop of one auxiliary send. -/
def mixWetChannel (E : Env α F) (smp : SamplerId) (data : SrcPtr)
    (NumChannels increment DataPosFrac SamplesToDo BufferSize : Nat) (out a : Nat)
    (i : Nat) (c : Cur α F) : Except Fault (Cur α F) :=
  let c0 : Cur α F := { c with pos := 0, frac := DataPosFrac }
  match (if c0.OutPos = 0 then mixWetLead E smp data NumChannels out a i c0 else .ok c0) with
  | .error e => .error e
  | .ok c1 =>
    match forLoop (fun _ => mixWetStep E smp data NumChannels increment out a i)
            BufferSize 0 c1 with
    | .error e => .error e
    | .ok c2 =>
      match (if c2.OutPos = SamplesToDo then mixWetTrail E smp data NumChannels out a i c2
             else .ok c2) with
      | .error e => .error e
      | .ok c3 => .ok { c3 with OutPos := usub c3.OutPos BufferSize }

/-- The body of the loop over the auxiliary sends, which the two mixer templates share
word for word: a send without a slot, or whose slot has the null effect, is skipped. -/
def mixSend (E : Env α F) (smp : SamplerId) (data : SrcPtr)
    (NumChannels increment DataPosFrac SamplesToDo BufferSize : Nat) (out : Nat)
    (c : Cur α F) : Except Fault (Cur α F) :=
  match (c.mem.Source.Params.Send out).Slot with
  | none => .ok c
  | some a =>
    if (c.mem.Slot a).effectType = E.AL_EFFECT_NULL then .ok c
    else forLoop (mixWetChannel E smp data NumChannels increment DataPosFrac SamplesToDo
                    BufferSize out a) NumChannels 0 c

/-- What a mixer call leaves behind: the memory and the values written back through
`DataPosInt` and `DataPosFrac`. -/
structure MixResult (α F : Type) where
  mem : Mem α F
  DataPosInt : Nat
  DataPosFrac : Nat

/-- The template `Mix_##T##_##sampler`, instantiated with the kernel `smp` and its element
type. -/
def Mix (E : Env α F) (smp : SamplerId) (m : Mem α F) (srcdata : SrcPtr)
    (DataPosInt DataPosFrac OutPos SamplesToDo BufferSize : Nat) :
    Except Fault (MixResult α F) :=
  let NumChannels := m.Source.NumChannels
  let increment := m.Source.Params.Step
  match forLoop (mixDryChannel E smp srcdata NumChannels increment DataPosFrac SamplesToDo
                   BufferSize) NumChannels 0
          { mem := m, pos := 0, frac := DataPosFrac, OutPos := OutPos } with
  | .error e => .error e
  | .ok c1 =>
    match forLoop (mixSend E smp srcdata NumChannels increment DataPosFrac SamplesToDo
                     BufferSize) c1.mem.Device.NumAuxSends 0 c1 with
    | .error e => .error e
    | .ok c2 =>
      .ok { mem := c2.mem, DataPosInt := u32 (DataPosInt + c2.pos), DataPosFrac := c2.frac }

/-- Stores `Source->HrtfHistory[i][k]`. -/
def Mem.setHistory (m : Mem α F) (i k : Nat) (v : α) : Mem α F :=
  { m with Source := { m.Source with
      HrtfHistory := fun j l => if j = i ∧ l = k then v else m.Source.HrtfHistory j l } }

/-- Stores the row `Source->HrtfValues[i]`. -/
def Mem.setValues (m : Mem α F) (i : Nat) (V : Nat → Nat → α) : Mem α F :=
  { m with Source := { m.Source with
      HrtfValues := fun j => if j = i then V else m.Source.HrtfValues j } }

/-- The loop of the portable `ApplyCoeffs`, from tap `c` for `n` taps:
`Values[(Offset+c)&HRIR_MASK][e] += Coeffs[c][e] * (left, right)`. -/
def applyCoeffsLoop (mask Offset : Nat) (Coeffs : Nat → Nat → α) (left right : α) :
    Nat → Nat → (Nat → Nat → α) → (Nat → Nat → α)
  | 0, _, V => V
  | n + 1, c, V =>
    let off := u32 (Offset + c) &&& mask
    let V1 : Nat → Nat → α := fun k e => if k = off ∧ e = 0 then V off 0 + Coeffs c 0 * left else V k e
    let V2 : Nat → Nat → α := fun k e => if k = off ∧ e = 1 then V1 off 1 + Coeffs c 1 * right else V1 k e
    applyCoeffsLoop mask Offset Coeffs left right n (c + 1) V2

/-- The portable `ApplyCoeffs`. -/
def ApplyCoeffs (E : Env α F) (Offset : Nat) (Values Coeffs : Nat → Nat → α) (left right : α) :
    Nat → Nat → α :=
  applyCoeffsLoop E.HRIR_MASK Offset Coeffs left right E.HRIR_LENGTH 0 Values

/-- The tap loop of the ramped phase, from tap `c` for `n` taps: accumulate into `Values`
and step the coefficients. -/
def rampCoeffsLoop (mask Offset : Nat) (CoeffStep : Nat → Nat → α) (left right : α) :
    Nat → Nat → (Nat → Nat → α) × (Nat → Nat → α) → (Nat → Nat → α) × (Nat → Nat → α)
  | 0, _, VC => VC
  | n + 1, c, (V, C) =>
    let off := u32 (Offset + c) &&& mask
    let V1 : Nat → Nat → α := fun k e => if k = off ∧ e = 0 then V off 0 + C c 0 * left else V k e
    let V2 : Nat → Nat → α := fun k e => if k = off ∧ e = 1 then V1 off 1 + C c 1 * right else V1 k e
    let C1 : Nat → Nat → α := fun k e => if k = c ∧ e = 0 then C c 0 + CoeffStep c 0 else C k e
    let C2 : Nat → Nat → α := fun k e => if k = c ∧ e = 1 then C1 c 1 + CoeffStep c 1 else C1 k e
    rampCoeffsLoop mask Offset CoeffStep left right n (c + 1) (V2, C2)

/-- The locals of the channel loop of `Mix_Hrtf_##T##_##sampler`. -/
structure HrtfCur (α F : Type) where
  cur : Cur α F
  Counter : Int
  Offset : Nat
  Coeffs : Nat → Nat → α
  Delay0 : Nat
  Delay1 : Nat

/-- The row `Values` with cell `k` cleared: `Values[k][0] = Values[k][1] = 0.0f`. -/
def clearCell (V : Nat → Nat → α) (k : Nat) : Nat → Nat → α :=
  fun j e => if j = k ∧ (e = 0 ∨ e = 1) then ((0 : Int) : α) else V j e

/-- The update `DryBuffer[OutPos][FRONT_LEFT] += l; DryBuffer[OutPos][FRONT_RIGHT] += r`. -/
def addFront (E : Env α F) (D : Nat → Nat → α) (OutPos : Nat) (l r : α) : Nat → Nat → α :=
  let D1 : Nat → Nat → α := fun o ch =>
    if o = OutPos ∧ ch = E.FRONT_LEFT then D OutPos E.FRONT_LEFT + l else D o ch
  fun o ch => if o = OutPos ∧ ch = E.FRONT_RIGHT then D1 OutPos E.FRONT_RIGHT + r else D1 o ch

/-- The update `A[FRONT_LEFT] -= l; A[FRONT_RIGHT] -= r` of a click accumulator. -/
def subFront (E : Env α F) (A : Nat → α) (l r : α) : Nat → α :=
  let A1 : Nat → α := fun ch => if ch = E.FRONT_LEFT then A E.FRONT_LEFT - l else A ch
  fun ch => if ch = E.FRONT_RIGHT then A1 E.FRONT_RIGHT - r else A1 ch

/-- The update `A[FRONT_LEFT] += l; A[FRONT_RIGHT] += r` of a click accumulator. -/
def addFrontClick (E : Env α F) (A : Nat → α) (l r : α) : Nat → α :=
  let A1 : Nat → α := fun ch => if ch = E.FRONT_LEFT then A E.FRONT_LEFT + l else A ch
  fun ch => if ch = E.FRONT_RIGHT then A1 E.FRONT_RIGHT + r else A1 ch

/-- The leading click-removal block of `Mix_Hrtf_##T##_##sampler` (`OutPos == 0`); the
delays are still in 16.16 fixed point. -/
def hrtfLead (E : Env α F) (smp : SamplerId) (data : SrcPtr) (NumChannels i : Nat)
    (h : HrtfCur α F) : Except Fault (HrtfCur α F) :=
  match sample E smp data NumChannels h.cur.pos h.cur.frac i with
  | .error e => .error e
  | .ok value =>
    let v := E.lpFilter2PC h.cur.mem.Source.Params.iirFilter i value
    let m := h.cur.mem.setHistory i (h.Offset &&& E.SRC_HISTORY_MASK) v
    let left := m.Source.HrtfHistory i (usub h.Offset (h.Delay0 >>> 16) &&& E.SRC_HISTORY_MASK)
    let right := m.Source.HrtfHistory i (usub h.Offset (h.Delay1 >>> 16) &&& E.SRC_HISTORY_MASK)
    let V := m.Source.HrtfValues i
    let k := u32 (h.Offset + 1) &&& E.HRIR_MASK
    .ok { h with cur := { h.cur with mem := { m with Device := { m.Device with
      ClickRemoval := subFront E m.Device.ClickRemoval
        (V k 0 + h.Coeffs 0 0 * left) (V k 1 + h.Coeffs 0 1 * right) } } } }

/-- The body of the ramped sample loop of `Mix_Hrtf_##T##_##sampler`. -/
def hrtfRampStep (E : Env α F) (smp : SamplerId) (data : SrcPtr) (NumChannels increment i : Nat)
    (h : HrtfCur α F) : Except Fault (HrtfCur α F) :=
  match sample E smp data NumChannels h.cur.pos h.cur.frac i with
  | .error e => .error e
  | .ok value =>
    let r := E.lpFilter2P h.cur.mem.Source.Params.iirFilter i value
    let m := (h.cur.mem.setDryFilter r.1).setHistory i (h.Offset &&& E.SRC_HISTORY_MASK) r.2
    let left := m.Source.HrtfHistory i (usub h.Offset (h.Delay0 >>> 16) &&& E.SRC_HISTORY_MASK)
    let right := m.Source.HrtfHistory i (usub h.Offset (h.Delay1 >>> 16) &&& E.SRC_HISTORY_MASK)
    let Delay0 := toU32 ((h.Delay0 : Int) + m.Source.Params.HrtfDelayStep 0)
    let Delay1 := toU32 ((h.Delay1 : Int) + m.Source.Params.HrtfDelayStep 1)
    let V0 := clearCell (m.Source.HrtfValues i) (h.Offset &&& E.HRIR_MASK)
    let Offset := u32 (h.Offset + 1)
    let VC := rampCoeffsLoop E.HRIR_MASK Offset m.Source.Params.HrtfCoeffStep left right
                E.HRIR_LENGTH 0 (V0, h.Coeffs)
    let m1 := m.setValues i VC.1
    let k := Offset &&& E.HRIR_MASK
    .ok { cur := h.cur.advance increment { m1 with Device := { m1.Device with
            DryBuffer := addFront E m1.Device.DryBuffer h.cur.OutPos (VC.1 k 0) (VC.1 k 1) } }
          Counter := h.Counter - 1
          Offset := Offset
          Coeffs := VC.2
          Delay0 := Delay0
          Delay1 := Delay1 }

/-- The ramped sample loop `for(BufferIdx = 0;BufferIdx < BufferSize && Counter > 0;...)`:
`n` is the number of passes `BufferSize - BufferIdx` still allowed, and the result carries
the number left over for the steady loop. -/
def hrtfRamp (E : Env α F) (smp : SamplerId) (data : SrcPtr) (NumChannels increment i : Nat) :
    Nat → HrtfCur α F → Except Fault (Nat × HrtfCur α F)
  | 0, h => .ok (0, h)
  | n + 1, h =>
    if 0 < h.Counter then
      match hrtfRampStep E smp data NumChannels increment i h with
      | .error e => .error e
      | .ok h1 => hrtfRamp E smp data NumChannels increment i n h1
    else .ok (n + 1, h)

/-- The body of the steady sample loop of `Mix_Hrtf_##T##_##sampler`; the delays are whole
samples. -/
def hrtfSteadyStep (E : Env α F) (smp : SamplerId) (data : SrcPtr)
    (NumChannels increment i : Nat) (h : HrtfCur α F) : Except Fault (HrtfCur α F) :=
  match sample E smp data NumChannels h.cur.pos h.cur.frac i with
  | .error e => .error e
  | .ok value =>
    let r := E.lpFilter2P h.cur.mem.Source.Params.iirFilter i value
    let m := (h.cur.mem.setDryFilter r.1).setHistory i (h.Offset &&& E.SRC_HISTORY_MASK) r.2
    let left := m.Source.HrtfHistory i (usub h.Offset h.Delay0 &&& E.SRC_HISTORY_MASK)
    let right := m.Source.HrtfHistory i (usub h.Offset h.Delay1 &&& E.SRC_HISTORY_MASK)
    let V0 := clearCell (m.Source.HrtfValues i) (h.Offset &&& E.HRIR_MASK)
    let Offset := u32 (h.Offset + 1)
    let V := ApplyCoeffs E Offset V0 h.Coeffs left right
    let m1 := m.setValues i V
    let k := Offset &&& E.HRIR_MASK
    .ok { h with
          cur := h.cur.advance increment { m1 with Device := { m1.Device with
            DryBuffer := addFront E m1.Device.DryBuffer h.cur.OutPos (V k 0) (V k 1) } }
          Offset := Offset }

/-- The trailing click-removal block of `Mix_Hrtf_##T##_##sampler`
(`OutPos == SamplesToDo`); the delays are whole samples. -/
def hrtfTrail (E : Env α F) (smp : SamplerId) (data : SrcPtr) (NumChannels i : Nat)
    (h : HrtfCur α F) : Except Fault (HrtfCur α F) :=
  match sample E smp data NumChannels h.cur.pos h.cur.frac i with
  | .error e => .error e
  | .ok value =>
    let v := E.lpFilter2PC h.cur.mem.Source.Params.iirFilter i value
    let m := h.cur.mem.setHistory i (h.Offset &&& E.SRC_HISTORY_MASK) v
    let left := m.Source.HrtfHistory i (usub h.Offset h.Delay0 &&& E.SRC_HISTORY_MASK)
    let right := m.Source.HrtfHistory i (usub h.Offset h.Delay1 &&& E.SRC_HISTORY_MASK)
    let V := m.Source.HrtfValues i
    let k := u32 (h.Offset + 1) &&& E.HRIR_MASK
    .ok { h with cur := { h.cur with mem := { m with Device := { m.Device with
      PendingClicks := addFrontClick E m.Device.PendingClicks
        (V k 0 + h.Coeffs 0 0 * left) (V k 1 + h.Coeffs 0 1 * right) } } } }

/-- The locals of the channel loop of `Mix_Hrtf_##T##_##sampler` as initialised for source
channel `i`: the remaining ramp length, the ring offset, and the coefficients and delays
projected back to the start of the ramp. -/
def hrtfInit (DataPosFrac : Nat) (i : Nat) (c : Cur α F) : HrtfCur α F :=
  let P := c.mem.Source.Params
  let Counter : Int := toI32 (usub (max c.mem.Source.HrtfCounter c.OutPos) c.OutPos)
  { cur := { c with pos := 0, frac := DataPosFrac }
    Counter := Counter
    Offset := u32 (c.mem.Source.HrtfOffset + c.OutPos)
    Coeffs := fun k e => P.HrtfCoeffs i k e - P.HrtfCoeffStep k e * (Counter : α)
    Delay0 := toU32 ((P.HrtfDelay i 0 : Int) - P.HrtfDelayStep 0 * Counter + 32768)
    Delay1 := toU32 ((P.HrtfDelay i 1 : Int) - P.HrtfDelayStep 1 * Counter + 32768) }

/-- The body of the channel loop of `Mix_Hrtf_##T##_##sampler` for source channel `i`. -/
def hrtfChannel (E : Env α F) (smp : SamplerId) (data : SrcPtr)
    (NumChannels increment DataPosFrac SamplesToDo BufferSize : Nat) (i : Nat) (c : Cur α F) :
    Except Fault (Cur α F) :=
  let h0 : HrtfCur α F := hrtfInit DataPosFrac i c
  match (if h0.cur.OutPos = 0 then hrtfLead E smp data NumChannels i h0 else .ok h0) with
  | .error e => .error e
  | .ok h1 =>
    match hrtfRamp E smp data NumChannels increment i BufferSize h1 with
    | .error e => .error e
    | .ok (rest, h2) =>
      let h3 : HrtfCur α F := { h2 with Delay0 := h2.Delay0 >>> 16, Delay1 := h2.Delay1 >>> 16 }
      match forLoop (fun _ => hrtfSteadyStep E smp data NumChannels increment i) rest 0 h3 with
      | .error e => .error e
      | .ok h4 =>
        match (if h4.cur.OutPos = SamplesToDo then hrtfTrail E smp data NumChannels i h4
               else .ok h4) with
        | .error e => .error e
        | .ok h5 => .ok { h5.cur with OutPos := usub h5.cur.OutPos BufferSize }

/-- The template `Mix_Hrtf_##T##_##sampler`, instantiated with the kernel `smp` and its
element type. -/
def Mix_Hrtf (E : Env α F) (smp : SamplerId) (m : Mem α F) (srcdata : SrcPtr)
    (DataPosInt DataPosFrac OutPos SamplesToDo BufferSize : Nat) :
    Except Fault (MixResult α F) :=
  let NumChannels := m.Source.NumChannels
  let increment := m.Source.Params.Step
  match forLoop (hrtfChannel E smp srcdata NumChannels increment DataPosFrac SamplesToDo
                   BufferSize) NumChannels 0
          { mem := m, pos := 0, frac := DataPosFrac, OutPos := OutPos } with
  | .error e => .error e
  | .ok c1 =>
    match forLoop (mixSend E smp srcdata NumChannels increment DataPosFrac SamplesToDo
                     BufferSize) c1.mem.Device.NumAuxSends 0 c1 with
    | .error e => .error e
    | .ok c2 =>
      .ok { mem := c2.mem, DataPosInt := u32 (DataPosInt + c2.pos), DataPosFrac := c2.frac }

/-- The kernel a mixer function is instantiated with. -/
def MixerFunc.sampler : MixerFunc → SamplerId
  | .Mix_ALfloat_point32 | .Mix_Hrtf_ALfloat_point32 => .point32
  | .Mix_ALfloat_lerp32 | .Mix_Hrtf_ALfloat_lerp32 => .lerp32
  | .Mix_ALfloat_cubic32 | .Mix_Hrtf_ALfloat_cubic32 => .cubic32
  | .Mix_ALshort_point16 | .Mix_Hrtf_ALshort_point16 => .point16
  | .Mix_ALshort_lerp16 | .Mix_Hrtf_ALshort_lerp16 => .lerp16
  | .Mix_ALshort_cubic16 | .Mix_Hrtf_ALshort_cubic16 => .cubic16
  | .Mix_ALbyte_point8 | .Mix_Hrtf_ALbyte_point8 => .point8
  | .Mix_ALbyte_lerp8 | .Mix_Hrtf_ALbyte_lerp8 => .lerp8
  | .Mix_ALbyte_cubic8 | .Mix_Hrtf_ALbyte_cubic8 => .cubic8

/-- Whether a mixer function comes from the HRTF template. -/
def MixerFunc.isHrtf : MixerFunc → Bool
  | .Mix_Hrtf_ALfloat_point32 | .Mix_Hrtf_ALfloat_lerp32 | .Mix_Hrtf_ALfloat_cubic32
  | .Mix_Hrtf_ALshort_point16 | .Mix_Hrtf_ALshort_lerp16 | .Mix_Hrtf_ALshort_cubic16
  | .Mix_Hrtf_ALbyte_point8 | .Mix_Hrtf_ALbyte_lerp8 | .Mix_Hrtf_ALbyte_cubic8 => true
  | _ => false

/-- The call through a `MixerFunc` pointer: the instance of the template it names. -/
def MixerFunc.call (f : MixerFunc) (E : Env α F) (m : Mem α F) (srcdata : SrcPtr)
    (DataPosInt DataPosFrac OutPos SamplesToDo BufferSize : Nat) :
    Except Fault (MixResult α F) :=
  if f.isHrtf then
    Mix_Hrtf E f.sampler m srcdata DataPosInt DataPosFrac OutPos SamplesToDo BufferSize
  else Mix E f.sampler m srcdata DataPosInt DataPosFrac OutPos SamplesToDo BufferSize

end Mixers

/-! ## The kernel selectors -/

/-- The function `Select_point`. -/
def Select_point : FmtType → Option MixerFunc
  | .FmtByte => some .Mix_ALbyte_point8
  | .FmtShort => some .Mix_ALshort_point16
  | .FmtFloat => some .Mix_ALfloat_point32
  | .other => none

/-- The function `Select_lerp`. -/
def Select_lerp : FmtType → Option MixerFunc
  | .FmtByte => some .Mix_ALbyte_lerp8
  | .FmtShort => some .Mix_ALshort_lerp16
  | .FmtFloat => some .Mix_ALfloat_lerp32
  | .other => none

/-- The function `Select_cubic`. -/
def Select_cubic : FmtType → Option MixerFunc
  | .FmtByte => some .Mix_ALbyte_cubic8
  | .FmtShort => some .Mix_ALshort_cubic16
  | .FmtFloat => some .Mix_ALfloat_cubic32
  | .other => none

/-- The function `SelectMixer`; `none` is the null pointer. -/
def SelectMixer (Buffer : ALbuffer) (r : Resampler) : Option MixerFunc :=
  match r with
  | .POINT_RESAMPLER => Select_point Buffer.FmtType
  | .LINEAR_RESAMPLER => Select_lerp Buffer.FmtType
  | .CUBIC_RESAMPLER => Select_cubic Buffer.FmtType
  | .RESAMPLER_MIN => none
  | .RESAMPLER_MAX => none
  | .other => none

/-- The function `Select_Hrtf_point`. -/
def Select_Hrtf_point : FmtType → Option MixerFunc
  | .FmtByte => some .Mix_Hrtf_ALbyte_point8
  | .FmtShort => some .Mix_Hrtf_ALshort_point16
  | .FmtFloat => some .Mix_Hrtf_ALfloat_point32
  | .other => none

/-- The function `Select_Hrtf_lerp`. -/
def Select_Hrtf_lerp : FmtType → Option MixerFunc
  | .FmtByte => some .Mix_Hrtf_ALbyte_lerp8
  | .FmtShort => some .Mix_Hrtf_ALshort_lerp16
  | .FmtFloat => some .Mix_Hrtf_ALfloat_lerp32
  | .other => none

/-- The function `Select_Hrtf_cubic`. -/
def Select_Hrtf_cubic : FmtType → Option MixerFunc
  | .FmtByte => some .Mix_Hrtf_ALbyte_cubic8
  | .FmtShort => some .Mix_Hrtf_ALshort_cubic16
  | .FmtFloat => some .Mix_Hrtf_ALfloat_cubic32
  | .other => none

/-- The function `SelectHrtfMixer`; `none` is the null pointer. -/
def SelectHrtfMixer (Buffer : ALbuffer) (r : Resampler) : Option MixerFunc :=
  match r with
  | .POINT_RESAMPLER => Select_Hrtf_point Buffer.FmtType
  | .LINEAR_RESAMPLER => Select_Hrtf_lerp Buffer.FmtType
  | .CUBIC_RESAMPLER => Select_Hrtf_cubic Buffer.FmtType
  | .RESAMPLER_MIN => none
  | .RESAMPLER_MAX => none
  | .other => none

/-! ## The source feed loop -/

/-- Modelled from the spec: the table `ResamplerPrePadding[]` of `ALu.c`, 0, 0 and 1 frames
for the point, linear and cubic resamplers; any other index is outside the table. -/
def ResamplerPrePadding : Resampler → Option Nat
  | .POINT_RESAMPLER => some 0
  | .LINEAR_RESAMPLER => some 0
  | .CUBIC_RESAMPLER => some 1
  | _ => none

/-- Modelled from the spec: the table `ResamplerPadding[]` of `ALu.c`, 0, 1 and 2 frames
for the point, linear and cubic resamplers; any other index is outside the table. -/
def ResamplerPadding : Resampler → Option Nat
  | .POINT_RESAMPLER => some 0
  | .LINEAR_RESAMPLER => some 1
  | .CUBIC_RESAMPLER => some 2
  | _ => none

/-- The queue of a source, as a list of items. -/
abbrev Queue := List (Option ALbuffer)

/-- The field `next` of the item at index `i`; `none` is the null pointer. -/
def itemNext (q : Queue) (i : Nat) : Option Nat := if i + 1 < q.length then some (i + 1) else none

/-- The field `prev` of the item at index `i`. -/
def itemPrev (i : Nat) : Option Nat := if 0 < i then some (i - 1) else none

/-- The pointer `Source->queue` to the first item. -/
def queueHead (q : Queue) : Option Nat := if 0 < q.length then some 0 else none

/-- The field `buffer` of the item at index `i`. -/
def itemBuffer (q : Queue) (i : Nat) : Option ALbuffer := q.getD i none

/-- The call `memset(&SrcData[SrcDataSize], 0, n)`, with `SrcDataSize += n`. -/
def memset (SrcData : List Nat) (n : Nat) : List Nat := SrcData ++ List.replicate n 0

/-- The call `memcpy(&SrcData[SrcDataSize], &Data[pos], n)`, with `SrcDataSize += n`; it
faults when it would read past the end of `Data`. -/
def memcpy (SrcData Data : List Nat) (pos n : Nat) : Except Fault (List Nat) :=
  if n = 0 ∨ pos + n ≤ Data.length then .ok (SrcData ++ (Data.drop pos).take n)
  else .error .badCopy

/-- The loop `while(pos < BufferPrePadding) pos += LoopEnd-LoopStart` of the static looping
path, `len` being `LoopEnd-LoopStart`. -/
def wrapPre (len pre : Nat) : Nat → Nat → Except Fault Nat
  | 0, _ => .error .outOfFuel
  | fuel + 1, pos => if pos < pre then wrapPre len pre fuel (u32 (pos + len)) else .ok pos

/-- The loop `while(BufferSize > 0)` of the static looping path, which tiles the loop
region from byte `start` into the rest of the window. -/
def tileLoop (Data : List Nat) (start : Nat) : Nat → List Nat → Nat → Nat → Except Fault (List Nat)
  | 0, _, _, _ => .error .outOfFuel
  | fuel + 1, SrcData, BufferSize, DataSize =>
    if 0 < BufferSize then
      match memcpy SrcData Data start (min BufferSize DataSize) with
      | .error e => .error e
      | .ok S => tileLoop Data start fuel S (BufferSize - min BufferSize DataSize)
                   (min BufferSize DataSize)
    else .ok SrcData

/-- The window assembly of a static source (`Source->lSourceType == AL_STATIC`): the
assembled bytes and the local `Looping` afterwards. -/
def assembleStatic (fuel : Nat) (ALBuffer : ALbuffer) (Looping : Bool)
    (DataPosInt BufferPrePadding FrameSize BufferSize : Nat) : Except Fault (List Nat × Bool) :=
  if Looping = false ∨ ALBuffer.LoopEnd ≤ DataPosInt then
    let DataSize0 := min BufferSize (u32 ((BufferPrePadding - DataPosInt) * FrameSize))
    let S0 : List Nat := if BufferPrePadding ≤ DataPosInt then [] else memset [] DataSize0
    let B0 := if BufferPrePadding ≤ DataPosInt then BufferSize else BufferSize - DataSize0
    let pos := if BufferPrePadding ≤ DataPosInt then u32 ((DataPosInt - BufferPrePadding) * FrameSize)
               else 0
    let DataSize := min B0 (usub ALBuffer.size pos)
    match memcpy S0 ALBuffer.data pos DataSize with
    | .error e => .error e
    | .ok S1 => .ok (memset S1 (B0 - DataSize), false)
  else
    let LoopStart := ALBuffer.LoopStart
    let LoopEnd := ALBuffer.LoopEnd
    let DataSize0 := min BufferSize (u32 ((BufferPrePadding - DataPosInt) * FrameSize))
    let zeroFill := ¬ LoopStart ≤ DataPosInt ∧ ¬ BufferPrePadding ≤ DataPosInt
    let S0 : List Nat := if zeroFill then memset [] DataSize0 else []
    let B0 := if zeroFill then BufferSize - DataSize0 else BufferSize
    match (if LoopStart ≤ DataPosInt then
             match wrapPre (usub LoopEnd LoopStart) BufferPrePadding fuel (DataPosInt - LoopStart) with
             | .error e => .error e
             | .ok p => .ok (u32 (u32 (usub p BufferPrePadding + LoopStart) * FrameSize))
           else if BufferPrePadding ≤ DataPosInt then
             .ok (u32 ((DataPosInt - BufferPrePadding) * FrameSize))
           else (.ok 0 : Except Fault Nat)) with
    | .error e => .error e
    | .ok pos =>
      let DataSize := min B0 (usub (u32 (LoopEnd * FrameSize)) pos)
      match memcpy S0 ALBuffer.data pos DataSize with
      | .error e => .error e
      | .ok S1 =>
        match tileLoop ALBuffer.data (u32 (LoopStart * FrameSize)) fuel S1 (B0 - DataSize)
                (u32 (usub LoopEnd LoopStart * FrameSize)) with
        | .error e => .error e
        | .ok S2 => .ok (S2, true)

/-- The loop `while(pos > 0)` of the streaming path, which walks back through the queue
for the pre-padding: the item reached, the byte offset in it, the window and the bytes
still to fill. -/
def backLoop (q : Queue) (Looping : Bool) :
    Nat → Nat → Nat → List Nat → Nat → Except Fault (Nat × Nat × List Nat × Nat)
  | 0, _, _, _, _ => .error .outOfFuel
  | fuel + 1, Iter, pos, SrcData, BufferSize =>
    if 0 < pos then
      if itemPrev Iter = none ∧ Looping = false then
        .ok (Iter, 0, memset SrcData (min BufferSize pos), BufferSize - min BufferSize pos)
      else
        let It := match itemPrev Iter with
          | some p => p
          | none => q.length - 1
        match itemBuffer q It with
        | some b =>
          if pos < b.size then .ok (It, b.size - pos, SrcData, BufferSize)
          else backLoop q Looping fuel It (pos - b.size) SrcData BufferSize
        | none => backLoop q Looping fuel It pos SrcData BufferSize
    else .ok (Iter, pos, SrcData, BufferSize)

/-- The loop `while(BufferListIter && BufferSize > 0)` of the streaming path, which copies
forward through the queue. -/
def fwdLoop (q : Queue) (Looping : Bool) :
    Nat → Option Nat → Nat → List Nat → Nat → Except Fault (List Nat)
  | 0, _, _, _, _ => .error .outOfFuel
  | fuel + 1, Iter, pos, SrcData, BufferSize =>
    match Iter with
    | none => .ok SrcData
    | some it =>
      if 0 < BufferSize then
        let copied : Except Fault (Nat × List Nat × Nat) :=
          match itemBuffer q it with
          | none => .ok (pos, SrcData, BufferSize)
          | some b =>
            if b.size ≤ pos then .ok (pos - b.size, SrcData, BufferSize)
            else
              match memcpy SrcData b.data pos (min BufferSize (b.size - pos)) with
              | .error e => .error e
              | .ok S => .ok (0, S, BufferSize - min BufferSize (b.size - pos))
        match copied with
        | .error e => .error e
        | .ok (pos1, S1, B1) =>
          match itemNext q it with
          | some nx => fwdLoop q Looping fuel (some nx) pos1 S1 B1
          | none =>
            if Looping then fwdLoop q Looping fuel (queueHead q) pos1 S1 B1
            else .ok (memset S1 B1)
      else .ok SrcData

/-- The window assembly of a source that is not static: crawl the buffer queue. -/
def assembleStream (fuel : Nat) (q : Queue) (Looping : Bool) (BufferListItem : Option Nat)
    (DataPosInt BufferPrePadding FrameSize BufferSize : Nat) : Except Fault (List Nat) :=
  if BufferPrePadding ≤ DataPosInt then
    fwdLoop q Looping fuel BufferListItem (u32 ((DataPosInt - BufferPrePadding) * FrameSize))
      [] BufferSize
  else
    match BufferListItem with
    | none => .error .nullDeref
    | some it =>
      match backLoop q Looping fuel it (u32 ((BufferPrePadding - DataPosInt) * FrameSize))
              [] BufferSize with
      | .error e => .error e
      | .ok (It, pos, S, B) => fwdLoop q Looping fuel (some It) pos S B

/-- The number of bytes asked for at the start of an iteration ("Figure out how many
buffer bytes will be needed"), capped by the stack buffer and cut to whole frames.  The
64-bit intermediate values must fit `ALint64`. -/
def requestSize (STACK_DATA_SIZE SamplesToDo OutPos increment DataPosFrac BufferPadding
    BufferPrePadding FrameSize : Nat) : Except Fault Nat :=
  let d1 := u32 (usub SamplesToDo OutPos + 1) * increment + u32 (DataPosFrac + FRACTIONMASK)
  let d2 := ((d1 >>> FRACTIONBITS) + u32 (BufferPadding + BufferPrePadding)) * FrameSize
  if 9223372036854775808 ≤ d1 ∨ 9223372036854775808 ≤ d2 then .error .overflow
  else if FrameSize = 0 then .error .divByZero
  else
    let BufferSize := u32 (if STACK_DATA_SIZE < d2 then STACK_DATA_SIZE else d2)
    .ok (BufferSize - BufferSize % FrameSize)

/-- The number of output samples handed to the mixer ("Figure out how many samples we can
mix"). -/
def mixCount (SrcDataSize SamplesToDo OutPos increment DataPosFrac BufferPadding
    BufferPrePadding FrameSize : Nat) : Except Fault Nat :=
  if FrameSize = 0 ∨ increment = 0 then .error .divByZero
  else
    let DataSize64 : Int :=
      (((SrcDataSize / FrameSize : Nat) : Int) - (u32 (BufferPadding + BufferPrePadding) : Nat))
        * (FRACTIONONE : Nat) - (increment : Nat) - (DataPosFrac : Nat)
    let BufferSize := toU32 (Int.tdiv (DataSize64 + (usub increment 1 : Nat)) (increment : Nat))
    .ok (min BufferSize (usub SamplesToDo OutPos))

/-- One call of the mixer as `MixSource` makes it: the window assembled for it, the byte
offset of the pointer handed over and the scalar arguments. -/
structure MixCall where
  SrcData : List Nat
  base : Nat
  DataPosInt : Nat
  DataPosFrac : Nat
  OutPos : Nat
  BufferSize : Nat
  deriving DecidableEq, Repr

/-- The locals of `MixSource` that its loops carry, the memory, and the record of the mixer
calls made so far. -/
structure FeedSt (α F : Type) where
  mem : Mem α F
  State : ALstate
  BuffersPlayed : Nat
  DataPosInt : Nat
  DataPosFrac : Nat
  Looping : Bool
  BufferListItem : Option Nat
  OutPos : Nat
  calls : List MixCall

/-- The loop `while(1)` under "Handle looping sources". -/
def advanceLoop {α F : Type} (FrameSize : Nat) : Nat → FeedSt α F → Except Fault (FeedSt α F)
  | 0, _ => .error .outOfFuel
  | fuel + 1, st =>
    match st.BufferListItem with
    | none => .error .nullDeref
    | some it =>
      let q := st.mem.Source.queue
      let ALBuffer := itemBuffer q it
      let DataSize := match ALBuffer with
        | some b => b.size / FrameSize
        | none => 0
      let LoopStart := match ALBuffer with
        | some b => b.LoopStart
        | none => 0
      let LoopEnd := match ALBuffer with
        | some b => b.LoopEnd
        | none => 0
      if FrameSize = 0 ∧ ALBuffer.isSome then .error .divByZero
      else if ALBuffer.isSome ∧ st.DataPosInt < LoopEnd then .ok st
      else if st.Looping = true ∧ st.mem.Source.lSourceType = .AL_STATIC then
        if usub LoopEnd LoopStart = 0 then .error .divByZero
        else .ok { st with
          DataPosInt := u32 (usub st.DataPosInt LoopStart % usub LoopEnd LoopStart + LoopStart) }
      else if st.DataPosInt < DataSize then .ok st
      else
        match itemNext q it with
        | some nx =>
          advanceLoop FrameSize fuel { st with
            BufferListItem := some nx
            BuffersPlayed := u32 (st.BuffersPlayed + 1)
            DataPosInt := usub st.DataPosInt DataSize }
        | none =>
          if st.Looping then
            advanceLoop FrameSize fuel { st with
              BufferListItem := queueHead q
              BuffersPlayed := 0
              DataPosInt := usub st.DataPosInt DataSize }
          else
            .ok { st with
              State := .AL_STOPPED
              BufferListItem := queueHead q
              BuffersPlayed := st.mem.Source.BuffersInQueue
              DataPosInt := 0
              DataPosFrac := 0 }

section Feed

variable {α F : Type} [Add α] [Sub α] [Mul α] [Div α] [IntCast α]

/-- The window assembly of one iteration, for either source type: the assembled bytes and
the local `Looping` afterwards. -/
def assemble (fuel : Nat) (Source : ALsource α F) (Looping : Bool) (BufferListItem : Option Nat)
    (DataPosInt BufferPrePadding FrameSize BufferSize : Nat) : Except Fault (List Nat × Bool) :=
  if Source.lSourceType = .AL_STATIC then
    match Source.queue with
    | [] => .error .nullDeref
    | none :: _ => .error .nullDeref
    | some ALBuffer :: _ =>
      assembleStatic fuel ALBuffer Looping DataPosInt BufferPrePadding FrameSize BufferSize
  else
    match assembleStream fuel Source.queue Looping BufferListItem DataPosInt BufferPrePadding
            FrameSize BufferSize with
    | .error e => .error e
    | .ok S => .ok (S, Looping)

/-- The body of the `do ... while` loop of `MixSource`. -/
def feedIter (E : Env α F) (fuel SamplesToDo increment : Nat) (r : Resampler) (FrameSize : Nat)
    (st : FeedSt α F) : Except Fault (FeedSt α F) :=
  match ResamplerPrePadding r, ResamplerPadding r with
  | some BufferPrePadding, some BufferPadding =>
    match requestSize E.STACK_DATA_SIZE SamplesToDo st.OutPos increment st.DataPosFrac
            BufferPadding BufferPrePadding FrameSize with
    | .error e => .error e
    | .ok BufferSize0 =>
      match assemble fuel st.mem.Source st.Looping st.BufferListItem st.DataPosInt
              BufferPrePadding FrameSize BufferSize0 with
      | .error e => .error e
      | .ok (SrcData, Looping) =>
        match mixCount SrcData.length SamplesToDo st.OutPos increment st.DataPosFrac
                BufferPadding BufferPrePadding FrameSize with
        | .error e => .error e
        | .ok BufferSize =>
          match st.mem.Source.Params.DoMix with
          | none => .error .nullDeref
          | some DoMix =>
            match DoMix.call E st.mem
                    { bytes := SrcData, off := ((u32 (BufferPrePadding * FrameSize) : Nat) : Int) }
                    st.DataPosInt st.DataPosFrac st.OutPos SamplesToDo BufferSize with
            | .error e => .error e
            | .ok res =>
              advanceLoop FrameSize fuel { st with
                mem := res.mem
                DataPosInt := res.DataPosInt
                DataPosFrac := res.DataPosFrac
                Looping := Looping
                OutPos := u32 (st.OutPos + BufferSize)
                calls := st.calls ++ [{ SrcData := SrcData
                                        base := u32 (BufferPrePadding * FrameSize)
                                        DataPosInt := st.DataPosInt
                                        DataPosFrac := st.DataPosFrac
                                        OutPos := st.OutPos
                                        BufferSize := BufferSize }] }
  | _, _ => .error .badIndex

/-- The loop `do ... while(State == AL_PLAYING && OutPos < SamplesToDo)` of `MixSource`;
`inner` is the fuel of the loops inside the body. -/
def feedLoop (E : Env α F) (inner SamplesToDo increment : Nat) (r : Resampler) (FrameSize : Nat) :
    Nat → FeedSt α F → Except Fault (FeedSt α F)
  | 0, _ => .error .outOfFuel
  | fuel + 1, st =>
    match feedIter E inner SamplesToDo increment r FrameSize st with
    | .error e => .error e
    | .ok st1 =>
      if st1.State = .AL_PLAYING ∧ st1.OutPos < SamplesToDo then
        feedLoop E inner SamplesToDo increment r FrameSize fuel st1
      else .ok st1

/-- The loop `for(i = 0;i < BuffersPlayed;i++) BufferListItem = BufferListItem->next`. -/
def walkQueue (q : Queue) : Nat → Option Nat → Except Fault (Option Nat)
  | 0, it => .ok it
  | n + 1, it =>
    match it with
    | none => .error .nullDeref
    | some i => walkQueue q n (itemNext q i)

/-- The function `MixSource`.  Besides the memory it leaves behind, the result lists the
mixer calls it made, in order. -/
def MixSource (E : Env α F) (fuel : Nat) (m : Mem α F) (SamplesToDo : Nat) :
    Except Fault (Mem α F × List MixCall) :=
  let Source := m.Source
  match walkQueue Source.queue Source.BuffersPlayed (queueHead Source.queue) with
  | .error e => .error e
  | .ok BufferListItem =>
    match feedLoop E fuel SamplesToDo Source.Params.Step Source.Resampler
            (u32 (Source.NumChannels * Source.SampleSize)) fuel
            { mem := m
              State := Source.state
              BuffersPlayed := Source.BuffersPlayed
              DataPosInt := Source.position
              DataPosFrac := Source.position_fraction
              Looping := Source.bLooping
              BufferListItem := BufferListItem
              OutPos := 0
              calls := [] } with
    | .error e => .error e
    | .ok st =>
      let S := st.mem.Source
      .ok ({ st.mem with Source := { S with
              state := st.State
              BuffersPlayed := st.BuffersPlayed
              position := st.DataPosInt
              position_fraction := st.DataPosFrac
              HrtfOffset := u32 (S.HrtfOffset + st.OutPos)
              HrtfCounter := if st.State = .AL_PLAYING then usub (max S.HrtfCounter st.OutPos) st.OutPos
                             else 0
              HrtfMoving := if st.State = .AL_PLAYING then true else false } },
           st.calls)

end Feed

/-! ## Auxiliary notions used in the statements -/

/-- The pair `(pos, frac)` after the phase advance of one output step. -/
def phaseStep (increment : Nat) (p : Nat × Nat) : Nat × Nat :=
  (u32 (p.1 + (u32 (p.2 + increment) >>> FRACTIONBITS)), u32 (p.2 + increment) &&& FRACTIONMASK)

/-- The pair `(pos, frac)` of the locals of a sample loop. -/
def Cur.ph {α F : Type} (c : Cur α F) : Nat × Nat := (c.pos, c.frac)

/-- The number of frames a kernel reads before the frame it is applied to. -/
def SamplerId.pre : SamplerId → Nat
  | .cubic32 | .cubic16 | .cubic8 => 1
  | _ => 0

/-- The number of frames a kernel reads after the frame it is applied to. -/
def SamplerId.post : SamplerId → Nat
  | .point32 | .point16 | .point8 => 0
  | .lerp32 | .lerp16 | .lerp8 => 1
  | .cubic32 | .cubic16 | .cubic8 => 2

/-- The window behind `data` holds every frame of `FrameSize` bytes with index from `lo`
to `hi`, counted from the pointer. -/
def Covers (data : SrcPtr) (FrameSize : Nat) (lo hi : Int) : Prop :=
  0 ≤ data.off + lo * (FrameSize : Int) ∧
    data.off + (hi + 1) * (FrameSize : Int) ≤ (data.bytes.length : Int)

/-- The part of the memory that the mixers only read: the control fields of the source, the
resolved parameters other than filter state, the routing of the sends and the effect types
of the slots. -/
structure Fixed (α : Type) where
  state : ALstate
  BuffersPlayed : Nat
  position : Nat
  position_fraction : Nat
  bLooping : Bool
  Resampler : Resampler
  NumChannels : Nat
  SampleSize : Nat
  lSourceType : SourceType
  queue : List (Option ALbuffer)
  BuffersInQueue : Nat
  HrtfOffset : Nat
  HrtfCounter : Nat
  HrtfMoving : Bool
  Step : Nat
  DoMix : Option MixerFunc
  DryGains : Nat → Nat → α
  HrtfCoeffs : Nat → Nat → Nat → α
  HrtfCoeffStep : Nat → Nat → α
  HrtfDelay : Nat → Nat → Nat
  HrtfDelayStep : Nat → Int
  SendSlot : Nat → Option Nat
  WetGain : Nat → α
  NumAuxSends : Nat
  effectType : Nat → Nat

/-- The read-only part of a memory. -/
def Mem.fixed {α F : Type} (m : Mem α F) : Fixed α :=
  { state := m.Source.state
    BuffersPlayed := m.Source.BuffersPlayed
    position := m.Source.position
    position_fraction := m.Source.position_fraction
    bLooping := m.Source.bLooping
    Resampler := m.Source.Resampler
    NumChannels := m.Source.NumChannels
    SampleSize := m.Source.SampleSize
    lSourceType := m.Source.lSourceType
    queue := m.Source.queue
    BuffersInQueue := m.Source.BuffersInQueue
    HrtfOffset := m.Source.HrtfOffset
    HrtfCounter := m.Source.HrtfCounter
    HrtfMoving := m.Source.HrtfMoving
    Step := m.Source.Params.Step
    DoMix := m.Source.Params.DoMix
    DryGains := m.Source.Params.DryGains
    HrtfCoeffs := m.Source.Params.HrtfCoeffs
    HrtfCoeffStep := m.Source.Params.HrtfCoeffStep
    HrtfDelay := m.Source.Params.HrtfDelay
    HrtfDelayStep := m.Source.Params.HrtfDelayStep
    SendSlot := fun o => (m.Source.Params.Send o).Slot
    WetGain := fun o => (m.Source.Params.Send o).WetGain
    NumAuxSends := m.Device.NumAuxSends
    effectType := fun a => (m.Slot a).effectType }

/-- The kernel a format and a resampler call for, as the specification words it: the
element type of the format (8-bit, 16-bit, float) with the point, linear or cubic
interpolator; no kernel for any other format or resampler value. -/
def specKernel : FmtType → Resampler → Option SamplerId
  | .FmtByte, .POINT_RESAMPLER => some .point8
  | .FmtByte, .LINEAR_RESAMPLER => some .lerp8
  | .FmtByte, .CUBIC_RESAMPLER => some .cubic8
  | .FmtShort, .POINT_RESAMPLER => some .point16
  | .FmtShort, .LINEAR_RESAMPLER => some .lerp16
  | .FmtShort, .CUBIC_RESAMPLER => some .cubic16
  | .FmtFloat, .POINT_RESAMPLER => some .point32
  | .FmtFloat, .LINEAR_RESAMPLER => some .lerp32
  | .FmtFloat, .CUBIC_RESAMPLER => some .cubic32
  | _, _ => none

/-- The value of a returning run, and `d` for a run that faults. -/
def okOr {β : Type} (d : β) : Except Fault β → β
  | .ok b => b
  | .error _ => d

/-! ### Example data

An instance of the parameters for concrete runs: exact rational arithmetic, pass-through
filters, signed 8-bit, little-endian 16-bit and little-endian binary32 elements, the `lerp`
and `cubic` of `alu.h`. -/

/-- The value of a little-endian IEEE 754 binary32 element, for concrete runs (0 for the
infinities and NaN). -/
def ieee32 (l : List Nat) : ℚ :=
  if (l.getD 0 0 + 256 * l.getD 1 0 + 65536 * l.getD 2 0 + 16777216 * l.getD 3 0)
      / 8388608 % 256 = 0 then
    (if l.getD 3 0 < 128 then 1 else -1)
      * (((l.getD 0 0 + 256 * l.getD 1 0 + 65536 * l.getD 2 0) % 8388608 : Nat) : ℚ) / 2 ^ 149
  else if (l.getD 0 0 + 256 * l.getD 1 0 + 65536 * l.getD 2 0 + 16777216 * l.getD 3 0)
      / 8388608 % 256 = 255 then 0
  else
    (if l.getD 3 0 < 128 then 1 else -1)
      * ((8388608 + (l.getD 0 0 + 256 * l.getD 1 0 + 65536 * l.getD 2 0) % 8388608 : Nat) : ℚ)
      * 2 ^ ((l.getD 0 0 + 256 * l.getD 1 0 + 65536 * l.getD 2 0 + 16777216 * l.getD 3 0)
              / 8388608 % 256) / 2 ^ 150

/-- An environment for concrete runs, with a stack buffer of `stack` bytes. -/
def exEnv (stack : Nat) : Env ℚ Unit :=
  { STACK_DATA_SIZE := stack
    MAXCHANNELS := 9
    FRONT_LEFT := 0
    FRONT_RIGHT := 1
    HRIR_BITS := 5
    SRC_HISTORY_BITS := 6
    AL_EFFECT_NULL := 0
    ofByte := fun l => if l.headD 0 < 128 then (l.headD 0 : ℚ) else (l.headD 0 : ℚ) - 256
    ofShort := fun l =>
      if l.headD 0 + 256 * (l.tail.headD 0) < 32768 then ((l.headD 0 + 256 * (l.tail.headD 0) : Nat) : ℚ)
      else ((l.headD 0 + 256 * (l.tail.headD 0) : Nat) : ℚ) - 65536
    ofFloat := ieee32
    lerp := fun a b m => a + (b - a) * m
    cubic := fun v0 v1 v2 v3 m =>
      ((-1/2) * v0 + (3/2) * v1 + (-3/2) * v2 + (1/2) * v3) * m * (m * m)
        + (v0 + (-5/2) * v1 + 2 * v2 + (-1/2) * v3) * (m * m)
        + ((-1/2) * v0 + (1/2) * v2) * m + v1
    lpFilter2P := fun f _ x => (f, x)
    lpFilter2PC := fun _ _ x => x
    lpFilter1P := fun f _ x => (f, x)
    lpFilter1PC := fun _ _ x => x }

/-- A mono source of one-byte samples for concrete runs: unit gain to output channel 0, no
sends, HRTF target coefficient 1 at tap 0. -/
def exSource (q : Queue) (ty : SourceType) (looping : Bool) (r : Resampler)
    (g : Option MixerFunc) (state : ALstate) (played pos frac step : Nat) : ALsource ℚ Unit :=
  { state := state
    BuffersPlayed := played
    position := pos
    position_fraction := frac
    bLooping := looping
    Resampler := r
    NumChannels := 1
    SampleSize := 1
    lSourceType := ty
    queue := q
    BuffersInQueue := q.length
    HrtfOffset := 0
    HrtfCounter := 0
    HrtfMoving := false
    HrtfHistory := fun _ _ => 0
    HrtfValues := fun _ _ _ => 0
    Params :=
      { Step := step
        DoMix := g
        iirFilter := ()
        DryGains := fun _ c => if c = 0 then 1 else 0
        HrtfCoeffs := fun _ k _ => if k = 0 then 1 else 0
        HrtfCoeffStep := fun _ _ => 0
        HrtfDelay := fun _ _ => 0
        HrtfDelayStep := fun _ => 0
        Send := fun _ => { Slot := none, WetGain := 0, iirFilter := () } } }

/-- A memory around a source for concrete runs: silent accumulators, no sends. -/
def exMem (s : ALsource ℚ Unit) : Mem ℚ Unit :=
  { Source := s
    Device := { DryBuffer := fun _ _ => 0, ClickRemoval := fun _ => 0, PendingClicks := fun _ => 0,
                NumAuxSends := 0 }
    Slot := fun _ => { effectType := 0, WetBuffer := fun _ => 0, ClickRemoval := fun _ => 0,
                       PendingClicks := fun _ => 0 } }

/-- A buffer of one-byte samples whose loop covers it entirely. -/
def exBuffer (data : List Nat) : ALbuffer :=
  { data := data, LoopStart := 0, LoopEnd := data.length, FmtType := .FmtByte }

/-- The result of a mixer call for concrete runs (the unchanged memory if it faults). -/
def exCall (g : MixerFunc) (stack : Nat) (m : Mem ℚ Unit) (data : SrcPtr)
    (p f o std n : Nat) : MixResult ℚ Unit :=
  okOr { mem := m, DataPosInt := p, DataPosFrac := f } (g.call (exEnv stack) m data p f o std n)

/-- The result of `MixSource` for concrete runs (the unchanged memory if it faults). -/
def exRun (stack fuel : Nat) (m : Mem ℚ Unit) (std : Nat) : Mem ℚ Unit × List MixCall :=
  okOr (m, []) (MixSource (exEnv stack) fuel m std)

/-- Every kernel call of a mixer call returns: the kernel returns at each of the phases
`(phaseStep inc)^[k] (0, f)`, `k ≤ n`, on every channel. -/
def SamplesOk {α F : Type} [Add α] [Sub α] [Mul α] [Div α] [IntCast α] (E : Env α F) (smp : SamplerId) (data : SrcPtr) (nc inc f n : Nat) : Prop :=
  ∀ k, k ≤ n → ∀ i, i < nc →
    ∃ v : α, sample E smp data nc ((phaseStep inc)^[k] (0, f)).1
      ((phaseStep inc)^[k] (0, f)).2 i = .ok v

/-- A static, non-looping mono source over the four-sample buffer `[10, 11, 12, 13]`, point
resampler at unit step, in the given state at the given position. -/
def exStatic4 (state : ALstate) (pos : Nat) : Mem ℚ Unit :=
  exMem (exSource [some (exBuffer [10, 11, 12, 13])] .AL_STATIC false .POINT_RESAMPLER
    (some .Mix_ALbyte_point8) state 0 pos 0 16384)

/-- The filtered samples of source channel `i` as the specification describes them, for
`n` output steps from step `k` on: step `k` takes the kernel at source frame
`(frac0 + k*step) >> FRACTIONBITS` with phase `(frac0 + k*step) & FRACTIONMASK` and passes it
through the filter.  The result is the filter state after the steps and their values. -/
def specFiltered {α F : Type} [Add α] [Sub α] [Mul α] [Div α] [IntCast α]
    (E : Env α F) (smp : SamplerId) (data : SrcPtr) (nc step frac0 i : Nat) :
    Nat → Nat → F → Except Fault (F × List α)
  | 0, _, flt => .ok (flt, [])
  | n + 1, k, flt =>
    match sample E smp data nc ((frac0 + k * step) >>> FRACTIONBITS)
            ((frac0 + k * step) &&& FRACTIONMASK) i with
    | .error e => .error e
    | .ok v =>
      match specFiltered E smp data nc step frac0 i n (k + 1) (E.lpFilter2P flt i v).1 with
      | .error e => .error e
      | .ok (flt1, vs) => .ok (flt1, (E.lpFilter2P flt i v).2 :: vs)

/-- The dry buffer after one source channel as the specification describes it: the value
`vs[k]` of output step `k` times the gain of output channel `c` is added to
`dry_buffer[out_pos + k][c]`, and no other cell changes. -/
def specAddChannel {α : Type} [Add α] [Mul α] (MAXCHANNELS out_pos : Nat) (D : Nat → Nat → α)
    (gains : Nat → α) (vs : List α) : Nat → Nat → α :=
  fun r c =>
    if out_pos ≤ r ∧ c < MAXCHANNELS then
      match vs[r - out_pos]? with
      | some v => D r c + v * gains c
      | none => D r c
    else D r c

/-- The dry path of a plain mixer call as the specification describes it, for `m` source
channels from channel `i` on: the filter state and the dry buffer it leaves. -/
def specDry {α F : Type} [Add α] [Sub α] [Mul α] [Div α] [IntCast α]
    (E : Env α F) (smp : SamplerId) (data : SrcPtr) (nc step frac0 out_pos n : Nat)
    (dry_gains : Nat → Nat → α) :
    Nat → Nat → F → (Nat → Nat → α) → Except Fault (F × (Nat → Nat → α))
  | 0, _, flt, D => .ok (flt, D)
  | m + 1, i, flt, D =>
    match specFiltered E smp data nc step frac0 i n 0 flt with
    | .error e => .error e
    | .ok (flt1, vs) =>
      specDry E smp data nc step frac0 out_pos n dry_gains m (i + 1) flt1
        (specAddChannel E.MAXCHANNELS out_pos D (dry_gains i) vs)

/-- The locals of `MixSource` on entry to its loop, for a source that has played none of
its queue. -/
def exFeed (m : Mem ℚ Unit) : FeedSt ℚ Unit :=
  { mem := m
    State := m.Source.state
    BuffersPlayed := m.Source.BuffersPlayed
    DataPosInt := m.Source.position
    DataPosFrac := m.Source.position_fraction
    Looping := m.Source.bLooping
    BufferListItem := queueHead m.Source.queue
    OutPos := 0
    calls := [] }

/-- A static, non-looping mono source over the six-sample buffer `[10, 20, 30, 40, 50, 60]`,
cubic resampler at one and a half frames per step, playing from frame 1. -/
def exCubic6 : Mem ℚ Unit :=
  exMem (exSource [some (exBuffer [10, 20, 30, 40, 50, 60])] .AL_STATIC false .CUBIC_RESAMPLER
    (some .Mix_ALbyte_cubic8) .AL_PLAYING 0 1 0 24576)

/-- A static, non-looping mono source over `[10, 11, 12, 13]`, point resampler, playing from
frame 0 at a step of `1 / FRACTIONONE` of a frame. -/
def exSlow4 : Mem ℚ Unit :=
  exMem (exSource [some (exBuffer [10, 11, 12, 13])] .AL_STATIC false .POINT_RESAMPLER
    (some .Mix_ALbyte_point8) .AL_PLAYING 0 0 0 1)

/-- What one round of the forward crawl does at item `it`: the byte offset, the window and
the bytes still to fill afterwards. -/
def fwdCopy (q : Queue) (it pos : Nat) (S : List Nat) (B : Nat) : Nat × List Nat × Nat :=
  match itemBuffer q it with
  | none => (pos, S, B)
  | some b =>
    if b.size ≤ pos then (pos - b.size, S, B)
    else (0, S ++ (b.data.drop pos).take (min B (b.size - pos)), B - min B (b.size - pos))

/-- The item after `it` in a queue that is crawled in a circle. -/
def cycNext (q : Queue) (it : Nat) : Nat := if it + 1 < q.length then it + 1 else 0

/-- The number of rounds of a crawl in a circle from item `it` to item `j`. -/
def cycDist (q : Queue) (j it : Nat) : Nat := if it ≤ j then j - it else j + q.length - it

/-- The size of the buffer of item `it`, 0 for an item without a buffer. -/
def bufSize (q : Queue) (it : Nat) : Nat :=
  match itemBuffer q it with
  | some b => b.size
  | none => 0

/-- The item before `it` in a queue that is crawled in a circle. -/
def cycPrev (q : Queue) (it : Nat) : Nat := if 0 < it then it - 1 else q.length - 1

/-- The number of rounds of a backward crawl in a circle from item `it` until it lands on
item `j`. -/
def cycDistBack (q : Queue) (j it : Nat) : Nat := if j < it then it - j else it + q.length - j

/-- The loop end of the buffer of item `it`, 0 for an item without a buffer. -/
def bufLoopEnd (q : Queue) (it : Nat) : Nat :=
  match itemBuffer q it with
  | some b => b.LoopEnd
  | none => 0

/-- The sources and slices for which `MixSource` is shown to return.  `g` is the mixer of
the source, selected for its resampler and sample type; `pre` and `post` are the paddings of
the resampler.  The source has at least one channel; the step is at least 1 and small enough
for the stack buffer (of at most `2^17` bytes) to hold one step beyond the paddings; the
fraction is below `FRACTIONONE`; `SamplesToDo` is below `2^32 - 1`; the current item is in
the queue.  A static source has one queue item, whose buffer (of less than `2^31` bytes)
holds the loop end and the position, with a loop region that is not empty if the source
loops.  A looping source that is not static has a queue item with a buffer of at least one
frame. -/
structure Playable {α F : Type} (E : Env α F) (m : Mem α F) (SamplesToDo : Nat)
    (g : MixerFunc) (pre post : Nat) : Prop where
  do_mix : m.Source.Params.DoMix = some g
  selected : ∃ b, SelectMixer b m.Source.Resampler = some g ∨
    SelectHrtfMixer b m.Source.Resampler = some g
  pre_pad : ResamplerPrePadding m.Source.Resampler = some pre
  post_pad : ResamplerPadding m.Source.Resampler = some post
  sample_size : m.Source.SampleSize = g.sampler.sizeofT
  channels : 0 < m.Source.NumChannels
  stack : E.STACK_DATA_SIZE ≤ 2 ^ 17
  step_pos : 1 ≤ m.Source.Params.Step
  step_le : m.Source.Params.Step
    ≤ (E.STACK_DATA_SIZE / (m.Source.NumChannels * m.Source.SampleSize) - (pre + post) - 1)
      * FRACTIONONE
  frac : m.Source.position_fraction < FRACTIONONE
  todo : SamplesToDo < 2 ^ 32 - 1
  played : m.Source.BuffersPlayed < m.Source.queue.length
  static : m.Source.lSourceType = .AL_STATIC →
    ∃ b, m.Source.queue = [some b] ∧ b.size < 2 ^ 31 ∧
      b.LoopEnd * (m.Source.NumChannels * m.Source.SampleSize) ≤ b.size ∧
      m.Source.position * (m.Source.NumChannels * m.Source.SampleSize) ≤ b.size ∧
      (m.Source.bLooping = true → b.LoopStart < b.LoopEnd)
  stream : m.Source.lSourceType ≠ .AL_STATIC → m.Source.bLooping = true →
    ∃ j, j < m.Source.queue.length ∧
      m.Source.NumChannels * m.Source.SampleSize ≤ bufSize m.Source.queue j

/-- What the loop of `MixSource` keeps true of its locals at the start of each iteration,
for a source `m` as on entry. -/
structure FeedInv {α F : Type} (m : Mem α F) (SamplesToDo : Nat) (st : FeedSt α F) : Prop where
  fixed : st.mem.fixed = m.fixed
  frac : st.DataPosFrac < FRACTIONONE
  out : st.OutPos ≤ SamplesToDo
  item : ∃ it, st.BufferListItem = some it ∧ it < m.Source.queue.length
  loop : st.Looping = true → m.Source.bLooping = true
  inside : m.Source.lSourceType = .AL_STATIC → ∀ b, m.Source.queue = [some b] →
    st.DataPosInt * (m.Source.NumChannels * m.Source.SampleSize) ≤ b.size

/-- A looping source that is not static, playing a queue of one item without a buffer; the
mixer is set. -/
def exHang : Mem ℚ Unit :=
  exMem (exSource [none] .AL_STREAMING true .POINT_RESAMPLER (some .Mix_ALbyte_point8)
    .AL_PLAYING 0 0 0 16384)

/-- A looping source that is not static, playing from frame 1 of the second buffer of a queue
of two buffers around an item without one, cubic resampler at three quarters of a frame per
step. -/
def exStream : Mem ℚ Unit :=
  exMem (exSource [some (exBuffer [1, 2]), none, some (exBuffer [3, 4, 5])] .AL_STREAMING true
    .CUBIC_RESAMPLER (some .Mix_ALbyte_cubic8) .AL_PLAYING 2 1 0 12288)

/-- The looping of the specification: the frame a position `q` stands for in a buffer
whose loop region is `[LoopStart, LoopEnd)`. -/
def loopIndex (LoopStart LoopEnd q : Nat) : Nat :=
  if q < LoopEnd then q else LoopStart + (q - LoopStart) % (LoopEnd - LoopStart)

/-- Output sample `n` of a slice is served by the call `c`, at phase 0 from the start of
its window, and the frame of `FS` bytes the call finds there, inside the window, is frame
`idx` of the buffer data `Data`. -/
def ServedFrom (Data : List Nat) (FS n idx : Nat) (c : MixCall) : Prop :=
  c.OutPos ≤ n ∧ n < c.OutPos + c.BufferSize ∧ c.base = 0 ∧ c.DataPosFrac = 0 ∧
    (n - c.OutPos + 1) * FS ≤ c.SrcData.length ∧ c.SrcData.length < 4294967296 ∧
    ∀ j, j < FS → c.SrcData[(n - c.OutPos) * FS + j]? = Data[idx * FS + j]?

/-- What the loop of `MixSource` keeps true of its locals for a looping static source that
entered at position `p` at unit step: the position is the looped `p + OutPos`, and every
output sample before `OutPos` was served from the looped frame. -/
structure LoopInv {α F : Type} (b : ALbuffer) (FS p : Nat) (st : FeedSt α F) : Prop where
  playing : st.State = .AL_PLAYING
  looping : st.Looping = true
  frac : st.DataPosFrac = 0
  pos : st.DataPosInt = loopIndex b.LoopStart b.LoopEnd (p + st.OutPos)
  served : ∀ n, n < st.OutPos → ∃ c, c ∈ st.calls ∧
    ServedFrom b.data FS n (loopIndex b.LoopStart b.LoopEnd (p + n)) c

/-- Scenario B: a static, looping mono source over the four-sample buffer
`[10, 11, 12, 13]` with `LoopStart = 1` and `LoopEnd = 3`, point resampler at unit step,
playing from frame 0. -/
def exLoop4 : Mem ℚ Unit :=
  exMem (exSource [some { data := [10, 11, 12, 13], LoopStart := 1, LoopEnd := 3,
                          FmtType := .FmtByte }]
    .AL_STATIC true .POINT_RESAMPLER (some .Mix_ALbyte_point8) .AL_PLAYING 0 0 0 16384)

/-- Scenario A: a static, non-looping mono source over the 16-bit buffer
`[0, 16384, -16384, 0]` (little-endian bytes), point resampler at unit step, unit gain to
output channel 0, in the given state at the given position. -/
def exShort4 (state : ALstate) (pos : Nat) : Mem ℚ Unit :=
  exMem { exSource [some { data := [0, 0, 0, 64, 0, 192, 0, 0], LoopStart := 0, LoopEnd := 4,
                           FmtType := .FmtShort }]
            .AL_STATIC false .POINT_RESAMPLER (some .Mix_ALshort_point16) state 0 pos 0 16384 with
          SampleSize := 2 }

/-- The memory of scenario A after `k` successive calls of `MixSource` with
`SamplesToDo = 1`, the accumulators carried from call to call. -/
def exShortRun : Nat → Mem ℚ Unit
  | 0 => exShort4 .AL_PLAYING 0
  | k + 1 => (exRun 16384 8 (exShortRun k) 1).1

/-- Scenario D: a static, non-looping mono source over the binary32 buffer `[0.0, 1.0]`
(little-endian bytes), linear resampler at half a frame per step, unit gain to output
channel 0, playing from frame 0. -/
def exFloat2 : Mem ℚ Unit :=
  exMem { exSource [some { data := [0, 0, 0, 0, 0, 0, 128, 63], LoopStart := 0, LoopEnd := 2,
                           FmtType := .FmtFloat }]
            .AL_STATIC false .LINEAR_RESAMPLER (some .Mix_ALfloat_lerp32) .AL_PLAYING 0 0 0 8192
          with SampleSize := 4 }

/-- A memory for concrete calls of the HRTF mixers: the mono source of `exSource` with the
mixer `Mix_Hrtf_ALbyte_point8`, at unit step. -/
def exHrtfMem : Mem ℚ Unit :=
  exMem (exSource [] .AL_STATIC false .POINT_RESAMPLER (some .Mix_Hrtf_ALbyte_point8)
    .AL_PLAYING 0 0 0 16384)

/-- A memory for concrete calls of the HRTF mixers whose `hrtf_values` ring holds 1 in every
cell. -/
def exHrtfRing : Mem ℚ Unit :=
  exMem { exSource [] .AL_STATIC false .POINT_RESAMPLER (some .Mix_Hrtf_ALbyte_point8)
            .AL_PLAYING 0 0 0 16384 with HrtfValues := fun _ _ _ => 1 }

/-- An environment for concrete runs whose filters have memory: the state is one number, and
the output and the new state are the mean of the input and the state. -/
def exEnvMemory : Env ℚ ℚ :=
  { STACK_DATA_SIZE := 16384
    MAXCHANNELS := 9
    FRONT_LEFT := 0
    FRONT_RIGHT := 1
    HRIR_BITS := 5
    SRC_HISTORY_BITS := 6
    AL_EFFECT_NULL := 0
    ofByte := (exEnv 16384).ofByte
    ofShort := (exEnv 16384).ofShort
    ofFloat := (exEnv 16384).ofFloat
    lerp := (exEnv 16384).lerp
    cubic := (exEnv 16384).cubic
    lpFilter2P := fun f _ x => ((x + f) / 2, (x + f) / 2)
    lpFilter2PC := fun f _ x => (x + f) / 2
    lpFilter1P := fun f _ x => ((x + f) / 2, (x + f) / 2)
    lpFilter1PC := fun f _ x => (x + f) / 2 }

/-- A memory for concrete calls of the plain mixers in `exEnvMemory`: a mono source of
one-byte samples with unit gain to output channel 0, no sends, and the dry filter in state
`flt`. -/
def exMemoryMem (flt : ℚ) : Mem ℚ ℚ :=
  { Source :=
      { state := .AL_PLAYING
        BuffersPlayed := 0
        position := 0
        position_fraction := 0
        bLooping := false
        Resampler := .POINT_RESAMPLER
        NumChannels := 1
        SampleSize := 1
        lSourceType := .AL_STATIC
        queue := []
        BuffersInQueue := 0
        HrtfOffset := 0
        HrtfCounter := 0
        HrtfMoving := false
        HrtfHistory := fun _ _ => 0
        HrtfValues := fun _ _ _ => 0
        Params :=
          { Step := 16384
            DoMix := some .Mix_ALbyte_point8
            iirFilter := flt
            DryGains := fun _ c => if c = 0 then 1 else 0
            HrtfCoeffs := fun _ k _ => if k = 0 then 1 else 0
            HrtfCoeffStep := fun _ _ => 0
            HrtfDelay := fun _ _ => 0
            HrtfDelayStep := fun _ => 0
            Send := fun _ => { Slot := none, WetGain := 0, iirFilter := 0 } } }
    Device := { DryBuffer := fun _ _ => 0, ClickRemoval := fun _ => 0, PendingClicks := fun _ => 0,
                NumAuxSends := 0 }
    Slot := fun _ => { effectType := 0, WetBuffer := fun _ => 0, ClickRemoval := fun _ => 0,
                       PendingClicks := fun _ => 0 } }

/-- The filtered samples of source channel `i` as the specification describes a sample loop,
for `n` output steps from the phase `ph` (frame and fraction) on: each step takes the kernel
at the current phase, passes it through the filter `filt`, and advances the phase by `step`.
The result is the filter state after the steps and their values. -/
def specStream {α F : Type} [Add α] [Sub α] [Mul α] [Div α] [IntCast α]
    (E : Env α F) (smp : SamplerId) (data : SrcPtr) (nc step i : Nat)
    (filt : F → Nat → α → F × α) : Nat → Nat × Nat → F → Except Fault (F × List α)
  | 0, _, flt => .ok (flt, [])
  | n + 1, ph, flt =>
    match sample E smp data nc ph.1 ph.2 i with
    | .error e => .error e
    | .ok v =>
      match specStream E smp data nc step i filt n (phaseStep step ph) (filt flt i v).1 with
      | .error e => .error e
      | .ok (flt1, vs) => .ok (flt1, (filt flt i v).2 :: vs)

/-- The dry buffer after one output step has added `v` to row `o` at `FRONT_LEFT` and then
at `FRONT_RIGHT`. -/
def specFrontStep {α : Type} [Add α] (FL FR o : Nat) (D : Nat → Nat → α) (v : α) :
    Nat → Nat → α :=
  fun r c =>
    if r = o ∧ c = FR then (if r = o ∧ c = FL then D r c + v else D r c) + v
    else if r = o ∧ c = FL then D r c + v else D r c

/-- The dry buffer after successive output steps from row `o` on (in `ALuint` arithmetic)
have each added their value to their row at `FRONT_LEFT` and `FRONT_RIGHT`; no other cell
changes. -/
def specAddFront {α : Type} [Add α] (FL FR : Nat) :
    Nat → (Nat → Nat → α) → List α → Nat → Nat → α
  | _, D, [] => D
  | o, D, v :: vs => specAddFront FL FR (u32 (o + 1)) (specFrontStep FL FR o D v) vs

/-- The dry path of an HRTF mixer call with the identity response, as the specification
describes it, for `m` source channels from channel `i` on: each output step adds the
filtered sample of the step to its row of the dry buffer at `FRONT_LEFT` and `FRONT_RIGHT`.
The result is the filter state and the dry buffer. -/
def specHrtfDry {α F : Type} [Add α] [Sub α] [Mul α] [Div α] [IntCast α]
    (E : Env α F) (smp : SamplerId) (data : SrcPtr) (nc step frac0 out_pos n : Nat) :
    Nat → Nat → F → (Nat → Nat → α) → Except Fault (F × (Nat → Nat → α))
  | 0, _, flt, D => .ok (flt, D)
  | m + 1, i, flt, D =>
    match specStream E smp data nc step i E.lpFilter2P n (0, frac0) flt with
    | .error e => .error e
    | .ok (flt1, vs) =>
      specHrtfDry E smp data nc step frac0 out_pos n m (i + 1) flt1
        (specAddFront E.FRONT_LEFT E.FRONT_RIGHT out_pos D vs)

/-- What the steady loop of the HRTF template keeps true of its locals for source channel
`i` when the response is the identity: coefficient 1 at tap 0 and 0 at every other tap, no
delay, and an accumulation ring that is zero outside the cell at the ring offset. -/
structure HrtfIdentity {α F : Type} [Field α] (E : Env α F) (i : Nat) (h : HrtfCur α F) :
    Prop where
  coeff1 : h.Coeffs 0 0 = 1 ∧ h.Coeffs 0 1 = 1
  coeff0 : ∀ k, 0 < k → k < E.HRIR_LENGTH → h.Coeffs k 0 = 0 ∧ h.Coeffs k 1 = 0
  delay : h.Delay0 = 0 ∧ h.Delay1 = 0
  offset : h.Offset < 4294967296
  ring : ∀ k, k < E.HRIR_LENGTH → k ≠ h.Offset &&& E.HRIR_MASK →
    h.cur.mem.Source.HrtfValues i k 0 = 0 ∧ h.cur.mem.Source.HrtfValues i k 1 = 0

/-- The wet buffer after successive output steps from row `o` on (in `ALuint` arithmetic)
have each added their value times `gain` to their row; no other row changes. -/
def specAddWet {α : Type} [Add α] [Mul α] (gain : α) :
    Nat → (Nat → α) → List α → Nat → α
  | _, W, [] => W
  | o, W, v :: vs =>
    specAddWet gain (u32 (o + 1)) (fun r => if r = o then W r + v * gain else W r) vs

/-- The pass of one auxiliary send as the specification describes it, for `m` source
channels from channel `i` on: each output step adds the sample of the step, passed through
the one-pole filter, times the wet gain to its row of the wet buffer of the slot.  The
result is the filter state of the send and the wet buffer. -/
def specWetSend {α F : Type} [Add α] [Sub α] [Mul α] [Div α] [IntCast α]
    (E : Env α F) (smp : SamplerId) (data : SrcPtr) (nc step frac0 out_pos n : Nat)
    (gain : α) : Nat → Nat → F → (Nat → α) → Except Fault (F × (Nat → α))
  | 0, _, flt, W => .ok (flt, W)
  | m + 1, i, flt, W =>
    match specStream E smp data nc step i E.lpFilter1P n (0, frac0) flt with
    | .error e => .error e
    | .ok (flt1, vs) =>
      specWetSend E smp data nc step frac0 out_pos n gain m (i + 1) flt1
        (specAddWet gain out_pos W vs)

/-- The loop over the auxiliary sends as the specification describes it, for `k` sends from
send `out` on: a send without a slot, or whose slot has the null effect, is skipped; any
other send makes the pass of `specWetSend` on its own filter state and on the wet buffer of
its slot.  The state is the filter state of every send and the wet buffer of every slot. -/
def specWetSends {α F : Type} [Add α] [Sub α] [Mul α] [Div α] [IntCast α]
    (E : Env α F) (smp : SamplerId) (data : SrcPtr) (nc step frac0 out_pos n : Nat)
    (slot : Nat → Option Nat) (gain : Nat → α) (effect : Nat → Nat) :
    Nat → Nat → (Nat → F) → (Nat → Nat → α) → Except Fault ((Nat → F) × (Nat → Nat → α))
  | 0, _, flt, W => .ok (flt, W)
  | k + 1, out, flt, W =>
    match slot out with
    | none => specWetSends E smp data nc step frac0 out_pos n slot gain effect k (out + 1) flt W
    | some a =>
      if effect a = E.AL_EFFECT_NULL then
        specWetSends E smp data nc step frac0 out_pos n slot gain effect k (out + 1) flt W
      else
        match specWetSend E smp data nc step frac0 out_pos n (gain out) nc 0 (flt out)
                (W a) with
        | .error e => .error e
        | .ok (f1, W1) =>
          specWetSends E smp data nc step frac0 out_pos n slot gain effect k (out + 1)
            (fun o => if o = out then f1 else flt o) (fun b => if b = a then W1 else W b)

/-- A memory for concrete calls with auxiliary sends: the mono source of `exSource` on a
device with two sends; send 0 is routed with wet gain 2 to the slot at address 5, which has
an effect, and send 1 has no slot. -/
def exSendMem : Mem ℚ Unit :=
  { Source :=
      { exSource [] .AL_STATIC false .POINT_RESAMPLER (some .Mix_ALbyte_point8)
          .AL_PLAYING 0 0 0 16384 with
        Params :=
          { Step := 16384
            DoMix := some .Mix_ALbyte_point8
            iirFilter := ()
            DryGains := fun _ c => if c = 0 then 1 else 0
            HrtfCoeffs := fun _ k _ => if k = 0 then 1 else 0
            HrtfCoeffStep := fun _ _ => 0
            HrtfDelay := fun _ _ => 0
            HrtfDelayStep := fun _ => 0
            Send := fun o =>
              if o = 0 then { Slot := some 5, WetGain := 2, iirFilter := () }
              else { Slot := none, WetGain := 0, iirFilter := () } } }
    Device := { DryBuffer := fun _ _ => 0, ClickRemoval := fun _ => 0, PendingClicks := fun _ => 0,
                NumAuxSends := 2 }
    Slot := fun a => { effectType := if a = 5 then 1 else 0, WetBuffer := fun _ => 0,
                       ClickRemoval := fun _ => 0, PendingClicks := fun _ => 0 } }

/-- The number of frames an iteration of the loop of `MixSource` requests for its window when
`SamplesToDo - OutPos + 1` does not wrap: what the remaining samples need, with the
paddings, capped by the stack buffer. -/
def iterFrames (STACK FS std o inc f pre post : Nat) : Nat :=
  min (STACK / FS) (((std - o + 1) * inc + f + 16383) / 16384 + post + pre)

/-- The number of samples an iteration of the loop of `MixSource` mixes on a window of `Fr`
frames: what the frames between the paddings allow, capped by the remaining samples. -/
def iterCount (Fr std o inc f pre post : Nat) : Nat :=
  min ((((Fr - (post + pre)) * 16384 - f - 1) / inc) % 4294967296) (std - o)

/-- What the loop of `MixSource` keeps true of its locals for a static source that does not
loop, over a buffer of `Lfr` frames, entered with the phase `P0` (position times
`FRACTIONONE` plus fraction) at the step `inc`: while the source plays, the phase is `P0`
advanced by `OutPos` steps and the position is inside the buffer; once it has stopped, the
phase advanced by `OutPos` steps has reached the end of the buffer. -/
structure StaticInv {α F : Type} (Lfr P0 inc : Nat) (st : FeedSt α F) : Prop where
  looping : st.Looping = false
  playing : st.State = .AL_PLAYING →
    st.DataPosInt * 16384 + st.DataPosFrac = P0 + st.OutPos * inc ∧ st.DataPosInt < Lfr
  stopped : st.State ≠ .AL_PLAYING →
    st.State = .AL_STOPPED ∧ Lfr * 16384 ≤ P0 + st.OutPos * inc

/-- The bytes of the buffers of a queue, one after the other; an item without a buffer
contributes nothing. -/
def queueBytes : Queue → List Nat
  | [] => []
  | none :: q => queueBytes q
  | some b :: q => b.data ++ queueBytes q

/-- The bytes of the buffer of item `it`, none for an item without a buffer. -/
def bufData (q : Queue) (it : Nat) : List Nat :=
  match itemBuffer q it with
  | some b => b.data
  | none => []

/-- A window of `B` bytes filled from the bytes `l`: the first `B` bytes of `l`, followed by
zeros where `l` is shorter. -/
def windowOf (B : Nat) (l : List Nat) : List Nat :=
  memset (l.take B) (B - (l.take B).length)

/-- Scenario E: a static, non-looping mono source over the six-sample buffer
`[10, 20, 30, 40, 50, 60]`, cubic resampler at unit step, playing from frame 0. -/
def exCubic0 : Mem ℚ Unit :=
  exMem (exSource [some (exBuffer [10, 20, 30, 40, 50, 60])] .AL_STATIC false .CUBIC_RESAMPLER
    (some .Mix_ALbyte_cubic8) .AL_PLAYING 0 0 0 16384)

/-- A playing source that is not static and does not loop, over a queue of one item without
a buffer; point resampler at unit step, the mixer set. -/
def exNoBuffer : Mem ℚ Unit :=
  exMem (exSource [none] .AL_STREAMING false .POINT_RESAMPLER (some .Mix_ALbyte_point8)
    .AL_PLAYING 0 0 0 16384)

/-- A playing source that is not static and does not loop, at position 3 of the second item
of a queue of two buffers of no bytes around an item without a buffer; cubic resampler at
unit step. -/
def exEmptyBuffers : Mem ℚ Unit :=
  exMem (exSource [some (exBuffer []), none, some (exBuffer [])] .AL_STREAMING false
    .CUBIC_RESAMPLER (some .Mix_ALbyte_cubic8) .AL_PLAYING 1 3 0 16384)

/-- The source of `exMemoryMem` (dry filter with memory, in state `flt`), not static, over a
queue of one item without a buffer. -/
def exNoBufferMemory (flt : ℚ) : Mem ℚ ℚ :=
  { exMemoryMem flt with
    Source := { (exMemoryMem flt).Source with
      lSourceType := .AL_STREAMING
      queue := [none]
      BuffersInQueue := 1 } }

/-- The total sample count of the first `k` items of a queue ("total sample count of the
first buffers_played items"), in frames of `FS` bytes; an item without a buffer counts 0. -/
def framesBefore (q : Queue) (FS : Nat) : Nat → Nat
  | 0 => 0
  | k + 1 => framesBefore q FS k + bufSize q k / FS

/-- Scenario C: a source that is not static and does not loop, over a queue of three mono
8-bit buffers of two samples each, point resampler at unit step, playing from the start. -/
def exQueue3 : Mem ℚ Unit :=
  exMem (exSource [some (exBuffer [1, 2]), some (exBuffer [3, 4]), some (exBuffer [5, 6])]
    .AL_STREAMING false .POINT_RESAMPLER (some .Mix_ALbyte_point8) .AL_PLAYING 0 0 0 16384)

/-- The data of a mono 8-bit buffer of `2^31 - 1` zero samples. -/
def exBigData : List Nat := List.replicate 2147483647 0

/-- A source that is not static and does not loop, over a queue of three mono 8-bit buffers
of `2^31 - 1` zero samples each, point resampler at unit step, playing from the start. -/
def exQueueBig : Mem ℚ Unit :=
  exMem (exSource [some (exBuffer exBigData), some (exBuffer exBigData),
      some (exBuffer exBigData)]
    .AL_STREAMING false .POINT_RESAMPLER (some .Mix_ALbyte_point8) .AL_PLAYING 0 0 0 16384)

/-- What the loop of `MixSource` keeps true of its locals for a playing source that is not
static and does not loop, over the queue `q`, entered `P0` frames into the concatenation of
the queue, at unit step: the current item is item `BuffersPlayed`, the position is inside
it and stands `P0 + OutPos` frames into the concatenation, and every output sample before
`OutPos` was served from its frame of the concatenation. -/
structure StreamInv {α F : Type} (q : Queue) (FS P0 : Nat) (st : FeedSt α F) : Prop where
  playing : st.State = .AL_PLAYING
  looping : st.Looping = false
  frac : st.DataPosFrac = 0
  item : st.BufferListItem = some st.BuffersPlayed
  inq : st.BuffersPlayed < q.length
  pos : framesBefore q FS st.BuffersPlayed + st.DataPosInt = P0 + st.OutPos
  inside : st.DataPosInt < bufSize q st.BuffersPlayed / FS
  served : ∀ n, n < st.OutPos → ∃ c, c ∈ st.calls ∧ ServedFrom (queueBytes q) FS n (P0 + n) c

/-- A buffer of the four one-byte samples `[10, 11, 12, 13]` whose loop region is the frames
1 and 2. -/
def exLoopBuffer : ALbuffer :=
  { data := [10, 11, 12, 13], LoopStart := 1, LoopEnd := 3, FmtType := .FmtByte }

/-- A static looping mono source over `exLoopBuffer`, cubic resampler at unit step, playing
from frame 1. -/
def exCubicLoop : ALsource ℚ Unit :=
  exSource [some exLoopBuffer] .AL_STATIC true .CUBIC_RESAMPLER (some .Mix_ALbyte_cubic8)
    .AL_PLAYING 0 1 0 16384

/-- A memory for concrete calls of the HRTF mixers in the middle of a ramp: the source of
`exHrtfMem` with the given `HrtfCounter`, every coefficient step 1 and both delay steps 1. -/
def exRampMem (counter : Nat) : Mem ℚ Unit :=
  let s := exSource [] .AL_STATIC false .POINT_RESAMPLER (some .Mix_Hrtf_ALbyte_point8)
    .AL_PLAYING 0 0 0 16384
  exMem { s with
    HrtfCounter := counter
    Params := { s.Params with HrtfCoeffStep := fun _ _ => 1, HrtfDelayStep := fun _ => 1 } }

/-- The locals of the channel loop of the HRTF mixer entered at `OutPos = 1` on `exRampMem`. -/
def exRampCur (counter : Nat) : Cur ℚ Unit :=
  { mem := exRampMem counter, pos := 0, frac := 0, OutPos := 1 }

/-- The ramped loop of `Mix_Hrtf_ALbyte_point8` on `exRampMem 2`, entered at `OutPos = 1` with
one pass allowed on the window `[10, 20, 30]`: the passes left over and the locals. -/
def exRampResult : Nat × HrtfCur ℚ Unit :=
  okOr (0, hrtfInit 0 0 (exRampCur 2))
    (hrtfRamp (exEnv 16384) .point8 { bytes := [10, 20, 30], off := 0 } 1 16384 0 1
      (hrtfInit 0 0 (exRampCur 2)))

/-- The amount a click block of a plain mixer moves at output channel `ch` for source channel
`i`: the step-correction value of the filter state `Flt` for the sample at position `p` and
fraction `f` of the window, times the gain; nothing beyond `MAXCHANNELS`. -/
def clickTerm {α F : Type} [Field α] (E : Env α F) (smp : SamplerId) (data : SrcPtr)
    (nc p f : Nat) (G : Nat → Nat → α) (Flt : F) (ch i : Nat) : α :=
  if ch < E.MAXCHANNELS then
    E.lpFilter2PC Flt i (okOr 0 (sample E smp data nc p f i)) * G i ch
  else 0

/-- The call `A` that ends a block of two samples: `Mix_ALbyte_point8` on the window
`[10, 20, 30]` at unit step, for two samples from `OutPos = 0`. -/
def exBlockA : MixResult ℚ Unit :=
  exCall .Mix_ALbyte_point8 16384 (exStatic4 .AL_PLAYING 0) { bytes := [10, 20, 30], off := 0 }
    0 0 0 2 2

/-- The call `B` that starts the next block: `Mix_ALbyte_point8` on the same window
advanced by the two frames `A` has played, for one sample of two from `OutPos = 0`, on the
memory of `exStatic4`, whose (trivial) dry filter state is the one `A` left. -/
def exBlockB : MixResult ℚ Unit :=
  exCall .Mix_ALbyte_point8 16384 (exStatic4 .AL_PLAYING 0) { bytes := [10, 20, 30], off := 2 }
    2 0 0 2 1

/-- The input of step `s` delayed by `d` steps; there is no input before step 0. -/
def delayed {α : Type} [Field α] (X : Nat → α) (d s : Nat) : α := if d ≤ s then X (s - d) else 0

/-- The convolution of the delayed inputs `X` with the `L` taps `C` for ear `e` at step `m`,
as the sum over the steps `s` and taps `c` with `s + c = m`. -/
def firOut {α : Type} [Field α] (L : Nat) (C : Nat → Nat → α) (X : Nat → α) (d m e : Nat) : α :=
  ∑ s in Finset.range (m + 1), ∑ c in Finset.range L,
    if s + c = m then C c e * delayed X d s else 0

/-- The filtered input `x(m)` of step `m` of a run with the values `xs`: nothing for `m < 0`. -/
def inputAt {α : Type} [Field α] (xs : List α) (m : Int) : α :=
  if m < 0 then 0 else xs.getD m.toNat 0

/-- What the steady loop of the HRTF template keeps true of its locals for source channel
`i`, after `n` passes with the filtered inputs `X 0, ..., X (n-1)` from a zero history and a
zero accumulation ring, with the coefficients `C`, the whole delays `d0` and `d1`, the ring
offset `O0` and the dry buffer `D0` at the start: a history cell holds the last input
written to it, a ring cell holds the contributions of the taps that are still due, and the
rows of the passes have received the convolution. -/
structure SteadyInv {α F : Type} [Field α] (E : Env α F) (i : Nat) (C : Nat → Nat → α)
    (d0 d1 O0 o0 : Nat) (D0 : Nat → Nat → α) (X : Nat → α) (n : Nat) (h : HrtfCur α F) :
    Prop where
  offset : h.Offset = u32 (O0 + n)
  outpos : h.cur.OutPos = o0 + n
  coeffs : h.Coeffs = C
  delay0 : h.Delay0 = d0
  delay1 : h.Delay1 = d1
  hist : ∀ k, h.cur.mem.Source.HrtfHistory i k
    = ∑ s in Finset.range n,
        if n ≤ s + 2 ^ E.SRC_HISTORY_BITS ∧ (O0 + s) % 2 ^ E.SRC_HISTORY_BITS = k then X s else 0
  ring : ∀ k e, e < 2 → h.cur.mem.Source.HrtfValues i k e
    = ∑ s in Finset.range n, ∑ c in Finset.range E.HRIR_LENGTH,
        if n ≤ s + 1 + c ∧ (O0 + s + 1 + c) % E.HRIR_LENGTH = k then
          C c e * delayed X (if e = 0 then d0 else d1) s
        else 0
  dry : ∀ r ch, h.cur.mem.Device.DryBuffer r ch
    = D0 r ch
      + (if o0 ≤ r ∧ r < o0 + n ∧ ch = E.FRONT_LEFT then
          firOut E.HRIR_LENGTH C X d0 (r - o0) 0 else 0)
      + (if o0 ≤ r ∧ r < o0 + n ∧ ch = E.FRONT_RIGHT then
          firOut E.HRIR_LENGTH C X d1 (r - o0) 1 else 0)

/-- Locals of the steady loop of `Mix_Hrtf_ALbyte_point8` for concrete runs: the memory
`exHrtfMem` (zero history and ring) at `OutPos = 0`, the taps `1, 2, 0, 0, ...` for both
ears, a left delay of one sample and no right delay. -/
def exSteady : HrtfCur ℚ Unit :=
  { cur := { mem := exHrtfMem, pos := 0, frac := 0, OutPos := 0 }
    Counter := 0
    Offset := 0
    Coeffs := fun k _ => if k = 0 then 1 else if k = 1 then 2 else 0
    Delay0 := 1
    Delay1 := 0 }

/-- Two passes of the steady loop from `exSteady` on the window `[127, 0, 0]` (the unit
impulse), at unit step. -/
def exSteadyResult : HrtfCur ℚ Unit :=
  okOr exSteady
    (forLoop (fun _ => hrtfSteadyStep (exEnv 16384) .point8 { bytes := [127, 0, 0], off := 0 }
      1 16384 0) 2 0 exSteady)

/-- Two states of the channel loop of a plain mixer, one on a window and one on an extension of
it, agree below row `lim` when channel `i` is entered: the rows of the dry buffer below `lim`
are the same, the dry filter looks the same to every source channel from `i` on, and the
gains and `OutPos` are the same. -/
def DryAgree {α F H : Type} (view : F → Nat → H) (lim i : Nat) (a b : Cur α F) : Prop :=
  (∀ r, r < lim → a.mem.Device.DryBuffer r = b.mem.Device.DryBuffer r) ∧
  (∀ k, i ≤ k → view a.mem.Source.Params.iirFilter k = view b.mem.Source.Params.iirFilter k) ∧
  a.mem.Source.Params.DryGains = b.mem.Source.Params.DryGains ∧
  a.OutPos = b.OutPos

/-- Two runs of the window assembly side by side, the first with the smaller request: either
they have filled the same bytes and the first has no more bytes left to fill than the second,
or the first has filled its window and the second has filled these bytes and more. -/
def Grows (S1 : List Nat) (B1 : Nat) (S2 : List Nat) (B2 : Nat) : Prop :=
  (S1 = S2 ∧ B1 ≤ B2) ∨ (B1 = 0 ∧ ∃ T, S2 = S1 ++ T)

/-- The locals of `MixSource` that say where the source is (the current item, the buffers
played, the position and the local `Looping`), put on the memory `m` as those of a playing
source, with everything else cleared. -/
def FeedSt.place {α F : Type} (m : Mem α F) (st : FeedSt α F) : FeedSt α F :=
  { mem := m
    State := .AL_PLAYING
    BuffersPlayed := st.BuffersPlayed
    DataPosInt := st.DataPosInt
    DataPosFrac := 0
    Looping := st.Looping
    BufferListItem := st.BufferListItem
    OutPos := 0
    calls := [] }

/-- Where `k` output steps taken one at a time lead from the locals `s`, at the step `inc`
from the fraction `f0`: the loop under "Handle looping sources" is run on `s` as it is, and
then once after each step, on the position moved on by the whole frames of that step. -/
def Walk {α F : Type} (FS inc f0 : Nat) : Nat → FeedSt α F → FeedSt α F → Prop
  | 0, s, t => ∃ fuel, advanceLoop FS fuel s = .ok t
  | k + 1, s, t => ∃ u fuel, Walk FS inc f0 k s u ∧
      advanceLoop FS fuel { u with
        DataPosInt := u.DataPosInt
          + ((f0 + (k + 1) * inc) / 16384 - (f0 + k * inc) / 16384) } = .ok t

/-- The local `Looping` after the window assembly of an iteration entered with `Looping` at
the position `p`: a static source stops looping at or past the loop end of its buffer. -/
def loopAfter {α F : Type} (Source : ALsource α F) (Looping : Bool) (p : Nat) : Bool :=
  if Source.lSourceType = .AL_STATIC then
    match Source.queue with
    | some b :: _ => if Looping = false ∨ b.LoopEnd ≤ p then false else true
    | _ => Looping
  else Looping

/-- What the loop of `MixSource` keeps true of where the source is, for a source `m` as on
entry: the current item is the one `BuffersPlayed` counts to, the position is below `2^31`, a
looping static source that has stopped looping is at or past the loop end of its buffer, and
a source that is not static loops as it did on entry. -/
structure WalkInv {α F : Type} (m : Mem α F) (st : FeedSt α F) : Prop where
  link : st.BufferListItem = some st.BuffersPlayed
  pos : st.DataPosInt < 2147483648
  past : m.Source.lSourceType = .AL_STATIC → m.Source.bLooping = true → st.Looping = false →
    ∀ b, m.Source.queue = [some b] → b.LoopEnd ≤ st.DataPosInt
  stream : m.Source.lSourceType ≠ .AL_STATIC → st.Looping = m.Source.bLooping

/-- The looping queue `exStream` after `MixSource` for a slice of 2 samples, with a stack
buffer of 6 bytes, and the mixer calls made. -/
def exSplit1 : Mem ℚ Unit × List MixCall := exRun 6 16 exStream 2

/-- The looping queue `exStream` after `MixSource` for a slice of 4 samples, with a stack
buffer of 6 bytes, and the mixer calls made. -/
def exSplit2 : Mem ℚ Unit × List MixCall := exRun 6 16 exStream 4

/-- The looping queue `exStream` after `MixSource` for a slice of 2 samples and again for a
slice of 2 samples, with a stack buffer of 6 bytes, and the mixer calls of the second call. -/
def exSplit11 : Mem ℚ Unit × List MixCall := exRun 6 16 exSplit1.1 2

/-- A static, non-looping mono source over the four-sample buffer `[10, 11, 12, 13]` whose
loop end, 10, lies beyond the buffer; point resampler at unit step, playing from frame 0. -/
def exLongLoop : Mem ℚ Unit :=
  exMem (exSource [some { data := [10, 11, 12, 13], LoopStart := 0, LoopEnd := 10,
                          FmtType := .FmtByte }]
    .AL_STATIC false .POINT_RESAMPLER (some .Mix_ALbyte_point8) .AL_PLAYING 0 0 0 16384)

/-- The run of `MixSource` on `exLongLoop` for five samples. -/
def exLongRun : Mem ℚ Unit × List MixCall := exRun 16384 8 exLongLoop 5

/-- The run of `MixSource` on the looping source `exLoop4` for six samples. -/
def exLoopRun : Mem ℚ Unit × List MixCall := exRun 16384 8 exLoop4 6

/-- The value of `DataSize64` that an iteration of the loop of `MixSource` compares with
`STACK_DATA_SIZE` ("Figure out how many buffer bytes will be needed"): the bytes the
iteration asks for before the cap. -/
def neededBytes (SamplesToDo OutPos increment DataPosFrac BufferPadding BufferPrePadding
    FrameSize : Nat) : Nat :=
  (((u32 (usub SamplesToDo OutPos + 1) * increment + u32 (DataPosFrac + FRACTIONMASK))
    >>> FRACTIONBITS) + u32 (BufferPadding + BufferPrePadding)) * FrameSize

/-- The run of `MixSource` on the looping source `exLoop4` for six samples with a stack
buffer of four bytes. -/
def exCapRun : Mem ℚ Unit × List MixCall := exRun 4 8 exLoop4 6

/-- The memory with the attribute `Source->bLooping` set to `x`; nothing else differs. -/
def Mem.setLooping {α F : Type} (m : Mem α F) (x : Bool) : Mem α F :=
  { m with Source := { m.Source with bLooping := x } }

/-- A static, looping mono source over the six-sample buffer `[10, 11, 12, 13, 14, 15]` with
`LoopStart = 1` and `LoopEnd = 3`, point resampler at unit step, playing from frame 3, at
the loop end. -/
def exBeyond : Mem ℚ Unit :=
  exMem (exSource [some { data := [10, 11, 12, 13, 14, 15], LoopStart := 1, LoopEnd := 3,
                          FmtType := .FmtByte }]
    .AL_STATIC true .POINT_RESAMPLER (some .Mix_ALbyte_point8) .AL_PLAYING 0 3 0 16384)

/-- The run of `MixSource` on `exBeyond` for two samples. -/
def exBeyondRun : Mem ℚ Unit × List MixCall := exRun 16384 8 exBeyond 2

/-- The locals of `MixSource` after the first iteration on the static source `exStatic4`,
asked for six samples with a stack buffer of four bytes. -/
def exIter4 : FeedSt ℚ Unit :=
  okOr (exFeed (exStatic4 .AL_PLAYING 0))
    (feedIter (exEnv 4) 8 6 16384 .POINT_RESAMPLER 1 (exFeed (exStatic4 .AL_PLAYING 0)))

/-! ### Scenario A in binary32 arithmetic -/

/-- Rounding of a rational to the nearest integer, a tie going to the even one. -/
def roundEven (x : ℚ) : Int :=
  if x - ⌊x⌋ < 1 / 2 then ⌊x⌋
  else if 1 / 2 < x - ⌊x⌋ then ⌊x⌋ + 1
  else if ⌊x⌋ % 2 = 0 then ⌊x⌋ else ⌊x⌋ + 1

/-- The exponent of the last place of the binary32 numbers around `x`: 24 significant bits,
and no place below `2^-149`. -/
def ulpExp (x : ℚ) : Int := max (Int.log 2 |x| - 23) (-149)

/-- The binary32 number nearest to a rational, a tie going to the even significand: the
rounding of IEEE 754 arithmetic in its default mode.  Magnitudes of `2^128` and above, which
binary32 turns into infinities, are outside this model. -/
def fl32 (x : ℚ) : ℚ :=
  if x = 0 then 0 else (roundEven (x / 2 ^ ulpExp x) : ℚ) * 2 ^ ulpExp x

/-- A binary32 number, held as the rational it denotes.  Signed zeros, infinities and NaN are
not represented. -/
structure Binary32 where
  val : ℚ

/-- The binary32 sum: the exact sum, rounded. -/
def b32Add : Add Binary32 := ⟨fun a b => ⟨fl32 (a.val + b.val)⟩⟩

/-- The binary32 difference: the exact difference, rounded. -/
def b32Sub : Sub Binary32 := ⟨fun a b => ⟨fl32 (a.val - b.val)⟩⟩

/-- The binary32 product: the exact product, rounded. -/
def b32Mul : Mul Binary32 := ⟨fun a b => ⟨fl32 (a.val * b.val)⟩⟩

/-- The binary32 quotient: the exact quotient, rounded. -/
def b32Div : Div Binary32 := ⟨fun a b => ⟨fl32 (a.val / b.val)⟩⟩

/-- The conversion of an integer to binary32. -/
def b32Cast : IntCast Binary32 := ⟨fun n => ⟨fl32 (n : ℚ)⟩⟩

/-- The environment of the concrete runs with `ALfloat` the binary32 numbers: the decoders
of `exEnv`, whose values are binary32 numbers, the interpolations in binary32 arithmetic,
and pass-through filters. -/
def exEnv32 : Env Binary32 Unit :=
  { STACK_DATA_SIZE := 16384
    MAXCHANNELS := 9
    FRONT_LEFT := 0
    FRONT_RIGHT := 1
    HRIR_BITS := 5
    SRC_HISTORY_BITS := 6
    AL_EFFECT_NULL := 0
    ofByte := fun l => ⟨(exEnv 16384).ofByte l⟩
    ofShort := fun l => ⟨(exEnv 16384).ofShort l⟩
    ofFloat := fun l => ⟨(exEnv 16384).ofFloat l⟩
    lerp := fun a b m => b32Add.add a (b32Mul.mul (b32Sub.sub b a) m)
    cubic := fun v0 v1 v2 v3 m =>
      b32Add.add (b32Add.add (b32Add.add
        (b32Mul.mul (b32Mul.mul (b32Add.add (b32Add.add (b32Add.add
          (b32Mul.mul ⟨-1/2⟩ v0) (b32Mul.mul ⟨3/2⟩ v1)) (b32Mul.mul ⟨-3/2⟩ v2))
          (b32Mul.mul ⟨1/2⟩ v3)) m) (b32Mul.mul m m))
        (b32Mul.mul (b32Add.add (b32Add.add (b32Add.add v0 (b32Mul.mul ⟨-5/2⟩ v1))
          (b32Mul.mul ⟨2⟩ v2)) (b32Mul.mul ⟨-1/2⟩ v3)) (b32Mul.mul m m)))
        (b32Mul.mul (b32Add.add (b32Mul.mul ⟨-1/2⟩ v0) (b32Mul.mul ⟨1/2⟩ v2)) m)) v1
    lpFilter2P := fun f _ x => (f, x)
    lpFilter2PC := fun _ _ x => x
    lpFilter1P := fun f _ x => (f, x)
    lpFilter1PC := fun _ _ x => x }

/-- Scenario A with `ALfloat` the binary32 numbers: the source and the silent accumulators
of `exShort4`, with the gains `1` and `0` as binary32 numbers. -/
def exShort32 : Mem Binary32 Unit :=
  { Source :=
      { state := .AL_PLAYING
        BuffersPlayed := 0
        position := 0
        position_fraction := 0
        bLooping := false
        Resampler := .POINT_RESAMPLER
        NumChannels := 1
        SampleSize := 2
        lSourceType := .AL_STATIC
        queue := [some { data := [0, 0, 0, 64, 0, 192, 0, 0], LoopStart := 0, LoopEnd := 4,
                         FmtType := .FmtShort }]
        BuffersInQueue := 1
        HrtfOffset := 0
        HrtfCounter := 0
        HrtfMoving := false
        HrtfHistory := fun _ _ => ⟨0⟩
        HrtfValues := fun _ _ _ => ⟨0⟩
        Params :=
          { Step := 16384
            DoMix := some .Mix_ALshort_point16
            iirFilter := ()
            DryGains := fun _ c => if c = 0 then ⟨1⟩ else ⟨0⟩
            HrtfCoeffs := fun _ k _ => if k = 0 then ⟨1⟩ else ⟨0⟩
            HrtfCoeffStep := fun _ _ => ⟨0⟩
            HrtfDelay := fun _ _ => 0
            HrtfDelayStep := fun _ => 0
            Send := fun _ => { Slot := none, WetGain := ⟨0⟩, iirFilter := () } } }
    Device := { DryBuffer := fun _ _ => ⟨0⟩, ClickRemoval := fun _ => ⟨0⟩,
                PendingClicks := fun _ => ⟨0⟩, NumAuxSends := 0 }
    Slot := fun _ => { effectType := 0, WetBuffer := fun _ => ⟨0⟩, ClickRemoval := fun _ => ⟨0⟩,
                       PendingClicks := fun _ => ⟨0⟩ } }

/-- Runs `MixSource` in binary32 arithmetic (the unchanged memory if it faults). -/
def exRun32 (fuel : Nat) (m : Mem Binary32 Unit) (std : Nat) :
    Mem Binary32 Unit × List MixCall :=
  okOr (m, [])
    (@MixSource Binary32 Unit b32Add b32Sub b32Mul b32Div b32Cast exEnv32 fuel m std)

/-- Scenario A in binary32 arithmetic: the memory after `k` successive calls of `MixSource`
with `SamplesToDo = 1`. -/
def exShortRun32 : Nat → Mem Binary32 Unit
  | 0 => exShort32
  | k + 1 => (exRun32 8 (exShortRun32 k) 1).1

/-! ## Basic facts -/

set_option linter.unusedSectionVars false
set_option linter.unusedVariables false

theorem FRACTIONONE_eq : FRACTIONONE = 16384 := by decide

theorem FRACTIONMASK_eq : FRACTIONMASK = 16383 := by decide

theorem FRACTIONBITS_eq : FRACTIONBITS = 14 := rfl

theorem shr_fb (x : Nat) : x >>> FRACTIONBITS = x / 16384 := by
  rw [FRACTIONBITS_eq, Nat.shiftRight_eq_div_pow]

theorem and_mask (x : Nat) : x &&& FRACTIONMASK = x % 16384 := by
  rw [FRACTIONMASK_eq]
  exact Nat.and_pow_two_sub_one_eq_mod x 14

theorem forLoop_inv {σ : Type} (body : Nat → σ → Except Fault σ) (P : σ → Prop)
    (h : ∀ i s s1, P s → body i s = .ok s1 → P s1) :
    ∀ n i s s1, P s → forLoop body n i s = .ok s1 → P s1 := by
  intro n
  induction n with
  | zero =>
    intro i s s1 hs hr
    simp [forLoop] at hr
    exact hr ▸ hs
  | succ n ih =>
    intro i s s1 hs hr
    simp only [forLoop] at hr
    split at hr
    · next s2 h2 => exact ih _ _ _ (h _ _ _ hs h2) hr
    · simp at hr

/-- A loop whose every pass establishes `P`, run at least once, establishes `P`. -/
theorem forLoop_last {σ : Type} (body : Nat → σ → Except Fault σ) (P : σ → Prop)
    (h : ∀ i s s1, body i s = .ok s1 → P s1) (n i : Nat) (s s1 : σ) (hn : 0 < n)
    (hr : forLoop body n i s = .ok s1) : P s1 := by
  cases n with
  | zero => omega
  | succ n =>
    simp only [forLoop] at hr
    split at hr
    · next s2 h2 =>
      exact forLoop_inv body P (fun i s s1 _ hb => h i s s1 hb) n _ _ _ (h _ _ _ h2) hr
    · simp at hr

/-- A loop whose every pass applies `g` to a measurement `φ` of the state applies `g` as
many times as it has passes. -/
theorem forLoop_iterate {σ β : Type} (body : Nat → σ → Except Fault σ) (φ : σ → β) (g : β → β)
    (h : ∀ i s s1, body i s = .ok s1 → φ s1 = g (φ s)) :
    ∀ n i s s1, forLoop body n i s = .ok s1 → φ s1 = g^[n] (φ s) := by
  intro n
  induction n with
  | zero =>
    intro i s s1 hr
    simp [forLoop] at hr
    simp [hr]
  | succ n ih =>
    intro i s s1 hr
    simp only [forLoop] at hr
    split at hr
    · next s2 h2 =>
      rw [ih _ _ _ hr, h _ _ _ h2, Function.iterate_succ_apply]
    · simp at hr

/-! ## The phase arithmetic of the mixers -/

section PhaseLemmas

variable {α F : Type} [Add α] [Sub α] [Mul α] [Div α] [IntCast α]

theorem phaseStep_frac_lt (inc : Nat) (p : Nat × Nat) : (phaseStep inc p).2 < 16384 := by
  simp only [phaseStep, and_mask]
  omega

theorem phaseStep_iterate_frac_lt (inc : Nat) (p : Nat × Nat) (n : Nat) (hp : p.2 < 16384) :
    ((phaseStep inc)^[n] p).2 < 16384 := by
  cases n with
  | zero => simpa using hp
  | succ n =>
    rw [Function.iterate_succ_apply']
    exact phaseStep_frac_lt _ _

/-- The closed form of `n` phase advances from `(0, f)` when no sum leaves 32 bits. -/
theorem phaseStep_iterate (inc f : Nat) (hf : f < 16384) :
    ∀ n, (∀ k, k < n → (f + k * inc) % 16384 + inc < 4294967296) →
      (f + n * inc) / 16384 < 4294967296 →
      (phaseStep inc)^[n] (0, f) = ((f + n * inc) / 16384, (f + n * inc) % 16384) := by
  intro n
  induction n with
  | zero =>
    intro _ _
    simp
    omega
  | succ n ih =>
    intro h1 h2
    have e : f + (n + 1) * inc = f + n * inc + inc := by ring
    rw [e] at h2
    have h3 := h1 n (Nat.lt_succ_self n)
    rw [Function.iterate_succ_apply', ih (fun k hk => h1 k (Nat.lt_succ_of_lt hk)) (by omega), e]
    simp only [phaseStep, shr_fb, and_mask, u32]
    generalize f + n * inc = X at *
    refine Prod.ext ?_ ?_ <;> simp only <;> omega

theorem advance_ph (c : Cur α F) (inc : Nat) (m : Mem α F) :
    (c.advance inc m).ph = phaseStep inc c.ph := rfl

theorem mixDryStep_ph {E : Env α F} {smp : SamplerId} {data : SrcPtr} {nc inc i : Nat}
    {DrySend : Nat → α} {c c1 : Cur α F}
    (h : mixDryStep E smp data nc inc i DrySend c = .ok c1) :
    c1.ph = phaseStep inc c.ph := by
  unfold mixDryStep at h
  split at h
  · simp at h
  · simp only [Except.ok.injEq] at h
    rw [← h]; rfl

theorem mixDryLead_ph {E : Env α F} {smp : SamplerId} {data : SrcPtr} {nc i : Nat}
    {DrySend : Nat → α} {c c1 : Cur α F}
    (h : mixDryLead E smp data nc i DrySend c = .ok c1) : c1.ph = c.ph := by
  unfold mixDryLead at h
  split at h
  · simp at h
  · simp only [Except.ok.injEq] at h
    rw [← h]; rfl

theorem mixDryTrail_ph {E : Env α F} {smp : SamplerId} {data : SrcPtr} {nc i : Nat}
    {DrySend : Nat → α} {c c1 : Cur α F}
    (h : mixDryTrail E smp data nc i DrySend c = .ok c1) : c1.ph = c.ph := by
  unfold mixDryTrail at h
  split at h
  · simp at h
  · simp only [Except.ok.injEq] at h
    rw [← h]; rfl

theorem mixDryChannel_ph {E : Env α F} {smp : SamplerId} {data : SrcPtr}
    {nc inc f std n i : Nat} {c c1 : Cur α F}
    (h : mixDryChannel E smp data nc inc f std n i c = .ok c1) :
    c1.ph = (phaseStep inc)^[n] (0, f) := by
  unfold mixDryChannel at h
  simp only at h
  split at h
  · simp at h
  · next c2 h2 =>
    split at h
    · simp at h
    · next c3 h3 =>
      split at h
      · simp at h
      · next c4 h4 =>
        simp only [Except.ok.injEq] at h
        have e2 : c2.ph = (0, f) := by
          split at h2
          · rw [mixDryLead_ph h2]; rfl
          · simp only [Except.ok.injEq] at h2
            rw [← h2]; rfl
        have e3 : c3.ph = (phaseStep inc)^[n] c2.ph :=
          forLoop_iterate _ Cur.ph (phaseStep inc) (fun _ _ _ hb => mixDryStep_ph hb) _ _ _ _ h3
        have e4 : c4.ph = c3.ph := by
          split at h4
          · exact mixDryTrail_ph h4
          · simp only [Except.ok.injEq] at h4
            rw [h4]
        rw [← h]
        show c4.ph = _
        rw [e4, e3, e2]

theorem mixWetStep_ph {E : Env α F} {smp : SamplerId} {data : SrcPtr} {nc inc out a i : Nat}
    {c c1 : Cur α F}
    (h : mixWetStep E smp data nc inc out a i c = .ok c1) :
    c1.ph = phaseStep inc c.ph := by
  unfold mixWetStep at h
  split at h
  · simp at h
  · simp only [Except.ok.injEq] at h
    rw [← h]; rfl

theorem mixWetLead_ph {E : Env α F} {smp : SamplerId} {data : SrcPtr} {nc out a i : Nat}
    {c c1 : Cur α F}
    (h : mixWetLead E smp data nc out a i c = .ok c1) : c1.ph = c.ph := by
  unfold mixWetLead at h
  split at h
  · simp at h
  · simp only [Except.ok.injEq] at h
    rw [← h]; rfl

theorem mixWetTrail_ph {E : Env α F} {smp : SamplerId} {data : SrcPtr} {nc out a i : Nat}
    {c c1 : Cur α F}
    (h : mixWetTrail E smp data nc out a i c = .ok c1) : c1.ph = c.ph := by
  unfold mixWetTrail at h
  split at h
  · simp at h
  · simp only [Except.ok.injEq] at h
    rw [← h]; rfl

theorem mixWetChannel_ph {E : Env α F} {smp : SamplerId} {data : SrcPtr}
    {nc inc f std n out a i : Nat} {c c1 : Cur α F}
    (h : mixWetChannel E smp data nc inc f std n out a i c = .ok c1) :
    c1.ph = (phaseStep inc)^[n] (0, f) := by
  unfold mixWetChannel at h
  simp only at h
  split at h
  · simp at h
  · next c2 h2 =>
    split at h
    · simp at h
    · next c3 h3 =>
      split at h
      · simp at h
      · next c4 h4 =>
        simp only [Except.ok.injEq] at h
        have e2 : c2.ph = (0, f) := by
          split at h2
          · rw [mixWetLead_ph h2]; rfl
          · simp only [Except.ok.injEq] at h2
            rw [← h2]; rfl
        have e3 : c3.ph = (phaseStep inc)^[n] c2.ph :=
          forLoop_iterate _ Cur.ph (phaseStep inc) (fun _ _ _ hb => mixWetStep_ph hb) _ _ _ _ h3
        have e4 : c4.ph = c3.ph := by
          split at h4
          · exact mixWetTrail_ph h4
          · simp only [Except.ok.injEq] at h4
            rw [h4]
        rw [← h]
        show c4.ph = _
        rw [e4, e3, e2]

/-- A send leaves the phase it finds, or the phase of a full channel pass. -/
theorem mixSend_ph {E : Env α F} {smp : SamplerId} {data : SrcPtr}
    {nc inc f std n out : Nat} {c c1 : Cur α F}
    (h : mixSend E smp data nc inc f std n out c = .ok c1) :
    c1.ph = c.ph ∨ (0 < nc ∧ c1.ph = (phaseStep inc)^[n] (0, f)) := by
  unfold mixSend at h
  split at h
  · simp only [Except.ok.injEq] at h
    exact Or.inl (h ▸ rfl)
  · split at h
    · simp only [Except.ok.injEq] at h
      exact Or.inl (h ▸ rfl)
    · rcases Nat.eq_zero_or_pos nc with h0 | h0
      · subst h0
        simp only [forLoop, Except.ok.injEq] at h
        exact Or.inl (h ▸ rfl)
      · exact Or.inr ⟨h0, forLoop_last _ (fun s => s.ph = (phaseStep inc)^[n] (0, f))
          (fun _ _ _ hb => mixWetChannel_ph hb) _ _ _ _ h0 h⟩

end PhaseLemmas

section HrtfPhaseLemmas

variable {α F : Type} [Add α] [Sub α] [Mul α] [Div α] [IntCast α]

theorem hrtfLead_ph {E : Env α F} {smp : SamplerId} {data : SrcPtr} {nc i : Nat}
    {h h1 : HrtfCur α F}
    (e : hrtfLead E smp data nc i h = .ok h1) : h1.cur.ph = h.cur.ph := by
  unfold hrtfLead at e
  split at e
  · simp at e
  · simp only [Except.ok.injEq] at e
    rw [← e]; rfl

theorem hrtfTrail_ph {E : Env α F} {smp : SamplerId} {data : SrcPtr} {nc i : Nat}
    {h h1 : HrtfCur α F}
    (e : hrtfTrail E smp data nc i h = .ok h1) : h1.cur.ph = h.cur.ph := by
  unfold hrtfTrail at e
  split at e
  · simp at e
  · simp only [Except.ok.injEq] at e
    rw [← e]; rfl

theorem hrtfRampStep_ph {E : Env α F} {smp : SamplerId} {data : SrcPtr} {nc inc i : Nat}
    {h h1 : HrtfCur α F}
    (e : hrtfRampStep E smp data nc inc i h = .ok h1) : h1.cur.ph = phaseStep inc h.cur.ph := by
  unfold hrtfRampStep at e
  split at e
  · simp at e
  · simp only [Except.ok.injEq] at e
    rw [← e]; rfl

theorem hrtfSteadyStep_ph {E : Env α F} {smp : SamplerId} {data : SrcPtr} {nc inc i : Nat}
    {h h1 : HrtfCur α F}
    (e : hrtfSteadyStep E smp data nc inc i h = .ok h1) :
    h1.cur.ph = phaseStep inc h.cur.ph := by
  unfold hrtfSteadyStep at e
  split at e
  · simp at e
  · simp only [Except.ok.injEq] at e
    rw [← e]; rfl

/-- The ramped loop makes `n - rest` passes and leaves `rest` to the steady loop. -/
theorem hrtfRamp_ph {E : Env α F} {smp : SamplerId} {data : SrcPtr} {nc inc i : Nat} :
    ∀ (n : Nat) (h h1 : HrtfCur α F) (rest : Nat),
      hrtfRamp E smp data nc inc i n h = .ok (rest, h1) →
      rest ≤ n ∧ h1.cur.ph = (phaseStep inc)^[n - rest] h.cur.ph := by
  intro n
  induction n with
  | zero =>
    intro h h1 rest e
    simp only [hrtfRamp, Except.ok.injEq, Prod.mk.injEq] at e
    obtain ⟨e1, e2⟩ := e
    subst e1 e2
    simp
  | succ n ih =>
    intro h h1 rest e
    simp only [hrtfRamp] at e
    split at e
    · split at e
      · simp at e
      · next h2 e2 =>
        obtain ⟨l1, l2⟩ := ih _ _ _ e
        refine ⟨by omega, ?_⟩
        rw [l2, hrtfRampStep_ph e2, ← Function.iterate_succ_apply]
        congr 1
        omega
    · simp only [Except.ok.injEq, Prod.mk.injEq] at e
      obtain ⟨e1, e2⟩ := e
      subst e1 e2
      simp

theorem hrtfChannel_ph {E : Env α F} {smp : SamplerId} {data : SrcPtr}
    {nc inc f std n i : Nat} {c c1 : Cur α F}
    (e : hrtfChannel E smp data nc inc f std n i c = .ok c1) :
    c1.ph = (phaseStep inc)^[n] (0, f) := by
  unfold hrtfChannel at e
  simp only at e
  split at e
  · simp at e
  · next h1 e1 =>
    split at e
    · simp at e
    · next rest h2 e2 =>
      split at e
      · simp at e
      · next h4 e4 =>
        split at e
        · simp at e
        · next h5 e5 =>
          simp only [Except.ok.injEq] at e
          have p1 : h1.cur.ph = (0, f) := by
            split at e1
            · rw [hrtfLead_ph e1]; rfl
            · simp only [Except.ok.injEq] at e1
              rw [← e1]; rfl
          obtain ⟨l1, p2⟩ := hrtfRamp_ph _ _ _ _ e2
          have p4 : h4.cur.ph = (phaseStep inc)^[rest] h2.cur.ph :=
            forLoop_iterate _ (fun h : HrtfCur α F => h.cur.ph) (phaseStep inc)
              (fun _ _ _ hb => hrtfSteadyStep_ph hb) _ _
              { h2 with Delay0 := h2.Delay0 >>> 16, Delay1 := h2.Delay1 >>> 16 } _ e4
          have p5 : h5.cur.ph = h4.cur.ph := by
            split at e5
            · exact hrtfTrail_ph e5
            · simp only [Except.ok.injEq] at e5
              rw [e5]
          rw [← e]
          show h5.cur.ph = _
          rw [p5, p4, p2, p1, ← Function.iterate_add_apply]
          congr 1
          omega

/-- The values a plain mixer writes back through `DataPosInt` and `DataPosFrac`. -/
theorem Mix_phase {E : Env α F} {smp : SamplerId} {m : Mem α F} {data : SrcPtr}
    {p f o std n : Nat} {res : MixResult α F}
    (e : Mix E smp m data p f o std n = .ok res) :
    (m.Source.NumChannels = 0 ∧ res.DataPosInt = u32 (p + 0) ∧ res.DataPosFrac = f) ∨
    (0 < m.Source.NumChannels ∧
      res.DataPosInt = u32 (p + ((phaseStep m.Source.Params.Step)^[n] (0, f)).1) ∧
      res.DataPosFrac = ((phaseStep m.Source.Params.Step)^[n] (0, f)).2) := by
  unfold Mix at e
  simp only at e
  split at e
  · simp at e
  · next c1 e1 =>
    split at e
    · simp at e
    · next c2 e2 =>
      simp only [Except.ok.injEq] at e
      subst e
      simp only
      have key : (m.Source.NumChannels = 0 ∧ c2.ph = (0, f)) ∨ (0 < m.Source.NumChannels ∧
          c2.ph = (phaseStep m.Source.Params.Step)^[n] (0, f)) := by
        have k1 : (m.Source.NumChannels = 0 ∧ c1.ph = (0, f)) ∨ (0 < m.Source.NumChannels ∧
            c1.ph = (phaseStep m.Source.Params.Step)^[n] (0, f)) := by
          rcases Nat.eq_zero_or_pos m.Source.NumChannels with h0 | h0
          · rw [h0] at e1
            simp only [forLoop, Except.ok.injEq] at e1
            exact Or.inl ⟨h0, e1 ▸ rfl⟩
          · exact Or.inr ⟨h0, forLoop_last _
              (fun s : Cur α F => s.ph = (phaseStep m.Source.Params.Step)^[n] (0, f))
              (fun _ _ _ hb => mixDryChannel_ph hb) _ _ _ _ h0 e1⟩
        refine forLoop_inv _ (fun s : Cur α F => (m.Source.NumChannels = 0 ∧ s.ph = (0, f)) ∨
          (0 < m.Source.NumChannels ∧
            s.ph = (phaseStep m.Source.Params.Step)^[n] (0, f))) ?_ _ _ _ _ k1 e2
        intro i s s1 hs hb
        rcases mixSend_ph hb with q | ⟨q0, q⟩
        · rw [q]; exact hs
        · exact Or.inr ⟨q0, q⟩
      rcases key with ⟨k0, k⟩ | ⟨k0, k⟩
      · left
        simp only [Cur.ph, Prod.mk.injEq] at k
        simp [k0, k.1, k.2]
      · right
        simp only [Cur.ph] at k
        refine ⟨k0, ?_, ?_⟩
        · rw [← k]
        · rw [← k]

/-- The values an HRTF mixer writes back through `DataPosInt` and `DataPosFrac`. -/
theorem Mix_Hrtf_phase {E : Env α F} {smp : SamplerId} {m : Mem α F} {data : SrcPtr}
    {p f o std n : Nat} {res : MixResult α F}
    (e : Mix_Hrtf E smp m data p f o std n = .ok res) :
    (m.Source.NumChannels = 0 ∧ res.DataPosInt = u32 (p + 0) ∧ res.DataPosFrac = f) ∨
    (0 < m.Source.NumChannels ∧
      res.DataPosInt = u32 (p + ((phaseStep m.Source.Params.Step)^[n] (0, f)).1) ∧
      res.DataPosFrac = ((phaseStep m.Source.Params.Step)^[n] (0, f)).2) := by
  unfold Mix_Hrtf at e
  simp only at e
  split at e
  · simp at e
  · next c1 e1 =>
    split at e
    · simp at e
    · next c2 e2 =>
      simp only [Except.ok.injEq] at e
      subst e
      simp only
      have key : (m.Source.NumChannels = 0 ∧ c2.ph = (0, f)) ∨ (0 < m.Source.NumChannels ∧
          c2.ph = (phaseStep m.Source.Params.Step)^[n] (0, f)) := by
        have k1 : (m.Source.NumChannels = 0 ∧ c1.ph = (0, f)) ∨ (0 < m.Source.NumChannels ∧
            c1.ph = (phaseStep m.Source.Params.Step)^[n] (0, f)) := by
          rcases Nat.eq_zero_or_pos m.Source.NumChannels with h0 | h0
          · rw [h0] at e1
            simp only [forLoop, Except.ok.injEq] at e1
            exact Or.inl ⟨h0, e1 ▸ rfl⟩
          · exact Or.inr ⟨h0, forLoop_last _
              (fun s : Cur α F => s.ph = (phaseStep m.Source.Params.Step)^[n] (0, f))
              (fun _ _ _ hb => hrtfChannel_ph hb) _ _ _ _ h0 e1⟩
        refine forLoop_inv _ (fun s : Cur α F => (m.Source.NumChannels = 0 ∧ s.ph = (0, f)) ∨
          (0 < m.Source.NumChannels ∧
            s.ph = (phaseStep m.Source.Params.Step)^[n] (0, f))) ?_ _ _ _ _ k1 e2
        intro i s s1 hs hb
        rcases mixSend_ph hb with q | ⟨q0, q⟩
        · rw [q]; exact hs
        · exact Or.inr ⟨q0, q⟩
      rcases key with ⟨k0, k⟩ | ⟨k0, k⟩
      · left
        simp only [Cur.ph, Prod.mk.injEq] at k
        simp [k0, k.1, k.2]
      · right
        simp only [Cur.ph] at k
        refine ⟨k0, ?_, ?_⟩
        · rw [← k]
        · rw [← k]

/-- The values any of the eighteen mixers writes back. -/
theorem call_phase {E : Env α F} {g : MixerFunc} {m : Mem α F} {data : SrcPtr}
    {p f o std n : Nat} {res : MixResult α F}
    (e : g.call E m data p f o std n = .ok res) :
    (m.Source.NumChannels = 0 ∧ res.DataPosInt = u32 (p + 0) ∧ res.DataPosFrac = f) ∨
    (0 < m.Source.NumChannels ∧
      res.DataPosInt = u32 (p + ((phaseStep m.Source.Params.Step)^[n] (0, f)).1) ∧
      res.DataPosFrac = ((phaseStep m.Source.Params.Step)^[n] (0, f)).2) := by
  unfold MixerFunc.call at e
  split at e
  · exact Mix_Hrtf_phase e
  · exact Mix_phase e

end HrtfPhaseLemmas

/-! ## Reads stay inside the window -/

section ReadLemmas

variable {α F : Type} [Add α] [Sub α] [Mul α] [Div α] [IntCast α]

theorem toI32_small (x : Nat) (h : x < 2147483648) : toI32 x = (x : Int) := by
  unfold toI32
  have : x % 4294967296 = x := by omega
  rw [this, if_pos h]

theorem u32_small (x : Nat) (h : x < 4294967296) : u32 x = x := by
  unfold u32; omega

/-- Reading the element of channel `i` in the frame `pos + j` succeeds when the window
holds that frame. -/
theorem elemAt_ok (data : SrcPtr) (sz nc pos i : Nat) (j : Int) (hi : i < nc)
    (hw : pos * nc < 4294967296) (hc : Covers data (nc * sz) ((pos : Int) + j) ((pos : Int) + j)) :
    ∃ v, elemAt data sz nc pos i (j * (nc : Int)) = .ok v := by
  unfold elemAt SrcPtr.read
  rw [u32_small _ hw]
  obtain ⟨h1, h2⟩ := hc
  have hsz : ((i : Int) + 1) * (sz : Int) ≤ (nc : Int) * (sz : Int) := by
    apply Int.mul_le_mul_of_nonneg_right
    · omega
    · omega
  have e1 : ((((pos * nc : Nat) : Int) + (i : Int) + j * (nc : Int)) * (sz : Int))
      = ((pos : Int) + j) * (((nc * sz : Nat)) : Int) + (i : Int) * (sz : Int) := by
    push_cast; ring
  have e2 : ((pos : Int) + j + 1) * (((nc * sz : Nat)) : Int)
      = ((pos : Int) + j) * (((nc * sz : Nat)) : Int) + (nc : Int) * (sz : Int) := by
    push_cast; ring
  rw [e2] at h2
  have e3 : ((i : Int) + 1) * (sz : Int) = (i : Int) * (sz : Int) + (sz : Int) := by ring
  rw [e3] at hsz
  have hn : (0 : Int) ≤ (i : Int) * (sz : Int) := by positivity
  rw [e1]
  generalize ((pos : Int) + j) * (((nc * sz : Nat)) : Int) = X at *
  generalize (i : Int) * (sz : Int) = Y at *
  generalize (nc : Int) * (sz : Int) = Z at *
  rw [if_pos]
  · exact ⟨_, rfl⟩
  · constructor
    · omega
    · omega

theorem covers_mono {data : SrcPtr} {A : Nat} {lo hi lo1 hi1 : Int}
    (h : Covers data A lo hi) (h1 : lo ≤ lo1) (h2 : hi1 ≤ hi) : Covers data A lo1 hi1 := by
  obtain ⟨a, b⟩ := h
  have ha : lo * (A : Int) ≤ lo1 * (A : Int) :=
    Int.mul_le_mul_of_nonneg_right h1 (by omega)
  have hb : (hi1 + 1) * (A : Int) ≤ (hi + 1) * (A : Int) :=
    Int.mul_le_mul_of_nonneg_right (by omega) (by omega)
  exact ⟨by omega, by omega⟩

/-- A kernel applied at frame `pos` succeeds when the window holds the frames from
`pos - pre` to `pos + post` of its footprint. -/
theorem sample_ok (E : Env α F) (smp : SamplerId) (data : SrcPtr) (nc pos frac i : Nat)
    (hi : i < nc) (hnc : nc < 2147483648) (hw : pos * nc < 4294967296)
    (hc : Covers data (nc * smp.sizeofT) ((pos : Int) - smp.pre) ((pos : Int) + smp.post)) :
    ∃ v, sample E smp data nc pos frac i = .ok v := by
  have r0 : ∀ (j : Int), -(smp.pre : Int) ≤ j → j ≤ (smp.post : Int) →
      ∃ v, elemAt data smp.sizeofT nc pos i (j * (nc : Int)) = .ok v := by
    intro j h1 h2
    exact elemAt_ok data _ nc pos i j hi hw (covers_mono hc (by omega) (by omega))
  unfold sample
  rw [toI32_small nc hnc]
  have z0 : (0 : Int) * (nc : Int) = 0 := by ring
  have z1 : (1 : Int) * (nc : Int) = (nc : Int) := by ring
  have z2 : (2 : Int) * (nc : Int) = (nc : Int) + (nc : Int) := by ring
  have zm : (-1 : Int) * (nc : Int) = -(nc : Int) := by ring
  cases smp <;> simp only [SamplerId.pre, SamplerId.post, Nat.cast_zero, Nat.cast_one,
    Nat.cast_ofNat, neg_zero] at r0 <;>
    simp only [SamplerId.run, point32, lerp32, cubic32, point16, lerp16, cubic16, point8,
      lerp8, cubic8]
  case point32 | point16 | point8 =>
    obtain ⟨v0, e0⟩ := r0 0 (le_refl _) (le_refl _)
    rw [z0] at e0
    simp only [e0]
    exact ⟨_, rfl⟩
  case lerp32 | lerp16 | lerp8 =>
    obtain ⟨v0, e0⟩ := r0 0 (le_refl _) (by decide)
    obtain ⟨v1, e1⟩ := r0 1 (by decide) (le_refl _)
    rw [z0] at e0
    rw [z1] at e1
    simp only [e0, e1]
    exact ⟨_, rfl⟩
  case cubic32 | cubic16 | cubic8 =>
    obtain ⟨v0, e0⟩ := r0 0 (by decide) (by decide)
    obtain ⟨v1, e1⟩ := r0 1 (by decide) (by decide)
    obtain ⟨v2, e2⟩ := r0 2 (by decide) (le_refl _)
    obtain ⟨vm, em⟩ := r0 (-1) (le_refl _) (by decide)
    rw [z0] at e0
    rw [z1] at e1
    rw [z2] at e2
    rw [zm] at em
    simp only [e0, e1, e2, em]
    exact ⟨_, rfl⟩

end ReadLemmas

/-! ## The mixers return when every read is inside the window -/

/-- A counted loop returns when an invariant makes every pass return and is kept by it. -/
theorem forLoop_ok {σ : Type} (body : Nat → σ → Except Fault σ) :
    ∀ (n i0 : Nat) (I : Nat → σ → Prop),
      (∀ k s, k < n → I k s → ∃ s1, body (i0 + k) s = .ok s1 ∧ I (k + 1) s1) →
      ∀ s, I 0 s → ∃ s1, forLoop body n i0 s = .ok s1 ∧ I n s1 := by
  intro n
  induction n with
  | zero =>
    intro i0 I _ s hs
    exact ⟨s, rfl, hs⟩
  | succ n ih =>
    intro i0 I hstep s hs
    obtain ⟨s1, e1, h1⟩ := hstep 0 s (Nat.succ_pos n) hs
    rw [Nat.add_zero] at e1
    obtain ⟨s2, e2, h2⟩ := ih (i0 + 1) (fun k s => I (k + 1) s)
      (fun k s hk hI => by
        have := hstep (k + 1) s (Nat.succ_lt_succ hk) hI
        rwa [show i0 + (k + 1) = i0 + 1 + k by omega] at this) s1 h1
    exact ⟨s2, by simp only [forLoop, e1, e2], h2⟩

section OkLemmas

variable {α F : Type} [Add α] [Sub α] [Mul α] [Div α] [IntCast α]

theorem mixDryLead_ok {E : Env α F} {smp : SamplerId} {data : SrcPtr} {nc i : Nat}
    (DrySend : Nat → α) {c : Cur α F} {v : α}
    (hv : sample E smp data nc c.pos c.frac i = .ok v) :
    ∃ c1, mixDryLead E smp data nc i DrySend c = .ok c1 := by
  unfold mixDryLead
  rw [hv]
  exact ⟨_, rfl⟩

theorem mixDryTrail_ok {E : Env α F} {smp : SamplerId} {data : SrcPtr} {nc i : Nat}
    (DrySend : Nat → α) {c : Cur α F} {v : α}
    (hv : sample E smp data nc c.pos c.frac i = .ok v) :
    ∃ c1, mixDryTrail E smp data nc i DrySend c = .ok c1 := by
  unfold mixDryTrail
  rw [hv]
  exact ⟨_, rfl⟩

theorem mixDryStep_ok {E : Env α F} {smp : SamplerId} {data : SrcPtr} {nc i : Nat}
    (inc : Nat) (DrySend : Nat → α) {c : Cur α F} {v : α}
    (hv : sample E smp data nc c.pos c.frac i = .ok v) :
    ∃ c1, mixDryStep E smp data nc inc i DrySend c = .ok c1 := by
  unfold mixDryStep
  rw [hv]
  exact ⟨_, rfl⟩

theorem mixWetLead_ok {E : Env α F} {smp : SamplerId} {data : SrcPtr} {nc i : Nat}
    (out a : Nat) {c : Cur α F} {v : α}
    (hv : sample E smp data nc c.pos c.frac i = .ok v) :
    ∃ c1, mixWetLead E smp data nc out a i c = .ok c1 := by
  unfold mixWetLead
  rw [hv]
  exact ⟨_, rfl⟩

theorem mixWetTrail_ok {E : Env α F} {smp : SamplerId} {data : SrcPtr} {nc i : Nat}
    (out a : Nat) {c : Cur α F} {v : α}
    (hv : sample E smp data nc c.pos c.frac i = .ok v) :
    ∃ c1, mixWetTrail E smp data nc out a i c = .ok c1 := by
  unfold mixWetTrail
  rw [hv]
  exact ⟨_, rfl⟩

theorem mixWetStep_ok {E : Env α F} {smp : SamplerId} {data : SrcPtr} {nc i : Nat}
    (inc out a : Nat) {c : Cur α F} {v : α}
    (hv : sample E smp data nc c.pos c.frac i = .ok v) :
    ∃ c1, mixWetStep E smp data nc inc out a i c = .ok c1 := by
  unfold mixWetStep
  rw [hv]
  exact ⟨_, rfl⟩

/-- The kernel returns at the phase of a state that has made `k ≤ n` advances. -/
theorem SamplesOk.at {E : Env α F} {smp : SamplerId} {data : SrcPtr} {nc inc f n : Nat}
    (hS : SamplesOk E smp data nc inc f n) {k i : Nat} (hk : k ≤ n) (hi : i < nc)
    {c : Cur α F} (hc : c.ph = (phaseStep inc)^[k] (0, f)) :
    ∃ v : α, sample E smp data nc c.pos c.frac i = .ok v := by
  obtain ⟨v, hv⟩ := hS k hk i hi
  rw [← hc] at hv
  exact ⟨v, hv⟩

theorem mixDryChannel_ok {E : Env α F} {smp : SamplerId} {data : SrcPtr} {nc inc f n : Nat}
    (hS : SamplesOk E smp data nc inc f n) (std i : Nat) (hi : i < nc) (c : Cur α F) :
    ∃ c1, mixDryChannel E smp data nc inc f std n i c = .ok c1 := by
  unfold mixDryChannel
  simp only
  have l1 : ∃ c1 : Cur α F, (if c.OutPos = 0 then
      mixDryLead E smp data nc i (c.mem.Source.Params.DryGains i)
        { c with pos := 0, frac := f } else .ok { c with pos := 0, frac := f }) = .ok c1 ∧
      c1.ph = (0, f) := by
    split
    · obtain ⟨v, hv⟩ := hS.at (Nat.zero_le _) hi
        (show ({ c with pos := 0, frac := f } : Cur α F).ph = _ from rfl)
      obtain ⟨c1, h1⟩ := mixDryLead_ok (c.mem.Source.Params.DryGains i) hv
      exact ⟨c1, h1, by rw [mixDryLead_ph h1]; rfl⟩
    · exact ⟨_, rfl, rfl⟩
  obtain ⟨c1, e1, p1⟩ := l1
  rw [e1]
  simp only
  obtain ⟨c2, e2, p2⟩ := forLoop_ok
    (fun _ => mixDryStep E smp data nc inc i (c.mem.Source.Params.DryGains i)) n 0
    (fun k s => s.ph = (phaseStep inc)^[k] (0, f))
    (fun k s hk hI => by
      obtain ⟨v, hv⟩ := hS.at (Nat.le_of_lt hk) hi hI
      obtain ⟨s1, h1⟩ := mixDryStep_ok inc (c.mem.Source.Params.DryGains i) hv
      refine ⟨s1, h1, ?_⟩
      show s1.ph = _
      rw [mixDryStep_ph h1, show s.ph = _ from hI, Function.iterate_succ_apply']) c1 p1
  rw [e2]
  simp only
  have l3 : ∃ c3 : Cur α F, (if c2.OutPos = std then
      mixDryTrail E smp data nc i (c.mem.Source.Params.DryGains i) c2 else .ok c2) = .ok c3 := by
    split
    · obtain ⟨v, hv⟩ := hS.at (Nat.le_refl _) hi p2
      exact mixDryTrail_ok _ hv
    · exact ⟨_, rfl⟩
  obtain ⟨c3, e3⟩ := l3
  rw [e3]
  exact ⟨_, rfl⟩

theorem mixWetChannel_ok {E : Env α F} {smp : SamplerId} {data : SrcPtr} {nc inc f n : Nat}
    (hS : SamplesOk E smp data nc inc f n) (std out a i : Nat) (hi : i < nc) (c : Cur α F) :
    ∃ c1, mixWetChannel E smp data nc inc f std n out a i c = .ok c1 := by
  unfold mixWetChannel
  simp only
  have l1 : ∃ c1 : Cur α F, (if c.OutPos = 0 then
      mixWetLead E smp data nc out a i
        { c with pos := 0, frac := f } else .ok { c with pos := 0, frac := f }) = .ok c1 ∧
      c1.ph = (0, f) := by
    split
    · obtain ⟨v, hv⟩ := hS.at (Nat.zero_le _) hi
        (show ({ c with pos := 0, frac := f } : Cur α F).ph = _ from rfl)
      obtain ⟨c1, h1⟩ := mixWetLead_ok out a hv
      exact ⟨c1, h1, by rw [mixWetLead_ph h1]; rfl⟩
    · exact ⟨_, rfl, rfl⟩
  obtain ⟨c1, e1, p1⟩ := l1
  rw [e1]
  simp only
  obtain ⟨c2, e2, p2⟩ := forLoop_ok
    (fun _ => mixWetStep E smp data nc inc out a i) n 0
    (fun k s => s.ph = (phaseStep inc)^[k] (0, f))
    (fun k s hk hI => by
      obtain ⟨v, hv⟩ := hS.at (Nat.le_of_lt hk) hi hI
      obtain ⟨s1, h1⟩ := mixWetStep_ok inc out a hv
      refine ⟨s1, h1, ?_⟩
      show s1.ph = _
      rw [mixWetStep_ph h1, show s.ph = _ from hI, Function.iterate_succ_apply']) c1 p1
  rw [e2]
  simp only
  have l3 : ∃ c3 : Cur α F, (if c2.OutPos = std then
      mixWetTrail E smp data nc out a i c2 else .ok c2) = .ok c3 := by
    split
    · obtain ⟨v, hv⟩ := hS.at (Nat.le_refl _) hi p2
      exact mixWetTrail_ok _ _ hv
    · exact ⟨_, rfl⟩
  obtain ⟨c3, e3⟩ := l3
  rw [e3]
  exact ⟨_, rfl⟩

theorem mixSend_ok {E : Env α F} {smp : SamplerId} {data : SrcPtr} {nc inc f n : Nat}
    (hS : SamplesOk E smp data nc inc f n) (std out : Nat) (c : Cur α F) :
    ∃ c1, mixSend E smp data nc inc f std n out c = .ok c1 := by
  unfold mixSend
  split
  · exact ⟨_, rfl⟩
  · next a _ =>
    split
    · exact ⟨_, rfl⟩
    · obtain ⟨c1, e1, _⟩ := forLoop_ok
        (mixWetChannel E smp data nc inc f std n out a) nc 0 (fun _ _ => True)
        (fun k s hk _ => by
          obtain ⟨s1, h1⟩ := mixWetChannel_ok hS std out a (0 + k) (by omega) s
          exact ⟨s1, h1, trivial⟩) c trivial
      exact ⟨c1, e1⟩

/-- The plain mixers return when the kernel returns at every phase they visit. -/
theorem Mix_ok {E : Env α F} {smp : SamplerId} {data : SrcPtr} {m : Mem α F} {f n : Nat}
    (hS : SamplesOk E smp data m.Source.NumChannels m.Source.Params.Step f n)
    (p o std : Nat) : ∃ res, Mix E smp m data p f o std n = .ok res := by
  unfold Mix
  simp only
  obtain ⟨c1, e1, _⟩ := forLoop_ok
    (mixDryChannel E smp data m.Source.NumChannels m.Source.Params.Step f std n)
    m.Source.NumChannels 0 (fun _ _ => True)
    (fun k s hk _ => by
      obtain ⟨s1, h1⟩ := mixDryChannel_ok hS std (0 + k) (by omega) s
      exact ⟨s1, h1, trivial⟩) { mem := m, pos := 0, frac := f, OutPos := o } trivial
  rw [e1]
  simp only
  obtain ⟨c2, e2, _⟩ := forLoop_ok
    (mixSend E smp data m.Source.NumChannels m.Source.Params.Step f std n)
    c1.mem.Device.NumAuxSends 0 (fun _ _ => True)
    (fun k s _ _ => by
      obtain ⟨s1, h1⟩ := mixSend_ok hS std (0 + k) s
      exact ⟨s1, h1, trivial⟩) c1 trivial
  rw [e2]
  exact ⟨_, rfl⟩

end OkLemmas

section HrtfOkLemmas

variable {α F : Type} [Add α] [Sub α] [Mul α] [Div α] [IntCast α]

theorem hrtfLead_ok {E : Env α F} {smp : SamplerId} {data : SrcPtr} {nc i : Nat}
    {h : HrtfCur α F} {v : α}
    (hv : sample E smp data nc h.cur.pos h.cur.frac i = .ok v) :
    ∃ h1, hrtfLead E smp data nc i h = .ok h1 := by
  unfold hrtfLead
  rw [hv]
  exact ⟨_, rfl⟩

theorem hrtfTrail_ok {E : Env α F} {smp : SamplerId} {data : SrcPtr} {nc i : Nat}
    {h : HrtfCur α F} {v : α}
    (hv : sample E smp data nc h.cur.pos h.cur.frac i = .ok v) :
    ∃ h1, hrtfTrail E smp data nc i h = .ok h1 := by
  unfold hrtfTrail
  rw [hv]
  exact ⟨_, rfl⟩

theorem hrtfRampStep_ok {E : Env α F} {smp : SamplerId} {data : SrcPtr} {nc i : Nat}
    (inc : Nat) {h : HrtfCur α F} {v : α}
    (hv : sample E smp data nc h.cur.pos h.cur.frac i = .ok v) :
    ∃ h1, hrtfRampStep E smp data nc inc i h = .ok h1 := by
  unfold hrtfRampStep
  rw [hv]
  exact ⟨_, rfl⟩

theorem hrtfSteadyStep_ok {E : Env α F} {smp : SamplerId} {data : SrcPtr} {nc i : Nat}
    (inc : Nat) {h : HrtfCur α F} {v : α}
    (hv : sample E smp data nc h.cur.pos h.cur.frac i = .ok v) :
    ∃ h1, hrtfSteadyStep E smp data nc inc i h = .ok h1 := by
  unfold hrtfSteadyStep
  rw [hv]
  exact ⟨_, rfl⟩

theorem hrtfRamp_ok {E : Env α F} {smp : SamplerId} {data : SrcPtr} {nc inc f n i : Nat}
    (hS : SamplesOk E smp data nc inc f n) (hi : i < nc) :
    ∀ (j k : Nat) (h : HrtfCur α F), k + j = n → h.cur.ph = (phaseStep inc)^[k] (0, f) →
      ∃ rest h1, hrtfRamp E smp data nc inc i j h = .ok (rest, h1) := by
  intro j
  induction j with
  | zero =>
    intro k h _ _
    exact ⟨_, _, rfl⟩
  | succ j ih =>
    intro k h hk hp
    simp only [hrtfRamp]
    split
    · obtain ⟨v, hv⟩ := hS k (by omega) i hi
      rw [← hp] at hv
      obtain ⟨h1, e1⟩ := hrtfRampStep_ok inc hv
      rw [e1]
      simp only
      exact ih (k + 1) h1 (by omega)
        (by rw [hrtfRampStep_ph e1, hp, Function.iterate_succ_apply'])
    · exact ⟨_, _, rfl⟩

theorem hrtfChannel_ok {E : Env α F} {smp : SamplerId} {data : SrcPtr} {nc inc f n : Nat}
    (hS : SamplesOk E smp data nc inc f n) (std i : Nat) (hi : i < nc) (c : Cur α F) :
    ∃ c1, hrtfChannel E smp data nc inc f std n i c = .ok c1 := by
  unfold hrtfChannel
  simp only
  generalize hh0 : (hrtfInit f i c : HrtfCur α F) = h0
  have p0 : h0.cur.ph = (0, f) := by rw [← hh0]; rfl
  have l1 : ∃ h1 : HrtfCur α F, (if h0.cur.OutPos = 0 then hrtfLead E smp data nc i h0
      else .ok h0) = .ok h1 ∧ h1.cur.ph = (0, f) := by
    split
    · obtain ⟨v, hv⟩ := hS.at (Nat.zero_le _) hi (show h0.cur.ph = _ from p0)
      obtain ⟨h1, e1⟩ := hrtfLead_ok hv
      exact ⟨h1, e1, by rw [hrtfLead_ph e1]; exact p0⟩
    · exact ⟨_, rfl, p0⟩
  obtain ⟨h1, e1, p1⟩ := l1
  rw [e1]
  simp only
  obtain ⟨rest, h2, e2⟩ := hrtfRamp_ok hS hi n 0 h1 (by omega) p1
  obtain ⟨l2, p2⟩ := hrtfRamp_ph _ _ _ _ e2
  rw [e2]
  simp only
  obtain ⟨h4, e4, p4⟩ := forLoop_ok
    (fun _ => hrtfSteadyStep E smp data nc inc i) rest 0
    (fun k s => s.cur.ph = (phaseStep inc)^[n - rest + k] (0, f))
    (fun k s hk hI => by
      obtain ⟨v, hv⟩ := hS.at (k := n - rest + k) (by omega) hi (show s.cur.ph = _ from hI)
      obtain ⟨s1, h1⟩ := hrtfSteadyStep_ok inc hv
      refine ⟨s1, h1, ?_⟩
      show s1.cur.ph = _
      rw [hrtfSteadyStep_ph h1, show s.cur.ph = _ from hI,
        show n - rest + (k + 1) = (n - rest + k) + 1 by omega, Function.iterate_succ_apply'])
    { h2 with Delay0 := h2.Delay0 >>> 16, Delay1 := h2.Delay1 >>> 16 }
    (by show h2.cur.ph = _; rw [p2, p1]; rfl)
  rw [e4]
  simp only
  have l5 : ∃ h5 : HrtfCur α F, (if h4.cur.OutPos = std then hrtfTrail E smp data nc i h4
      else .ok h4) = .ok h5 := by
    split
    · obtain ⟨v, hv⟩ := hS.at (k := n - rest + rest) (by omega) hi (show h4.cur.ph = _ from p4)
      exact hrtfTrail_ok hv
    · exact ⟨_, rfl⟩
  obtain ⟨h5, e5⟩ := l5
  rw [e5]
  exact ⟨_, rfl⟩

/-- The HRTF mixers return when the kernel returns at every phase they visit. -/
theorem Mix_Hrtf_ok {E : Env α F} {smp : SamplerId} {data : SrcPtr} {m : Mem α F} {f n : Nat}
    (hS : SamplesOk E smp data m.Source.NumChannels m.Source.Params.Step f n)
    (p o std : Nat) : ∃ res, Mix_Hrtf E smp m data p f o std n = .ok res := by
  unfold Mix_Hrtf
  simp only
  obtain ⟨c1, e1, _⟩ := forLoop_ok
    (hrtfChannel E smp data m.Source.NumChannels m.Source.Params.Step f std n)
    m.Source.NumChannels 0 (fun _ _ => True)
    (fun k s hk _ => by
      obtain ⟨s1, h1⟩ := hrtfChannel_ok hS std (0 + k) (by omega) s
      exact ⟨s1, h1, trivial⟩) { mem := m, pos := 0, frac := f, OutPos := o } trivial
  rw [e1]
  simp only
  obtain ⟨c2, e2, _⟩ := forLoop_ok
    (mixSend E smp data m.Source.NumChannels m.Source.Params.Step f std n)
    c1.mem.Device.NumAuxSends 0 (fun _ _ => True)
    (fun k s _ _ => by
      obtain ⟨s1, h1⟩ := mixSend_ok hS std (0 + k) s
      exact ⟨s1, h1, trivial⟩) c1 trivial
  rw [e2]
  exact ⟨_, rfl⟩

/-- Each of the eighteen mixers returns when its kernel returns at every phase it
visits. -/
theorem call_ok {E : Env α F} {g : MixerFunc} {data : SrcPtr} {m : Mem α F} {f n : Nat}
    (hS : SamplesOk E g.sampler data m.Source.NumChannels m.Source.Params.Step f n)
    (p o std : Nat) : ∃ res, g.call E m data p f o std n = .ok res := by
  unfold MixerFunc.call
  split
  · exact Mix_Hrtf_ok hS p o std
  · exact Mix_ok hS p o std

/-- The kernel returns at every phase of a call when no sum leaves 32 bits and the window
holds the frames from `-pre` to `post` beyond the last position. -/
theorem samplesOk_of_covers (E : Env α F) (smp : SamplerId) (data : SrcPtr) (nc inc f n : Nat)
    (hf : f < 16384) (hnc : nc < 2147483648)
    (h1 : ∀ k, k < n → (f + k * inc) % 16384 + inc < 4294967296)
    (h2 : (f + n * inc) / 16384 * nc < 4294967296)
    (hc : Covers data (nc * smp.sizeofT) (-(smp.pre : Int))
            ((((f + n * inc) / 16384 : Nat) : Int) + smp.post)) :
    SamplesOk E smp data nc inc f n := by
  intro k hk i hi
  have hmono : (f + k * inc) / 16384 ≤ (f + n * inc) / 16384 :=
    Nat.div_le_div_right (Nat.add_le_add_left (Nat.mul_le_mul_right inc hk) f)
  have hpos : 0 < nc := by omega
  have hb : (f + n * inc) / 16384 < 4294967296 :=
    lt_of_le_of_lt (Nat.le_mul_of_pos_right _ hpos) h2
  rw [phaseStep_iterate inc f hf k (fun j hj => h1 j (by omega)) (by omega)]
  simp only
  refine sample_ok E smp data nc _ _ i hi hnc
    (lt_of_le_of_lt (Nat.mul_le_mul_right nc hmono) h2)
    (covers_mono hc (by omega) (by omega))

end HrtfOkLemmas

/-! ## What the mixers leave alone -/

section FrameLemmas

variable {α F : Type} [Add α] [Sub α] [Mul α] [Div α] [IntCast α]

theorem setDryFilter_fixed (m : Mem α F) (f : F) : (m.setDryFilter f).fixed = m.fixed := rfl

theorem setHistory_fixed (m : Mem α F) (i k : Nat) (v : α) :
    (m.setHistory i k v).fixed = m.fixed := rfl

theorem setValues_fixed (m : Mem α F) (i : Nat) (V : Nat → Nat → α) :
    (m.setValues i V).fixed = m.fixed := rfl

theorem setSendFilter_fixed (m : Mem α F) (out : Nat) (f : F) :
    (m.setSendFilter out f).fixed = m.fixed := by
  have h1 : (fun o => ((m.setSendFilter out f).Source.Params.Send o).Slot)
      = fun o => (m.Source.Params.Send o).Slot := by
    funext o
    simp only [Mem.setSendFilter]
    split
    · next h => rw [h]
    · rfl
  have h2 : (fun o => ((m.setSendFilter out f).Source.Params.Send o).WetGain)
      = fun o => (m.Source.Params.Send o).WetGain := by
    funext o
    simp only [Mem.setSendFilter]
    split
    · next h => rw [h]
    · rfl
  unfold Mem.fixed
  rw [h1, h2]
  rfl

/-- Storing a slot that keeps its effect type changes nothing a mixer reads. -/
theorem setSlot_fixed (m : Mem α F) (a : Nat) (s : ALeffectslot α)
    (h : s.effectType = (m.Slot a).effectType) : (m.setSlot a s).fixed = m.fixed := by
  simp only [Mem.fixed, Mem.setSlot]
  congr 1
  funext b
  split
  · next hb => rw [h, hb]
  · rfl

theorem mixDryStep_fixed {E : Env α F} {smp : SamplerId} {data : SrcPtr} {nc inc i : Nat}
    {DrySend : Nat → α} {c c1 : Cur α F}
    (h : mixDryStep E smp data nc inc i DrySend c = .ok c1) : c1.mem.fixed = c.mem.fixed := by
  unfold mixDryStep at h
  split at h
  · simp at h
  · simp only [Except.ok.injEq] at h
    rw [← h]; rfl

theorem mixDryLead_fixed {E : Env α F} {smp : SamplerId} {data : SrcPtr} {nc i : Nat}
    {DrySend : Nat → α} {c c1 : Cur α F}
    (h : mixDryLead E smp data nc i DrySend c = .ok c1) : c1.mem.fixed = c.mem.fixed := by
  unfold mixDryLead at h
  split at h
  · simp at h
  · simp only [Except.ok.injEq] at h
    rw [← h]; rfl

theorem mixDryTrail_fixed {E : Env α F} {smp : SamplerId} {data : SrcPtr} {nc i : Nat}
    {DrySend : Nat → α} {c c1 : Cur α F}
    (h : mixDryTrail E smp data nc i DrySend c = .ok c1) : c1.mem.fixed = c.mem.fixed := by
  unfold mixDryTrail at h
  split at h
  · simp at h
  · simp only [Except.ok.injEq] at h
    rw [← h]; rfl

theorem mixDryChannel_fixed {E : Env α F} {smp : SamplerId} {data : SrcPtr}
    {nc inc f std n i : Nat} {c c1 : Cur α F}
    (h : mixDryChannel E smp data nc inc f std n i c = .ok c1) :
    c1.mem.fixed = c.mem.fixed := by
  unfold mixDryChannel at h
  simp only at h
  split at h
  · simp at h
  · next c2 h2 =>
    split at h
    · simp at h
    · next c3 h3 =>
      split at h
      · simp at h
      · next c4 h4 =>
        simp only [Except.ok.injEq] at h
        have e2 : c2.mem.fixed = c.mem.fixed := by
          split at h2
          · rw [mixDryLead_fixed h2]
          · simp only [Except.ok.injEq] at h2
            rw [← h2]
        have e3 : c3.mem.fixed = c.mem.fixed :=
          forLoop_inv _ (fun s : Cur α F => s.mem.fixed = c.mem.fixed)
            (fun _ s s1 hs hb => by rw [← hs]; exact mixDryStep_fixed hb) _ _ _ _ e2 h3
        have e4 : c4.mem.fixed = c.mem.fixed := by
          split at h4
          · rw [mixDryTrail_fixed h4, e3]
          · simp only [Except.ok.injEq] at h4
            rw [← h4, e3]
        rw [← h]
        exact e4

theorem mixWetStep_fixed {E : Env α F} {smp : SamplerId} {data : SrcPtr} {nc inc out a i : Nat}
    {c c1 : Cur α F}
    (h : mixWetStep E smp data nc inc out a i c = .ok c1) : c1.mem.fixed = c.mem.fixed := by
  unfold mixWetStep at h
  split at h
  · simp at h
  · simp only [Except.ok.injEq] at h
    rw [← h]
    refine (setSlot_fixed _ _ _ ?_).trans (setSendFilter_fixed c.mem out _)
    rfl

theorem mixWetLead_fixed {E : Env α F} {smp : SamplerId} {data : SrcPtr} {nc out a i : Nat}
    {c c1 : Cur α F}
    (h : mixWetLead E smp data nc out a i c = .ok c1) : c1.mem.fixed = c.mem.fixed := by
  unfold mixWetLead at h
  split at h
  · simp at h
  · simp only [Except.ok.injEq] at h
    rw [← h]
    refine setSlot_fixed _ _ _ ?_
    rfl

theorem mixWetTrail_fixed {E : Env α F} {smp : SamplerId} {data : SrcPtr} {nc out a i : Nat}
    {c c1 : Cur α F}
    (h : mixWetTrail E smp data nc out a i c = .ok c1) : c1.mem.fixed = c.mem.fixed := by
  unfold mixWetTrail at h
  split at h
  · simp at h
  · simp only [Except.ok.injEq] at h
    rw [← h]
    refine setSlot_fixed _ _ _ ?_
    rfl

theorem mixWetChannel_fixed {E : Env α F} {smp : SamplerId} {data : SrcPtr}
    {nc inc f std n out a i : Nat} {c c1 : Cur α F}
    (h : mixWetChannel E smp data nc inc f std n out a i c = .ok c1) :
    c1.mem.fixed = c.mem.fixed := by
  unfold mixWetChannel at h
  simp only at h
  split at h
  · simp at h
  · next c2 h2 =>
    split at h
    · simp at h
    · next c3 h3 =>
      split at h
      · simp at h
      · next c4 h4 =>
        simp only [Except.ok.injEq] at h
        have e2 : c2.mem.fixed = c.mem.fixed := by
          split at h2
          · rw [mixWetLead_fixed h2]
          · simp only [Except.ok.injEq] at h2
            rw [← h2]
        have e3 : c3.mem.fixed = c.mem.fixed :=
          forLoop_inv _ (fun s : Cur α F => s.mem.fixed = c.mem.fixed)
            (fun _ s s1 hs hb => by rw [← hs]; exact mixWetStep_fixed hb) _ _ _ _ e2 h3
        have e4 : c4.mem.fixed = c.mem.fixed := by
          split at h4
          · rw [mixWetTrail_fixed h4, e3]
          · simp only [Except.ok.injEq] at h4
            rw [← h4, e3]
        rw [← h]
        exact e4

theorem mixSend_fixed {E : Env α F} {smp : SamplerId} {data : SrcPtr}
    {nc inc f std n out : Nat} {c c1 : Cur α F}
    (h : mixSend E smp data nc inc f std n out c = .ok c1) : c1.mem.fixed = c.mem.fixed := by
  unfold mixSend at h
  split at h
  · simp only [Except.ok.injEq] at h
    rw [h]
  · split at h
    · simp only [Except.ok.injEq] at h
      rw [h]
    · exact forLoop_inv _ (fun s : Cur α F => s.mem.fixed = c.mem.fixed)
        (fun _ s s1 hs hb => by rw [← hs]; exact mixWetChannel_fixed hb) _ _ _ _ rfl h

theorem Mix_fixed {E : Env α F} {smp : SamplerId} {m : Mem α F} {data : SrcPtr}
    {p f o std n : Nat} {res : MixResult α F}
    (e : Mix E smp m data p f o std n = .ok res) : res.mem.fixed = m.fixed := by
  unfold Mix at e
  simp only at e
  split at e
  · simp at e
  · next c1 e1 =>
    split at e
    · simp at e
    · next c2 e2 =>
      simp only [Except.ok.injEq] at e
      subst e
      have k1 : c1.mem.fixed = m.fixed :=
        forLoop_inv _ (fun s : Cur α F => s.mem.fixed = m.fixed)
          (fun _ s s1 hs hb => by rw [← hs]; exact mixDryChannel_fixed hb) _ _ _ _ rfl e1
      exact forLoop_inv _ (fun s : Cur α F => s.mem.fixed = m.fixed)
        (fun _ s s1 hs hb => by rw [← hs]; exact mixSend_fixed hb) _ _ _ _ k1 e2

theorem hrtfLead_fixed {E : Env α F} {smp : SamplerId} {data : SrcPtr} {nc i : Nat}
    {h h1 : HrtfCur α F}
    (e : hrtfLead E smp data nc i h = .ok h1) : h1.cur.mem.fixed = h.cur.mem.fixed := by
  unfold hrtfLead at e
  split at e
  · simp at e
  · simp only [Except.ok.injEq] at e
    rw [← e]; rfl

theorem hrtfTrail_fixed {E : Env α F} {smp : SamplerId} {data : SrcPtr} {nc i : Nat}
    {h h1 : HrtfCur α F}
    (e : hrtfTrail E smp data nc i h = .ok h1) : h1.cur.mem.fixed = h.cur.mem.fixed := by
  unfold hrtfTrail at e
  split at e
  · simp at e
  · simp only [Except.ok.injEq] at e
    rw [← e]; rfl

theorem hrtfRampStep_fixed {E : Env α F} {smp : SamplerId} {data : SrcPtr} {nc inc i : Nat}
    {h h1 : HrtfCur α F}
    (e : hrtfRampStep E smp data nc inc i h = .ok h1) :
    h1.cur.mem.fixed = h.cur.mem.fixed := by
  unfold hrtfRampStep at e
  split at e
  · simp at e
  · simp only [Except.ok.injEq] at e
    rw [← e]
    simp only [Mem.fixed, Cur.advance, Mem.setValues, Mem.setHistory, Mem.setDryFilter]

theorem hrtfSteadyStep_fixed {E : Env α F} {smp : SamplerId} {data : SrcPtr} {nc inc i : Nat}
    {h h1 : HrtfCur α F}
    (e : hrtfSteadyStep E smp data nc inc i h = .ok h1) :
    h1.cur.mem.fixed = h.cur.mem.fixed := by
  unfold hrtfSteadyStep at e
  split at e
  · simp at e
  · simp only [Except.ok.injEq] at e
    rw [← e]
    simp only [Mem.fixed, Cur.advance, Mem.setValues, Mem.setHistory, Mem.setDryFilter]

theorem hrtfRamp_fixed {E : Env α F} {smp : SamplerId} {data : SrcPtr} {nc inc i : Nat} :
    ∀ (n : Nat) (h h1 : HrtfCur α F) (rest : Nat),
      hrtfRamp E smp data nc inc i n h = .ok (rest, h1) →
      h1.cur.mem.fixed = h.cur.mem.fixed := by
  intro n
  induction n with
  | zero =>
    intro h h1 rest e
    simp only [hrtfRamp, Except.ok.injEq, Prod.mk.injEq] at e
    rw [e.2]
  | succ n ih =>
    intro h h1 rest e
    simp only [hrtfRamp] at e
    split at e
    · split at e
      · simp at e
      · next h2 e2 => rw [ih _ _ _ e, hrtfRampStep_fixed e2]
    · simp only [Except.ok.injEq, Prod.mk.injEq] at e
      rw [e.2]

theorem hrtfChannel_fixed {E : Env α F} {smp : SamplerId} {data : SrcPtr}
    {nc inc f std n i : Nat} {c c1 : Cur α F}
    (e : hrtfChannel E smp data nc inc f std n i c = .ok c1) :
    c1.mem.fixed = c.mem.fixed := by
  unfold hrtfChannel at e
  simp only at e
  split at e
  · simp at e
  · next h1 e1 =>
    split at e
    · simp at e
    · next rest h2 e2 =>
      split at e
      · simp at e
      · next h4 e4 =>
        split at e
        · simp at e
        · next h5 e5 =>
          simp only [Except.ok.injEq] at e
          have p1 : h1.cur.mem.fixed = c.mem.fixed := by
            split at e1
            · rw [hrtfLead_fixed e1]; rfl
            · simp only [Except.ok.injEq] at e1
              rw [← e1]; rfl
          have p2 := hrtfRamp_fixed _ _ _ _ e2
          have p4 : h4.cur.mem.fixed = c.mem.fixed :=
            forLoop_inv _ (fun s : HrtfCur α F => s.cur.mem.fixed = c.mem.fixed)
              (fun _ s s1 hs hb => by
                show s1.cur.mem.fixed = _
                rw [hrtfSteadyStep_fixed hb]; exact hs) _ _
              { h2 with Delay0 := h2.Delay0 >>> 16, Delay1 := h2.Delay1 >>> 16 } _
              (by show h2.cur.mem.fixed = _; rw [p2, p1]) e4
          have p5 : h5.cur.mem.fixed = c.mem.fixed := by
            split at e5
            · rw [hrtfTrail_fixed e5, p4]
            · simp only [Except.ok.injEq] at e5
              rw [← e5, p4]
          rw [← e]
          exact p5

theorem Mix_Hrtf_fixed {E : Env α F} {smp : SamplerId} {m : Mem α F} {data : SrcPtr}
    {p f o std n : Nat} {res : MixResult α F}
    (e : Mix_Hrtf E smp m data p f o std n = .ok res) : res.mem.fixed = m.fixed := by
  unfold Mix_Hrtf at e
  simp only at e
  split at e
  · simp at e
  · next c1 e1 =>
    split at e
    · simp at e
    · next c2 e2 =>
      simp only [Except.ok.injEq] at e
      subst e
      have k1 : c1.mem.fixed = m.fixed :=
        forLoop_inv _ (fun s : Cur α F => s.mem.fixed = m.fixed)
          (fun _ s s1 hs hb => by rw [← hs]; exact hrtfChannel_fixed hb) _ _ _ _ rfl e1
      exact forLoop_inv _ (fun s : Cur α F => s.mem.fixed = m.fixed)
        (fun _ s s1 hs hb => by rw [← hs]; exact mixSend_fixed hb) _ _ _ _ k1 e2

/-- No mixer changes the part of the memory it only reads. -/
theorem call_fixed {E : Env α F} {g : MixerFunc} {m : Mem α F} {data : SrcPtr}
    {p f o std n : Nat} {res : MixResult α F}
    (e : g.call E m data p f o std n = .ok res) : res.mem.fixed = m.fixed := by
  unfold MixerFunc.call at e
  split at e
  · exact Mix_Hrtf_fixed e
  · exact Mix_fixed e

end FrameLemmas

/-! ## The structure of `MixSource` -/

section FeedLemmas

variable {α F : Type} [Add α] [Sub α] [Mul α] [Div α] [IntCast α]

/-- What the loop under "Handle looping sources" can do to the locals: it keeps the memory,
`OutPos`, `Looping` and the call record, and either keeps `State` and the fraction or stops
the source with the reset values. -/
theorem advanceLoop_spec (FS : Nat) :
    ∀ (fuel : Nat) (st st1 : FeedSt α F), advanceLoop FS fuel st = .ok st1 →
      st1.mem = st.mem ∧ st1.OutPos = st.OutPos ∧ st1.calls = st.calls ∧
      st1.Looping = st.Looping ∧
      ((st1.State = st.State ∧ st1.DataPosFrac = st.DataPosFrac) ∨
       (st1.State = .AL_STOPPED ∧ st1.DataPosFrac = 0 ∧ st1.DataPosInt = 0 ∧
        st1.BuffersPlayed = st.mem.Source.BuffersInQueue)) := by
  intro fuel
  induction fuel with
  | zero =>
    intro st st1 h
    simp [advanceLoop] at h
  | succ fuel ih =>
    intro st st1 h
    simp only [advanceLoop] at h
    split at h
    · simp at h
    · next it hit =>
      split at h
      · simp at h
      · split at h
        · simp only [Except.ok.injEq] at h
          subst h
          exact ⟨rfl, rfl, rfl, rfl, Or.inl ⟨rfl, rfl⟩⟩
        · split at h
          · split at h
            · simp at h
            · simp only [Except.ok.injEq] at h
              subst h
              exact ⟨rfl, rfl, rfl, rfl, Or.inl ⟨rfl, rfl⟩⟩
          · split at h
            · simp only [Except.ok.injEq] at h
              subst h
              exact ⟨rfl, rfl, rfl, rfl, Or.inl ⟨rfl, rfl⟩⟩
            · split at h
              · have := ih _ _ h
                exact this
              · split at h
                · have := ih _ _ h
                  exact this
                · simp only [Except.ok.injEq] at h
                  subst h
                  exact ⟨rfl, rfl, rfl, rfl, Or.inr ⟨rfl, rfl, rfl, rfl⟩⟩

/-- The steps of one iteration of the `do ... while` loop, read off a returning run. -/
theorem feedIter_inv {E : Env α F} {fuel std inc : Nat} {r : Resampler} {FS : Nat}
    {st st1 : FeedSt α F} (h : feedIter E fuel std inc r FS st = .ok st1) :
    ∃ (pre post B0 : Nat) (SrcData : List Nat) (L : Bool) (n : Nat) (g : MixerFunc)
      (res : MixResult α F),
      ResamplerPrePadding r = some pre ∧ ResamplerPadding r = some post ∧
      requestSize E.STACK_DATA_SIZE std st.OutPos inc st.DataPosFrac post pre FS = .ok B0 ∧
      assemble fuel st.mem.Source st.Looping st.BufferListItem st.DataPosInt pre FS B0
        = .ok (SrcData, L) ∧
      mixCount SrcData.length std st.OutPos inc st.DataPosFrac post pre FS = .ok n ∧
      st.mem.Source.Params.DoMix = some g ∧
      g.call E st.mem { bytes := SrcData, off := ((u32 (pre * FS) : Nat) : Int) }
        st.DataPosInt st.DataPosFrac st.OutPos std n = .ok res ∧
      advanceLoop FS fuel { st with
        mem := res.mem
        DataPosInt := res.DataPosInt
        DataPosFrac := res.DataPosFrac
        Looping := L
        OutPos := u32 (st.OutPos + n)
        calls := st.calls ++ [{ SrcData := SrcData
                                base := u32 (pre * FS)
                                DataPosInt := st.DataPosInt
                                DataPosFrac := st.DataPosFrac
                                OutPos := st.OutPos
                                BufferSize := n }] } = .ok st1 := by
  unfold feedIter at h
  split at h
  · next pre post hpre hpost =>
    split at h
    · simp at h
    · next B0 hB =>
      split at h
      · simp at h
      · next SrcData L hA =>
        split at h
        · simp at h
        · next n hn =>
          split at h
          · simp at h
          · next g hg =>
            split at h
            · simp at h
            · next res hres =>
              exact ⟨pre, post, B0, SrcData, L, n, g, res, hpre, hpost, hB, hA, hn, hg, hres, h⟩
  · simp at h

/-- Induction over the `do ... while` loop: `I` holds when the body is entered, `R` when it
is left. -/
theorem feedLoop_ind {E : Env α F} {inner std inc : Nat} {r : Resampler} {FS : Nat}
    (I R : FeedSt α F → Prop)
    (hiter : ∀ st st1, I st → feedIter E inner std inc r FS st = .ok st1 → R st1)
    (hcont : ∀ st1, R st1 → st1.State = .AL_PLAYING → st1.OutPos < std → I st1) :
    ∀ (fuel : Nat) (st st1 : FeedSt α F), I st →
      feedLoop E inner std inc r FS fuel st = .ok st1 →
      R st1 ∧ ¬ (st1.State = .AL_PLAYING ∧ st1.OutPos < std) := by
  intro fuel
  induction fuel with
  | zero =>
    intro st st1 _ h
    simp [feedLoop] at h
  | succ fuel ih =>
    intro st st1 hI h
    simp only [feedLoop] at h
    split at h
    · simp at h
    · next st2 h2 =>
      have hR := hiter _ _ hI h2
      split at h
      · next hc => exact ih _ _ (hcont _ hR hc.1 hc.2) h
      · next hc =>
        simp only [Except.ok.injEq] at h
        subst h
        exact ⟨hR, hc⟩

/-- The number of samples handed to the mixer never exceeds what is left to do. -/
theorem mixCount_le {len std o inc f post pre FS n : Nat}
    (h : mixCount len std o inc f post pre FS = .ok n) : n ≤ usub std o := by
  unfold mixCount at h
  split at h
  · simp at h
  · simp only [Except.ok.injEq] at h
    rw [← h]
    exact Nat.min_le_right _ _

/-- The result of `MixSource`, read off a returning run: the final locals of the loop and
the fields written back. -/
theorem MixSource_inv {E : Env α F} {fuel : Nat} {m : Mem α F} {std : Nat}
    {r : Mem α F × List MixCall} (h : MixSource E fuel m std = .ok r) :
    ∃ (item : Option Nat) (st : FeedSt α F),
      walkQueue m.Source.queue m.Source.BuffersPlayed (queueHead m.Source.queue) = .ok item ∧
      feedLoop E fuel std m.Source.Params.Step m.Source.Resampler
        (u32 (m.Source.NumChannels * m.Source.SampleSize)) fuel
        { mem := m
          State := m.Source.state
          BuffersPlayed := m.Source.BuffersPlayed
          DataPosInt := m.Source.position
          DataPosFrac := m.Source.position_fraction
          Looping := m.Source.bLooping
          BufferListItem := item
          OutPos := 0
          calls := [] } = .ok st ∧
      r.2 = st.calls ∧
      r.1.Device = st.mem.Device ∧ r.1.Slot = st.mem.Slot ∧
      r.1.Source.state = st.State ∧
      r.1.Source.BuffersPlayed = st.BuffersPlayed ∧
      r.1.Source.position = st.DataPosInt ∧
      r.1.Source.position_fraction = st.DataPosFrac ∧
      r.1.Source.HrtfOffset = u32 (st.mem.Source.HrtfOffset + st.OutPos) ∧
      r.1.Source.HrtfCounter = (if st.State = .AL_PLAYING then
          usub (max st.mem.Source.HrtfCounter st.OutPos) st.OutPos else 0) ∧
      r.1.Source.HrtfMoving = (if st.State = .AL_PLAYING then true else false) ∧
      r.1.Source.BuffersInQueue = st.mem.Source.BuffersInQueue ∧
      r.1.Source.queue = st.mem.Source.queue ∧
      r.1.Source.bLooping = st.mem.Source.bLooping ∧
      r.1.Source.Params = st.mem.Source.Params ∧
      r.1.Source.HrtfHistory = st.mem.Source.HrtfHistory ∧
      r.1.Source.HrtfValues = st.mem.Source.HrtfValues := by
  unfold MixSource at h
  simp only at h
  split at h
  · simp at h
  · next item hitem =>
    split at h
    · simp at h
    · next st hst =>
      simp only [Except.ok.injEq] at h
      subst h
      exact ⟨item, st, hitem, hst, rfl, rfl, rfl, rfl, rfl, rfl, rfl, rfl, rfl, rfl, rfl, rfl, rfl,
        rfl, rfl, rfl⟩

end FeedLemmas

/-! ## C9: the kernel selectors -/

/-- C9. `SelectMixer` and `SelectHrtfMixer` return null exactly for the unsupported
combinations: the result is non-null iff the format is one of `FmtByte`, `FmtShort`,
`FmtFloat` and the resampler one of point, linear, cubic.  For a supported pair the
function returned is the plain, respectively HRTF, template instantiated with the kernel
of that element type and interpolator (`specKernel`), and calling it is calling that
instance; the eighteen results are pairwise distinct. -/
theorem C9_selectors :
    (∀ (b : ALbuffer) (r : Resampler),
      ((SelectMixer b r).isSome ↔
        ((b.FmtType = .FmtByte ∨ b.FmtType = .FmtShort ∨ b.FmtType = .FmtFloat) ∧
         (r = .POINT_RESAMPLER ∨ r = .LINEAR_RESAMPLER ∨ r = .CUBIC_RESAMPLER))) ∧
      ((SelectHrtfMixer b r).isSome ↔
        ((b.FmtType = .FmtByte ∨ b.FmtType = .FmtShort ∨ b.FmtType = .FmtFloat) ∧
         (r = .POINT_RESAMPLER ∨ r = .LINEAR_RESAMPLER ∨ r = .CUBIC_RESAMPLER))) ∧
      (SelectMixer b r).map MixerFunc.sampler = specKernel b.FmtType r ∧
      (SelectMixer b r).map MixerFunc.isHrtf = (specKernel b.FmtType r).map (fun _ => false) ∧
      (SelectHrtfMixer b r).map MixerFunc.sampler = specKernel b.FmtType r ∧
      (SelectHrtfMixer b r).map MixerFunc.isHrtf = (specKernel b.FmtType r).map (fun _ => true)) ∧
    (∀ (g : MixerFunc) (E : Env ℚ Unit) (m : Mem ℚ Unit) (d : SrcPtr) (p f o s n : Nat),
      g.call E m d p f o s n =
        if g.isHrtf then Mix_Hrtf E g.sampler m d p f o s n else Mix E g.sampler m d p f o s n) ∧
    (∀ (b b1 : ALbuffer) (r r1 : Resampler),
      ((SelectMixer b r).isSome → SelectMixer b r = SelectMixer b1 r1 →
        b.FmtType = b1.FmtType ∧ r = r1) ∧
      ((SelectHrtfMixer b r).isSome → SelectHrtfMixer b r = SelectHrtfMixer b1 r1 →
        b.FmtType = b1.FmtType ∧ r = r1) ∧
      ((SelectMixer b r).isSome → SelectMixer b r ≠ SelectHrtfMixer b1 r1)) := by
  refine ⟨?_, ?_, ?_⟩
  · intro b r
    rcases b with ⟨d, ls, le, fmt⟩
    cases fmt <;> cases r <;> simp [SelectMixer, SelectHrtfMixer, Select_point, Select_lerp,
      Select_cubic, Select_Hrtf_point, Select_Hrtf_lerp, Select_Hrtf_cubic, specKernel,
      MixerFunc.sampler, MixerFunc.isHrtf]
  · intro g E m d p f o s n
    rfl
  · intro b b1 r r1
    rcases b with ⟨d, ls, le, fmt⟩
    rcases b1 with ⟨d1, ls1, le1, fmt1⟩
    cases fmt <;> cases r <;> cases fmt1 <;> cases r1 <;>
      simp [SelectMixer, SelectHrtfMixer, Select_point, Select_lerp,
        Select_cubic, Select_Hrtf_point, Select_Hrtf_lerp, Select_Hrtf_cubic]

/-- C9 at a concrete pair: 16-bit samples with the linear resampler give the `lerp16`
mixers. -/
theorem C9_selectors_witness :
    (SelectMixer (exBuffer []) .LINEAR_RESAMPLER).map MixerFunc.sampler
        = specKernel .FmtByte .LINEAR_RESAMPLER ∧
      SelectMixer { exBuffer [] with FmtType := .FmtShort } .LINEAR_RESAMPLER
        = some .Mix_ALshort_lerp16 :=
  ⟨(C9_selectors.1 (exBuffer []) .LINEAR_RESAMPLER).2.2.1, rfl⟩

/-! ## C2: a mixer call advances the phase by `BufferSize` steps -/

section C2

variable {α F : Type} [Add α] [Sub α] [Mul α] [Div α] [IntCast α]

/-- C2. For each of the eighteen mixers, a source with at least one channel, an incoming
fraction below `FRACTIONONE` and no 32-bit overflow (no sum `frac + increment` and no
position sum leaves 32 bits), a call with `BufferSize = n` that returns writes back
`pos_int'` and `pos_frac'` with
`pos_int' * FRACTIONONE + pos_frac' = pos_int * FRACTIONONE + pos_frac + n * step`. -/
theorem C2_mixer_advances_phase (E : Env α F) (g : MixerFunc) (m : Mem α F) (data : SrcPtr)
    (pos_int pos_frac OutPos SamplesToDo n : Nat) (res : MixResult α F)
    (hch : 0 < m.Source.NumChannels) (hf : pos_frac < FRACTIONONE)
    (hov1 : ∀ k, k < n →
      (pos_frac + k * m.Source.Params.Step) % FRACTIONONE + m.Source.Params.Step < 2 ^ 32)
    (hov2 : pos_int + (pos_frac + n * m.Source.Params.Step) / FRACTIONONE < 2 ^ 32)
    (hcall : g.call E m data pos_int pos_frac OutPos SamplesToDo n = .ok res) :
    res.DataPosInt * FRACTIONONE + res.DataPosFrac
      = pos_int * FRACTIONONE + pos_frac + n * m.Source.Params.Step := by
  rw [FRACTIONONE_eq] at *
  have hcl := phaseStep_iterate m.Source.Params.Step pos_frac hf n
    (fun k hk => by have := hov1 k hk; omega) (by omega)
  rcases call_phase hcall with ⟨h0, _⟩ | ⟨_, h1, h2⟩
  · omega
  · rw [h1, h2, hcl]
    simp only [u32]
    omega

end C2

/-- C2 at a concrete call: the 8-bit linear mixer, three steps of half a sample from
phase `(0, 0)`, end at position 1 with fraction 8192. -/
theorem C2_mixer_advances_phase_witness :
    (exCall .Mix_ALbyte_lerp8 16384
        (exMem (exSource [] .AL_STATIC false .LINEAR_RESAMPLER none .AL_PLAYING 0 0 0 8192))
        { bytes := [10, 11, 12], off := 0 } 0 0 0 3 3).DataPosInt * FRACTIONONE
      + (exCall .Mix_ALbyte_lerp8 16384
        (exMem (exSource [] .AL_STATIC false .LINEAR_RESAMPLER none .AL_PLAYING 0 0 0 8192))
        { bytes := [10, 11, 12], off := 0 } 0 0 0 3 3).DataPosFrac
      = 0 * FRACTIONONE + 0 + 3 * 8192 :=
  C2_mixer_advances_phase (exEnv 16384) .Mix_ALbyte_lerp8
    (exMem (exSource [] .AL_STATIC false .LINEAR_RESAMPLER none .AL_PLAYING 0 0 0 8192))
    { bytes := [10, 11, 12], off := 0 } 0 0 0 3 3 _
    (by decide) (by decide) (by decide) (by decide) rfl

/-! ## C4: the fraction stays below `FRACTIONONE` -/

section C4

variable {α F : Type} [Add α] [Sub α] [Mul α] [Div α] [IntCast α]

/-- The fraction a mixer writes back is below `FRACTIONONE` when the incoming one is. -/
theorem call_frac_lt {E : Env α F} {g : MixerFunc} {m : Mem α F} {data : SrcPtr}
    {p f o std n : Nat} {res : MixResult α F} (hf : f < 16384)
    (e : g.call E m data p f o std n = .ok res) : res.DataPosFrac < 16384 := by
  rcases call_phase e with ⟨_, _, h⟩ | ⟨_, _, h⟩
  · omega
  · rw [h]
    exact phaseStep_iterate_frac_lt _ _ _ hf

/-- C4. After any returning call of any of the eighteen mixers - whatever the window, the
step and `BufferSize`, zero included - the fraction written back is below `FRACTIONONE`
if the incoming fraction was; and a returning `MixSource` leaves
`position_fraction < FRACTIONONE` if it found it so. -/
theorem C4_fraction_invariant (E : Env α F) :
    (∀ (g : MixerFunc) (m : Mem α F) (data : SrcPtr) (pos_int pos_frac OutPos SamplesToDo
        BufferSize : Nat) (res : MixResult α F),
      pos_frac < FRACTIONONE →
      g.call E m data pos_int pos_frac OutPos SamplesToDo BufferSize = .ok res →
      res.DataPosFrac < FRACTIONONE) ∧
    (∀ (fuel : Nat) (m : Mem α F) (SamplesToDo : Nat) (r : Mem α F × List MixCall),
      m.Source.position_fraction < FRACTIONONE →
      MixSource E fuel m SamplesToDo = .ok r →
      r.1.Source.position_fraction < FRACTIONONE) := by
  rw [FRACTIONONE_eq]
  refine ⟨fun g m data p f o std n res hf e => call_frac_lt hf e, ?_⟩
  intro fuel m std r hf hrun
  obtain ⟨item, st, _, hloop, -, -, -, -, -, -, hfr, -⟩ := MixSource_inv hrun
  rw [hfr]
  refine (feedLoop_ind (fun s : FeedSt α F => s.DataPosFrac < 16384)
    (fun s : FeedSt α F => s.DataPosFrac < 16384) ?_ (fun _ h _ _ => h) fuel _ _ hf hloop).1
  intro s s1 hs hit
  obtain ⟨pre, post, B0, SrcData, L, n, g, res, -, -, -, -, -, -, hcall, hadv⟩ := feedIter_inv hit
  obtain ⟨-, -, -, -, h | h⟩ := advanceLoop_spec _ _ _ _ hadv
  · rw [h.2]
    exact call_frac_lt hs hcall
  · rw [h.2.1]
    decide

end C4

/-- C4 at a concrete call and a concrete run: the 8-bit linear mixer stepping by half a
sample, and `MixSource` over a four-sample static buffer. -/
theorem C4_fraction_invariant_witness :
    (exCall .Mix_ALbyte_lerp8 16384
        (exMem (exSource [] .AL_STATIC false .LINEAR_RESAMPLER none .AL_PLAYING 0 0 0 8192))
        { bytes := [10, 11, 12], off := 0 } 0 0 0 3 3).DataPosFrac < FRACTIONONE ∧
      (exRun 16384 8
        (exMem (exSource [some (exBuffer [10, 11, 12, 13])] .AL_STATIC false .LINEAR_RESAMPLER
          (some .Mix_ALbyte_lerp8) .AL_PLAYING 0 0 0 8192)) 3).1.Source.position_fraction
        < FRACTIONONE :=
  ⟨(C4_fraction_invariant (exEnv 16384)).1 .Mix_ALbyte_lerp8
      (exMem (exSource [] .AL_STATIC false .LINEAR_RESAMPLER none .AL_PLAYING 0 0 0 8192))
      { bytes := [10, 11, 12], off := 0 } 0 0 0 3 3 _ (by decide) rfl,
   (C4_fraction_invariant (exEnv 16384)).2 8
      (exMem (exSource [some (exBuffer [10, 11, 12, 13])] .AL_STATIC false .LINEAR_RESAMPLER
        (some .Mix_ALbyte_lerp8) .AL_PLAYING 0 0 0 8192)) 3 _ (by decide) rfl⟩

/-! ## C6, C7, C8: what `MixSource` writes back -/

section C678

variable {α F : Type} [Add α] [Sub α] [Mul α] [Div α] [IntCast α]

/-- One iteration keeps the read-only part of the memory, appends one call to the record,
and either keeps `State` or stops the source with the reset values. -/
theorem feedIter_state {E : Env α F} {fuel std inc : Nat} {r : Resampler} {FS : Nat}
    {st st1 : FeedSt α F} {X : Fixed α} (hX : st.mem.fixed = X)
    (h : feedIter E fuel std inc r FS st = .ok st1) :
    st1.mem.fixed = X ∧
    (∃ c : MixCall, st1.calls = st.calls ++ [c]) ∧
    (st1.State = st.State ∨
      (st1.State = .AL_STOPPED ∧ st1.DataPosInt = 0 ∧ st1.DataPosFrac = 0 ∧
        st1.BuffersPlayed = X.BuffersInQueue)) := by
  obtain ⟨pre, post, B0, SrcData, L, n, g, res, -, -, -, -, hn, -, hcall, hadv⟩ := feedIter_inv h
  obtain ⟨h1, h2, h3, -, h5⟩ := advanceLoop_spec _ _ _ _ hadv
  have hfix := call_fixed hcall
  simp only at h1 h2 h3 h5
  refine ⟨by rw [h1, hfix, hX], ⟨_, h3⟩, ?_⟩
  rcases h5 with h | h
  · exact Or.inl h.1
  · refine Or.inr ⟨h.1, h.2.2.1, h.2.1, ?_⟩
    rw [h.2.2.2, ← hX, ← hfix]
    rfl

/-- One iteration entered with `OutPos ≤ SamplesToDo` and the memory's read-only part equal
to `X` keeps both, appends one call whose `BufferSize` is the growth of `OutPos`, and
either keeps `State` or stops the source with the reset values. -/
theorem feedIter_step {E : Env α F} {fuel std inc : Nat} {r : Resampler} {FS : Nat}
    {st st1 : FeedSt α F} {X : Fixed α} (hstd : std < 4294967296)
    (hX : st.mem.fixed = X) (hO : st.OutPos ≤ std)
    (h : feedIter E fuel std inc r FS st = .ok st1) :
    st1.mem.fixed = X ∧ st1.OutPos ≤ std ∧
    (∃ c : MixCall, st1.calls = st.calls ++ [c] ∧ st1.OutPos = st.OutPos + c.BufferSize) ∧
    (st1.State = st.State ∨
      (st1.State = .AL_STOPPED ∧ st1.DataPosInt = 0 ∧ st1.DataPosFrac = 0 ∧
        st1.BuffersPlayed = X.BuffersInQueue)) := by
  obtain ⟨pre, post, B0, SrcData, L, n, g, res, -, -, -, -, hn, -, hcall, hadv⟩ := feedIter_inv h
  obtain ⟨h1, h2, h3, -, h5⟩ := advanceLoop_spec _ _ _ _ hadv
  have hfix := call_fixed hcall
  have hle := mixCount_le hn
  simp only at h1 h2 h3 h5
  have hu : usub std st.OutPos = std - st.OutPos := by unfold usub; omega
  have hO1 : u32 (st.OutPos + n) = st.OutPos + n := by unfold u32; omega
  refine ⟨by rw [h1, hfix, hX], by rw [h2, hO1]; omega, ⟨_, h3, by rw [h2, hO1]⟩, ?_⟩
  rcases h5 with h | h
  · exact Or.inl h.1
  · refine Or.inr ⟨h.1, h.2.2.1, h.2.1, ?_⟩
    rw [h.2.2.2, ← hX, ← hfix]
    rfl

/-- C6. Whenever `MixSource`, entered with state Playing, returns with state Stopped, the
source has `position = 0`, `position_fraction = 0`, `BuffersPlayed = BuffersInQueue` (the
past-the-end sentinel; `BuffersInQueue` itself is untouched), `HrtfCounter = 0` and
`HrtfMoving = false`. -/
theorem C6_stopped_source_is_reset (E : Env α F) (fuel : Nat) (m : Mem α F) (SamplesToDo : Nat)
    (r : Mem α F × List MixCall)
    (hplay : m.Source.state = .AL_PLAYING)
    (hrun : MixSource E fuel m SamplesToDo = .ok r)
    (hstop : r.1.Source.state = .AL_STOPPED) :
    r.1.Source.position = 0 ∧ r.1.Source.position_fraction = 0 ∧
    r.1.Source.BuffersPlayed = r.1.Source.BuffersInQueue ∧
    r.1.Source.BuffersInQueue = m.Source.BuffersInQueue ∧
    r.1.Source.HrtfCounter = 0 ∧ r.1.Source.HrtfMoving = false := by
  obtain ⟨item, st, _, hloop, -, -, -, hs, hbp, hp, hfr, -, hc, hm, hbq, -⟩ := MixSource_inv hrun
  have key := (feedLoop_ind
    (fun s : FeedSt α F => s.mem.fixed = m.fixed ∧ s.State = .AL_PLAYING)
    (fun s : FeedSt α F => s.mem.fixed = m.fixed ∧
      (s.State = .AL_PLAYING ∨ (s.State = .AL_STOPPED ∧ s.DataPosInt = 0 ∧ s.DataPosFrac = 0 ∧
        s.BuffersPlayed = m.Source.BuffersInQueue)))
    (fun s s1 hI hit => by
      obtain ⟨a, -, d⟩ := feedIter_state hI.1 hit
      refine ⟨a, ?_⟩
      rcases d with d | d
      · exact Or.inl (d.trans hI.2)
      · exact Or.inr d)
    (fun s hR hp _ => ⟨hR.1, hp⟩) fuel _ _ ⟨rfl, hplay⟩ hloop).1
  obtain ⟨kfix, kst⟩ := key
  rw [hs] at hstop
  have hq : st.mem.Source.BuffersInQueue = m.Source.BuffersInQueue :=
    congrArg Fixed.BuffersInQueue kfix
  rcases kst with k | k
  · rw [k] at hstop
    cases hstop
  · rw [hp, hfr, hbp, hbq, hc, hm, hq, hstop]
    exact ⟨k.2.1, k.2.2.1, k.2.2.2, rfl, rfl, rfl⟩

/-- C7. If `MixSource` is entered with state Playing and returns, the number of samples it
mixed - the sum of the `BufferSize` of its mixer calls - is at most `SamplesToDo`, and
`HrtfOffset` has grown by it modulo `2 ^ 32`.  If it returns with state Playing, exactly
`SamplesToDo` samples were mixed, `HrtfCounter` is
`max(HrtfCounter, SamplesToDo) - SamplesToDo` and `HrtfMoving` is true. -/
theorem C7_playing_source_mixed_all (E : Env α F) (fuel : Nat) (m : Mem α F)
    (SamplesToDo : Nat) (r : Mem α F × List MixCall) (hstd : SamplesToDo < 2 ^ 32)
    (hctr : m.Source.HrtfCounter < 2 ^ 32)
    (hplay : m.Source.state = .AL_PLAYING)
    (hrun : MixSource E fuel m SamplesToDo = .ok r) :
    (r.2.map MixCall.BufferSize).sum ≤ SamplesToDo ∧
    r.1.Source.HrtfOffset = (m.Source.HrtfOffset + (r.2.map MixCall.BufferSize).sum) % 2 ^ 32 ∧
    (r.1.Source.state = .AL_PLAYING →
      (r.2.map MixCall.BufferSize).sum = SamplesToDo ∧
      r.1.Source.HrtfCounter = max m.Source.HrtfCounter SamplesToDo - SamplesToDo ∧
      r.1.Source.HrtfMoving = true) := by
  norm_num at hstd hctr
  obtain ⟨item, st, _, hloop, hcalls, -, -, hs, -, -, -, ho, hc, hm, -⟩ := MixSource_inv hrun
  obtain ⟨⟨kfix, kle, ksum⟩, kexit⟩ := feedLoop_ind
    (fun s : FeedSt α F => s.mem.fixed = m.fixed ∧ s.OutPos ≤ SamplesToDo ∧
      s.OutPos = (s.calls.map MixCall.BufferSize).sum)
    (fun s : FeedSt α F => s.mem.fixed = m.fixed ∧ s.OutPos ≤ SamplesToDo ∧
      s.OutPos = (s.calls.map MixCall.BufferSize).sum)
    (fun s s1 hI hit => by
      obtain ⟨a, b, ⟨c, hc1, hc2⟩, -⟩ := feedIter_step hstd hI.1 hI.2.1 hit
      refine ⟨a, b, ?_⟩
      rw [hc1, hc2, hI.2.2]
      simp)
    (fun s hR _ _ => hR) fuel _ _ ⟨rfl, Nat.zero_le _, rfl⟩ hloop
  have hoff : st.mem.Source.HrtfOffset = m.Source.HrtfOffset := congrArg Fixed.HrtfOffset kfix
  have hcnt : st.mem.Source.HrtfCounter = m.Source.HrtfCounter := congrArg Fixed.HrtfCounter kfix
  rw [hcalls, ← ksum]
  refine ⟨kle, by rw [ho, hoff]; rfl, ?_⟩
  intro hp
  rw [hs] at hp
  have hO : st.OutPos = SamplesToDo := by
    have : ¬ st.OutPos < SamplesToDo := fun h => kexit ⟨hp, h⟩
    omega
  rw [hc, hm, if_pos hp, if_pos hp, hcnt, hO]
  refine ⟨rfl, ?_, rfl⟩
  unfold usub
  have : SamplesToDo ≤ max m.Source.HrtfCounter SamplesToDo := le_max_right _ _
  have : max m.Source.HrtfCounter SamplesToDo < 4294967296 := max_lt hctr hstd
  omega

/-- C8, as the code has it.  `MixSource` does not test the state on entry: entered with a
state other than Playing, a returning run has gone through the loop body exactly once -
it made exactly one mixer call - and it returns with the state it found or Stopped,
`HrtfCounter = 0` and `HrtfMoving = false`. -/
theorem C8_not_playing_runs_once (E : Env α F) (fuel : Nat) (m : Mem α F) (SamplesToDo : Nat)
    (r : Mem α F × List MixCall)
    (hstate : m.Source.state ≠ .AL_PLAYING)
    (hrun : MixSource E fuel m SamplesToDo = .ok r) :
    r.2.length = 1 ∧
    (r.1.Source.state = m.Source.state ∨ r.1.Source.state = .AL_STOPPED) ∧
    r.1.Source.HrtfCounter = 0 ∧ r.1.Source.HrtfMoving = false := by
  obtain ⟨item, st, _, hloop, hcalls, -, -, hs, -, -, -, -, hc, hm, -⟩ := MixSource_inv hrun
  cases fuel with
  | zero => simp [feedLoop] at hloop
  | succ fuel =>
    simp only [feedLoop] at hloop
    split at hloop
    · simp at hloop
    · next st1 hit =>
      obtain ⟨-, ⟨c, hc1⟩, hst⟩ := feedIter_state (X := m.fixed) rfl hit
      simp only at hc1 hst
      have hnp : st1.State ≠ .AL_PLAYING := by
        rcases hst with h | h
        · rw [h]; exact hstate
        · rw [h.1]; decide
      rw [if_neg (fun h => hnp h.1)] at hloop
      simp only [Except.ok.injEq] at hloop
      subst hloop
      rw [hcalls, hc1, hs, hc, hm, if_neg hnp, if_neg hnp]
      refine ⟨by simp, ?_, rfl, rfl⟩
      rcases hst with h | h
      · exact Or.inl h
      · exact Or.inr h.1

end C678

/-- C6 at a concrete run: a non-looping static source at the last sample of a four-sample
buffer, asked for two samples, stops. -/
theorem C6_stopped_source_is_reset_witness :
    (exRun 16384 8 (exStatic4 .AL_PLAYING 3) 2).1.Source.state = .AL_STOPPED ∧
      (exRun 16384 8 (exStatic4 .AL_PLAYING 3) 2).1.Source.BuffersPlayed = 1 ∧
      (exRun 16384 8 (exStatic4 .AL_PLAYING 3) 2).1.Source.position = 0 :=
  ⟨by decide, by decide,
   (C6_stopped_source_is_reset (exEnv 16384) 8 (exStatic4 .AL_PLAYING 3) 2
      (exRun 16384 8 (exStatic4 .AL_PLAYING 3) 2) rfl (by rfl) (by decide)).1⟩

/-- C7 at a concrete run: a static source at the start of a four-sample buffer, asked for
two samples, stays Playing, two samples on. -/
theorem C7_playing_source_mixed_all_witness :
    (exRun 16384 8 (exStatic4 .AL_PLAYING 0) 2).1.Source.state = .AL_PLAYING ∧
      (exRun 16384 8 (exStatic4 .AL_PLAYING 0) 2).1.Source.HrtfOffset
        = (0 + ((exRun 16384 8 (exStatic4 .AL_PLAYING 0) 2).2.map MixCall.BufferSize).sum)
            % 2 ^ 32 :=
  ⟨by decide,
   (C7_playing_source_mixed_all (exEnv 16384) 8 (exStatic4 .AL_PLAYING 0) 2
      (exRun 16384 8 (exStatic4 .AL_PLAYING 0) 2) (by decide) (by decide) rfl (by rfl)).2.1⟩

/-- C8 fails as stated: a Paused static source at the start of a four-sample buffer, asked
for two samples, is mixed all the same - one mixer call for two samples is made, the
position moves from 0 to 2 and the first sample reaches the dry buffer. -/
theorem C8_counterexample :
    (exStatic4 .AL_PAUSED 0).Source.state = .AL_PAUSED ∧
      (exStatic4 .AL_PAUSED 0).Source.position = 0 ∧
      (exStatic4 .AL_PAUSED 0).Device.DryBuffer 0 0 = 0 ∧
      (∃ r, MixSource (exEnv 16384) 8 (exStatic4 .AL_PAUSED 0) 2 = .ok r ∧
        r.2.map MixCall.BufferSize = [2] ∧
        r.1.Source.position = 2 ∧
        r.1.Device.DryBuffer 0 0 = 10 / 127) :=
  ⟨rfl, rfl, rfl, exRun 16384 8 (exStatic4 .AL_PAUSED 0) 2, by rfl, by decide, by decide, by
    have h : (exRun 16384 8 (exStatic4 .AL_PAUSED 0) 2).1.Device.DryBuffer 0 0
        = (0 : ℚ) + ((if (10 : ℕ) < 128 then ((10 : ℕ) : ℚ) else ((10 : ℕ) : ℚ) - 256)
            * recip ℚ 127) * (if (0 : ℕ) = 0 then 1 else 0) := by rfl
    rw [h]
    norm_num [recip]⟩

/-- The amended C8 at a concrete run: the Paused source of the counterexample. -/
theorem C8_not_playing_runs_once_witness :
    (exRun 16384 8 (exStatic4 .AL_PAUSED 0) 2).2.length = 1 :=
  (C8_not_playing_runs_once (exEnv 16384) 8 (exStatic4 .AL_PAUSED 0) 2
      (exRun 16384 8 (exStatic4 .AL_PAUSED 0) 2) (by decide) (by rfl)).1

/-! ## C3: what a plain mixer adds to the dry buffer -/

section C3

variable {α F : Type} [Add α] [Sub α] [Mul α] [Div α] [IntCast α]

theorem specAddChannel_nil (M o : Nat) (D : Nat → Nat → α) (G : Nat → α) :
    specAddChannel M o D G [] = D := by
  funext r c
  simp [specAddChannel]

/-- Adding the values `v :: vs` from row `o` is adding `v` to row `o` and `vs` from row
`o + 1`. -/
theorem specAddChannel_cons (M o : Nat) (D : Nat → Nat → α) (G : Nat → α) (v : α) (vs : List α) :
    specAddChannel M o D G (v :: vs)
      = specAddChannel M (o + 1)
          (fun r c => if r = o ∧ c < M then D r c + v * G c else D r c) G vs := by
  funext r c
  simp only [specAddChannel]
  by_cases hc : c < M
  · by_cases h1 : o + 1 ≤ r
    · have h2 : o ≤ r := by omega
      have h3 : ¬ r = o := by omega
      have h4 : r - o = (r - (o + 1)) + 1 := by omega
      simp only [h1, h2, hc, h3, and_self, if_true, false_and, if_false, h4,
        List.getElem?_cons_succ]
    · by_cases h2 : r = o
      · subst h2
        simp [hc]
      · have h3 : ¬ o ≤ r := by omega
        simp [h1, h2, h3]
  · simp [hc]

/-- The dry sample loop of one channel, from a state that has made `k` advances: it
produces the values the specification names and adds them from row `o + k`. -/
theorem dryLoop_spec {E : Env α F} {smp : SamplerId} {data : SrcPtr} {nc inc f0 i o n : Nat}
    {G : Nat → α} (hf : f0 < 16384)
    (hov1 : ∀ k, k < n → (f0 + k * inc) % 16384 + inc < 4294967296)
    (hov2 : (f0 + n * inc) / 16384 < 4294967296) (hO : o + n < 4294967296) :
    ∀ (j k i0 : Nat) (s s1 : Cur α F), k + j = n →
      s.ph = ((f0 + k * inc) / 16384, (f0 + k * inc) % 16384) → s.OutPos = o + k →
      forLoop (fun _ => mixDryStep E smp data nc inc i G) j i0 s = .ok s1 →
      ∃ vs, specFiltered E smp data nc inc f0 i j k s.mem.Source.Params.iirFilter
              = .ok (s1.mem.Source.Params.iirFilter, vs) ∧
        s1.mem.Device.DryBuffer
          = specAddChannel E.MAXCHANNELS (o + k) s.mem.Device.DryBuffer G vs ∧
        s1.mem.Device.ClickRemoval = s.mem.Device.ClickRemoval ∧
        s1.mem.Device.PendingClicks = s.mem.Device.PendingClicks ∧
        s1.OutPos = o + n ∧
        s1.ph = ((f0 + n * inc) / 16384, (f0 + n * inc) % 16384) := by
  intro j
  induction j with
  | zero =>
    intro k i0 s s1 hk hp hO1 h
    simp only [forLoop, Except.ok.injEq] at h
    subst h
    have : k = n := by omega
    subst this
    exact ⟨[], rfl, (specAddChannel_nil _ _ _ _).symm, rfl, rfl, hO1, hp⟩
  | succ j ih =>
    intro k i0 s s1 hk hp hO1 h
    simp only [forLoop] at h
    split at h
    · next s2 h2 =>
      have hph2 := mixDryStep_ph h2
      unfold mixDryStep at h2
      split at h2
      · simp at h2
      · next v hv =>
        simp only [Except.ok.injEq] at h2
        have hpos : s.pos = (f0 + k * inc) / 16384 := congrArg Prod.fst hp
        have hfr : s.frac = (f0 + k * inc) % 16384 := congrArg Prod.snd hp
        have hk1 := hov1 k (by omega)
        have hmono : (f0 + (k + 1) * inc) / 16384 ≤ (f0 + n * inc) / 16384 :=
          Nat.div_le_div_right (Nat.add_le_add_left (Nat.mul_le_mul_right inc (by omega)) f0)
        have e1 : f0 + (k + 1) * inc = f0 + k * inc + inc := by ring
        have hp2 : s2.ph = ((f0 + (k + 1) * inc) / 16384, (f0 + (k + 1) * inc) % 16384) := by
          rw [hph2, hp]
          simp only [phaseStep, shr_fb, and_mask, u32]
          rw [e1] at hmono ⊢
          refine Prod.ext ?_ ?_ <;> simp only <;> omega
        have hO2 : s2.OutPos = o + (k + 1) := by
          rw [← h2]
          simp only [Cur.advance, u32]
          omega
        obtain ⟨vs, a1, a2, a3, a4, a5, a6⟩ := ih (k + 1) (i0 + 1) s2 s1 (by omega) hp2 hO2 h
        refine ⟨(E.lpFilter2P s.mem.Source.Params.iirFilter i v).2 :: vs, ?_, ?_, ?_, ?_, a5, a6⟩
        · simp only [specFiltered, shr_fb, and_mask]
          rw [← hpos, ← hfr, hv]
          simp only
          have hflt : s2.mem.Source.Params.iirFilter
              = (E.lpFilter2P s.mem.Source.Params.iirFilter i v).1 := by
            rw [← h2]; rfl
          rw [← hflt, a1]
        · rw [a2, specAddChannel_cons, ← h2]
          simp only [Cur.advance, Mem.setDryFilter, hO1]
          rfl
        · rw [a3, ← h2]; rfl
        · rw [a4, ← h2]; rfl
    · simp at h

/-- What the mixers leave of the dry side of the memory: the parts of the device and the
dry filter state. -/
theorem mixDryLead_dry {E : Env α F} {smp : SamplerId} {data : SrcPtr} {nc i : Nat}
    {DrySend : Nat → α} {c c1 : Cur α F}
    (h : mixDryLead E smp data nc i DrySend c = .ok c1) :
    c1.mem.Device.DryBuffer = c.mem.Device.DryBuffer ∧
    c1.mem.Source.Params.iirFilter = c.mem.Source.Params.iirFilter ∧
    c1.OutPos = c.OutPos := by
  unfold mixDryLead at h
  split at h
  · simp at h
  · simp only [Except.ok.injEq] at h
    rw [← h]
    exact ⟨rfl, rfl, rfl⟩

theorem mixDryTrail_dry {E : Env α F} {smp : SamplerId} {data : SrcPtr} {nc i : Nat}
    {DrySend : Nat → α} {c c1 : Cur α F}
    (h : mixDryTrail E smp data nc i DrySend c = .ok c1) :
    c1.mem.Device.DryBuffer = c.mem.Device.DryBuffer ∧
    c1.mem.Source.Params.iirFilter = c.mem.Source.Params.iirFilter ∧
    c1.OutPos = c.OutPos := by
  unfold mixDryTrail at h
  split at h
  · simp at h
  · simp only [Except.ok.injEq] at h
    rw [← h]
    exact ⟨rfl, rfl, rfl⟩

/-- One pass of the channel loop of a plain mixer adds the channel's values as the
specification describes and restores `OutPos`. -/
theorem mixDryChannel_spec {E : Env α F} {smp : SamplerId} {data : SrcPtr}
    {nc inc f0 std n i o : Nat} {c c1 : Cur α F} (hf : f0 < 16384)
    (hov1 : ∀ k, k < n → (f0 + k * inc) % 16384 + inc < 4294967296)
    (hov2 : (f0 + n * inc) / 16384 < 4294967296) (hO : o + n < 4294967296)
    (hc : c.OutPos = o)
    (h : mixDryChannel E smp data nc inc f0 std n i c = .ok c1) :
    ∃ vs, specFiltered E smp data nc inc f0 i n 0 c.mem.Source.Params.iirFilter
            = .ok (c1.mem.Source.Params.iirFilter, vs) ∧
      c1.mem.Device.DryBuffer
        = specAddChannel E.MAXCHANNELS o c.mem.Device.DryBuffer
            (c.mem.Source.Params.DryGains i) vs ∧
      c1.OutPos = o := by
  unfold mixDryChannel at h
  simp only at h
  split at h
  · simp at h
  · next c2 h2 =>
    split at h
    · simp at h
    · next c3 h3 =>
      split at h
      · simp at h
      · next c4 h4 =>
        simp only [Except.ok.injEq] at h
        have e2 : c2.mem.Device.DryBuffer = c.mem.Device.DryBuffer ∧
            c2.mem.Source.Params.iirFilter = c.mem.Source.Params.iirFilter ∧
            c2.OutPos = o ∧ c2.ph = (0, f0) := by
          split at h2
          · obtain ⟨a, b, d⟩ := mixDryLead_dry h2
            exact ⟨a, b, d.trans hc, by rw [mixDryLead_ph h2]; rfl⟩
          · simp only [Except.ok.injEq] at h2
            rw [← h2]
            exact ⟨rfl, rfl, hc, rfl⟩
        obtain ⟨vs, a1, a2, -, -, a5, -⟩ := dryLoop_spec hf hov1 hov2 hO n 0 0 c2 c3 (by omega)
          (by rw [e2.2.2.2]; simp; omega) (by rw [e2.2.2.1]; rfl) h3
        have e4 : c4.mem.Device.DryBuffer = c3.mem.Device.DryBuffer ∧
            c4.mem.Source.Params.iirFilter = c3.mem.Source.Params.iirFilter ∧
            c4.OutPos = c3.OutPos := by
          split at h4
          · exact mixDryTrail_dry h4
          · simp only [Except.ok.injEq] at h4
            rw [← h4]
            exact ⟨rfl, rfl, rfl⟩
        refine ⟨vs, ?_, ?_, ?_⟩
        · rw [← h]
          show specFiltered _ _ _ _ _ _ _ _ _ _ = .ok (c4.mem.Source.Params.iirFilter, vs)
          rw [e4.2.1, ← e2.2.1, a1]
        · rw [← h]
          show c4.mem.Device.DryBuffer = _
          rw [e4.1, a2, e2.1]
          rfl
        · rw [← h]
          show usub c4.OutPos n = o
          rw [e4.2.2, a5]
          unfold usub
          omega

/-- The channel loop of a plain mixer, for `j` channels from channel `i0`, leaves the filter
state and the dry buffer the specification describes. -/
theorem dryChannels_spec {E : Env α F} {smp : SamplerId} {data : SrcPtr}
    {nc inc f0 std n o : Nat} {X : Fixed α} (hf : f0 < 16384)
    (hov1 : ∀ k, k < n → (f0 + k * inc) % 16384 + inc < 4294967296)
    (hov2 : (f0 + n * inc) / 16384 < 4294967296) (hO : o + n < 4294967296) :
    ∀ (j i0 : Nat) (c c1 : Cur α F), c.OutPos = o → c.mem.fixed = X →
      forLoop (mixDryChannel E smp data nc inc f0 std n) j i0 c = .ok c1 →
      specDry E smp data nc inc f0 o n X.DryGains j i0 c.mem.Source.Params.iirFilter
          c.mem.Device.DryBuffer
        = .ok (c1.mem.Source.Params.iirFilter, c1.mem.Device.DryBuffer) ∧
      c1.OutPos = o := by
  intro j
  induction j with
  | zero =>
    intro i0 c c1 hc hX h
    simp only [forLoop, Except.ok.injEq] at h
    subst h
    exact ⟨rfl, hc⟩
  | succ j ih =>
    intro i0 c c1 hc hX h
    simp only [forLoop] at h
    split at h
    · next c2 h2 =>
      obtain ⟨vs, a1, a2, a3⟩ := mixDryChannel_spec hf hov1 hov2 hO hc h2
      have hX2 : c2.mem.fixed = X := by rw [mixDryChannel_fixed h2, hX]
      obtain ⟨b1, b2⟩ := ih (i0 + 1) c2 c1 a3 hX2 h
      refine ⟨?_, b2⟩
      simp only [specDry, a1]
      rw [← b1, a2, ← hX]
      rfl
    · simp at h

theorem mixWetStep_dry {E : Env α F} {smp : SamplerId} {data : SrcPtr} {nc inc out a i : Nat}
    {c c1 : Cur α F} (h : mixWetStep E smp data nc inc out a i c = .ok c1) :
    c1.mem.Device = c.mem.Device ∧
    c1.mem.Source.Params.iirFilter = c.mem.Source.Params.iirFilter := by
  unfold mixWetStep at h
  split at h
  · simp at h
  · simp only [Except.ok.injEq] at h
    rw [← h]
    exact ⟨rfl, rfl⟩

theorem mixWetLead_dry {E : Env α F} {smp : SamplerId} {data : SrcPtr} {nc out a i : Nat}
    {c c1 : Cur α F} (h : mixWetLead E smp data nc out a i c = .ok c1) :
    c1.mem.Device = c.mem.Device ∧
    c1.mem.Source.Params.iirFilter = c.mem.Source.Params.iirFilter := by
  unfold mixWetLead at h
  split at h
  · simp at h
  · simp only [Except.ok.injEq] at h
    rw [← h]
    exact ⟨rfl, rfl⟩

theorem mixWetTrail_dry {E : Env α F} {smp : SamplerId} {data : SrcPtr} {nc out a i : Nat}
    {c c1 : Cur α F} (h : mixWetTrail E smp data nc out a i c = .ok c1) :
    c1.mem.Device = c.mem.Device ∧
    c1.mem.Source.Params.iirFilter = c.mem.Source.Params.iirFilter := by
  unfold mixWetTrail at h
  split at h
  · simp at h
  · simp only [Except.ok.injEq] at h
    rw [← h]
    exact ⟨rfl, rfl⟩

theorem mixWetChannel_dry {E : Env α F} {smp : SamplerId} {data : SrcPtr}
    {nc inc f std n out a i : Nat} {c c1 : Cur α F}
    (h : mixWetChannel E smp data nc inc f std n out a i c = .ok c1) :
    c1.mem.Device = c.mem.Device ∧
    c1.mem.Source.Params.iirFilter = c.mem.Source.Params.iirFilter := by
  unfold mixWetChannel at h
  simp only at h
  split at h
  · simp at h
  · next c2 h2 =>
    split at h
    · simp at h
    · next c3 h3 =>
      split at h
      · simp at h
      · next c4 h4 =>
        simp only [Except.ok.injEq] at h
        have e2 : c2.mem.Device = c.mem.Device ∧
            c2.mem.Source.Params.iirFilter = c.mem.Source.Params.iirFilter := by
          split at h2
          · have t := mixWetLead_dry h2
            exact t
          · simp only [Except.ok.injEq] at h2
            rw [← h2]
            exact ⟨rfl, rfl⟩
        have e3 : c3.mem.Device = c.mem.Device ∧
            c3.mem.Source.Params.iirFilter = c.mem.Source.Params.iirFilter :=
          forLoop_inv _ (fun s : Cur α F => s.mem.Device = c.mem.Device ∧
              s.mem.Source.Params.iirFilter = c.mem.Source.Params.iirFilter)
            (fun _ s s1 hs hb => by
              obtain ⟨x, y⟩ := mixWetStep_dry hb
              exact ⟨x.trans hs.1, y.trans hs.2⟩) _ _ _ _ e2 h3
        have e4 : c4.mem.Device = c.mem.Device ∧
            c4.mem.Source.Params.iirFilter = c.mem.Source.Params.iirFilter := by
          split at h4
          · obtain ⟨x, y⟩ := mixWetTrail_dry h4
            exact ⟨x.trans e3.1, y.trans e3.2⟩
          · simp only [Except.ok.injEq] at h4
            rw [← h4]
            exact e3
        rw [← h]
        exact e4

/-- The sends leave the device and the dry filter alone. -/
theorem mixSend_dry {E : Env α F} {smp : SamplerId} {data : SrcPtr}
    {nc inc f std n out : Nat} {c c1 : Cur α F}
    (h : mixSend E smp data nc inc f std n out c = .ok c1) :
    c1.mem.Device = c.mem.Device ∧
    c1.mem.Source.Params.iirFilter = c.mem.Source.Params.iirFilter := by
  unfold mixSend at h
  split at h
  · simp only [Except.ok.injEq] at h
    rw [h]
    exact ⟨rfl, rfl⟩
  · split at h
    · simp only [Except.ok.injEq] at h
      rw [h]
      exact ⟨rfl, rfl⟩
    · exact forLoop_inv _ (fun s : Cur α F => s.mem.Device = c.mem.Device ∧
          s.mem.Source.Params.iirFilter = c.mem.Source.Params.iirFilter)
        (fun _ s s1 hs hb => by
          obtain ⟨x, y⟩ := mixWetChannel_dry hb
          exact ⟨x.trans hs.1, y.trans hs.2⟩) _ _ _ _ ⟨rfl, rfl⟩ h

theorem specFiltered_length {E : Env α F} {smp : SamplerId} {data : SrcPtr}
    {nc inc f0 i : Nat} :
    ∀ (n k : Nat) (flt flt1 : F) (vs : List α),
      specFiltered E smp data nc inc f0 i n k flt = .ok (flt1, vs) → vs.length = n := by
  intro n
  induction n with
  | zero =>
    intro k flt flt1 vs h
    simp only [specFiltered, Except.ok.injEq, Prod.mk.injEq] at h
    rw [← h.2]
    rfl
  | succ n ih =>
    intro k flt flt1 vs h
    simp only [specFiltered] at h
    split at h
    · simp at h
    · split at h
      · simp at h
      · next flt2 vs2 h2 =>
        simp only [Except.ok.injEq, Prod.mk.injEq] at h
        rw [← h.2, List.length_cons, ih _ _ _ _ h2]

/-- Outside the rows `o .. o + n - 1` and the channels below `MAXCHANNELS`, adding a
channel's `n` values changes nothing. -/
theorem specAddChannel_outside (M o : Nat) (D : Nat → Nat → α) (G : Nat → α) (vs : List α)
    (r c : Nat) (h : ¬ (o ≤ r ∧ r < o + vs.length ∧ c < M)) :
    specAddChannel M o D G vs r c = D r c := by
  simp only [specAddChannel]
  split
  · next h1 =>
    have h2 : vs.length ≤ r - o := by
      by_contra hc
      exact h ⟨h1.1, by omega, h1.2⟩
    rw [List.getElem?_eq_none h2]
  · rfl

/-- The dry path of the specification changes no cell outside the rows
`o .. o + n - 1` and the channels below `MAXCHANNELS`. -/
theorem specDry_outside {E : Env α F} {smp : SamplerId} {data : SrcPtr}
    {nc inc f0 o n : Nat} {G : Nat → Nat → α} :
    ∀ (j i0 : Nat) (flt flt1 : F) (D D1 : Nat → Nat → α),
      specDry E smp data nc inc f0 o n G j i0 flt D = .ok (flt1, D1) →
      ∀ r c, ¬ (o ≤ r ∧ r < o + n ∧ c < E.MAXCHANNELS) → D1 r c = D r c := by
  intro j
  induction j with
  | zero =>
    intro i0 flt flt1 D D1 h r c _
    simp only [specDry, Except.ok.injEq, Prod.mk.injEq] at h
    rw [← h.2]
  | succ j ih =>
    intro i0 flt flt1 D D1 h r c hrc
    simp only [specDry] at h
    split at h
    · simp at h
    · next flt2 vs h2 =>
      rw [ih _ _ _ _ _ h r c hrc]
      apply specAddChannel_outside
      rw [specFiltered_length _ _ _ _ _ h2]
      exact hrc

/-- With the point kernels at unit step from fraction 0, output step `k` is at frame `k`
with phase 0. -/
theorem unit_step_phase (k : Nat) :
    (0 + k * FRACTIONONE) >>> FRACTIONBITS = k ∧ (0 + k * FRACTIONONE) &&& FRACTIONMASK = 0 := by
  rw [shr_fb, and_mask, FRACTIONONE_eq]
  omega

/-- C3, as the code has it.  For every returning call of a plain mixer in which no sum
leaves 32 bits (incoming fraction below `FRACTIONONE`, no `frac + increment`, no position
and no `OutPos + BufferSize` reaching `2 ^ 32`), the dry filter state and the dry buffer
the call leaves are those of `specDry`: for every source channel `i` in turn, output step
`k < BufferSize` takes the kernel at source frame `(frac0 + k*step) >> FRACTIONBITS` with
phase `(frac0 + k*step) & FRACTIONMASK`, filters it, and adds its product with
`DryGains[i][c]` to `DryBuffer[OutPos + k][c]` for every output channel `c`, and no other
cell of the dry buffer changes.  With a point kernel, `step = FRACTIONONE` and fraction 0,
step `k` is at frame `k` with phase 0 and the kernel reads window element
`k*NumChannels + i`, whatever the stride and phase it is given. -/
theorem C3_plain_mixer_dry_path (E : Env α F) (smp : SamplerId) (m : Mem α F) (data : SrcPtr)
    (pos_int frac0 OutPos SamplesToDo n : Nat) (res : MixResult α F)
    (hf : frac0 < FRACTIONONE)
    (hov1 : ∀ k, k < n → (frac0 + k * m.Source.Params.Step) % FRACTIONONE
      + m.Source.Params.Step < 2 ^ 32)
    (hov2 : (frac0 + n * m.Source.Params.Step) / FRACTIONONE < 2 ^ 32)
    (hO : OutPos + n < 2 ^ 32)
    (hcall : Mix E smp m data pos_int frac0 OutPos SamplesToDo n = .ok res) :
    specDry E smp data m.Source.NumChannels m.Source.Params.Step frac0 OutPos n
        m.Source.Params.DryGains m.Source.NumChannels 0 m.Source.Params.iirFilter
        m.Device.DryBuffer
      = .ok (res.mem.Source.Params.iirFilter, res.mem.Device.DryBuffer) ∧
    (∀ r c, ¬ (OutPos ≤ r ∧ r < OutPos + n ∧ c < E.MAXCHANNELS) →
      res.mem.Device.DryBuffer r c = m.Device.DryBuffer r c) ∧
    (∀ k, (0 + k * FRACTIONONE) >>> FRACTIONBITS = k ∧
      (0 + k * FRACTIONONE) &&& FRACTIONMASK = 0) ∧
    (∀ (k i : Nat), k * m.Source.NumChannels < 2 ^ 32 →
      sample E .point8 data m.Source.NumChannels k 0 i
        = (match data.read 1 (((k * m.Source.NumChannels + i : Nat) : Int)) with
           | .ok v => .ok (E.ofByte v * recip α 127)
           | .error e => .error e) ∧
      sample E .point16 data m.Source.NumChannels k 0 i
        = (match data.read 2 (((k * m.Source.NumChannels + i : Nat) : Int)) with
           | .ok v => .ok (E.ofShort v * recip α 32767)
           | .error e => .error e) ∧
      sample E .point32 data m.Source.NumChannels k 0 i
        = (match data.read 4 (((k * m.Source.NumChannels + i : Nat) : Int)) with
           | .ok v => .ok (E.ofFloat v)
           | .error e => .error e)) := by
  rw [FRACTIONONE_eq] at hf hov1 hov2
  norm_num at hov1 hov2 hO
  have hmain : specDry E smp data m.Source.NumChannels m.Source.Params.Step frac0 OutPos n
        m.Source.Params.DryGains m.Source.NumChannels 0 m.Source.Params.iirFilter
        m.Device.DryBuffer
      = .ok (res.mem.Source.Params.iirFilter, res.mem.Device.DryBuffer) := by
    unfold Mix at hcall
    simp only at hcall
    split at hcall
    · simp at hcall
    · next c1 e1 =>
      split at hcall
      · simp at hcall
      · next c2 e2 =>
        simp only [Except.ok.injEq] at hcall
        subst hcall
        obtain ⟨a1, -⟩ := dryChannels_spec (X := m.fixed) hf hov1 hov2 hO _ _ _ _ rfl rfl e1
        have a2 : c2.mem.Device = c1.mem.Device ∧
            c2.mem.Source.Params.iirFilter = c1.mem.Source.Params.iirFilter :=
          forLoop_inv _ (fun s : Cur α F => s.mem.Device = c1.mem.Device ∧
              s.mem.Source.Params.iirFilter = c1.mem.Source.Params.iirFilter)
            (fun _ s s1 hs hb => by
              obtain ⟨x, y⟩ := mixSend_dry hb
              exact ⟨x.trans hs.1, y.trans hs.2⟩) _ _ _ _ ⟨rfl, rfl⟩ e2
        simp only
        rw [a2.1, a2.2]
        exact a1
  refine ⟨hmain, specDry_outside _ _ _ _ _ _ hmain, unit_step_phase, ?_⟩
  intro k i hk
  norm_num at hk
  have e : (((u32 (k * m.Source.NumChannels) : Nat) : Int) + ((i : Nat) : Int) + 0)
      = (((k * m.Source.NumChannels + i : Nat)) : Int) := by
    rw [u32_small _ hk]
    push_cast
    ring
  simp only [sample, SamplerId.run, SamplerId.sizeofT, point8, point16, point32, elemAt, e]
  refine ⟨?_, ?_, ?_⟩ <;> split <;> simp_all

end C3


/-- C3 fails as stated when a sum leaves 32 bits: with `step = 2^32 - 1` and fraction 1 the
sum `frac + step` wraps to 0, so the 8-bit point mixer takes both of its two samples at
frame 0 of a one-frame window (it adds `10/127` to `DryBuffer[1][0]`) and returns, whereas
the frame the claim names for the second step, `(1 + 1 * step) >> FRACTIONBITS = 262144`,
is not in the window. -/
theorem C3_counterexample :
    (∃ res, Mix (exEnv 16384) .point8
        (exMem (exSource [] .AL_STATIC false .POINT_RESAMPLER none .AL_PLAYING 0 0 1 4294967295))
        { bytes := [10], off := 0 } 0 1 0 3 2 = .ok res ∧
      res.mem.Device.DryBuffer 1 0 = 10 / 127) ∧
    (1 + 1 * 4294967295) >>> FRACTIONBITS = 262144 ∧
    specDry (exEnv 16384) .point8 { bytes := [10], off := 0 } 1 4294967295 1 0 2
        (fun _ c => if c = 0 then (1 : ℚ) else 0) 1 0 () (fun _ _ => 0)
      = .error .badRead :=
  ⟨⟨exCall .Mix_ALbyte_point8 16384
      (exMem (exSource [] .AL_STATIC false .POINT_RESAMPLER none .AL_PLAYING 0 0 1 4294967295))
      { bytes := [10], off := 0 } 0 1 0 3 2, by rfl, by
      have h : (exCall .Mix_ALbyte_point8 16384
          (exMem (exSource [] .AL_STATIC false .POINT_RESAMPLER none .AL_PLAYING 0 0 1
            4294967295))
          { bytes := [10], off := 0 } 0 1 0 3 2).mem.Device.DryBuffer 1 0
          = (0 : ℚ) + ((if (10 : ℕ) < 128 then ((10 : ℕ) : ℚ) else ((10 : ℕ) : ℚ) - 256)
              * recip ℚ 127) * (if (0 : ℕ) = 0 then 1 else 0) := by rfl
      rw [h]
      norm_num [recip]⟩,
    by decide, by rfl⟩

/-- The amended C3 at a concrete call: the 8-bit linear mixer, three steps of half a sample
over the window `[10, 11, 12]`. -/
theorem C3_plain_mixer_dry_path_witness :
    (exCall .Mix_ALbyte_lerp8 16384
        (exMem (exSource [] .AL_STATIC false .LINEAR_RESAMPLER none .AL_PLAYING 0 0 0 8192))
        { bytes := [10, 11, 12], off := 0 } 0 0 0 3 3).mem.Device.DryBuffer 5 0
      = (exMem (exSource [] .AL_STATIC false .LINEAR_RESAMPLER none .AL_PLAYING 0 0 0
          8192)).Device.DryBuffer 5 0 :=
  (C3_plain_mixer_dry_path (exEnv 16384) .lerp8
    (exMem (exSource [] .AL_STATIC false .LINEAR_RESAMPLER none .AL_PLAYING 0 0 0 8192))
    { bytes := [10, 11, 12], off := 0 } 0 0 0 3 3
    (exCall .Mix_ALbyte_lerp8 16384
      (exMem (exSource [] .AL_STATIC false .LINEAR_RESAMPLER none .AL_PLAYING 0 0 0 8192))
      { bytes := [10, 11, 12], off := 0 } 0 0 0 3 3)
    (by decide) (by decide) (by decide) (by decide) (by rfl)).2.1 5 0 (by decide)

/-! ## The size of the window and the number of samples mixed -/

theorem usub_of_le {a b : Nat} (h : b ≤ a) (ha : a < 4294967296) : usub a b = a - b := by
  unfold usub
  omega

/-- The request of an iteration: a whole number of frames, at most the stack buffer, namely
the smaller of the frames that fit the stack buffer and the frames needed. -/
theorem requestSize_spec {STACK std o inc f post pre FS B0 : Nat}
    (hS : STACK < 4294967296) (hstd : std < 4294967295) (ho : o ≤ std) (hf : f < 16384)
    (hp : post + pre < 4294967296)
    (h : requestSize STACK std o inc f post pre FS = .ok B0) :
    0 < FS ∧ B0 ≤ STACK ∧
    B0 = min (STACK / FS) (((std - o + 1) * inc + f + 16383) / 16384 + post + pre) * FS := by
  unfold requestSize at h
  simp only [shr_fb, FRACTIONMASK_eq] at h
  have e1 : u32 (usub std o + 1) = std - o + 1 := by unfold u32 usub; omega
  have e2 : u32 (f + 16383) = f + 16383 := by unfold u32; omega
  have e3 : u32 (post + pre) = post + pre := by unfold u32; omega
  rw [e1, e2, e3] at h
  split at h
  · simp at h
  · split at h
    · simp at h
    · next _ hFS =>
      have hpos : 0 < FS := Nat.pos_of_ne_zero hFS
      simp only [Except.ok.injEq] at h
      have e4 : (std - o + 1) * inc + (f + 16383) = (std - o + 1) * inc + f + 16383 := by ring
      rw [e4] at h
      generalize hY : ((std - o + 1) * inc + f + 16383) / 16384 + (post + pre) = Y at h
      have hY2 : ((std - o + 1) * inc + f + 16383) / 16384 + post + pre = Y := by omega
      rw [hY2]
      have key : ∀ X, X - X % FS = X / FS * FS := by
        intro X
        have := Nat.div_add_mod X FS
        have : FS * (X / FS) = X / FS * FS := Nat.mul_comm _ _
        omega
      rw [key] at h
      by_cases hc : STACK < Y * FS
      · rw [if_pos hc, u32_small _ hS] at h
        have hlt : STACK / FS < Y := Nat.div_lt_of_lt_mul (by rwa [Nat.mul_comm] at hc)
        refine ⟨hpos, ?_, ?_⟩
        · rw [← h]; exact Nat.div_mul_le_self _ _
        · rw [← h, Nat.min_eq_left (Nat.le_of_lt hlt)]
      · rw [if_neg hc, u32_small _ (by omega), Nat.mul_div_cancel _ hpos] at h
        have hle : Y ≤ STACK / FS := (Nat.le_div_iff_mul_le hpos).2 (by omega)
        refine ⟨hpos, by omega, ?_⟩
        rw [← h, Nat.min_eq_right hle]

/-- The request can be computed when the frame size is not zero and the 64-bit
intermediate values fit. -/
theorem requestSize_ok {STACK std o inc f post pre FS : Nat} (hFS : 0 < FS)
    (hstd : std < 4294967295) (ho : o ≤ std) (hf : f < 16384) (hp : post + pre < 4294967296)
    (h1 : (std - o + 1) * inc + f + 16383 < 9223372036854775808)
    (h2 : (((std - o + 1) * inc + f + 16383) / 16384 + post + pre) * FS < 9223372036854775808) :
    ∃ B0, requestSize STACK std o inc f post pre FS = .ok B0 := by
  unfold requestSize
  simp only [shr_fb, FRACTIONMASK_eq]
  have e1 : u32 (usub std o + 1) = std - o + 1 := by unfold u32 usub; omega
  have e2 : u32 (f + 16383) = f + 16383 := by unfold u32; omega
  have e3 : u32 (post + pre) = post + pre := by unfold u32; omega
  rw [e1, e2, e3]
  have e4 : (std - o + 1) * inc + (f + 16383) = (std - o + 1) * inc + f + 16383 := by ring
  have e5 : ((std - o + 1) * inc + f + 16383) / 16384 + (post + pre)
      = ((std - o + 1) * inc + f + 16383) / 16384 + post + pre := by omega
  rw [e4, e5, if_neg (by omega), if_neg (by omega)]
  exact ⟨_, rfl⟩

/-- The number of samples handed to the mixer for a window of `Fr` frames of which at least
one is usable. -/
theorem mixCount_spec {len std o inc f post pre FS n Fr : Nat}
    (hlen : len = Fr * FS) (hFS : 0 < FS) (hinc : 0 < inc) (hincu : inc < 4294967296)
    (hf : f < 16384) (hFr : pre + post + 1 ≤ Fr) (hp : post + pre < 4294967296)
    (h : mixCount len std o inc f post pre FS = .ok n) :
    n = min ((((Fr - (post + pre)) * 16384 - f - 1) / inc) % 4294967296) (usub std o) := by
  unfold mixCount at h
  rw [if_neg (by omega)] at h
  simp only [Except.ok.injEq, FRACTIONONE_eq] at h
  rw [← h, hlen, Nat.mul_div_cancel _ hFS, u32_small _ hp]
  have e : (((Fr : Nat) : Int) - ((post + pre : Nat) : Int)) * ((16384 : Nat) : Int)
      - (inc : Int) - (f : Int) + ((usub inc 1 : Nat) : Int)
      = (((Fr - (post + pre)) * 16384 - f - 1 : Nat) : Int) := by
    unfold usub
    omega
  rw [e, ← Int.ofNat_tdiv]
  have e2 : ∀ x : Nat, toU32 ((x : Nat) : Int) = x % 4294967296 := by
    intro x
    unfold toU32
    omega
  rw [e2]

theorem mixCount_ok {len std o inc f post pre FS : Nat} (hFS : 0 < FS) (hinc : 0 < inc) :
    ∃ n, mixCount len std o inc f post pre FS = .ok n := by
  unfold mixCount
  rw [if_neg (by omega)]
  exact ⟨_, rfl⟩

/-! ## The window assembly fills the request -/

theorem memset_length (S : List Nat) (n : Nat) : (memset S n).length = S.length + n := by
  simp [memset]

theorem memcpy_length {S Data S1 : List Nat} {pos n : Nat}
    (h : memcpy S Data pos n = .ok S1) : S1.length = S.length + n := by
  unfold memcpy at h
  split at h
  · next hc =>
    simp only [Except.ok.injEq] at h
    rw [← h, List.length_append, List.length_take, List.length_drop]
    omega
  · simp at h

theorem tileLoop_length {Data : List Nat} {start : Nat} :
    ∀ (fuel : Nat) (S : List Nat) (B D : Nat) (S1 : List Nat),
      tileLoop Data start fuel S B D = .ok S1 → S1.length = S.length + B := by
  intro fuel
  induction fuel with
  | zero =>
    intro S B D S1 h
    simp [tileLoop] at h
  | succ fuel ih =>
    intro S B D S1 h
    simp only [tileLoop] at h
    split at h
    · split at h
      · simp at h
      · next S2 h2 =>
        rw [ih _ _ _ _ h, memcpy_length h2]
        omega
    · simp only [Except.ok.injEq] at h
      rw [← h]
      omega

/-- The static path assembles exactly the bytes asked for. -/
theorem assembleStatic_length {fuel : Nat} {b : ALbuffer} {Looping : Bool}
    {p pre FS B : Nat} {S : List Nat} {L : Bool}
    (h : assembleStatic fuel b Looping p pre FS B = .ok (S, L)) : S.length = B := by
  unfold assembleStatic at h
  split at h
  · simp only at h
    split at h
    · simp at h
    · next S1 h1 =>
      simp only [Except.ok.injEq, Prod.mk.injEq] at h
      rw [← h.1, memset_length, memcpy_length h1]
      split
      · simp
      · rw [memset_length]
        simp
        omega
  · simp only at h
    split at h
    · simp at h
    · next pos hpos =>
      split at h
      · simp at h
      · next S1 h1 =>
        split at h
        · simp at h
        · next S2 h2 =>
          simp only [Except.ok.injEq, Prod.mk.injEq] at h
          rw [← h.1, tileLoop_length _ _ _ _ _ h2, memcpy_length h1]
          split
          · rw [memset_length]
            simp
            omega
          · simp

theorem backLoop_length {q : Queue} {Looping : Bool} :
    ∀ (fuel it pos : Nat) (S : List Nat) (B it1 pos1 : Nat) (S1 : List Nat) (B1 : Nat),
      backLoop q Looping fuel it pos S B = .ok (it1, pos1, S1, B1) →
      S1.length + B1 = S.length + B := by
  intro fuel
  induction fuel with
  | zero =>
    intro it pos S B it1 pos1 S1 B1 h
    simp [backLoop] at h
  | succ fuel ih =>
    intro it pos S B it1 pos1 S1 B1 h
    simp only [backLoop] at h
    split at h
    · split at h
      · simp only [Except.ok.injEq, Prod.mk.injEq] at h
        obtain ⟨-, -, h3, h4⟩ := h
        rw [← h3, ← h4, memset_length]
        omega
      · split at h
        · split at h
          · simp only [Except.ok.injEq, Prod.mk.injEq] at h
            obtain ⟨-, -, h3, h4⟩ := h
            rw [← h3, ← h4]
          · exact ih _ _ _ _ _ _ _ _ h
        · exact ih _ _ _ _ _ _ _ _ h
    · simp only [Except.ok.injEq, Prod.mk.injEq] at h
      obtain ⟨-, -, h3, h4⟩ := h
      rw [← h3, ← h4]

/-- The forward crawl of the streaming path, started at an item of a non-empty queue,
fills what is left of the request. -/
theorem fwdLoop_length {q : Queue} {Looping : Bool} (hq : 0 < q.length) :
    ∀ (fuel it pos : Nat) (S : List Nat) (B : Nat) (S1 : List Nat),
      fwdLoop q Looping fuel (some it) pos S B = .ok S1 → S1.length = S.length + B := by
  intro fuel
  induction fuel with
  | zero =>
    intro it pos S B S1 h
    simp [fwdLoop] at h
  | succ fuel ih =>
    intro it pos S B S1 h
    simp only [fwdLoop] at h
    split at h
    · next hB =>
      split at h
      · simp at h
      · next pos1 S2 B1 hc =>
        have hlen : S2.length + B1 = S.length + B := by
          split at hc
          · simp only [Except.ok.injEq, Prod.mk.injEq] at hc
            rw [← hc.2.1, ← hc.2.2]
          · split at hc
            · simp only [Except.ok.injEq, Prod.mk.injEq] at hc
              rw [← hc.2.1, ← hc.2.2]
            · split at hc
              · simp at hc
              · next S3 h3 =>
                simp only [Except.ok.injEq, Prod.mk.injEq] at hc
                rw [← hc.2.1, ← hc.2.2, memcpy_length h3]
                omega
        split at h
        · rw [ih _ _ _ _ _ h, hlen]
        · split at h
          · rw [queueHead, if_pos hq] at h
            rw [ih _ _ _ _ _ h, hlen]
          · simp only [Except.ok.injEq] at h
            rw [← h, memset_length, hlen]
    · next hB =>
      simp only [Except.ok.injEq] at h
      rw [← h]
      omega

/-- The assembled window has exactly the size asked for, for a static source and for any
other source whose current item exists. -/
theorem assemble_length {α F : Type} {fuel : Nat} {Source : ALsource α F} {Looping : Bool}
    {item : Option Nat} {p pre FS B : Nat} {S : List Nat} {L : Bool}
    (hitem : Source.lSourceType = .AL_STATIC ∨ (item.isSome ∧ 0 < Source.queue.length))
    (h : assemble fuel Source Looping item p pre FS B = .ok (S, L)) : S.length = B := by
  unfold assemble at h
  split at h
  · split at h
    · simp at h
    · simp at h
    · exact assembleStatic_length h
  · next hns =>
    rcases hitem with hs | ⟨hi, hq⟩
    · exact absurd hs hns
    · split at h
      · simp at h
      · next S1 h1 =>
        simp only [Except.ok.injEq, Prod.mk.injEq] at h
        rw [← h.1]
        unfold assembleStream at h1
        obtain ⟨it, rfl⟩ := Option.isSome_iff_exists.1 hi
        split at h1
        · rw [fwdLoop_length hq _ _ _ _ _ _ h1]
          simp
        · simp only at h1
          split at h1
          · simp at h1
          · next It pos S2 B2 hb =>
            rw [fwdLoop_length hq _ _ _ _ _ _ h1]
            have := backLoop_length _ _ _ _ _ _ _ _ _ hb
            simp at this
            omega

/-! ## C1: every read of the mixer is inside the assembled window -/

section C1

variable {α F : Type} [Add α] [Sub α] [Mul α] [Div α] [IntCast α]

theorem sizeofT_pos (s : SamplerId) : 0 < s.sizeofT := by
  cases s <;> decide

/-- The request of an iteration is of more frames than the two paddings. -/
theorem iter_frames {STACK FS inc pre post : Nat} (std o f : Nat)
    (hstack : pre + post < STACK / FS) (hinc : 1 ≤ inc) :
    pre + post + 1
      ≤ min (STACK / FS) (((std - o + 1) * inc + f + 16383) / 16384 + post + pre) := by
  have h1 : 1 ≤ (std - o + 1) * inc := Nat.mul_pos (by omega) hinc
  have : 1 ≤ ((std - o + 1) * inc + f + 16383) / 16384 :=
    (Nat.le_div_iff_mul_le (by decide)).2 (by omega)
  exact le_min (by omega) (by omega)

/-- The arithmetic of one iteration: for a window of
`min (STACK/FS) (needed frames)` frames and the count `n` computed from it, `n` steps end
at most at the last usable frame, and no sum of the mixer leaves 32 bits. -/
theorem iter_bounds {STACK FS std o inc f pre post n : Nat}
    (hFS : 0 < FS) (hS : STACK ≤ 131072) (hstack : pre + post < STACK / FS)
    (hinc : 1 ≤ inc) (hf : f < 16384)
    (hn : n = min ((((min (STACK / FS) (((std - o + 1) * inc + f + 16383) / 16384 + post + pre)
      - (post + pre)) * 16384 - f - 1) / inc) % 4294967296) (usub std o)) :
    pre + post + 1 ≤ min (STACK / FS) (((std - o + 1) * inc + f + 16383) / 16384 + post + pre) ∧
    (f + n * inc) / 16384 + 1
      ≤ min (STACK / FS) (((std - o + 1) * inc + f + 16383) / 16384 + post + pre)
        - (post + pre) ∧
    min (STACK / FS) (((std - o + 1) * inc + f + 16383) / 16384 + post + pre) ≤ 131072 ∧
    (∀ k, k < n → (f + k * inc) % 16384 + inc < 4294967296) := by
  have h1 : 1 ≤ (std - o + 1) * inc := Nat.mul_pos (by omega) hinc
  have hY : pre + post + 1 ≤ ((std - o + 1) * inc + f + 16383) / 16384 + post + pre := by
    have : 1 ≤ ((std - o + 1) * inc + f + 16383) / 16384 :=
      (Nat.le_div_iff_mul_le (by decide)).2 (by omega)
    omega
  have hSF : STACK / FS ≤ 131072 := le_trans (Nat.div_le_self _ _) hS
  generalize hFr : min (STACK / FS)
    (((std - o + 1) * inc + f + 16383) / 16384 + post + pre) = Fr at hn ⊢
  have hFr1 : pre + post + 1 ≤ Fr := by rw [← hFr]; exact le_min (by omega) hY
  have hFr2 : Fr ≤ 131072 := by rw [← hFr]; exact le_trans (min_le_left _ _) hSF
  generalize hU : Fr - (post + pre) = U at hn
  have hU1 : 1 ≤ U := by omega
  have hq : (U * 16384 - f - 1) / inc * inc ≤ U * 16384 - f - 1 := Nat.div_mul_le_self _ _
  have hnq : n ≤ (U * 16384 - f - 1) / inc := by
    rw [hn]
    exact le_trans (min_le_left _ _) (Nat.mod_le _ _)
  have hni : n * inc ≤ U * 16384 - f - 1 := le_trans (Nat.mul_le_mul_right inc hnq) hq
  refine ⟨hFr1, ?_, hFr2, ?_⟩
  · have : (f + n * inc) / 16384 < U := (Nat.div_lt_iff_lt_mul (by decide)).2 (by omega)
    omega
  · intro k hk
    have : inc ≤ n * inc := Nat.le_mul_of_pos_left inc (by omega)
    omega

/-- The window of an iteration holds every frame the mixer call made on it reads: the
kernel returns at every phase of the call. -/
theorem iter_samplesOk (E : Env α F) (g : MixerFunc) (SrcData : List Nat)
    {STACK FS nc std o inc f pre post n : Nat}
    (hFSe : FS = nc * g.sampler.sizeofT) (hnc : 0 < nc)
    (hkp : g.sampler.pre ≤ pre) (hkq : g.sampler.post ≤ post)
    (hS : STACK ≤ 131072) (hstack : pre + post < STACK / FS)
    (hinc : 1 ≤ inc) (hf : f < 16384)
    (hlen : SrcData.length
      = min (STACK / FS) (((std - o + 1) * inc + f + 16383) / 16384 + post + pre) * FS)
    (hn : n = min ((((min (STACK / FS) (((std - o + 1) * inc + f + 16383) / 16384 + post + pre)
      - (post + pre)) * 16384 - f - 1) / inc) % 4294967296) (usub std o)) :
    (f + n * inc) / 16384 + 1 ≤ SrcData.length / FS - (pre + post) ∧
    Covers { bytes := SrcData, off := ((u32 (pre * FS) : Nat) : Int) } FS (-(pre : Int))
      ((((f + n * inc) / 16384 : Nat) : Int) + post) ∧
    SamplesOk E g.sampler { bytes := SrcData, off := ((u32 (pre * FS) : Nat) : Int) } nc inc f n := by
  have hsz := sizeofT_pos g.sampler
  have hFS : 0 < FS := by rw [hFSe]; exact Nat.mul_pos hnc hsz
  obtain ⟨b1, b2, b3, b4⟩ := iter_bounds hFS hS hstack hinc hf hn
  generalize hFr : min (STACK / FS)
    (((std - o + 1) * inc + f + 16383) / 16384 + post + pre) = Fr at hlen b1 b2 b3
  have hncFS : nc ≤ FS := by rw [hFSe]; exact Nat.le_mul_of_pos_right nc hsz
  have hFS_le : FS ≤ STACK := by
    have : 1 ≤ STACK / FS := by omega
    have := (Nat.le_div_iff_mul_le hFS).1 this
    omega
  have hlenS : Fr * FS ≤ STACK := by
    rw [← hFr]
    exact le_trans (Nat.mul_le_mul_right FS (min_le_left _ _)) (Nat.div_mul_le_self _ _)
  have hpreFS : pre * FS ≤ Fr * FS := Nat.mul_le_mul_right FS (by omega)
  have hoff : u32 (pre * FS) = pre * FS := u32_small _ (by omega)
  have hdiv : SrcData.length / FS = Fr := by rw [hlen, Nat.mul_div_cancel _ hFS]
  have hcov : Covers { bytes := SrcData, off := ((u32 (pre * FS) : Nat) : Int) } FS (-(pre : Int))
      ((((f + n * inc) / 16384 : Nat) : Int) + post) := by
    constructor
    · simp only [hoff]
      push_cast
      have : (pre : Int) * (FS : Int) + -(pre : Int) * (FS : Int) = 0 := by ring
      omega
    · simp only [hoff, hlen]
      have h1 : (pre + ((f + n * inc) / 16384 + post + 1)) * FS ≤ Fr * FS :=
        Nat.mul_le_mul_right FS (by omega)
      have h2 : ((pre * FS : Nat) : Int)
          + ((((f + n * inc) / 16384 : Nat) : Int) + (post : Int) + 1) * (FS : Int)
          = (((pre + ((f + n * inc) / 16384 + post + 1)) * FS : Nat) : Int) := by
        push_cast
        ring
      rw [h2]
      exact_mod_cast h1
  refine ⟨by rw [hdiv, Nat.add_comm pre post]; exact b2, hcov, ?_⟩
  have hposn : (f + n * inc) / 16384 * nc ≤ Fr * FS :=
    Nat.mul_le_mul (by omega) hncFS
  refine samplesOk_of_covers E g.sampler _ nc inc f n hf (by omega) b4 (by omega) ?_
  rw [← hFSe]
  exact covers_mono hcov (by omega) (by omega)

/-- C1, as the code has it.  Take one iteration of the loop of `MixSource` with a step of
at least 1, a fraction below `FRACTIONONE`, a current queue item (or a static source), a
stack buffer of more than `pre_pad + post_pad` frames, the mixer selected for the
resampler of the source, and - what the claim leaves out - `SamplesToDo < 2^32 - 1`, so that
`SamplesToDo - OutPos + 1` does not wrap, with the frame size not wrapping and the stack
buffer at most `2^17` bytes.  Whenever the iteration has sized its request, assembled the
window `SrcData` and computed `BufferSize = n`: the integer position reached after `n`
steps is at most `usable - 1`; the window holds every frame from `-pre_pad` to that
position plus `post_pad`, counted from the pointer handed to the mixer; the kernel returns
(reads inside the window) at each of the `n` output steps and at the phases of the leading
and the trailing click read; and the mixer call returns. -/
theorem C1_reads_inside_window (E : Env α F) (fuel SamplesToDo : Nat) (st : FeedSt α F)
    (g : MixerFunc) (pre post B0 : Nat) (SrcData : List Nat) (L : Bool) (n : Nat)
    (hpre : ResamplerPrePadding st.mem.Source.Resampler = some pre)
    (hpost : ResamplerPadding st.mem.Source.Resampler = some post)
    (hsel : ∃ b, SelectMixer b st.mem.Source.Resampler = some g ∨
      SelectHrtfMixer b st.mem.Source.Resampler = some g)
    (hsize : st.mem.Source.SampleSize = g.sampler.sizeofT)
    (hnc : 0 < st.mem.Source.NumChannels)
    (hFSu : st.mem.Source.NumChannels * st.mem.Source.SampleSize < 2 ^ 32)
    (hstep : 1 ≤ st.mem.Source.Params.Step) (hstepu : st.mem.Source.Params.Step < 2 ^ 32)
    (hfrac : st.DataPosFrac < FRACTIONONE)
    (hitem : st.mem.Source.lSourceType = .AL_STATIC ∨
      (st.BufferListItem.isSome ∧ 0 < st.mem.Source.queue.length))
    (hstack : pre + post < E.STACK_DATA_SIZE
      / (st.mem.Source.NumChannels * st.mem.Source.SampleSize))
    (hS : E.STACK_DATA_SIZE ≤ 2 ^ 17)
    (hstd : SamplesToDo < 2 ^ 32 - 1) (ho : st.OutPos ≤ SamplesToDo)
    (hreq : requestSize E.STACK_DATA_SIZE SamplesToDo st.OutPos st.mem.Source.Params.Step
      st.DataPosFrac post pre (u32 (st.mem.Source.NumChannels * st.mem.Source.SampleSize))
      = .ok B0)
    (hasm : assemble fuel st.mem.Source st.Looping st.BufferListItem st.DataPosInt pre
      (u32 (st.mem.Source.NumChannels * st.mem.Source.SampleSize)) B0 = .ok (SrcData, L))
    (hcnt : mixCount SrcData.length SamplesToDo st.OutPos st.mem.Source.Params.Step
      st.DataPosFrac post pre (u32 (st.mem.Source.NumChannels * st.mem.Source.SampleSize))
      = .ok n) :
    (st.DataPosFrac + n * st.mem.Source.Params.Step) / FRACTIONONE + 1
      ≤ SrcData.length / (st.mem.Source.NumChannels * st.mem.Source.SampleSize)
        - (pre + post) ∧
    Covers { bytes := SrcData
             off := ((u32 (pre * u32 (st.mem.Source.NumChannels * st.mem.Source.SampleSize)) : Nat)
               : Int) }
      (st.mem.Source.NumChannels * st.mem.Source.SampleSize) (-(pre : Int))
      ((((st.DataPosFrac + n * st.mem.Source.Params.Step) / FRACTIONONE : Nat) : Int) + post) ∧
    SamplesOk E g.sampler
      { bytes := SrcData
        off := ((u32 (pre * u32 (st.mem.Source.NumChannels * st.mem.Source.SampleSize)) : Nat)
          : Int) }
      st.mem.Source.NumChannels st.mem.Source.Params.Step st.DataPosFrac n ∧
    ∃ res, g.call E st.mem
      { bytes := SrcData
        off := ((u32 (pre * u32 (st.mem.Source.NumChannels * st.mem.Source.SampleSize)) : Nat)
          : Int) }
      st.DataPosInt st.DataPosFrac st.OutPos SamplesToDo n = .ok res := by
  rw [FRACTIONONE_eq] at *
  norm_num at hFSu hS hstd hstepu
  rw [u32_small _ hFSu] at hreq hasm hcnt ⊢
  generalize hFS : st.mem.Source.NumChannels * st.mem.Source.SampleSize = FS at *
  have hFSe : FS = st.mem.Source.NumChannels * g.sampler.sizeofT := by rw [← hFS, hsize]
  have hker : g.sampler.pre ≤ pre ∧ g.sampler.post ≤ post := by
    obtain ⟨b, hb⟩ := hsel
    rcases b with ⟨d, ls, le, fmt⟩
    revert hpre hpost hb
    cases st.mem.Source.Resampler <;> cases fmt <;>
      simp [ResamplerPrePadding, ResamplerPadding, SelectMixer, SelectHrtfMixer, Select_point,
        Select_lerp, Select_cubic, Select_Hrtf_point, Select_Hrtf_lerp, Select_Hrtf_cubic] <;>
      (intro h1 h2 h3; subst h1; subst h2; rcases h3 with h3 | h3 <;> subst h3 <;> decide)
  have hpp : post + pre < 4294967296 := by
    have : E.STACK_DATA_SIZE / FS ≤ E.STACK_DATA_SIZE := Nat.div_le_self _ _
    omega
  obtain ⟨r1, r2, r3⟩ := requestSize_spec (by omega) hstd ho hfrac hpp hreq
  have hlen : SrcData.length = B0 := assemble_length hitem hasm
  rw [r3] at hlen
  have b1 := iter_frames SamplesToDo st.OutPos st.DataPosFrac hstack hstep
  have hn := mixCount_spec hlen r1 hstep hstepu hfrac b1 hpp hcnt
  obtain ⟨c1, c2, c3⟩ := iter_samplesOk E g SrcData hFSe hnc hker.1 hker.2 hS hstack hstep
    hfrac hlen hn
  exact ⟨c1, c2, c3, call_ok c3 _ _ _⟩

/-- C1 at a concrete iteration: the cubic source `exCubic6` (pre-padding 1, post-padding 2,
step one and a half frames) asked for two samples.  The request is 8 frames, the window is
the six buffer samples and two of silence, two samples are mixed; the position reached,
3, is at most `usable - 1 = 4`, and the mixer call returns. -/
theorem C1_reads_inside_window_witness :
    (0 + 2 * 24576) / FRACTIONONE + 1 ≤ [10, 20, 30, 40, 50, 60, 0, 0].length / (1 * 1) - (1 + 2) ∧
    ∃ res, MixerFunc.call .Mix_ALbyte_cubic8 (exEnv 16384) exCubic6
      { bytes := [10, 20, 30, 40, 50, 60, 0, 0], off := 1 } 1 0 0 2 2 = .ok res :=
  have h := C1_reads_inside_window (exEnv 16384) 8 2 (exFeed exCubic6) .Mix_ALbyte_cubic8 1 2 8
    [10, 20, 30, 40, 50, 60, 0, 0] false 2 rfl rfl ⟨exBuffer [], Or.inl rfl⟩ rfl
    (by decide) (by decide) (by decide) (by decide) (by decide) (Or.inl rfl) (by decide)
    (by decide) (by decide) (by decide) (by rfl) (by rfl) (by rfl)
  ⟨h.1, h.2.2.2⟩

/-- C1 fails for `SamplesToDo = 2^32 - 1`.  The source `exSlow4` has step 1, fraction 0,
position 0 inside its four-sample buffer, and the stack buffer holds 16384 frames; the
first iteration computes `SamplesToDo - OutPos + 1 = 0` in 32 bits, so it requests and
assembles an empty window, yet hands the mixer `BufferSize = 2^32 - 1`: already the read
of frame 0 is outside the window. -/
theorem C1_counterexample :
    1 ≤ exSlow4.Source.Params.Step ∧ exSlow4.Source.position_fraction < FRACTIONONE ∧
    exSlow4.Source.position < 4 ∧
    0 + 0 < (exEnv 16384).STACK_DATA_SIZE / (exSlow4.Source.NumChannels * exSlow4.Source.SampleSize) ∧
    requestSize 16384 4294967295 0 1 0 0 0 1 = .ok 0 ∧
    assemble 8 exSlow4.Source false (some 0) 0 0 1 0 = .ok ([], false) ∧
    mixCount 0 4294967295 0 1 0 0 0 1 = .ok 4294967295 ∧
    sample (exEnv 16384) .point8 { bytes := [], off := 0 } 1 0 0 0 = .error .badRead ∧
    MixerFunc.call .Mix_ALbyte_point8 (exEnv 16384) exSlow4 { bytes := [], off := 0 }
      0 0 0 4294967295 4294967295 = .error .badRead ∧
    MixSource (exEnv 16384) 8 exSlow4 4294967295 = .error .badRead :=
  ⟨by decide, by decide, by decide, by decide, by rfl, by rfl, by rfl, by rfl, by rfl, by rfl⟩

end C1

/-! ## The loops of the window assembly return -/

/-- The pre-padding wrap returns, at a position from which the loop region still holds the
pre-padding. -/
theorem wrapPre_returns (len pre : Nat) (hlen : 0 < len) (hw : pre + len ≤ 4294967296) :
    ∀ (d pos : Nat), pre - pos ≤ d →
      ∃ r, pre ≤ r ∧ (r = pos ∨ r < pre + len) ∧
        ∀ fuel, d + 1 ≤ fuel → wrapPre len pre fuel pos = .ok r := by
  intro d
  induction d with
  | zero =>
    intro pos hd
    refine ⟨pos, by omega, Or.inl rfl, ?_⟩
    intro fuel hfuel
    obtain ⟨k, rfl⟩ : ∃ k, fuel = k + 1 := ⟨fuel - 1, by omega⟩
    unfold wrapPre
    rw [if_neg (by omega)]
  | succ d ih =>
    intro pos hd
    by_cases hp : pos < pre
    · obtain ⟨r, h1, h2, h3⟩ := ih (pos + len) (by omega)
      refine ⟨r, h1, Or.inr (by omega), ?_⟩
      intro fuel hfuel
      obtain ⟨k, rfl⟩ : ∃ k, fuel = k + 1 := ⟨fuel - 1, by omega⟩
      unfold wrapPre
      rw [if_pos hp, u32_small _ (by omega)]
      exact h3 k (by omega)
    · refine ⟨pos, by omega, Or.inl rfl, ?_⟩
      intro fuel hfuel
      obtain ⟨k, rfl⟩ : ∃ k, fuel = k + 1 := ⟨fuel - 1, by omega⟩
      unfold wrapPre
      rw [if_neg hp]

/-- The tiling loop returns when the loop region is not empty and lies in the buffer. -/
theorem tileLoop_returns (Data : List Nat) (start : Nat) :
    ∀ (B : Nat) (S : List Nat) (D : Nat), 0 < D → start + D ≤ Data.length →
      ∃ r, ∀ fuel, B + 1 ≤ fuel → tileLoop Data start fuel S B D = .ok r := by
  intro B
  induction B using Nat.strong_induction_on with
  | _ B ih =>
    intro S D hD hlen
    by_cases hB : 0 < B
    · have hm : 0 < min B D := lt_min hB hD
      have hm2 : min B D ≤ D := min_le_right _ _
      have hm3 : min B D ≤ B := min_le_left _ _
      obtain ⟨r, hr⟩ := ih (B - min B D) (by omega)
        (S ++ (Data.drop start).take (min B D)) (min B D) hm (by omega)
      refine ⟨r, ?_⟩
      intro fuel hfuel
      obtain ⟨k, rfl⟩ : ∃ k, fuel = k + 1 := ⟨fuel - 1, by omega⟩
      unfold tileLoop
      rw [if_pos hB]
      have e : memcpy S Data start (min B D)
          = .ok (S ++ (Data.drop start).take (min B D)) := by
        unfold memcpy
        rw [if_pos (Or.inr (by omega))]
      rw [e]
      exact hr k (by omega)
    · refine ⟨S, ?_⟩
      intro fuel hfuel
      obtain ⟨k, rfl⟩ : ∃ k, fuel = k + 1 := ⟨fuel - 1, by omega⟩
      unfold tileLoop
      rw [if_neg hB]

theorem memcpy_ok (S Data : List Nat) (pos n : Nat) (h : pos + n ≤ Data.length) :
    memcpy S Data pos n = .ok (S ++ (Data.drop pos).take n) := by
  unfold memcpy
  rw [if_pos (Or.inr h)]

/-- The window assembly of a static source returns when the position and the loop points
lie inside the buffer and, for a looping source, the loop region is not empty. -/
theorem assembleStatic_returns (b : ALbuffer) (Looping : Bool) (p pre FS B : Nat)
    (hFS : 0 < FS) (hsize : b.size < 2147483648) (hpre : pre ≤ 2)
    (hLE : b.LoopEnd * FS ≤ b.size) (hp : p * FS ≤ b.size)
    (hloop : Looping = true → b.LoopStart < b.LoopEnd) :
    ∃ r, ∀ fuel, B + 3 ≤ fuel → assembleStatic fuel b Looping p pre FS B = .ok r := by
  have hsz : b.size = b.data.length := rfl
  have e1 : (p - pre) * FS ≤ p * FS := Nat.mul_le_mul_right FS (Nat.sub_le _ _)
  by_cases hc : Looping = false ∨ b.LoopEnd ≤ p
  · have key : ∀ fuel, assembleStatic fuel b Looping p pre FS B
        = assembleStatic 0 b Looping p pre FS B := by
      intro fuel
      simp only [assembleStatic, if_pos hc]
    have h0 : ∃ r, assembleStatic 0 b Looping p pre FS B = .ok r := by
      unfold assembleStatic
      rw [if_pos hc]
      by_cases hpp : pre ≤ p
      · simp only [if_pos hpp]
        rw [u32_small _ (by omega), usub_of_le (by omega) (by omega),
          memcpy_ok _ _ _ _ (by
            have := min_le_right B (b.size - (p - pre) * FS)
            omega)]
        exact ⟨_, rfl⟩
      · simp only [if_neg hpp]
        rw [usub_of_le (Nat.zero_le _) (by omega),
          memcpy_ok _ _ _ _ (by
            have := min_le_right
              (B - min B (u32 ((pre - p) * FS))) (b.size - 0)
            omega)]
        exact ⟨_, rfl⟩
    obtain ⟨r, hr⟩ := h0
    exact ⟨r, fun fuel _ => by rw [key fuel, hr]⟩
  · have hL : Looping = true := by
      cases Looping
      · exact absurd (Or.inl rfl) hc
      · rfl
    have hpE : p < b.LoopEnd := by
      by_contra h
      exact hc (Or.inr (by omega))
    have hlt := hloop hL
    have hLEFS : b.LoopEnd ≤ b.LoopEnd * FS := Nat.le_mul_of_pos_right _ hFS
    have hlen : usub b.LoopEnd b.LoopStart = b.LoopEnd - b.LoopStart :=
      usub_of_le (by omega) (by omega)
    have hD : (b.LoopEnd - b.LoopStart) * FS = b.LoopEnd * FS - b.LoopStart * FS :=
      Nat.sub_mul _ _ _
    have hSE : b.LoopStart * FS ≤ b.LoopEnd * FS := Nat.mul_le_mul_right FS (by omega)
    have hDpos : 0 < (b.LoopEnd - b.LoopStart) * FS := Nat.mul_pos (by omega) hFS
    generalize hB0 : (if ¬ b.LoopStart ≤ p ∧ ¬ pre ≤ p then
      B - min B (u32 ((pre - p) * FS)) else B) = B0
    generalize hS0 : (if ¬ b.LoopStart ≤ p ∧ ¬ pre ≤ p then
      memset [] (min B (u32 ((pre - p) * FS))) else ([] : List Nat)) = S0
    have hB0le : B0 ≤ B := by
      rw [← hB0]
      split
      · omega
      · exact Nat.le_refl _
    have tail : ∀ pos, pos ≤ b.LoopEnd * FS → ∃ r2, ∀ fuel, B + 1 ≤ fuel →
        tileLoop b.data (b.LoopStart * FS) fuel
          (S0 ++ (b.data.drop pos).take (min B0 (b.LoopEnd * FS - pos)))
          (B0 - min B0 (b.LoopEnd * FS - pos)) ((b.LoopEnd - b.LoopStart) * FS) = .ok r2 := by
      intro pos _
      obtain ⟨r2, hr2⟩ := tileLoop_returns b.data (b.LoopStart * FS)
        (B0 - min B0 (b.LoopEnd * FS - pos))
        (S0 ++ (b.data.drop pos).take (min B0 (b.LoopEnd * FS - pos)))
        ((b.LoopEnd - b.LoopStart) * FS) hDpos (by omega)
      exact ⟨r2, fun fuel hfuel => hr2 fuel (by omega)⟩
    have hcopy : ∀ pos, pos ≤ b.LoopEnd * FS →
        memcpy S0 b.data pos (min B0 (b.LoopEnd * FS - pos))
          = .ok (S0 ++ (b.data.drop pos).take (min B0 (b.LoopEnd * FS - pos))) := by
      intro pos hpos1
      have hDS : min B0 (b.LoopEnd * FS - pos) ≤ b.LoopEnd * FS - pos := min_le_right _ _
      rw [memcpy_ok _ _ _ _ (by omega)]
    have hE : u32 (b.LoopEnd * FS) = b.LoopEnd * FS := u32_small _ (by omega)
    by_cases h1 : b.LoopStart ≤ p
    · obtain ⟨r, r1, r2, r3⟩ := wrapPre_returns (b.LoopEnd - b.LoopStart) pre (by omega)
        (by omega) 2 (p - b.LoopStart) (by omega)
      have hx : r - pre + b.LoopStart < b.LoopEnd := by omega
      have hxFS : (r - pre + b.LoopStart) * FS ≤ b.LoopEnd * FS :=
        Nat.mul_le_mul_right FS (by omega)
      obtain ⟨t, ht⟩ := tail _ hxFS
      refine ⟨(t, true), fun fuel hfuel => ?_⟩
      unfold assembleStatic
      rw [if_neg hc]
      simp only [hB0, hS0]
      rw [if_pos h1, hlen, r3 fuel (by omega)]
      simp only
      rw [usub_of_le r1 (by omega), u32_small (r - pre + b.LoopStart) (by omega),
        u32_small _ (by omega), hE, usub_of_le hxFS (by omega), hcopy _ hxFS]
      simp only
      rw [u32_small (b.LoopStart * FS) (by omega),
        u32_small ((b.LoopEnd - b.LoopStart) * FS) (by omega), ht fuel (by omega)]
    · by_cases h2 : pre ≤ p
      · have hxFS : (p - pre) * FS ≤ b.LoopEnd * FS := Nat.mul_le_mul_right FS (by omega)
        obtain ⟨t, ht⟩ := tail _ hxFS
        refine ⟨(t, true), fun fuel hfuel => ?_⟩
        unfold assembleStatic
        rw [if_neg hc]
        simp only [hB0, hS0]
        rw [if_neg h1, if_pos h2]
        simp only
        rw [u32_small _ (by omega), hE, usub_of_le hxFS (by omega), hcopy _ hxFS]
        simp only
        rw [hlen, u32_small (b.LoopStart * FS) (by omega),
          u32_small ((b.LoopEnd - b.LoopStart) * FS) (by omega), ht fuel (by omega)]
      · obtain ⟨t, ht⟩ := tail 0 (Nat.zero_le _)
        refine ⟨(t, true), fun fuel hfuel => ?_⟩
        unfold assembleStatic
        rw [if_neg hc]
        simp only [hB0, hS0]
        rw [if_neg h1, if_neg h2]
        simp only
        rw [hE, usub_of_le (Nat.zero_le _) (by omega), hcopy 0 (Nat.zero_le _)]
        simp only
        rw [hlen, u32_small (b.LoopStart * FS) (by omega),
          u32_small ((b.LoopEnd - b.LoopStart) * FS) (by omega), ht fuel (by omega)]

theorem fwdLoop_zero (q : Queue) (Lp : Bool) (fuel it pos : Nat) (S : List Nat) :
    fwdLoop q Lp (fuel + 1) (some it) pos S 0 = .ok S := by
  simp [fwdLoop]

/-- One round of the forward crawl. -/
theorem fwdLoop_step (q : Queue) (Lp : Bool) (fuel it pos : Nat) (S : List Nat) (B : Nat)
    (hB : 0 < B) :
    fwdLoop q Lp (fuel + 1) (some it) pos S B =
      if it + 1 < q.length then
        fwdLoop q Lp fuel (some (it + 1)) (fwdCopy q it pos S B).1 (fwdCopy q it pos S B).2.1
          (fwdCopy q it pos S B).2.2
      else if Lp = true then
        fwdLoop q Lp fuel (queueHead q) (fwdCopy q it pos S B).1 (fwdCopy q it pos S B).2.1
          (fwdCopy q it pos S B).2.2
      else .ok (memset (fwdCopy q it pos S B).2.1 (fwdCopy q it pos S B).2.2) := by
  simp only [fwdLoop]
  rw [if_pos hB]
  unfold fwdCopy
  cases itemBuffer q it with
  | none =>
    simp only [itemNext]
    by_cases h1 : it + 1 < q.length <;> cases Lp <;> simp [h1]
  | some b =>
    simp only
    by_cases h : b.size ≤ pos
    · simp only [if_pos h, itemNext]
      by_cases h1 : it + 1 < q.length <;> cases Lp <;> simp [h1]
    · simp only [if_neg h]
      rw [memcpy_ok _ _ _ _ (by
          have := min_le_right B (b.size - pos)
          have : b.size = b.data.length := rfl
          omega)]
      simp only [itemNext]
      by_cases h1 : it + 1 < q.length <;> cases Lp <;> simp [h1]

/-- A round of the forward crawl does not add to what is left to skip and to fill, and takes
from it at an item whose buffer is not empty. -/
theorem fwdCopy_le (q : Queue) (it pos : Nat) (S : List Nat) (B : Nat) :
    (fwdCopy q it pos S B).1 + (fwdCopy q it pos S B).2.2 ≤ pos + B ∧
    (∀ b, itemBuffer q it = some b → 0 < b.size → 0 < B →
      (fwdCopy q it pos S B).1 + (fwdCopy q it pos S B).2.2 < pos + B) := by
  unfold fwdCopy
  cases hb : itemBuffer q it with
  | none => exact ⟨Nat.le_refl _, fun b h => by simp at h⟩
  | some b =>
    simp only
    by_cases h : b.size ≤ pos
    · rw [if_pos h]
      refine ⟨by simp only; omega, fun b1 h1 h2 h3 => ?_⟩
      simp only [Option.some.injEq] at h1
      subst h1
      simp only
      omega
    · rw [if_neg h]
      refine ⟨by simp only; omega, fun b1 h1 h2 h3 => ?_⟩
      simp only [Option.some.injEq] at h1
      subst h1
      simp only
      have : 0 < min B (b.size - pos) := lt_min h3 (by omega)
      have := min_le_left B (b.size - pos)
      omega

/-- The forward crawl of a source that does not loop returns: it ends with the queue. -/
theorem fwdLoop_returns_once (q : Queue) :
    ∀ (d it pos : Nat) (S : List Nat) (B : Nat), q.length - it ≤ d →
      ∃ r, ∀ fuel, d + 1 ≤ fuel → fwdLoop q false fuel (some it) pos S B = .ok r := by
  intro d
  induction d with
  | zero =>
    intro it pos S B hd
    by_cases hB : 0 < B
    · refine ⟨memset (fwdCopy q it pos S B).2.1 (fwdCopy q it pos S B).2.2, fun fuel hf => ?_⟩
      obtain ⟨k, rfl⟩ : ∃ k, fuel = k + 1 := ⟨fuel - 1, by omega⟩
      rw [fwdLoop_step q false k it pos S B hB, if_neg (by omega)]
      simp
    · refine ⟨S, fun fuel hf => ?_⟩
      obtain ⟨k, rfl⟩ : ∃ k, fuel = k + 1 := ⟨fuel - 1, by omega⟩
      have : B = 0 := by omega
      subst this
      exact fwdLoop_zero _ _ _ _ _ _
  | succ d ih =>
    intro it pos S B hd
    by_cases hB : 0 < B
    · by_cases h1 : it + 1 < q.length
      · obtain ⟨r, hr⟩ := ih (it + 1) (fwdCopy q it pos S B).1 (fwdCopy q it pos S B).2.1
          (fwdCopy q it pos S B).2.2 (by omega)
        refine ⟨r, fun fuel hf => ?_⟩
        obtain ⟨k, rfl⟩ : ∃ k, fuel = k + 1 := ⟨fuel - 1, by omega⟩
        rw [fwdLoop_step q false k it pos S B hB, if_pos h1]
        exact hr k (by omega)
      · refine ⟨memset (fwdCopy q it pos S B).2.1 (fwdCopy q it pos S B).2.2,
          fun fuel hf => ?_⟩
        obtain ⟨k, rfl⟩ : ∃ k, fuel = k + 1 := ⟨fuel - 1, by omega⟩
        rw [fwdLoop_step q false k it pos S B hB, if_neg h1]
        simp
    · refine ⟨S, fun fuel hf => ?_⟩
      obtain ⟨k, rfl⟩ : ∃ k, fuel = k + 1 := ⟨fuel - 1, by omega⟩
      have : B = 0 := by omega
      subst this
      exact fwdLoop_zero _ _ _ _ _ _

/-- The forward crawl of a looping source returns when some item of the queue has a buffer
that is not empty. -/
theorem fwdLoop_returns_loop (q : Queue) (j : Nat) (bj : ALbuffer) (hj : j < q.length)
    (hbj : itemBuffer q j = some bj) (hsz : 0 < bj.size) :
    ∀ (M it pos : Nat) (S : List Nat) (B : Nat), it < q.length →
      (pos + B) * q.length + cycDist q j it ≤ M →
      ∃ r, ∀ fuel, M + 1 ≤ fuel → fwdLoop q true fuel (some it) pos S B = .ok r := by
  intro M
  induction M with
  | zero =>
    intro it pos S B hit hM
    have hB : B = 0 := by
      by_contra h
      have : 1 * q.length ≤ (pos + B) * q.length := Nat.mul_le_mul_right _ (by omega)
      omega
    subst hB
    refine ⟨S, fun fuel hf => ?_⟩
    obtain ⟨k, rfl⟩ : ∃ k, fuel = k + 1 := ⟨fuel - 1, by omega⟩
    exact fwdLoop_zero _ _ _ _ _ _
  | succ M ih =>
    intro it pos S B hit hM
    by_cases hB : 0 < B
    · obtain ⟨c1, c2⟩ := fwdCopy_le q it pos S B
      have hmul : ((fwdCopy q it pos S B).1 + (fwdCopy q it pos S B).2.2) * q.length
          ≤ (pos + B) * q.length := Nat.mul_le_mul_right _ c1
      have hnext : ((fwdCopy q it pos S B).1 + (fwdCopy q it pos S B).2.2) * q.length
          + cycDist q j (cycNext q it) ≤ M := by
        by_cases hij : it = j
        · subst hij
          have c3 := c2 bj hbj hsz hB
          have hmul2 : ((fwdCopy q it pos S B).1 + (fwdCopy q it pos S B).2.2 + 1) * q.length
              ≤ (pos + B) * q.length := Nat.mul_le_mul_right _ c3
          rw [Nat.add_mul, Nat.one_mul] at hmul2
          have : cycDist q it (cycNext q it) < q.length := by
            unfold cycDist cycNext
            split_ifs <;> omega
          have : cycDist q it it = 0 := by simp [cycDist]
          omega
        · have : cycDist q j (cycNext q it) + 1 = cycDist q j it := by
            unfold cycDist cycNext
            split_ifs <;> omega
          omega
      obtain ⟨r, hr⟩ := ih (cycNext q it) (fwdCopy q it pos S B).1 (fwdCopy q it pos S B).2.1
        (fwdCopy q it pos S B).2.2 (by unfold cycNext; split_ifs <;> omega) hnext
      refine ⟨r, fun fuel hf => ?_⟩
      obtain ⟨k, rfl⟩ : ∃ k, fuel = k + 1 := ⟨fuel - 1, by omega⟩
      rw [fwdLoop_step q true k it pos S B hB]
      by_cases h1 : it + 1 < q.length
      · rw [if_pos h1]
        have := hr k (by omega)
        rw [cycNext, if_pos h1] at this
        exact this
      · rw [if_neg h1, if_pos rfl, queueHead, if_pos (by omega)]
        have := hr k (by omega)
        rw [cycNext, if_neg h1] at this
        exact this
    · refine ⟨S, fun fuel hf => ?_⟩
      obtain ⟨k, rfl⟩ : ∃ k, fuel = k + 1 := ⟨fuel - 1, by omega⟩
      have : B = 0 := by omega
      subst this
      exact fwdLoop_zero _ _ _ _ _ _

theorem backLoop_zero (q : Queue) (Lp : Bool) (fuel it : Nat) (S : List Nat) (B : Nat) :
    backLoop q Lp (fuel + 1) it 0 S B = .ok (it, 0, S, B) := by
  simp [backLoop]

/-- The backward crawl at the head of a queue that does not loop: the rest of the
pre-padding is silence. -/
theorem backLoop_head (q : Queue) (fuel pos : Nat) (S : List Nat) (B : Nat) (hpos : 0 < pos) :
    backLoop q false (fuel + 1) 0 pos S B
      = .ok (0, 0, memset S (min B pos), B - min B pos) := by
  simp [backLoop, hpos, itemPrev]

/-- One round of the backward crawl. -/
theorem backLoop_step (q : Queue) (Lp : Bool) (fuel it pos : Nat) (S : List Nat) (B : Nat)
    (hpos : 0 < pos) (h : 0 < it ∨ Lp = true) :
    backLoop q Lp (fuel + 1) it pos S B =
      if pos < bufSize q (cycPrev q it) then
        .ok (cycPrev q it, bufSize q (cycPrev q it) - pos, S, B)
      else backLoop q Lp fuel (cycPrev q it) (pos - bufSize q (cycPrev q it)) S B := by
  simp only [backLoop]
  rw [if_pos hpos]
  have h1 : ¬ (itemPrev it = none ∧ Lp = false) := by
    rintro ⟨a, b⟩
    rcases h with h | h
    · simp [itemPrev, h] at a
    · rw [h] at b
      exact Bool.noConfusion b
  rw [if_neg h1]
  unfold bufSize cycPrev itemPrev
  by_cases h3 : 0 < it
  · simp only [if_pos h3]
    cases itemBuffer q (it - 1) <;> simp
  · simp only [if_neg h3]
    cases itemBuffer q (q.length - 1) <;> simp

/-- The backward crawl of a source that does not loop returns: it ends at the head of the
queue. -/
theorem backLoop_returns_once (q : Queue) :
    ∀ (d it pos : Nat) (S : List Nat) (B : Nat), it ≤ d → it < q.length →
      ∃ r, r.1 < q.length ∧ ∀ fuel, d + 1 ≤ fuel → backLoop q false fuel it pos S B = .ok r := by
  intro d
  induction d with
  | zero =>
    intro it pos S B hd hit
    have : it = 0 := by omega
    subst this
    by_cases hpos : 0 < pos
    · refine ⟨(0, 0, memset S (min B pos), B - min B pos), hit, fun fuel hf => ?_⟩
      obtain ⟨k, rfl⟩ : ∃ k, fuel = k + 1 := ⟨fuel - 1, by omega⟩
      exact backLoop_head q k pos S B hpos
    · have : pos = 0 := by omega
      subst this
      refine ⟨(0, 0, S, B), hit, fun fuel hf => ?_⟩
      obtain ⟨k, rfl⟩ : ∃ k, fuel = k + 1 := ⟨fuel - 1, by omega⟩
      exact backLoop_zero _ _ _ _ _ _
  | succ d ih =>
    intro it pos S B hd hit
    by_cases hpos : 0 < pos
    · by_cases h0 : 0 < it
      · have hprev : cycPrev q it = it - 1 := by rw [cycPrev, if_pos h0]
        by_cases hs : pos < bufSize q (cycPrev q it)
        · refine ⟨(cycPrev q it, bufSize q (cycPrev q it) - pos, S, B), by
            rw [hprev]; simp only; omega, fun fuel hf => ?_⟩
          obtain ⟨k, rfl⟩ : ∃ k, fuel = k + 1 := ⟨fuel - 1, by omega⟩
          rw [backLoop_step q false k it pos S B hpos (Or.inl h0), if_pos hs]
        · obtain ⟨r, hr1, hr2⟩ := ih (cycPrev q it) (pos - bufSize q (cycPrev q it)) S B
            (by rw [hprev]; omega) (by rw [hprev]; omega)
          refine ⟨r, hr1, fun fuel hf => ?_⟩
          obtain ⟨k, rfl⟩ : ∃ k, fuel = k + 1 := ⟨fuel - 1, by omega⟩
          rw [backLoop_step q false k it pos S B hpos (Or.inl h0), if_neg hs]
          exact hr2 k (by omega)
      · have : it = 0 := by omega
        subst this
        refine ⟨(0, 0, memset S (min B pos), B - min B pos), hit, fun fuel hf => ?_⟩
        obtain ⟨k, rfl⟩ : ∃ k, fuel = k + 1 := ⟨fuel - 1, by omega⟩
        exact backLoop_head q k pos S B hpos
    · have : pos = 0 := by omega
      subst this
      refine ⟨(it, 0, S, B), hit, fun fuel hf => ?_⟩
      obtain ⟨k, rfl⟩ : ∃ k, fuel = k + 1 := ⟨fuel - 1, by omega⟩
      exact backLoop_zero _ _ _ _ _ _

/-- The backward crawl of a looping source returns when some item of the queue has a buffer
that is not empty. -/
theorem backLoop_returns_loop (q : Queue) (j : Nat) (hj : j < q.length)
    (hsz : 0 < bufSize q j) :
    ∀ (M it pos : Nat) (S : List Nat) (B : Nat), it < q.length →
      pos * q.length + cycDistBack q j it ≤ M →
      ∃ r, r.1 < q.length ∧ ∀ fuel, M + 1 ≤ fuel → backLoop q true fuel it pos S B = .ok r := by
  intro M
  induction M with
  | zero =>
    intro it pos S B hit hM
    have : 0 < cycDistBack q j it := by
      unfold cycDistBack
      split_ifs <;> omega
    omega
  | succ M ih =>
    intro it pos S B hit hM
    by_cases hpos : 0 < pos
    · have hplt : cycPrev q it < q.length := by
        unfold cycPrev
        split_ifs <;> omega
      by_cases hs : pos < bufSize q (cycPrev q it)
      · refine ⟨(cycPrev q it, bufSize q (cycPrev q it) - pos, S, B), hplt, fun fuel hf => ?_⟩
        obtain ⟨k, rfl⟩ : ∃ k, fuel = k + 1 := ⟨fuel - 1, by omega⟩
        rw [backLoop_step q true k it pos S B hpos (Or.inr rfl), if_pos hs]
      · have hmul : (pos - bufSize q (cycPrev q it)) * q.length ≤ pos * q.length :=
          Nat.mul_le_mul_right _ (Nat.sub_le _ _)
        have hnext : (pos - bufSize q (cycPrev q it)) * q.length
            + cycDistBack q j (cycPrev q it) ≤ M := by
          by_cases hij : cycPrev q it = j
          · rw [hij] at hs ⊢
            have hmul2 : (pos - bufSize q j + 1) * q.length ≤ pos * q.length :=
              Nat.mul_le_mul_right _ (by omega)
            rw [Nat.add_mul, Nat.one_mul] at hmul2
            have : cycDistBack q j j = q.length := by
              unfold cycDistBack
              rw [if_neg (by omega)]
              omega
            have : 0 < cycDistBack q j it := by
              unfold cycDistBack
              split_ifs <;> omega
            omega
          · have : cycDistBack q j (cycPrev q it) + 1 = cycDistBack q j it := by
              unfold cycDistBack
              unfold cycPrev at hij ⊢
              split_ifs at hij ⊢ <;> omega
            omega
        obtain ⟨r, hr1, hr2⟩ := ih (cycPrev q it) (pos - bufSize q (cycPrev q it)) S B
          hplt hnext
        refine ⟨r, hr1, fun fuel hf => ?_⟩
        obtain ⟨k, rfl⟩ : ∃ k, fuel = k + 1 := ⟨fuel - 1, by omega⟩
        rw [backLoop_step q true k it pos S B hpos (Or.inr rfl), if_neg hs]
        exact hr2 k (by omega)
    · have : pos = 0 := by omega
      subst this
      refine ⟨(it, 0, S, B), hit, fun fuel hf => ?_⟩
      obtain ⟨k, rfl⟩ : ∃ k, fuel = k + 1 := ⟨fuel - 1, by omega⟩
      exact backLoop_zero _ _ _ _ _ _

section Adv

variable {α F : Type}

/-- One round of the loop under "Handle looping sources" for a source that is not both
looping and static. -/
theorem advanceLoop_step (FS fuel : Nat) (st : FeedSt α F) (it : Nat) (hFS : 0 < FS)
    (hit : st.BufferListItem = some it)
    (hns : ¬ (st.Looping = true ∧ st.mem.Source.lSourceType = .AL_STATIC)) :
    advanceLoop FS (fuel + 1) st =
      if st.DataPosInt < bufLoopEnd st.mem.Source.queue it ∨
          st.DataPosInt < bufSize st.mem.Source.queue it / FS then .ok st
      else if it + 1 < st.mem.Source.queue.length then
        advanceLoop FS fuel { st with
          BufferListItem := some (it + 1)
          BuffersPlayed := u32 (st.BuffersPlayed + 1)
          DataPosInt := usub st.DataPosInt (bufSize st.mem.Source.queue it / FS) }
      else if st.Looping = true then
        advanceLoop FS fuel { st with
          BufferListItem := queueHead st.mem.Source.queue
          BuffersPlayed := 0
          DataPosInt := usub st.DataPosInt (bufSize st.mem.Source.queue it / FS) }
      else
        .ok { st with
          State := .AL_STOPPED
          BufferListItem := queueHead st.mem.Source.queue
          BuffersPlayed := st.mem.Source.BuffersInQueue
          DataPosInt := 0
          DataPosFrac := 0 } := by
  simp only [advanceLoop]
  rw [hit]
  simp only
  rw [if_neg (by omega), if_neg hns]
  unfold bufLoopEnd bufSize itemNext
  cases hb : itemBuffer st.mem.Source.queue it with
  | none =>
    simp only [Option.isSome_none, Bool.false_eq_true, false_and, if_false, Nat.zero_div,
      Nat.not_lt_zero, or_self]
    by_cases h1 : it + 1 < st.mem.Source.queue.length
    · simp only [if_pos h1]
    · simp only [if_neg h1]
  | some b =>
    simp only [Option.isSome_some, true_and]
    by_cases h2 : st.DataPosInt < b.LoopEnd
    · simp [h2]
    · by_cases h3 : st.DataPosInt < b.size / FS
      · simp [h2, h3]
      · simp only [h2, h3, if_false, or_self]
        by_cases h1 : it + 1 < st.mem.Source.queue.length
        · simp only [if_pos h1]
        · simp only [if_neg h1]

/-- The loop under "Handle looping sources" for a looping static source: one round. -/
theorem advanceLoop_static (FS fuel : Nat) (st : FeedSt α F) (it : Nat) (b : ALbuffer)
    (hFS : 0 < FS) (hit : st.BufferListItem = some it)
    (hb : itemBuffer st.mem.Source.queue it = some b)
    (hs : st.Looping = true ∧ st.mem.Source.lSourceType = .AL_STATIC)
    (hlen : b.LoopStart < b.LoopEnd) (hE : b.LoopEnd < 4294967296) :
    advanceLoop FS (fuel + 1) st =
      if st.DataPosInt < b.LoopEnd then .ok st
      else .ok { st with
        DataPosInt := usub st.DataPosInt b.LoopStart % (b.LoopEnd - b.LoopStart) + b.LoopStart } := by
  simp only [advanceLoop]
  rw [hit]
  simp only [hb, Option.isSome_some, true_and]
  rw [if_neg (by omega)]
  by_cases h2 : st.DataPosInt < b.LoopEnd
  · rw [if_pos h2, if_pos h2]
  · rw [if_neg h2, if_neg h2, if_pos hs, usub_of_le (by omega) hE, if_neg (by omega)]
    have := Nat.mod_lt (usub st.DataPosInt b.LoopStart) (show 0 < b.LoopEnd - b.LoopStart by omega)
    rw [u32_small _ (by omega)]

theorem usub_le_self {a b : Nat} (h : b ≤ a) : usub a b ≤ a := by
  unfold usub
  omega

theorem usub_lt_self {a b : Nat} (h : b ≤ a) (hb : 0 < b) : usub a b < a := by
  unfold usub
  omega

/-- The loop under "Handle looping sources" returns for a source that does not loop: it
ends with the queue. -/
theorem advanceLoop_returns_once (FS : Nat) (hFS : 0 < FS) :
    ∀ (d : Nat) (st : FeedSt α F) (it : Nat), st.BufferListItem = some it →
      st.Looping = false → st.mem.Source.queue.length - it ≤ d →
      ∃ st1, ∀ fuel, d + 1 ≤ fuel → advanceLoop FS fuel st = .ok st1 := by
  intro d
  induction d with
  | zero =>
    intro st it hit hL hd
    have hns : ¬ (st.Looping = true ∧ st.mem.Source.lSourceType = .AL_STATIC) := by
      rw [hL]
      simp
    by_cases h1 : st.DataPosInt < bufLoopEnd st.mem.Source.queue it ∨
        st.DataPosInt < bufSize st.mem.Source.queue it / FS
    · refine ⟨st, fun fuel hf => ?_⟩
      obtain ⟨k, rfl⟩ : ∃ k, fuel = k + 1 := ⟨fuel - 1, by omega⟩
      rw [advanceLoop_step FS k st it hFS hit hns, if_pos h1]
    · refine ⟨({ st with
        State := .AL_STOPPED
        BufferListItem := queueHead st.mem.Source.queue
        BuffersPlayed := st.mem.Source.BuffersInQueue
        DataPosInt := 0
        DataPosFrac := 0 } : FeedSt α F), fun fuel hf => ?_⟩
      obtain ⟨k, rfl⟩ : ∃ k, fuel = k + 1 := ⟨fuel - 1, by omega⟩
      rw [advanceLoop_step FS k st it hFS hit hns, if_neg h1, if_neg (by omega),
        if_neg (by rw [hL]; simp)]
  | succ d ih =>
    intro st it hit hL hd
    have hns : ¬ (st.Looping = true ∧ st.mem.Source.lSourceType = .AL_STATIC) := by
      rw [hL]
      simp
    by_cases h1 : st.DataPosInt < bufLoopEnd st.mem.Source.queue it ∨
        st.DataPosInt < bufSize st.mem.Source.queue it / FS
    · refine ⟨st, fun fuel hf => ?_⟩
      obtain ⟨k, rfl⟩ : ∃ k, fuel = k + 1 := ⟨fuel - 1, by omega⟩
      rw [advanceLoop_step FS k st it hFS hit hns, if_pos h1]
    · by_cases h2 : it + 1 < st.mem.Source.queue.length
      · obtain ⟨st1, h⟩ := ih { st with
          BufferListItem := some (it + 1)
          BuffersPlayed := u32 (st.BuffersPlayed + 1)
          DataPosInt := usub st.DataPosInt (bufSize st.mem.Source.queue it / FS) } (it + 1)
          rfl hL (by simp only; omega)
        refine ⟨st1, fun fuel hf => ?_⟩
        obtain ⟨k, rfl⟩ : ∃ k, fuel = k + 1 := ⟨fuel - 1, by omega⟩
        rw [advanceLoop_step FS k st it hFS hit hns, if_neg h1, if_pos h2]
        exact h k (by omega)
      · refine ⟨({ st with
        State := .AL_STOPPED
        BufferListItem := queueHead st.mem.Source.queue
        BuffersPlayed := st.mem.Source.BuffersInQueue
        DataPosInt := 0
        DataPosFrac := 0 } : FeedSt α F), fun fuel hf => ?_⟩
        obtain ⟨k, rfl⟩ : ∃ k, fuel = k + 1 := ⟨fuel - 1, by omega⟩
        rw [advanceLoop_step FS k st it hFS hit hns, if_neg h1, if_neg h2,
          if_neg (by rw [hL]; simp)]

/-- The loop under "Handle looping sources" returns for a looping source that is not static
when some item of the queue has a buffer of at least one frame. -/
theorem advanceLoop_returns_loop (FS : Nat) (hFS : 0 < FS) (q : Queue) (j : Nat)
    (hj : j < q.length) (hsz : FS ≤ bufSize q j) :
    ∀ (M : Nat) (st : FeedSt α F) (it : Nat), st.mem.Source.queue = q →
      st.BufferListItem = some it → it < q.length → st.Looping = true →
      st.mem.Source.lSourceType ≠ .AL_STATIC →
      st.DataPosInt * q.length + cycDist q j it ≤ M →
      ∃ st1, ∀ fuel, M + 1 ≤ fuel → advanceLoop FS fuel st = .ok st1 := by
  intro M
  induction M with
  | zero =>
    intro st it hq hit hlt hL hty hM
    have hns : ¬ (st.Looping = true ∧ st.mem.Source.lSourceType = .AL_STATIC) :=
      fun h => hty h.2
    have hd : cycDist q j it = 0 := by omega
    have hij : it = j := by
      unfold cycDist at hd
      split_ifs at hd <;> omega
    subst hij
    have hp : st.DataPosInt = 0 := by
      by_contra h
      have : 1 * q.length ≤ st.DataPosInt * q.length := Nat.mul_le_mul_right _ (by omega)
      omega
    have hds : 0 < bufSize q it / FS := Nat.div_pos hsz hFS
    refine ⟨st, fun fuel hf => ?_⟩
    obtain ⟨k, rfl⟩ : ∃ k, fuel = k + 1 := ⟨fuel - 1, by omega⟩
    rw [advanceLoop_step FS k st it hFS hit hns, hq, if_pos (Or.inr (by omega))]
  | succ M ih =>
    intro st it hq hit hlt hL hty hM
    have hns : ¬ (st.Looping = true ∧ st.mem.Source.lSourceType = .AL_STATIC) :=
      fun h => hty h.2
    by_cases h1 : st.DataPosInt < bufLoopEnd q it ∨ st.DataPosInt < bufSize q it / FS
    · refine ⟨st, fun fuel hf => ?_⟩
      obtain ⟨k, rfl⟩ : ∃ k, fuel = k + 1 := ⟨fuel - 1, by omega⟩
      rw [advanceLoop_step FS k st it hFS hit hns, hq, if_pos h1]
    · have hge : bufSize q it / FS ≤ st.DataPosInt := by omega
      have hle := usub_le_self hge
      have hmul : usub st.DataPosInt (bufSize q it / FS) * q.length
          ≤ st.DataPosInt * q.length := Nat.mul_le_mul_right _ hle
      have hnext : usub st.DataPosInt (bufSize q it / FS) * q.length
          + cycDist q j (cycNext q it) ≤ M := by
        by_cases hij : it = j
        · subst hij
          have hds : 0 < bufSize q it / FS := Nat.div_pos hsz hFS
          have hlt2 := usub_lt_self hge hds
          have hmul2 : (usub st.DataPosInt (bufSize q it / FS) + 1) * q.length
              ≤ st.DataPosInt * q.length := Nat.mul_le_mul_right _ hlt2
          rw [Nat.add_mul, Nat.one_mul] at hmul2
          have : cycDist q it (cycNext q it) < q.length := by
            unfold cycDist cycNext
            split_ifs <;> omega
          have : cycDist q it it = 0 := by simp [cycDist]
          omega
        · have : cycDist q j (cycNext q it) + 1 = cycDist q j it := by
            unfold cycDist cycNext
            split_ifs <;> omega
          omega
      by_cases h2 : it + 1 < q.length
      · obtain ⟨st1, h⟩ := ih { st with
          BufferListItem := some (it + 1)
          BuffersPlayed := u32 (st.BuffersPlayed + 1)
          DataPosInt := usub st.DataPosInt (bufSize q it / FS) } (it + 1)
          hq rfl h2 hL hty (by
            rw [cycNext, if_pos h2] at hnext
            exact hnext)
        refine ⟨st1, fun fuel hf => ?_⟩
        obtain ⟨k, rfl⟩ : ∃ k, fuel = k + 1 := ⟨fuel - 1, by omega⟩
        rw [advanceLoop_step FS k st it hFS hit hns, hq, if_neg h1, if_pos h2]
        exact h k (by omega)
      · obtain ⟨st1, h⟩ := ih { st with
          BufferListItem := queueHead q
          BuffersPlayed := 0
          DataPosInt := usub st.DataPosInt (bufSize q it / FS) } 0
          hq (by simp only [queueHead]; rw [if_pos (by omega)]) (by omega) hL hty (by
            rw [cycNext, if_neg h2] at hnext
            exact hnext)
        refine ⟨st1, fun fuel hf => ?_⟩
        obtain ⟨k, rfl⟩ : ∃ k, fuel = k + 1 := ⟨fuel - 1, by omega⟩
        rw [advanceLoop_step FS k st it hFS hit hns, hq, if_neg h1, if_neg h2, if_pos hL]
        exact h k (by omega)

end Adv

/-! ## The loop of `MixSource` returns -/

theorem bufSize_pos {q : Queue} {j : Nat} (h : 0 < bufSize q j) :
    ∃ b, itemBuffer q j = some b ∧ 0 < b.size := by
  unfold bufSize at h
  cases hb : itemBuffer q j with
  | none => rw [hb] at h; simp at h
  | some b => rw [hb] at h; exact ⟨b, rfl, h⟩

/-- The window assembly of a source that is not static returns: always when the source does
not loop, and for a looping source when some item of the queue has a buffer that is not
empty. -/
theorem assembleStream_returns (q : Queue) (Lp : Bool) (it p pre FS B : Nat)
    (hit : it < q.length) (hloop : Lp = true → ∃ j, j < q.length ∧ 0 < bufSize q j) :
    ∃ N r, ∀ fuel, N ≤ fuel → assembleStream fuel q Lp (some it) p pre FS B = .ok r := by
  have hfwd : ∀ (i pos : Nat) (S : List Nat) (B1 : Nat), i < q.length →
      ∃ N r, ∀ fuel, N ≤ fuel → fwdLoop q Lp fuel (some i) pos S B1 = .ok r := by
    intro i pos S B1 hi
    cases Lp with
    | false =>
      obtain ⟨r, hr⟩ := fwdLoop_returns_once q (q.length - i) i pos S B1 (Nat.le_refl _)
      exact ⟨_, r, hr⟩
    | true =>
      obtain ⟨j, hj, hs⟩ := hloop rfl
      obtain ⟨bj, hb1, hb2⟩ := bufSize_pos hs
      obtain ⟨r, hr⟩ := fwdLoop_returns_loop q j bj hj hb1 hb2 _ i pos S B1 hi (Nat.le_refl _)
      exact ⟨_, r, hr⟩
  by_cases hp : pre ≤ p
  · obtain ⟨N, r, hr⟩ := hfwd it (u32 ((p - pre) * FS)) [] B hit
    refine ⟨N, r, fun fuel hf => ?_⟩
    unfold assembleStream
    rw [if_pos hp]
    exact hr fuel hf
  · have hback : ∃ N r, r.1 < q.length ∧ ∀ fuel, N ≤ fuel →
        backLoop q Lp fuel it (u32 ((pre - p) * FS)) [] B = .ok r := by
      cases Lp with
      | false =>
        obtain ⟨r, hr1, hr2⟩ := backLoop_returns_once q it it (u32 ((pre - p) * FS)) [] B
          (Nat.le_refl _) hit
        exact ⟨_, r, hr1, hr2⟩
      | true =>
        obtain ⟨j, hj, hs⟩ := hloop rfl
        obtain ⟨r, hr1, hr2⟩ := backLoop_returns_loop q j hj hs _ it (u32 ((pre - p) * FS)) [] B
          hit (Nat.le_refl _)
        exact ⟨_, r, hr1, hr2⟩
    obtain ⟨N1, ⟨It, pos, S, B1⟩, hr1, hr2⟩ := hback
    obtain ⟨N2, r, hr⟩ := hfwd It pos S B1 hr1
    refine ⟨max N1 N2, r, fun fuel hf => ?_⟩
    unfold assembleStream
    rw [if_neg hp]
    simp only
    rw [hr2 fuel (le_trans (le_max_left _ _) hf)]
    simp only
    exact hr fuel (le_trans (le_max_right _ _) hf)

section Asm

variable {α F : Type}

/-- The local `Looping` is only ever switched off by the window assembly. -/
theorem assemble_looping {fuel : Nat} {Source : ALsource α F} {Looping : Bool}
    {item : Option Nat} {p pre FS B : Nat} {S : List Nat} {L : Bool}
    (h : assemble fuel Source Looping item p pre FS B = .ok (S, L)) :
    L = true → Looping = true := by
  intro hL
  subst hL
  unfold assemble at h
  split at h
  · split at h
    · simp at h
    · simp at h
    · next b rest hq =>
      unfold assembleStatic at h
      split at h
      · next hc =>
        simp only at h
        split at h
        · simp at h
        · simp at h
      · next hc =>
        cases Looping with
        | false => exact absurd (Or.inl rfl) hc
        | true => rfl
  · split at h
    · simp at h
    · simp only [Except.ok.injEq, Prod.mk.injEq] at h
      exact h.2

/-- The loop under "Handle looping sources" leaves the current item inside the queue. -/
theorem advanceLoop_item (FS : Nat) :
    ∀ (fuel : Nat) (st st1 : FeedSt α F) (it : Nat), advanceLoop FS fuel st = .ok st1 →
      st.BufferListItem = some it → it < st.mem.Source.queue.length →
      ∃ it1, st1.BufferListItem = some it1 ∧ it1 < st.mem.Source.queue.length := by
  intro fuel
  induction fuel with
  | zero =>
    intro st st1 it h
    simp [advanceLoop] at h
  | succ fuel ih =>
    intro st st1 it0 h hit0 hlt
    have hq : 0 < st.mem.Source.queue.length := by omega
    simp only [advanceLoop] at h
    split at h
    · simp at h
    · next it hit =>
      have e : it = it0 := by
        rw [hit] at hit0
        exact Option.some.inj hit0
      subst e
      split at h
      · simp at h
      · split at h
        · simp only [Except.ok.injEq] at h
          subst h
          exact ⟨it, hit, hlt⟩
        · split at h
          · split at h
            · simp at h
            · simp only [Except.ok.injEq] at h
              subst h
              exact ⟨it, hit, hlt⟩
          · split at h
            · simp only [Except.ok.injEq] at h
              subst h
              exact ⟨it, hit, hlt⟩
            · split at h
              · next nx hnx =>
                have hn : nx < st.mem.Source.queue.length := by
                  unfold itemNext at hnx
                  split at hnx
                  · simp only [Option.some.injEq] at hnx
                    omega
                  · simp at hnx
                have := ih _ _ nx h rfl hn
                exact this
              · split at h
                · have := ih _ _ 0 h (by simp only [queueHead]; rw [if_pos hq]) hq
                  exact this
                · simp only [Except.ok.injEq] at h
                  subst h
                  exact ⟨0, by simp only [queueHead]; rw [if_pos hq], hq⟩

/-- The loop under "Handle looping sources" leaves a static source at a position inside its
buffer. -/
theorem advanceLoop_static_pos (FS fuel : Nat) (st st1 : FeedSt α F) (b : ALbuffer)
    (hFS : 0 < FS) (hq : st.mem.Source.queue = [some b]) (hit : st.BufferListItem = some 0)
    (hty : st.mem.Source.lSourceType = .AL_STATIC)
    (hLE : b.LoopEnd * FS ≤ b.size) (hsize : b.size < 2147483648)
    (hloop : st.Looping = true → b.LoopStart < b.LoopEnd)
    (h : advanceLoop FS fuel st = .ok st1) : st1.DataPosInt * FS ≤ b.size := by
  have hb : itemBuffer st.mem.Source.queue 0 = some b := by
    rw [hq]
    rfl
  have hLEFS : b.LoopEnd ≤ b.LoopEnd * FS := Nat.le_mul_of_pos_right _ hFS
  have hlt : ∀ x, x < b.LoopEnd → x * FS ≤ b.size := fun x hx =>
    le_trans (Nat.mul_le_mul_right FS (Nat.le_of_lt hx)) hLE
  cases fuel with
  | zero => simp [advanceLoop] at h
  | succ k =>
    by_cases hs : st.Looping = true ∧ st.mem.Source.lSourceType = .AL_STATIC
    · rw [advanceLoop_static FS k st 0 b hFS hit hb hs (hloop hs.1) (by omega)] at h
      split at h
      · next h2 =>
        simp only [Except.ok.injEq] at h
        subst h
        exact hlt _ h2
      · simp only [Except.ok.injEq] at h
        subst h
        simp only
        have := Nat.mod_lt (usub st.DataPosInt b.LoopStart)
          (show 0 < b.LoopEnd - b.LoopStart by have := hloop hs.1; omega)
        exact hlt _ (by have := hloop hs.1; omega)
    · rw [advanceLoop_step FS k st 0 hFS hit hs] at h
      have e1 : bufLoopEnd st.mem.Source.queue 0 = b.LoopEnd := by
        unfold bufLoopEnd
        rw [hb]
      have e2 : bufSize st.mem.Source.queue 0 = b.size := by
        unfold bufSize
        rw [hb]
      rw [e1, e2] at h
      split at h
      · next h2 =>
        simp only [Except.ok.injEq] at h
        subst h
        rcases h2 with h2 | h2
        · exact hlt _ h2
        · exact le_trans (Nat.mul_le_mul_right FS (Nat.le_of_lt h2)) (Nat.div_mul_le_self _ _)
      · rw [if_neg (by rw [hq]; simp)] at h
        split at h
        · next h3 =>
          exact absurd ⟨h3, hty⟩ hs
        · simp only [Except.ok.injEq] at h
          subst h
          simp

end Asm

/-- The request of an iteration does not leave `ALint64` when the step fits the stack
buffer. -/
theorem request_no_overflow {STACK FS std o inc f pre post : Nat}
    (hFS : 0 < FS) (hS : STACK ≤ 131072) (hstd : std < 4294967295) (hf : f < 16384)
    (hstep : inc ≤ (STACK / FS - (pre + post) - 1) * 16384)
    (hpads : pre + post < STACK / FS) :
    (std - o + 1) * inc + f + 16383 < 9223372036854775808 ∧
    (((std - o + 1) * inc + f + 16383) / 16384 + post + pre) * FS < 9223372036854775808 := by
  have hK : STACK / FS - (pre + post) - 1 ≤ STACK / FS := by omega
  have hSF : STACK / FS ≤ STACK := Nat.div_le_self _ _
  have hKF : (STACK / FS - (pre + post) - 1) * FS ≤ STACK :=
    le_trans (Nat.mul_le_mul_right FS hK) (Nat.div_mul_le_self _ _)
  have hFSle : FS ≤ STACK := by
    have : 1 ≤ STACK / FS := by omega
    have := (Nat.le_div_iff_mul_le hFS).1 this
    omega
  generalize hKd : STACK / FS - (pre + post) - 1 = K at hstep hK hKF
  generalize hRd : std - o + 1 = R
  have hR : R ≤ 4294967295 := by omega
  have h1 : R * inc ≤ R * (K * 16384) := Nat.mul_le_mul_left R hstep
  have h2 : R * (K * 16384) ≤ 4294967295 * (131072 * 16384) :=
    Nat.mul_le_mul hR (Nat.mul_le_mul_right _ (by omega))
  have h3 : R * (K * 16384) = (R * K) * 16384 := by ring
  have h4 : (R * K) * FS = R * (K * FS) := by ring
  have h5 : R * (K * FS) ≤ 4294967295 * 131072 := Nat.mul_le_mul hR (by omega)
  have h6 : (R * inc + f + 16383) / 16384 ≤ R * K + 1 := by omega
  have h7 : ((R * inc + f + 16383) / 16384 + post + pre) * FS
      ≤ (R * K + 1 + post + pre) * FS := Nat.mul_le_mul_right FS (by omega)
  have h8 : (R * K + 1 + post + pre) * FS = (R * K) * FS + (1 + post + pre) * FS := by ring
  have h9 : (1 + post + pre) * FS ≤ 131073 * 131072 :=
    Nat.mul_le_mul (by omega) (by omega)
  constructor
  · omega
  · omega

/-- An iteration entered with samples left to do mixes at least one when the step fits the
stack buffer. -/
theorem iter_progress {STACK FS std o inc f pre post n : Nat}
    (hS : STACK ≤ 131072) (hstd : std < 4294967296) (hf : f < 16384) (hinc : 1 ≤ inc)
    (hstep : inc ≤ (STACK / FS - (pre + post) - 1) * 16384) (ho : o < std)
    (hn : n = min ((((min (STACK / FS) (((std - o + 1) * inc + f + 16383) / 16384 + post + pre)
      - (post + pre)) * 16384 - f - 1) / inc) % 4294967296) (usub std o)) :
    1 ≤ n := by
  have hSF : STACK / FS ≤ STACK := Nat.div_le_self _ _
  have hK1 : 1 ≤ STACK / FS - (pre + post) - 1 := by
    by_contra h
    have : STACK / FS - (pre + post) - 1 = 0 := by omega
    rw [this] at hstep
    omega
  have hR : 2 * inc ≤ (std - o + 1) * inc := Nat.mul_le_mul_right inc (by omega)
  generalize hRd : (std - o + 1) * inc = t at hn hR
  generalize hUd : min (STACK / FS) ((t + f + 16383) / 16384 + post + pre) - (post + pre) = U
    at hn
  have hU : inc + f + 1 ≤ U * 16384 := by omega
  have hU2 : U ≤ 131072 := by omega
  have hq1 : 1 ≤ (U * 16384 - f - 1) / inc :=
    (Nat.le_div_iff_mul_le (by omega)).2 (by omega)
  have hq2 : (U * 16384 - f - 1) / inc ≤ U * 16384 - f - 1 := Nat.div_le_self _ _
  have hq3 : (U * 16384 - f - 1) / inc % 4294967296 = (U * 16384 - f - 1) / inc :=
    Nat.mod_eq_of_lt (by omega)
  have hu : usub std o = std - o := usub_of_le (by omega) hstd
  rw [hq3, hu] at hn
  rw [hn]
  exact le_min hq1 (by omega)

theorem padding_le_two {r : Resampler} {pre : Nat} (h : ResamplerPrePadding r = some pre) :
    pre ≤ 2 := by
  cases r <;> simp [ResamplerPrePadding] at h <;> omega

/-- The mixer selected for a resampler reads no further than the paddings of the
resampler. -/
theorem selected_padding {r : Resampler} {g : MixerFunc} {pre post : Nat}
    (hsel : ∃ b, SelectMixer b r = some g ∨ SelectHrtfMixer b r = some g)
    (hpre : ResamplerPrePadding r = some pre) (hpost : ResamplerPadding r = some post) :
    g.sampler.pre ≤ pre ∧ g.sampler.post ≤ post := by
  obtain ⟨b, hb⟩ := hsel
  rcases b with ⟨d, ls, le, fmt⟩
  revert hpre hpost hb
  cases r <;> cases fmt <;>
    simp [ResamplerPrePadding, ResamplerPadding, SelectMixer, SelectHrtfMixer, Select_point,
      Select_lerp, Select_cubic, Select_Hrtf_point, Select_Hrtf_lerp, Select_Hrtf_cubic] <;>
    (intro h1 h2 h3; subst h1; subst h2; rcases h3 with h3 | h3 <;> subst h3 <;> decide)

section Iter

variable {α F : Type}

/-- The frame size of a playable source: positive, below `2^32`, and small enough for the
stack buffer to hold the paddings and two frames more. -/
theorem Playable.frame {E : Env α F} {m : Mem α F} {std : Nat} {g : MixerFunc}
    {pre post : Nat} (hP : Playable E m std g pre post) :
    0 < m.Source.NumChannels * m.Source.SampleSize ∧
    m.Source.NumChannels * m.Source.SampleSize ≤ 131072 ∧
    pre + post + 2 ≤ E.STACK_DATA_SIZE / (m.Source.NumChannels * m.Source.SampleSize) ∧
    E.STACK_DATA_SIZE ≤ 131072 := by
  have h1 := hP.stack
  have h2 := hP.step_pos
  have h3 := hP.step_le
  norm_num at h1
  have hpos : 0 < m.Source.NumChannels * m.Source.SampleSize := by
    rw [hP.sample_size]
    exact Nat.mul_pos hP.channels (sizeofT_pos _)
  have hK : 1 ≤ E.STACK_DATA_SIZE / (m.Source.NumChannels * m.Source.SampleSize)
      - (pre + post) - 1 := by
    by_contra h
    have : E.STACK_DATA_SIZE / (m.Source.NumChannels * m.Source.SampleSize)
      - (pre + post) - 1 = 0 := by omega
    rw [this] at h3
    omega
  have h4 : 1 ≤ E.STACK_DATA_SIZE / (m.Source.NumChannels * m.Source.SampleSize) := by omega
  have h5 := (Nat.le_div_iff_mul_le hpos).1 h4
  exact ⟨hpos, by omega, by omega, h1⟩

/-- The window assembly returns in every iteration on a playable source. -/
theorem assemble_returns {E : Env α F} {m : Mem α F} {std : Nat} {g : MixerFunc}
    {pre post : Nat} (hP : Playable E m std g pre post) {st : FeedSt α F}
    (hI : FeedInv m std st) (B : Nat) :
    ∃ N S L, ∀ fuel, N ≤ fuel →
      assemble fuel st.mem.Source st.Looping st.BufferListItem st.DataPosInt pre
        (m.Source.NumChannels * m.Source.SampleSize) B = .ok (S, L) := by
  obtain ⟨hFS, -, -, -⟩ := hP.frame
  have hty : st.mem.Source.lSourceType = m.Source.lSourceType :=
    congrArg Fixed.lSourceType hI.fixed
  have hqq : st.mem.Source.queue = m.Source.queue := congrArg Fixed.queue hI.fixed
  by_cases hs : m.Source.lSourceType = .AL_STATIC
  · obtain ⟨b, hq, hsz, hLE, -, hloop⟩ := hP.static hs
    norm_num at hsz
    obtain ⟨r, hr⟩ := assembleStatic_returns b st.Looping st.DataPosInt pre
      (m.Source.NumChannels * m.Source.SampleSize) B hFS hsz (padding_le_two hP.pre_pad) hLE
      (hI.inside hs b hq) (fun h => hloop (hI.loop h))
    refine ⟨B + 3, r.1, r.2, fun fuel hf => ?_⟩
    unfold assemble
    rw [hty, if_pos hs, hqq, hq]
    exact hr fuel hf
  · obtain ⟨it, hit, hlt⟩ := hI.item
    obtain ⟨N, r, hr⟩ := assembleStream_returns m.Source.queue st.Looping it st.DataPosInt pre
      (m.Source.NumChannels * m.Source.SampleSize) B hlt (fun h => by
        obtain ⟨j, hj, hsj⟩ := hP.stream hs (hI.loop h)
        exact ⟨j, hj, by omega⟩)
    refine ⟨N, r, st.Looping, fun fuel hf => ?_⟩
    unfold assemble
    rw [hty, if_neg hs, hqq, hit, hr fuel hf]

/-- The loop under "Handle looping sources" returns after every mixer call on a playable
source. -/
theorem advance_returns {E : Env α F} {m : Mem α F} {std : Nat} {g : MixerFunc}
    {pre post : Nat} (hP : Playable E m std g pre post) (st : FeedSt α F)
    (hfix : st.mem.fixed = m.fixed)
    (hitem : ∃ it, st.BufferListItem = some it ∧ it < m.Source.queue.length)
    (hloop : st.Looping = true → m.Source.bLooping = true) :
    ∃ N st1, ∀ fuel, N ≤ fuel →
      advanceLoop (m.Source.NumChannels * m.Source.SampleSize) fuel st = .ok st1 := by
  obtain ⟨hFS, -, -, -⟩ := hP.frame
  have hty : st.mem.Source.lSourceType = m.Source.lSourceType :=
    congrArg Fixed.lSourceType hfix
  have hqq : st.mem.Source.queue = m.Source.queue := congrArg Fixed.queue hfix
  obtain ⟨it, hit, hlt⟩ := hitem
  cases hL : st.Looping with
  | false =>
    obtain ⟨st1, h⟩ := advanceLoop_returns_once (m.Source.NumChannels * m.Source.SampleSize)
      hFS _ st it hit hL (Nat.le_refl _)
    exact ⟨_, st1, h⟩
  | true =>
    by_cases hs : m.Source.lSourceType = .AL_STATIC
    · obtain ⟨b, hq, hsz, hLE, -, hlp⟩ := hP.static hs
      norm_num at hsz
      have hit0 : it = 0 := by
        rw [hq] at hlt
        simp at hlt
        exact hlt
      subst hit0
      have hb : itemBuffer st.mem.Source.queue 0 = some b := by
        rw [hqq, hq]
        rfl
      have hLEFS : b.LoopEnd ≤ b.LoopEnd * (m.Source.NumChannels * m.Source.SampleSize) :=
        Nat.le_mul_of_pos_right _ hFS
      have hstep := fun k => advanceLoop_static (m.Source.NumChannels * m.Source.SampleSize) k st
        0 b hFS hit hb ⟨hL, by rw [hty]; exact hs⟩ (hlp (hloop hL)) (by omega)
      by_cases hp : st.DataPosInt < b.LoopEnd
      · refine ⟨1, st, fun fuel hf => ?_⟩
        obtain ⟨k, rfl⟩ : ∃ k, fuel = k + 1 := ⟨fuel - 1, by omega⟩
        rw [hstep k, if_pos hp]
      · refine ⟨1, ({ st with
          DataPosInt := usub st.DataPosInt b.LoopStart % (b.LoopEnd - b.LoopStart)
            + b.LoopStart } : FeedSt α F), fun fuel hf => ?_⟩
        obtain ⟨k, rfl⟩ : ∃ k, fuel = k + 1 := ⟨fuel - 1, by omega⟩
        rw [hstep k, if_neg hp]
    · obtain ⟨j, hj, hsj⟩ := hP.stream hs (hloop hL)
      obtain ⟨st1, h⟩ := advanceLoop_returns_loop
        (m.Source.NumChannels * m.Source.SampleSize) hFS m.Source.queue j hj hsj _ st it hqq hit
        hlt hL (by rw [hty]; exact hs) (Nat.le_refl _)
      exact ⟨_, st1, h⟩

end Iter

theorem walkQueue_ok (q : Queue) :
    ∀ (n i : Nat), i + n < q.length → walkQueue q n (some i) = .ok (some (i + n)) := by
  intro n
  induction n with
  | zero =>
    intro i _
    rfl
  | succ n ih =>
    intro i h
    unfold walkQueue
    simp only [itemNext]
    rw [if_pos (by omega), ih (i + 1) (by omega)]
    congr 2
    omega

section LoopInit

variable {α F : Type}

/-- The locals of `MixSource` on entry to its loop satisfy the invariant of the loop. -/
theorem feedInv_init {E : Env α F} {m : Mem α F} {std : Nat} {g : MixerFunc}
    {pre post : Nat} (hP : Playable E m std g pre post) :
    FeedInv m std
      ({ mem := m
         State := m.Source.state
         BuffersPlayed := m.Source.BuffersPlayed
         DataPosInt := m.Source.position
         DataPosFrac := m.Source.position_fraction
         Looping := m.Source.bLooping
         BufferListItem := some m.Source.BuffersPlayed
         OutPos := 0
         calls := [] } : FeedSt α F) :=
  { fixed := rfl
    frac := hP.frac
    out := Nat.zero_le _
    item := ⟨_, rfl, hP.played⟩
    loop := fun h => h
    inside := fun hs b hq => by
      obtain ⟨b2, hq2, -, -, hpos, -⟩ := hP.static hs
      have hbb : b2 = b := by
        rw [hq] at hq2
        simp only [List.cons.injEq, Option.some.injEq, and_true] at hq2
        exact hq2.symm
      subst hbb
      exact hpos }

theorem walkQueue_head {m : Mem α F} (h : m.Source.BuffersPlayed < m.Source.queue.length) :
    walkQueue m.Source.queue m.Source.BuffersPlayed (queueHead m.Source.queue)
      = .ok (some m.Source.BuffersPlayed) := by
  rw [queueHead, if_pos (by omega)]
  have := walkQueue_ok m.Source.queue m.Source.BuffersPlayed 0 (by omega)
  rw [Nat.zero_add] at this
  exact this

end LoopInit

section IterMix

variable {α F : Type} [Add α] [Sub α] [Mul α] [Div α] [IntCast α]

/-- The body of the loop of `MixSource` returns on a playable source. -/
theorem feedIter_returns {E : Env α F} {m : Mem α F} {std : Nat} {g : MixerFunc}
    {pre post : Nat} (hP : Playable E m std g pre post) {st : FeedSt α F}
    (hI : FeedInv m std st) :
    ∃ N st1, ∀ fuel, N ≤ fuel →
      feedIter E fuel std m.Source.Params.Step m.Source.Resampler
        (u32 (m.Source.NumChannels * m.Source.SampleSize)) st = .ok st1 := by
  obtain ⟨hFS, hFSle, hpads, hS⟩ := hP.frame
  rw [u32_small (m.Source.NumChannels * m.Source.SampleSize) (by omega)]
  have hfr := hI.frac
  rw [FRACTIONONE_eq] at hfr
  have hstd := hP.todo
  norm_num at hstd
  have hsl := hP.step_le
  rw [FRACTIONONE_eq] at hsl
  have hqq : st.mem.Source.queue = m.Source.queue := congrArg Fixed.queue hI.fixed
  have hncE : st.mem.Source.NumChannels = m.Source.NumChannels :=
    congrArg Fixed.NumChannels hI.fixed
  have hstE : st.mem.Source.Params.Step = m.Source.Params.Step := congrArg Fixed.Step hI.fixed
  have hdoE : st.mem.Source.Params.DoMix = m.Source.Params.DoMix :=
    congrArg Fixed.DoMix hI.fixed
  have hSF : E.STACK_DATA_SIZE / (m.Source.NumChannels * m.Source.SampleSize)
      ≤ E.STACK_DATA_SIZE := Nat.div_le_self _ _
  have hstepu : m.Source.Params.Step < 4294967296 := by
    have : (E.STACK_DATA_SIZE / (m.Source.NumChannels * m.Source.SampleSize) - (pre + post) - 1)
        * 16384 ≤ 131072 * 16384 := Nat.mul_le_mul_right _ (by omega)
    omega
  obtain ⟨ov1, ov2⟩ := @request_no_overflow E.STACK_DATA_SIZE
    (m.Source.NumChannels * m.Source.SampleSize) std st.OutPos m.Source.Params.Step
    st.DataPosFrac pre post hFS hS hstd hfr hsl (by omega)
  obtain ⟨B0, hreq⟩ := @requestSize_ok E.STACK_DATA_SIZE std st.OutPos m.Source.Params.Step
    st.DataPosFrac post pre (m.Source.NumChannels * m.Source.SampleSize) hFS hstd hI.out hfr
    (by omega) ov1 ov2
  obtain ⟨r1, r2, r3⟩ := requestSize_spec (by omega) hstd hI.out hfr (by omega) hreq
  obtain ⟨N1, S, L, hasm⟩ := assemble_returns hP hI B0
  have hitem : st.mem.Source.lSourceType = .AL_STATIC ∨
      (st.BufferListItem.isSome ∧ 0 < st.mem.Source.queue.length) := by
    obtain ⟨it, hit, hlt⟩ := hI.item
    right
    rw [hit, hqq]
    exact ⟨rfl, by omega⟩
  have hlen : S.length = B0 := assemble_length hitem (hasm N1 (Nat.le_refl _))
  obtain ⟨n, hcnt⟩ := @mixCount_ok S.length std st.OutPos m.Source.Params.Step st.DataPosFrac
    post pre (m.Source.NumChannels * m.Source.SampleSize) hFS hP.step_pos
  have b1 := iter_frames std st.OutPos st.DataPosFrac
    (show pre + post < E.STACK_DATA_SIZE / (m.Source.NumChannels * m.Source.SampleSize) by omega)
    hP.step_pos
  have hn := mixCount_spec (hlen.trans r3) r1 hP.step_pos hstepu hfr b1 (by omega) hcnt
  have hker := selected_padding hP.selected hP.pre_pad hP.post_pad
  have hFSe : m.Source.NumChannels * m.Source.SampleSize
      = m.Source.NumChannels * g.sampler.sizeofT := by rw [hP.sample_size]
  obtain ⟨-, -, c3⟩ := iter_samplesOk E g S hFSe hP.channels hker.1 hker.2 hS (by omega)
    hP.step_pos hfr (hlen.trans r3) hn
  have c4 : SamplesOk E g.sampler
      { bytes := S
        off := ((u32 (pre * (m.Source.NumChannels * m.Source.SampleSize)) : Nat) : Int) }
      st.mem.Source.NumChannels st.mem.Source.Params.Step st.DataPosFrac n := by
    rw [hncE, hstE]
    exact c3
  obtain ⟨res, hcall⟩ := call_ok c4 st.DataPosInt st.OutPos std
  obtain ⟨N2, st1, hadv⟩ := advance_returns hP
    ({ st with
        mem := res.mem
        DataPosInt := res.DataPosInt
        DataPosFrac := res.DataPosFrac
        Looping := L
        OutPos := u32 (st.OutPos + n)
        calls := st.calls ++ [{ SrcData := S
                                base := u32 (pre * (m.Source.NumChannels * m.Source.SampleSize))
                                DataPosInt := st.DataPosInt
                                DataPosFrac := st.DataPosFrac
                                OutPos := st.OutPos
                                BufferSize := n }] } : FeedSt α F)
    ((call_fixed hcall).trans hI.fixed) hI.item
    (fun h => hI.loop (assemble_looping (hasm N1 (Nat.le_refl _)) h))
  refine ⟨max N1 N2, st1, fun fuel hf => ?_⟩
  unfold feedIter
  rw [hP.pre_pad, hP.post_pad]
  simp only
  rw [hreq]
  simp only
  rw [hasm fuel (le_trans (le_max_left _ _) hf)]
  simp only
  rw [hcnt]
  simp only
  rw [hdoE, hP.do_mix]
  simp only
  rw [hcall]
  simp only
  exact hadv fuel (le_trans (le_max_right _ _) hf)

/-- The body of the loop of `MixSource` keeps the invariant of the loop on a playable
source, and moves `OutPos` forward whenever the loop goes on. -/
theorem feedIter_keeps {E : Env α F} {m : Mem α F} {std : Nat} {g : MixerFunc}
    {pre post : Nat} (hP : Playable E m std g pre post) {st st1 : FeedSt α F}
    (hI : FeedInv m std st) {fuel : Nat}
    (h : feedIter E fuel std m.Source.Params.Step m.Source.Resampler
      (u32 (m.Source.NumChannels * m.Source.SampleSize)) st = .ok st1) :
    FeedInv m std st1 ∧ (st1.OutPos < std → st.OutPos < st1.OutPos) := by
  obtain ⟨hFS, hFSle, hpads, hS⟩ := hP.frame
  have hout := hI.out
  rw [u32_small (m.Source.NumChannels * m.Source.SampleSize) (by omega)] at h
  have hfr := hI.frac
  rw [FRACTIONONE_eq] at hfr
  have hstd := hP.todo
  norm_num at hstd
  have hsl := hP.step_le
  rw [FRACTIONONE_eq] at hsl
  have hqq : st.mem.Source.queue = m.Source.queue := congrArg Fixed.queue hI.fixed
  have hSF : E.STACK_DATA_SIZE / (m.Source.NumChannels * m.Source.SampleSize)
      ≤ E.STACK_DATA_SIZE := Nat.div_le_self _ _
  have hstepu : m.Source.Params.Step < 4294967296 := by
    have : (E.STACK_DATA_SIZE / (m.Source.NumChannels * m.Source.SampleSize) - (pre + post) - 1)
        * 16384 ≤ 131072 * 16384 := Nat.mul_le_mul_right _ (by omega)
    omega
  obtain ⟨pre1, post1, B0, S, L, n, g1, res, hpre, hpost, hreq, hasm, hcnt, hdo, hcall, hadv⟩ :=
    feedIter_inv h
  rw [hP.pre_pad] at hpre
  rw [hP.post_pad] at hpost
  simp only [Option.some.injEq] at hpre hpost
  subst hpre
  subst hpost
  obtain ⟨r1, r2, r3⟩ := requestSize_spec (by omega) hstd hI.out hfr (by omega) hreq
  have hitem : st.mem.Source.lSourceType = .AL_STATIC ∨
      (st.BufferListItem.isSome ∧ 0 < st.mem.Source.queue.length) := by
    obtain ⟨it, hit, hlt⟩ := hI.item
    right
    rw [hit, hqq]
    exact ⟨rfl, by omega⟩
  have hlen : S.length = B0 := assemble_length hitem hasm
  have b1 := iter_frames std st.OutPos st.DataPosFrac
    (show pre + post < E.STACK_DATA_SIZE / (m.Source.NumChannels * m.Source.SampleSize) by omega)
    hP.step_pos
  have hn := mixCount_spec (hlen.trans r3) r1 hP.step_pos hstepu hfr b1 (by omega) hcnt
  have hnle : n ≤ usub std st.OutPos := mixCount_le hcnt
  rw [usub_of_le hI.out (by omega)] at hnle
  obtain ⟨a1, a2, -, a4, a5⟩ := advanceLoop_spec _ _ _ _ hadv
  simp only at a1 a2 a4 a5
  rw [u32_small _ (by omega)] at a2
  have hfix1 : st1.mem.fixed = m.fixed := by
    rw [a1]
    exact (call_fixed hcall).trans hI.fixed
  have hresq : res.mem.Source.queue = m.Source.queue :=
    congrArg Fixed.queue ((call_fixed hcall).trans hI.fixed)
  have hresty : res.mem.Source.lSourceType = m.Source.lSourceType :=
    congrArg Fixed.lSourceType ((call_fixed hcall).trans hI.fixed)
  obtain ⟨it, hit, hlt⟩ := hI.item
  refine ⟨⟨hfix1, ?_, by omega, ?_, ?_, ?_⟩, ?_⟩
  · rw [FRACTIONONE_eq]
    rcases a5 with ⟨-, a5⟩ | ⟨-, a5, -⟩
    · rw [a5]
      exact call_frac_lt hfr hcall
    · omega
  · have := advanceLoop_item _ _ _ _ it hadv hit (by
      show it < res.mem.Source.queue.length
      rw [hresq]
      exact hlt)
    simp only at this
    rw [hresq] at this
    exact this
  · intro hL
    rw [a4] at hL
    exact hI.loop (assemble_looping hasm hL)
  · intro hs b hq
    obtain ⟨b2, hq2, hsz, hLE, -, hlp⟩ := hP.static hs
    norm_num at hsz
    have hbb : b2 = b := by
      rw [hq] at hq2
      simp only [List.cons.injEq, Option.some.injEq, and_true] at hq2
      exact hq2.symm
    subst hbb
    have hit0 : it = 0 := by
      rw [hq] at hlt
      simp at hlt
      exact hlt
    subst hit0
    refine advanceLoop_static_pos _ _ _ _ b2 hFS ?_ ?_ ?_ hLE hsz ?_ hadv
    · show res.mem.Source.queue = [some b2]
      rw [hresq]
      exact hq
    · exact hit
    · show res.mem.Source.lSourceType = .AL_STATIC
      rw [hresty]
      exact hs
    · intro hL
      exact hlp (hI.loop (assemble_looping hasm hL))
  · intro hlt1
    have ho : st.OutPos < std := by omega
    have := iter_progress hS (by omega) hfr hP.step_pos hsl ho hn
    omega

/-- The `do ... while` loop of `MixSource` returns on a playable source: each iteration
that does not end it moves `OutPos` towards `SamplesToDo`. -/
theorem feedLoop_returns {E : Env α F} {m : Mem α F} {std : Nat} {g : MixerFunc}
    {pre post : Nat} (hP : Playable E m std g pre post) :
    ∀ (k : Nat) (st : FeedSt α F), FeedInv m std st → std - st.OutPos ≤ k →
      ∃ N M st1, ∀ inner, N ≤ inner → ∀ fuel, M ≤ fuel →
        feedLoop E inner std m.Source.Params.Step m.Source.Resampler
          (u32 (m.Source.NumChannels * m.Source.SampleSize)) fuel st = .ok st1 := by
  intro k
  induction k with
  | zero =>
    intro st hI hk
    obtain ⟨N1, st1, h1⟩ := feedIter_returns hP hI
    obtain ⟨-, hprog⟩ := feedIter_keeps hP hI (h1 N1 (Nat.le_refl _))
    refine ⟨N1, 1, st1, fun inner hin fuel hf => ?_⟩
    obtain ⟨j, rfl⟩ : ∃ j, fuel = j + 1 := ⟨fuel - 1, by omega⟩
    unfold feedLoop
    rw [h1 inner hin]
    simp only
    rw [if_neg (by
      rintro ⟨-, hlt⟩
      have := hprog hlt
      omega)]
  | succ k ih =>
    intro st hI hk
    obtain ⟨N1, st1, h1⟩ := feedIter_returns hP hI
    obtain ⟨hI1, hprog⟩ := feedIter_keeps hP hI (h1 N1 (Nat.le_refl _))
    by_cases hc : st1.State = .AL_PLAYING ∧ st1.OutPos < std
    · obtain ⟨N2, M2, st2, h2⟩ := ih st1 hI1 (by
        have := hprog hc.2
        omega)
      refine ⟨max N1 N2, M2 + 1, st2, fun inner hin fuel hf => ?_⟩
      obtain ⟨j, rfl⟩ : ∃ j, fuel = j + 1 := ⟨fuel - 1, by omega⟩
      unfold feedLoop
      rw [h1 inner (le_trans (le_max_left _ _) hin)]
      simp only
      rw [if_pos hc]
      exact h2 inner (le_trans (le_max_right _ _) hin) j (by omega)
    · refine ⟨N1, 1, st1, fun inner hin fuel hf => ?_⟩
      obtain ⟨j, rfl⟩ : ∃ j, fuel = j + 1 := ⟨fuel - 1, by omega⟩
      unfold feedLoop
      rw [h1 inner hin]
      simp only
      rw [if_neg hc]

/-- A returning loop makes `MixSource` return, with the locals written back. -/
theorem MixSource_loop_ok (E : Env α F) (m : Mem α F) {fuel std : Nat} {item : Option Nat}
    {st : FeedSt α F}
    (hw : walkQueue m.Source.queue m.Source.BuffersPlayed (queueHead m.Source.queue) = .ok item)
    (h : feedLoop E fuel std m.Source.Params.Step m.Source.Resampler
      (u32 (m.Source.NumChannels * m.Source.SampleSize)) fuel
      { mem := m
        State := m.Source.state
        BuffersPlayed := m.Source.BuffersPlayed
        DataPosInt := m.Source.position
        DataPosFrac := m.Source.position_fraction
        Looping := m.Source.bLooping
        BufferListItem := item
        OutPos := 0
        calls := [] } = .ok st) :
    MixSource E fuel m std =
      .ok ({ st.mem with Source := { st.mem.Source with
              state := st.State
              BuffersPlayed := st.BuffersPlayed
              position := st.DataPosInt
              position_fraction := st.DataPosFrac
              HrtfOffset := u32 (st.mem.Source.HrtfOffset + st.OutPos)
              HrtfCounter := if st.State = .AL_PLAYING then
                  usub (max st.mem.Source.HrtfCounter st.OutPos) st.OutPos
                else 0
              HrtfMoving := if st.State = .AL_PLAYING then true else false } },
           st.calls) := by
  unfold MixSource
  simp only
  rw [hw]
  simp only
  rw [h]

end IterMix

/-! ## C5: a mix slice completes -/

section C5

variable {α F : Type} [Add α] [Sub α] [Mul α] [Div α] [IntCast α]

/-- C5, as the code has it.  `MixSource` returns, given enough fuel for its loops (the
window-assembly loops, the loop under "Handle looping sources" and the outer `do ... while`
loop), for every source and slice that is `Playable`: besides a set mixer and a queue that
is not empty, a looping source needs a queue item with a buffer of at least one frame (a
loop region that is not empty, if it is static), the step must be at least 1 and fit the
stack buffer, and the 32-bit and 64-bit sums of the request must not overflow. -/
theorem C5_mix_slice_completes (E : Env α F) (m : Mem α F) (SamplesToDo : Nat) (g : MixerFunc)
    (pre post : Nat) (hP : Playable E m SamplesToDo g pre post) :
    ∃ N r, ∀ fuel, N ≤ fuel → MixSource E fuel m SamplesToDo = .ok r := by
  have hw := walkQueue_head hP.played
  obtain ⟨N, M, st1, h⟩ := feedLoop_returns hP SamplesToDo _ (feedInv_init hP)
    (Nat.le_of_eq (Nat.sub_zero SamplesToDo))
  exact ⟨max N M, _, fun fuel hf => MixSource_loop_ok E m hw
    (h fuel (le_trans (le_max_left _ _) hf) fuel (le_trans (le_max_right _ _) hf))⟩

end C5

/-- C5 at a concrete source: the looping queue `exStream`, whose second item has no buffer,
is playable, and a slice of 1000 samples completes. -/
theorem C5_mix_slice_completes_witness :
    Playable (exEnv 16384) exStream 1000 .Mix_ALbyte_cubic8 1 2 ∧
    ∃ N r, ∀ fuel, N ≤ fuel → MixSource (exEnv 16384) fuel exStream 1000 = .ok r :=
  have hP : Playable (exEnv 16384) exStream 1000 .Mix_ALbyte_cubic8 1 2 :=
    { do_mix := rfl
      selected := ⟨exBuffer [], Or.inl rfl⟩
      pre_pad := rfl
      post_pad := rfl
      sample_size := rfl
      channels := by decide
      stack := by decide
      step_pos := by decide
      step_le := by decide
      frac := by decide
      todo := by decide
      played := by decide
      static := fun h => absurd h (by decide)
      stream := fun _ _ => ⟨0, by decide, by decide⟩ }
  ⟨hP, C5_mix_slice_completes (exEnv 16384) exStream 1000 .Mix_ALbyte_cubic8 1 2 hP⟩

section Errors

variable {α F : Type} [Add α] [Sub α] [Mul α] [Div α] [IntCast α]

/-- A fault of the window assembly is a fault of the iteration. -/
theorem feedIter_asm_error (E : Env α F) (st : FeedSt α F) {fuel std inc : Nat}
    {r : Resampler} {FS : Nat} {pre post B0 : Nat} {e : Fault}
    (hpre : ResamplerPrePadding r = some pre) (hpost : ResamplerPadding r = some post)
    (hreq : requestSize E.STACK_DATA_SIZE std st.OutPos inc st.DataPosFrac post pre FS = .ok B0)
    (hasm : assemble fuel st.mem.Source st.Looping st.BufferListItem st.DataPosInt pre FS B0
      = .error e) :
    feedIter E fuel std inc r FS st = .error e := by
  unfold feedIter
  rw [hpre, hpost]
  simp only
  rw [hreq]
  simp only
  rw [hasm]

/-- A fault of the first iteration is a fault of the loop. -/
theorem feedLoop_iter_error {E : Env α F} {inner std inc : Nat} {r : Resampler} {FS : Nat}
    {st : FeedSt α F} {fuel : Nat} {e : Fault}
    (h : feedIter E inner std inc r FS st = .error e) :
    feedLoop E inner std inc r FS (fuel + 1) st = .error e := by
  unfold feedLoop
  rw [h]

/-- A fault of the loop is a fault of `MixSource`. -/
theorem MixSource_loop_error (E : Env α F) (m : Mem α F) {fuel : Nat} {std : Nat}
    {item : Option Nat} {e : Fault}
    (hw : walkQueue m.Source.queue m.Source.BuffersPlayed (queueHead m.Source.queue) = .ok item)
    (h : feedLoop E fuel std m.Source.Params.Step m.Source.Resampler
      (u32 (m.Source.NumChannels * m.Source.SampleSize)) fuel
      { mem := m
        State := m.Source.state
        BuffersPlayed := m.Source.BuffersPlayed
        DataPosInt := m.Source.position
        DataPosFrac := m.Source.position_fraction
        Looping := m.Source.bLooping
        BufferListItem := item
        OutPos := 0
        calls := [] } = .error e) :
    MixSource E fuel m std = .error e := by
  unfold MixSource
  simp only
  rw [hw]
  simp only
  rw [h]

end Errors

/-- The forward crawl over a looping queue whose only item has no buffer never ends. -/
theorem fwdLoop_hangs :
    ∀ (fuel pos : Nat) (S : List Nat) (B : Nat), 0 < B →
      fwdLoop [none] true fuel (some 0) pos S B = .error .outOfFuel := by
  intro fuel
  induction fuel with
  | zero =>
    intro pos S B _
    rfl
  | succ fuel ih =>
    intro pos S B hB
    rw [fwdLoop_step [none] true fuel 0 pos S B hB]
    exact ih _ _ _ hB

/-- C5 fails for a source that meets the stated preconditions: `exHang` is playing, its
queue is not empty (one item, without a buffer) and its mixer is set, but it loops, so the
forward crawl of the window assembly goes round the queue for ever without copying a byte:
`MixSource` does not return, whatever the fuel. -/
theorem C5_counterexample :
    exHang.Source.state = .AL_PLAYING ∧ exHang.Source.queue.length = 1 ∧
    exHang.Source.Params.DoMix = some .Mix_ALbyte_point8 ∧
    ∀ fuel, MixSource (exEnv 16384) fuel exHang 1 = .error .outOfFuel := by
  refine ⟨rfl, rfl, rfl, fun fuel => ?_⟩
  cases fuel with
  | zero => rfl
  | succ k =>
    have hasm : assemble (k + 1) exHang.Source true (some 0) 0 0 (u32 (1 * 1)) 2
        = .error .outOfFuel := by
      unfold assemble
      rw [if_neg (by decide)]
      have : assembleStream (k + 1) exHang.Source.queue true (some 0) 0 0 (u32 (1 * 1)) 2
          = .error .outOfFuel := by
        unfold assembleStream
        rw [if_pos (Nat.le_refl _)]
        exact fwdLoop_hangs (k + 1) _ [] 2 (by decide)
      rw [this]
    exact MixSource_loop_error (exEnv 16384) exHang (by rfl)
      (feedLoop_iter_error
        (feedIter_asm_error (exEnv 16384) (exFeed exHang) (r := .POINT_RESAMPLER)
          rfl rfl (by rfl) hasm))

/-! ## The window of a looping static source -/

theorem loopIndex_lt {LS LE : Nat} (h : LS < LE) (q : Nat) : loopIndex LS LE q < LE := by
  unfold loopIndex
  split
  · assumption
  · have := Nat.mod_lt (q - LS) (show 0 < LE - LS by omega)
    omega

theorem loopIndex_of_lt {LS LE q : Nat} (h : q < LE) : loopIndex LS LE q = q := by
  unfold loopIndex
  rw [if_pos h]

theorem loopIndex_of_ge {LS LE q : Nat} (h : LE ≤ q) :
    loopIndex LS LE q = LS + (q - LS) % (LE - LS) := by
  unfold loopIndex
  rw [if_neg (by omega)]

/-- Looping a looped position on is looping the sum. -/
theorem loopIndex_add {LS LE : Nat} (h : LS < LE) (x k : Nat) :
    loopIndex LS LE (loopIndex LS LE x + k) = loopIndex LS LE (x + k) := by
  by_cases hx : x < LE
  · rw [loopIndex_of_lt hx]
  · have hr := Nat.mod_lt (x - LS) (show 0 < LE - LS by omega)
    have e3 : x + k - LS = (x - LS) + k := by omega
    have e2 : loopIndex LS LE (x + k) = LS + ((x - LS) % (LE - LS) + k) % (LE - LS) := by
      rw [loopIndex_of_ge (by omega), Nat.mod_add_mod, e3]
    have e1 : loopIndex LS LE x = LS + (x - LS) % (LE - LS) := loopIndex_of_ge (by omega)
    rw [e1, e2]
    generalize (x - LS) % (LE - LS) = r at hr
    by_cases h2 : LS + r + k < LE
    · rw [loopIndex_of_lt h2, Nat.mod_eq_of_lt (by omega)]
      omega
    · have e4 : LS + r + k - LS = r + k := by omega
      rw [loopIndex_of_ge (by omega), e4]

theorem mul_add_mod_mul {a n FS j : Nat} (hn : 0 < n) (hj : j < FS) :
    (a * FS + j) % (n * FS) = (a % n) * FS + j := by
  have hr := Nat.mod_lt a hn
  have h1 : (a % n + 1) * FS ≤ n * FS := Nat.mul_le_mul_right FS (by omega)
  rw [Nat.add_mul, Nat.one_mul] at h1
  have e : a * FS + j = (a % n) * FS + j + (n * FS) * (a / n) := by
    have := Nat.div_add_mod a n
    calc a * FS + j = (n * (a / n) + a % n) * FS + j := by rw [this]
      _ = (a % n) * FS + j + (n * FS) * (a / n) := by ring
  rw [e, Nat.add_mul_mod_self_left, Nat.mod_eq_of_lt (by omega)]

/-- The looping of bytes is the looping of frames. -/
theorem loopIndex_scale {LS LE FS : Nat} (h : LS < LE) (q j : Nat) (hj : j < FS) :
    loopIndex (LS * FS) (LE * FS) (q * FS + j) = loopIndex LS LE q * FS + j := by
  have hSE : LS * FS ≤ LE * FS := Nat.mul_le_mul_right FS (by omega)
  by_cases hq : q < LE
  · have : (q + 1) * FS ≤ LE * FS := Nat.mul_le_mul_right FS hq
    rw [Nat.add_mul, Nat.one_mul] at this
    rw [loopIndex_of_lt (by omega), loopIndex_of_lt hq]
  · have : LE * FS ≤ q * FS := Nat.mul_le_mul_right FS (by omega)
    rw [loopIndex_of_ge (by omega), loopIndex_of_ge (by omega)]
    have e1 : q * FS + j - LS * FS = (q - LS) * FS + j := by
      rw [Nat.sub_mul]
      omega
    have e2 : LE * FS - LS * FS = (LE - LS) * FS := (Nat.sub_mul _ _ _).symm
    rw [e1, e2, mul_add_mod_mul (by omega) hj]
    ring

theorem memcpy_get {S Data : List Nat} {pos n : Nat} (t : Nat) :
    (S ++ (Data.drop pos).take n)[t]? =
      if t < S.length then S[t]?
      else if t - S.length < n then Data[pos + (t - S.length)]? else none := by
  by_cases h1 : t < S.length
  · rw [if_pos h1, List.getElem?_append_left h1]
  · rw [if_neg h1, List.getElem?_append_right (by omega)]
    by_cases h2 : t - S.length < n
    · rw [if_pos h2, List.getElem?_take_of_lt h2, List.getElem?_drop]
    · rw [if_neg h2]
      apply List.getElem?_eq_none
      simp
      omega

/-- The tiling loop keeps what is in the window and appends the loop region over and over:
byte `t` of what it appends is byte `t mod D` of the region. -/
theorem tileLoop_get {Data : List Nat} {start : Nat} :
    ∀ (fuel : Nat) (S : List Nat) (B D : Nat) (S1 : List Nat),
      tileLoop Data start fuel S B D = .ok S1 → 0 < D → start + D ≤ Data.length →
      (∀ t, t < S.length → S1[t]? = S[t]?) ∧
      (∀ t, t < B → S1[S.length + t]? = Data[start + t % D]?) := by
  intro fuel
  induction fuel with
  | zero =>
    intro S B D S1 h
    simp [tileLoop] at h
  | succ fuel ih =>
    intro S B D S1 h hD hlen
    unfold tileLoop at h
    by_cases hB : 0 < B
    · rw [if_pos hB] at h
      have hm1 : min B D ≤ D := min_le_right _ _
      have hm2 : min B D ≤ B := min_le_left _ _
      have hm3 : 0 < min B D := lt_min hB hD
      rw [memcpy_ok _ _ _ _ (by omega)] at h
      simp only at h
      obtain ⟨k1, k2⟩ := ih _ _ _ _ h hm3 (by omega)
      have hlen1 : (S ++ (Data.drop start).take (min B D)).length = S.length + min B D := by
        rw [List.length_append, List.length_take, List.length_drop]
        omega
      rw [hlen1] at k1 k2
      constructor
      · intro t ht
        rw [k1 t (by omega), memcpy_get, if_pos ht]
      · intro t ht
        by_cases htm : t < min B D
        · rw [k1 (S.length + t) (by omega), memcpy_get, if_neg (by omega),
            if_pos (by omega), Nat.mod_eq_of_lt (by omega)]
          congr 2
          omega
        · have hmD : min B D = D := by
            rcases Nat.le_total B D with h1 | h1
            · rw [Nat.min_eq_left h1] at htm
              omega
            · exact Nat.min_eq_right h1
          have := k2 (t - min B D) (by omega)
          rw [hmD] at this
          rw [Nat.mod_eq_sub_mod (by omega), ← this]
          congr 1
          omega
    · rw [if_neg hB] at h
      simp only [Except.ok.injEq] at h
      subst h
      exact ⟨fun t _ => rfl, fun t ht => by omega⟩

theorem wrapPre_zero {len fuel pos r : Nat} (h : wrapPre len 0 fuel pos = .ok r) : r = pos := by
  cases fuel with
  | zero => simp [wrapPre] at h
  | succ k =>
    unfold wrapPre at h
    rw [if_neg (by omega)] at h
    simp only [Except.ok.injEq] at h
    exact h.symm

/-- The window of a looping static source without pre-padding: byte `t` is the byte of the
buffer that the position `p * FS + t` stands for. -/
theorem assembleStatic_loop_get {fuel : Nat} {b : ALbuffer} {p FS B : Nat} {S : List Nat}
    {L : Bool} (h : assembleStatic fuel b true p 0 FS B = .ok (S, L)) (hFS : 0 < FS)
    (hlt : b.LoopStart < b.LoopEnd) (hp : p < b.LoopEnd) (hLE : b.LoopEnd * FS ≤ b.size)
    (hsz : b.size < 2147483648) :
    L = true ∧ ∀ t, t < B →
      S[t]? = b.data[loopIndex (b.LoopStart * FS) (b.LoopEnd * FS) (p * FS + t)]? := by
  have hsize : b.size = b.data.length := rfl
  have hSE : b.LoopStart * FS ≤ b.LoopEnd * FS := Nat.mul_le_mul_right FS (by omega)
  have hpE : (p + 1) * FS ≤ b.LoopEnd * FS := Nat.mul_le_mul_right FS hp
  rw [Nat.add_mul, Nat.one_mul] at hpE
  have hLEFS : b.LoopEnd ≤ b.LoopEnd * FS := Nat.le_mul_of_pos_right _ hFS
  have hD : (b.LoopEnd - b.LoopStart) * FS = b.LoopEnd * FS - b.LoopStart * FS :=
    Nat.sub_mul _ _ _
  have hDpos : 0 < (b.LoopEnd - b.LoopStart) * FS := Nat.mul_pos (by omega) hFS
  unfold assembleStatic at h
  rw [if_neg (by
    rintro (h1 | h1)
    · exact Bool.noConfusion h1
    · omega)] at h
  simp only [Nat.zero_le, not_true_eq_false, and_false, if_false, if_true, Nat.sub_zero] at h
  split at h
  · simp at h
  · next pos hpos =>
    have hposv : pos = p * FS := by
      by_cases h1 : b.LoopStart ≤ p
      · rw [if_pos h1] at hpos
        split at hpos
        · simp at hpos
        · next q hq =>
          have hqv := wrapPre_zero hq
          subst hqv
          simp only [Except.ok.injEq] at hpos
          rw [← hpos, usub_of_le (Nat.zero_le _) (by omega), Nat.sub_zero,
            Nat.sub_add_cancel h1, u32_small p (by omega), u32_small _ (by omega)]
      · rw [if_neg h1] at hpos
        simp only [Except.ok.injEq] at hpos
        rw [← hpos, u32_small _ (by omega)]
    subst hposv
    rw [u32_small (b.LoopEnd * FS) (by omega), usub_of_le (by omega) (by omega),
      u32_small (b.LoopStart * FS) (by omega), usub_of_le (by omega) (by omega),
      u32_small ((b.LoopEnd - b.LoopStart) * FS) (by omega)] at h
    have hDS : min B (b.LoopEnd * FS - p * FS) ≤ b.LoopEnd * FS - p * FS := min_le_right _ _
    have hDS2 : min B (b.LoopEnd * FS - p * FS) ≤ B := min_le_left _ _
    rw [memcpy_ok _ _ _ _ (by omega)] at h
    simp only at h
    split at h
    · simp at h
    · next S2 htile =>
      simp only [Except.ok.injEq, Prod.mk.injEq] at h
      obtain ⟨hS, hL⟩ := h
      subst hS
      refine ⟨hL.symm, fun t ht => ?_⟩
      obtain ⟨k1, k2⟩ := tileLoop_get _ _ _ _ _ htile hDpos (by omega)
      have hlen1 : (([] : List Nat) ++ (b.data.drop (p * FS)).take
          (min B (b.LoopEnd * FS - p * FS))).length = min B (b.LoopEnd * FS - p * FS) := by
        rw [List.length_append, List.length_take, List.length_drop]
        simp only [List.length_nil]
        omega
      rw [hlen1] at k1 k2
      by_cases htm : t < min B (b.LoopEnd * FS - p * FS)
      · rw [k1 t htm, memcpy_get, if_neg (by simp), if_pos (by simpa using htm),
          loopIndex_of_lt (by omega)]
        simp
      · have hmD : min B (b.LoopEnd * FS - p * FS) = b.LoopEnd * FS - p * FS := by
          rcases Nat.le_total B (b.LoopEnd * FS - p * FS) with h1 | h1
          · rw [Nat.min_eq_left h1] at htm
            omega
          · exact Nat.min_eq_right h1
        rw [hmD] at k2 htm
        have := k2 (t - (b.LoopEnd * FS - p * FS)) (by omega)
        rw [Nat.add_sub_cancel' (by omega)] at this
        rw [this, loopIndex_of_ge (by omega)]
        have e5 : p * FS + t - b.LoopStart * FS
            = (t - (b.LoopEnd * FS - p * FS)) + (b.LoopEnd * FS - b.LoopStart * FS) := by omega
        rw [e5, Nat.add_mod_right, hD]

section Loop

variable {α F : Type} [Add α] [Sub α] [Mul α] [Div α] [IntCast α]

/-- One iteration on a looping static source at unit step with the point resampler: the
samples it mixes are served from the looped frames, and the position it leaves is the looped
sum. -/
theorem feedIter_loop {E : Env α F} {m : Mem α F} {std : Nat} {g : MixerFunc}
    (hP : Playable E m std g 0 0) {b : ALbuffer}
    (hty : m.Source.lSourceType = .AL_STATIC) (hq : m.Source.queue = [some b])
    (hstep : m.Source.Params.Step = FRACTIONONE)
    {st st1 : FeedSt α F} (hI : FeedInv m std st)
    (hL : LoopInv b (m.Source.NumChannels * m.Source.SampleSize) m.Source.position st)
    {fuel : Nat}
    (h : feedIter E fuel std m.Source.Params.Step m.Source.Resampler
      (u32 (m.Source.NumChannels * m.Source.SampleSize)) st = .ok st1) :
    LoopInv b (m.Source.NumChannels * m.Source.SampleSize) m.Source.position st1 := by
  obtain ⟨hFS, hFSle, hpads, hS⟩ := hP.frame
  obtain ⟨b2, hq2, hsz, hLE, -, hlp⟩ := hP.static hty
  have hbb : b2 = b := by
    rw [hq] at hq2
    simp only [List.cons.injEq, Option.some.injEq, and_true] at hq2
    exact hq2.symm
  subst hbb
  norm_num at hsz
  have hlt : b2.LoopStart < b2.LoopEnd := hlp (hI.loop hL.looping)
  have hout := hI.out
  have hstd := hP.todo
  norm_num at hstd
  rw [FRACTIONONE_eq] at hstep
  have hpl := loopIndex_lt hlt (m.Source.position + st.OutPos)
  have hLEFS : b2.LoopEnd ≤ b2.LoopEnd * (m.Source.NumChannels * m.Source.SampleSize) :=
    Nat.le_mul_of_pos_right _ hFS
  have hfix := hI.fixed
  have hqq : st.mem.Source.queue = m.Source.queue := congrArg Fixed.queue hfix
  have htyE : st.mem.Source.lSourceType = m.Source.lSourceType :=
    congrArg Fixed.lSourceType hfix
  have hncE : st.mem.Source.NumChannels = m.Source.NumChannels :=
    congrArg Fixed.NumChannels hfix
  have hstE : st.mem.Source.Params.Step = m.Source.Params.Step := congrArg Fixed.Step hfix
  rw [u32_small (m.Source.NumChannels * m.Source.SampleSize) (by omega)] at h
  obtain ⟨pre1, post1, B0, S, L, n, g1, res, hpre, hpost, hreq, hasm, hcnt, hdo, hcall, hadv⟩ :=
    feedIter_inv h
  rw [hP.pre_pad] at hpre
  rw [hP.post_pad] at hpost
  simp only [Option.some.injEq] at hpre hpost
  subst hpre
  subst hpost
  rw [hstep, hL.frac] at hreq hcnt
  obtain ⟨r1, r2, r3⟩ := requestSize_spec (by omega) hstd hout (by omega) (by omega) hreq
  have hlen : S.length = B0 := assemble_length (Or.inl (by rw [htyE]; exact hty)) hasm
  have b1 := iter_frames std st.OutPos 0
    (show 0 + 0 < E.STACK_DATA_SIZE / (m.Source.NumChannels * m.Source.SampleSize) by omega)
    (show 1 ≤ 16384 by omega)
  have hn := mixCount_spec (hlen.trans r3) r1 (by omega) (by omega) (by omega) b1 (by omega) hcnt
  obtain ⟨-, c2, c3, -⟩ := iter_bounds r1 hS
    (show 0 + 0 < E.STACK_DATA_SIZE / (m.Source.NumChannels * m.Source.SampleSize) by omega)
    (show 1 ≤ 16384 by omega) (show 0 < 16384 by omega) hn
  have hnle : n ≤ usub std st.OutPos := mixCount_le hcnt
  rw [usub_of_le hout (by omega)] at hnle
  generalize hFr : min (E.STACK_DATA_SIZE / (m.Source.NumChannels * m.Source.SampleSize))
    (((std - st.OutPos + 1) * 16384 + 0 + 16383) / 16384 + 0 + 0) = Fr at r3 c2 c3
  have hnFr : n + 1 ≤ Fr := by omega
  have hnB : (n + 1) * (m.Source.NumChannels * m.Source.SampleSize) ≤ B0 := by
    rw [r3]
    exact Nat.mul_le_mul_right _ hnFr
  -- the window
  unfold assemble at hasm
  rw [htyE, if_pos hty, hqq, hq] at hasm
  simp only at hasm
  rw [hL.looping, hL.pos] at hasm
  obtain ⟨hLt, hbytes⟩ := assembleStatic_loop_get hasm hFS hlt hpl hLE hsz
  -- the call
  have hit := phaseStep_iterate 16384 0 (by omega) n (fun k _ => by omega) (by omega)
  have hph : res.DataPosInt = loopIndex b2.LoopStart b2.LoopEnd (m.Source.position + st.OutPos) + n ∧
      res.DataPosFrac = 0 := by
    rcases call_phase hcall with ⟨h0, -⟩ | ⟨-, h1, h2⟩
    · have := hP.channels
      rw [hncE] at h0
      omega
    · rw [hstE, hstep, hL.frac, hit] at h1 h2
      simp only at h1 h2
      rw [hL.pos, u32_small _ (by omega)] at h1
      constructor
      · rw [h1]
        omega
      · rw [h2]
        omega
  -- the advance
  obtain ⟨it, hitem, hitlt⟩ := hI.item
  have hit0 : it = 0 := by
    rw [hq] at hitlt
    simp at hitlt
    exact hitlt
  subst hit0
  have hresfix := (call_fixed hcall).trans hfix
  have hresq : res.mem.Source.queue = m.Source.queue := congrArg Fixed.queue hresfix
  have hresty : res.mem.Source.lSourceType = m.Source.lSourceType :=
    congrArg Fixed.lSourceType hresfix
  obtain ⟨st2, hst2, hadv⟩ : ∃ st2 : FeedSt α F, st2 = { st with
      mem := res.mem
      DataPosInt := res.DataPosInt
      DataPosFrac := res.DataPosFrac
      Looping := L
      OutPos := u32 (st.OutPos + n)
      calls := st.calls ++ [{ SrcData := S
                              base := u32 (0 * (m.Source.NumChannels * m.Source.SampleSize))
                              DataPosInt := st.DataPosInt
                              DataPosFrac := st.DataPosFrac
                              OutPos := st.OutPos
                              BufferSize := n }] } ∧
      advanceLoop (m.Source.NumChannels * m.Source.SampleSize) fuel st2 = .ok st1 :=
    ⟨_, rfl, hadv⟩
  have f1 : st2.BufferListItem = some 0 := by rw [hst2]; exact hitem
  have f2 : itemBuffer st2.mem.Source.queue 0 = some b2 := by
    rw [hst2]
    show itemBuffer res.mem.Source.queue 0 = some b2
    rw [hresq, hq]
    rfl
  have f3 : st2.Looping = true ∧ st2.mem.Source.lSourceType = .AL_STATIC := by
    rw [hst2]
    exact ⟨hLt, by show res.mem.Source.lSourceType = .AL_STATIC; rw [hresty]; exact hty⟩
  have f4 : st2.DataPosInt
      = loopIndex b2.LoopStart b2.LoopEnd (m.Source.position + st.OutPos) + n := by
    rw [hst2]
    exact hph.1
  have hfin : st1.State = st2.State ∧ st1.Looping = st2.Looping ∧
      st1.DataPosFrac = st2.DataPosFrac ∧ st1.OutPos = st2.OutPos ∧ st1.calls = st2.calls ∧
      st1.DataPosInt = loopIndex b2.LoopStart b2.LoopEnd st2.DataPosInt := by
    cases fuel with
    | zero => simp [advanceLoop] at hadv
    | succ k =>
      rw [advanceLoop_static _ k st2 0 b2 hFS f1 f2 f3 hlt (by omega)] at hadv
      by_cases hlt2 : st2.DataPosInt < b2.LoopEnd
      · rw [if_pos hlt2] at hadv
        simp only [Except.ok.injEq] at hadv
        subst hadv
        exact ⟨rfl, rfl, rfl, rfl, rfl, (loopIndex_of_lt hlt2).symm⟩
      · rw [if_neg hlt2] at hadv
        simp only [Except.ok.injEq] at hadv
        subst hadv
        refine ⟨rfl, rfl, rfl, rfl, rfl, ?_⟩
        simp only
        rw [loopIndex_of_ge (by omega), usub_of_le (by omega) (by omega), Nat.add_comm]
  obtain ⟨g1s, g2s, g3s, g4s, g5s, g6s⟩ := hfin
  have hO : st1.OutPos = st.OutPos + n := by
    rw [g4s, hst2]
    exact u32_small _ (by omega)
  have hcalls : st1.calls = st.calls ++
      [({ SrcData := S, base := u32 (0 * (m.Source.NumChannels * m.Source.SampleSize)),
          DataPosInt := st.DataPosInt, DataPosFrac := st.DataPosFrac, OutPos := st.OutPos,
          BufferSize := n } : MixCall)] := by
    rw [g5s, hst2]
  refine ⟨?_, ?_, ?_, ?_, ?_⟩
  · rw [g1s, hst2]
    exact hL.playing
  · rw [g2s, hst2]
    exact hLt
  · rw [g3s, hst2]
    exact hph.2
  · rw [g6s, f4, hO, loopIndex_add hlt, Nat.add_assoc]
  · intro k hk
    rw [hO] at hk
    by_cases hk2 : k < st.OutPos
    · obtain ⟨c, hc1, hc2⟩ := hL.served k hk2
      exact ⟨c, by rw [hcalls]; exact List.mem_append_left _ hc1, hc2⟩
    · refine ⟨_, by rw [hcalls]; exact List.mem_append_right _ (List.mem_singleton.2 rfl), ?_⟩
      have hkn : (k - st.OutPos + 1) * (m.Source.NumChannels * m.Source.SampleSize)
          ≤ (n + 1) * (m.Source.NumChannels * m.Source.SampleSize) :=
        Nat.mul_le_mul_right _ (by omega)
      refine ⟨by simp only; omega, by simp only; omega, by simp [u32], hL.frac,
        by simp only; omega, by simp only; omega, ?_⟩
      intro j hj
      simp only
      rw [Nat.add_mul, Nat.one_mul] at hkn
      rw [hbytes _ (by omega)]
      have e1 : loopIndex b2.LoopStart b2.LoopEnd (m.Source.position + st.OutPos)
            * (m.Source.NumChannels * m.Source.SampleSize)
            + ((k - st.OutPos) * (m.Source.NumChannels * m.Source.SampleSize) + j)
          = (loopIndex b2.LoopStart b2.LoopEnd (m.Source.position + st.OutPos)
              + (k - st.OutPos)) * (m.Source.NumChannels * m.Source.SampleSize) + j := by
        ring
      have e2 : m.Source.position + st.OutPos + (k - st.OutPos) = m.Source.position + k := by
        omega
      rw [e1, loopIndex_scale hlt _ _ hj, loopIndex_add hlt, e2]

end Loop

section Served

variable {α F : Type} [Add α] [Sub α] [Mul α] [Div α] [IntCast α]

/-- Reading an element of a frame that two windows share gives the same bytes. -/
theorem read_congr_frame {W D : List Nat} {sz nc k q i : Nat}
    (hD : (q + 1) * (nc * sz) ≤ D.length) (hi : i < nc)
    (hk : k * nc < 4294967296) (hq : q * nc < 4294967296)
    (h : ∀ j, j < nc * sz → W[k * (nc * sz) + j]? = D[q * (nc * sz) + j]?) :
    elemAt { bytes := W, off := 0 } sz nc k i 0 = elemAt { bytes := D, off := 0 } sz nc q i 0 := by
  have hisz : (i + 1) * sz ≤ nc * sz := Nat.mul_le_mul_right sz hi
  rw [Nat.add_mul, Nat.one_mul] at hisz
  rw [Nat.add_mul, Nat.one_mul] at hD
  by_cases hsz : sz = 0
  · subst hsz
    simp [elemAt, SrcPtr.read]
  have hszpos : 0 < sz := Nat.pos_of_ne_zero hsz
  have hW : k * (nc * sz) + nc * sz ≤ W.length := by
    by_contra hc
    have h1 := h (nc * sz - 1) (by omega)
    have h2 : D[q * (nc * sz) + (nc * sz - 1)]? ≠ none := by
      intro hn
      have := List.getElem?_eq_none_iff.1 hn
      omega
    have h3 : W[k * (nc * sz) + (nc * sz - 1)]? = none :=
      List.getElem?_eq_none_iff.2 (by omega)
    rw [h3] at h1
    exact h2 h1.symm
  unfold elemAt SrcPtr.read
  rw [u32_small _ hk, u32_small _ hq]
  have eW : ((0 : Int) + (((k * nc : Nat) : Int) + ((i : Nat) : Int) + 0) * ((sz : Nat) : Int))
      = (((k * (nc * sz) + i * sz : Nat)) : Int) := by
    push_cast
    ring
  have eD : ((0 : Int) + (((q * nc : Nat) : Int) + ((i : Nat) : Int) + 0) * ((sz : Nat) : Int))
      = (((q * (nc * sz) + i * sz : Nat)) : Int) := by
    push_cast
    ring
  simp only [eW, eD, Int.toNat_ofNat]
  rw [if_pos ⟨Int.ofNat_nonneg _, by omega⟩, if_pos ⟨Int.ofNat_nonneg _, by omega⟩]
  congr 1
  apply List.ext_getElem?
  intro t
  by_cases ht : t < sz
  · rw [List.getElem?_take_of_lt ht, List.getElem?_take_of_lt ht, List.getElem?_drop,
      List.getElem?_drop]
    have := h (i * sz + t) (by omega)
    rw [← Nat.add_assoc, ← Nat.add_assoc] at this
    exact this
  · rw [List.getElem?_eq_none_iff.2 (by simp; omega), List.getElem?_eq_none_iff.2 (by simp; omega)]

/-- A point kernel gives the same value on two accessors whose element 0 is the same. -/
theorem point_run_congr (E : Env α F) {smp : SamplerId} (hpre : smp.pre = 0)
    (hpost : smp.post = 0) {v1 v2 : Int → Except Fault (List Nat)} (h : v1 0 = v2 0)
    (s f : Int) : smp.run E v1 s f = smp.run E v2 s f := by
  cases smp <;> simp [SamplerId.pre, SamplerId.post] at hpre hpost <;>
    simp [SamplerId.run, point32, point16, point8, h]

end Served

/-! ## C10: a looping static source at unit step -/

section C10

variable {α F : Type} [Add α] [Sub α] [Mul α] [Div α] [IntCast α]

/-- C10, as the code has it.  Take a static looping source that is playing, with
`LoopStart < LoopEnd <= sample count`, at a position `p < LoopEnd`, with the point resampler
(paddings 0 and 0), `step = FRACTIONONE` and fraction 0, and a slice `N < 2^32 - 1` that
is `Playable` (a stack buffer of at least two frames and at most `2^17` bytes).  Then
`MixSource` returns given enough fuel; the position it leaves is `L(p + N)` with fraction 0
and the source still playing; and every output `n < N` is served by one of the mixer calls,
at step `n - OutPos` of the call with phase 0, from a window frame that is frame `L(p + n)`
of the buffer: the bytes are the same and the kernel returns the same sample on every
channel, where `L` is `loopIndex LoopStart LoopEnd`. -/
theorem C10_static_loop_indices (E : Env α F) (m : Mem α F) (N : Nat) (g : MixerFunc)
    (b : ALbuffer) (hP : Playable E m N g 0 0)
    (hplay : m.Source.state = .AL_PLAYING)
    (hty : m.Source.lSourceType = .AL_STATIC) (hloop : m.Source.bLooping = true)
    (hq : m.Source.queue = [some b]) (hp : m.Source.position < b.LoopEnd)
    (hstep : m.Source.Params.Step = FRACTIONONE) (hfrac : m.Source.position_fraction = 0) :
    ∃ N0 r, (∀ fuel, N0 ≤ fuel → MixSource E fuel m N = .ok r) ∧
      r.1.Source.position = loopIndex b.LoopStart b.LoopEnd (m.Source.position + N) ∧
      r.1.Source.position_fraction = 0 ∧ r.1.Source.state = .AL_PLAYING ∧
      ∀ n, n < N → ∃ c, c ∈ r.2 ∧
        ServedFrom b.data (m.Source.NumChannels * m.Source.SampleSize) n
          (loopIndex b.LoopStart b.LoopEnd (m.Source.position + n)) c ∧
        ∀ i, i < m.Source.NumChannels →
          sample E g.sampler { bytes := c.SrcData, off := ((c.base : Nat) : Int) }
              m.Source.NumChannels (n - c.OutPos) 0 i
            = sample E g.sampler { bytes := b.data, off := 0 } m.Source.NumChannels
              (loopIndex b.LoopStart b.LoopEnd (m.Source.position + n)) 0 i := by
  obtain ⟨N0, r, hret⟩ : ∃ N0 r, ∀ fuel, N0 ≤ fuel → MixSource E fuel m N = .ok r := by
    obtain ⟨N1, M, st1, h⟩ := feedLoop_returns hP N _ (feedInv_init hP)
      (Nat.le_of_eq (Nat.sub_zero N))
    exact ⟨max N1 M, _, fun fuel hf => MixSource_loop_ok E m (walkQueue_head hP.played)
      (h fuel (le_trans (le_max_left _ _) hf) fuel (le_trans (le_max_right _ _) hf))⟩
  have hrun := hret N0 (Nat.le_refl _)
  obtain ⟨item, st, hw, hfeed, hcalls, -, -, hs, -, hpos, hfr, -⟩ := MixSource_inv hrun
  rw [walkQueue_head hP.played] at hw
  simp only [Except.ok.injEq] at hw
  subst hw
  obtain ⟨⟨hIf, hLf⟩, hexit⟩ := feedLoop_ind
    (fun s : FeedSt α F => FeedInv m N s ∧
      LoopInv b (m.Source.NumChannels * m.Source.SampleSize) m.Source.position s)
    (fun s : FeedSt α F => FeedInv m N s ∧
      LoopInv b (m.Source.NumChannels * m.Source.SampleSize) m.Source.position s)
    (fun s s1 hI hit =>
      ⟨(feedIter_keeps hP hI.1 hit).1, feedIter_loop hP hty hq hstep hI.1 hI.2 hit⟩)
    (fun s hR _ _ => hR) N0 _ _
    ⟨feedInv_init hP,
      { playing := hplay
        looping := hloop
        frac := hfrac
        pos := (loopIndex_of_lt hp).symm
        served := fun n hn => absurd hn (Nat.not_lt_zero _) }⟩ hfeed
  have hout := hIf.out
  have hON : st.OutPos = N := by
    by_contra hne
    exact hexit ⟨hLf.playing, by omega⟩
  obtain ⟨hFS, hFSle, hpads, hS⟩ := hP.frame
  obtain ⟨b2, hq2, hsz, hLE, -, hlp⟩ := hP.static hty
  have hbb : b2 = b := by
    rw [hq] at hq2
    simp only [List.cons.injEq, Option.some.injEq, and_true] at hq2
    exact hq2.symm
  subst hbb
  norm_num at hsz
  have hlt : b2.LoopStart < b2.LoopEnd := hlp hloop
  have hker : g.sampler.pre = 0 ∧ g.sampler.post = 0 := by
    have := selected_padding hP.selected hP.pre_pad hP.post_pad
    omega
  have hnc : m.Source.NumChannels ≤ m.Source.NumChannels * m.Source.SampleSize := by
    rw [hP.sample_size]
    exact Nat.le_mul_of_pos_right _ (sizeofT_pos _)
  refine ⟨N0, r, hret, ?_, ?_, ?_, ?_⟩
  · rw [hpos, hLf.pos, hON]
  · rw [hfr, hLf.frac]
  · rw [hs, hLf.playing]
  · intro n hn
    obtain ⟨c, hc1, hc2⟩ := hLf.served n (by omega)
    refine ⟨c, by rw [hcalls]; exact hc1, hc2, fun i hi => ?_⟩
    obtain ⟨s1, s2, s3, s4, s5, s6, s7⟩ := hc2
    have hidx := loopIndex_lt hlt (m.Source.position + n)
    have hD : (loopIndex b2.LoopStart b2.LoopEnd (m.Source.position + n) + 1)
        * (m.Source.NumChannels * m.Source.SampleSize) ≤ b2.data.length :=
      le_trans (Nat.mul_le_mul_right _ hidx) hLE
    have hqn : loopIndex b2.LoopStart b2.LoopEnd (m.Source.position + n) * m.Source.NumChannels
        < 4294967296 := by
      have h1 : loopIndex b2.LoopStart b2.LoopEnd (m.Source.position + n) * m.Source.NumChannels
          ≤ b2.LoopEnd * (m.Source.NumChannels * m.Source.SampleSize) :=
        Nat.mul_le_mul (Nat.le_of_lt hidx) hnc
      have h2 : b2.size = b2.data.length := rfl
      omega
    have hkn : (n - c.OutPos) * m.Source.NumChannels < 4294967296 := by
      have h1 : (n - c.OutPos) * m.Source.NumChannels
          ≤ (n - c.OutPos + 1) * (m.Source.NumChannels * m.Source.SampleSize) :=
        Nat.mul_le_mul (by omega) hnc
      omega
    rw [hP.sample_size] at hD s7
    unfold sample
    apply point_run_congr E hker.1 hker.2
    rw [s3]
    exact read_congr_frame hD hi hkn hqn s7

end C10

/-- C10 at scenario B: for `LoopStart = 1`, `LoopEnd = 3`, the buffer `[10, 11, 12, 13]` and
`N = 6` the looped indices are 0, 1, 2, 1, 2, 1 and the looped end position is 2; the run
makes one call on the window `[10, 11, 12, 11, 12, 11, 12]` and ends at position 2. -/
theorem C10_static_loop_indices_witness :
    Playable (exEnv 16384) exLoop4 6 .Mix_ALbyte_point8 0 0 ∧
    (List.range 6).map (fun n => loopIndex 1 3 (0 + n)) = [0, 1, 2, 1, 2, 1] ∧
    (exRun 16384 8 exLoop4 6).2.map MixCall.SrcData = [[10, 11, 12, 11, 12, 11, 12]] ∧
    (exRun 16384 8 exLoop4 6).1.Source.position = 2 ∧
    ∃ N0 r, (∀ fuel, N0 ≤ fuel → MixSource (exEnv 16384) fuel exLoop4 6 = .ok r) ∧
      r.1.Source.position = 2 ∧ r.1.Source.position_fraction = 0 :=
  have hP : Playable (exEnv 16384) exLoop4 6 .Mix_ALbyte_point8 0 0 :=
    { do_mix := rfl
      selected := ⟨exBuffer [], Or.inl rfl⟩
      pre_pad := rfl
      post_pad := rfl
      sample_size := rfl
      channels := by decide
      stack := by decide
      step_pos := by decide
      step_le := by decide
      frac := by decide
      todo := by decide
      played := by decide
      static := fun _ => ⟨_, rfl, by decide, by decide, by decide, fun _ => by decide⟩
      stream := fun h => absurd rfl h }
  have h := C10_static_loop_indices (exEnv 16384) exLoop4 6 .Mix_ALbyte_point8
    { data := [10, 11, 12, 13], LoopStart := 1, LoopEnd := 3, FmtType := .FmtByte }
    hP rfl rfl rfl rfl (by decide) rfl rfl
  ⟨hP, by decide, by rfl, by rfl,
    let ⟨N0, r, h1, h2, h3, _⟩ := h
    ⟨N0, r, h1, h2, h3⟩⟩

/-- C10 fails for `N = 2^32 - 1`: the 32-bit `SamplesToDo - OutPos + 1` is 0, so the first
iteration of scenario B assembles an empty window and the mixer reads frame 0 outside it;
`MixSource` returns no position at all. -/
theorem C10_counterexample :
    exLoop4.Source.position < 3 ∧ exLoop4.Source.Params.Step = FRACTIONONE ∧
    exLoop4.Source.position_fraction = 0 ∧
    requestSize 16384 4294967295 0 16384 0 0 0 1 = .ok 0 ∧
    ∀ fuel, ∀ r, MixSource (exEnv 16384) fuel exLoop4 4294967295 ≠ .ok r := by
  refine ⟨by decide, rfl, rfl, by rfl, fun fuel r => ?_⟩
  cases fuel with
  | zero =>
    intro h
    have e : MixSource (exEnv 16384) 0 exLoop4 4294967295 = .error .outOfFuel := by rfl
    rw [e] at h
    exact Except.noConfusion h
  | succ k =>
    intro h
    have e : MixSource (exEnv 16384) (k + 1) exLoop4 4294967295 = .error .badRead := by rfl
    rw [e] at h
    exact Except.noConfusion h

theorem exShort_decode :
    (exEnv 16384).ofShort [0, 0] = 0 ∧ (exEnv 16384).ofShort [0, 64] = 16384 ∧
      (exEnv 16384).ofShort [0, 192] = -16384 := by
  refine ⟨?_, ?_, ?_⟩ <;> norm_num [exEnv]

theorem exShortRun_dry1 : (exShortRun 1).Device.DryBuffer 0 0
    = (0 : ℚ) + (exEnv 16384).ofShort [0, 0] * recip ℚ 32767 * 1 := by rfl

theorem exShortRun_dry2 : (exShortRun 2).Device.DryBuffer 0 0
    = (exShortRun 1).Device.DryBuffer 0 0 + (exEnv 16384).ofShort [0, 64] * recip ℚ 32767 * 1 := by
  rfl

theorem exShortRun_dry3 : (exShortRun 3).Device.DryBuffer 0 0
    = (exShortRun 2).Device.DryBuffer 0 0 + (exEnv 16384).ofShort [0, 192] * recip ℚ 32767 * 1 := by
  rfl

theorem exShortRun_dry4 : (exShortRun 4).Device.DryBuffer 0 0
    = (exShortRun 3).Device.DryBuffer 0 0 + (exEnv 16384).ofShort [0, 0] * recip ℚ 32767 * 1 := by
  rfl

/-! ## The binary32 rounding -/

theorem fl32_zero : fl32 0 = 0 := by
  unfold fl32
  rw [if_pos rfl]

/-- The position of the leading binary digit, from two bounds. -/
theorem log2_of_bounds {x : ℚ} {k : ℤ} (h1 : (2 : ℚ) ^ k ≤ x) (h2 : x < (2 : ℚ) ^ (k + 1)) :
    Int.log 2 x = k := by
  have hx : 0 < x := lt_of_lt_of_le (zpow_pos (by norm_num) k) h1
  have a : k ≤ Int.log 2 x := (Int.zpow_le_iff_le_log (by norm_num) hx).1 (by exact_mod_cast h1)
  have b : Int.log 2 x < k + 1 :=
    (Int.lt_zpow_iff_log_lt (by norm_num) hx).1 (by exact_mod_cast h2)
  omega

theorem roundEven_int (m : ℤ) : roundEven (m : ℚ) = m := by
  unfold roundEven
  rw [Int.floor_intCast, sub_self, if_pos (by norm_num)]

/-- A rational less than half a unit above an integer rounds to it. -/
theorem roundEven_down {x : ℚ} {z : ℤ} (h1 : (z : ℚ) ≤ x) (h2 : x < (z : ℚ) + 1 / 2) :
    roundEven x = z := by
  have hf : ⌊x⌋ = z := Int.floor_eq_iff.2 ⟨h1, by linarith⟩
  unfold roundEven
  rw [hf, if_pos (by linarith)]

/-- The binary32 numbers with a full significand are their own rounding: `fl32` leaves
`m * 2^e` unchanged when `2^23 ≤ |m| < 2^24` and `e` is not below the last place `-149`. -/
theorem fl32_rep (m e : ℤ) (h1 : 2 ^ 23 ≤ |m|) (h2 : |m| < 2 ^ 24) (he : -149 ≤ e) :
    fl32 ((m : ℚ) * 2 ^ e) = (m : ℚ) * 2 ^ e := by
  have hp : (0 : ℚ) < 2 ^ e := zpow_pos (by norm_num) e
  have hm0 : m ≠ 0 := by
    intro h
    rw [h] at h1
    norm_num at h1
  have hx0 : (m : ℚ) * 2 ^ e ≠ 0 := mul_ne_zero (by exact_mod_cast hm0) hp.ne'
  have habs : |(m : ℚ) * 2 ^ e| = ((|m| : ℤ) : ℚ) * 2 ^ e := by
    rw [abs_mul, abs_of_pos hp, Int.cast_abs]
  have q1 : ((2 : ℚ) ^ (23 : ℕ)) ≤ ((|m| : ℤ) : ℚ) := by exact_mod_cast h1
  have q2 : ((|m| : ℤ) : ℚ) < ((2 : ℚ) ^ (24 : ℕ)) := by exact_mod_cast h2
  have hlog : Int.log 2 |(m : ℚ) * 2 ^ e| = e + 23 := by
    apply log2_of_bounds
    · rw [habs, zpow_add₀ (by norm_num), mul_comm]
      refine mul_le_mul_of_nonneg_right ?_ hp.le
      norm_num at q1 ⊢
      exact q1
    · rw [habs, show e + 23 + 1 = 24 + e by ring, zpow_add₀ (by norm_num)]
      refine mul_lt_mul_of_pos_right ?_ hp
      norm_num at q2 ⊢
      exact q2
  have hu : ulpExp ((m : ℚ) * 2 ^ e) = e := by
    unfold ulpExp
    rw [hlog, show e + 23 - 23 = e by ring]
    exact max_eq_left he
  unfold fl32
  rw [if_neg hx0, hu, mul_div_assoc, div_self hp.ne', mul_one, roundEven_int]

/-- The constant `1.0f/32767.0f` of the 16-bit kernels: the quotient lies between `2^-15` and
`2^-14`, its last place is `2^-38`, and `2^38 / 32767` is `8388864 + 256/32767`, which rounds
down. -/
theorem fl32_recip : fl32 (1 / 32767) = 32769 / 1073741824 := by
  have habs : |(1 / 32767 : ℚ)| = 1 / 32767 := abs_of_pos (by norm_num)
  have hlog : Int.log 2 |(1 / 32767 : ℚ)| = -15 := by
    rw [habs]
    exact log2_of_bounds (by norm_num) (by norm_num)
  have hu : ulpExp (1 / 32767) = -38 := by
    unfold ulpExp
    rw [hlog]
    rfl
  have hr : roundEven ((1 / 32767 : ℚ) / 2 ^ (-38 : ℤ)) = 8388864 :=
    roundEven_down (by norm_num) (by norm_num)
  unfold fl32
  rw [if_neg (by norm_num), hu, hr]
  norm_num

theorem fl32_one : fl32 1 = 1 := by
  have h := fl32_rep 8388608 (-23) (by norm_num) (by norm_num) (by norm_num)
  have e : ((8388608 : ℤ) : ℚ) * 2 ^ (-23 : ℤ) = 1 := by norm_num
  rw [e] at h
  exact h

theorem fl32_32767 : fl32 32767 = 32767 := by
  have h := fl32_rep 16776704 (-9) (by norm_num) (by norm_num) (by norm_num)
  have e : ((16776704 : ℤ) : ℚ) * 2 ^ (-9 : ℤ) = 32767 := by norm_num
  rw [e] at h
  exact h

theorem fl32_half_up : fl32 (32769 / 65536) = 32769 / 65536 := by
  have h := fl32_rep 8388864 (-24) (by norm_num) (by norm_num) (by norm_num)
  have e : ((8388864 : ℤ) : ℚ) * 2 ^ (-24 : ℤ) = 32769 / 65536 := by norm_num
  rw [e] at h
  exact h

theorem fl32_half_down : fl32 (-(32769 / 65536)) = -(32769 / 65536) := by
  have h := fl32_rep (-8388864) (-24) (by norm_num) (by norm_num) (by norm_num)
  have e : ((-8388864 : ℤ) : ℚ) * 2 ^ (-24 : ℤ) = -(32769 / 65536) := by norm_num
  rw [e] at h
  exact h

/-! ## C12 in binary32 arithmetic -/

/-- The nearest integer is within one half. -/
theorem roundEven_near (x : ℚ) : |(roundEven x : ℚ) - x| ≤ 1 / 2 := by
  have h1 := Int.floor_le x
  have h2 := Int.lt_floor_add_one x
  unfold roundEven
  split_ifs with a b c
  · rw [abs_le]
    constructor <;> linarith
  · rw [abs_le]
    push_cast
    constructor <;> linarith
  · rw [abs_le]
    constructor <;> linarith
  · rw [abs_le]
    push_cast
    constructor <;> linarith

/-- The rounding `fl32` moves a rational by at most half a unit of its last place. -/
theorem fl32_near (x : ℚ) : |fl32 x - x| ≤ 2 ^ ulpExp x / 2 := by
  have hp : (0 : ℚ) < 2 ^ ulpExp x := zpow_pos (by norm_num) _
  unfold fl32
  split_ifs with h0
  · rw [h0, sub_self, abs_zero]
    exact div_nonneg (zpow_nonneg (by norm_num) _) (by norm_num)
  · have h := roundEven_near (x / 2 ^ ulpExp x)
    have e : (roundEven (x / 2 ^ ulpExp x) : ℚ) * 2 ^ ulpExp x - x
        = ((roundEven (x / 2 ^ ulpExp x) : ℚ) - x / 2 ^ ulpExp x) * 2 ^ ulpExp x := by
      field_simp
    rw [e, abs_mul, abs_of_pos hp]
    calc |(roundEven (x / 2 ^ ulpExp x) : ℚ) - x / 2 ^ ulpExp x| * 2 ^ ulpExp x
        ≤ 1 / 2 * 2 ^ ulpExp x := mul_le_mul_of_nonneg_right h hp.le
      _ = 2 ^ ulpExp x / 2 := by ring

/-- The constant `1.0f/32767.0f` of the 16-bit kernels in binary32: `32769 / 2^30`. -/
theorem recip32 : @recip Binary32 b32Div b32Cast 32767 = ⟨32769 / 1073741824⟩ := by
  have e : @recip Binary32 b32Div b32Cast 32767
      = ⟨fl32 (fl32 ((1 : ℤ) : ℚ) / fl32 (((32767 : ℕ) : ℤ) : ℚ))⟩ := rfl
  have e1 : ((1 : ℤ) : ℚ) = 1 := by norm_num
  have e2 : (((32767 : ℕ) : ℤ) : ℚ) = 32767 := by norm_num
  rw [e, e1, e2, fl32_one, fl32_32767, fl32_recip]

/-- What the 16-bit point kernel and the dry path make of a sample `s` at gain 1 in
binary32: the product with the constant, rounded, times the gain, rounded. -/
theorem term32 (s : ℚ) :
    b32Mul.mul (b32Mul.mul ⟨s⟩ (@recip Binary32 b32Div b32Cast 32767)) ⟨1⟩
      = ⟨fl32 (fl32 (s * (32769 / 1073741824)) * 1)⟩ := by
  rw [recip32]
  rfl

theorem term32_zero :
    b32Mul.mul (b32Mul.mul ⟨(exEnv 16384).ofShort [0, 0]⟩
      (@recip Binary32 b32Div b32Cast 32767)) ⟨1⟩ = ⟨0⟩ := by
  rw [exShort_decode.1, term32, zero_mul, fl32_zero, zero_mul, fl32_zero]

theorem term32_up :
    b32Mul.mul (b32Mul.mul ⟨(exEnv 16384).ofShort [0, 64]⟩
      (@recip Binary32 b32Div b32Cast 32767)) ⟨1⟩ = ⟨32769 / 65536⟩ := by
  rw [exShort_decode.2.1, term32,
    show (16384 : ℚ) * (32769 / 1073741824) = 32769 / 65536 by norm_num,
    fl32_half_up, mul_one, fl32_half_up]

theorem term32_down :
    b32Mul.mul (b32Mul.mul ⟨(exEnv 16384).ofShort [0, 192]⟩
      (@recip Binary32 b32Div b32Cast 32767)) ⟨1⟩ = ⟨-(32769 / 65536)⟩ := by
  rw [exShort_decode.2.2, term32,
    show (-16384 : ℚ) * (32769 / 1073741824) = -(32769 / 65536) by norm_num,
    fl32_half_down, mul_one, fl32_half_down]

theorem exShortRun32_dry1 : (exShortRun32 1).Device.DryBuffer 0 0
    = b32Add.add ⟨0⟩
        (b32Mul.mul (b32Mul.mul ⟨(exEnv 16384).ofShort [0, 0]⟩
          (@recip Binary32 b32Div b32Cast 32767)) ⟨1⟩) := by
  rfl

theorem exShortRun32_dry2 : (exShortRun32 2).Device.DryBuffer 0 0
    = b32Add.add ((exShortRun32 1).Device.DryBuffer 0 0)
        (b32Mul.mul (b32Mul.mul ⟨(exEnv 16384).ofShort [0, 64]⟩
          (@recip Binary32 b32Div b32Cast 32767)) ⟨1⟩) := by
  rfl

theorem exShortRun32_dry3 : (exShortRun32 3).Device.DryBuffer 0 0
    = b32Add.add ((exShortRun32 2).Device.DryBuffer 0 0)
        (b32Mul.mul (b32Mul.mul ⟨(exEnv 16384).ofShort [0, 192]⟩
          (@recip Binary32 b32Div b32Cast 32767)) ⟨1⟩) := by
  rfl

theorem exShortRun32_dry4 : (exShortRun32 4).Device.DryBuffer 0 0
    = b32Add.add ((exShortRun32 3).Device.DryBuffer 0 0)
        (b32Mul.mul (b32Mul.mul ⟨(exEnv 16384).ofShort [0, 0]⟩
          (@recip Binary32 b32Div b32Cast 32767)) ⟨1⟩) := by
  rfl

theorem b32Add_val (a b : ℚ) : b32Add.add ⟨a⟩ ⟨b⟩ = ⟨fl32 (a + b)⟩ := rfl

/-- Scenario A in binary32: `dry_buffer[0][0]` after each of the four calls. -/
theorem exShortRun32_values :
    (exShortRun32 0).Device.DryBuffer 0 0 = ⟨0⟩ ∧
    (exShortRun32 1).Device.DryBuffer 0 0 = ⟨0⟩ ∧
    (exShortRun32 2).Device.DryBuffer 0 0 = ⟨32769 / 65536⟩ ∧
    (exShortRun32 3).Device.DryBuffer 0 0 = ⟨0⟩ ∧
    (exShortRun32 4).Device.DryBuffer 0 0 = ⟨0⟩ := by
  have d1 : (exShortRun32 1).Device.DryBuffer 0 0 = ⟨0⟩ := by
    rw [exShortRun32_dry1, term32_zero, b32Add_val, add_zero, fl32_zero]
  have d2 : (exShortRun32 2).Device.DryBuffer 0 0 = ⟨32769 / 65536⟩ := by
    rw [exShortRun32_dry2, d1, term32_up, b32Add_val, zero_add, fl32_half_up]
  have d3 : (exShortRun32 3).Device.DryBuffer 0 0 = ⟨0⟩ := by
    rw [exShortRun32_dry3, d2, term32_down, b32Add_val, add_neg_cancel, fl32_zero]
  have d4 : (exShortRun32 4).Device.DryBuffer 0 0 = ⟨0⟩ := by
    rw [exShortRun32_dry4, d3, term32_zero, b32Add_val, add_zero, fl32_zero]
  exact ⟨rfl, d1, d2, d3, d4⟩

theorem exShortRun32_ok :
    @MixSource Binary32 Unit b32Add b32Sub b32Mul b32Div b32Cast exEnv32 8 (exShortRun32 0) 1
      = .ok (exRun32 8 (exShortRun32 0) 1) ∧
    @MixSource Binary32 Unit b32Add b32Sub b32Mul b32Div b32Cast exEnv32 8 (exShortRun32 1) 1
      = .ok (exRun32 8 (exShortRun32 1) 1) ∧
    @MixSource Binary32 Unit b32Add b32Sub b32Mul b32Div b32Cast exEnv32 8 (exShortRun32 2) 1
      = .ok (exRun32 8 (exShortRun32 2) 1) ∧
    @MixSource Binary32 Unit b32Add b32Sub b32Mul b32Div b32Cast exEnv32 8 (exShortRun32 3) 1
      = .ok (exRun32 8 (exShortRun32 3) 1) ∧
    (exRun32 8 (exShortRun32 0) 1).2.map MixCall.BufferSize = [1] ∧
    (exRun32 8 (exShortRun32 1) 1).2.map MixCall.BufferSize = [1] ∧
    (exRun32 8 (exShortRun32 2) 1).2.map MixCall.BufferSize = [1] ∧
    (exRun32 8 (exShortRun32 3) 1).2.map MixCall.BufferSize = [1] := by
  refine ⟨by rfl, by rfl, by rfl, by rfl, by decide, by decide, by decide, by decide⟩

/-- C12 (amended): in scenario A - a static, non-looping mono 16-bit buffer
`[0, 16384, -16384, 0]`, point resampler, `step = FRACTIONONE`, dry gain 1 on output channel
0, pass-through filter - each of four successive `MixSource` calls with `SamplesToDo = 1`
returns after one mixer call of one sample, which adds `sample * (1.0f/32767.0f) * gain`,
computed in `ALfloat`, to `dry_buffer[0][0]`.  With `ALfloat` the binary32 numbers, every
operation rounded to nearest, the constant is `32769 / 2^30`, the four addends are `0`,
`32769/65536`, `-32769/65536` and `0`, and `dry_buffer[0][0]`, which starts at `0`, changes
by exactly these amounts.  In exact arithmetic the constant is `1/32767` and the changes are
`0`, `16384/32767`, `-16384/32767` and `0`. -/
theorem C12_scenario_values :
    (@MixSource Binary32 Unit b32Add b32Sub b32Mul b32Div b32Cast exEnv32 8 (exShortRun32 0) 1
        = .ok (exRun32 8 (exShortRun32 0) 1) ∧
      @MixSource Binary32 Unit b32Add b32Sub b32Mul b32Div b32Cast exEnv32 8 (exShortRun32 1) 1
        = .ok (exRun32 8 (exShortRun32 1) 1) ∧
      @MixSource Binary32 Unit b32Add b32Sub b32Mul b32Div b32Cast exEnv32 8 (exShortRun32 2) 1
        = .ok (exRun32 8 (exShortRun32 2) 1) ∧
      @MixSource Binary32 Unit b32Add b32Sub b32Mul b32Div b32Cast exEnv32 8 (exShortRun32 3) 1
        = .ok (exRun32 8 (exShortRun32 3) 1) ∧
      (exRun32 8 (exShortRun32 0) 1).2.map MixCall.BufferSize = [1] ∧
      (exRun32 8 (exShortRun32 1) 1).2.map MixCall.BufferSize = [1] ∧
      (exRun32 8 (exShortRun32 2) 1).2.map MixCall.BufferSize = [1] ∧
      (exRun32 8 (exShortRun32 3) 1).2.map MixCall.BufferSize = [1]) ∧
    (@recip Binary32 b32Div b32Cast 32767 = ⟨32769 / 1073741824⟩ ∧
      (exShortRun32 1).Device.DryBuffer 0 0
        = b32Add.add ((exShortRun32 0).Device.DryBuffer 0 0) ⟨0⟩ ∧
      (exShortRun32 2).Device.DryBuffer 0 0
        = b32Add.add ((exShortRun32 1).Device.DryBuffer 0 0) ⟨32769 / 65536⟩ ∧
      (exShortRun32 3).Device.DryBuffer 0 0
        = b32Add.add ((exShortRun32 2).Device.DryBuffer 0 0) ⟨-(32769 / 65536)⟩ ∧
      (exShortRun32 4).Device.DryBuffer 0 0
        = b32Add.add ((exShortRun32 3).Device.DryBuffer 0 0) ⟨0⟩) ∧
    (((exShortRun32 0).Device.DryBuffer 0 0).val = 0 ∧
      ((exShortRun32 1).Device.DryBuffer 0 0).val
        - ((exShortRun32 0).Device.DryBuffer 0 0).val = 0 ∧
      ((exShortRun32 2).Device.DryBuffer 0 0).val
        - ((exShortRun32 1).Device.DryBuffer 0 0).val = 32769 / 65536 ∧
      ((exShortRun32 3).Device.DryBuffer 0 0).val
        - ((exShortRun32 2).Device.DryBuffer 0 0).val = -(32769 / 65536) ∧
      ((exShortRun32 4).Device.DryBuffer 0 0).val
        - ((exShortRun32 3).Device.DryBuffer 0 0).val = 0) ∧
    (MixSource (exEnv 16384) 8 (exShortRun 0) 1 = .ok (exRun 16384 8 (exShortRun 0) 1) ∧
      MixSource (exEnv 16384) 8 (exShortRun 1) 1 = .ok (exRun 16384 8 (exShortRun 1) 1) ∧
      MixSource (exEnv 16384) 8 (exShortRun 2) 1 = .ok (exRun 16384 8 (exShortRun 2) 1) ∧
      MixSource (exEnv 16384) 8 (exShortRun 3) 1 = .ok (exRun 16384 8 (exShortRun 3) 1) ∧
      (exRun 16384 8 (exShortRun 0) 1).2.map MixCall.BufferSize = [1] ∧
      (exRun 16384 8 (exShortRun 1) 1).2.map MixCall.BufferSize = [1] ∧
      (exRun 16384 8 (exShortRun 2) 1).2.map MixCall.BufferSize = [1] ∧
      (exRun 16384 8 (exShortRun 3) 1).2.map MixCall.BufferSize = [1] ∧
      recip ℚ 32767 = 1 / 32767 ∧
      (exShortRun 1).Device.DryBuffer 0 0 - (exShortRun 0).Device.DryBuffer 0 0 = 0 ∧
      (exShortRun 2).Device.DryBuffer 0 0 - (exShortRun 1).Device.DryBuffer 0 0
        = 16384 / 32767 ∧
      (exShortRun 3).Device.DryBuffer 0 0 - (exShortRun 2).Device.DryBuffer 0 0
        = -(16384 / 32767) ∧
      (exShortRun 4).Device.DryBuffer 0 0 - (exShortRun 3).Device.DryBuffer 0 0 = 0) := by
  obtain ⟨d0, d1, d2⟩ := exShort_decode
  obtain ⟨v0, v1, v2, v3, v4⟩ := exShortRun32_values
  refine ⟨exShortRun32_ok, ⟨recip32, ?_, ?_, ?_, ?_⟩, ⟨?_, ?_, ?_, ?_, ?_⟩,
    ⟨by rfl, by rfl, by rfl, by rfl, by decide, by decide, by decide, by decide,
      by norm_num [recip], ?_, ?_, ?_, ?_⟩⟩
  · rw [exShortRun32_dry1, term32_zero, v0]
  · rw [exShortRun32_dry2, term32_up]
  · rw [exShortRun32_dry3, term32_down]
  · rw [exShortRun32_dry4, term32_zero]
  · rw [v0]
  · rw [v1, v0]; norm_num
  · rw [v2, v1]; norm_num
  · rw [v3, v2]; norm_num
  · rw [v4, v3]; norm_num
  · have h0 : (exShortRun 0).Device.DryBuffer 0 0 = 0 := rfl
    rw [exShortRun_dry1, h0, d0]; norm_num
  · rw [exShortRun_dry2, d1]; norm_num [recip]
  · rw [exShortRun_dry3, d2]; norm_num [recip]
  · rw [exShortRun_dry4, d0]; norm_num

/-- C12 (counterexample): in scenario A the second of the four calls, which mixes the sample
`16384`, adds `16384 * (1.0f/32767.0f)` to `dry_buffer[0][0]`: `32769/65536` in binary32
(`16384/32767` in exact arithmetic), which is not `0.5`. -/
theorem C12_counterexample :
    (exEnv 16384).ofShort [0, 64] = 16384 ∧
    @MixSource Binary32 Unit b32Add b32Sub b32Mul b32Div b32Cast exEnv32 8 (exShortRun32 1) 1
      = .ok (exRun32 8 (exShortRun32 1) 1) ∧
    ((exShortRun32 2).Device.DryBuffer 0 0).val
      - ((exShortRun32 1).Device.DryBuffer 0 0).val = 32769 / 65536 ∧
    ((exShortRun32 2).Device.DryBuffer 0 0).val
      - ((exShortRun32 1).Device.DryBuffer 0 0).val ≠ 1 / 2 ∧
    MixSource (exEnv 16384) 8 (exShortRun 1) 1 = .ok (exRun 16384 8 (exShortRun 1) 1) ∧
    (exShortRun 2).Device.DryBuffer 0 0 - (exShortRun 1).Device.DryBuffer 0 0 ≠ 1 / 2 := by
  obtain ⟨v0, v1, v2, v3, v4⟩ := exShortRun32_values
  refine ⟨exShort_decode.2.1, by rfl, ?_, ?_, by rfl, ?_⟩
  · rw [v2, v1]; norm_num
  · rw [v2, v1]; norm_num
  · rw [exShortRun_dry2, exShort_decode.2.1]; norm_num [recip]

theorem ieee32_zero : ieee32 [0, 0, 0, 0] = 0 := by norm_num [ieee32]

theorem ieee32_one : ieee32 [0, 0, 128, 63] = 1 := by norm_num [ieee32]

/-- C15: scenario D - a non-looping mono float buffer `[0, 1]` at position 0, fraction 0,
linear resampler, `step = FRACTIONONE/2`, unit gain, pass-through filter.  `MixSource` with
`SamplesToDo = 3` returns after one mixer call of three samples, which adds exactly `0`, `1/2`
and `1` to `dry_buffer[0..2][0]`; the window of the call is the buffer followed by one frame of
zeros, and that frame is what the linear kernel reads as `v[step]` at the third sample (frame
1, phase 0); the source is left Playing at position 1 with fraction `FRACTIONONE/2`. -/
theorem C15_scenario_linear_tail :
    (exEnv 16384).ofFloat [0, 0, 0, 0] = 0 ∧ (exEnv 16384).ofFloat [0, 0, 128, 63] = 1 ∧
    MixSource (exEnv 16384) 8 exFloat2 3 = .ok (exRun 16384 8 exFloat2 3) ∧
    (exRun 16384 8 exFloat2 3).2
      = [{ SrcData := [0, 0, 0, 0, 0, 0, 128, 63, 0, 0, 0, 0], base := 0, DataPosInt := 0,
           DataPosFrac := 0, OutPos := 0, BufferSize := 3 }] ∧
    exFloat2.Device.DryBuffer 0 0 = 0 ∧ exFloat2.Device.DryBuffer 1 0 = 0 ∧
    exFloat2.Device.DryBuffer 2 0 = 0 ∧
    (exRun 16384 8 exFloat2 3).1.Device.DryBuffer 0 0 = 0 ∧
    (exRun 16384 8 exFloat2 3).1.Device.DryBuffer 1 0 = 1 / 2 ∧
    (exRun 16384 8 exFloat2 3).1.Device.DryBuffer 2 0 = 1 ∧
    (phaseStep 8192)^[2] (0, 0) = (1, 0) ∧
    elemAt { bytes := [0, 0, 0, 0, 0, 0, 128, 63, 0, 0, 0, 0], off := 0 } 4 1 1 0 1
      = .ok [0, 0, 0, 0] ∧
    (exRun 16384 8 exFloat2 3).1.Source.state = .AL_PLAYING ∧
    (exRun 16384 8 exFloat2 3).1.Source.position = 1 ∧
    (exRun 16384 8 exFloat2 3).1.Source.position_fraction = FRACTIONONE / 2 := by
  refine ⟨ieee32_zero, ieee32_one, by rfl, by decide, rfl, rfl, rfl, ?_, ?_, ?_, by decide,
    by rfl, by decide, by decide, by decide⟩
  · have h : (exRun 16384 8 exFloat2 3).1.Device.DryBuffer 0 0
        = (0 : ℚ) + (ieee32 [0, 0, 0, 0]
            + (ieee32 [0, 0, 128, 63] - ieee32 [0, 0, 0, 0]) * mu ℚ 0) * 1 := by rfl
    rw [h, ieee32_zero, ieee32_one]; norm_num [mu, recip, FRACTIONONE_eq]
  · have h : (exRun 16384 8 exFloat2 3).1.Device.DryBuffer 1 0
        = (0 : ℚ) + (ieee32 [0, 0, 0, 0]
            + (ieee32 [0, 0, 128, 63] - ieee32 [0, 0, 0, 0]) * mu ℚ 8192) * 1 := by rfl
    rw [h, ieee32_zero, ieee32_one]; norm_num [mu, recip, FRACTIONONE_eq]
  · have h : (exRun 16384 8 exFloat2 3).1.Device.DryBuffer 2 0
        = (0 : ℚ) + (ieee32 [0, 0, 128, 63]
            + (ieee32 [0, 0, 0, 0] - ieee32 [0, 0, 128, 63]) * mu ℚ 0) * 1 := by rfl
    rw [h, ieee32_zero, ieee32_one]; norm_num [mu, recip, FRACTIONONE_eq]

/-! ## Invariants of the mixers

What every block of a mixer keeps, the mixer keeps. -/

section KeepLemmas

variable {α F : Type} [Add α] [Sub α] [Mul α] [Div α] [IntCast α]

/-- What the three blocks of the wet path keep, the channel loop body of a send keeps. -/
theorem mixWetChannel_keeps (P : Mem α F → Prop) {E : Env α F} {smp : SamplerId}
    {data : SrcPtr} {nc inc f std n out a i : Nat}
    (hW : ∀ c c1 : Cur α F,
      (mixWetLead E smp data nc out a i c = .ok c1 ∨
        mixWetStep E smp data nc inc out a i c = .ok c1 ∨
        mixWetTrail E smp data nc out a i c = .ok c1) → P c.mem → P c1.mem)
    {c c1 : Cur α F} (h : mixWetChannel E smp data nc inc f std n out a i c = .ok c1)
    (hc : P c.mem) : P c1.mem := by
  unfold mixWetChannel at h
  simp only at h
  split at h
  · simp at h
  · next c2 h2 =>
    split at h
    · simp at h
    · next c3 h3 =>
      split at h
      · simp at h
      · next c4 h4 =>
        simp only [Except.ok.injEq] at h
        have e2 : P c2.mem := by
          split at h2
          · exact hW _ _ (Or.inl h2) hc
          · simp only [Except.ok.injEq] at h2
            rw [← h2]; exact hc
        have e3 : P c3.mem :=
          forLoop_inv _ (fun s : Cur α F => P s.mem)
            (fun _ s s1 hs hb => hW _ _ (Or.inr (Or.inl hb)) hs) _ _ _ _ e2 h3
        have e4 : P c4.mem := by
          split at h4
          · exact hW _ _ (Or.inr (Or.inr h4)) e3
          · simp only [Except.ok.injEq] at h4
            rw [← h4]; exact e3
        rw [← h]
        exact e4

/-- What the blocks of the wet path keep when run for a send with a slot whose effect is not
the null effect, the loop body over the sends keeps. -/
theorem mixSend_keeps (P : Mem α F → Prop) {E : Env α F} {smp : SamplerId}
    {data : SrcPtr} {nc inc f std n out : Nat}
    (hW : ∀ (a i : Nat) (c c1 : Cur α F), (c.mem.Source.Params.Send out).Slot = some a →
      (c.mem.Slot a).effectType ≠ E.AL_EFFECT_NULL →
      (mixWetLead E smp data nc out a i c = .ok c1 ∨
        mixWetStep E smp data nc inc out a i c = .ok c1 ∨
        mixWetTrail E smp data nc out a i c = .ok c1) → P c.mem → P c1.mem)
    {c c1 : Cur α F} (h : mixSend E smp data nc inc f std n out c = .ok c1)
    (hc : P c.mem) : P c1.mem := by
  unfold mixSend at h
  split at h
  · simp only [Except.ok.injEq] at h
    rw [← h]; exact hc
  · next a ha =>
    split at h
    · simp only [Except.ok.injEq] at h
      rw [← h]; exact hc
    · next hne =>
      have key := forLoop_inv _ (fun s : Cur α F => s.mem.fixed = c.mem.fixed ∧ P s.mem)
        (fun i s s1 hs hb => by
          refine ⟨(mixWetChannel_fixed hb).trans hs.1, ?_⟩
          refine mixWetChannel_keeps (fun x => x.fixed = c.mem.fixed → P x) ?_ hb
            (fun _ => hs.2) ((mixWetChannel_fixed hb).trans hs.1)
          intro d d1 hd hPd hfix
          have hdf : d1.mem.fixed = d.mem.fixed := by
            rcases hd with hd | hd | hd
            · exact mixWetLead_fixed hd
            · exact mixWetStep_fixed hd
            · exact mixWetTrail_fixed hd
          have hfd : d.mem.fixed = c.mem.fixed := hdf.symm.trans hfix
          have h1 : (d.mem.Source.Params.Send out).Slot = some a := by
            have := congrFun (congrArg Fixed.SendSlot hfd) out
            exact this.trans ha
          have h2 : (d.mem.Slot a).effectType ≠ E.AL_EFFECT_NULL := by
            have := congrFun (congrArg Fixed.effectType hfd) a
            intro h3
            exact hne (this.symm.trans h3)
          exact hW a i d d1 h1 h2 hd (hPd hfd)) _ _ _ _ ⟨rfl, hc⟩ h
      exact key.2

/-- What the blocks of the dry path keep, the channel loop body of the plain mixer keeps. -/
theorem mixDryChannel_keeps (P : Mem α F → Prop) {E : Env α F} {smp : SamplerId}
    {data : SrcPtr} {nc inc f std n i : Nat}
    (hD : ∀ (DrySend : Nat → α) (c c1 : Cur α F),
      (mixDryLead E smp data nc i DrySend c = .ok c1 ∨
        mixDryStep E smp data nc inc i DrySend c = .ok c1 ∨
        mixDryTrail E smp data nc i DrySend c = .ok c1) → P c.mem → P c1.mem)
    {c c1 : Cur α F} (h : mixDryChannel E smp data nc inc f std n i c = .ok c1)
    (hc : P c.mem) : P c1.mem := by
  unfold mixDryChannel at h
  simp only at h
  split at h
  · simp at h
  · next c2 h2 =>
    split at h
    · simp at h
    · next c3 h3 =>
      split at h
      · simp at h
      · next c4 h4 =>
        simp only [Except.ok.injEq] at h
        have e2 : P c2.mem := by
          split at h2
          · exact hD _ _ _ (Or.inl h2) hc
          · simp only [Except.ok.injEq] at h2
            rw [← h2]; exact hc
        have e3 : P c3.mem :=
          forLoop_inv _ (fun s : Cur α F => P s.mem)
            (fun _ s s1 hs hb => hD _ _ _ (Or.inr (Or.inl hb)) hs) _ _ _ _ e2 h3
        have e4 : P c4.mem := by
          split at h4
          · exact hD _ _ _ (Or.inr (Or.inr h4)) e3
          · simp only [Except.ok.injEq] at h4
            rw [← h4]; exact e3
        rw [← h]
        exact e4

/-- What the blocks of the dry path and of the wet path keep, the plain mixer keeps. -/
theorem Mix_keeps (P : Mem α F → Prop) {E : Env α F} {smp : SamplerId} {m : Mem α F}
    {data : SrcPtr} {p f o std n : Nat} {res : MixResult α F}
    (hD : ∀ (i : Nat) (DrySend : Nat → α) (c c1 : Cur α F),
      (mixDryLead E smp data m.Source.NumChannels i DrySend c = .ok c1 ∨
        mixDryStep E smp data m.Source.NumChannels m.Source.Params.Step i DrySend c = .ok c1 ∨
        mixDryTrail E smp data m.Source.NumChannels i DrySend c = .ok c1) →
      P c.mem → P c1.mem)
    (hW : ∀ (out a i : Nat) (c c1 : Cur α F), (c.mem.Source.Params.Send out).Slot = some a →
      (c.mem.Slot a).effectType ≠ E.AL_EFFECT_NULL →
      (mixWetLead E smp data m.Source.NumChannels out a i c = .ok c1 ∨
        mixWetStep E smp data m.Source.NumChannels m.Source.Params.Step out a i c = .ok c1 ∨
        mixWetTrail E smp data m.Source.NumChannels out a i c = .ok c1) → P c.mem → P c1.mem)
    (e : Mix E smp m data p f o std n = .ok res) (hm : P m) : P res.mem := by
  unfold Mix at e
  simp only at e
  split at e
  · simp at e
  · next c1 e1 =>
    split at e
    · simp at e
    · next c2 e2 =>
      simp only [Except.ok.injEq] at e
      subst e
      have k1 : P c1.mem :=
        forLoop_inv _ (fun s : Cur α F => P s.mem)
          (fun i s s1 hs hb => mixDryChannel_keeps P (hD i) hb hs) _ _ _ _ hm e1
      exact forLoop_inv _ (fun s : Cur α F => P s.mem)
        (fun out s s1 hs hb => mixSend_keeps P (hW out) hb hs) _ _ _ _ k1 e2

theorem hrtfRamp_keeps (P : Mem α F → Prop) {E : Env α F} {smp : SamplerId}
    {data : SrcPtr} {nc inc i : Nat}
    (hH : ∀ h h1 : HrtfCur α F, hrtfRampStep E smp data nc inc i h = .ok h1 →
      P h.cur.mem → P h1.cur.mem) :
    ∀ (n : Nat) (h h1 : HrtfCur α F) (rest : Nat),
      hrtfRamp E smp data nc inc i n h = .ok (rest, h1) → P h.cur.mem → P h1.cur.mem := by
  intro n
  induction n with
  | zero =>
    intro h h1 rest e hc
    simp only [hrtfRamp, Except.ok.injEq, Prod.mk.injEq] at e
    rw [← e.2]; exact hc
  | succ n ih =>
    intro h h1 rest e hc
    simp only [hrtfRamp] at e
    split at e
    · split at e
      · simp at e
      · next h2 e2 => exact ih _ _ _ e (hH _ _ e2 hc)
    · simp only [Except.ok.injEq, Prod.mk.injEq] at e
      rw [← e.2]; exact hc

/-- What the four blocks of the HRTF template keep, its channel loop body keeps. -/
theorem hrtfChannel_keeps (P : Mem α F → Prop) {E : Env α F} {smp : SamplerId}
    {data : SrcPtr} {nc inc f std n i : Nat}
    (hH : ∀ h h1 : HrtfCur α F,
      (hrtfLead E smp data nc i h = .ok h1 ∨ hrtfRampStep E smp data nc inc i h = .ok h1 ∨
        hrtfSteadyStep E smp data nc inc i h = .ok h1 ∨ hrtfTrail E smp data nc i h = .ok h1) →
      P h.cur.mem → P h1.cur.mem)
    {c c1 : Cur α F} (e : hrtfChannel E smp data nc inc f std n i c = .ok c1)
    (hc : P c.mem) : P c1.mem := by
  unfold hrtfChannel at e
  simp only at e
  split at e
  · simp at e
  · next h1 e1 =>
    split at e
    · simp at e
    · next rest h2 e2 =>
      split at e
      · simp at e
      · next h4 e4 =>
        split at e
        · simp at e
        · next h5 e5 =>
          simp only [Except.ok.injEq] at e
          have p1 : P h1.cur.mem := by
            split at e1
            · exact hH _ _ (Or.inl e1) hc
            · simp only [Except.ok.injEq] at e1
              rw [← e1]; exact hc
          have p2 : P h2.cur.mem :=
            hrtfRamp_keeps P (fun a b hab => hH a b (Or.inr (Or.inl hab))) _ _ _ _ e2 p1
          have p4 : P h4.cur.mem :=
            forLoop_inv _ (fun s : HrtfCur α F => P s.cur.mem)
              (fun _ s s1 hs hb => hH _ _ (Or.inr (Or.inr (Or.inl hb))) hs) _ _
              { h2 with Delay0 := h2.Delay0 >>> 16, Delay1 := h2.Delay1 >>> 16 } _ p2 e4
          have p5 : P h5.cur.mem := by
            split at e5
            · exact hH _ _ (Or.inr (Or.inr (Or.inr e5))) p4
            · simp only [Except.ok.injEq] at e5
              rw [← e5]; exact p4
          rw [← e]
          exact p5

/-- What the blocks of the HRTF template and of the wet path keep, the HRTF mixer keeps. -/
theorem Mix_Hrtf_keeps (P : Mem α F → Prop) {E : Env α F} {smp : SamplerId} {m : Mem α F}
    {data : SrcPtr} {p f o std n : Nat} {res : MixResult α F}
    (hH : ∀ (i : Nat) (h h1 : HrtfCur α F),
      (hrtfLead E smp data m.Source.NumChannels i h = .ok h1 ∨
        hrtfRampStep E smp data m.Source.NumChannels m.Source.Params.Step i h = .ok h1 ∨
        hrtfSteadyStep E smp data m.Source.NumChannels m.Source.Params.Step i h = .ok h1 ∨
        hrtfTrail E smp data m.Source.NumChannels i h = .ok h1) →
      P h.cur.mem → P h1.cur.mem)
    (hW : ∀ (out a i : Nat) (c c1 : Cur α F), (c.mem.Source.Params.Send out).Slot = some a →
      (c.mem.Slot a).effectType ≠ E.AL_EFFECT_NULL →
      (mixWetLead E smp data m.Source.NumChannels out a i c = .ok c1 ∨
        mixWetStep E smp data m.Source.NumChannels m.Source.Params.Step out a i c = .ok c1 ∨
        mixWetTrail E smp data m.Source.NumChannels out a i c = .ok c1) → P c.mem → P c1.mem)
    (e : Mix_Hrtf E smp m data p f o std n = .ok res) (hm : P m) : P res.mem := by
  unfold Mix_Hrtf at e
  simp only at e
  split at e
  · simp at e
  · next c1 e1 =>
    split at e
    · simp at e
    · next c2 e2 =>
      simp only [Except.ok.injEq] at e
      subst e
      have k1 : P c1.mem :=
        forLoop_inv _ (fun s : Cur α F => P s.mem)
          (fun i s s1 hs hb => hrtfChannel_keeps P (hH i) hb hs) _ _ _ _ hm e1
      exact forLoop_inv _ (fun s : Cur α F => P s.mem)
        (fun out s s1 hs hb => mixSend_keeps P (hW out) hb hs) _ _ _ _ k1 e2

end KeepLemmas

section HrtfFrame

variable {α F : Type} [Add α] [Sub α] [Mul α] [Div α] [IntCast α]

/-- No block of the wet path touches the device. -/
theorem wet_blocks_device {E : Env α F} {smp : SamplerId} {data : SrcPtr}
    {nc inc out a i : Nat} {c c1 : Cur α F}
    (h : mixWetLead E smp data nc out a i c = .ok c1 ∨
      mixWetStep E smp data nc inc out a i c = .ok c1 ∨
      mixWetTrail E smp data nc out a i c = .ok c1) : c1.mem.Device = c.mem.Device := by
  rcases h with h | h | h
  · unfold mixWetLead at h
    split at h
    · simp at h
    · simp only [Except.ok.injEq] at h
      rw [← h]; rfl
  · unfold mixWetStep at h
    split at h
    · simp at h
    · simp only [Except.ok.injEq] at h
      rw [← h]; rfl
  · unfold mixWetTrail at h
    split at h
    · simp at h
    · simp only [Except.ok.injEq] at h
      rw [← h]; rfl

theorem addFront_other (E : Env α F) (D : Nat → Nat → α) (o : Nat) (l r : α) (x ch : Nat)
    (hL : ch ≠ E.FRONT_LEFT) (hR : ch ≠ E.FRONT_RIGHT) : addFront E D o l r x ch = D x ch := by
  simp only [addFront]
  rw [if_neg (fun h => hR h.2), if_neg (fun h => hL h.2)]

theorem subFront_other (E : Env α F) (A : Nat → α) (l r : α) (ch : Nat)
    (hL : ch ≠ E.FRONT_LEFT) (hR : ch ≠ E.FRONT_RIGHT) : subFront E A l r ch = A ch := by
  simp only [subFront]
  rw [if_neg hR, if_neg hL]

theorem addFrontClick_other (E : Env α F) (A : Nat → α) (l r : α) (ch : Nat)
    (hL : ch ≠ E.FRONT_LEFT) (hR : ch ≠ E.FRONT_RIGHT) :
    addFrontClick E A l r ch = A ch := by
  simp only [addFrontClick]
  rw [if_neg hR, if_neg hL]

/-- Each block of the HRTF template leaves the device cells of every output channel other
than `FRONT_LEFT` and `FRONT_RIGHT` as they were. -/
theorem hrtf_blocks_front {E : Env α F} {smp : SamplerId} {data : SrcPtr} {nc inc i : Nat}
    {h h1 : HrtfCur α F} (ch : Nat) (hL : ch ≠ E.FRONT_LEFT) (hR : ch ≠ E.FRONT_RIGHT)
    (e : hrtfLead E smp data nc i h = .ok h1 ∨ hrtfRampStep E smp data nc inc i h = .ok h1 ∨
      hrtfSteadyStep E smp data nc inc i h = .ok h1 ∨ hrtfTrail E smp data nc i h = .ok h1) :
    (∀ r, h1.cur.mem.Device.DryBuffer r ch = h.cur.mem.Device.DryBuffer r ch) ∧
      h1.cur.mem.Device.ClickRemoval ch = h.cur.mem.Device.ClickRemoval ch ∧
      h1.cur.mem.Device.PendingClicks ch = h.cur.mem.Device.PendingClicks ch := by
  rcases e with e | e | e | e
  · unfold hrtfLead at e
    split at e
    · simp at e
    · simp only [Except.ok.injEq] at e
      rw [← e]
      exact ⟨fun r => rfl, subFront_other E _ _ _ ch hL hR, rfl⟩
  · unfold hrtfRampStep at e
    split at e
    · simp at e
    · simp only [Except.ok.injEq] at e
      rw [← e]
      exact ⟨fun r => addFront_other E _ _ _ _ r ch hL hR, rfl, rfl⟩
  · unfold hrtfSteadyStep at e
    split at e
    · simp at e
    · simp only [Except.ok.injEq] at e
      rw [← e]
      exact ⟨fun r => addFront_other E _ _ _ _ r ch hL hR, rfl, rfl⟩
  · unfold hrtfTrail at e
    split at e
    · simp at e
    · simp only [Except.ok.injEq] at e
      rw [← e]
      exact ⟨fun r => rfl, rfl, addFrontClick_other E _ _ _ ch hL hR⟩

/-- C18: the HRTF mixer contributes only to `FRONT_LEFT` and `FRONT_RIGHT`.  For every
returning call of a mixer of the HRTF template and every output channel `ch` other than
those two, every row of `dry_buffer` at `ch` and the cells `click_removal[ch]` and
`pending_clicks[ch]` of the device are as before the call. -/
theorem C18_hrtf_only_front (E : Env α F) (g : MixerFunc) (m : Mem α F) (data : SrcPtr)
    (p f o std n : Nat) (res : MixResult α F) (hg : g.isHrtf = true)
    (e : g.call E m data p f o std n = .ok res) (ch : Nat)
    (hL : ch ≠ E.FRONT_LEFT) (hR : ch ≠ E.FRONT_RIGHT) :
    (∀ r, res.mem.Device.DryBuffer r ch = m.Device.DryBuffer r ch) ∧
      res.mem.Device.ClickRemoval ch = m.Device.ClickRemoval ch ∧
      res.mem.Device.PendingClicks ch = m.Device.PendingClicks ch := by
  unfold MixerFunc.call at e
  rw [if_pos hg] at e
  refine Mix_Hrtf_keeps
    (fun x : Mem α F => (∀ r, x.Device.DryBuffer r ch = m.Device.DryBuffer r ch) ∧
      x.Device.ClickRemoval ch = m.Device.ClickRemoval ch ∧
      x.Device.PendingClicks ch = m.Device.PendingClicks ch) ?_ ?_ e ⟨fun _ => rfl, rfl, rfl⟩
  · intro i h h1 hb hP
    obtain ⟨q1, q2, q3⟩ := hrtf_blocks_front ch hL hR hb
    exact ⟨fun r => (q1 r).trans (hP.1 r), q2.trans hP.2.1, q3.trans hP.2.2⟩
  · intro out a i c c1 _ _ hb hP
    rw [wet_blocks_device hb]
    exact hP

end HrtfFrame

/-- C18 (witness): a call of the HRTF mixer for 8-bit samples with the point kernel, for two
samples of the window `[10, 20, 30]` that make up the whole slice, leaves output channel 2 of the
device alone. -/
theorem C18_hrtf_only_front_witness :
    MixerFunc.Mix_Hrtf_ALbyte_point8.isHrtf = true ∧
    MixerFunc.Mix_Hrtf_ALbyte_point8.call (exEnv 16384) exHrtfMem
        { bytes := [10, 20, 30], off := 0 } 0 0 0 2 2
      = .ok (exCall .Mix_Hrtf_ALbyte_point8 16384 exHrtfMem
          { bytes := [10, 20, 30], off := 0 } 0 0 0 2 2) ∧
    2 ≠ (exEnv 16384).FRONT_LEFT ∧ 2 ≠ (exEnv 16384).FRONT_RIGHT ∧
    ((∀ r, (exCall .Mix_Hrtf_ALbyte_point8 16384 exHrtfMem
        { bytes := [10, 20, 30], off := 0 } 0 0 0 2 2).mem.Device.DryBuffer r 2
        = exHrtfMem.Device.DryBuffer r 2) ∧
      (exCall .Mix_Hrtf_ALbyte_point8 16384 exHrtfMem
        { bytes := [10, 20, 30], off := 0 } 0 0 0 2 2).mem.Device.ClickRemoval 2
        = exHrtfMem.Device.ClickRemoval 2 ∧
      (exCall .Mix_Hrtf_ALbyte_point8 16384 exHrtfMem
        { bytes := [10, 20, 30], off := 0 } 0 0 0 2 2).mem.Device.PendingClicks 2
        = exHrtfMem.Device.PendingClicks 2) :=
  ⟨by decide, by rfl, by decide, by decide,
    C18_hrtf_only_front (exEnv 16384) .Mix_Hrtf_ALbyte_point8 exHrtfMem
      { bytes := [10, 20, 30], off := 0 } 0 0 0 2 2 _ (by decide) (by rfl) 2 (by decide)
      (by decide)⟩

/-! ## A silent source -/

section SilentSource

variable {α F : Type} [Field α]

theorem Mem.dry_same (m : Mem α F) (D : Nat → Nat → α) (h : D = m.Device.DryBuffer) :
    ({ m with Device := { m.Device with DryBuffer := D } } : Mem α F) = m := by
  subst h; rfl

theorem Mem.click_same (m : Mem α F) (C : Nat → α) (h : C = m.Device.ClickRemoval) :
    ({ m with Device := { m.Device with ClickRemoval := C } } : Mem α F) = m := by
  subst h; rfl

theorem Mem.pending_same (m : Mem α F) (C : Nat → α) (h : C = m.Device.PendingClicks) :
    ({ m with Device := { m.Device with PendingClicks := C } } : Mem α F) = m := by
  subst h; rfl

theorem Mem.setDryFilter_same (m : Mem α F) (f : F) (h : f = m.Source.Params.iirFilter) :
    m.setDryFilter f = m := by
  subst h; rfl

theorem Mem.setSendFilter_same (m : Mem α F) (out : Nat) (f : F)
    (h : f = (m.Source.Params.Send out).iirFilter) : m.setSendFilter out f = m := by
  subst h
  have e : (fun o => if o = out then
      { m.Source.Params.Send o with iirFilter := (m.Source.Params.Send out).iirFilter }
      else m.Source.Params.Send o) = m.Source.Params.Send := by
    funext o
    split
    · next ho => subst ho; rfl
    · rfl
  unfold Mem.setSendFilter
  rw [e]

theorem Mem.setSlot_same (m : Mem α F) (a : Nat) (s : ALeffectslot α) (h : s = m.Slot a) :
    m.setSlot a s = m := by
  subst h
  have e : (fun b => if b = a then m.Slot a else m.Slot b) = m.Slot := by
    funext b
    split
    · next hb => rw [hb]
    · rfl
  unfold Mem.setSlot
  rw [e]

theorem Mem.setHistory_same (m : Mem α F) (i k : Nat) (v : α)
    (h : v = m.Source.HrtfHistory i k) : m.setHistory i k v = m := by
  subst h
  have e : (fun j l => if j = i ∧ l = k then m.Source.HrtfHistory i k
      else m.Source.HrtfHistory j l) = m.Source.HrtfHistory := by
    funext j l
    split
    · next hb => rw [hb.1, hb.2]
    · rfl
  unfold Mem.setHistory
  rw [e]

theorem Mem.setValues_same (m : Mem α F) (i : Nat) (V : Nat → Nat → α)
    (h : V = m.Source.HrtfValues i) : m.setValues i V = m := by
  subst h
  have e : (fun j => if j = i then m.Source.HrtfValues i else m.Source.HrtfValues j)
      = m.Source.HrtfValues := by
    funext j
    split
    · next hb => rw [hb]
    · rfl
  unfold Mem.setValues
  rw [e]

/-- Taps fed with zero input leave the accumulation ring as it was. -/
theorem applyCoeffsLoop_zero (mask Offset : Nat) (Coeffs : Nat → Nat → α) :
    ∀ (n c : Nat) (V : Nat → Nat → α),
      applyCoeffsLoop mask Offset Coeffs 0 0 n c V = V := by
  intro n
  induction n with
  | zero => intro c V; rfl
  | succ n ih =>
    intro c V
    simp only [applyCoeffsLoop]
    rw [ih]
    funext k e
    by_cases h1 : k = u32 (Offset + c) &&& mask ∧ e = 1
    · obtain ⟨hk, he⟩ := h1
      subst hk he
      simp
    · rw [if_neg h1]
      by_cases h0 : k = u32 (Offset + c) &&& mask ∧ e = 0
      · obtain ⟨hk, he⟩ := h0
        subst hk he
        simp
      · rw [if_neg h0]

/-- Ramped taps fed with zero input leave the accumulation ring as it was. -/
theorem rampCoeffsLoop_zero (mask Offset : Nat) (CoeffStep : Nat → Nat → α) :
    ∀ (n c : Nat) (V C : Nat → Nat → α),
      (rampCoeffsLoop mask Offset CoeffStep 0 0 n c (V, C)).1 = V := by
  intro n
  induction n with
  | zero => intro c V C; rfl
  | succ n ih =>
    intro c V C
    simp only [rampCoeffsLoop]
    rw [ih]
    funext k e
    by_cases h1 : k = u32 (Offset + c) &&& mask ∧ e = 1
    · obtain ⟨hk, he⟩ := h1
      subst hk he
      simp
    · rw [if_neg h1]
      by_cases h0 : k = u32 (Offset + c) &&& mask ∧ e = 0
      · obtain ⟨hk, he⟩ := h0
        subst hk he
        simp
      · rw [if_neg h0]

theorem addFront_zero (E : Env α F) (D : Nat → Nat → α) (o : Nat) : addFront E D o 0 0 = D := by
  funext r ch
  simp only [addFront]
  by_cases h1 : r = o ∧ ch = E.FRONT_RIGHT
  · obtain ⟨hk, he⟩ := h1
    subst hk he
    by_cases h0 : E.FRONT_RIGHT = E.FRONT_LEFT
    · simp [h0]
    · simp [h0]
  · rw [if_neg h1]
    by_cases h0 : r = o ∧ ch = E.FRONT_LEFT
    · obtain ⟨hk, he⟩ := h0
      subst hk he
      simp
    · rw [if_neg h0]

theorem subFront_zero (E : Env α F) (A : Nat → α) : subFront E A 0 0 = A := by
  funext ch
  simp only [subFront]
  by_cases h1 : ch = E.FRONT_RIGHT
  · rw [if_pos h1]
    by_cases h0 : E.FRONT_RIGHT = E.FRONT_LEFT
    · rw [if_pos h0, h1, h0]; simp
    · rw [if_neg h0, h1]; simp
  · rw [if_neg h1]
    by_cases h0 : ch = E.FRONT_LEFT
    · rw [if_pos h0, h0]; simp
    · rw [if_neg h0]

theorem addFrontClick_zero (E : Env α F) (A : Nat → α) : addFrontClick E A 0 0 = A := by
  funext ch
  simp only [addFrontClick]
  by_cases h1 : ch = E.FRONT_RIGHT
  · rw [if_pos h1]
    by_cases h0 : E.FRONT_RIGHT = E.FRONT_LEFT
    · rw [if_pos h0, h1, h0]; simp
    · rw [if_neg h0, h1]; simp
  · rw [if_neg h1]
    by_cases h0 : ch = E.FRONT_LEFT
    · rw [if_pos h0, h0]; simp
    · rw [if_neg h0]

theorem clearCell_zero (V : Nat → Nat → α) (k : Nat) (h : ∀ j e, V j e = 0) :
    clearCell V k = V := by
  funext j e
  simp only [clearCell]
  split
  · rw [h]; simp
  · rfl

/-- The blocks of the dry path of the plain mixer leave the memory of a silent source with a
dry filter at rest as it is. -/
theorem silent_dry_blocks {E : Env α F} {smp : SamplerId} {data : SrcPtr} {nc inc i : Nat}
    {m : Mem α F} {DrySend : Nat → α} {c c1 : Cur α F}
    (hS : ∀ pos frac i v, sample E smp data nc pos frac i = .ok v → v = 0)
    (hF : ∀ i, E.lpFilter2P m.Source.Params.iirFilter i 0 = (m.Source.Params.iirFilter, 0) ∧
      E.lpFilter2PC m.Source.Params.iirFilter i 0 = 0)
    (h : mixDryLead E smp data nc i DrySend c = .ok c1 ∨
      mixDryStep E smp data nc inc i DrySend c = .ok c1 ∨
      mixDryTrail E smp data nc i DrySend c = .ok c1)
    (hc : c.mem = m) : c1.mem = m := by
  rcases h with h | h | h
  · unfold mixDryLead at h
    split at h
    · simp at h
    · next value hv =>
      have hz := hS _ _ _ _ hv
      subst hz
      simp only [Except.ok.injEq] at h
      rw [← h]
      show ({ c.mem with Device := { c.mem.Device with ClickRemoval := _ } } : Mem α F) = m
      rw [hc]
      refine Mem.click_same m _ ?_
      funext ch
      rw [(hF i).2]
      split <;> simp
  · unfold mixDryStep at h
    split at h
    · simp at h
    · next value hv =>
      have hz := hS _ _ _ _ hv
      subst hz
      simp only [Except.ok.injEq] at h
      rw [← h]
      show ({ c.mem.setDryFilter _ with Device := { (c.mem.setDryFilter _).Device with
        DryBuffer := _ } } : Mem α F) = m
      rw [hc, (hF i).1]
      rw [Mem.setDryFilter_same m _ rfl]
      refine Mem.dry_same m _ ?_
      funext o ch
      split <;> simp
  · unfold mixDryTrail at h
    split at h
    · simp at h
    · next value hv =>
      have hz := hS _ _ _ _ hv
      subst hz
      simp only [Except.ok.injEq] at h
      rw [← h]
      show ({ c.mem with Device := { c.mem.Device with PendingClicks := _ } } : Mem α F) = m
      rw [hc]
      refine Mem.pending_same m _ ?_
      funext ch
      rw [(hF i).2]
      split <;> simp


/-- The blocks of the wet path leave the memory of a silent source with send filters at rest
as it is. -/
theorem silent_wet_blocks {E : Env α F} {smp : SamplerId} {data : SrcPtr}
    {nc inc out a i : Nat} {m : Mem α F} {c c1 : Cur α F}
    (hS : ∀ pos frac i v, sample E smp data nc pos frac i = .ok v → v = 0)
    (hF : ∀ out i, E.lpFilter1P (m.Source.Params.Send out).iirFilter i 0
        = ((m.Source.Params.Send out).iirFilter, 0) ∧
      E.lpFilter1PC (m.Source.Params.Send out).iirFilter i 0 = 0)
    (h : mixWetLead E smp data nc out a i c = .ok c1 ∨
      mixWetStep E smp data nc inc out a i c = .ok c1 ∨
      mixWetTrail E smp data nc out a i c = .ok c1)
    (hc : c.mem = m) : c1.mem = m := by
  rcases h with h | h | h
  · unfold mixWetLead at h
    split at h
    · simp at h
    · next value hv =>
      have hz := hS _ _ _ _ hv
      subst hz
      simp only [Except.ok.injEq] at h
      rw [← h]
      show c.mem.setSlot a _ = m
      rw [hc]
      refine Mem.setSlot_same m a _ ?_
      have e : (fun k => if k = 0 then (m.Slot a).ClickRemoval 0
          - E.lpFilter1PC (m.Source.Params.Send out).iirFilter i 0
            * (m.Source.Params.Send out).WetGain
          else (m.Slot a).ClickRemoval k) = (m.Slot a).ClickRemoval := by
        funext k
        rw [(hF out i).2]
        split
        · next hk => rw [hk]; simp
        · rfl
      rw [e]
  · unfold mixWetStep at h
    split at h
    · simp at h
    · next value hv =>
      have hz := hS _ _ _ _ hv
      subst hz
      simp only [Except.ok.injEq] at h
      rw [← h]
      show (c.mem.setSendFilter out _).setSlot a _ = m
      rw [hc, (hF out i).1]
      simp only []
      rw [Mem.setSendFilter_same m out _ rfl]
      refine Mem.setSlot_same m a _ ?_
      have e : (fun o => if o = c.OutPos then (m.Slot a).WetBuffer o
          + 0 * (m.Source.Params.Send out).WetGain else (m.Slot a).WetBuffer o)
          = (m.Slot a).WetBuffer := by
        funext o
        split <;> simp
      rw [e]
  · unfold mixWetTrail at h
    split at h
    · simp at h
    · next value hv =>
      have hz := hS _ _ _ _ hv
      subst hz
      simp only [Except.ok.injEq] at h
      rw [← h]
      show c.mem.setSlot a _ = m
      rw [hc]
      refine Mem.setSlot_same m a _ ?_
      have e : (fun k => if k = 0 then (m.Slot a).PendingClicks 0
          + E.lpFilter1PC (m.Source.Params.Send out).iirFilter i 0
            * (m.Source.Params.Send out).WetGain
          else (m.Slot a).PendingClicks k) = (m.Slot a).PendingClicks := by
        funext k
        rw [(hF out i).2]
        split
        · next hk => rw [hk]; simp
        · rfl
      rw [e]

/-- The blocks of the HRTF template leave the memory of a silent source as it is, if the dry
filter is at rest and the HRTF history and accumulation ring are zero. -/
theorem silent_hrtf_blocks {E : Env α F} {smp : SamplerId} {data : SrcPtr} {nc inc i : Nat}
    {m : Mem α F} {h h1 : HrtfCur α F}
    (hS : ∀ pos frac i v, sample E smp data nc pos frac i = .ok v → v = 0)
    (hF : ∀ i, E.lpFilter2P m.Source.Params.iirFilter i 0 = (m.Source.Params.iirFilter, 0) ∧
      E.lpFilter2PC m.Source.Params.iirFilter i 0 = 0)
    (hH : ∀ i k, m.Source.HrtfHistory i k = 0) (hV : ∀ i k e, m.Source.HrtfValues i k e = 0)
    (e : hrtfLead E smp data nc i h = .ok h1 ∨ hrtfRampStep E smp data nc inc i h = .ok h1 ∨
      hrtfSteadyStep E smp data nc inc i h = .ok h1 ∨ hrtfTrail E smp data nc i h = .ok h1)
    (hc : h.cur.mem = m) : h1.cur.mem = m := by
  rcases e with e | e | e | e
  · unfold hrtfLead at e
    split at e
    · simp at e
    · next value hv =>
      have hz := hS _ _ _ _ hv
      subst hz
      simp only [Except.ok.injEq] at e
      rw [← e]
      simp only []
      rw [hc, (hF i).2, Mem.setHistory_same m _ _ _ (hH _ _).symm]
      refine Mem.click_same m _ ?_
      rw [hH, hH, hV, hV]
      simp only [mul_zero, add_zero]
      exact subFront_zero E _
  · unfold hrtfRampStep at e
    split at e
    · simp at e
    · next value hv =>
      have hz := hS _ _ _ _ hv
      subst hz
      simp only [Except.ok.injEq] at e
      rw [← e]
      simp only [Cur.advance]
      rw [hc, (hF i).1]
      simp only []
      rw [Mem.setDryFilter_same m _ rfl, Mem.setHistory_same m _ _ _ (hH _ _).symm]
      rw [hH, hH, clearCell_zero _ _ (hV i), rampCoeffsLoop_zero,
        Mem.setValues_same m _ _ rfl]
      refine Mem.dry_same m _ ?_
      rw [hV, hV]
      exact addFront_zero E _ _
  · unfold hrtfSteadyStep at e
    split at e
    · simp at e
    · next value hv =>
      have hz := hS _ _ _ _ hv
      subst hz
      simp only [Except.ok.injEq] at e
      rw [← e]
      simp only [Cur.advance]
      rw [hc, (hF i).1]
      simp only []
      rw [Mem.setDryFilter_same m _ rfl, Mem.setHistory_same m _ _ _ (hH _ _).symm]
      rw [hH, hH, clearCell_zero _ _ (hV i)]
      unfold ApplyCoeffs
      rw [applyCoeffsLoop_zero, Mem.setValues_same m _ _ rfl]
      refine Mem.dry_same m _ ?_
      rw [hV, hV]
      exact addFront_zero E _ _
  · unfold hrtfTrail at e
    split at e
    · simp at e
    · next value hv =>
      have hz := hS _ _ _ _ hv
      subst hz
      simp only [Except.ok.injEq] at e
      rw [← e]
      simp only []
      rw [hc, (hF i).2, Mem.setHistory_same m _ _ _ (hH _ _).symm]
      refine Mem.pending_same m _ ?_
      rw [hH, hH, hV, hV]
      simp only [mul_zero, add_zero]
      exact addFrontClick_zero E _

/-- C20 (amended): a mixer call (plain or HRTF) on a silent source - every sample the kernel
returns is zero - leaves the whole memory, and so `dry_buffer`, every `wet_buffer`,
`click_removal` and `pending_clicks`, unchanged in exact arithmetic, whatever the gains, the
step, the HRTF coefficients and the delays, provided that the dry filter and the filters of
the sends are at rest (they answer a zero sample with zero and keep their state) and, for an
HRTF mixer, the HRTF history and the `hrtf_values` ring of the source are zero. -/
theorem C20_silent_source (E : Env α F) (g : MixerFunc) (m : Mem α F) (data : SrcPtr)
    (p f o std n : Nat) (res : MixResult α F)
    (hS : ∀ pos frac i v,
      sample E g.sampler data m.Source.NumChannels pos frac i = .ok v → v = 0)
    (hF : ∀ i, E.lpFilter2P m.Source.Params.iirFilter i 0 = (m.Source.Params.iirFilter, 0) ∧
      E.lpFilter2PC m.Source.Params.iirFilter i 0 = 0)
    (hF1 : ∀ out i, E.lpFilter1P (m.Source.Params.Send out).iirFilter i 0
        = ((m.Source.Params.Send out).iirFilter, 0) ∧
      E.lpFilter1PC (m.Source.Params.Send out).iirFilter i 0 = 0)
    (hH : g.isHrtf = true →
      (∀ i k, m.Source.HrtfHistory i k = 0) ∧ ∀ i k e, m.Source.HrtfValues i k e = 0)
    (e : g.call E m data p f o std n = .ok res) :
    res.mem = m ∧ res.mem.Device.DryBuffer = m.Device.DryBuffer ∧
      res.mem.Device.ClickRemoval = m.Device.ClickRemoval ∧
      res.mem.Device.PendingClicks = m.Device.PendingClicks ∧
      ∀ a, (res.mem.Slot a).WetBuffer = (m.Slot a).WetBuffer ∧
        (res.mem.Slot a).ClickRemoval = (m.Slot a).ClickRemoval ∧
        (res.mem.Slot a).PendingClicks = (m.Slot a).PendingClicks := by
  have key : res.mem = m := by
    unfold MixerFunc.call at e
    split at e
    · next hg =>
      obtain ⟨q1, q2⟩ := hH hg
      exact Mix_Hrtf_keeps (fun x : Mem α F => x = m)
        (fun i h h1 hb hc => silent_hrtf_blocks hS hF q1 q2 hb hc)
        (fun out a i c c1 _ _ hb hc => silent_wet_blocks hS hF1 hb hc) e rfl
    · exact Mix_keeps (fun x : Mem α F => x = m)
        (fun i DrySend c c1 hb hc => silent_dry_blocks hS hF hb hc)
        (fun out a i c c1 _ _ hb hc => silent_wet_blocks hS hF1 hb hc) e rfl
  rw [key]
  exact ⟨rfl, rfl, rfl, rfl, fun a => ⟨rfl, rfl, rfl⟩⟩

end SilentSource

/-- The 8-bit point kernel finds only zero samples in a window of three zero bytes. -/
theorem exSilent3 {F : Type} (E : Env ℚ F) (hE : E.ofByte [0] = 0) (pos frac i : Nat) (v : ℚ)
    (h : sample E .point8 { bytes := [0, 0, 0], off := 0 } 1 pos frac i = .ok v) : v = 0 := by
  simp only [sample, SamplerId.run, point8, elemAt, SrcPtr.read, SamplerId.sizeofT] at h
  split at h
  · simp at h
  · next v0 hv =>
    split at hv
    · next hb =>
      simp only [Except.ok.injEq] at hv h
      have hk : ((0 : Int) + ((u32 (pos * 1) : Nat) + (i : Int) + 0) * ((1 : Nat) : Int)).toNat
          < 3 := by
        have := hb.2
        simp only [List.length_cons, List.length_nil] at this
        omega
      have e0 : v0 = [0] := by
        rw [← hv]
        generalize ((0 : Int) + ((u32 (pos * 1) : Nat) + (i : Int) + 0)
          * ((1 : Nat) : Int)).toNat = k at hk
        interval_cases k <;> rfl
      rw [← h, e0, hE]
      simp
    · simp at hv

/-- C20 (witness): the HRTF mixer for 8-bit samples with the point kernel, called for two
samples of a window of three zero bytes on a source with zero HRTF history and ring and
pass-through filters, leaves the memory as it is. -/
theorem C20_silent_source_witness :
    MixerFunc.Mix_Hrtf_ALbyte_point8.call (exEnv 16384) exHrtfMem
        { bytes := [0, 0, 0], off := 0 } 0 0 0 2 2
      = .ok (exCall .Mix_Hrtf_ALbyte_point8 16384 exHrtfMem
          { bytes := [0, 0, 0], off := 0 } 0 0 0 2 2) ∧
    (exCall .Mix_Hrtf_ALbyte_point8 16384 exHrtfMem
      { bytes := [0, 0, 0], off := 0 } 0 0 0 2 2).mem = exHrtfMem :=
  ⟨by rfl, (C20_silent_source (exEnv 16384) .Mix_Hrtf_ALbyte_point8 exHrtfMem
    { bytes := [0, 0, 0], off := 0 } 0 0 0 2 2 _
    (exSilent3 (exEnv 16384) (by norm_num [exEnv]))
    (fun _ => ⟨rfl, rfl⟩) (fun _ _ => ⟨rfl, rfl⟩) (fun _ => ⟨fun _ _ => rfl, fun _ _ _ => rfl⟩)
    (by rfl)).1⟩

theorem exHrtfRing_dry :
    (exCall .Mix_Hrtf_ALbyte_point8 16384 exHrtfRing
      { bytes := [0, 0, 0], off := 0 } 0 0 0 2 2).mem.Device.DryBuffer 0 0
    = (0 : ℚ) + ((1 : ℚ) + ((1 : ℚ) - (0 : ℚ) * ((0 : ℤ) : ℚ))
        * ((exEnv 16384).ofByte [0] * recip ℚ 127)) := by
  rfl

theorem exMemoryMem_dry :
    (okOr { mem := exMemoryMem 1, DataPosInt := 0, DataPosFrac := 0 }
      (MixerFunc.Mix_ALbyte_point8.call exEnvMemory (exMemoryMem 1)
        { bytes := [0, 0, 0], off := 0 } 0 0 0 2 2)).mem.Device.DryBuffer 0 0
    = (0 : ℚ) + (((exEnv 16384).ofByte [0] * recip ℚ 127 + 1) / 2) * 1 := by
  rfl

/-- C20 (counterexample): two calls on a window of three zero bytes, where every sample is
zero.  The HRTF mixer, on a source whose `hrtf_values` ring holds 1 in every cell, adds 1 to
`dry_buffer[0][FRONT_LEFT]`; the plain mixer, with a dry filter that has memory and is in
state 1, adds `1/2` to `dry_buffer[0][0]`. -/
theorem C20_counterexample :
    (∀ pos frac i v, sample (exEnv 16384) .point8 { bytes := [0, 0, 0], off := 0 } 1
      pos frac i = .ok v → v = 0) ∧
    MixerFunc.Mix_Hrtf_ALbyte_point8.call (exEnv 16384) exHrtfRing
        { bytes := [0, 0, 0], off := 0 } 0 0 0 2 2
      = .ok (exCall .Mix_Hrtf_ALbyte_point8 16384 exHrtfRing
          { bytes := [0, 0, 0], off := 0 } 0 0 0 2 2) ∧
    exHrtfRing.Device.DryBuffer 0 0 = 0 ∧
    (exCall .Mix_Hrtf_ALbyte_point8 16384 exHrtfRing
      { bytes := [0, 0, 0], off := 0 } 0 0 0 2 2).mem.Device.DryBuffer 0 0 = 1 ∧
    (∀ pos frac i v, sample exEnvMemory .point8 { bytes := [0, 0, 0], off := 0 } 1
      pos frac i = .ok v → v = 0) ∧
    (∃ res, MixerFunc.Mix_ALbyte_point8.call exEnvMemory (exMemoryMem 1)
        { bytes := [0, 0, 0], off := 0 } 0 0 0 2 2 = .ok res ∧
      (exMemoryMem 1).Device.DryBuffer 0 0 = 0 ∧ res.mem.Device.DryBuffer 0 0 = 1 / 2) := by
  have hb : (exEnv 16384).ofByte [0] = 0 := by norm_num [exEnv]
  refine ⟨exSilent3 (exEnv 16384) hb, by rfl, rfl, ?_, exSilent3 exEnvMemory hb,
    okOr { mem := exMemoryMem 1, DataPosInt := 0, DataPosFrac := 0 }
      (MixerFunc.Mix_ALbyte_point8.call exEnvMemory (exMemoryMem 1)
        { bytes := [0, 0, 0], off := 0 } 0 0 0 2 2), by rfl, rfl, ?_⟩
  · rw [exHrtfRing_dry, hb]; norm_num
  · rw [exMemoryMem_dry, hb]; norm_num

/-! ## The HRTF mixer with the identity response -/

section HrtfIdentityLemmas

variable {α F : Type} [Field α]

/-- Taps with coefficient zero leave the accumulation ring as it was. -/
theorem applyCoeffsLoop_zero_taps (mask Offset : Nat) (Coeffs : Nat → Nat → α) (l r : α) :
    ∀ (n c : Nat) (V : Nat → Nat → α),
      (∀ k, c ≤ k → k < c + n → Coeffs k 0 = 0 ∧ Coeffs k 1 = 0) →
      applyCoeffsLoop mask Offset Coeffs l r n c V = V := by
  intro n
  induction n with
  | zero => intro c V _; rfl
  | succ n ih =>
    intro c V hz
    simp only [applyCoeffsLoop]
    rw [ih _ _ (fun k hk hk1 => hz k (by omega) (by omega))]
    funext k e
    by_cases h1 : k = u32 (Offset + c) &&& mask ∧ e = 1
    · obtain ⟨hk, he⟩ := h1
      subst hk he
      simp [(hz c (le_refl c) (by omega)).2]
    · rw [if_neg h1]
      by_cases h0 : k = u32 (Offset + c) &&& mask ∧ e = 0
      · obtain ⟨hk, he⟩ := h0
        subst hk he
        simp [(hz c (le_refl c) (by omega)).1]
      · rw [if_neg h0]

theorem HRIR_LENGTH_pos (E : Env α F) : 0 < E.HRIR_LENGTH := by
  unfold Env.HRIR_LENGTH
  rw [Nat.one_shiftLeft]
  exact Nat.two_pow_pos _

theorem and_HRIR_MASK_lt (E : Env α F) (x : Nat) : x &&& E.HRIR_MASK < E.HRIR_LENGTH := by
  unfold Env.HRIR_MASK Env.HRIR_LENGTH
  rw [Nat.one_shiftLeft, Nat.and_pow_two_sub_one_eq_mod]
  exact Nat.mod_lt _ (Nat.two_pow_pos _)

/-- The identity response adds the inputs to the cell at the offset and leaves the other
cells of the ring as they were. -/
theorem ApplyCoeffs_identity (E : Env α F) (Offset : Nat) (hO : Offset < 4294967296)
    (V Coeffs : Nat → Nat → α) (l r : α) (h1 : Coeffs 0 0 = 1 ∧ Coeffs 0 1 = 1)
    (h0 : ∀ k, 0 < k → k < E.HRIR_LENGTH → Coeffs k 0 = 0 ∧ Coeffs k 1 = 0) :
    ApplyCoeffs E Offset V Coeffs l r
      = fun k e => if k = Offset &&& E.HRIR_MASK ∧ e = 1 then V k 1 + r
          else if k = Offset &&& E.HRIR_MASK ∧ e = 0 then V k 0 + l else V k e := by
  unfold ApplyCoeffs
  obtain ⟨n, hn⟩ := Nat.exists_eq_succ_of_ne_zero (HRIR_LENGTH_pos E).ne'
  rw [hn]
  simp only [applyCoeffsLoop]
  rw [applyCoeffsLoop_zero_taps _ _ _ _ _ _ _ _ (fun k hk hk1 => h0 k (by omega) (by omega))]
  have e0 : u32 (Offset + 0) = Offset := u32_small _ (by omega)
  rw [e0]
  funext k e
  by_cases c1 : k = Offset &&& E.HRIR_MASK ∧ e = 1
  · rw [if_pos c1, if_pos c1, c1.1]
    simp [h1.2]
  · rw [if_neg c1, if_neg c1]
    by_cases c0 : k = Offset &&& E.HRIR_MASK ∧ e = 0
    · rw [if_pos c0, if_pos c0, c0.1]
      simp [h1.1]
    · rw [if_neg c0, if_neg c0]

theorem usub_zero (a : Nat) (h : a < 4294967296) : usub a 0 = a := by
  unfold usub
  omega

theorem addFront_same (E : Env α F) (D : Nat → Nat → α) (o : Nat) (v : α) :
    addFront E D o v v = specFrontStep E.FRONT_LEFT E.FRONT_RIGHT o D v := by
  funext r c
  simp only [addFront, specFrontStep]
  by_cases h1 : r = o ∧ c = E.FRONT_RIGHT
  · obtain ⟨hr, hc⟩ := h1
    subst hr hc
    simp only [and_self, if_true, true_and]
    split
    · next hh => rw [hh]
    · rfl
  · rw [if_neg h1, if_neg h1]
    by_cases h0 : r = o ∧ c = E.FRONT_LEFT
    · obtain ⟨hr, hc⟩ := h0
      subst hr hc
      simp
    · rw [if_neg h0, if_neg h0]

/-- One pass of the steady loop with the identity response: the filtered sample goes to the
row of the step at `FRONT_LEFT` and `FRONT_RIGHT`. -/
theorem hrtfSteadyStep_identity {E : Env α F} {smp : SamplerId} {data : SrcPtr}
    {nc inc i : Nat} {h h1 : HrtfCur α F}
    (e : hrtfSteadyStep E smp data nc inc i h = .ok h1) (hI : HrtfIdentity E i h) :
    ∃ v, sample E smp data nc h.cur.pos h.cur.frac i = .ok v ∧
      h1.cur.mem.Source.Params.iirFilter
        = (E.lpFilter2P h.cur.mem.Source.Params.iirFilter i v).1 ∧
      h1.cur.mem.Device.DryBuffer
        = specFrontStep E.FRONT_LEFT E.FRONT_RIGHT h.cur.OutPos h.cur.mem.Device.DryBuffer
            (E.lpFilter2P h.cur.mem.Source.Params.iirFilter i v).2 ∧
      h1.cur.ph = phaseStep inc h.cur.ph ∧
      h1.cur.OutPos = u32 (h.cur.OutPos + 1) ∧
      HrtfIdentity E i h1 ∧
      (∀ j, j ≠ i → h1.cur.mem.Source.HrtfValues j = h.cur.mem.Source.HrtfValues j) := by
  unfold hrtfSteadyStep at e
  split at e
  · simp at e
  · next value hv =>
    simp only [Except.ok.injEq] at e
    refine ⟨value, hv, ?_⟩
    obtain ⟨d0, d1⟩ := hI.delay
    have hoff := hI.offset
    have hlt := and_HRIR_MASK_lt E (u32 (h.Offset + 1))
    have hV0 : ∀ k, k < E.HRIR_LENGTH → ∀ e1, e1 = 0 ∨ e1 = 1 →
        clearCell (h.cur.mem.Source.HrtfValues i) (h.Offset &&& E.HRIR_MASK) k e1 = 0 := by
      intro k hk e1 he1
      simp only [clearCell]
      split
      · simp
      · next hne =>
        have hk2 : k ≠ h.Offset &&& E.HRIR_MASK := fun hh => hne ⟨hh, he1⟩
        rcases he1 with he1 | he1
        · rw [he1]; exact (hI.ring k hk hk2).1
        · rw [he1]; exact (hI.ring k hk hk2).2
    have hleft : ((h.cur.mem.setDryFilter
          (E.lpFilter2P h.cur.mem.Source.Params.iirFilter i value).1).setHistory i
          (h.Offset &&& E.SRC_HISTORY_MASK)
          (E.lpFilter2P h.cur.mem.Source.Params.iirFilter i value).2).Source.HrtfHistory i
          (usub h.Offset 0 &&& E.SRC_HISTORY_MASK)
        = (E.lpFilter2P h.cur.mem.Source.Params.iirFilter i value).2 := by
      rw [usub_zero _ hoff]
      simp [Mem.setHistory]
    have hVal : ((h.cur.mem.setDryFilter
          (E.lpFilter2P h.cur.mem.Source.Params.iirFilter i value).1).setHistory i
          (h.Offset &&& E.SRC_HISTORY_MASK)
          (E.lpFilter2P h.cur.mem.Source.Params.iirFilter i value).2).Source.HrtfValues i
        = h.cur.mem.Source.HrtfValues i := rfl
    rw [d0, d1, hleft, hVal,
      ApplyCoeffs_identity E _ (by unfold u32; omega) _ _ _ _ hI.coeff1 hI.coeff0] at e
    rw [← e]
    refine ⟨rfl, ?_, rfl, rfl, ?_, ?_⟩
    · simp only [Cur.advance]
      have := addFront_same E h.cur.mem.Device.DryBuffer h.cur.OutPos
        (E.lpFilter2P h.cur.mem.Source.Params.iirFilter i value).2
      rw [← this]
      simp [Mem.setValues, Mem.setHistory, Mem.setDryFilter, hV0 _ hlt]
    · refine ⟨hI.coeff1, hI.coeff0, ⟨rfl, rfl⟩, by show u32 _ < _; unfold u32; omega, ?_⟩
      intro k hk hne
      simp only [Cur.advance, Mem.setValues, if_true]
      rw [if_neg (fun hh => hne hh.1), if_neg (fun hh => hne hh.1),
        if_neg (fun hh => hne hh.1), if_neg (fun hh => hne hh.1)]
      exact ⟨hV0 k hk 0 (Or.inl rfl), hV0 k hk 1 (Or.inr rfl)⟩
    · intro j hj
      simp only [Cur.advance, Mem.setValues, Mem.setHistory, Mem.setDryFilter, if_neg hj]

/-- The steady loop with the identity response: its filtered samples go to successive rows
at `FRONT_LEFT` and `FRONT_RIGHT`. -/
theorem hrtfSteady_identity {E : Env α F} {smp : SamplerId} {data : SrcPtr} {nc inc i : Nat} :
    ∀ (n i0 : Nat) (h h1 : HrtfCur α F),
      forLoop (fun _ => hrtfSteadyStep E smp data nc inc i) n i0 h = .ok h1 →
      HrtfIdentity E i h → h.cur.OutPos < 4294967296 →
      ∃ vs, specStream E smp data nc inc i E.lpFilter2P n h.cur.ph
              h.cur.mem.Source.Params.iirFilter
            = .ok (h1.cur.mem.Source.Params.iirFilter, vs) ∧
        h1.cur.mem.Device.DryBuffer
          = specAddFront E.FRONT_LEFT E.FRONT_RIGHT h.cur.OutPos h.cur.mem.Device.DryBuffer vs ∧
        h1.cur.OutPos = u32 (h.cur.OutPos + n) ∧
        (∀ j, j ≠ i → h1.cur.mem.Source.HrtfValues j = h.cur.mem.Source.HrtfValues j) := by
  intro n
  induction n with
  | zero =>
    intro i0 h h1 e _ ho
    simp only [forLoop, Except.ok.injEq] at e
    subst e
    exact ⟨[], rfl, rfl, (u32_small _ (by omega)).symm, fun _ _ => rfl⟩
  | succ n ih =>
    intro i0 h h1 e hI ho
    simp only [forLoop] at e
    split at e
    · next h2 e2 =>
      obtain ⟨v, hv, q1, q2, q3, q4, q5, q6⟩ := hrtfSteadyStep_identity e2 hI
      obtain ⟨vs, r1, r2, r3, r4⟩ := ih _ _ _ e q5 (by rw [q4]; unfold u32; omega)
      refine ⟨(E.lpFilter2P h.cur.mem.Source.Params.iirFilter i v).2 :: vs, ?_, ?_, ?_, ?_⟩
      · simp only [specStream]
        have hv2 : sample E smp data nc h.cur.ph.1 h.cur.ph.2 i = .ok v := hv
        rw [hv2]
        simp only []
        rw [← q1, ← q3, r1]
      · rw [r2, q2, q4]
        rfl
      · rw [r3, q4]
        simp only [u32]
        omega
      · intro j hj
        rw [r4 j hj, q6 j hj]
    · simp at e

/-- What the click-removal blocks of the HRTF template leave alone. -/
theorem hrtf_click_frame {E : Env α F} {smp : SamplerId} {data : SrcPtr} {nc i : Nat}
    {h h1 : HrtfCur α F}
    (e : hrtfLead E smp data nc i h = .ok h1 ∨ hrtfTrail E smp data nc i h = .ok h1) :
    h1.Counter = h.Counter ∧ h1.Offset = h.Offset ∧ h1.Coeffs = h.Coeffs ∧
      h1.Delay0 = h.Delay0 ∧ h1.Delay1 = h.Delay1 ∧ h1.cur.pos = h.cur.pos ∧
      h1.cur.frac = h.cur.frac ∧ h1.cur.OutPos = h.cur.OutPos ∧
      h1.cur.mem.Source.Params.iirFilter = h.cur.mem.Source.Params.iirFilter ∧
      h1.cur.mem.Device.DryBuffer = h.cur.mem.Device.DryBuffer ∧
      h1.cur.mem.Source.HrtfValues = h.cur.mem.Source.HrtfValues := by
  rcases e with e | e
  · unfold hrtfLead at e
    split at e
    · simp at e
    · simp only [Except.ok.injEq] at e
      rw [← e]
      exact ⟨rfl, rfl, rfl, rfl, rfl, rfl, rfl, rfl, rfl, rfl, rfl⟩
  · unfold hrtfTrail at e
    split at e
    · simp at e
    · simp only [Except.ok.injEq] at e
      rw [← e]
      exact ⟨rfl, rfl, rfl, rfl, rfl, rfl, rfl, rfl, rfl, rfl, rfl⟩

/-- The ramped loop does nothing when the ramp is over. -/
theorem hrtfRamp_over {E : Env α F} {smp : SamplerId} {data : SrcPtr} {nc inc i : Nat}
    (n : Nat) (h : HrtfCur α F) (hC : h.Counter = 0) :
    hrtfRamp E smp data nc inc i n h = .ok (n, h) := by
  cases n with
  | zero => rfl
  | succ n =>
    simp only [hrtfRamp]
    rw [if_neg (by rw [hC]; decide)]

theorem usub_self (a : Nat) : usub a a = 0 := by
  unfold usub
  omega

theorem usub_u32_add (o n : Nat) (ho : o < 4294967296) : usub (u32 (o + n)) n = o := by
  unfold usub u32
  omega

/-- The channel loop body of the HRTF template with the identity response and no ramp: the
filtered samples of the channel go to the rows of the call at `FRONT_LEFT` and
`FRONT_RIGHT`. -/
theorem hrtfChannel_identity {E : Env α F} {smp : SamplerId} {data : SrcPtr}
    {nc inc f std n i : Nat} {c c1 : Cur α F}
    (e : hrtfChannel E smp data nc inc f std n i c = .ok c1)
    (hC : c.mem.Source.HrtfCounter = 0)
    (h1 : c.mem.Source.Params.HrtfCoeffs i 0 0 = 1 ∧ c.mem.Source.Params.HrtfCoeffs i 0 1 = 1)
    (h0 : ∀ k, 0 < k → k < E.HRIR_LENGTH →
      c.mem.Source.Params.HrtfCoeffs i k 0 = 0 ∧ c.mem.Source.Params.HrtfCoeffs i k 1 = 0)
    (hD : c.mem.Source.Params.HrtfDelay i 0 = 0 ∧ c.mem.Source.Params.HrtfDelay i 1 = 0)
    (hV : ∀ k, k < E.HRIR_LENGTH →
      c.mem.Source.HrtfValues i k 0 = 0 ∧ c.mem.Source.HrtfValues i k 1 = 0)
    (ho : c.OutPos < 4294967296) :
    ∃ vs, specStream E smp data nc inc i E.lpFilter2P n (0, f) c.mem.Source.Params.iirFilter
            = .ok (c1.mem.Source.Params.iirFilter, vs) ∧
      c1.mem.Device.DryBuffer
        = specAddFront E.FRONT_LEFT E.FRONT_RIGHT c.OutPos c.mem.Device.DryBuffer vs ∧
      c1.OutPos = c.OutPos ∧
      (∀ j, j ≠ i → c1.mem.Source.HrtfValues j = c.mem.Source.HrtfValues j) := by
  have hCnt : (hrtfInit f i c).Counter = 0 := by
    simp only [hrtfInit]
    rw [hC, Nat.zero_max, usub_self]
    rfl
  unfold hrtfChannel at e
  simp only at e
  split at e
  · simp at e
  · next k1 e1 =>
    have p1 : k1.Counter = 0 ∧ k1.Offset = (hrtfInit f i c).Offset ∧
        k1.Coeffs = (hrtfInit f i c).Coeffs ∧
        k1.Delay0 = (hrtfInit f i c).Delay0 ∧ k1.Delay1 = (hrtfInit f i c).Delay1 ∧
        k1.cur.pos = 0 ∧ k1.cur.frac = f ∧ k1.cur.OutPos = c.OutPos ∧
        k1.cur.mem.Source.Params.iirFilter = c.mem.Source.Params.iirFilter ∧
        k1.cur.mem.Device.DryBuffer = c.mem.Device.DryBuffer ∧
        k1.cur.mem.Source.HrtfValues = c.mem.Source.HrtfValues := by
      split at e1
      · obtain ⟨a1, a2, a3, a4, a5, a6, a7, a8, a9, a10, a11⟩ := hrtf_click_frame (Or.inl e1)
        exact ⟨a1.trans hCnt, a2, a3, a4, a5, a6, a7, a8, a9, a10, a11⟩
      · simp only [Except.ok.injEq] at e1
        rw [← e1]
        exact ⟨hCnt, rfl, rfl, rfl, rfl, rfl, rfl, rfl, rfl, rfl, rfl⟩
    obtain ⟨a1, a2, a3, a4, a5, a6, a7, a8, a9, a10, a11⟩ := p1
    rw [hrtfRamp_over n k1 a1] at e
    simp only at e
    split at e
    · simp at e
    · next k4 e4 =>
      split at e
      · simp at e
      · next k5 e5 =>
        simp only [Except.ok.injEq] at e
        have hI : HrtfIdentity E i
            { k1 with Delay0 := k1.Delay0 >>> 16, Delay1 := k1.Delay1 >>> 16 } := by
          refine ⟨?_, ?_, ?_, ?_, ?_⟩
          · show k1.Coeffs 0 0 = 1 ∧ k1.Coeffs 0 1 = 1
            rw [a3]
            simp only [hrtfInit]
            rw [hC, Nat.zero_max, usub_self]
            simp [toI32, h1.1, h1.2]
          · intro k hk hk1
            show k1.Coeffs k 0 = 0 ∧ k1.Coeffs k 1 = 0
            rw [a3]
            simp only [hrtfInit]
            rw [hC, Nat.zero_max, usub_self]
            simp [toI32, (h0 k hk hk1).1, (h0 k hk hk1).2]
          · show k1.Delay0 >>> 16 = 0 ∧ k1.Delay1 >>> 16 = 0
            rw [a4, a5]
            simp only [hrtfInit]
            rw [hC, Nat.zero_max, usub_self, hD.1, hD.2]
            simp [toI32, toU32]
          · show k1.Offset < 4294967296
            rw [a2]
            simp only [hrtfInit, u32]
            omega
          · intro k hk _
            show k1.cur.mem.Source.HrtfValues i k 0 = 0 ∧ k1.cur.mem.Source.HrtfValues i k 1 = 0
            rw [a11]
            exact hV k hk
        obtain ⟨vs, r1, r2, r3, r4⟩ := hrtfSteady_identity _ _ _ _ e4 hI
          (by show k1.cur.OutPos < _; rw [a8]; exact ho)
        have r1x : specStream E smp data nc inc i E.lpFilter2P n (0, f)
            c.mem.Source.Params.iirFilter = .ok (k4.cur.mem.Source.Params.iirFilter, vs) := by
          have : ({ k1 with Delay0 := k1.Delay0 >>> 16, Delay1 := k1.Delay1 >>> 16 } :
              HrtfCur α F).cur.ph = (0, f) := by
            show (k1.cur.pos, k1.cur.frac) = (0, f)
            rw [a6, a7]
          rw [this] at r1
          rw [← a9]
          exact r1
        have r2x : k4.cur.mem.Device.DryBuffer
            = specAddFront E.FRONT_LEFT E.FRONT_RIGHT c.OutPos c.mem.Device.DryBuffer vs := by
          rw [r2]
          show specAddFront _ _ k1.cur.OutPos k1.cur.mem.Device.DryBuffer vs = _
          rw [a8, a10]
        have r3x : k4.cur.OutPos = u32 (c.OutPos + n) := by
          rw [r3]
          show u32 (k1.cur.OutPos + n) = _
          rw [a8]
        have r4x : ∀ j, j ≠ i → k4.cur.mem.Source.HrtfValues j = c.mem.Source.HrtfValues j := by
          intro j hj
          rw [r4 j hj]
          show k1.cur.mem.Source.HrtfValues j = _
          rw [a11]
        have p5 : k5.cur.mem.Source.Params.iirFilter = k4.cur.mem.Source.Params.iirFilter ∧
            k5.cur.mem.Device.DryBuffer = k4.cur.mem.Device.DryBuffer ∧
            k5.cur.OutPos = k4.cur.OutPos ∧
            k5.cur.mem.Source.HrtfValues = k4.cur.mem.Source.HrtfValues := by
          split at e5
          · obtain ⟨b1, b2, b3, b4, b5, b6, b7, b8, b9, b10, b11⟩ :=
              hrtf_click_frame (Or.inr e5)
            exact ⟨b9, b10, b8, b11⟩
          · simp only [Except.ok.injEq] at e5
            rw [← e5]
            exact ⟨rfl, rfl, rfl, rfl⟩
        rw [← e]
        refine ⟨vs, ?_, ?_, ?_, ?_⟩
        · show _ = Except.ok (k5.cur.mem.Source.Params.iirFilter, vs)
          rw [p5.1]
          exact r1x
        · show k5.cur.mem.Device.DryBuffer = _
          rw [p5.2.1]
          exact r2x
        · show usub k5.cur.OutPos n = c.OutPos
          rw [p5.2.2.1, r3x]
          exact usub_u32_add _ _ ho
        · intro j hj
          show k5.cur.mem.Source.HrtfValues j = _
          rw [p5.2.2.2]
          exact r4x j hj


/-- The channel loop of the HRTF template with the identity response and no ramp leaves the
filter state and the dry buffer that `specHrtfDry` describes. -/
theorem hrtfChannels_identity {E : Env α F} {smp : SamplerId} {data : SrcPtr}
    {nc inc f std n : Nat} (m : Mem α F) (o : Nat) (ho : o < 4294967296)
    (hC : m.Source.HrtfCounter = 0)
    (h1 : ∀ i, i < nc →
      m.Source.Params.HrtfCoeffs i 0 0 = 1 ∧ m.Source.Params.HrtfCoeffs i 0 1 = 1)
    (h0 : ∀ i k, i < nc → 0 < k → k < E.HRIR_LENGTH →
      m.Source.Params.HrtfCoeffs i k 0 = 0 ∧ m.Source.Params.HrtfCoeffs i k 1 = 0)
    (hD : ∀ i, i < nc →
      m.Source.Params.HrtfDelay i 0 = 0 ∧ m.Source.Params.HrtfDelay i 1 = 0)
    (hV : ∀ i k, i < nc → k < E.HRIR_LENGTH →
      m.Source.HrtfValues i k 0 = 0 ∧ m.Source.HrtfValues i k 1 = 0) :
    ∀ (k i : Nat) (c c1 : Cur α F), i + k = nc →
      forLoop (hrtfChannel E smp data nc inc f std n) k i c = .ok c1 →
      c.mem.fixed = m.fixed → c.OutPos = o →
      (∀ j, i ≤ j → c.mem.Source.HrtfValues j = m.Source.HrtfValues j) →
      specHrtfDry E smp data nc inc f o n k i c.mem.Source.Params.iirFilter
          c.mem.Device.DryBuffer
        = .ok (c1.mem.Source.Params.iirFilter, c1.mem.Device.DryBuffer) := by
  intro k
  induction k with
  | zero =>
    intro i c c1 _ e _ _ _
    simp only [forLoop, Except.ok.injEq] at e
    subst e
    rfl
  | succ k ih =>
    intro i c c1 hik e hfix hco hrows
    simp only [forLoop] at e
    split at e
    · next c2 e2 =>
      have hi : i < nc := by omega
      have fC : c.mem.Source.HrtfCounter = m.Source.HrtfCounter :=
        congrArg Fixed.HrtfCounter hfix
      have fK : c.mem.Source.Params.HrtfCoeffs = m.Source.Params.HrtfCoeffs :=
        congrArg Fixed.HrtfCoeffs hfix
      have fD : c.mem.Source.Params.HrtfDelay = m.Source.Params.HrtfDelay :=
        congrArg Fixed.HrtfDelay hfix
      obtain ⟨vs, r1, r2, r3, r4⟩ := hrtfChannel_identity e2 (fC.trans hC)
        (by rw [fK]; exact h1 i hi) (by rw [fK]; exact fun k hk hk1 => h0 i k hi hk hk1)
        (by rw [fD]; exact hD i hi)
        (by rw [hrows i (le_refl i)]; exact fun k hk => hV i k hi hk) (by rw [hco]; exact ho)
      have := ih (i + 1) c2 c1 (by omega) e ((hrtfChannel_fixed e2).trans hfix)
        (r3.trans hco)
        (fun j hj => (r4 j (by omega)).trans (hrows j (by omega)))
      simp only [specHrtfDry]
      rw [r1]
      simp only []
      rw [hco] at r2
      rw [← r2]
      exact this
    · simp at e

/-- C17: scenario F.  A returning call of an HRTF mixer on a source with `hrtf_counter = 0`,
target coefficients `(1, 1)` at tap 0 and 0 at every other tap, target delays `(0, 0)` and
an `hrtf_values` ring that is zero, in exact arithmetic, leaves the filter state and the dry
buffer of `specHrtfDry`: for every source channel in turn, output step `k` adds the
filtered sample of the step (the kernel at the phase of the step, passed through
`lpFilter2P`) to `dry_buffer[out_pos + k][FRONT_LEFT]` and to
`dry_buffer[out_pos + k][FRONT_RIGHT]`; and no other output channel of `dry_buffer`
changes. -/
theorem C17_hrtf_identity (E : Env α F) (g : MixerFunc) (m : Mem α F) (data : SrcPtr)
    (p f o std n : Nat) (res : MixResult α F) (hg : g.isHrtf = true)
    (ho : o < 4294967296)
    (hC : m.Source.HrtfCounter = 0)
    (h1 : ∀ i, i < m.Source.NumChannels →
      m.Source.Params.HrtfCoeffs i 0 0 = 1 ∧ m.Source.Params.HrtfCoeffs i 0 1 = 1)
    (h0 : ∀ i k, i < m.Source.NumChannels → 0 < k → k < E.HRIR_LENGTH →
      m.Source.Params.HrtfCoeffs i k 0 = 0 ∧ m.Source.Params.HrtfCoeffs i k 1 = 0)
    (hD : ∀ i, i < m.Source.NumChannels →
      m.Source.Params.HrtfDelay i 0 = 0 ∧ m.Source.Params.HrtfDelay i 1 = 0)
    (hV : ∀ i k, i < m.Source.NumChannels → k < E.HRIR_LENGTH →
      m.Source.HrtfValues i k 0 = 0 ∧ m.Source.HrtfValues i k 1 = 0)
    (e : g.call E m data p f o std n = .ok res) :
    specHrtfDry E g.sampler data m.Source.NumChannels m.Source.Params.Step f o n
        m.Source.NumChannels 0 m.Source.Params.iirFilter m.Device.DryBuffer
      = .ok (res.mem.Source.Params.iirFilter, res.mem.Device.DryBuffer) ∧
    ∀ r ch, ch ≠ E.FRONT_LEFT → ch ≠ E.FRONT_RIGHT →
      res.mem.Device.DryBuffer r ch = m.Device.DryBuffer r ch := by
  unfold MixerFunc.call at e
  rw [if_pos hg] at e
  constructor
  · unfold Mix_Hrtf at e
    simp only at e
    split at e
    · simp at e
    · next c1 e1 =>
      split at e
      · simp at e
      · next c2 e2 =>
        simp only [Except.ok.injEq] at e
        subst e
        have k1 := hrtfChannels_identity m o ho hC h1 h0 hD hV _ _ _ _ (Nat.zero_add _) e1
          rfl rfl (fun _ _ => rfl)
        have k2 := forLoop_inv _ (fun s : Cur α F => s.mem.Device = c1.mem.Device ∧
            s.mem.Source.Params.iirFilter = c1.mem.Source.Params.iirFilter)
          (fun _ s s1 hs hb => ⟨(mixSend_dry hb).1.trans hs.1, (mixSend_dry hb).2.trans hs.2⟩)
          _ _ _ _ ⟨rfl, rfl⟩ e2
        show _ = Except.ok (c2.mem.Source.Params.iirFilter, c2.mem.Device.DryBuffer)
        rw [k2.1, k2.2]
        exact k1
  · intro r ch hL hR
    have key := Mix_Hrtf_keeps
      (fun x : Mem α F => ∀ r, x.Device.DryBuffer r ch = m.Device.DryBuffer r ch)
      (fun i h h1 hb hP r => ((hrtf_blocks_front ch hL hR hb).1 r).trans (hP r))
      (fun out a i c c1 _ _ hb hP r => by
        have := hP r
        rw [wet_blocks_device hb]
        exact this) e (fun _ => rfl)
    exact key r

end HrtfIdentityLemmas

theorem exHrtfMem_spec (D : Nat → Nat → ℚ)
    (h : specHrtfDry (exEnv 16384) .point8 { bytes := [10, 20, 30], off := 0 } 1 16384 0 0 2 1 0
        () exHrtfMem.Device.DryBuffer = .ok ((), D)) :
    D 0 0 = (0 : ℚ) + (exEnv 16384).ofByte [10] * recip ℚ 127 ∧
      D 1 1 = (0 : ℚ) + (exEnv 16384).ofByte [20] * recip ℚ 127 := by
  have e : D = (okOr ((), fun _ _ => (0 : ℚ))
      (specHrtfDry (exEnv 16384) .point8 { bytes := [10, 20, 30], off := 0 } 1 16384 0 0 2 1 0
        () exHrtfMem.Device.DryBuffer)).2 := by
    rw [h]
    rfl
  rw [e]
  exact ⟨by rfl, by rfl⟩

/-- C17 (witness): the HRTF mixer for 8-bit samples with the point kernel at unit step, called
for two samples of the window `[10, 20, 30]` on a source with the identity response; it adds
`10/127` to `dry_buffer[0][FRONT_LEFT]` and `20/127` to `dry_buffer[1][FRONT_RIGHT]`. -/
theorem C17_hrtf_identity_witness :
    MixerFunc.Mix_Hrtf_ALbyte_point8.call (exEnv 16384) exHrtfMem
        { bytes := [10, 20, 30], off := 0 } 0 0 0 2 2
      = .ok (exCall .Mix_Hrtf_ALbyte_point8 16384 exHrtfMem
          { bytes := [10, 20, 30], off := 0 } 0 0 0 2 2) ∧
    specHrtfDry (exEnv 16384) .point8 { bytes := [10, 20, 30], off := 0 } 1 16384 0 0 2 1 0
        () exHrtfMem.Device.DryBuffer
      = .ok ((), (exCall .Mix_Hrtf_ALbyte_point8 16384 exHrtfMem
          { bytes := [10, 20, 30], off := 0 } 0 0 0 2 2).mem.Device.DryBuffer) ∧
    exHrtfMem.Device.DryBuffer 0 0 = 0 ∧ exHrtfMem.Device.DryBuffer 1 1 = 0 ∧
    (exCall .Mix_Hrtf_ALbyte_point8 16384 exHrtfMem
      { bytes := [10, 20, 30], off := 0 } 0 0 0 2 2).mem.Device.DryBuffer 0 0 = 10 / 127 ∧
    (exCall .Mix_Hrtf_ALbyte_point8 16384 exHrtfMem
      { bytes := [10, 20, 30], off := 0 } 0 0 0 2 2).mem.Device.DryBuffer 1 1 = 20 / 127 := by
  have key := (C17_hrtf_identity (exEnv 16384) .Mix_Hrtf_ALbyte_point8 exHrtfMem
    { bytes := [10, 20, 30], off := 0 } 0 0 0 2 2 _ (by decide) (by decide) rfl
    (fun _ _ => ⟨rfl, rfl⟩)
    (fun i k _ hk _ => by
      show (if k = 0 then (1 : ℚ) else 0) = 0 ∧ (if k = 0 then (1 : ℚ) else 0) = 0
      rw [if_neg (by omega)]
      exact ⟨rfl, rfl⟩)
    (fun _ _ => ⟨rfl, rfl⟩) (fun _ _ _ _ => ⟨rfl, rfl⟩) (by rfl)).1
  obtain ⟨h1, h2⟩ := exHrtfMem_spec (exCall .Mix_Hrtf_ALbyte_point8 16384 exHrtfMem
      { bytes := [10, 20, 30], off := 0 } 0 0 0 2 2).mem.Device.DryBuffer key
  refine ⟨by rfl, key, rfl, rfl, ?_, ?_⟩
  · rw [h1]
    norm_num [exEnv, recip]
  · rw [h2]
    norm_num [exEnv, recip]

/-! ## The auxiliary sends -/

section SendLemmas

variable {α F : Type} [Add α] [Sub α] [Mul α] [Div α] [IntCast α]

/-- An invariant of the passes of a counted loop, which may depend on the index. -/
theorem forLoop_inv_range {σ : Type} (body : Nat → σ → Except Fault σ) (P : σ → Prop) :
    ∀ (n i : Nat) (s s1 : σ),
      (∀ j t t1, i ≤ j → j < i + n → P t → body j t = .ok t1 → P t1) →
      P s → forLoop body n i s = .ok s1 → P s1 := by
  intro n
  induction n with
  | zero =>
    intro i s s1 _ hs hr
    simp [forLoop] at hr
    exact hr ▸ hs
  | succ n ih =>
    intro i s s1 h hs hr
    simp only [forLoop] at hr
    split at hr
    · next s2 h2 =>
      exact ih _ _ _ (fun j t t1 h1 h3 => h j t t1 (by omega) (by omega))
        (h i s s2 (le_refl i) (by omega) hs h2) hr
    · simp at hr

/-- A counted loop of `a + b` passes is one of `a` passes followed by one of `b` passes. -/
theorem forLoop_split {σ : Type} (body : Nat → σ → Except Fault σ) :
    ∀ (a b i : Nat) (s s2 : σ), forLoop body (a + b) i s = .ok s2 →
      ∃ s1, forLoop body a i s = .ok s1 ∧ forLoop body b (i + a) s1 = .ok s2 := by
  intro a
  induction a with
  | zero =>
    intro b i s s2 h
    rw [Nat.zero_add] at h
    exact ⟨s, rfl, h⟩
  | succ a ih =>
    intro b i s s2 h
    rw [Nat.add_right_comm] at h
    simp only [forLoop] at h ⊢
    split at h
    · next s1 h1 =>
      obtain ⟨s3, q1, q2⟩ := ih b (i + 1) s1 s2 h
      refine ⟨s3, q1, ?_⟩
      rw [show i + (a + 1) = i + 1 + a by omega]
      exact q2
    · simp at h

/-- What a block of the wet path for send `out` and slot `a` leaves alone: the device, the
dry filter, the HRTF state, the other sends and the other slots. -/
theorem wet_blocks_others {E : Env α F} {smp : SamplerId} {data : SrcPtr}
    {nc inc out a i : Nat} {c c1 : Cur α F}
    (h : mixWetLead E smp data nc out a i c = .ok c1 ∨
      mixWetStep E smp data nc inc out a i c = .ok c1 ∨
      mixWetTrail E smp data nc out a i c = .ok c1) :
    (∀ o, o ≠ out → c1.mem.Source.Params.Send o = c.mem.Source.Params.Send o) ∧
      (∀ b, b ≠ a → c1.mem.Slot b = c.mem.Slot b) := by
  rcases h with h | h | h
  · unfold mixWetLead at h
    split at h
    · simp at h
    · simp only [Except.ok.injEq] at h
      rw [← h]
      refine ⟨fun o _ => rfl, fun b hb => ?_⟩
      simp only [Mem.setSlot, if_neg hb]
  · unfold mixWetStep at h
    split at h
    · simp at h
    · simp only [Except.ok.injEq] at h
      rw [← h]
      refine ⟨fun o ho => ?_, fun b hb => ?_⟩
      · simp only [Cur.advance, Mem.setSlot, Mem.setSendFilter, if_neg ho]
      · simp only [Cur.advance, Mem.setSlot, Mem.setSendFilter, if_neg hb]
  · unfold mixWetTrail at h
    split at h
    · simp at h
    · simp only [Except.ok.injEq] at h
      rw [← h]
      refine ⟨fun o _ => rfl, fun b hb => ?_⟩
      simp only [Mem.setSlot, if_neg hb]

/-- No block of the dry path of either template touches the sends or the slots. -/
theorem dry_blocks_sends {E : Env α F} {smp : SamplerId} {data : SrcPtr} {nc inc i : Nat}
    {DrySend : Nat → α} {c c1 : Cur α F}
    (h : mixDryLead E smp data nc i DrySend c = .ok c1 ∨
      mixDryStep E smp data nc inc i DrySend c = .ok c1 ∨
      mixDryTrail E smp data nc i DrySend c = .ok c1) :
    c1.mem.Source.Params.Send = c.mem.Source.Params.Send ∧ c1.mem.Slot = c.mem.Slot := by
  rcases h with h | h | h
  · unfold mixDryLead at h
    split at h
    · simp at h
    · simp only [Except.ok.injEq] at h
      rw [← h]
      exact ⟨rfl, rfl⟩
  · unfold mixDryStep at h
    split at h
    · simp at h
    · simp only [Except.ok.injEq] at h
      rw [← h]
      exact ⟨rfl, rfl⟩
  · unfold mixDryTrail at h
    split at h
    · simp at h
    · simp only [Except.ok.injEq] at h
      rw [← h]
      exact ⟨rfl, rfl⟩

theorem hrtf_blocks_sends {E : Env α F} {smp : SamplerId} {data : SrcPtr} {nc inc i : Nat}
    {h h1 : HrtfCur α F}
    (e : hrtfLead E smp data nc i h = .ok h1 ∨ hrtfRampStep E smp data nc inc i h = .ok h1 ∨
      hrtfSteadyStep E smp data nc inc i h = .ok h1 ∨ hrtfTrail E smp data nc i h = .ok h1) :
    h1.cur.mem.Source.Params.Send = h.cur.mem.Source.Params.Send ∧
      h1.cur.mem.Slot = h.cur.mem.Slot := by
  rcases e with e | e | e | e
  · unfold hrtfLead at e
    split at e
    · simp at e
    · simp only [Except.ok.injEq] at e
      rw [← e]
      exact ⟨rfl, rfl⟩
  · unfold hrtfRampStep at e
    split at e
    · simp at e
    · simp only [Except.ok.injEq] at e
      rw [← e]
      exact ⟨rfl, rfl⟩
  · unfold hrtfSteadyStep at e
    split at e
    · simp at e
    · simp only [Except.ok.injEq] at e
      rw [← e]
      exact ⟨rfl, rfl⟩
  · unfold hrtfTrail at e
    split at e
    · simp at e
    · simp only [Except.ok.injEq] at e
      rw [← e]
      exact ⟨rfl, rfl⟩

/-- A loop of passes that each step `OutPos` by one steps it by the number of passes. -/
theorem forLoop_outpos {σ : Type} (body : σ → Except Fault σ) (op : σ → Nat)
    (h : ∀ s s1, body s = .ok s1 → op s1 = u32 (op s + 1)) :
    ∀ (n i : Nat) (s s1 : σ), op s < 4294967296 →
      forLoop (fun _ => body) n i s = .ok s1 → op s1 = u32 (op s + n) := by
  intro n
  induction n with
  | zero =>
    intro i s s1 ho hr
    simp [forLoop] at hr
    rw [← hr]
    exact (u32_small _ (by omega)).symm
  | succ n ih =>
    intro i s s1 ho hr
    simp only [forLoop] at hr
    split at hr
    · next s2 h2 =>
      have e2 := h _ _ h2
      rw [ih _ _ _ (by rw [e2]; unfold u32; omega) hr, e2]
      unfold u32
      omega
    · simp at hr

theorem mixDryStep_outpos {E : Env α F} {smp : SamplerId} {data : SrcPtr} {nc inc i : Nat}
    {DrySend : Nat → α} {c c1 : Cur α F}
    (h : mixDryStep E smp data nc inc i DrySend c = .ok c1) :
    c1.OutPos = u32 (c.OutPos + 1) := by
  unfold mixDryStep at h
  split at h
  · simp at h
  · simp only [Except.ok.injEq] at h
    rw [← h]; rfl

theorem mixWetStep_outpos {E : Env α F} {smp : SamplerId} {data : SrcPtr}
    {nc inc out a i : Nat} {c c1 : Cur α F}
    (h : mixWetStep E smp data nc inc out a i c = .ok c1) :
    c1.OutPos = u32 (c.OutPos + 1) := by
  unfold mixWetStep at h
  split at h
  · simp at h
  · simp only [Except.ok.injEq] at h
    rw [← h]; rfl

theorem mixWetClick_outpos {E : Env α F} {smp : SamplerId} {data : SrcPtr}
    {nc out a i : Nat} {c c1 : Cur α F}
    (h : mixWetLead E smp data nc out a i c = .ok c1 ∨
      mixWetTrail E smp data nc out a i c = .ok c1) : c1.OutPos = c.OutPos := by
  rcases h with h | h
  · unfold mixWetLead at h
    split at h
    · simp at h
    · simp only [Except.ok.injEq] at h
      rw [← h]
  · unfold mixWetTrail at h
    split at h
    · simp at h
    · simp only [Except.ok.injEq] at h
      rw [← h]

theorem hrtfStep_outpos {E : Env α F} {smp : SamplerId} {data : SrcPtr} {nc inc i : Nat}
    {h h1 : HrtfCur α F}
    (e : hrtfRampStep E smp data nc inc i h = .ok h1 ∨
      hrtfSteadyStep E smp data nc inc i h = .ok h1) :
    h1.cur.OutPos = u32 (h.cur.OutPos + 1) := by
  rcases e with e | e
  · unfold hrtfRampStep at e
    split at e
    · simp at e
    · simp only [Except.ok.injEq] at e
      rw [← e]; rfl
  · unfold hrtfSteadyStep at e
    split at e
    · simp at e
    · simp only [Except.ok.injEq] at e
      rw [← e]; rfl

theorem hrtfClick_outpos {E : Env α F} {smp : SamplerId} {data : SrcPtr} {nc i : Nat}
    {h h1 : HrtfCur α F}
    (e : hrtfLead E smp data nc i h = .ok h1 ∨ hrtfTrail E smp data nc i h = .ok h1) :
    h1.cur.OutPos = h.cur.OutPos := by
  rcases e with e | e
  · unfold hrtfLead at e
    split at e
    · simp at e
    · simp only [Except.ok.injEq] at e
      rw [← e]
  · unfold hrtfTrail at e
    split at e
    · simp at e
    · simp only [Except.ok.injEq] at e
      rw [← e]

/-- The channel loop body of the plain mixer restores `OutPos`. -/
theorem mixDryChannel_outpos {E : Env α F} {smp : SamplerId} {data : SrcPtr}
    {nc inc f std n i : Nat} {c c1 : Cur α F}
    (h : mixDryChannel E smp data nc inc f std n i c = .ok c1) (ho : c.OutPos < 4294967296) :
    c1.OutPos = c.OutPos := by
  unfold mixDryChannel at h
  simp only at h
  split at h
  · simp at h
  · next c2 h2 =>
    split at h
    · simp at h
    · next c3 h3 =>
      split at h
      · simp at h
      · next c4 h4 =>
        simp only [Except.ok.injEq] at h
        have e2 : c2.OutPos = c.OutPos := by
          split at h2
          · exact (mixDryLead_dry h2).2.2
          · simp only [Except.ok.injEq] at h2
            rw [← h2]
        have e3 : c3.OutPos = u32 (c2.OutPos + n) :=
          forLoop_outpos _ Cur.OutPos (fun _ _ hb => mixDryStep_outpos hb) _ _ _ _
            (by rw [e2]; exact ho) h3
        have e4 : c4.OutPos = c3.OutPos := by
          split at h4
          · exact (mixDryTrail_dry h4).2.2
          · simp only [Except.ok.injEq] at h4
            rw [← h4]
        rw [← h]
        show usub c4.OutPos n = _
        rw [e4, e3, e2]
        exact usub_u32_add _ _ ho

/-- The channel loop body of a send restores `OutPos`. -/
theorem mixWetChannel_outpos {E : Env α F} {smp : SamplerId} {data : SrcPtr}
    {nc inc f std n out a i : Nat} {c c1 : Cur α F}
    (h : mixWetChannel E smp data nc inc f std n out a i c = .ok c1)
    (ho : c.OutPos < 4294967296) : c1.OutPos = c.OutPos := by
  unfold mixWetChannel at h
  simp only at h
  split at h
  · simp at h
  · next c2 h2 =>
    split at h
    · simp at h
    · next c3 h3 =>
      split at h
      · simp at h
      · next c4 h4 =>
        simp only [Except.ok.injEq] at h
        have e2 : c2.OutPos = c.OutPos := by
          split at h2
          · have := mixWetClick_outpos (Or.inl h2)
            exact this
          · simp only [Except.ok.injEq] at h2
            rw [← h2]
        have e3 : c3.OutPos = u32 (c2.OutPos + n) :=
          forLoop_outpos _ Cur.OutPos (fun _ _ hb => mixWetStep_outpos hb) _ _ _ _
            (by rw [e2]; exact ho) h3
        have e4 : c4.OutPos = c3.OutPos := by
          split at h4
          · have := mixWetClick_outpos (Or.inr h4)
            exact this
          · simp only [Except.ok.injEq] at h4
            rw [← h4]
        rw [← h]
        show usub c4.OutPos n = _
        rw [e4, e3, e2]
        exact usub_u32_add _ _ ho

/-- The pass of a send restores `OutPos`. -/
theorem mixSend_outpos {E : Env α F} {smp : SamplerId} {data : SrcPtr}
    {nc inc f std n out : Nat} {c c1 : Cur α F}
    (h : mixSend E smp data nc inc f std n out c = .ok c1) (ho : c.OutPos < 4294967296) :
    c1.OutPos = c.OutPos := by
  unfold mixSend at h
  split at h
  · simp only [Except.ok.injEq] at h
    rw [h]
  · split at h
    · simp only [Except.ok.injEq] at h
      rw [h]
    · exact forLoop_inv _ (fun s : Cur α F => s.OutPos = c.OutPos)
        (fun _ s s1 hs hb => (mixWetChannel_outpos hb (by rw [hs]; exact ho)).trans hs)
        _ _ _ _ rfl h

/-- The ramped loop steps `OutPos` by the number of passes it makes. -/
theorem hrtfRamp_outpos {E : Env α F} {smp : SamplerId} {data : SrcPtr} {nc inc i : Nat} :
    ∀ (n : Nat) (h h1 : HrtfCur α F) (rest : Nat), h.cur.OutPos < 4294967296 →
      hrtfRamp E smp data nc inc i n h = .ok (rest, h1) →
      rest ≤ n ∧ h1.cur.OutPos = u32 (h.cur.OutPos + (n - rest)) := by
  intro n
  induction n with
  | zero =>
    intro h h1 rest ho e
    simp only [hrtfRamp, Except.ok.injEq, Prod.mk.injEq] at e
    rw [← e.1, ← e.2]
    exact ⟨le_refl _, (u32_small _ (by omega)).symm⟩
  | succ n ih =>
    intro h h1 rest ho e
    simp only [hrtfRamp] at e
    split at e
    · split at e
      · simp at e
      · next h2 e2 =>
        have q := hrtfStep_outpos (Or.inl e2)
        obtain ⟨r1, r2⟩ := ih _ _ _ (by rw [q]; unfold u32; omega) e
        refine ⟨by omega, ?_⟩
        rw [r2, q]
        unfold u32
        omega
    · simp only [Except.ok.injEq, Prod.mk.injEq] at e
      rw [← e.1, ← e.2]
      refine ⟨le_refl _, ?_⟩
      rw [Nat.sub_self]
      exact (u32_small _ (by omega)).symm

/-- The channel loop body of the HRTF template restores `OutPos`. -/
theorem hrtfChannel_outpos {E : Env α F} {smp : SamplerId} {data : SrcPtr}
    {nc inc f std n i : Nat} {c c1 : Cur α F}
    (e : hrtfChannel E smp data nc inc f std n i c = .ok c1) (ho : c.OutPos < 4294967296) :
    c1.OutPos = c.OutPos := by
  unfold hrtfChannel at e
  simp only at e
  split at e
  · simp at e
  · next h1 e1 =>
    split at e
    · simp at e
    · next rest h2 e2 =>
      split at e
      · simp at e
      · next h4 e4 =>
        split at e
        · simp at e
        · next h5 e5 =>
          simp only [Except.ok.injEq] at e
          have p1 : h1.cur.OutPos = c.OutPos := by
            split at e1
            · have := hrtfClick_outpos (Or.inl e1)
              exact this
            · simp only [Except.ok.injEq] at e1
              rw [← e1]; rfl
          obtain ⟨p2, p3⟩ := hrtfRamp_outpos _ _ _ _ (by rw [p1]; exact ho) e2
          have p4 : h4.cur.OutPos = u32 (h2.cur.OutPos + rest) :=
            forLoop_outpos _ (fun s : HrtfCur α F => s.cur.OutPos)
              (fun _ _ hb => hrtfStep_outpos (Or.inr hb)) _ _
              { h2 with Delay0 := h2.Delay0 >>> 16, Delay1 := h2.Delay1 >>> 16 } _
              (by show h2.cur.OutPos < _; rw [p3]; unfold u32; omega) e4
          have p5 : h5.cur.OutPos = h4.cur.OutPos := by
            split at e5
            · have := hrtfClick_outpos (Or.inr e5)
              exact this
            · simp only [Except.ok.injEq] at e5
              rw [← e5]
          rw [← e]
          show usub h5.cur.OutPos n = _
          rw [p5, p4, p3, p1]
          unfold usub u32
          omega

/-- A mixer call splits into its dry path, which leaves the sends and the slots alone, and
the loop over the sends. -/
theorem call_split {E : Env α F} {g : MixerFunc} {m : Mem α F} {data : SrcPtr}
    {p f o std n : Nat} {res : MixResult α F} (ho : o < 4294967296)
    (e : g.call E m data p f o std n = .ok res) :
    ∃ c1 c2 : Cur α F, c1.mem.fixed = m.fixed ∧
      c1.mem.Source.Params.Send = m.Source.Params.Send ∧ c1.mem.Slot = m.Slot ∧
      c1.OutPos = o ∧
      forLoop (mixSend E g.sampler data m.Source.NumChannels m.Source.Params.Step f std n)
        m.Device.NumAuxSends 0 c1 = .ok c2 ∧ res.mem = c2.mem := by
  unfold MixerFunc.call at e
  split at e
  · unfold Mix_Hrtf at e
    simp only at e
    split at e
    · simp at e
    · next c1 e1 =>
      split at e
      · simp at e
      · next c2 e2 =>
        simp only [Except.ok.injEq] at e
        subst e
        have k1 := forLoop_inv _ (fun s : Cur α F => s.mem.fixed = m.fixed ∧
            s.mem.Source.Params.Send = m.Source.Params.Send ∧ s.mem.Slot = m.Slot ∧
            s.OutPos = o)
          (fun i s s1 hs hb => ⟨(hrtfChannel_fixed hb).trans hs.1,
            (hrtfChannel_keeps (fun x : Mem α F =>
              x.Source.Params.Send = m.Source.Params.Send ∧ x.Slot = m.Slot)
              (fun h h1 hh hP => ⟨(hrtf_blocks_sends hh).1.trans hP.1,
                (hrtf_blocks_sends hh).2.trans hP.2⟩) hb ⟨hs.2.1, hs.2.2.1⟩).1,
            (hrtfChannel_keeps (fun x : Mem α F =>
              x.Source.Params.Send = m.Source.Params.Send ∧ x.Slot = m.Slot)
              (fun h h1 hh hP => ⟨(hrtf_blocks_sends hh).1.trans hP.1,
                (hrtf_blocks_sends hh).2.trans hP.2⟩) hb ⟨hs.2.1, hs.2.2.1⟩).2,
            (hrtfChannel_outpos hb (by rw [hs.2.2.2]; exact ho)).trans hs.2.2.2⟩)
          _ _ _ _ ⟨rfl, rfl, rfl, rfl⟩ e1
        have hN : c1.mem.Device.NumAuxSends = m.Device.NumAuxSends :=
          congrArg Fixed.NumAuxSends k1.1
        rw [hN] at e2
        exact ⟨c1, c2, k1.1, k1.2.1, k1.2.2.1, k1.2.2.2, e2, rfl⟩
  · unfold Mix at e
    simp only at e
    split at e
    · simp at e
    · next c1 e1 =>
      split at e
      · simp at e
      · next c2 e2 =>
        simp only [Except.ok.injEq] at e
        subst e
        have k1 := forLoop_inv _ (fun s : Cur α F => s.mem.fixed = m.fixed ∧
            s.mem.Source.Params.Send = m.Source.Params.Send ∧ s.mem.Slot = m.Slot ∧
            s.OutPos = o)
          (fun i s s1 hs hb => ⟨(mixDryChannel_fixed hb).trans hs.1,
            (mixDryChannel_keeps (fun x : Mem α F =>
              x.Source.Params.Send = m.Source.Params.Send ∧ x.Slot = m.Slot)
              (fun G h h1 hh hP => ⟨(dry_blocks_sends hh).1.trans hP.1,
                (dry_blocks_sends hh).2.trans hP.2⟩) hb ⟨hs.2.1, hs.2.2.1⟩).1,
            (mixDryChannel_keeps (fun x : Mem α F =>
              x.Source.Params.Send = m.Source.Params.Send ∧ x.Slot = m.Slot)
              (fun G h h1 hh hP => ⟨(dry_blocks_sends hh).1.trans hP.1,
                (dry_blocks_sends hh).2.trans hP.2⟩) hb ⟨hs.2.1, hs.2.2.1⟩).2,
            (mixDryChannel_outpos hb (by rw [hs.2.2.2]; exact ho)).trans hs.2.2.2⟩)
          _ _ _ _ ⟨rfl, rfl, rfl, rfl⟩ e1
        have hN : c1.mem.Device.NumAuxSends = m.Device.NumAuxSends :=
          congrArg Fixed.NumAuxSends k1.1
        rw [hN] at e2
        exact ⟨c1, c2, k1.1, k1.2.1, k1.2.2.1, k1.2.2.2, e2, rfl⟩


/-- One pass of the wet sample loop: the sample, passed through the one-pole filter, times
the wet gain goes to the row of the step. -/
theorem mixWetStep_spec {E : Env α F} {smp : SamplerId} {data : SrcPtr}
    {nc inc out a i : Nat} {c c1 : Cur α F}
    (h : mixWetStep E smp data nc inc out a i c = .ok c1) :
    ∃ v, sample E smp data nc c.pos c.frac i = .ok v ∧
      (c1.mem.Source.Params.Send out).iirFilter
        = (E.lpFilter1P (c.mem.Source.Params.Send out).iirFilter i v).1 ∧
      (c1.mem.Slot a).WetBuffer
        = (fun r => if r = c.OutPos then (c.mem.Slot a).WetBuffer r
            + (E.lpFilter1P (c.mem.Source.Params.Send out).iirFilter i v).2
              * (c.mem.Source.Params.Send out).WetGain
          else (c.mem.Slot a).WetBuffer r) ∧
      c1.ph = phaseStep inc c.ph ∧
      (c1.mem.Source.Params.Send out).WetGain = (c.mem.Source.Params.Send out).WetGain := by
  unfold mixWetStep at h
  split at h
  · simp at h
  · next value hv =>
    simp only [Except.ok.injEq] at h
    refine ⟨value, hv, ?_⟩
    rw [← h]
    refine ⟨?_, ?_, rfl, ?_⟩
    · simp [Cur.advance, Mem.setSlot, Mem.setSendFilter]
    · simp [Cur.advance, Mem.setSlot, Mem.setSendFilter]
    · simp [Cur.advance, Mem.setSlot, Mem.setSendFilter]

/-- The wet sample loop: its filtered samples times the wet gain go to successive rows. -/
theorem wetLoop_spec {E : Env α F} {smp : SamplerId} {data : SrcPtr}
    {nc inc out a i : Nat} :
    ∀ (n i0 : Nat) (c c1 : Cur α F),
      forLoop (fun _ => mixWetStep E smp data nc inc out a i) n i0 c = .ok c1 →
      ∃ vs, specStream E smp data nc inc i E.lpFilter1P n c.ph
              (c.mem.Source.Params.Send out).iirFilter
            = .ok ((c1.mem.Source.Params.Send out).iirFilter, vs) ∧
        (c1.mem.Slot a).WetBuffer
          = specAddWet (c.mem.Source.Params.Send out).WetGain c.OutPos
              (c.mem.Slot a).WetBuffer vs ∧
        (c1.mem.Source.Params.Send out).WetGain = (c.mem.Source.Params.Send out).WetGain := by
  intro n
  induction n with
  | zero =>
    intro i0 c c1 e
    simp only [forLoop, Except.ok.injEq] at e
    subst e
    exact ⟨[], rfl, rfl, rfl⟩
  | succ n ih =>
    intro i0 c c1 e
    simp only [forLoop] at e
    split at e
    · next c2 e2 =>
      obtain ⟨v, hv, q1, q2, q3, q4⟩ := mixWetStep_spec e2
      have q5 := mixWetStep_outpos e2
      obtain ⟨vs, r1, r2, r3⟩ := ih _ _ _ e
      refine ⟨(E.lpFilter1P (c.mem.Source.Params.Send out).iirFilter i v).2 :: vs,
        ?_, ?_, ?_⟩
      · simp only [specStream]
        have hv2 : sample E smp data nc c.ph.1 c.ph.2 i = .ok v := hv
        rw [hv2]
        simp only []
        rw [← q1, ← q3, r1]
      · rw [r2, q2, q4, q5]
        rfl
      · rw [r3, q4]
    · simp at e

/-- What the click-removal blocks of the wet path leave alone. -/
theorem mixWetClick_frame {E : Env α F} {smp : SamplerId} {data : SrcPtr}
    {nc out a i : Nat} {c c1 : Cur α F}
    (h : mixWetLead E smp data nc out a i c = .ok c1 ∨
      mixWetTrail E smp data nc out a i c = .ok c1) :
    c1.pos = c.pos ∧ c1.frac = c.frac ∧ c1.OutPos = c.OutPos ∧
      c1.mem.Source.Params.Send = c.mem.Source.Params.Send ∧
      (c1.mem.Slot a).WetBuffer = (c.mem.Slot a).WetBuffer := by
  rcases h with h | h
  · unfold mixWetLead at h
    split at h
    · simp at h
    · simp only [Except.ok.injEq] at h
      rw [← h]
      refine ⟨rfl, rfl, rfl, rfl, ?_⟩
      simp [Mem.setSlot]
  · unfold mixWetTrail at h
    split at h
    · simp at h
    · simp only [Except.ok.injEq] at h
      rw [← h]
      refine ⟨rfl, rfl, rfl, rfl, ?_⟩
      simp [Mem.setSlot]

/-- The channel loop body of a send: the filtered samples of the channel times the wet gain
go to the rows of the call. -/
theorem mixWetChannel_spec {E : Env α F} {smp : SamplerId} {data : SrcPtr}
    {nc inc f std n out a i : Nat} {c c1 : Cur α F}
    (h : mixWetChannel E smp data nc inc f std n out a i c = .ok c1) :
    ∃ vs, specStream E smp data nc inc i E.lpFilter1P n (0, f)
            (c.mem.Source.Params.Send out).iirFilter
          = .ok ((c1.mem.Source.Params.Send out).iirFilter, vs) ∧
      (c1.mem.Slot a).WetBuffer
        = specAddWet (c.mem.Source.Params.Send out).WetGain c.OutPos
            (c.mem.Slot a).WetBuffer vs ∧
      (c1.mem.Source.Params.Send out).WetGain = (c.mem.Source.Params.Send out).WetGain := by
  unfold mixWetChannel at h
  simp only at h
  split at h
  · simp at h
  · next c2 h2 =>
    split at h
    · simp at h
    · next c3 h3 =>
      split at h
      · simp at h
      · next c4 h4 =>
        simp only [Except.ok.injEq] at h
        have e2 : c2.pos = 0 ∧ c2.frac = f ∧ c2.OutPos = c.OutPos ∧
            c2.mem.Source.Params.Send = c.mem.Source.Params.Send ∧
            (c2.mem.Slot a).WetBuffer = (c.mem.Slot a).WetBuffer := by
          split at h2
          · have := mixWetClick_frame (Or.inl h2)
            exact this
          · simp only [Except.ok.injEq] at h2
            rw [← h2]
            exact ⟨rfl, rfl, rfl, rfl, rfl⟩
        obtain ⟨vs, r1, r2, r3⟩ := wetLoop_spec _ _ _ _ h3
        have e4 : c4.mem.Source.Params.Send = c3.mem.Source.Params.Send ∧
            (c4.mem.Slot a).WetBuffer = (c3.mem.Slot a).WetBuffer := by
          split at h4
          · have := mixWetClick_frame (Or.inr h4)
            exact ⟨this.2.2.2.1, this.2.2.2.2⟩
          · simp only [Except.ok.injEq] at h4
            rw [← h4]
            exact ⟨rfl, rfl⟩
        have hph : c2.ph = (0, f) := by
          show (c2.pos, c2.frac) = (0, f)
          rw [e2.1, e2.2.1]
        rw [hph, e2.2.2.2.1] at r1
        rw [e2.2.2.2.1, e2.2.2.2.2, e2.2.2.1] at r2
        rw [e2.2.2.2.1] at r3
        rw [← h]
        refine ⟨vs, ?_, ?_, ?_⟩
        · show _ = Except.ok ((c4.mem.Source.Params.Send out).iirFilter, vs)
          rw [e4.1]
          exact r1
        · show (c4.mem.Slot a).WetBuffer = _
          rw [e4.2]
          exact r2
        · show (c4.mem.Source.Params.Send out).WetGain = _
          rw [e4.1]
          exact r3

/-- The channels of a send's pass, from channel `i` on. -/
theorem wetChannels_spec {E : Env α F} {smp : SamplerId} {data : SrcPtr}
    {nc inc f std n out a : Nat} (o : Nat) (ho : o < 4294967296) (gain : α) :
    ∀ (k i : Nat) (c c1 : Cur α F),
      forLoop (mixWetChannel E smp data nc inc f std n out a) k i c = .ok c1 →
      c.OutPos = o → (c.mem.Source.Params.Send out).WetGain = gain →
      specWetSend E smp data nc inc f o n gain k i (c.mem.Source.Params.Send out).iirFilter
          (c.mem.Slot a).WetBuffer
        = .ok ((c1.mem.Source.Params.Send out).iirFilter, (c1.mem.Slot a).WetBuffer) := by
  intro k
  induction k with
  | zero =>
    intro i c c1 e _ _
    simp only [forLoop, Except.ok.injEq] at e
    subst e
    rfl
  | succ k ih =>
    intro i c c1 e hco hg
    simp only [forLoop] at e
    split at e
    · next c2 e2 =>
      obtain ⟨vs, r1, r2, r3⟩ := mixWetChannel_spec e2
      have r4 := mixWetChannel_outpos e2 (by rw [hco]; exact ho)
      have := ih (i + 1) c2 c1 e (r4.trans hco) (r3.trans hg)
      simp only [specWetSend]
      rw [r1]
      simp only []
      rw [hco, hg] at r2
      rw [← r2]
      exact this
    · simp at e

/-- The pass of a send with a slot whose effect is not the null effect leaves the filter
state of the send and the wet buffer of the slot that `specWetSend` describes. -/
theorem mixSend_spec {E : Env α F} {smp : SamplerId} {data : SrcPtr}
    {nc inc f std n out a : Nat} {c c1 : Cur α F}
    (hs : (c.mem.Source.Params.Send out).Slot = some a)
    (he : (c.mem.Slot a).effectType ≠ E.AL_EFFECT_NULL) (ho : c.OutPos < 4294967296)
    (h : mixSend E smp data nc inc f std n out c = .ok c1) :
    specWetSend E smp data nc inc f c.OutPos n (c.mem.Source.Params.Send out).WetGain nc 0
        (c.mem.Source.Params.Send out).iirFilter (c.mem.Slot a).WetBuffer
      = .ok ((c1.mem.Source.Params.Send out).iirFilter, (c1.mem.Slot a).WetBuffer) := by
  unfold mixSend at h
  rw [hs] at h
  simp only [if_neg he] at h
  exact wetChannels_spec c.OutPos ho _ _ _ _ _ h rfl rfl


/-- The pass of send `out` leaves the other sends alone, and the slots other than the one
the send is routed to. -/
theorem mixSend_others {E : Env α F} {smp : SamplerId} {data : SrcPtr}
    {nc inc f std n out : Nat} {c c1 : Cur α F}
    (h : mixSend E smp data nc inc f std n out c = .ok c1) :
    (∀ o, o ≠ out → c1.mem.Source.Params.Send o = c.mem.Source.Params.Send o) ∧
      (∀ b, (c.mem.Source.Params.Send out).Slot ≠ some b → c1.mem.Slot b = c.mem.Slot b) := by
  have key := mixSend_keeps (fun x : Mem α F => x.fixed = c.mem.fixed ∧
      (∀ o, o ≠ out → x.Source.Params.Send o = c.mem.Source.Params.Send o) ∧
      (∀ b, (c.mem.Source.Params.Send out).Slot ≠ some b → x.Slot b = c.mem.Slot b))
    (fun a i d d1 hs he hb hP => by
      have hfix : d1.mem.fixed = d.mem.fixed := by
        rcases hb with hb | hb | hb
        · exact mixWetLead_fixed hb
        · exact mixWetStep_fixed hb
        · exact mixWetTrail_fixed hb
      have hsl : (c.mem.Source.Params.Send out).Slot = some a := by
        have := congrFun (congrArg Fixed.SendSlot hP.1) out
        exact this.symm.trans hs
      obtain ⟨q1, q2⟩ := wet_blocks_others hb
      refine ⟨hfix.trans hP.1, fun o ho => (q1 o ho).trans (hP.2.1 o ho), fun b hb2 => ?_⟩
      have hne : b ≠ a := fun hh => hb2 (by rw [hh]; exact hsl)
      exact (q2 b hne).trans (hP.2.2 b hb2)) h ⟨rfl, fun _ _ => rfl, fun _ _ => rfl⟩
  exact ⟨key.2.1, key.2.2⟩

/-- The loop over the sends leaves the filter states of the sends and the wet buffers of
the slots that `specWetSends` describes. -/
theorem sends_spec {E : Env α F} {smp : SamplerId} {data : SrcPtr}
    {nc inc f std n : Nat} (m : Mem α F) (o : Nat) (ho : o < 4294967296) :
    ∀ (k out : Nat) (c c2 : Cur α F) (flt : Nat → F) (W : Nat → Nat → α),
      forLoop (mixSend E smp data nc inc f std n) k out c = .ok c2 →
      c.mem.fixed = m.fixed → c.OutPos = o →
      (fun j => (c.mem.Source.Params.Send j).iirFilter) = flt →
      (fun b => (c.mem.Slot b).WetBuffer) = W →
      specWetSends E smp data nc inc f o n (fun j => (m.Source.Params.Send j).Slot)
          (fun j => (m.Source.Params.Send j).WetGain) (fun b => (m.Slot b).effectType)
          k out flt W
        = .ok (fun j => (c2.mem.Source.Params.Send j).iirFilter,
            fun b => (c2.mem.Slot b).WetBuffer) := by
  intro k
  induction k with
  | zero =>
    intro out c c2 flt W e _ _ hf hW
    simp only [forLoop, Except.ok.injEq] at e
    subst e
    rw [← hf, ← hW]
    rfl
  | succ k ih =>
    intro out c c2 flt W e hfix hco hf hW
    simp only [forLoop] at e
    split at e
    · next c1 e1 =>
      have hfix1 : c1.mem.fixed = m.fixed := (mixSend_fixed e1).trans hfix
      have hco1 : c1.OutPos = o := (mixSend_outpos e1 (by rw [hco]; exact ho)).trans hco
      have hslot : (m.Source.Params.Send out).Slot = (c.mem.Source.Params.Send out).Slot :=
        (congrFun (congrArg Fixed.SendSlot hfix) out).symm
      have hgain : (m.Source.Params.Send out).WetGain
          = (c.mem.Source.Params.Send out).WetGain :=
        (congrFun (congrArg Fixed.WetGain hfix) out).symm
      obtain ⟨q1, q2⟩ := mixSend_others e1
      simp only [specWetSends]
      cases hs : (c.mem.Source.Params.Send out).Slot with
      | none =>
        rw [hslot, hs]
        simp only []
        have e1x := e1
        unfold mixSend at e1x
        rw [hs] at e1x
        simp only [Except.ok.injEq] at e1x
        subst e1x
        exact ih _ _ _ _ _ e hfix hco hf hW
      | some a =>
        rw [hslot, hs]
        simp only []
        have heff : (m.Slot a).effectType = (c.mem.Slot a).effectType :=
          (congrFun (congrArg Fixed.effectType hfix) a).symm
        by_cases hn : (c.mem.Slot a).effectType = E.AL_EFFECT_NULL
        · rw [if_pos (heff.trans hn)]
          have e1x := e1
          unfold mixSend at e1x
          rw [hs] at e1x
          simp only [if_pos hn, Except.ok.injEq] at e1x
          subst e1x
          exact ih _ _ _ _ _ e hfix hco hf hW
        · rw [if_neg (fun hh => hn (heff.symm.trans hh))]
          have sp := mixSend_spec hs hn (by rw [hco]; exact ho) e1
          rw [hco, ← hgain] at sp
          have hfo : flt out = (c.mem.Source.Params.Send out).iirFilter := by
            rw [← hf]
          have hWa : W a = (c.mem.Slot a).WetBuffer := by
            rw [← hW]
          rw [hfo, hWa, sp]
          simp only []
          refine ih _ _ _ _ _ e hfix1 hco1 ?_ ?_
          · funext j
            by_cases hj : j = out
            · rw [if_pos hj, hj]
            · rw [if_neg hj, q1 j hj, ← hf]
          · funext b
            by_cases hb : b = a
            · rw [if_pos hb, hb]
            · rw [if_neg hb, q2 b (by rw [hs]; exact fun hh => hb (Option.some.inj hh).symm),
                ← hW]
    · simp at e

/-- C19: the auxiliary sends of a mixer call (plain or HRTF) that returns.  A send whose slot
is null or has the null effect is skipped: its filter state and its slot (`wet_buffer`,
`click_removal`, `pending_clicks`) are as before the call.  The position written back is
that of `BufferSize` phase advances, whatever the sends.  The filter states of the sends and
the wet buffers of the slots after the call are those of `specWetSends`: every send with a
slot whose effect is not the null effect adds, for every source channel in turn and every
output step `k`, the sample of the step passed through the one-pole filter `lpFilter1P`,
times its wet gain, to `wet_buffer[out_pos + k]` of its slot. -/
theorem C19_aux_sends (E : Env α F) (g : MixerFunc) (m : Mem α F) (data : SrcPtr)
    (p f o std n : Nat) (res : MixResult α F) (ho : o < 4294967296)
    (e : g.call E m data p f o std n = .ok res) :
    (∀ out, ((m.Source.Params.Send out).Slot = none ∨
        ∃ a, (m.Source.Params.Send out).Slot = some a ∧
          (m.Slot a).effectType = E.AL_EFFECT_NULL) →
      (res.mem.Source.Params.Send out).iirFilter = (m.Source.Params.Send out).iirFilter ∧
      ∀ a, (m.Source.Params.Send out).Slot = some a →
        (res.mem.Slot a).WetBuffer = (m.Slot a).WetBuffer ∧
        (res.mem.Slot a).ClickRemoval = (m.Slot a).ClickRemoval ∧
        (res.mem.Slot a).PendingClicks = (m.Slot a).PendingClicks) ∧
    ((m.Source.NumChannels = 0 ∧ res.DataPosInt = u32 (p + 0) ∧ res.DataPosFrac = f) ∨
      (0 < m.Source.NumChannels ∧
        res.DataPosInt = u32 (p + ((phaseStep m.Source.Params.Step)^[n] (0, f)).1) ∧
        res.DataPosFrac = ((phaseStep m.Source.Params.Step)^[n] (0, f)).2)) ∧
    specWetSends E g.sampler data m.Source.NumChannels m.Source.Params.Step f o n
        (fun j => (m.Source.Params.Send j).Slot) (fun j => (m.Source.Params.Send j).WetGain)
        (fun b => (m.Slot b).effectType) m.Device.NumAuxSends 0
        (fun j => (m.Source.Params.Send j).iirFilter) (fun b => (m.Slot b).WetBuffer)
      = .ok (fun j => (res.mem.Source.Params.Send j).iirFilter,
          fun b => (res.mem.Slot b).WetBuffer) := by
  obtain ⟨c1, c2, k1, k2, k3, k4, k5, k6⟩ := call_split ho e
  refine ⟨?_, call_phase e, ?_⟩
  · intro out hskip
    have key := forLoop_inv _ (fun s : Cur α F => s.mem.fixed = m.fixed ∧
        s.mem.Source.Params.Send out = m.Source.Params.Send out ∧
        ∀ a, (m.Source.Params.Send out).Slot = some a → s.mem.Slot a = m.Slot a)
      (fun j s s1 hs hb => by
        obtain ⟨q1, q2⟩ := mixSend_others hb
        have hfix1 : s1.mem.fixed = m.fixed := (mixSend_fixed hb).trans hs.1
        by_cases hact : ∃ a, (s.mem.Source.Params.Send j).Slot = some a ∧
            (s.mem.Slot a).effectType ≠ E.AL_EFFECT_NULL
        · obtain ⟨a1, ha1, ha2⟩ := hact
          have hm1 : (m.Source.Params.Send j).Slot = some a1 :=
            (congrFun (congrArg Fixed.SendSlot hs.1) j).symm.trans ha1
          have hm2 : (m.Slot a1).effectType ≠ E.AL_EFFECT_NULL := fun hh =>
            ha2 ((congrFun (congrArg Fixed.effectType hs.1) a1).trans hh)
          have hj : out ≠ j := by
            intro hh
            rw [hh] at hskip
            rcases hskip with h0 | ⟨a, h0, h1⟩
            · rw [h0] at hm1
              exact Option.noConfusion hm1
            · rw [h0] at hm1
              rw [Option.some.inj hm1] at h1
              exact hm2 h1
          refine ⟨hfix1, (q1 out hj).trans hs.2.1, fun a ha => ?_⟩
          have hne : (s.mem.Source.Params.Send j).Slot ≠ some a := by
            rw [ha1]
            intro hh
            rcases hskip with h0 | ⟨a0, h0, h1⟩
            · rw [h0] at ha
              exact Option.noConfusion ha
            · rw [h0] at ha
              rw [Option.some.inj ha, ← Option.some.inj hh] at h1
              exact hm2 h1
          exact (q2 a hne).trans (hs.2.2 a ha)
        · have hsame : s1 = s := by
            unfold mixSend at hb
            split at hb
            · simp only [Except.ok.injEq] at hb
              exact hb.symm
            · next a ha =>
              split at hb
              · simp only [Except.ok.injEq] at hb
                exact hb.symm
              · next hne => exact absurd ⟨a, ha, hne⟩ hact
          rw [hsame]
          exact hs) _ _ _ _ ⟨k1, by rw [k2], fun a _ => by rw [k3]⟩ k5
    rw [k6]
    refine ⟨by rw [key.2.1], fun a ha => ?_⟩
    rw [key.2.2 a ha]
    exact ⟨rfl, rfl, rfl⟩
  · have sp := sends_spec m o ho _ _ _ _ _ _ k5 k1 k4 rfl rfl
    rw [k2, k3] at sp
    rw [k6]
    exact sp

end SendLemmas

theorem exSendMem_spec (flt : Nat → Unit) (W : Nat → Nat → ℚ)
    (h : specWetSends (exEnv 16384) .point8 { bytes := [10, 20, 30], off := 0 } 1 16384 0 0 2
        (fun j => (exSendMem.Source.Params.Send j).Slot)
        (fun j => (exSendMem.Source.Params.Send j).WetGain)
        (fun b => (exSendMem.Slot b).effectType) 2 0
        (fun j => (exSendMem.Source.Params.Send j).iirFilter)
        (fun b => (exSendMem.Slot b).WetBuffer) = .ok (flt, W)) :
    W 5 0 = (0 : ℚ) + (exEnv 16384).ofByte [10] * recip ℚ 127 * 2 ∧
      W 5 1 = (0 : ℚ) + (exEnv 16384).ofByte [20] * recip ℚ 127 * 2 := by
  have e : W = (okOr (fun _ => (), fun _ _ => (0 : ℚ))
      (specWetSends (exEnv 16384) .point8 { bytes := [10, 20, 30], off := 0 } 1 16384 0 0 2
        (fun j => (exSendMem.Source.Params.Send j).Slot)
        (fun j => (exSendMem.Source.Params.Send j).WetGain)
        (fun b => (exSendMem.Slot b).effectType) 2 0
        (fun j => (exSendMem.Source.Params.Send j).iirFilter)
        (fun b => (exSendMem.Slot b).WetBuffer))).2 := by
    rw [h]
    rfl
  rw [e]
  exact ⟨by rfl, by rfl⟩

/-- C19 (witness): the plain mixer for 8-bit samples with the point kernel at unit step, called
for two samples of the window `[10, 20, 30]` on a device with two sends.  Send 1, without a
slot, keeps its filter state; send 0, with wet gain 2, adds `20/127` to `wet_buffer[0]` and
`40/127` to `wet_buffer[1]` of its slot. -/
theorem C19_aux_sends_witness :
    MixerFunc.Mix_ALbyte_point8.call (exEnv 16384) exSendMem
        { bytes := [10, 20, 30], off := 0 } 0 0 0 2 2
      = .ok (exCall .Mix_ALbyte_point8 16384 exSendMem
          { bytes := [10, 20, 30], off := 0 } 0 0 0 2 2) ∧
    (exSendMem.Source.Params.Send 1).Slot = none ∧
    ((exCall .Mix_ALbyte_point8 16384 exSendMem
        { bytes := [10, 20, 30], off := 0 } 0 0 0 2 2).mem.Source.Params.Send 1).iirFilter
      = (exSendMem.Source.Params.Send 1).iirFilter ∧
    (exSendMem.Slot 5).WetBuffer 0 = 0 ∧ (exSendMem.Slot 5).WetBuffer 1 = 0 ∧
    ((exCall .Mix_ALbyte_point8 16384 exSendMem
        { bytes := [10, 20, 30], off := 0 } 0 0 0 2 2).mem.Slot 5).WetBuffer 0 = 20 / 127 ∧
    ((exCall .Mix_ALbyte_point8 16384 exSendMem
        { bytes := [10, 20, 30], off := 0 } 0 0 0 2 2).mem.Slot 5).WetBuffer 1 = 40 / 127 := by
  have key := C19_aux_sends (exEnv 16384) .Mix_ALbyte_point8 exSendMem
    { bytes := [10, 20, 30], off := 0 } 0 0 0 2 2
    (exCall .Mix_ALbyte_point8 16384 exSendMem { bytes := [10, 20, 30], off := 0 } 0 0 0 2 2)
    (by decide) (by rfl)
  obtain ⟨h1, h2⟩ := exSendMem_spec
    (fun j => ((exCall .Mix_ALbyte_point8 16384 exSendMem
      { bytes := [10, 20, 30], off := 0 } 0 0 0 2 2).mem.Source.Params.Send j).iirFilter)
    (fun b => ((exCall .Mix_ALbyte_point8 16384 exSendMem
      { bytes := [10, 20, 30], off := 0 } 0 0 0 2 2).mem.Slot b).WetBuffer) key.2.2
  refine ⟨by rfl, rfl, (key.1 1 (Or.inl rfl)).1, rfl, rfl, ?_, ?_⟩
  · exact h1.trans (by norm_num [exEnv, recip])
  · exact h2.trans (by norm_num [exEnv, recip])

/-! ## One iteration of the loop of `MixSource` on a playable source -/

section IterFacts

variable {α F : Type} [Add α] [Sub α] [Mul α] [Div α] [IntCast α]

/-- What one iteration of the loop of `MixSource` does on a playable source: it assembles a
window of `iterFrames` frames, calls the mixer of the source for `iterCount` samples, which
advance the phase by that many steps without leaving the frames between the paddings, and
runs the loop under "Handle looping sources" on the result. -/
theorem feedIter_facts {E : Env α F} {m : Mem α F} {std : Nat} {g : MixerFunc}
    {pre post : Nat} (hP : Playable E m std g pre post) {st st1 : FeedSt α F}
    (hI : FeedInv m std st) {fuel : Nat}
    (h : feedIter E fuel std m.Source.Params.Step m.Source.Resampler
      (u32 (m.Source.NumChannels * m.Source.SampleSize)) st = .ok st1) :
    ∃ (S : List Nat) (L : Bool) (n : Nat) (res : MixResult α F),
      assemble fuel st.mem.Source st.Looping st.BufferListItem st.DataPosInt pre
          (m.Source.NumChannels * m.Source.SampleSize)
          (iterFrames E.STACK_DATA_SIZE (m.Source.NumChannels * m.Source.SampleSize) std
            st.OutPos m.Source.Params.Step st.DataPosFrac pre post
            * (m.Source.NumChannels * m.Source.SampleSize)) = .ok (S, L) ∧
      S.length = iterFrames E.STACK_DATA_SIZE (m.Source.NumChannels * m.Source.SampleSize) std
            st.OutPos m.Source.Params.Step st.DataPosFrac pre post
            * (m.Source.NumChannels * m.Source.SampleSize) ∧
      pre + post + 1 ≤ iterFrames E.STACK_DATA_SIZE
        (m.Source.NumChannels * m.Source.SampleSize) std st.OutPos m.Source.Params.Step
        st.DataPosFrac pre post ∧
      iterFrames E.STACK_DATA_SIZE (m.Source.NumChannels * m.Source.SampleSize) std st.OutPos
        m.Source.Params.Step st.DataPosFrac pre post ≤ 131072 ∧
      n = iterCount (iterFrames E.STACK_DATA_SIZE (m.Source.NumChannels * m.Source.SampleSize)
        std st.OutPos m.Source.Params.Step st.DataPosFrac pre post) std st.OutPos
        m.Source.Params.Step st.DataPosFrac pre post ∧
      n ≤ std - st.OutPos ∧ (st.OutPos < std → 0 < n) ∧
      (st.DataPosFrac + n * m.Source.Params.Step) / 16384 + 1
        ≤ iterFrames E.STACK_DATA_SIZE (m.Source.NumChannels * m.Source.SampleSize) std
            st.OutPos m.Source.Params.Step st.DataPosFrac pre post - (post + pre) ∧
      g.call E st.mem
        { bytes := S, off := ((pre * (m.Source.NumChannels * m.Source.SampleSize) : Nat) : Int) }
        st.DataPosInt st.DataPosFrac st.OutPos std n = .ok res ∧
      res.mem.fixed = m.fixed ∧
      res.DataPosInt
        = u32 (st.DataPosInt + (st.DataPosFrac + n * m.Source.Params.Step) / 16384) ∧
      res.DataPosFrac = (st.DataPosFrac + n * m.Source.Params.Step) % 16384 ∧
      advanceLoop (m.Source.NumChannels * m.Source.SampleSize) fuel { st with
        mem := res.mem
        DataPosInt := res.DataPosInt
        DataPosFrac := res.DataPosFrac
        Looping := L
        OutPos := st.OutPos + n
        calls := st.calls ++ [{ SrcData := S
                                base := pre * (m.Source.NumChannels * m.Source.SampleSize)
                                DataPosInt := st.DataPosInt
                                DataPosFrac := st.DataPosFrac
                                OutPos := st.OutPos
                                BufferSize := n }] } = .ok st1 := by
  obtain ⟨hFS, hFSle, hpads, hS⟩ := hP.frame
  have hout := hI.out
  rw [u32_small (m.Source.NumChannels * m.Source.SampleSize) (by omega)] at h
  have hfr := hI.frac
  rw [FRACTIONONE_eq] at hfr
  have hstd := hP.todo
  norm_num at hstd
  have hsl := hP.step_le
  rw [FRACTIONONE_eq] at hsl
  have hqq : st.mem.Source.queue = m.Source.queue := congrArg Fixed.queue hI.fixed
  have hncE : st.mem.Source.NumChannels = m.Source.NumChannels :=
    congrArg Fixed.NumChannels hI.fixed
  have hstE : st.mem.Source.Params.Step = m.Source.Params.Step := congrArg Fixed.Step hI.fixed
  have hdoE : st.mem.Source.Params.DoMix = m.Source.Params.DoMix :=
    congrArg Fixed.DoMix hI.fixed
  have hSF : E.STACK_DATA_SIZE / (m.Source.NumChannels * m.Source.SampleSize)
      ≤ E.STACK_DATA_SIZE := Nat.div_le_self _ _
  have hstepu : m.Source.Params.Step < 4294967296 := by
    have : (E.STACK_DATA_SIZE / (m.Source.NumChannels * m.Source.SampleSize) - (pre + post) - 1)
        * 16384 ≤ 131072 * 16384 := Nat.mul_le_mul_right _ (by omega)
    omega
  obtain ⟨pre1, post1, B0, S, L, n, g1, res, hpre, hpost, hreq, hasm, hcnt, hdo, hcall, hadv⟩ :=
    feedIter_inv h
  rw [hP.pre_pad] at hpre
  rw [hP.post_pad] at hpost
  simp only [Option.some.injEq] at hpre hpost
  subst hpre
  subst hpost
  have hg : g1 = g := by
    rw [hdoE, hP.do_mix] at hdo
    exact (Option.some.inj hdo).symm
  subst hg
  obtain ⟨r1, r2, r3⟩ := requestSize_spec (by omega) hstd hI.out hfr (by omega) hreq
  have hitem : st.mem.Source.lSourceType = .AL_STATIC ∨
      (st.BufferListItem.isSome ∧ 0 < st.mem.Source.queue.length) := by
    obtain ⟨it, hit, hlt⟩ := hI.item
    right
    rw [hit, hqq]
    exact ⟨rfl, by omega⟩
  have hlen : S.length = B0 := assemble_length hitem hasm
  have b1 := iter_frames std st.OutPos st.DataPosFrac
    (show pre + post < E.STACK_DATA_SIZE / (m.Source.NumChannels * m.Source.SampleSize) by omega)
    hP.step_pos
  have hn := mixCount_spec (hlen.trans r3) r1 hP.step_pos hstepu hfr b1 (by omega) hcnt
  have hnle : n ≤ usub std st.OutPos := mixCount_le hcnt
  have hus : usub std st.OutPos = std - st.OutPos := usub_of_le hI.out (by omega)
  rw [hus] at hnle
  obtain ⟨c1, c2, c3, c4⟩ := iter_bounds r1 hS
    (show pre + post < E.STACK_DATA_SIZE / (m.Source.NumChannels * m.Source.SampleSize) by omega)
    hP.step_pos hfr hn
  have hprog : st.OutPos < std → 0 < n := fun ho =>
    iter_progress hS (by omega) hfr hP.step_pos hsl ho hn
  have hit := phaseStep_iterate m.Source.Params.Step st.DataPosFrac hfr n c4 (by omega)
  have hph : res.DataPosInt
        = u32 (st.DataPosInt + (st.DataPosFrac + n * m.Source.Params.Step) / 16384) ∧
      res.DataPosFrac = (st.DataPosFrac + n * m.Source.Params.Step) % 16384 := by
    rcases call_phase hcall with ⟨h0, -⟩ | ⟨-, h1, h2⟩
    · have := hP.channels
      rw [hncE] at h0
      omega
    · rw [hstE, hit] at h1 h2
      exact ⟨h1, h2⟩
  have e1 : u32 (pre * (m.Source.NumChannels * m.Source.SampleSize))
      = pre * (m.Source.NumChannels * m.Source.SampleSize) := by
    apply u32_small
    have : pre * (m.Source.NumChannels * m.Source.SampleSize) ≤ 2 * 131072 :=
      Nat.mul_le_mul (padding_le_two hP.pre_pad) hFSle
    omega
  have e2 : u32 (st.OutPos + n) = st.OutPos + n := u32_small _ (by omega)
  rw [e1] at hcall hadv
  rw [e2] at hadv
  rw [hus] at hn
  rw [r3] at hasm hlen
  exact ⟨S, L, n, res, hasm, hlen, c1, c3, hn, hnle, hprog, c2, hcall,
    (call_fixed hcall).trans hI.fixed, hph.1, hph.2, hadv⟩

end IterFacts

/-! ## The end of the buffer of a static source -/

section StaticEnd

variable {α F : Type} [Add α] [Sub α] [Mul α] [Div α] [IntCast α]

/-- One iteration on a playing static source that does not loop: it stops the source exactly
when the advanced position has reached the end of the buffer. -/
theorem feedIter_static {E : Env α F} {m : Mem α F} {std : Nat} {g : MixerFunc}
    {pre post : Nat} (hP : Playable E m std g pre post) {b : ALbuffer}
    (hty : m.Source.lSourceType = .AL_STATIC) (hq : m.Source.queue = [some b])
    {P0 : Nat} {st st1 : FeedSt α F} (hI : FeedInv m std st)
    (hJ : StaticInv (b.size / (m.Source.NumChannels * m.Source.SampleSize)) P0
      m.Source.Params.Step st)
    (hplay : st.State = .AL_PLAYING) {fuel : Nat}
    (h : feedIter E fuel std m.Source.Params.Step m.Source.Resampler
      (u32 (m.Source.NumChannels * m.Source.SampleSize)) st = .ok st1) :
    StaticInv (b.size / (m.Source.NumChannels * m.Source.SampleSize)) P0
      m.Source.Params.Step st1 := by
  obtain ⟨hFS, hFSle, hpads, hS⟩ := hP.frame
  obtain ⟨b2, hq2, hsz, hLE, -, -⟩ := hP.static hty
  have hbb : b2 = b := by
    rw [hq] at hq2
    simp only [List.cons.injEq, Option.some.injEq, and_true] at hq2
    exact hq2.symm
  subst hbb
  norm_num at hsz
  obtain ⟨S, L, n, res, hasm, hlen, f1, f2, f3, f4, f5, f6, hcall, hfix, hpi, hpf, hadv⟩ :=
    feedIter_facts hP hI h
  obtain ⟨hphase, hpos⟩ := hJ.playing hplay
  have hL : L = false := by
    cases hLL : L with
    | false => rfl
    | true =>
      rw [hLL] at hasm
      have := assemble_looping hasm rfl
      rw [hJ.looping] at this
      exact Bool.noConfusion this
  have hLfr : b2.size / (m.Source.NumChannels * m.Source.SampleSize) ≤ b2.size :=
    Nat.div_le_self _ _
  have hLE2 : b2.LoopEnd ≤ b2.size / (m.Source.NumChannels * m.Source.SampleSize) :=
    (Nat.le_div_iff_mul_le hFS).mpr hLE
  generalize hFr : iterFrames E.STACK_DATA_SIZE (m.Source.NumChannels * m.Source.SampleSize)
    std st.OutPos m.Source.Params.Step st.DataPosFrac pre post = Fr at *
  have hpi2 : res.DataPosInt
      = st.DataPosInt + (st.DataPosFrac + n * m.Source.Params.Step) / 16384 := by
    rw [hpi]
    exact u32_small _ (by omega)
  have hph2 : res.DataPosInt * 16384 + res.DataPosFrac
      = P0 + (st.OutPos + n) * m.Source.Params.Step := by
    rw [hpi2, hpf]
    have e3 := Nat.div_add_mod (st.DataPosFrac + n * m.Source.Params.Step) 16384
    have e4 : (st.OutPos + n) * m.Source.Params.Step
        = st.OutPos * m.Source.Params.Step + n * m.Source.Params.Step := Nat.add_mul _ _ _
    omega
  obtain ⟨it, hitem, hitlt⟩ := hI.item
  have hit0 : it = 0 := by
    rw [hq] at hitlt
    simp at hitlt
    exact hitlt
  subst hit0
  have hresq : res.mem.Source.queue = m.Source.queue := congrArg Fixed.queue hfix
  obtain ⟨st2, hst2, hadv⟩ : ∃ st2 : FeedSt α F, st2 = { st with
      mem := res.mem
      DataPosInt := res.DataPosInt
      DataPosFrac := res.DataPosFrac
      Looping := L
      OutPos := st.OutPos + n
      calls := st.calls ++ [{ SrcData := S
                              base := pre * (m.Source.NumChannels * m.Source.SampleSize)
                              DataPosInt := st.DataPosInt
                              DataPosFrac := st.DataPosFrac
                              OutPos := st.OutPos
                              BufferSize := n }] } ∧
      advanceLoop (m.Source.NumChannels * m.Source.SampleSize) fuel st2 = .ok st1 :=
    ⟨_, rfl, hadv⟩
  have g1 : st2.BufferListItem = some 0 := by rw [hst2]; exact hitem
  have g2 : st2.mem.Source.queue = [some b2] := by
    rw [hst2]
    show res.mem.Source.queue = _
    rw [hresq, hq]
  have g3 : st2.Looping = false := by rw [hst2]; exact hL
  have g4 : st2.DataPosInt = res.DataPosInt := by rw [hst2]
  have g5 : st2.DataPosFrac = res.DataPosFrac := by rw [hst2]
  have g6 : st2.OutPos = st.OutPos + n := by rw [hst2]
  have g7 : st2.State = .AL_PLAYING := by rw [hst2]; exact hplay
  cases fuel with
  | zero => simp [advanceLoop] at hadv
  | succ k =>
    rw [advanceLoop_step _ k st2 0 hFS g1 (by
      rintro ⟨hh, -⟩
      rw [g3] at hh
      exact Bool.noConfusion hh)] at hadv
    have hbs : bufSize st2.mem.Source.queue 0 = b2.size := by
      rw [g2]
      rfl
    have hble : bufLoopEnd st2.mem.Source.queue 0 = b2.LoopEnd := by
      rw [g2]
      rfl
    rw [hbs, hble, g4] at hadv
    by_cases hc : res.DataPosInt < b2.LoopEnd ∨
        res.DataPosInt < b2.size / (m.Source.NumChannels * m.Source.SampleSize)
    · rw [if_pos hc] at hadv
      simp only [Except.ok.injEq] at hadv
      subst hadv
      refine ⟨g3, fun _ => ⟨?_, ?_⟩, fun hne => absurd g7 hne⟩
      · rw [g4, g5, g6]
        exact hph2
      · rw [g4]
        omega
    · rw [if_neg hc, if_neg (by rw [g2]; simp), g3] at hadv
      simp only [Bool.false_eq_true, if_false, Except.ok.injEq] at hadv
      subst hadv
      refine ⟨rfl, fun hh => ALstate.noConfusion hh, fun _ => ⟨rfl, ?_⟩⟩
      show _ ≤ P0 + st2.OutPos * m.Source.Params.Step
      rw [g6]
      omega

/-- C13 (amended): take a static source that does not loop and is playing, whose buffer has
`L` frames, at a position `p < L`, and a slice `N < 2^32 - 1` that is `Playable` (the mixer
selected for the sample type, a step of at least 1 that the stack buffer of at most `2^17`
bytes can hold).  Then `MixSource` returns given enough fuel; it leaves the source Stopped if
and only if `p*FRACTIONONE + position_fraction + N*step >= L*FRACTIONONE`, and otherwise
Playing at exactly the advanced position and fraction. -/
theorem C13_static_end (E : Env α F) (m : Mem α F) (N : Nat) (g : MixerFunc)
    (pre post : Nat) (b : ALbuffer) (hP : Playable E m N g pre post)
    (hplay : m.Source.state = .AL_PLAYING)
    (hty : m.Source.lSourceType = .AL_STATIC) (hloop : m.Source.bLooping = false)
    (hq : m.Source.queue = [some b])
    (hp : m.Source.position < b.size / (m.Source.NumChannels * m.Source.SampleSize)) :
    ∃ N0 r, (∀ fuel, N0 ≤ fuel → MixSource E fuel m N = .ok r) ∧
      (r.1.Source.state = .AL_STOPPED ↔
        b.size / (m.Source.NumChannels * m.Source.SampleSize) * FRACTIONONE
          ≤ m.Source.position * FRACTIONONE + m.Source.position_fraction
            + N * m.Source.Params.Step) ∧
      (¬ b.size / (m.Source.NumChannels * m.Source.SampleSize) * FRACTIONONE
          ≤ m.Source.position * FRACTIONONE + m.Source.position_fraction
            + N * m.Source.Params.Step →
        r.1.Source.state = .AL_PLAYING ∧
        r.1.Source.position
          = (m.Source.position * FRACTIONONE + m.Source.position_fraction
              + N * m.Source.Params.Step) / FRACTIONONE ∧
        r.1.Source.position_fraction
          = (m.Source.position * FRACTIONONE + m.Source.position_fraction
              + N * m.Source.Params.Step) % FRACTIONONE) := by
  obtain ⟨N0, r, hret⟩ : ∃ N0 r, ∀ fuel, N0 ≤ fuel → MixSource E fuel m N = .ok r := by
    obtain ⟨N1, M, st1, h⟩ := feedLoop_returns hP N _ (feedInv_init hP)
      (Nat.le_of_eq (Nat.sub_zero N))
    exact ⟨max N1 M, _, fun fuel hf => MixSource_loop_ok E m (walkQueue_head hP.played)
      (h fuel (le_trans (le_max_left _ _) hf) fuel (le_trans (le_max_right _ _) hf))⟩
  have hrun := hret N0 (Nat.le_refl _)
  obtain ⟨item, st, hw, hfeed, hcalls, -, -, hs, -, hpos, hfr, -⟩ := MixSource_inv hrun
  rw [walkQueue_head hP.played] at hw
  simp only [Except.ok.injEq] at hw
  subst hw
  obtain ⟨⟨hIf, hJf⟩, hexit⟩ := feedLoop_ind
    (fun s : FeedSt α F => FeedInv m N s ∧ s.State = .AL_PLAYING ∧
      StaticInv (b.size / (m.Source.NumChannels * m.Source.SampleSize))
        (m.Source.position * 16384 + m.Source.position_fraction) m.Source.Params.Step s)
    (fun s : FeedSt α F => FeedInv m N s ∧
      StaticInv (b.size / (m.Source.NumChannels * m.Source.SampleSize))
        (m.Source.position * 16384 + m.Source.position_fraction) m.Source.Params.Step s)
    (fun s s1 hI hit =>
      ⟨(feedIter_keeps hP hI.1 hit).1, feedIter_static hP hty hq hI.1 hI.2.2 hI.2.1 hit⟩)
    (fun s hR hpl _ => ⟨hR.1, hpl, hR.2⟩) N0 _ _
    ⟨feedInv_init hP, hplay,
      { looping := hloop
        playing := fun _ => ⟨by
          show m.Source.position * 16384 + m.Source.position_fraction
            = m.Source.position * 16384 + m.Source.position_fraction
              + 0 * m.Source.Params.Step
          omega, hp⟩
        stopped := fun hne => absurd hplay hne }⟩ hfeed
  have hout := hIf.out
  have hfrac := hIf.frac
  rw [FRACTIONONE_eq] at hfrac ⊢
  refine ⟨N0, r, hret, ?_, ?_⟩
  · rw [hs]
    constructor
    · intro hst
      have := (hJf.stopped (by rw [hst]; exact fun hh => ALstate.noConfusion hh)).2
      have hmul : st.OutPos * m.Source.Params.Step ≤ N * m.Source.Params.Step :=
        Nat.mul_le_mul_right _ hout
      omega
    · intro hge
      by_cases hpl : st.State = .AL_PLAYING
      · exfalso
        obtain ⟨q1, q2⟩ := hJf.playing hpl
        have hO : st.OutPos = N := by
          have : ¬ st.OutPos < N := fun hh => hexit ⟨hpl, hh⟩
          omega
        rw [hO] at q1
        omega
      · exact (hJf.stopped hpl).1
  · intro hlt
    have hpl : st.State = .AL_PLAYING := by
      by_contra hne
      have := (hJf.stopped hne).2
      have hmul : st.OutPos * m.Source.Params.Step ≤ N * m.Source.Params.Step :=
        Nat.mul_le_mul_right _ hout
      omega
    obtain ⟨q1, q2⟩ := hJf.playing hpl
    have hO : st.OutPos = N := by
      have : ¬ st.OutPos < N := fun hh => hexit ⟨hpl, hh⟩
      omega
    rw [hO] at q1
    rw [hs, hpos, hfr]
    refine ⟨hpl, ?_, ?_⟩ <;> omega

end StaticEnd

/-- C13 at scenario A: a four-sample static buffer played by single-sample calls at unit step.
From position 3 the call reaches frame 4 and stops the source; over the four successive
calls from position 0 the source is Playing after calls 1 to 3 and Stopped after call 4. -/
theorem C13_static_end_witness :
    Playable (exEnv 16384) (exStatic4 .AL_PLAYING 3) 1 .Mix_ALbyte_point8 0 0 ∧
    (exStatic4 .AL_PLAYING 3).Source.position < 4 ∧
    (∃ N0 r, (∀ fuel, N0 ≤ fuel →
        MixSource (exEnv 16384) fuel (exStatic4 .AL_PLAYING 3) 1 = .ok r) ∧
      r.1.Source.state = .AL_STOPPED) ∧
    (exShortRun 1).Source.state = .AL_PLAYING ∧ (exShortRun 1).Source.position = 1 ∧
    (exShortRun 2).Source.state = .AL_PLAYING ∧ (exShortRun 2).Source.position = 2 ∧
    (exShortRun 3).Source.state = .AL_PLAYING ∧ (exShortRun 3).Source.position = 3 ∧
    (exShortRun 4).Source.state = .AL_STOPPED :=
  have hP : Playable (exEnv 16384) (exStatic4 .AL_PLAYING 3) 1 .Mix_ALbyte_point8 0 0 :=
    { do_mix := rfl
      selected := ⟨exBuffer [], Or.inl rfl⟩
      pre_pad := rfl
      post_pad := rfl
      sample_size := rfl
      channels := by decide
      stack := by decide
      step_pos := by decide
      step_le := by decide
      frac := by decide
      todo := by decide
      played := by decide
      static := fun _ => ⟨_, rfl, by decide, by decide, by decide, fun h => Bool.noConfusion h⟩
      stream := fun h => absurd rfl h }
  have h := C13_static_end (exEnv 16384) (exStatic4 .AL_PLAYING 3) 1 .Mix_ALbyte_point8 0 0
    (exBuffer [10, 11, 12, 13]) hP rfl rfl rfl rfl (by decide)
  ⟨hP, by decide,
    let ⟨N0, r, h1, h2, _⟩ := h
    ⟨N0, r, h1, h2.mpr (by decide)⟩,
    by rfl, by rfl, by rfl, by rfl, by rfl, by rfl, by rfl⟩

/-- C13 fails for `N = 2^32 - 1`: scenario A at position 0 has
`p*FRACTIONONE + position_fraction + N*step >= L*FRACTIONONE`, so the claim has `MixSource`
return with the source Stopped; but the 32-bit `SamplesToDo - OutPos + 1` is 0, the first
iteration assembles an empty window and the mixer reads frame 0 outside it: `MixSource`
returns nothing. -/
theorem C13_counterexample :
    (exStatic4 .AL_PLAYING 0).Source.state = .AL_PLAYING ∧
    (exStatic4 .AL_PLAYING 0).Source.position < 4 ∧
    4 * FRACTIONONE ≤ (exStatic4 .AL_PLAYING 0).Source.position * FRACTIONONE
      + (exStatic4 .AL_PLAYING 0).Source.position_fraction
      + 4294967295 * (exStatic4 .AL_PLAYING 0).Source.Params.Step ∧
    requestSize 16384 4294967295 0 16384 0 0 0 1 = .ok 0 ∧
    ∀ fuel, ∀ r, MixSource (exEnv 16384) fuel (exStatic4 .AL_PLAYING 0) 4294967295 ≠ .ok r := by
  refine ⟨rfl, by decide, by decide, by rfl, fun fuel r => ?_⟩
  cases fuel with
  | zero =>
    intro h
    have e : MixSource (exEnv 16384) 0 (exStatic4 .AL_PLAYING 0) 4294967295
        = .error .outOfFuel := by rfl
    rw [e] at h
    exact Except.noConfusion h
  | succ k =>
    intro h
    have e : MixSource (exEnv 16384) (k + 1) (exStatic4 .AL_PLAYING 0) 4294967295
        = .error .badRead := by rfl
    rw [e] at h
    exact Except.noConfusion h

/-! ## The content of the window of a source that does not loop -/

theorem bufSize_eq_length (q : Queue) (it : Nat) : bufSize q it = (bufData q it).length := by
  unfold bufSize bufData
  cases itemBuffer q it <;> rfl

theorem queueBytes_drop (q : Queue) : ∀ (it : Nat), it < q.length →
    queueBytes (q.drop it) = bufData q it ++ queueBytes (q.drop (it + 1)) := by
  induction q with
  | nil => intro it h; simp at h
  | cons a q ih =>
    intro it h
    cases it with
    | zero =>
      cases a with
      | none => simp [queueBytes, bufData, itemBuffer]
      | some b => simp [queueBytes, bufData, itemBuffer]
    | succ it =>
      have h1 : it < q.length := by
        simp only [List.length_cons] at h
        omega
      have := ih it h1
      simp only [List.drop_succ_cons]
      rw [this]
      simp [bufData, itemBuffer]

theorem queueBytes_drop_ge (q : Queue) (it : Nat) (h : q.length ≤ it) :
    queueBytes (q.drop it) = [] := by
  rw [List.drop_eq_nil_of_le h]
  rfl

theorem bufData_ge (q : Queue) (it : Nat) (h : q.length ≤ it) : bufData q it = [] := by
  unfold bufData itemBuffer
  rw [List.getD_eq_default _ _ h]

theorem windowOf_zero (l : List Nat) : windowOf 0 l = [] := by
  simp [windowOf, memset]

theorem windowOf_nil (B : Nat) : windowOf B [] = List.replicate B 0 := by
  simp [windowOf, memset]

theorem windowOf_length (B : Nat) (l : List Nat) : (windowOf B l).length = B := by
  simp only [windowOf, memset, List.length_append, List.length_take, List.length_replicate]
  omega

theorem windowOf_append (B : Nat) (d rest : List Nat) :
    d.take (min B d.length) ++ windowOf (B - min B d.length) rest = windowOf B (d ++ rest) := by
  unfold windowOf memset
  rw [List.take_append_eq_append_take]
  by_cases h : B ≤ d.length
  · rw [Nat.min_eq_left h, Nat.sub_self]
    have e2 : B - d.length = 0 := by omega
    rw [e2]
    simp only [List.take_zero, List.length_nil, List.replicate_zero, List.append_nil,
      List.length_take]
    rw [Nat.min_eq_left h, Nat.sub_self]
    simp
  · have h3 : d.length ≤ B := by omega
    rw [Nat.min_eq_right h3, List.take_of_length_le (le_refl _), List.take_of_length_le h3]
    rw [List.append_assoc]
    congr 2
    simp only [List.length_append, List.length_take]
    congr 1
    omega

/-- One round of the forward crawl does not change what the window will be. -/
theorem fwdCopy_content (q : Queue) (it pos : Nat) (S : List Nat) (B : Nat) (rest : List Nat) :
    (fwdCopy q it pos S B).2.1
        ++ windowOf (fwdCopy q it pos S B).2.2 (rest.drop (fwdCopy q it pos S B).1)
      = S ++ windowOf B ((bufData q it ++ rest).drop pos) := by
  unfold fwdCopy bufData
  cases hb : itemBuffer q it with
  | none => simp
  | some b =>
    simp only
    by_cases h1 : b.size ≤ pos
    · rw [if_pos h1]
      simp only
      have : b.data.length ≤ pos := h1
      rw [List.drop_append_eq_append_drop, List.drop_eq_nil_of_le this]
      simp
      rfl
    · rw [if_neg h1]
      simp only
      have hlt : pos < b.data.length := by
        have : ¬ b.data.length ≤ pos := h1
        omega
      have hsz : b.size = b.data.length := rfl
      rw [List.drop_append_eq_append_drop, List.drop_zero, hsz]
      have e0 : pos - b.data.length = 0 := by omega
      rw [e0, List.drop_zero, List.append_assoc]
      have hd : (b.data.drop pos).length = b.data.length - pos := List.length_drop _ _
      rw [← hd]
      rw [windowOf_append B (b.data.drop pos) rest]

/-- The forward crawl of a source that does not loop fills the rest of the window with the
bytes of the queue from the current item and offset on, followed by zeros. -/
theorem fwdLoop_content (q : Queue) :
    ∀ (fuel it pos : Nat) (S : List Nat) (B : Nat) (R : List Nat),
      fwdLoop q false fuel (some it) pos S B = .ok R →
      R = S ++ windowOf B ((queueBytes (q.drop it)).drop pos) := by
  intro fuel
  induction fuel with
  | zero =>
    intro it pos S B R h
    simp [fwdLoop] at h
  | succ fuel ih =>
    intro it pos S B R h
    by_cases hB : 0 < B
    · rw [fwdLoop_step q false fuel it pos S B hB] at h
      by_cases hn : it + 1 < q.length
      · rw [if_pos hn] at h
        rw [ih _ _ _ _ _ h, queueBytes_drop q it (by omega)]
        exact fwdCopy_content q it pos S B _
      · rw [if_neg hn, if_neg (by decide)] at h
        simp only [Except.ok.injEq] at h
        rw [← h]
        have hrest : queueBytes (q.drop (it + 1)) = [] := queueBytes_drop_ge q _ (by omega)
        have hq : queueBytes (q.drop it) = bufData q it ++ [] := by
          by_cases hlt : it < q.length
          · rw [queueBytes_drop q it hlt, hrest]
          · rw [queueBytes_drop_ge q it (by omega), bufData_ge q it (by omega)]
            rfl
        rw [hq, ← fwdCopy_content q it pos S B []]
        simp [windowOf, memset]
    · have h0 : B = 0 := by omega
      subst h0
      rw [fwdLoop_zero] at h
      simp only [Except.ok.injEq] at h
      rw [← h, windowOf_zero]
      simp

/-! ## The zero pre-padding of a source that does not loop -/

/-- The request of an iteration holds at least the frames of the paddings, whatever the
number of samples to do. -/
theorem requestSize_lower {STACK std o inc f post pre FS B0 : Nat}
    (hS : STACK < 4294967296) (hp : post + pre < 4294967296)
    (hst : (post + pre) * FS ≤ STACK)
    (h : requestSize STACK std o inc f post pre FS = .ok B0) :
    0 < FS ∧ (post + pre) * FS ≤ B0 ∧ B0 ≤ STACK := by
  unfold requestSize at h
  simp only at h
  split at h
  · simp at h
  · split at h
    · simp at h
    · next hFS =>
      simp only [Except.ok.injEq] at h
      have hFS0 : 0 < FS := Nat.pos_of_ne_zero hFS
      refine ⟨hFS0, ?_⟩
      rw [u32_small (post + pre) hp] at h
      generalize (u32 (usub std o + 1) * inc + u32 (f + FRACTIONMASK)) >>> FRACTIONBITS = d at h
      have hd2 : (post + pre) * FS ≤ (d + (post + pre)) * FS :=
        Nat.mul_le_mul_right _ (by omega)
      generalize hX : (if STACK < (d + (post + pre)) * FS then STACK
        else (d + (post + pre)) * FS) = X at h
      have hX1 : (post + pre) * FS ≤ X := by
        rw [← hX]
        split <;> omega
      have hX3 : X ≤ STACK := by
        rw [← hX]
        split <;> omega
      have hX2 : X < 4294967296 := by omega
      rw [u32_small X hX2] at h
      rw [← h]
      have h1 : post + pre ≤ X / FS := (Nat.le_div_iff_mul_le hFS0).mpr hX1
      have h2 := Nat.div_add_mod X FS
      have h3 : (post + pre) * FS ≤ X / FS * FS := Nat.mul_le_mul_right _ h1
      have h4 : X / FS * FS = FS * (X / FS) := Nat.mul_comm _ _
      omega

theorem take_min_length (X : Nat) (l : List Nat) : l.take (min X l.length) = l.take X := by
  by_cases h : X ≤ l.length
  · rw [Nat.min_eq_left h]
  · rw [Nat.min_eq_right (by omega), List.take_of_length_le (le_refl _),
      List.take_of_length_le (by omega)]

/-- The window of a static source that does not loop, at a position before the
pre-padding: frames of zeros, then the buffer from its start, then zeros. -/
theorem assembleStatic_prefix {fuel : Nat} {b : ALbuffer} {p pre FS B : Nat} {S : List Nat}
    {L : Bool} (hp : p < pre) (hz : (pre - p) * FS ≤ B) (hB : B < 4294967296)
    (hbs : b.size < 4294967296)
    (h : assembleStatic fuel b false p pre FS B = .ok (S, L)) :
    S = List.replicate ((pre - p) * FS) 0 ++ windowOf (B - (pre - p) * FS) b.data := by
  unfold assembleStatic at h
  rw [if_pos (Or.inl rfl)] at h
  simp only [if_neg (show ¬ pre ≤ p by omega)] at h
  have e1 : u32 ((pre - p) * FS) = (pre - p) * FS := u32_small _ (by omega)
  have e2 : usub b.size 0 = b.size := by
    unfold usub
    omega
  rw [e1, e2, Nat.min_eq_right hz] at h
  rw [memcpy_ok _ _ _ _ (by
    have : min (B - (pre - p) * FS) b.size ≤ b.size := Nat.min_le_right _ _
    show 0 + _ ≤ b.data.length
    have hsz : b.size = b.data.length := rfl
    omega)] at h
  simp only [Except.ok.injEq, Prod.mk.injEq] at h
  rw [← h.1]
  simp only [memset, windowOf, List.nil_append, List.drop_zero, List.append_assoc,
    List.length_take]
  have hsz : b.size = b.data.length := rfl
  rw [hsz, take_min_length]

/-- The window of a source that is not static and does not loop, at a position of the head
item before the pre-padding: frames of zeros, then the bytes of the queue from its start,
then zeros. -/
theorem assembleStream_prefix {fuel : Nat} {q : Queue} {p pre FS B : Nat} {S : List Nat}
    (hp : p < pre) (hFS : 0 < FS) (hz : (pre - p) * FS ≤ B) (hB : B < 4294967296)
    (h : assembleStream fuel q false (some 0) p pre FS B = .ok S) :
    S = List.replicate ((pre - p) * FS) 0 ++ windowOf (B - (pre - p) * FS) (queueBytes q) := by
  unfold assembleStream at h
  rw [if_neg (show ¬ pre ≤ p by omega)] at h
  simp only at h
  have e1 : u32 ((pre - p) * FS) = (pre - p) * FS := u32_small _ (by omega)
  rw [e1] at h
  cases fuel with
  | zero => simp [backLoop] at h
  | succ k =>
    rw [backLoop_head q k _ [] B (Nat.mul_pos (by omega) hFS)] at h
    simp only at h
    rw [Nat.min_eq_right hz] at h
    have := fwdLoop_content q _ _ _ _ _ _ h
    rw [this]
    simp [memset]

theorem getElem?_replicate_append (n : Nat) (l : List Nat) (j : Nat) (h : j < n) :
    (List.replicate n 0 ++ l)[j]? = some 0 := by
  rw [List.getElem?_append_left (by simp; exact h)]
  simp [h]

theorem getElem?_windowOf (B : Nat) (l : List Nat) (j : Nat) (hj : j < B) (hl : j < l.length) :
    (windowOf B l)[j]? = l[j]? := by
  unfold windowOf memset
  rw [List.getElem?_append_left (by simp; omega)]
  rw [List.getElem?_take_of_lt hj]

/-- A run of zero bytes of a window reads as a zero element. -/
theorem read_zeros (S : List Nat) (off : Int) (sz : Nat) (e : Int) (a : Nat)
    (ha : off + e * sz = (a : Int)) (hlen : a + sz ≤ S.length)
    (hz : ∀ j, j < a + sz → S[j]? = some 0) :
    SrcPtr.read { bytes := S, off := off } sz e = .ok (List.replicate sz 0) := by
  unfold SrcPtr.read
  simp only
  rw [ha]
  rw [if_pos ⟨by omega, by simpa using hlen⟩]
  congr 1
  apply List.ext_getElem?
  intro j
  simp only [Int.toNat_ofNat]
  by_cases hj : j < sz
  · rw [List.getElem?_take_of_lt hj, List.getElem?_drop, hz _ (by omega)]
    simp [hj]
  · rw [List.getElem?_eq_none (by simp; omega), List.getElem?_eq_none (by simp; omega)]

theorem cubic_paddings {r : Resampler} {pre post : Nat}
    (hpre : ResamplerPrePadding r = some pre) (hpost : ResamplerPadding r = some post)
    (h : 0 < pre) : pre = 1 ∧ post = 2 := by
  cases r <;> simp [ResamplerPrePadding, ResamplerPadding] at hpre hpost <;> omega

section ZeroPrefix

variable {α F : Type} [Add α] [Sub α] [Mul α] [Div α] [IntCast α]

/-- C16: scenario E, generalised.  Take an iteration of the loop of `MixSource` on a source
that does not loop - static, or with the current item at the head of the queue - whose head
buffer holds the frame at the position, with the position smaller than `pre_pad` and a
stack buffer of more than `pre_pad + post_pad` frames.  In the window it assembles, the
first `pre_pad - position` frames are zero; the frame behind the pointer handed to the mixer
(`v[0]` at its first step) is frame `position` of the buffer; that frame is inside the
window; and the element `v[-step]` of every channel at the first step is read inside the
window and is zero. -/
theorem C16_zero_prefix (E : Env α F) (fuel std : Nat) (st : FeedSt α F) (pre post B0 : Nat)
    (S : List Nat) (L : Bool) (b : ALbuffer) (tl : Queue)
    (hpre : ResamplerPrePadding st.mem.Source.Resampler = some pre)
    (hpost : ResamplerPadding st.mem.Source.Resampler = some post)
    (hstack : pre + post < E.STACK_DATA_SIZE
      / (st.mem.Source.NumChannels * st.mem.Source.SampleSize))
    (hS : E.STACK_DATA_SIZE < 2 ^ 32)
    (hnl : st.Looping = false) (hq : st.mem.Source.queue = some b :: tl)
    (hitem : st.mem.Source.lSourceType = .AL_STATIC ∨ st.BufferListItem = some 0)
    (hp : st.DataPosInt < pre)
    (hb : (st.DataPosInt + 1) * (st.mem.Source.NumChannels * st.mem.Source.SampleSize)
      ≤ b.size)
    (hbs : b.size < 2 ^ 32)
    (hreq : requestSize E.STACK_DATA_SIZE std st.OutPos st.mem.Source.Params.Step
      st.DataPosFrac post pre (u32 (st.mem.Source.NumChannels * st.mem.Source.SampleSize))
      = .ok B0)
    (hasm : assemble fuel st.mem.Source st.Looping st.BufferListItem st.DataPosInt pre
      (u32 (st.mem.Source.NumChannels * st.mem.Source.SampleSize)) B0 = .ok (S, L)) :
    (∀ j, j < (pre - st.DataPosInt)
        * (st.mem.Source.NumChannels * st.mem.Source.SampleSize) → S[j]? = some 0) ∧
    (∀ j, j < st.mem.Source.NumChannels * st.mem.Source.SampleSize →
      S[pre * (st.mem.Source.NumChannels * st.mem.Source.SampleSize) + j]?
        = b.data[st.DataPosInt * (st.mem.Source.NumChannels * st.mem.Source.SampleSize)
            + j]?) ∧
    (pre + 1) * (st.mem.Source.NumChannels * st.mem.Source.SampleSize) ≤ S.length ∧
    ∀ i, i < st.mem.Source.NumChannels →
      elemAt { bytes := S
               off := ((u32 (pre * u32 (st.mem.Source.NumChannels
                 * st.mem.Source.SampleSize)) : Nat) : Int) }
          st.mem.Source.SampleSize st.mem.Source.NumChannels 0 i
          (-(toI32 st.mem.Source.NumChannels))
        = .ok (List.replicate st.mem.Source.SampleSize 0) := by
  norm_num at hS hbs
  obtain ⟨hpre1, hpost2⟩ := cubic_paddings hpre hpost (by omega)
  subst hpre1
  subst hpost2
  have hp0 : st.DataPosInt = 0 := by omega
  generalize hnc : st.mem.Source.NumChannels = nc at *
  generalize hsz : st.mem.Source.SampleSize = sz at *
  have hFS : 0 < nc * sz := by
    rcases Nat.eq_zero_or_pos (nc * sz) with h0 | h0
    · rw [h0, Nat.div_zero] at hstack
      omega
    · exact h0
  have hdm := Nat.div_mul_le_self E.STACK_DATA_SIZE (nc * sz)
  have h4 : 4 * (nc * sz) ≤ E.STACK_DATA_SIZE :=
    le_trans (Nat.mul_le_mul_right _ (by omega)) hdm
  have hFSu : u32 (nc * sz) = nc * sz := u32_small _ (by omega)
  rw [hFSu] at hreq hasm ⊢
  have hoff : u32 (1 * (nc * sz)) = nc * sz := by
    rw [Nat.one_mul]
    exact hFSu
  rw [hoff]
  rw [hp0] at hasm hb ⊢
  obtain ⟨-, hB0, hB0u⟩ := requestSize_lower (by omega) (by omega) (by omega) hreq
  have hcont : ∃ R, S = List.replicate (nc * sz) 0 ++ windowOf (B0 - nc * sz) (b.data ++ R) := by
    unfold assemble at hasm
    rcases hitem with hst | hit
    · rw [if_pos hst, hq, hnl] at hasm
      simp only at hasm
      have := assembleStatic_prefix (show 0 < 1 by omega) (by omega) (by omega) hbs hasm
      simp only [Nat.sub_zero, Nat.one_mul] at this
      exact ⟨[], by rw [List.append_nil]; exact this⟩
    · by_cases hst : st.mem.Source.lSourceType = .AL_STATIC
      · rw [if_pos hst, hq, hnl] at hasm
        simp only at hasm
        have := assembleStatic_prefix (show 0 < 1 by omega) (by omega) (by omega) hbs hasm
        simp only [Nat.sub_zero, Nat.one_mul] at this
        exact ⟨[], by rw [List.append_nil]; exact this⟩
      · rw [if_neg hst, hit, hnl] at hasm
        split at hasm
        · simp at hasm
        · next S1 h1 =>
          simp only [Except.ok.injEq, Prod.mk.injEq] at hasm
          have := assembleStream_prefix (show 0 < 1 by omega) hFS (by omega) (by omega) h1
          simp only [Nat.sub_zero, Nat.one_mul] at this
          rw [hq] at this
          exact ⟨queueBytes tl, by rw [← hasm.1]; exact this⟩
  obtain ⟨R, hS2⟩ := hcont
  have hbl : b.size = b.data.length := rfl
  simp only [Nat.sub_zero, Nat.one_mul, Nat.zero_add, Nat.zero_mul] at hb ⊢
  have hz : ∀ j, j < nc * sz → S[j]? = some 0 := fun j hj => by
    rw [hS2]
    exact getElem?_replicate_append _ _ _ hj
  have hlen : S.length = B0 := by
    rw [hS2]
    simp only [List.length_append, List.length_replicate, windowOf_length]
    omega
  refine ⟨hz, ?_, by omega, ?_⟩
  · intro j hj
    rw [hS2, List.getElem?_append_right (by simp)]
    simp only [List.length_replicate, Nat.add_sub_cancel_left]
    rw [getElem?_windowOf _ _ _ (by omega) (by simp; omega)]
    rw [List.getElem?_append_left (by omega)]
  · intro i hi
    unfold elemAt
    have hnc31 : nc < 2147483648 := by
      have hsz0 : 0 < sz := by
        rcases Nat.eq_zero_or_pos sz with h0 | h0
        · rw [h0, Nat.mul_zero] at hFS
          omega
        · exact h0
      have : nc ≤ nc * sz := Nat.le_mul_of_pos_right _ hsz0
      omega
    rw [toI32_small _ hnc31]
    have hisz : i * sz + sz ≤ nc * sz := by
      have : (i + 1) * sz ≤ nc * sz := Nat.mul_le_mul_right _ hi
      rw [Nat.add_mul, Nat.one_mul] at this
      exact this
    refine read_zeros S _ sz _ (i * sz) ?_ (by omega) (fun j hj => hz j (by omega))
    simp only [u32, Nat.zero_mul, Nat.zero_mod]
    push_cast
    ring

end ZeroPrefix

/-- C16 at scenario E: the first iteration on `exCubic0` (cubic resampler, position 0) for a
slice of two samples assembles the window `[0, 10, 20, 30, 40, 50]`; its first frame is
zero, the frame behind the mixer's pointer is frame 0 of the buffer, and `v[-step]` at the
first step reads the zero frame. -/
theorem C16_zero_prefix_witness :
    requestSize 16384 2 0 16384 0 2 1 (u32 (1 * 1)) = .ok 6 ∧
    assemble 8 exCubic0.Source false (some 0) 0 1 (u32 (1 * 1)) 6
      = .ok ([0, 10, 20, 30, 40, 50], false) ∧
    ([0, 10, 20, 30, 40, 50] : List Nat)[0]? = some 0 ∧
    ([0, 10, 20, 30, 40, 50] : List Nat)[1 * (1 * 1) + 0]?
      = ([10, 20, 30, 40, 50, 60] : List Nat)[0 * (1 * 1) + 0]? ∧
    elemAt { bytes := [0, 10, 20, 30, 40, 50], off := ((u32 (1 * u32 (1 * 1)) : Nat) : Int) }
      1 1 0 0 (-(toI32 1)) = .ok (List.replicate 1 0) :=
  have h := C16_zero_prefix (exEnv 16384) 8 2 (exFeed exCubic0) 1 2 6 [0, 10, 20, 30, 40, 50]
    false (exBuffer [10, 20, 30, 40, 50, 60]) [] rfl rfl (by decide) (by decide) rfl rfl
    (Or.inl rfl) (by decide) (by decide) (by decide) (by rfl) (by rfl)
  ⟨by rfl, by rfl, h.1 0 (by decide), h.2.1 0 (by decide), h.2.2.2 0 (by decide)⟩

/-! ## A queue without sample data -/

theorem replicate_zero_append (a b : Nat) :
    List.replicate a (0 : Nat) ++ List.replicate b 0 = List.replicate (a + b) 0 := by
  induction a with
  | zero => simp
  | succ a ih =>
    rw [Nat.succ_add, List.replicate_succ, List.replicate_succ, List.cons_append, ih]

/-- A queue whose items hold no bytes has no bytes. -/
theorem queueBytes_empty : ∀ (q : Queue), (∀ b, some b ∈ q → b.data = []) →
    queueBytes q = [] := by
  intro q
  induction q with
  | nil => intro _; rfl
  | cons a q ih =>
    intro h
    have hq := ih (fun b hb => h b (List.mem_cons_of_mem _ hb))
    cases a with
    | none => exact hq
    | some b =>
      show b.data ++ queueBytes q = []
      rw [hq, h b (List.mem_cons_self _ _)]
      rfl

theorem bufSize_zero_data {q : Queue} (h : ∀ it, bufSize q it = 0) :
    ∀ b, some b ∈ q → b.data = [] := by
  intro b hb
  obtain ⟨i, hi, hget⟩ := List.getElem_of_mem hb
  have h1 := h i
  unfold bufSize itemBuffer at h1
  rw [List.getD_eq_getElem _ _ hi, hget] at h1
  exact List.length_eq_zero.mp h1

theorem queueBytes_drop_empty {q : Queue} (h : ∀ it, bufSize q it = 0) (it : Nat) :
    queueBytes (q.drop it) = [] :=
  queueBytes_empty _ (fun b hb => bufSize_zero_data h b (List.mem_of_mem_drop hb))

/-- The backward crawl through a queue without sample data, in a source that does not loop:
it arrives at the head and the whole pre-padding is silence. -/
theorem backLoop_empty (q : Queue) (hq : ∀ it, bufSize q it = 0) :
    ∀ (fuel it pos : Nat) (S : List Nat) (B : Nat) (r : Nat × Nat × List Nat × Nat),
      0 < pos → backLoop q false fuel it pos S B = .ok r →
      r = (0, 0, memset S (min B pos), B - min B pos) := by
  intro fuel
  induction fuel with
  | zero =>
    intro it pos S B r _ h
    simp [backLoop] at h
  | succ fuel ih =>
    intro it pos S B r hpos h
    rcases Nat.eq_zero_or_pos it with h0 | h0
    · subst h0
      rw [backLoop_head q fuel pos S B hpos] at h
      simp only [Except.ok.injEq] at h
      exact h.symm
    · rw [backLoop_step q false fuel it pos S B hpos (Or.inl h0), hq,
        if_neg (Nat.not_lt_zero _), Nat.sub_zero] at h
      exact ih _ _ _ _ _ hpos h

/-- The loop under "Handle looping sources" on a playing source that does not loop, over a
queue without sample data: it walks to the end of the queue and stops the source. -/
theorem advanceLoop_empty {α F : Type} (FS : Nat) (hFS : 0 < FS) :
    ∀ (fuel : Nat) (st st1 : FeedSt α F) (it : Nat), advanceLoop FS fuel st = .ok st1 →
      st.BufferListItem = some it → st.Looping = false →
      (∀ it, bufSize st.mem.Source.queue it = 0 ∧ bufLoopEnd st.mem.Source.queue it = 0) →
      st1.State = .AL_STOPPED := by
  intro fuel
  induction fuel with
  | zero =>
    intro st st1 it h
    simp [advanceLoop] at h
  | succ fuel ih =>
    intro st st1 it h hit hL hq
    rw [advanceLoop_step FS fuel st it hFS hit (by
      rintro ⟨hh, -⟩
      rw [hL] at hh
      exact Bool.noConfusion hh)] at h
    rw [(hq it).1, (hq it).2, Nat.zero_div, if_neg (by omega)] at h
    by_cases hn : it + 1 < st.mem.Source.queue.length
    · rw [if_pos hn] at h
      exact ih _ _ (it + 1) h rfl hL hq
    · rw [if_neg hn, hL] at h
      simp only [Bool.false_eq_true, if_false, Except.ok.injEq] at h
      rw [← h]

section EmptyQueue

variable {α F : Type} [Add α] [Sub α] [Mul α] [Div α] [IntCast α]

/-- The window of a source that does not loop, over a queue without sample data, is
silence. -/
theorem assemble_empty {fuel : Nat} {Source : ALsource α F} {it : Nat}
    {p pre FS B : Nat} {S : List Nat} {L : Bool}
    (hq : ∀ it, bufSize Source.queue it = 0) (hFS : 0 < FS) (hB : B < 4294967296)
    (hpre : pre * FS ≤ B)
    (hst : Source.lSourceType = .AL_STATIC → p = 0)
    (h : assemble fuel Source false (some it) p pre FS B = .ok (S, L)) :
    S = List.replicate B 0 ∧ L = false := by
  unfold assemble at h
  by_cases hty : Source.lSourceType = .AL_STATIC
  · rw [if_pos hty] at h
    have hp := hst hty
    subst hp
    split at h
    · simp at h
    · simp at h
    · next b tl hqq =>
      have hb : b.data = [] := bufSize_zero_data hq b (by rw [hqq]; exact List.mem_cons_self _ _)
      have hbs : b.size = 0 := by
        show b.data.length = 0
        rw [hb]
        rfl
      rcases Nat.eq_zero_or_pos pre with h0 | h0
      · subst h0
        unfold assembleStatic at h
        rw [if_pos (Or.inl rfl)] at h
        simp only [Nat.le_refl, if_true, Nat.sub_self, Nat.zero_mul] at h
        have e1 : u32 0 = 0 := rfl
        have e2 : usub b.size 0 = 0 := by rw [hbs]; rfl
        rw [e1, e2, Nat.min_zero] at h
        rw [memcpy_ok _ _ _ _ (Nat.zero_le _)] at h
        simp only [Except.ok.injEq, Prod.mk.injEq] at h
        refine ⟨?_, h.2.symm⟩
        rw [← h.1]
        simp [memset]
      · have hL : L = false := by
          unfold assembleStatic at h
          rw [if_pos (Or.inl rfl)] at h
          simp only at h
          split at h
          · simp at h
          · simp only [Except.ok.injEq, Prod.mk.injEq] at h
            exact h.2.symm
        have := assembleStatic_prefix h0 (by rw [Nat.sub_zero]; exact hpre) hB
          (by rw [hbs]; omega) h
        rw [this, hb, windowOf_nil, replicate_zero_append, Nat.sub_zero]
        exact ⟨by congr 1; omega, hL⟩
  · rw [if_neg hty] at h
    split at h
    · simp at h
    · next S1 h1 =>
      simp only [Except.ok.injEq, Prod.mk.injEq] at h
      refine ⟨?_, h.2.symm⟩
      rw [← h.1]
      unfold assembleStream at h1
      by_cases hc : pre ≤ p
      · rw [if_pos hc] at h1
        rw [fwdLoop_content _ _ _ _ _ _ _ h1, queueBytes_drop_empty hq]
        simp [windowOf, memset]
      · rw [if_neg hc] at h1
        simp only at h1
        split at h1
        · simp at h1
        · next It pos S0 B1 hback =>
            have hpos : 0 < u32 ((pre - p) * FS) := by
              have h1 : 0 < (pre - p) * FS := Nat.mul_pos (by omega) hFS
              have h2 : (pre - p) * FS ≤ pre * FS := Nat.mul_le_mul_right _ (by omega)
              rw [u32_small _ (by omega)]
              exact h1
            have hr := backLoop_empty _ hq _ _ _ _ _ _ hpos hback
            simp only [Prod.mk.injEq] at hr
            obtain ⟨r1, r2, r3, r4⟩ := hr
            subst r1 r2 r3 r4
            rw [fwdLoop_content _ _ _ _ _ _ _ h1, queueBytes_drop_empty hq]
            simp only [List.drop_nil, windowOf_nil, memset, List.nil_append]
            rw [replicate_zero_append]
            congr 1
            omega

/-- One iteration on a playing source that does not loop, over a queue without sample data:
one mixer call on a window of silence, for as many samples as the window allows, after which
the source is stopped. -/
theorem feedIter_empty {E : Env α F} {m : Mem α F} {std : Nat} {g : MixerFunc}
    {pre post : Nat} (hP : Playable E m std g pre post) {st st1 : FeedSt α F}
    (hI : FeedInv m std st) (hL : st.Looping = false) (hplay : st.State = .AL_PLAYING)
    (hq : ∀ it, bufSize m.Source.queue it = 0 ∧ bufLoopEnd m.Source.queue it = 0)
    {fuel : Nat}
    (h : feedIter E fuel std m.Source.Params.Step m.Source.Resampler
      (u32 (m.Source.NumChannels * m.Source.SampleSize)) st = .ok st1) :
    ∃ res : MixResult α F,
      g.call E st.mem
        { bytes := List.replicate
            (iterFrames E.STACK_DATA_SIZE (m.Source.NumChannels * m.Source.SampleSize) std
              st.OutPos m.Source.Params.Step st.DataPosFrac pre post
              * (m.Source.NumChannels * m.Source.SampleSize)) 0
          off := ((pre * (m.Source.NumChannels * m.Source.SampleSize) : Nat) : Int) }
        st.DataPosInt st.DataPosFrac st.OutPos std
        (iterCount (iterFrames E.STACK_DATA_SIZE (m.Source.NumChannels * m.Source.SampleSize)
          std st.OutPos m.Source.Params.Step st.DataPosFrac pre post) std st.OutPos
          m.Source.Params.Step st.DataPosFrac pre post) = .ok res ∧
      st1.mem = res.mem ∧ st1.State = .AL_STOPPED ∧ st1.DataPosInt = 0 ∧
      st1.DataPosFrac = 0 ∧ st1.BuffersPlayed = m.Source.BuffersInQueue ∧
      st1.calls = st.calls ++ [{
        SrcData := List.replicate
          (iterFrames E.STACK_DATA_SIZE (m.Source.NumChannels * m.Source.SampleSize) std
            st.OutPos m.Source.Params.Step st.DataPosFrac pre post
            * (m.Source.NumChannels * m.Source.SampleSize)) 0
        base := pre * (m.Source.NumChannels * m.Source.SampleSize)
        DataPosInt := st.DataPosInt
        DataPosFrac := st.DataPosFrac
        OutPos := st.OutPos
        BufferSize := iterCount
          (iterFrames E.STACK_DATA_SIZE (m.Source.NumChannels * m.Source.SampleSize)
            std st.OutPos m.Source.Params.Step st.DataPosFrac pre post) std st.OutPos
          m.Source.Params.Step st.DataPosFrac pre post }] ∧
      (st.OutPos < std → 0 < iterCount
        (iterFrames E.STACK_DATA_SIZE (m.Source.NumChannels * m.Source.SampleSize)
          std st.OutPos m.Source.Params.Step st.DataPosFrac pre post) std st.OutPos
        m.Source.Params.Step st.DataPosFrac pre post) := by
  obtain ⟨hFS, hFSle, hpads, hS⟩ := hP.frame
  obtain ⟨S, L, n, res, hasm, hlen, f1, f2, f3, f4, f5, f6, hcall, hfix, hpi, hpf, hadv⟩ :=
    feedIter_facts hP hI h
  obtain ⟨it, hitem, hitlt⟩ := hI.item
  have hstq : st.mem.Source.queue = m.Source.queue := congrArg Fixed.queue hI.fixed
  have hsty : st.mem.Source.lSourceType = m.Source.lSourceType :=
    congrArg Fixed.lSourceType hI.fixed
  have hresq : res.mem.Source.queue = m.Source.queue := congrArg Fixed.queue hfix
  have hresn : res.mem.Source.BuffersInQueue = m.Source.BuffersInQueue :=
    congrArg Fixed.BuffersInQueue hfix
  generalize hFr : iterFrames E.STACK_DATA_SIZE (m.Source.NumChannels * m.Source.SampleSize)
    std st.OutPos m.Source.Params.Step st.DataPosFrac pre post = Fr at *
  rw [hL, hitem] at hasm
  have hFrFS : Fr * (m.Source.NumChannels * m.Source.SampleSize) ≤ E.STACK_DATA_SIZE := by
    have h1 : Fr ≤ E.STACK_DATA_SIZE / (m.Source.NumChannels * m.Source.SampleSize) := by
      rw [← hFr]
      exact Nat.min_le_left _ _
    exact le_trans (Nat.mul_le_mul_right _ h1) (Nat.div_mul_le_self _ _)
  obtain ⟨hS0, hL0⟩ := assemble_empty (fun j => by rw [hstq]; exact (hq j).1) hFS
    (by omega) (Nat.mul_le_mul_right _ (by omega))
    (fun hty => by
      rw [hsty] at hty
      obtain ⟨b, hqb, -, -, -, -⟩ := hP.static hty
      have h1 := hI.inside hty b hqb
      have h2 : b.size = 0 := by
        have := (hq 0).1
        rw [hqb] at this
        exact this
      rw [h2] at h1
      rcases Nat.eq_zero_or_pos st.DataPosInt with h0 | h0
      · exact h0
      · have := Nat.mul_pos h0 hFS
        omega) hasm
  subst hS0 hL0 f3
  obtain ⟨e1, e2, e3, e4, e5⟩ := advanceLoop_spec _ _ _ _ hadv
  have hstop := advanceLoop_empty _ hFS _ _ _ it hadv hitem rfl (fun j => by
    show bufSize res.mem.Source.queue j = 0 ∧ bufLoopEnd res.mem.Source.queue j = 0
    rw [hresq]
    exact hq j)
  have e6 : st1.DataPosFrac = 0 ∧ st1.DataPosInt = 0 ∧
      st1.BuffersPlayed = res.mem.Source.BuffersInQueue := by
    rcases e5 with ⟨e7, -⟩ | ⟨-, e7⟩
    · rw [hstop] at e7
      have e8 : ALstate.AL_STOPPED = st.State := e7
      rw [hplay] at e8
      exact ALstate.noConfusion e8
    · exact e7
  exact ⟨res, hcall, e1, hstop, e6.2.1, e6.1, e6.2.2.trans hresn, e3, f5⟩

/-- C14 (amended): take a playing source that does not loop, whose queue items have no buffer
or a buffer of no bytes with loop end 0, and a slice `N < 2^32 - 1` that is `Playable` (the
mixer selected for the sample type, a step of at least 1 that the stack buffer of at most
`2^17` bytes can hold).  Then `MixSource` returns given enough fuel and leaves the source
Stopped, with `buffers_played = BuffersInQueue`, position 0 and fraction 0.  It makes exactly
one mixer call, on a window of zero bytes only, with `BufferSize` the number of samples the
window allows, which is not 0 when `N > 0`; the device and the slots are left as this one
call on silence leaves them. -/
theorem C14_empty_queue (E : Env α F) (m : Mem α F) (N : Nat) (g : MixerFunc)
    (pre post : Nat) (hP : Playable E m N g pre post)
    (hplay : m.Source.state = .AL_PLAYING) (hloop : m.Source.bLooping = false)
    (hq : ∀ it, bufSize m.Source.queue it = 0 ∧ bufLoopEnd m.Source.queue it = 0) :
    ∃ N0 r res, (∀ fuel, N0 ≤ fuel → MixSource E fuel m N = .ok r) ∧
      r.1.Source.state = .AL_STOPPED ∧
      r.1.Source.BuffersPlayed = m.Source.BuffersInQueue ∧
      r.1.Source.position = 0 ∧ r.1.Source.position_fraction = 0 ∧
      r.2 = [{
        SrcData := List.replicate
          (iterFrames E.STACK_DATA_SIZE (m.Source.NumChannels * m.Source.SampleSize) N 0
            m.Source.Params.Step m.Source.position_fraction pre post
            * (m.Source.NumChannels * m.Source.SampleSize)) 0
        base := pre * (m.Source.NumChannels * m.Source.SampleSize)
        DataPosInt := m.Source.position
        DataPosFrac := m.Source.position_fraction
        OutPos := 0
        BufferSize := iterCount
          (iterFrames E.STACK_DATA_SIZE (m.Source.NumChannels * m.Source.SampleSize) N 0
            m.Source.Params.Step m.Source.position_fraction pre post) N 0
          m.Source.Params.Step m.Source.position_fraction pre post }] ∧
      (0 < N → 0 < iterCount
        (iterFrames E.STACK_DATA_SIZE (m.Source.NumChannels * m.Source.SampleSize) N 0
          m.Source.Params.Step m.Source.position_fraction pre post) N 0
        m.Source.Params.Step m.Source.position_fraction pre post) ∧
      g.call E m
        { bytes := List.replicate
            (iterFrames E.STACK_DATA_SIZE (m.Source.NumChannels * m.Source.SampleSize) N 0
              m.Source.Params.Step m.Source.position_fraction pre post
              * (m.Source.NumChannels * m.Source.SampleSize)) 0
          off := ((pre * (m.Source.NumChannels * m.Source.SampleSize) : Nat) : Int) }
        m.Source.position m.Source.position_fraction 0 N
        (iterCount
          (iterFrames E.STACK_DATA_SIZE (m.Source.NumChannels * m.Source.SampleSize) N 0
            m.Source.Params.Step m.Source.position_fraction pre post) N 0
          m.Source.Params.Step m.Source.position_fraction pre post) = .ok res ∧
      r.1.Device = res.mem.Device ∧ r.1.Slot = res.mem.Slot := by
  obtain ⟨N0, r, hret⟩ : ∃ N0 r, ∀ fuel, N0 ≤ fuel → MixSource E fuel m N = .ok r := by
    obtain ⟨N1, M, st1, h⟩ := feedLoop_returns hP N _ (feedInv_init hP)
      (Nat.le_of_eq (Nat.sub_zero N))
    exact ⟨max N1 M, _, fun fuel hf => MixSource_loop_ok E m (walkQueue_head hP.played)
      (h fuel (le_trans (le_max_left _ _) hf) fuel (le_trans (le_max_right _ _) hf))⟩
  have hrun := hret N0 (Nat.le_refl _)
  obtain ⟨item, st, hw, hfeed, hcalls, hdev, hslot, hs, hbp, hpos, hfr, -⟩ :=
    MixSource_inv hrun
  rw [walkQueue_head hP.played] at hw
  simp only [Except.ok.injEq] at hw
  subst hw
  obtain ⟨⟨res, hcall, g1, g2, g3, g4, g5, g6, g7⟩, -⟩ := feedLoop_ind
    (fun s : FeedSt α F => FeedInv m N s ∧ s.mem = m ∧ s.State = .AL_PLAYING ∧
      s.Looping = false ∧ s.DataPosInt = m.Source.position ∧
      s.DataPosFrac = m.Source.position_fraction ∧ s.OutPos = 0 ∧ s.calls = [])
    (fun s : FeedSt α F => ∃ res : MixResult α F,
      g.call E m
        { bytes := List.replicate
            (iterFrames E.STACK_DATA_SIZE (m.Source.NumChannels * m.Source.SampleSize) N 0
              m.Source.Params.Step m.Source.position_fraction pre post
              * (m.Source.NumChannels * m.Source.SampleSize)) 0
          off := ((pre * (m.Source.NumChannels * m.Source.SampleSize) : Nat) : Int) }
        m.Source.position m.Source.position_fraction 0 N
        (iterCount
          (iterFrames E.STACK_DATA_SIZE (m.Source.NumChannels * m.Source.SampleSize) N 0
            m.Source.Params.Step m.Source.position_fraction pre post) N 0
          m.Source.Params.Step m.Source.position_fraction pre post) = .ok res ∧
      s.mem = res.mem ∧ s.State = .AL_STOPPED ∧ s.DataPosInt = 0 ∧
      s.DataPosFrac = 0 ∧ s.BuffersPlayed = m.Source.BuffersInQueue ∧
      s.calls = [] ++ [{
        SrcData := List.replicate
          (iterFrames E.STACK_DATA_SIZE (m.Source.NumChannels * m.Source.SampleSize) N 0
            m.Source.Params.Step m.Source.position_fraction pre post
            * (m.Source.NumChannels * m.Source.SampleSize)) 0
        base := pre * (m.Source.NumChannels * m.Source.SampleSize)
        DataPosInt := m.Source.position
        DataPosFrac := m.Source.position_fraction
        OutPos := 0
        BufferSize := iterCount
          (iterFrames E.STACK_DATA_SIZE (m.Source.NumChannels * m.Source.SampleSize) N 0
            m.Source.Params.Step m.Source.position_fraction pre post) N 0
          m.Source.Params.Step m.Source.position_fraction pre post }] ∧
      (0 < N → 0 < iterCount
        (iterFrames E.STACK_DATA_SIZE (m.Source.NumChannels * m.Source.SampleSize) N 0
          m.Source.Params.Step m.Source.position_fraction pre post) N 0
        m.Source.Params.Step m.Source.position_fraction pre post))
    (fun s s1 hI hit => by
      obtain ⟨i1, i2, i3, i4, i5, i6, i7, i8⟩ := hI
      have key := feedIter_empty hP i1 i4 i3 hq hit
      rw [i2, i5, i6, i7, i8] at key
      exact key)
    (fun s hR hpl _ => by
      obtain ⟨_, -, -, hst, -⟩ := hR
      rw [hst] at hpl
      exact ALstate.noConfusion hpl) N0 _ _
    ⟨feedInv_init hP, rfl, hplay, hloop, rfl, rfl, rfl, rfl⟩ hfeed
  refine ⟨N0, r, res, hret, hs.trans g2, hbp.trans g5, hpos.trans g3, hfr.trans g4,
    hcalls.trans g6, g7, hcall, ?_, ?_⟩
  · rw [hdev, g1]
  · rw [hslot, g1]

end EmptyQueue

/-- C14 at a queue of two buffers of no bytes around an item without a buffer, played from
position 3 of the second item with the cubic resampler, `N = 5`: `MixSource` returns with the
source Stopped at `buffers_played = 3`, position 0, after one mixer call with `BufferSize` 5
on a window of nine zero bytes. -/
theorem C14_empty_queue_witness :
    Playable (exEnv 16384) exEmptyBuffers 5 .Mix_ALbyte_cubic8 1 2 ∧
    (∀ it, bufSize exEmptyBuffers.Source.queue it = 0 ∧
      bufLoopEnd exEmptyBuffers.Source.queue it = 0) ∧
    ∃ N0 r, (∀ fuel, N0 ≤ fuel → MixSource (exEnv 16384) fuel exEmptyBuffers 5 = .ok r) ∧
      r.1.Source.state = .AL_STOPPED ∧ r.1.Source.BuffersPlayed = 3 ∧
      r.1.Source.position = 0 ∧
      r.2 = [{ SrcData := [0, 0, 0, 0, 0, 0, 0, 0, 0], base := 1, DataPosInt := 3,
               DataPosFrac := 0, OutPos := 0, BufferSize := 5 }] :=
  have hP : Playable (exEnv 16384) exEmptyBuffers 5 .Mix_ALbyte_cubic8 1 2 :=
    { do_mix := rfl
      selected := ⟨exBuffer [], Or.inl rfl⟩
      pre_pad := rfl
      post_pad := rfl
      sample_size := rfl
      channels := by decide
      stack := by decide
      step_pos := by decide
      step_le := by decide
      frac := by decide
      todo := by decide
      played := by decide
      static := fun h => SourceType.noConfusion h
      stream := fun _ h => Bool.noConfusion h }
  have hq : ∀ it, bufSize exEmptyBuffers.Source.queue it = 0 ∧
      bufLoopEnd exEmptyBuffers.Source.queue it = 0 := fun it =>
    match it with
    | 0 => ⟨rfl, rfl⟩
    | 1 => ⟨rfl, rfl⟩
    | 2 => ⟨rfl, rfl⟩
    | _ + 3 => ⟨rfl, rfl⟩
  ⟨hP, hq,
    let ⟨N0, r, _, h1, h2, h3, h4, _, h6, _⟩ :=
      C14_empty_queue (exEnv 16384) exEmptyBuffers 5 .Mix_ALbyte_cubic8 1 2 hP rfl rfl hq
    ⟨N0, r, h1, h2, h3, h4, h6.trans (by rfl)⟩⟩

theorem exNoBufferMemory_dry :
    (okOr (exNoBufferMemory 1, [])
      (MixSource exEnvMemory 8 (exNoBufferMemory 1) 1)).1.Device.DryBuffer 0 0
    = (0 : ℚ) + (((exEnv 16384).ofByte [0] * recip ℚ 127 + 1) / 2) * 1 := by
  rfl

/-- C14 fails as stated.  On `exNoBuffer` (playing, not looping, a queue of one item without
a buffer) `MixSource(1)` stops the source, but it invokes the mixer once with `BufferSize` 1,
on a window of two zero bytes.  With a dry filter that has memory and is in state 1
(`exNoBufferMemory 1`), that call adds `1/2` to `dry_buffer[0][0]`.  When such a source
loops (`exHang`), the forward crawl never fills the window and `MixSource` does not return,
whatever the fuel. -/
theorem C14_counterexample :
    exNoBuffer.Source.state = .AL_PLAYING ∧ exNoBuffer.Source.queue = [none] ∧
    MixSource (exEnv 16384) 8 exNoBuffer 1 = .ok (exRun 16384 8 exNoBuffer 1) ∧
    (exRun 16384 8 exNoBuffer 1).1.Source.state = .AL_STOPPED ∧
    (exRun 16384 8 exNoBuffer 1).2
      = [{ SrcData := [0, 0], base := 0, DataPosInt := 0, DataPosFrac := 0, OutPos := 0,
           BufferSize := 1 }] ∧
    (exNoBufferMemory 1).Source.state = .AL_PLAYING ∧
    (exNoBufferMemory 1).Source.queue = [none] ∧
    (∃ r, MixSource exEnvMemory 8 (exNoBufferMemory 1) 1 = .ok r ∧
      (exNoBufferMemory 1).Device.DryBuffer 0 0 = 0 ∧ r.1.Device.DryBuffer 0 0 = 1 / 2) ∧
    exHang.Source.state = .AL_PLAYING ∧ exHang.Source.queue = [none] ∧
    ∀ fuel, MixSource (exEnv 16384) fuel exHang 1 = .error .outOfFuel := by
  have hb : (exEnv 16384).ofByte [0] = 0 := by norm_num [exEnv]
  refine ⟨rfl, rfl, by rfl, by rfl, by rfl, rfl, rfl,
    ⟨okOr (exNoBufferMemory 1, []) (MixSource exEnvMemory 8 (exNoBufferMemory 1) 1), by rfl,
      rfl, ?_⟩, rfl, rfl, fun fuel => ?_⟩
  · rw [exNoBufferMemory_dry, hb]; norm_num
  · cases fuel with
    | zero => rfl
    | succ k =>
      have hasm : assemble (k + 1) exHang.Source true (some 0) 0 0 (u32 (1 * 1)) 2
          = .error .outOfFuel := by
        unfold assemble
        rw [if_neg (by decide)]
        have : assembleStream (k + 1) exHang.Source.queue true (some 0) 0 0 (u32 (1 * 1)) 2
            = .error .outOfFuel := by
          unfold assembleStream
          rw [if_pos (Nat.le_refl _)]
          exact fwdLoop_hangs (k + 1) _ [] 2 (by decide)
        rw [this]
      exact MixSource_loop_error (exEnv 16384) exHang (by rfl)
        (feedLoop_iter_error
          (feedIter_asm_error (exEnv 16384) (exFeed exHang) (r := .POINT_RESAMPLER)
            rfl rfl (by rfl) hasm))

/-! ## A queue of buffers played in sequence -/

theorem framesBefore_mono (q : Queue) (FS : Nat) :
    ∀ (k j : Nat), j ≤ k → framesBefore q FS j ≤ framesBefore q FS k := by
  intro k
  induction k with
  | zero =>
    intro j hj
    have : j = 0 := by omega
    subst this
    exact Nat.le_refl _
  | succ k ih =>
    intro j hj
    rcases Nat.lt_or_ge j (k + 1) with h | h
    · exact Nat.le_add_right_of_le (ih j (by omega))
    · have : j = k + 1 := by omega
      subst this
      exact Nat.le_refl _

/-- The bytes of a queue of whole frames: those of the first `k` items, as many as their
frames, followed by those of the rest. -/
theorem queueBytes_split (q : Queue) (FS : Nat) (hwf : ∀ it, bufSize q it % FS = 0) :
    ∀ (k : Nat), k ≤ q.length → ∃ front, queueBytes q = front ++ queueBytes (q.drop k) ∧
      front.length = framesBefore q FS k * FS := by
  intro k
  induction k with
  | zero =>
    intro _
    exact ⟨[], rfl, by simp [framesBefore]⟩
  | succ k ih =>
    intro hk
    obtain ⟨front, h1, h2⟩ := ih (by omega)
    refine ⟨front ++ bufData q k, ?_, ?_⟩
    · rw [h1, queueBytes_drop q k (by omega), List.append_assoc]
    · rw [List.length_append, h2, ← bufSize_eq_length]
      show _ = (framesBefore q FS k + bufSize q k / FS) * FS
      rw [Nat.add_mul, Nat.div_mul_cancel (Nat.dvd_of_mod_eq_zero (hwf k))]

theorem queueBytes_length (q : Queue) (FS : Nat) (hwf : ∀ it, bufSize q it % FS = 0) :
    (queueBytes q).length = framesBefore q FS q.length * FS := by
  obtain ⟨front, h1, h2⟩ := queueBytes_split q FS hwf q.length (Nat.le_refl _)
  rw [queueBytes_drop_ge q _ (Nat.le_refl _), List.append_nil] at h1
  rw [h1, h2]

/-- A byte of the rest of a queue of whole frames, from a position of the item `k` on, is
the byte of the concatenation that many frames further. -/
theorem queueBytes_get (q : Queue) (FS : Nat) (hwf : ∀ it, bufSize q it % FS = 0)
    (k : Nat) (hk : k ≤ q.length) (D x : Nat) :
    ((queueBytes (q.drop k)).drop (D * FS))[x]?
      = (queueBytes q)[(framesBefore q FS k + D) * FS + x]? := by
  obtain ⟨front, h1, h2⟩ := queueBytes_split q FS hwf k hk
  rw [List.getElem?_drop]
  conv_rhs => rw [h1]
  rw [List.getElem?_append_right (by rw [h2, Nat.add_mul]; omega)]
  congr 1
  rw [h2, Nat.add_mul]
  omega

section StreamAdvance

variable {α F : Type}

/-- The loop under "Handle looping sources" on a source that does not loop, over a queue
with frames left beyond the position: it moves to the item that holds the position and
leaves the source as it is otherwise. -/
theorem advanceLoop_stream (FS : Nat) (hFS : 0 < FS) (q : Queue) (T : Nat)
    (hle : ∀ it, bufLoopEnd q it ≤ bufSize q it / FS) (hlen : q.length < 4294967296)
    (hT : T < framesBefore q FS q.length) :
    ∀ (fuel : Nat) (st st1 : FeedSt α F), advanceLoop FS fuel st = .ok st1 →
      st.mem.Source.queue = q → st.Looping = false →
      st.BufferListItem = some st.BuffersPlayed → st.BuffersPlayed < q.length →
      framesBefore q FS st.BuffersPlayed + st.DataPosInt = T →
      st.DataPosInt < 4294967296 →
      st1.State = st.State ∧ st1.DataPosFrac = st.DataPosFrac ∧
      st1.BufferListItem = some st1.BuffersPlayed ∧ st1.BuffersPlayed < q.length ∧
      framesBefore q FS st1.BuffersPlayed + st1.DataPosInt = T ∧
      st1.DataPosInt < bufSize q st1.BuffersPlayed / FS := by
  intro fuel
  induction fuel with
  | zero =>
    intro st st1 h
    simp [advanceLoop] at h
  | succ fuel ih =>
    intro st st1 h hq hL hit hbp hpos hD
    rw [advanceLoop_step FS fuel st st.BuffersPlayed hFS hit (by
      rintro ⟨hh, -⟩
      rw [hL] at hh
      exact Bool.noConfusion hh)] at h
    rw [hq] at h
    have hle1 := hle st.BuffersPlayed
    have hfb : framesBefore q FS (st.BuffersPlayed + 1)
        = framesBefore q FS st.BuffersPlayed + bufSize q st.BuffersPlayed / FS := rfl
    by_cases hc : st.DataPosInt < bufLoopEnd q st.BuffersPlayed ∨
        st.DataPosInt < bufSize q st.BuffersPlayed / FS
    · rw [if_pos hc] at h
      simp only [Except.ok.injEq] at h
      subst h
      refine ⟨rfl, rfl, hit, hbp, hpos, ?_⟩
      generalize bufSize q st.BuffersPlayed / FS = fr at *
      omega
    · rw [if_neg hc] at h
      generalize bufSize q st.BuffersPlayed / FS = fr at *
      by_cases hn : st.BuffersPlayed + 1 < q.length
      · rw [if_pos hn] at h
        obtain ⟨st2, hst2, h⟩ : ∃ st2 : FeedSt α F, st2 = { st with
            BufferListItem := some (st.BuffersPlayed + 1)
            BuffersPlayed := u32 (st.BuffersPlayed + 1)
            DataPosInt := usub st.DataPosInt fr } ∧
            advanceLoop FS fuel st2 = .ok st1 := ⟨_, rfl, h⟩
        have e1 : u32 (st.BuffersPlayed + 1) = st.BuffersPlayed + 1 := u32_small _ (by omega)
        have e2 : usub st.DataPosInt fr = st.DataPosInt - fr := usub_of_le (by omega) hD
        have g1 : st2.mem.Source.queue = q := by rw [hst2]; exact hq
        have g2 : st2.Looping = false := by rw [hst2]; exact hL
        have g3 : st2.BuffersPlayed = st.BuffersPlayed + 1 := by rw [hst2]; exact e1
        have g4 : st2.BufferListItem = some st2.BuffersPlayed := by
          rw [g3, hst2]
        have g5 : st2.DataPosInt = st.DataPosInt - fr := by
          rw [hst2]; exact e2
        have g6 : st2.State = st.State := by rw [hst2]
        have g7 : st2.DataPosFrac = st.DataPosFrac := by rw [hst2]
        have key := ih st2 st1 h g1 g2 g4 (by rw [g3]; exact hn) (by
          rw [g3, g5, hfb]
          omega) (by rw [g5]; omega)
        rw [g6, g7] at key
        exact key
      · exfalso
        have e : st.BuffersPlayed + 1 = q.length := by omega
        rw [← e, hfb] at hT
        omega

end StreamAdvance

section Stream

variable {α F : Type} [Add α] [Sub α] [Mul α] [Div α] [IntCast α]

/-- One iteration on a playing source that is not static and does not loop, at unit step
with the point resampler, over a queue of whole frames with more frames left than samples to
do: the samples it mixes are served from the next frames of the concatenation of the queue,
and the item and position it leaves are those of the frame after them. -/
theorem feedIter_stream {E : Env α F} {m : Mem α F} {std : Nat} {g : MixerFunc}
    (hP : Playable E m std g 0 0)
    (hty : m.Source.lSourceType ≠ .AL_STATIC)
    (hstep : m.Source.Params.Step = FRACTIONONE)
    (hwf : ∀ it, bufSize m.Source.queue it
      % (m.Source.NumChannels * m.Source.SampleSize) = 0)
    (hbs : ∀ it, bufSize m.Source.queue it < 2147483648)
    (hle : ∀ it, bufLoopEnd m.Source.queue it
      ≤ bufSize m.Source.queue it / (m.Source.NumChannels * m.Source.SampleSize))
    (hlen : m.Source.queue.length < 4294967296)
    {P0 : Nat}
    (hrem : P0 + std < framesBefore m.Source.queue
      (m.Source.NumChannels * m.Source.SampleSize) m.Source.queue.length)
    {st st1 : FeedSt α F} (hI : FeedInv m std st)
    (hJ : StreamInv m.Source.queue (m.Source.NumChannels * m.Source.SampleSize) P0 st)
    {fuel : Nat}
    (h : feedIter E fuel std m.Source.Params.Step m.Source.Resampler
      (u32 (m.Source.NumChannels * m.Source.SampleSize)) st = .ok st1) :
    StreamInv m.Source.queue (m.Source.NumChannels * m.Source.SampleSize) P0 st1 := by
  obtain ⟨hFS, hFSle, hpads, hS⟩ := hP.frame
  obtain ⟨S, L, n, res, hasm, hlen1, f1, f2, f3, f4, f5, f6, hcall, hfix, hpi, hpf, hadv⟩ :=
    feedIter_facts hP hI h
  have hout := hI.out
  have hstq : st.mem.Source.queue = m.Source.queue := congrArg Fixed.queue hI.fixed
  have hsty : st.mem.Source.lSourceType = m.Source.lSourceType :=
    congrArg Fixed.lSourceType hI.fixed
  have hresq : res.mem.Source.queue = m.Source.queue := congrArg Fixed.queue hfix
  rw [FRACTIONONE_eq] at hstep
  generalize hFr : iterFrames E.STACK_DATA_SIZE (m.Source.NumChannels * m.Source.SampleSize)
    std st.OutPos m.Source.Params.Step st.DataPosFrac 0 0 = Fr at *
  rw [hstep, hJ.frac] at f6 hpi hpf
  generalize hFSg : m.Source.NumChannels * m.Source.SampleSize = FS at *
  generalize hqg : m.Source.queue = q at *
  have hFrFS : Fr * FS ≤ E.STACK_DATA_SIZE := by
    have h1 : Fr ≤ E.STACK_DATA_SIZE / FS := by
      rw [← hFr]
      exact Nat.min_le_left _ _
    exact le_trans (Nat.mul_le_mul_right _ h1) (Nat.div_mul_le_self _ _)
  have hdiv : (0 + n * 16384) / 16384 = n := by omega
  have hmod : (0 + n * 16384) % 16384 = 0 := by omega
  rw [hdiv] at f6 hpi
  rw [hmod] at hpf
  have hins := hJ.inside
  have hDsz : st.DataPosInt * FS < 2147483648 := by
    have h1 := hbs st.BuffersPlayed
    have h2 : (st.DataPosInt + 1) * FS ≤ bufSize q st.BuffersPlayed / FS * FS :=
      Nat.mul_le_mul_right _ hins
    have h3 := Nat.div_mul_le_self (bufSize q st.BuffersPlayed) FS
    rw [Nat.add_mul, Nat.one_mul] at h2
    omega
  have hD : st.DataPosInt < 2147483648 := by
    have : st.DataPosInt ≤ st.DataPosInt * FS := Nat.le_mul_of_pos_right _ hFS
    omega
  rw [u32_small _ (by omega)] at hpi
  -- the window
  have hwin : S = windowOf (Fr * FS) ((queueBytes (q.drop st.BuffersPlayed)).drop
      (st.DataPosInt * FS)) ∧ L = false := by
    unfold assemble at hasm
    rw [hsty, if_neg hty, hstq, hJ.looping, hJ.item] at hasm
    split at hasm
    · simp at hasm
    · next S1 h1 =>
      simp only [Except.ok.injEq, Prod.mk.injEq] at hasm
      refine ⟨?_, hasm.2.symm⟩
      rw [← hasm.1]
      unfold assembleStream at h1
      rw [if_pos (Nat.zero_le _), Nat.sub_zero, u32_small _ (by omega)] at h1
      rw [fwdLoop_content _ _ _ _ _ _ _ h1, List.nil_append]
  obtain ⟨hS0, hL0⟩ := hwin
  -- the advance
  obtain ⟨e1, e2, e3, e4, -⟩ := advanceLoop_spec _ _ _ _ hadv
  have hnN : st.OutPos + n ≤ std := by omega
  obtain ⟨a1, a2, a3, a4, a5, a6⟩ := advanceLoop_stream FS hFS q (P0 + (st.OutPos + n)) hle
    hlen (by omega) _ _ _ hadv hresq hL0 hJ.item hJ.inq (by
      show framesBefore q FS st.BuffersPlayed + res.DataPosInt = P0 + (st.OutPos + n)
      have := hJ.pos
      rw [hpi]
      omega) (by
      show res.DataPosInt < 4294967296
      rw [hpi]
      omega)
  have htot := queueBytes_length q FS hwf
  refine ⟨a1.trans hJ.playing, e4.trans hL0, a2.trans hpf, a3, a4, ?_, a6, ?_⟩
  · rw [a5, e2]
  · intro k hk
    rw [e2] at hk
    have hk' : k < st.OutPos + n := hk
    rw [e3]
    by_cases hk2 : k < st.OutPos
    · obtain ⟨c, hc1, hc2⟩ := hJ.served k hk2
      exact ⟨c, List.mem_append_left _ hc1, hc2⟩
    · refine ⟨_, List.mem_append_right _ (List.mem_singleton.2 rfl), ?_⟩
      have hkn : (k - st.OutPos + 1) * FS ≤ Fr * FS := Nat.mul_le_mul_right _ (by omega)
      have hPk : (P0 + k + 1) * FS ≤ framesBefore q FS q.length * FS :=
        Nat.mul_le_mul_right _ (by omega)
      have hpos := hJ.pos
      have hPk2 : P0 + k + 1
          = framesBefore q FS st.BuffersPlayed + st.DataPosInt + (k - st.OutPos) + 1 := by
        omega
      rw [hPk2, Nat.add_mul, Nat.add_mul, Nat.one_mul] at hPk
      have hkn2 := hkn
      rw [Nat.add_mul, Nat.one_mul] at hkn2
      refine ⟨by simp only; omega, by simp only; omega, by simp, hJ.frac,
        by simp only; omega, by simp only; omega, ?_⟩
      intro j hj
      simp only
      rw [hS0, getElem?_windowOf _ _ _ (by omega) (by
        rw [List.length_drop]
        obtain ⟨front, h1, h2⟩ := queueBytes_split q FS hwf st.BuffersPlayed
          (Nat.le_of_lt hJ.inq)
        have h3 : (queueBytes q).length = front.length + (queueBytes (q.drop st.BuffersPlayed)).length := by
          rw [h1, List.length_append]
        rw [Nat.add_mul] at hPk
        omega)]
      rw [queueBytes_get q FS hwf _ (Nat.le_of_lt hJ.inq)]
      congr 1
      have hPk3 : P0 + k = framesBefore q FS st.BuffersPlayed + st.DataPosInt
          + (k - st.OutPos) := by omega
      rw [hPk3, Nat.add_mul (framesBefore q FS st.BuffersPlayed + st.DataPosInt)]
      omega

end Stream

section StreamClaim

variable {α F : Type} [Add α] [Sub α] [Mul α] [Div α] [IntCast α]

/-- C11 (amended): scenario C, generalised, as the code has it.  Take a playing source that is
not static and does not loop, with the point resampler (paddings 0 and 0),
`step = FRACTIONONE` and fraction 0, and a slice `N < 2^32 - 1` that is `Playable` (the mixer
selected for the sample type, a stack buffer of at least two frames and at most `2^17`
bytes).  Let the buffers of the queue hold whole frames, less than `2^31` bytes each, with
loop ends inside them, the queue have less than `2^32` items, the position be inside the
current buffer, and more than `N` frames remain in the queue.  Then `MixSource` returns given
enough fuel and leaves the source playing with fraction 0; the total sample count of the
first `buffers_played'` items plus `position'` is the total sample count of the first
`buffers_played` items plus `position + N`, with `position'` inside the item
`buffers_played'`; and every output `n < N` is served by one of the mixer calls, at step
`n - OutPos` of the call with phase 0, from a window frame that is frame `n` after the
entry position of the concatenation of the queued buffers: the bytes are the same and the
kernel returns on every channel the sample it returns on that frame alone. -/
theorem C11_stream_concat (E : Env α F) (m : Mem α F) (N : Nat) (g : MixerFunc)
    (hP : Playable E m N g 0 0)
    (hplay : m.Source.state = .AL_PLAYING)
    (hty : m.Source.lSourceType = .AL_STREAMING) (hloop : m.Source.bLooping = false)
    (hstep : m.Source.Params.Step = FRACTIONONE) (hfrac : m.Source.position_fraction = 0)
    (hwf : ∀ it, bufSize m.Source.queue it
      % (m.Source.NumChannels * m.Source.SampleSize) = 0)
    (hbs : ∀ it, bufSize m.Source.queue it < 2147483648)
    (hle : ∀ it, bufLoopEnd m.Source.queue it
      ≤ bufSize m.Source.queue it / (m.Source.NumChannels * m.Source.SampleSize))
    (hlen : m.Source.queue.length < 4294967296)
    (hpos : m.Source.position < bufSize m.Source.queue m.Source.BuffersPlayed
      / (m.Source.NumChannels * m.Source.SampleSize))
    (hrem : framesBefore m.Source.queue (m.Source.NumChannels * m.Source.SampleSize)
        m.Source.BuffersPlayed + m.Source.position + N
      < framesBefore m.Source.queue (m.Source.NumChannels * m.Source.SampleSize)
        m.Source.queue.length) :
    ∃ N0 r, (∀ fuel, N0 ≤ fuel → MixSource E fuel m N = .ok r) ∧
      r.1.Source.state = .AL_PLAYING ∧ r.1.Source.position_fraction = 0 ∧
      r.1.Source.BuffersPlayed < m.Source.queue.length ∧
      framesBefore m.Source.queue (m.Source.NumChannels * m.Source.SampleSize)
          r.1.Source.BuffersPlayed + r.1.Source.position
        = framesBefore m.Source.queue (m.Source.NumChannels * m.Source.SampleSize)
            m.Source.BuffersPlayed + m.Source.position + N ∧
      r.1.Source.position < bufSize m.Source.queue r.1.Source.BuffersPlayed
        / (m.Source.NumChannels * m.Source.SampleSize) ∧
      ∀ n, n < N → ∃ c, c ∈ r.2 ∧
        ServedFrom (queueBytes m.Source.queue) (m.Source.NumChannels * m.Source.SampleSize) n
          (framesBefore m.Source.queue (m.Source.NumChannels * m.Source.SampleSize)
            m.Source.BuffersPlayed + m.Source.position + n) c ∧
        ∀ i, i < m.Source.NumChannels →
          sample E g.sampler { bytes := c.SrcData, off := ((c.base : Nat) : Int) }
              m.Source.NumChannels (n - c.OutPos) 0 i
            = sample E g.sampler
              { bytes := ((queueBytes m.Source.queue).drop
                  ((framesBefore m.Source.queue (m.Source.NumChannels * m.Source.SampleSize)
                    m.Source.BuffersPlayed + m.Source.position + n)
                    * (m.Source.NumChannels * m.Source.SampleSize))).take
                  (m.Source.NumChannels * m.Source.SampleSize)
                off := 0 }
              m.Source.NumChannels 0 0 i := by
  obtain ⟨N0, r, hret⟩ : ∃ N0 r, ∀ fuel, N0 ≤ fuel → MixSource E fuel m N = .ok r := by
    obtain ⟨N1, M, st1, h⟩ := feedLoop_returns hP N _ (feedInv_init hP)
      (Nat.le_of_eq (Nat.sub_zero N))
    exact ⟨max N1 M, _, fun fuel hf => MixSource_loop_ok E m (walkQueue_head hP.played)
      (h fuel (le_trans (le_max_left _ _) hf) fuel (le_trans (le_max_right _ _) hf))⟩
  have hrun := hret N0 (Nat.le_refl _)
  obtain ⟨item, st, hw, hfeed, hcalls, -, -, hs, hbp, hpo, hfr, -⟩ := MixSource_inv hrun
  rw [walkQueue_head hP.played] at hw
  simp only [Except.ok.injEq] at hw
  subst hw
  have hns : m.Source.lSourceType ≠ .AL_STATIC := by
    rw [hty]
    exact fun hh => SourceType.noConfusion hh
  obtain ⟨⟨hIf, hJf⟩, hexit⟩ := feedLoop_ind
    (fun s : FeedSt α F => FeedInv m N s ∧
      StreamInv m.Source.queue (m.Source.NumChannels * m.Source.SampleSize)
        (framesBefore m.Source.queue (m.Source.NumChannels * m.Source.SampleSize)
          m.Source.BuffersPlayed + m.Source.position) s)
    (fun s : FeedSt α F => FeedInv m N s ∧
      StreamInv m.Source.queue (m.Source.NumChannels * m.Source.SampleSize)
        (framesBefore m.Source.queue (m.Source.NumChannels * m.Source.SampleSize)
          m.Source.BuffersPlayed + m.Source.position) s)
    (fun s s1 hI hit =>
      ⟨(feedIter_keeps hP hI.1 hit).1,
        feedIter_stream hP hns hstep hwf hbs hle hlen hrem hI.1 hI.2 hit⟩)
    (fun s hR _ _ => hR) N0 _ _
    ⟨feedInv_init hP,
      { playing := hplay
        looping := hloop
        frac := hfrac
        item := rfl
        inq := hP.played
        pos := rfl
        inside := hpos
        served := fun n hn => absurd hn (Nat.not_lt_zero _) }⟩ hfeed
  have hout := hIf.out
  have hON : st.OutPos = N := by
    by_contra hne
    exact hexit ⟨hJf.playing, by omega⟩
  obtain ⟨hFS, hFSle, hpads, hS⟩ := hP.frame
  have hker : g.sampler.pre = 0 ∧ g.sampler.post = 0 := by
    have := selected_padding hP.selected hP.pre_pad hP.post_pad
    omega
  have hnc : m.Source.NumChannels ≤ m.Source.NumChannels * m.Source.SampleSize := by
    rw [hP.sample_size]
    exact Nat.le_mul_of_pos_right _ (sizeofT_pos _)
  have htot := queueBytes_length m.Source.queue _ hwf
  refine ⟨N0, r, hret, hs.trans hJf.playing, hfr.trans hJf.frac, ?_, ?_, ?_, ?_⟩
  · rw [hbp]
    exact hJf.inq
  · rw [hbp, hpo, hJf.pos, hON]
  · rw [hbp, hpo]
    exact hJf.inside
  · intro n hn
    obtain ⟨c, hc1, hc2⟩ := hJf.served n (by omega)
    refine ⟨c, by rw [hcalls]; exact hc1, hc2, fun i hi => ?_⟩
    obtain ⟨s1, s2, s3, s4, s5, s6, s7⟩ := hc2
    generalize hP0 : framesBefore m.Source.queue (m.Source.NumChannels * m.Source.SampleSize)
      m.Source.BuffersPlayed + m.Source.position = P0 at *
    have hPn : (P0 + n + 1) * (m.Source.NumChannels * m.Source.SampleSize)
        ≤ (queueBytes m.Source.queue).length := by
      rw [htot]
      exact Nat.mul_le_mul_right _ (by omega)
    rw [Nat.add_mul, Nat.one_mul] at hPn
    have hkn : (n - c.OutPos) * m.Source.NumChannels < 4294967296 := by
      have h1 : (n - c.OutPos) * m.Source.NumChannels
          ≤ (n - c.OutPos + 1) * (m.Source.NumChannels * m.Source.SampleSize) :=
        Nat.mul_le_mul (by omega) hnc
      omega
    rw [hP.sample_size] at s7 hPn hFS ⊢
    unfold sample
    apply point_run_congr E hker.1 hker.2
    rw [s3]
    refine read_congr_frame (by
      rw [Nat.zero_add, Nat.one_mul, List.length_take, List.length_drop]
      omega) hi hkn (by omega) (fun j hj => ?_)
    rw [s7 j hj, Nat.zero_mul, Nat.zero_add, List.getElem?_take_of_lt hj, List.getElem?_drop]

end StreamClaim

/-- C11 at scenario C: three mono buffers of two samples, `N = 5` from the start.  The run
makes one call on the window `[1, 2, 3, 4, 5, 6]`, the concatenation of the buffers, and
`MixSource` leaves `buffers_played = 2` and `position = 1`. -/
theorem C11_stream_concat_witness :
    Playable (exEnv 16384) exQueue3 5 .Mix_ALbyte_point8 0 0 ∧
    queueBytes exQueue3.Source.queue = [1, 2, 3, 4, 5, 6] ∧
    (exRun 16384 8 exQueue3 5).2.map MixCall.SrcData = [[1, 2, 3, 4, 5, 6]] ∧
    ∃ N0 r, (∀ fuel, N0 ≤ fuel → MixSource (exEnv 16384) fuel exQueue3 5 = .ok r) ∧
      r.1.Source.state = .AL_PLAYING ∧
      r.1.Source.BuffersPlayed = 2 ∧ r.1.Source.position = 1 := by
  have hP : Playable (exEnv 16384) exQueue3 5 .Mix_ALbyte_point8 0 0 :=
    { do_mix := rfl
      selected := ⟨exBuffer [], Or.inl rfl⟩
      pre_pad := rfl
      post_pad := rfl
      sample_size := rfl
      channels := by decide
      stack := by decide
      step_pos := by decide
      step_le := by decide
      frac := by decide
      todo := by decide
      played := by decide
      static := fun h => SourceType.noConfusion h
      stream := fun _ h => Bool.noConfusion h }
  have hsz : ∀ it, bufSize exQueue3.Source.queue it < 2147483648 ∧
      bufLoopEnd exQueue3.Source.queue it
        ≤ bufSize exQueue3.Source.queue it
          / (exQueue3.Source.NumChannels * exQueue3.Source.SampleSize) := fun it =>
    match it with
    | 0 => by decide
    | 1 => by decide
    | 2 => by decide
    | _ + 3 => ⟨show 0 < 2147483648 by decide, Nat.zero_le _⟩
  obtain ⟨N0, r, h1, h2, -, h4, h5, h6, -⟩ :=
    C11_stream_concat (exEnv 16384) exQueue3 5 .Mix_ALbyte_point8 hP rfl rfl rfl rfl rfl
      (fun _ => Nat.mod_one _) (fun it => (hsz it).1) (fun it => (hsz it).2) (by decide)
      (by decide) (by decide)
  refine ⟨hP, rfl, by rfl, N0, r, h1, h2, ?_⟩
  generalize r.1.Source.BuffersPlayed = bp at h4 h5 h6
  generalize r.1.Source.position = p at h5 h6
  have h7 : bp < 3 := h4
  interval_cases bp
  · have e1 : p = 5 := by simpa [framesBefore] using h5
    subst e1
    exact absurd h6 (by decide)
  · have e1 : 2 + p = 5 := h5
    have e2 : p = 3 := by omega
    subst e2
    exact absurd h6 (by decide)
  · have e1 : 2 + 2 + p = 5 := h5
    exact ⟨rfl, by omega⟩

theorem exBigData_length : exBigData.length = 2147483647 := List.length_replicate _ _

theorem exQueueBig_size (it : Nat) (h : it < 3) :
    bufSize exQueueBig.Source.queue it = 2147483647 := by
  match it, h with
  | 0, _ => exact exBigData_length
  | 1, _ => exact exBigData_length
  | 2, _ => exact exBigData_length

theorem framesBefore_three (q : Queue) (FS : Nat) :
    framesBefore q FS 3 = 0 + bufSize q 0 / FS + bufSize q 1 / FS + bufSize q 2 / FS := rfl

/-- C11 fails for `N = 2^32 - 1`: `exQueueBig` is playing, not static and not looping, its
three buffers hold `2^31 - 1` samples each, so more than `N` samples remain in the queue; but
the 32-bit `SamplesToDo - OutPos + 1` is 0, the first iteration assembles an empty window and
the mixer reads frame 0 outside it: `MixSource` returns nothing, so it emits no samples and
leaves no position. -/
theorem C11_counterexample :
    exQueueBig.Source.state = .AL_PLAYING ∧
    exQueueBig.Source.lSourceType = .AL_STREAMING ∧ exQueueBig.Source.bLooping = false ∧
    exQueueBig.Source.Resampler = .POINT_RESAMPLER ∧
    exQueueBig.Source.Params.Step = FRACTIONONE ∧ exQueueBig.Source.position_fraction = 0 ∧
    exQueueBig.Source.queue.length = 3 ∧
    (∀ it, it < 3 → bufSize exQueueBig.Source.queue it = 2147483647) ∧
    framesBefore exQueueBig.Source.queue 1 exQueueBig.Source.BuffersPlayed
        + exQueueBig.Source.position + 4294967295
      < framesBefore exQueueBig.Source.queue 1 3 ∧
    requestSize 16384 4294967295 0 16384 0 0 0 1 = .ok 0 ∧
    ∀ fuel, ∀ r, MixSource (exEnv 16384) fuel exQueueBig 4294967295 ≠ .ok r := by
  refine ⟨rfl, rfl, rfl, rfl, rfl, rfl, rfl, exQueueBig_size, ?_, by rfl, fun fuel r => ?_⟩
  · rw [framesBefore_three, exQueueBig_size 0 (by decide), exQueueBig_size 1 (by decide),
      exQueueBig_size 2 (by decide)]
    decide
  · cases fuel with
    | zero =>
      intro h
      have e : MixSource (exEnv 16384) 0 exQueueBig 4294967295 = .error .outOfFuel := by rfl
      rw [e] at h
      exact Except.noConfusion h
    | succ k =>
      intro h
      have e : MixSource (exEnv 16384) (k + 1) exQueueBig 4294967295 = .error .badRead := by
        rfl
      rw [e] at h
      exact Except.noConfusion h

/-! ## The kernels in exact arithmetic -/

section KernelsExact

variable {α F : Type} [Field α]

theorem recip_eq (n : Nat) : recip α n = 1 / (n : α) := by
  unfold recip
  rw [Int.cast_one, Int.cast_natCast]

theorem mu_eq (frac : Int) : mu α frac = (frac : α) / (FRACTIONONE : α) := by
  unfold mu
  rw [recip_eq, mul_one_div]

/-- C24: the point and linear kernels in exact arithmetic (`α` a field), with the `lerp` of
`alu.h` as the specification gives it, `lerp(a, b, t) = a + (b - a) * t`.  For every window
accessor `vals`, stride `s` and phase `frac`, where the element `v[0]` is read as `v0`: the
point kernels return `norm(v0)` whatever `s` and `frac`, with `norm(x) = x/127` for 8-bit,
`x/32767` for 16-bit and `x` for float elements; and where `v[s]` is read as `v1`, the linear
kernels return `norm(v0) + (norm(v1) - norm(v0)) * (frac / FRACTIONONE)`, which is `norm(v0)`
for `frac = 0`. -/
theorem C24_kernels_exact (E : Env α F) (vals : Int → Except Fault (List Nat)) (s frac : Int)
    (v0 : List Nat) (hlerp : ∀ a b t : α, E.lerp a b t = a + (b - a) * t)
    (h0 : vals 0 = .ok v0) :
    point8 E vals s frac = .ok (E.ofByte v0 / 127) ∧
    point16 E vals s frac = .ok (E.ofShort v0 / 32767) ∧
    point32 E vals s frac = .ok (E.ofFloat v0) ∧
    ∀ v1, vals s = .ok v1 →
      lerp8 E vals s frac = .ok (E.ofByte v0 / 127
        + (E.ofByte v1 / 127 - E.ofByte v0 / 127) * ((frac : α) / (FRACTIONONE : α))) ∧
      lerp16 E vals s frac = .ok (E.ofShort v0 / 32767
        + (E.ofShort v1 / 32767 - E.ofShort v0 / 32767) * ((frac : α) / (FRACTIONONE : α))) ∧
      lerp32 E vals s frac = .ok (E.ofFloat v0
        + (E.ofFloat v1 - E.ofFloat v0) * ((frac : α) / (FRACTIONONE : α))) ∧
      (frac = 0 → lerp8 E vals s frac = .ok (E.ofByte v0 / 127) ∧
        lerp16 E vals s frac = .ok (E.ofShort v0 / 32767) ∧
        lerp32 E vals s frac = .ok (E.ofFloat v0)) := by
  have e8 : ∀ x : α, x * recip α 127 = x / 127 := fun x => by
    rw [recip_eq, mul_one_div]
    norm_num
  have e16 : ∀ x : α, x * recip α 32767 = x / 32767 := fun x => by
    rw [recip_eq, mul_one_div]
    norm_num
  have l8 : ∀ v1, vals s = .ok v1 → lerp8 E vals s frac = .ok (E.ofByte v0 / 127
      + (E.ofByte v1 / 127 - E.ofByte v0 / 127) * ((frac : α) / (FRACTIONONE : α))) := by
    intro v1 h1
    simp only [lerp8, h0, h1]
    rw [hlerp, e8, mu_eq]
    congr 1
    ring
  have l16 : ∀ v1, vals s = .ok v1 → lerp16 E vals s frac = .ok (E.ofShort v0 / 32767
      + (E.ofShort v1 / 32767 - E.ofShort v0 / 32767)
        * ((frac : α) / (FRACTIONONE : α))) := by
    intro v1 h1
    simp only [lerp16, h0, h1]
    rw [hlerp, e16, mu_eq]
    congr 1
    ring
  have l32 : ∀ v1, vals s = .ok v1 → lerp32 E vals s frac = .ok (E.ofFloat v0
      + (E.ofFloat v1 - E.ofFloat v0) * ((frac : α) / (FRACTIONONE : α))) := by
    intro v1 h1
    simp only [lerp32, h0, h1]
    rw [hlerp, mu_eq]
  refine ⟨?_, ?_, ?_, fun v1 h1 => ⟨l8 v1 h1, l16 v1 h1, l32 v1 h1, fun hf => ?_⟩⟩
  · simp only [point8, h0]
    rw [e8]
  · simp only [point16, h0]
    rw [e16]
  · simp only [point32, h0]
  · subst hf
    refine ⟨?_, ?_, ?_⟩
    · rw [l8 v1 h1]
      simp
    · rw [l16 v1 h1]
      simp
    · rw [l32 v1 h1]
      simp

end KernelsExact

/-- C24 on a window of two 8-bit elements `[127, 0]` at stride 1 and phase
`FRACTIONONE/2`, in the rationals: `point8` returns 1 and `lerp8` returns `1/2`. -/
theorem C24_kernels_exact_witness :
    point8 (exEnv 16384) (elemAt { bytes := [127, 0], off := 0 } 1 1 0 0) 1 8192
      = .ok ((exEnv 16384).ofByte [127] / 127) ∧
    (exEnv 16384).ofByte [127] / 127 = 1 ∧
    lerp8 (exEnv 16384) (elemAt { bytes := [127, 0], off := 0 } 1 1 0 0) 1 8192
      = .ok ((exEnv 16384).ofByte [127] / 127
        + ((exEnv 16384).ofByte [0] / 127 - (exEnv 16384).ofByte [127] / 127)
          * (((8192 : Int) : ℚ) / (FRACTIONONE : ℚ))) ∧
    (exEnv 16384).ofByte [127] / 127
        + ((exEnv 16384).ofByte [0] / 127 - (exEnv 16384).ofByte [127] / 127)
          * (((8192 : Int) : ℚ) / (FRACTIONONE : ℚ)) = 1 / 2 :=
  have h := C24_kernels_exact (exEnv 16384) (elemAt { bytes := [127, 0], off := 0 } 1 1 0 0)
    1 8192 [127] (fun _ _ _ => rfl) (by rfl)
  ⟨h.1, by norm_num [exEnv], (h.2.2.2 [0] (by rfl)).1, by norm_num [exEnv, FRACTIONONE_eq]⟩

/-! ## The read footprint of the kernels -/

section Footprint

variable {α F : Type} [Add α] [Sub α] [Mul α] [Div α] [IntCast α]

/-- C25: the padding constants cover each kernel's read footprint.  The pre-paddings of the
point, linear and cubic resamplers are 0, 0 and 1 and their post-paddings 0, 1 and 2; and the
kernel of the mixer selected for a resampler `r` (plain or HRTF, any element type) reads only
the offsets `k*s` with `-ResamplerPrePadding[r] <= k <= ResamplerPadding[r]`: two window
accessors that agree on these offsets give the same kernel result.  So the point kernel
reads only `v[0]`, the linear kernel only `v[0]` and `v[s]`, and the cubic kernel only
`v[-s]`, `v[0]`, `v[s]` and `v[2s]`. -/
theorem C25_padding_covers_footprint (E : Env α F) (b : ALbuffer) (r : Resampler)
    (g : MixerFunc) (pre post : Nat) (vals vals1 : Int → Except Fault (List Nat))
    (s frac : Int)
    (hsel : SelectMixer b r = some g ∨ SelectHrtfMixer b r = some g)
    (hpre : ResamplerPrePadding r = some pre) (hpost : ResamplerPadding r = some post)
    (h : ∀ k : Int, -(pre : Int) ≤ k → k ≤ (post : Int) → vals (k * s) = vals1 (k * s)) :
    g.sampler.run E vals s frac = g.sampler.run E vals1 s frac ∧
    (ResamplerPrePadding .POINT_RESAMPLER = some 0 ∧
      ResamplerPrePadding .LINEAR_RESAMPLER = some 0 ∧
      ResamplerPrePadding .CUBIC_RESAMPLER = some 1) ∧
    (ResamplerPadding .POINT_RESAMPLER = some 0 ∧
      ResamplerPadding .LINEAR_RESAMPLER = some 1 ∧
      ResamplerPadding .CUBIC_RESAMPLER = some 2) := by
  refine ⟨?_, ⟨rfl, rfl, rfl⟩, ⟨rfl, rfl, rfl⟩⟩
  have k0 : -(pre : Int) ≤ 0 → (0 : Int) ≤ post → vals 0 = vals1 0 := fun a c => by
    have := h 0 a c
    rw [Int.zero_mul] at this
    exact this
  have k1 : -(pre : Int) ≤ 1 → (1 : Int) ≤ post → vals s = vals1 s := fun a c => by
    have := h 1 a c
    rw [Int.one_mul] at this
    exact this
  have k2 : -(pre : Int) ≤ 2 → (2 : Int) ≤ post → vals (s + s) = vals1 (s + s) := fun a c => by
    have := h 2 a c
    rw [Int.two_mul] at this
    exact this
  have km : -(pre : Int) ≤ -1 → (-1 : Int) ≤ post → vals (-s) = vals1 (-s) := fun a c => by
    have := h (-1) a c
    rw [Int.neg_mul, Int.one_mul] at this
    exact this
  cases r <;> simp only [ResamplerPrePadding, ResamplerPadding, Option.some.injEq] at hpre hpost
    <;> try (exact absurd hpre (by simp))
  all_goals subst hpre
  all_goals subst hpost
  all_goals
    cases hb : b.FmtType <;>
      simp [SelectMixer, SelectHrtfMixer, Select_point, Select_lerp, Select_cubic,
        Select_Hrtf_point, Select_Hrtf_lerp, Select_Hrtf_cubic, hb] at hsel
  all_goals
    rcases hsel with hg | hg <;> subst hg <;>
      simp only [MixerFunc.sampler, SamplerId.run, point8, point16, point32, lerp8, lerp16,
        lerp32, cubic8, cubic16, cubic32]
  all_goals try rw [k0 (by omega) (by omega)]
  all_goals try rw [k1 (by omega) (by omega)]
  all_goals try rw [k2 (by omega) (by omega), km (by omega) (by omega)]

end Footprint

/-- C25 for the cubic kernel of 8-bit elements: an accessor into the window `[1, 2, 3, 4, 5]`
and one into the window `[1, 2, 3, 4, 9]`, both at element 1 with stride 1, agree on the
offsets -1 to 2, and the kernel returns the same value on both. -/
theorem C25_padding_covers_footprint_witness :
    SelectMixer (exBuffer []) .CUBIC_RESAMPLER = some .Mix_ALbyte_cubic8 ∧
    MixerFunc.Mix_ALbyte_cubic8.sampler.run (exEnv 16384)
        (elemAt { bytes := [1, 2, 3, 4, 5], off := 0 } 1 1 1 0) 1 100
      = MixerFunc.Mix_ALbyte_cubic8.sampler.run (exEnv 16384)
        (elemAt { bytes := [1, 2, 3, 4, 9], off := 0 } 1 1 1 0) 1 100 :=
  ⟨rfl, (C25_padding_covers_footprint (exEnv 16384) (exBuffer []) .CUBIC_RESAMPLER
    .Mix_ALbyte_cubic8 1 2 (elemAt { bytes := [1, 2, 3, 4, 5], off := 0 } 1 1 1 0)
    (elemAt { bytes := [1, 2, 3, 4, 9], off := 0 } 1 1 1 0) 1 100 (Or.inl rfl) rfl rfl
    (fun k hk1 hk2 => by
      have h3 : k = -1 ∨ k = 0 ∨ k = 1 ∨ k = 2 := by omega
      rcases h3 with h3 | h3 | h3 | h3 <;> subst h3 <;> rfl)).1⟩

/-! ## C26: the number of samples handed to the mixer -/

section BufferSizeFormula
variable {α F : Type} [Add α] [Sub α] [Mul α] [Div α] [IntCast α]

/-- The sample count of an iteration in terms of the usable frames
`SrcDataSize / FrameSize - pre_pad - post_pad`, when at least one frame is usable: the
quotient is cut to 32 bits before the minimum is taken. -/
theorem mixCount_usable {len std o inc f post pre FS n : Nat}
    (hinc : 0 < inc) (hincu : inc < 4294967296) (hf : f < 16384)
    (hU : 1 ≤ len / FS - pre - post) (hp : post + pre < 4294967296)
    (h : mixCount len std o inc f post pre FS = .ok n) :
    n = min ((((len / FS - pre - post) * 16384 - f - 1) / inc) % 4294967296) (usub std o) := by
  unfold mixCount at h
  split at h
  · simp at h
  simp only [Except.ok.injEq, FRACTIONONE_eq] at h
  rw [← h, u32_small _ hp]
  have e : (((len / FS : Nat) : Int) - ((post + pre : Nat) : Int)) * ((16384 : Nat) : Int)
      - (inc : Int) - (f : Int) + ((usub inc 1 : Nat) : Int)
      = ((((len / FS - pre - post) * 16384 - f - 1 : Nat)) : Int) := by
    unfold usub
    generalize len / FS = q at *
    omega
  rw [e, ← Int.ofNat_tdiv]
  have e2 : ∀ x : Nat, toU32 ((x : Nat) : Int) = x % 4294967296 := by
    intro x
    unfold toU32
    omega
  rw [e2]

theorem padding_small {r : Resampler} {pre post : Nat} (hpre : ResamplerPrePadding r = some pre)
    (hpost : ResamplerPadding r = some post) : pre ≤ 1 ∧ post ≤ 2 := by
  cases r <;> simp [ResamplerPrePadding, ResamplerPadding] at hpre hpost <;> omega

/-- The sample count of an iteration, as the code has it.  Take an iteration of the loop
of `MixSource` that returns, with a step of at least 1 (an `ALuint`), a fraction below `FRACTIONONE` and
`OutPos ≤ SamplesToDo < 2^32`.  It makes one mixer call `c`, at the `OutPos` and the
fraction of the iteration.  If `usable = SrcDataSize / FrameSize - pre_pad - post_pad` is at
least 1, write `Q` for `floor((usable * FRACTIONONE - step - fraction + (step - 1)) / step)`,
which is `(usable * FRACTIONONE - fraction - 1) / step`.  The code casts `Q` to 32 bits before
it takes the minimum: `BufferSize = min(SamplesToDo - OutPos, Q mod 2^32)`.  So when `Q` is
below `2^32` - as it is for every window of at most `2^18` bytes - `BufferSize` is
`min(SamplesToDo - OutPos, Q)`, and it is the greatest `n ≤ SamplesToDo - OutPos` with
`fraction + n * step < usable * FRACTIONONE`. -/
theorem feedIter_mix_count (E : Env α F) (fuel std inc : Nat) (r : Resampler) (FS : Nat)
    (st st1 : FeedSt α F) (h : feedIter E fuel std inc r FS st = .ok st1)
    (hinc : 1 ≤ inc) (hincu : inc < 4294967296) (hf : st.DataPosFrac < FRACTIONONE)
    (ho : st.OutPos ≤ std) (hstd : std < 4294967296) :
    ∃ (pre post : Nat) (c : MixCall),
      ResamplerPrePadding r = some pre ∧ ResamplerPadding r = some post ∧
      st1.calls = st.calls ++ [c] ∧ c.OutPos = st.OutPos ∧ c.DataPosFrac = st.DataPosFrac ∧
      ∀ usable Q : Nat, usable = c.SrcData.length / FS - pre - post → 1 ≤ usable →
        Q = (usable * FRACTIONONE - st.DataPosFrac - 1) / inc →
        (Q : Int) = ((usable : Int) * (FRACTIONONE : Int) - (inc : Int) - (st.DataPosFrac : Int)
          + ((inc : Int) - 1)) / (inc : Int) ∧
        c.BufferSize = min (std - st.OutPos) (Q % 4294967296) ∧
        (c.SrcData.length ≤ 262144 → Q < 4294967296) ∧
        (Q < 4294967296 →
          c.BufferSize = min (std - st.OutPos) Q ∧
          c.BufferSize ≤ std - st.OutPos ∧
          st.DataPosFrac + c.BufferSize * inc < usable * FRACTIONONE ∧
          ∀ n, n ≤ std - st.OutPos → st.DataPosFrac + n * inc < usable * FRACTIONONE →
            n ≤ c.BufferSize) := by
  obtain ⟨pre, post, B0, S, L, n, g, res, hpre, hpost, hB, hA, hC, hg, hcall, hadv⟩ :=
    feedIter_inv h
  have hs := advanceLoop_spec FS fuel _ _ hadv
  obtain ⟨c, hc⟩ : ∃ c : MixCall, c = MixCall.mk S (u32 (pre * FS)) st.DataPosInt
      st.DataPosFrac st.OutPos n := ⟨_, rfl⟩
  refine ⟨pre, post, c, hpre, hpost, by rw [hc]; exact hs.2.2.1, by rw [hc], by rw [hc], ?_⟩
  have hcS : c.SrcData = S := by rw [hc]
  have hcn : c.BufferSize = n := by rw [hc]
  rw [hcS, hcn]
  clear hcS hcn hc
  intro usable Q hu h1 hQ
  rw [FRACTIONONE_eq] at *
  have hpp := padding_small hpre hpost
  rw [hu] at h1
  have hn := mixCount_usable hinc hincu hf h1 (by omega) hC
  rw [← hu] at hn h1
  rw [← hQ] at hn
  have hus : usub std st.OutPos = std - st.OutPos := by unfold usub; omega
  rw [hus] at hn
  have hQi : (Q : Int) = ((usable : Int) * ((16384 : Nat) : Int) - (inc : Int)
      - (st.DataPosFrac : Int) + ((inc : Int) - 1)) / (inc : Int) := by
    have e : (usable : Int) * ((16384 : Nat) : Int) - (inc : Int) - (st.DataPosFrac : Int)
        + ((inc : Int) - 1) = ((usable * 16384 - st.DataPosFrac - 1 : Nat) : Int) := by
      omega
    rw [e, hQ]
    exact Int.natCast_div _ _
  have hmul : Q * inc ≤ usable * 16384 - st.DataPosFrac - 1 := by
    rw [hQ]
    exact Nat.div_mul_le_self _ _
  refine ⟨hQi, by rw [hn, Nat.min_comm], ?_, ?_⟩
  · intro hlen
    have h2 : S.length / FS ≤ 262144 := le_trans (Nat.div_le_self _ _) hlen
    have h3 : usable * 16384 - st.DataPosFrac - 1 < 4294967296 := by omega
    rw [hQ]
    exact lt_of_le_of_lt (Nat.div_le_self _ _) h3
  · intro hQs
    rw [Nat.mod_eq_of_lt hQs] at hn
    have hle : n ≤ Q := by rw [hn]; exact Nat.min_le_left _ _
    have hmul2 : n * inc ≤ Q * inc := Nat.mul_le_mul_right _ hle
    refine ⟨by rw [hn, Nat.min_comm], by rw [hn]; exact Nat.min_le_right _ _, by omega, ?_⟩
    intro k hk hkf
    have hkQ : k ≤ Q := by
      rw [hQ]
      exact (Nat.le_div_iff_mul_le hinc).2 (by omega)
    rw [hn]
    exact Nat.le_min.2 ⟨hkQ, hk⟩

end BufferSizeFormula

/-! ## C27: the window has the requested size -/

section WindowSize
variable {α F : Type} [Add α] [Sub α] [Mul α] [Div α] [IntCast α]

/-- Capping a whole number of frames by the stack buffer and cutting to whole frames is the
same as capping the number of frames by the frames the stack buffer holds. -/
theorem cap_frames (STACK FS X : Nat) (hFS : 0 < FS) :
    min (STACK / FS) X * FS = min (X * FS) STACK - min (X * FS) STACK % FS := by
  by_cases h : X * FS ≤ STACK
  · have h1 : X ≤ STACK / FS := (Nat.le_div_iff_mul_le hFS).2 h
    rw [Nat.min_eq_right h1, Nat.min_eq_left h, Nat.mul_mod_left, Nat.sub_zero]
  · have h0 : STACK < X * FS := Nat.lt_of_not_le h
    have h1 : STACK / FS < X := (Nat.div_lt_iff_lt_mul hFS).2 h0
    rw [Nat.min_eq_left (Nat.le_of_lt h1), Nat.min_eq_right (Nat.le_of_lt h0)]
    have h2 := Nat.div_add_mod STACK FS
    rw [Nat.mul_comm] at h2
    omega

/-- C27, as the code has it.  Take an iteration of the loop of `MixSource` on any of the
three assembly paths (a static source, looping or not, or a queue with a current item), with
`OutPos ≤ SamplesToDo`, a fraction below `FRACTIONONE`, `STACK_DATA_SIZE` an `ALuint` and -
what the claim leaves out - `SamplesToDo < 2^32 - 1`, so that `SamplesToDo - OutPos + 1`
does not wrap.  When the iteration has sized its request and the assembly has finished with
the window `SrcData`: the window has at most `STACK_DATA_SIZE` bytes, and its size is
`min((((SamplesToDo - OutPos + 1) * step + fraction + FRACTIONMASK) >> FRACTIONBITS)
+ pre_pad + post_pad) * FrameSize, STACK_DATA_SIZE)` rounded down to a multiple of
`FrameSize`. -/
theorem C27_window_size (E : Env α F) (fuel std inc FS : Nat) (r : Resampler)
    (st : FeedSt α F) (pre post B0 : Nat) (SrcData : List Nat) (L : Bool)
    (hpre : ResamplerPrePadding r = some pre) (hpost : ResamplerPadding r = some post)
    (hitem : st.mem.Source.lSourceType = .AL_STATIC ∨
      (st.BufferListItem.isSome ∧ 0 < st.mem.Source.queue.length))
    (hS : E.STACK_DATA_SIZE < 4294967296)
    (hstd : std < 4294967295) (ho : st.OutPos ≤ std) (hf : st.DataPosFrac < FRACTIONONE)
    (hreq : requestSize E.STACK_DATA_SIZE std st.OutPos inc st.DataPosFrac post pre FS = .ok B0)
    (hasm : assemble fuel st.mem.Source st.Looping st.BufferListItem st.DataPosInt pre FS B0
      = .ok (SrcData, L)) :
    SrcData.length ≤ E.STACK_DATA_SIZE ∧
    SrcData.length = B0 ∧
    SrcData.length =
      min (((((std - st.OutPos + 1) * inc + st.DataPosFrac + FRACTIONMASK) >>> FRACTIONBITS)
        + pre + post) * FS) E.STACK_DATA_SIZE
      - min (((((std - st.OutPos + 1) * inc + st.DataPosFrac + FRACTIONMASK) >>> FRACTIONBITS)
        + pre + post) * FS) E.STACK_DATA_SIZE % FS := by
  have hpp := padding_small hpre hpost
  rw [FRACTIONONE_eq] at hf
  obtain ⟨r1, r2, r3⟩ := requestSize_spec hS hstd ho hf (by omega) hreq
  have hlen : SrcData.length = B0 := assemble_length hitem hasm
  refine ⟨by rw [hlen]; exact r2, hlen, ?_⟩
  rw [hlen, r3, shr_fb, FRACTIONMASK_eq, ← cap_frames _ _ _ r1]
  have e : ((std - st.OutPos + 1) * inc + st.DataPosFrac + 16383) / 16384 + post + pre
      = ((std - st.OutPos + 1) * inc + st.DataPosFrac + 16383) / 16384 + pre + post := by
    omega
  rw [e]

/-- C27 at a concrete iteration, with a stack buffer of 8 bytes and one-byte frames: the
static source `exStatic4` asked for three samples requests `min(4, 8) = 4` bytes and its
window is the four buffer bytes. -/
theorem C27_window_size_witness :
    assemble 8 (exStatic4 .AL_PLAYING 0).Source false (some 0) 0 0 1 4
      = .ok ([10, 11, 12, 13], false) ∧
    [10, 11, 12, 13].length ≤ 8 ∧
    [10, 11, 12, 13].length
      = min (((((3 - 0 + 1) * 16384 + 0 + FRACTIONMASK) >>> FRACTIONBITS) + 0 + 0) * 1) 8
        - min (((((3 - 0 + 1) * 16384 + 0 + FRACTIONMASK) >>> FRACTIONBITS) + 0 + 0) * 1) 8 % 1 :=
  have h := C27_window_size (exEnv 8) 8 3 16384 1 .POINT_RESAMPLER
    (exFeed (exStatic4 .AL_PLAYING 0)) 0 0 4 [10, 11, 12, 13] false rfl rfl (Or.inl rfl)
    (by decide) (by decide) (by decide) (by decide) (by rfl) (by rfl)
  ⟨by rfl, h.1, h.2.2⟩

/-- C27 fails for `SamplesToDo = 2^32 - 1`.  For the static source `exStatic4` at position
0 (unit step, fraction 0, no padding, one-byte frames, a stack buffer of 16384 bytes) the
claim's size is `min(2^32, 16384) = 16384` bytes; but the 32-bit `SamplesToDo - OutPos + 1`
is 0, the request is 0 bytes and the assembly finishes with an empty window. -/
theorem C27_counterexample :
    requestSize (exEnv 16384).STACK_DATA_SIZE 4294967295 0 16384 0 0 0 1 = .ok 0 ∧
    assemble 8 (exStatic4 .AL_PLAYING 0).Source false (some 0) 0 0 1 0 = .ok ([], false) ∧
    min (((((4294967295 - 0 + 1) * 16384 + 0 + FRACTIONMASK) >>> FRACTIONBITS) + 0 + 0) * 1)
        (exEnv 16384).STACK_DATA_SIZE
      - min (((((4294967295 - 0 + 1) * 16384 + 0 + FRACTIONMASK) >>> FRACTIONBITS) + 0 + 0) * 1)
        (exEnv 16384).STACK_DATA_SIZE % 1 = 16384 ∧
    ([] : List Nat).length ≠ 16384 := by
  refine ⟨by rfl, by rfl, by decide, by decide⟩

end WindowSize

/-! ## C21: the leading click correction and the first sample -/

section ClickCorrection
variable {α F : Type} [Add α] [Sub α] [Mul α] [Div α] [IntCast α]

/-- The dry sample loop leaves the click accumulators and every row below its first row
alone, while `OutPos` does not wrap. -/
theorem dryLoop_rows {E : Env α F} {smp : SamplerId} {data : SrcPtr} {nc inc i : Nat}
    {G : Nat → α} (r : Nat) :
    ∀ (j a i0 : Nat) (s s1 : Cur α F), s.OutPos = u32 a → r < a → a + j ≤ 4294967296 →
      forLoop (fun _ => mixDryStep E smp data nc inc i G) j i0 s = .ok s1 →
      s1.mem.Device.DryBuffer r = s.mem.Device.DryBuffer r ∧
      s1.mem.Device.ClickRemoval = s.mem.Device.ClickRemoval ∧
      s1.mem.Device.PendingClicks = s.mem.Device.PendingClicks ∧
      s1.OutPos = u32 (a + j) := by
  intro j
  induction j with
  | zero =>
    intro a i0 s s1 ha hr hj h
    simp only [forLoop, Except.ok.injEq] at h
    subst h
    exact ⟨rfl, rfl, rfl, ha⟩
  | succ j ih =>
    intro a i0 s s1 ha hr hj h
    simp only [forLoop] at h
    split at h
    · next s2 h2 =>
      have ho := mixDryStep_outpos h2
      unfold mixDryStep at h2
      split at h2
      · simp at h2
      · next v hv =>
        simp only [Except.ok.injEq] at h2
        have ho2 : s2.OutPos = u32 (a + 1) := by
          rw [ho, ha]
          unfold u32
          omega
        have hne : ¬ r = s.OutPos := by
          rw [ha]
          unfold u32
          omega
        obtain ⟨b1, b2, b3, b4⟩ := ih (a + 1) (i0 + 1) s2 s1 ho2 (by omega) (by omega) h
        refine ⟨?_, ?_, ?_, ?_⟩
        · rw [b1, ← h2]
          funext ch
          simp only [Cur.advance, Mem.setDryFilter]
          rw [if_neg (fun hh => hne hh.1)]
        · rw [b2, ← h2]; rfl
        · rw [b3, ← h2]; rfl
        · rw [b4]
          congr 1
          omega
    · simp at h

/-- One pass of the channel loop of a plain mixer entered with `OutPos = 0` for at least
one sample: the click accumulator and the first row of the dry buffer it leaves. -/
theorem mixDryChannel_click {E : Env α F} {smp : SamplerId} {data : SrcPtr}
    {nc inc f0 std n i : Nat} {c c1 : Cur α F}
    (hc : c.OutPos = 0) (hn : 1 ≤ n) (hnu : n < 4294967296)
    (h : mixDryChannel E smp data nc inc f0 std n i c = .ok c1) :
    ∃ x0, sample E smp data nc 0 f0 i = .ok x0 ∧
      (∀ ch, c1.mem.Device.ClickRemoval ch =
        if ch < E.MAXCHANNELS then
          c.mem.Device.ClickRemoval ch
            - E.lpFilter2PC c.mem.Source.Params.iirFilter i x0 * c.mem.Source.Params.DryGains i ch
        else c.mem.Device.ClickRemoval ch) ∧
      (∀ ch, c1.mem.Device.DryBuffer 0 ch =
        if ch < E.MAXCHANNELS then
          c.mem.Device.DryBuffer 0 ch
            + (E.lpFilter2P c.mem.Source.Params.iirFilter i x0).2
              * c.mem.Source.Params.DryGains i ch
        else c.mem.Device.DryBuffer 0 ch) := by
  unfold mixDryChannel at h
  simp only at h
  rw [if_pos hc] at h
  split at h
  · simp at h
  · next c2 h2 =>
    split at h
    · simp at h
    · next c3 h3 =>
      split at h
      · simp at h
      · next c4 h4 =>
        simp only [Except.ok.injEq] at h
        unfold mixDryLead at h2
        simp only at h2
        split at h2
        · simp at h2
        · next x0 hx =>
          simp only [Except.ok.injEq] at h2
          obtain ⟨k, hk⟩ : ∃ k, n = k + 1 := ⟨n - 1, by omega⟩
          subst hk
          simp only [forLoop] at h3
          split at h3
          · next c5 h5 =>
            have ho5 := mixDryStep_outpos h5
            have hc2o : c2.OutPos = 0 := by rw [← h2]; exact hc
            rw [hc2o] at ho5
            have ho5b : c5.OutPos = u32 1 := by rw [ho5]
            obtain ⟨b1, b2, b3, b4⟩ := dryLoop_rows 0 k 1 1 c5 c3 ho5b (by omega) (by omega) h3
            unfold mixDryStep at h5
            have hx2 : sample E smp data nc c2.pos c2.frac i = .ok x0 := by
              rw [← h2]; exact hx
            rw [hx2] at h5
            simp only [Except.ok.injEq] at h5
            have e4 : c4.mem.Device.DryBuffer = c3.mem.Device.DryBuffer ∧
                c4.mem.Device.ClickRemoval = c3.mem.Device.ClickRemoval := by
              split at h4
              · unfold mixDryTrail at h4
                split at h4
                · simp at h4
                · simp only [Except.ok.injEq] at h4
                  rw [← h4]
                  exact ⟨rfl, rfl⟩
              · simp only [Except.ok.injEq] at h4
                rw [← h4]
                exact ⟨rfl, rfl⟩
            refine ⟨x0, hx, ?_, ?_⟩
            · intro ch
              rw [← h]
              show c4.mem.Device.ClickRemoval ch = _
              rw [e4.2, b2, ← h5]
              simp only [Cur.advance, Mem.setDryFilter]
              rw [← h2]
            · intro ch
              rw [← h]
              show c4.mem.Device.DryBuffer 0 ch = _
              rw [e4.1, b1, ← h5]
              simp only [Cur.advance, Mem.setDryFilter, hc2o, true_and]
              rw [← h2]
          · simp at h3

end ClickCorrection

section ClickCorrectionExact

variable {α F : Type} [Field α]

/-- C21, as the code has it.  Take a call of a plain (non-HRTF) mixer with `OutPos = 0`
and `1 ≤ BufferSize < 2^32` that returns.  For every source channel `i` the channel loop
reaches its pass `i` in a state `c` and leaves it in a state `c1`; with `x0` the kernel's
value of the first sample and `flt` the dry filter state in `c`, for every output channel
`ch < MAXCHANNELS`: the leading block changes `ClickRemoval[ch]` by
`-(lpFilter2PC(flt, i, x0) * DryGains[i][ch])`, the first sample adds
`lpFilter2P(flt, i, x0) * DryGains[i][ch]` to `DryBuffer[0][ch]`, so the two together are
`(lpFilter2P(flt, i, x0) - lpFilter2PC(flt, i, x0)) * DryGains[i][ch]` - the step value less
the step-correction value, times the gain - which is zero when the two filter entry points
return the same value for the first sample. -/
theorem C21_click_correction (E : Env α F) (g : MixerFunc) (m : Mem α F) (data : SrcPtr)
    (p f std n : Nat) (res : MixResult α F) (hg : g.isHrtf = false)
    (hn : 1 ≤ n) (hnu : n < 4294967296)
    (h : g.call E m data p f 0 std n = .ok res) :
    ∀ i, i < m.Source.NumChannels →
      ∃ (c c1 : Cur α F) (x0 : α),
        forLoop (mixDryChannel E g.sampler data m.Source.NumChannels m.Source.Params.Step
          f std n) i 0 { mem := m, pos := 0, frac := f, OutPos := 0 } = .ok c ∧
        mixDryChannel E g.sampler data m.Source.NumChannels m.Source.Params.Step f std n i c
          = .ok c1 ∧
        sample E g.sampler data m.Source.NumChannels 0 f i = .ok x0 ∧
        ∀ ch, ch < E.MAXCHANNELS →
          c1.mem.Device.ClickRemoval ch - c.mem.Device.ClickRemoval ch
            = -(E.lpFilter2PC c.mem.Source.Params.iirFilter i x0
                * m.Source.Params.DryGains i ch) ∧
          c1.mem.Device.DryBuffer 0 ch - c.mem.Device.DryBuffer 0 ch
            = (E.lpFilter2P c.mem.Source.Params.iirFilter i x0).2
                * m.Source.Params.DryGains i ch ∧
          (c1.mem.Device.ClickRemoval ch - c.mem.Device.ClickRemoval ch)
              + (c1.mem.Device.DryBuffer 0 ch - c.mem.Device.DryBuffer 0 ch)
            = ((E.lpFilter2P c.mem.Source.Params.iirFilter i x0).2
                - E.lpFilter2PC c.mem.Source.Params.iirFilter i x0)
              * m.Source.Params.DryGains i ch ∧
          ((E.lpFilter2P c.mem.Source.Params.iirFilter i x0).2
              = E.lpFilter2PC c.mem.Source.Params.iirFilter i x0 →
            (c1.mem.Device.ClickRemoval ch - c.mem.Device.ClickRemoval ch)
              + (c1.mem.Device.DryBuffer 0 ch - c.mem.Device.DryBuffer 0 ch) = 0) := by
  intro i hi
  unfold MixerFunc.call at h
  rw [hg] at h
  simp only [Bool.false_eq_true, if_false] at h
  unfold Mix at h
  simp only at h
  split at h
  · simp at h
  · next cE hE =>
    obtain ⟨k, hk⟩ : ∃ k, m.Source.NumChannels = i + (1 + k) :=
      ⟨m.Source.NumChannels - i - 1, by omega⟩
    generalize m.Source.NumChannels = nc at *
    subst hk
    obtain ⟨c, hc, hrest⟩ := forLoop_split _ i (1 + k) 0 _ cE hE
    obtain ⟨c1, hc1, -⟩ := forLoop_split _ 1 k (0 + i) c cE hrest
    simp only [forLoop, Nat.zero_add] at hc1
    have hstep : mixDryChannel E g.sampler data (i + (1 + k)) m.Source.Params.Step f std n i c
        = .ok c1 := by
      split at hc1
      · next s1 h1 =>
        simp only [Except.ok.injEq] at hc1
        rw [← hc1]
        exact h1
      · simp at hc1
    have hinv := forLoop_inv _ (fun s : Cur α F => s.OutPos = 0 ∧ s.mem.fixed = m.fixed)
      (fun j s s1 hs hb => ⟨(mixDryChannel_outpos hb (by rw [hs.1]; decide)).trans hs.1,
        (mixDryChannel_fixed hb).trans hs.2⟩) i 0 _ c ⟨rfl, rfl⟩ hc
    obtain ⟨x0, hx, hcr, hdb⟩ := mixDryChannel_click hinv.1 hn hnu hstep
    have hG : c.mem.Source.Params.DryGains = m.Source.Params.DryGains :=
      congrArg Fixed.DryGains hinv.2
    refine ⟨c, c1, x0, hc, hstep, hx, ?_⟩
    intro ch hch
    have e1 := hcr ch
    have e2 := hdb ch
    rw [if_pos hch, hG] at e1 e2
    rw [e1, e2]
    refine ⟨by ring, by ring, by ring, fun heq => ?_⟩
    rw [heq]
    ring

/-- C21 at a concrete call: `Mix_ALbyte_point8` on the window `[127, 0]` for one sample at
`OutPos = 0`, with pass-through filters and unit gain to output channel 0.  The first
sample is 1; the leading block takes 1 from `ClickRemoval[0]` and the first sample adds 1 to
`DryBuffer[0][0]`: together they are 0. -/
theorem C21_click_correction_witness :
    ((exCall .Mix_ALbyte_point8 16384 (exStatic4 .AL_PLAYING 0) { bytes := [127, 0], off := 0 }
        0 0 0 2 1).mem.Device.ClickRemoval 0 - 0)
      + ((exCall .Mix_ALbyte_point8 16384 (exStatic4 .AL_PLAYING 0)
        { bytes := [127, 0], off := 0 } 0 0 0 2 1).mem.Device.DryBuffer 0 0 - 0) = 0 :=
  have h := C21_click_correction (exEnv 16384) .Mix_ALbyte_point8 (exStatic4 .AL_PLAYING 0)
    { bytes := [127, 0], off := 0 } 0 0 2 1
    (exCall .Mix_ALbyte_point8 16384 (exStatic4 .AL_PLAYING 0) { bytes := [127, 0], off := 0 }
      0 0 0 2 1) rfl (by decide) (by decide) (by rfl) 0 (by decide)
  by
    obtain ⟨c, c1, x0, hc, hc1, hx, hall⟩ := h
    simp only [forLoop, Except.ok.injEq] at hc
    subst hc
    have e : mixDryChannel (exEnv 16384) MixerFunc.Mix_ALbyte_point8.sampler
        { bytes := [127, 0], off := 0 } (exStatic4 .AL_PLAYING 0).Source.NumChannels
        (exStatic4 .AL_PLAYING 0).Source.Params.Step 0 2 1 0
        { mem := exStatic4 .AL_PLAYING 0, pos := 0, frac := 0, OutPos := 0 }
        = .ok { mem := (exCall .Mix_ALbyte_point8 16384 (exStatic4 .AL_PLAYING 0)
                  { bytes := [127, 0], off := 0 } 0 0 0 2 1).mem,
                pos := 1, frac := 0, OutPos := 0 } := by rfl
    rw [e] at hc1
    simp only [Except.ok.injEq] at hc1
    subst hc1
    exact (hall 0 (by decide)).2.2.2 rfl

/-- C21 fails as stated.  `Mix_ALbyte_point8` on the window `[127, 0]` for one sample at
`OutPos = 0`, with pass-through filters (step and step-correction both return their input)
and unit gain to output channel 0: the first sample is 1, the leading block changes
`ClickRemoval[0]` by -1 and the first sample adds 1 to `DryBuffer[0][0]`.  Their sum is 0,
where the claim has the step-correction value times the gain, which is 1. -/
theorem C21_counterexample :
    (exStatic4 .AL_PLAYING 0).Device.ClickRemoval 0 = 0 ∧
    (exStatic4 .AL_PLAYING 0).Device.DryBuffer 0 0 = 0 ∧
    sample (exEnv 16384) .point8 { bytes := [127, 0], off := 0 } 1 0 0 0 = .ok (1 : ℚ) ∧
    (exEnv 16384).lpFilter2PC () 0 1 * (exStatic4 .AL_PLAYING 0).Source.Params.DryGains 0 0 = 1 ∧
    ∃ res, MixerFunc.call .Mix_ALbyte_point8 (exEnv 16384) (exStatic4 .AL_PLAYING 0)
        { bytes := [127, 0], off := 0 } 0 0 0 2 1 = .ok res ∧
      res.mem.Device.ClickRemoval 0 = -1 ∧ res.mem.Device.DryBuffer 0 0 = 1 ∧
      (res.mem.Device.ClickRemoval 0 - 0) + (res.mem.Device.DryBuffer 0 0 - 0) ≠ 1 := by
  have e0 : sample (exEnv 16384) .point8 { bytes := [127, 0], off := 0 } 1 0 0 0
      = .ok ((if (127 : ℕ) < 128 then ((127 : ℕ) : ℚ) else ((127 : ℕ) : ℚ) - 256)
          * recip ℚ 127) := by rfl
  have eg : (exEnv 16384).lpFilter2PC () 0 1
      * (exStatic4 .AL_PLAYING 0).Source.Params.DryGains 0 0
      = (1 : ℚ) * (if (0 : ℕ) = 0 then 1 else 0) := by rfl
  have e1 : (exCall .Mix_ALbyte_point8 16384 (exStatic4 .AL_PLAYING 0)
      { bytes := [127, 0], off := 0 } 0 0 0 2 1).mem.Device.ClickRemoval 0
      = (0 : ℚ) - ((if (127 : ℕ) < 128 then ((127 : ℕ) : ℚ) else ((127 : ℕ) : ℚ) - 256)
          * recip ℚ 127) * (if (0 : ℕ) = 0 then 1 else 0) := by rfl
  have e2 : (exCall .Mix_ALbyte_point8 16384 (exStatic4 .AL_PLAYING 0)
      { bytes := [127, 0], off := 0 } 0 0 0 2 1).mem.Device.DryBuffer 0 0
      = (0 : ℚ) + ((if (127 : ℕ) < 128 then ((127 : ℕ) : ℚ) else ((127 : ℕ) : ℚ) - 256)
          * recip ℚ 127) * (if (0 : ℕ) = 0 then 1 else 0) := by rfl
  refine ⟨rfl, rfl, ?_, ?_, exCall .Mix_ALbyte_point8 16384 (exStatic4 .AL_PLAYING 0)
    { bytes := [127, 0], off := 0 } 0 0 0 2 1, by rfl, ?_, ?_, ?_⟩
  · rw [e0]
    norm_num [recip]
  · rw [eg]
    norm_num
  · rw [e1]
    norm_num [recip]
  · rw [e2]
    norm_num [recip]
  · rw [e1, e2]
    norm_num [recip]

end ClickCorrectionExact

/-! ## C28: the window of a looping static source, with pre-padding -/

/-- The loop that wraps the pre-roll into the loop region returns a position of at least
the pre-padding, congruent to the one it started from, and below `pre + len` if it moved. -/
theorem wrapPre_spec {len pre : Nat} (hlen : 0 < len) (hw : pre + len ≤ 4294967296) :
    ∀ (fuel pos q : Nat), wrapPre len pre fuel pos = .ok q →
      pre ≤ q ∧ q % len = pos % len ∧ (q = pos ∨ q < pre + len) := by
  intro fuel
  induction fuel with
  | zero =>
    intro pos q h
    simp [wrapPre] at h
  | succ fuel ih =>
    intro pos q h
    unfold wrapPre at h
    by_cases hp : pos < pre
    · rw [if_pos hp, u32_small _ (by omega)] at h
      obtain ⟨a1, a2, a3⟩ := ih _ _ h
      refine ⟨a1, by rw [a2, Nat.add_mod_right], Or.inr ?_⟩
      omega
    · rw [if_neg hp] at h
      simp only [Except.ok.injEq] at h
      subst h
      exact ⟨by omega, rfl, Or.inl rfl⟩

/-- The window of a looping static source entered inside its loop with the pre-padding
`pre` is the window without pre-padding of the position `s` that the wrapped pre-roll starts
at: `s` lies in the loop and is `pre` frames before the position, modulo the loop length. -/
theorem assembleStatic_loop_shift {fuel : Nat} {b : ALbuffer} {p pre FS B : Nat} {S : List Nat}
    {L : Bool} (h : assembleStatic fuel b true p pre FS B = .ok (S, L)) (hFS : 0 < FS)
    (hLS : b.LoopStart ≤ p) (hp : p < b.LoopEnd) (hLE : b.LoopEnd * FS ≤ b.size)
    (hsz : b.size < 2147483648) (hpre : pre ≤ 2147483648) :
    ∃ s, b.LoopStart ≤ s ∧ s < b.LoopEnd ∧
      (s - b.LoopStart + pre) % (b.LoopEnd - b.LoopStart)
        = (p - b.LoopStart) % (b.LoopEnd - b.LoopStart) ∧
      assembleStatic fuel b true s 0 FS B = .ok (S, L) := by
  have hLEFS : b.LoopEnd ≤ b.LoopEnd * FS := Nat.le_mul_of_pos_right _ hFS
  have hcond : ¬ ((true = false) ∨ b.LoopEnd ≤ p) := by
    rintro (h1 | h1)
    · exact Bool.noConfusion h1
    · omega
  have hlen : usub b.LoopEnd b.LoopStart = b.LoopEnd - b.LoopStart :=
    usub_of_le (by omega) (by omega)
  unfold assembleStatic at h
  rw [if_neg hcond] at h
  simp only [hLS, not_true_eq_false, false_and, if_false, if_true] at h
  split at h
  · simp at h
  · next pos hpos =>
    split at hpos
    · simp at hpos
    · next q hq =>
      simp only [Except.ok.injEq] at hpos
      rw [hlen] at hq
      obtain ⟨a1, a2, a3⟩ := wrapPre_spec (by omega) (by omega) _ _ _ hq
      have hqlt : q - pre < b.LoopEnd - b.LoopStart := by
        rcases a3 with a3 | a3 <;> omega
      have e1 : usub q pre = q - pre := usub_of_le a1 (by rcases a3 with a3 | a3 <;> omega)
      refine ⟨q - pre + b.LoopStart, by omega, by omega, ?_, ?_⟩
      · rw [Nat.add_sub_cancel, Nat.sub_add_cancel a1, a2]
      · have hfuel : ∃ k, fuel = k + 1 := by
          cases fuel with
          | zero => simp [wrapPre] at hq
          | succ k => exact ⟨k, rfl⟩
        obtain ⟨k, hk⟩ := hfuel
        have hw0 : wrapPre (b.LoopEnd - b.LoopStart) 0 fuel (q - pre + b.LoopStart - b.LoopStart)
            = .ok (q - pre) := by
          rw [hk]
          unfold wrapPre
          rw [if_neg (by omega), Nat.add_sub_cancel]
        have hcond2 : ¬ ((true = false) ∨ b.LoopEnd ≤ q - pre + b.LoopStart) := by
          rintro (h1 | h1)
          · exact Bool.noConfusion h1
          · omega
        unfold assembleStatic
        rw [if_neg hcond2]
        simp only [show b.LoopStart ≤ q - pre + b.LoopStart by omega, not_true_eq_false,
          false_and, if_false, if_true, hlen, hw0]
        rw [usub_of_le (Nat.zero_le _) (by omega), Nat.sub_zero]
        rw [e1] at hpos
        rw [hpos]
        rw [hlen] at h
        exact h

/-- The frame of `FS` bytes at frame index `j` of a list. -/
theorem frame_ext {S D : List Nat} {FS a c : Nat}
    (h : ∀ i, i < FS → S[a + i]? = D[c + i]?) :
    (S.drop a).take FS = (D.drop c).take FS := by
  apply List.ext_getElem?
  intro i
  by_cases hi : i < FS
  · rw [List.getElem?_take_of_lt hi, List.getElem?_take_of_lt hi, List.getElem?_drop,
      List.getElem?_drop]
    exact h i hi
  · rw [List.getElem?_eq_none (by simp; omega), List.getElem?_eq_none (by simp; omega)]

/-- C28.  A static source whose first queue item holds the buffer `b`, looping, at a
position `p` with `LoopStart ≤ p < LoopEnd`, for any resampler (pre-padding `pre`), with
frames of `FS ≥ 1` bytes, the loop end inside the buffer and the buffer below `2^31` bytes.
The assembly of a window of `B` bytes returns, with the source still looping, a window of
`B` bytes in which every whole frame `k ≥ -pre`, counted from the pointer handed to the
mixer (`pre` frames into the window), is the buffer frame
`LoopStart + ((p - LoopStart + k) mod (LoopEnd - LoopStart))`, the modulus being
non-negative; that frame lies in the loop region. -/
theorem C28_static_loop_window {α F : Type} (Source : ALsource α F) (item : Option Nat)
    (b : ALbuffer) (rest : Queue) (r : Resampler) (p pre FS B : Nat)
    (hty : Source.lSourceType = .AL_STATIC) (hq : Source.queue = some b :: rest)
    (hpre : ResamplerPrePadding r = some pre) (hFS : 0 < FS)
    (hsz : b.size < 2147483648) (hLE : b.LoopEnd * FS ≤ b.size)
    (hLS : b.LoopStart ≤ p) (hp : p < b.LoopEnd) :
    ∃ S : List Nat,
      (∀ fuel, B + 3 ≤ fuel → assemble fuel Source true item p pre FS B = .ok (S, true)) ∧
      S.length = B ∧
      ∀ k : Int, -(pre : Int) ≤ k → (k + (pre : Int) + 1) * (FS : Int) ≤ (B : Int) →
        b.LoopStart ≤ ((b.LoopStart : Int) + ((p : Int) - (b.LoopStart : Int) + k)
          % ((b.LoopEnd : Int) - (b.LoopStart : Int))).toNat ∧
        ((b.LoopStart : Int) + ((p : Int) - (b.LoopStart : Int) + k)
          % ((b.LoopEnd : Int) - (b.LoopStart : Int))).toNat < b.LoopEnd ∧
        SrcPtr.read { bytes := S, off := ((u32 (pre * FS) : Nat) : Int) } FS k
          = .ok ((b.data.drop
              (((b.LoopStart : Int) + ((p : Int) - (b.LoopStart : Int) + k)
                % ((b.LoopEnd : Int) - (b.LoopStart : Int))).toNat * FS)).take FS) := by
  have hpre2 : pre ≤ 1 := by
    cases r <;> simp [ResamplerPrePadding] at hpre <;> omega
  have hpFS : p * FS ≤ b.size :=
    le_trans (Nat.mul_le_mul_right FS (Nat.le_of_lt hp)) hLE
  obtain ⟨res, hres⟩ := assembleStatic_returns b true p pre FS B hFS hsz (by omega) hLE hpFS
    (fun _ => by omega)
  obtain ⟨S, L⟩ := res
  have hasm : ∀ fuel, assemble fuel Source true item p pre FS B
      = assembleStatic fuel b true p pre FS B := by
    intro fuel
    unfold assemble
    rw [if_pos hty, hq]
  have h0 := hres (B + 3) (Nat.le_refl _)
  obtain ⟨s, s1, s2, s3, s4⟩ := assembleStatic_loop_shift h0 hFS hLS hp hLE hsz (by omega)
  obtain ⟨hL, hget⟩ := assembleStatic_loop_get s4 hFS (by omega) s2 hLE hsz
  subst hL
  have hlenS : S.length = B := assembleStatic_length h0
  refine ⟨S, fun fuel hfuel => by rw [hasm]; exact hres fuel hfuel, hlenS, ?_⟩
  intro k hk hkB
  have hFSu : FS < 4294967296 := by
    have : 1 * FS ≤ b.LoopEnd * FS := Nat.mul_le_mul_right FS (by omega)
    omega
  have hbase : u32 (pre * FS) = pre * FS := by
    apply u32_small
    rcases Nat.le_one_iff_eq_zero_or_eq_one.1 hpre2 with h1 | h1 <;> subst h1 <;> omega
  obtain ⟨j, hj⟩ : ∃ j : Nat, k + pre = j := ⟨(k + pre).toNat, by omega⟩
  have hk2 : k = (j : Int) - pre := by omega
  subst hk2
  have hjB : (j + 1) * FS ≤ B := by
    have : ((j : Int) - pre + pre + 1) * FS = (((j + 1) * FS : Nat) : Int) := by
      push_cast
      ring
    rw [this] at hkB
    exact_mod_cast hkB
  obtain ⟨len, hlen⟩ : ∃ len, len = b.LoopEnd - b.LoopStart := ⟨_, rfl⟩
  have hlenpos : 0 < len := by omega
  -- the buffer frame
  have hX : (b.LoopStart + ((p : Int) - b.LoopStart + ((j : Int) - pre))
      % ((b.LoopEnd : Int) - b.LoopStart)).toNat = loopIndex b.LoopStart b.LoopEnd (s + j) := by
    have e1 : ((b.LoopEnd : Int) - b.LoopStart) = (len : Int) := by omega
    rw [e1]
    have hmod : ((p : Int) - b.LoopStart + ((j : Int) - pre)) % (len : Int)
        = (((s - b.LoopStart + j) % len : Nat) : Int) := by
      rw [← hlen] at s3
      have c1 : (((s - b.LoopStart + pre) % len : Nat) : Int)
          = (((p - b.LoopStart) % len : Nat) : Int) := by rw [s3]
      rw [Int.natCast_mod, Int.natCast_mod] at c1
      rw [Int.natCast_mod]
      have c2 : ((s - b.LoopStart + j : Nat) : Int)
          = ((s - b.LoopStart + pre : Nat) : Int) + ((j : Int) - pre) := by omega
      have c3 : (p : Int) - b.LoopStart = ((p - b.LoopStart : Nat) : Int) := by omega
      rw [c2, c3, Int.add_emod, ← c1, ← Int.add_emod]
    rw [hmod]
    have hr := Nat.mod_lt (s - b.LoopStart + j) hlenpos
    by_cases hsj : s + j < b.LoopEnd
    · rw [loopIndex_of_lt hsj, Nat.mod_eq_of_lt (by omega)]
      omega
    · rw [loopIndex_of_ge (by omega), ← hlen]
      have c4 : s + j - b.LoopStart = s - b.LoopStart + j := by omega
      rw [c4]
      omega
  have hXr : b.LoopStart ≤ loopIndex b.LoopStart b.LoopEnd (s + j) ∧
      loopIndex b.LoopStart b.LoopEnd (s + j) < b.LoopEnd := by
    by_cases hsj : s + j < b.LoopEnd
    · rw [loopIndex_of_lt hsj]
      omega
    · rw [loopIndex_of_ge (by omega)]
      have hr := Nat.mod_lt (s + j - b.LoopStart) (show 0 < b.LoopEnd - b.LoopStart by omega)
      omega
  rw [hbase]
  push_cast at hX ⊢
  rw [hX]
  refine ⟨hXr.1, hXr.2, ?_⟩
  unfold SrcPtr.read
  have eoff : ((pre : Int) * FS + ((j : Int) - pre) * FS) = ((j * FS : Nat) : Int) := by
    push_cast
    ring
  simp only
  rw [eoff]
  have hjB2 : j * FS + FS ≤ B := by
    rw [Nat.add_mul, Nat.one_mul] at hjB
    exact hjB
  rw [if_pos ⟨by omega, by rw [Int.toNat_ofNat, hlenS]; exact hjB2⟩, Int.toNat_ofNat]
  congr 1
  apply frame_ext
  intro i hi
  rw [hget (j * FS + i) (by omega)]
  have e5 : s * FS + (j * FS + i) = (s + j) * FS + i := by ring
  rw [e5, loopIndex_scale (by omega) _ _ hi]

/-- C28 at a concrete window: the static looping source `exCubicLoop` (loop region the
frames 1 and 2 of `[10, 11, 12, 13]`, cubic resampler, position 1) asked for six bytes.  The
window is `[12, 11, 12, 11, 12, 11]`; the frame `k = -1` before the pointer handed to the
mixer is buffer frame `1 + ((1 - 1 - 1) mod 2) = 2`. -/
theorem C28_static_loop_window_witness :
    assemble 9 exCubicLoop true (some 0) 1 1 1 6 = .ok ([12, 11, 12, 11, 12, 11], true) ∧
    SrcPtr.read { bytes := [12, 11, 12, 11, 12, 11], off := 1 } 1 (-1) = .ok [12] ∧
    ((1 : Int) + ((1 : Int) - 1 + (-1)) % ((3 : Int) - 1)).toNat = 2 :=
  have h := C28_static_loop_window exCubicLoop (some 0) exLoopBuffer [] .CUBIC_RESAMPLER 1 1 1 6
    rfl rfl rfl (by decide) (by decide) (by decide) (by decide) (by decide)
  by
    obtain ⟨S, hS, -, -⟩ := h
    have e := hS 9 (by decide)
    have e2 : assemble 9 exCubicLoop true (some 0) 1 1 1 6
        = .ok ([12, 11, 12, 11, 12, 11], true) := by rfl
    rw [e2] at e
    simp only [Except.ok.injEq, Prod.mk.injEq, and_true] at e
    subst e
    exact ⟨e2, by rfl, by decide⟩

/-! ## C29: the ramp of the HRTF mixer ends at the target -/

section RampBare
variable {α F : Type} [Add α] [Sub α] [Mul α] [Div α] [IntCast α]

/-- The tap loop of the ramped phase steps the coefficients of the taps it runs over, for
both ears, and no others. -/
theorem rampCoeffsLoop_coeffs (mask Offset : Nat) (CS : Nat → Nat → α) (l r : α) :
    ∀ (n c : Nat) (V C : Nat → Nat → α) (k e : Nat),
      (rampCoeffsLoop mask Offset CS l r n c (V, C)).2 k e
        = if c ≤ k ∧ k < c + n ∧ (e = 0 ∨ e = 1) then C k e + CS k e else C k e := by
  intro n
  induction n with
  | zero =>
    intro c V C k e
    simp only [rampCoeffsLoop]
    rw [if_neg (by omega)]
  | succ n ih =>
    intro c V C k e
    simp only [rampCoeffsLoop]
    rw [ih]
    by_cases hk : k = c
    · subst hk
      rw [if_neg (by omega)]
      by_cases h1 : e = 1
      · subst h1
        simp
      · by_cases h0 : e = 0
        · subst h0
          simp
        · simp [h0, h1]
    · have e1 : ¬ (k = c ∧ e = 1) := fun hh => hk hh.1
      have e0 : ¬ (k = c ∧ e = 0) := fun hh => hk hh.1
      simp only [if_neg e1, if_neg e0]
      by_cases hc : c ≤ k ∧ k < c + (n + 1) ∧ (e = 0 ∨ e = 1)
      · rw [if_pos hc, if_pos ⟨by omega, by omega, hc.2.2⟩]
      · rw [if_neg hc, if_neg (fun hh => hc ⟨by omega, by omega, hh.2.2⟩)]

/-- One pass of the ramped loop: the counter goes down by one, every coefficient goes up by
its step, and the delays go up by theirs. -/
theorem hrtfRampStep_ramp {E : Env α F} {smp : SamplerId} {data : SrcPtr} {nc inc i : Nat}
    {h h1 : HrtfCur α F} (e : hrtfRampStep E smp data nc inc i h = .ok h1) :
    h1.Counter = h.Counter - 1 ∧
    (∀ k e, k < E.HRIR_LENGTH → e < 2 →
      h1.Coeffs k e = h.Coeffs k e + h.cur.mem.Source.Params.HrtfCoeffStep k e) ∧
    h1.Delay0 = toU32 ((h.Delay0 : Int) + h.cur.mem.Source.Params.HrtfDelayStep 0) ∧
    h1.Delay1 = toU32 ((h.Delay1 : Int) + h.cur.mem.Source.Params.HrtfDelayStep 1) := by
  unfold hrtfRampStep at e
  split at e
  · simp at e
  · simp only [Except.ok.injEq] at e
    rw [← e]
    refine ⟨rfl, ?_, rfl, rfl⟩
    intro k e hk he
    simp only
    rw [rampCoeffsLoop_coeffs, if_pos ⟨by omega, by omega, by omega⟩]
    rfl

/-- The ramped loop does nothing when the counter is not positive. -/
theorem hrtfRamp_idle {E : Env α F} {smp : SamplerId} {data : SrcPtr} {nc inc i : Nat}
    (n : Nat) (h : HrtfCur α F) (hC : ¬ 0 < h.Counter) :
    hrtfRamp E smp data nc inc i n h = .ok (n, h) := by
  cases n with
  | zero => rfl
  | succ n =>
    simp only [hrtfRamp]
    rw [if_neg hC]

theorem toU32_add_toU32 (a b : Int) : toU32 (((toU32 a : Nat) : Int) + b) = toU32 (a + b) := by
  unfold toU32
  omega

end RampBare

section RampExact

variable {α F : Type} [Field α]

/-- The ramped loop entered with `K` passes to go and allowed at least `K`: it makes `K`
passes, after which every coefficient has gone up by `K` steps and the delays by `K` delay
steps. -/
theorem hrtfRamp_reaches {E : Env α F} {smp : SamplerId} {data : SrcPtr} {nc inc i : Nat} :
    ∀ (n K : Nat) (h h2 : HrtfCur α F) (rest : Nat), h.Counter = (K : Int) → K ≤ n →
      h.Delay0 < 4294967296 → h.Delay1 < 4294967296 →
      hrtfRamp E smp data nc inc i n h = .ok (rest, h2) →
      rest = n - K ∧ h2.Counter = 0 ∧
      (∀ k e, k < E.HRIR_LENGTH → e < 2 →
        h2.Coeffs k e = h.Coeffs k e + h.cur.mem.Source.Params.HrtfCoeffStep k e * (K : α)) ∧
      h2.Delay0
        = toU32 ((h.Delay0 : Int) + h.cur.mem.Source.Params.HrtfDelayStep 0 * (K : Int)) ∧
      h2.Delay1
        = toU32 ((h.Delay1 : Int) + h.cur.mem.Source.Params.HrtfDelayStep 1 * (K : Int)) ∧
      (K = 0 → h2 = h) := by
  intro n
  induction n with
  | zero =>
    intro K h h2 rest hC hK hd0 hd1 e
    simp only [hrtfRamp, Except.ok.injEq, Prod.mk.injEq] at e
    obtain ⟨e1, e2⟩ := e
    subst e1 e2
    have hK0 : K = 0 := by omega
    subst hK0
    refine ⟨rfl, hC, fun k e _ _ => by simp, ?_, ?_, fun _ => rfl⟩
    · simp only [Nat.cast_zero, mul_zero, add_zero]
      unfold toU32
      omega
    · simp only [Nat.cast_zero, mul_zero, add_zero]
      unfold toU32
      omega
  | succ n ih =>
    intro K h h2 rest hC hK hd0 hd1 e
    simp only [hrtfRamp] at e
    by_cases hpos : 0 < h.Counter
    · rw [if_pos hpos] at e
      split at e
      · simp at e
      · next h1 e1 =>
        obtain ⟨K1, hK1⟩ : ∃ K1, K = K1 + 1 := ⟨K - 1, by omega⟩
        subst hK1
        obtain ⟨r1, r2, r3, r4⟩ := hrtfRampStep_ramp e1
        have hfix := hrtfRampStep_fixed e1
        have hCS : h1.cur.mem.Source.Params.HrtfCoeffStep
            = h.cur.mem.Source.Params.HrtfCoeffStep := congrArg Fixed.HrtfCoeffStep hfix
        have hDS : h1.cur.mem.Source.Params.HrtfDelayStep
            = h.cur.mem.Source.Params.HrtfDelayStep := congrArg Fixed.HrtfDelayStep hfix
        have hl0 : h1.Delay0 < 4294967296 := by rw [r3]; unfold toU32; omega
        have hl1 : h1.Delay1 < 4294967296 := by rw [r4]; unfold toU32; omega
        obtain ⟨a1, a2, a3, a4, a5, -⟩ :=
          ih K1 h1 h2 rest (by rw [r1, hC]; omega) (by omega) hl0 hl1 e
        refine ⟨by omega, a2, ?_, ?_, ?_, fun hh => by omega⟩
        · intro k e hk he
          rw [a3 k e hk he, r2 k e hk he, hCS]
          push_cast
          ring
        · rw [a4, r3, hDS, toU32_add_toU32]
          congr 1
          push_cast
          ring
        · rw [a5, r4, hDS, toU32_add_toU32]
          congr 1
          push_cast
          ring
    · rw [if_neg hpos] at e
      simp only [Except.ok.injEq, Prod.mk.injEq] at e
      obtain ⟨e1, e2⟩ := e
      subst e1 e2
      have hK0 : K = 0 := by omega
      subst hK0
      refine ⟨rfl, hC, fun k e _ _ => by simp, ?_, ?_, fun _ => rfl⟩
      · simp only [Nat.cast_zero, mul_zero, add_zero]
        unfold toU32
        omega
      · simp only [Nat.cast_zero, mul_zero, add_zero]
        unfold toU32
        omega

/-- C29, as the code has it.  Take a pass of the channel loop of an HRTF mixer for source
channel `i`, entered with `OutPos` and `HrtfCounter` (both `ALuint`), and write
`K = max(HrtfCounter, OutPos) - OutPos`.  The code keeps `K` in the signed `Counter`, so
assume `K < 2^31`, and `BufferSize ≥ K`.  Once the locals are initialised, the leading
block (if `OutPos = 0`) has run and the ramped loop has returned: it has used `K` of the
`BufferSize` passes, `Counter` is 0, the local coefficients are `HrtfCoeffs[i][k][e]` for
every tap `k < HRIR_LENGTH` and both ears, and the local delays are
`HrtfDelay[i][e] + 32768` modulo `2^32`, so that the steady phase runs with the whole delays
`(HrtfDelay[i][e] + 32768) >> 16`.  With `K = 0` the ramped loop leaves the locals as it
found them and all `BufferSize` passes to the steady loop. -/
theorem C29_back_projection (E : Env α F) (smp : SamplerId) (data : SrcPtr)
    (nc inc f n i : Nat) (c : Cur α F) (h1 h2 : HrtfCur α F) (rest : Nat)
    (hHC : c.mem.Source.HrtfCounter < 4294967296) (ho : c.OutPos < 4294967296)
    (hK : max c.mem.Source.HrtfCounter c.OutPos - c.OutPos < 2147483648)
    (hn : max c.mem.Source.HrtfCounter c.OutPos - c.OutPos ≤ n)
    (hlead : (if (hrtfInit f i c).cur.OutPos = 0 then hrtfLead E smp data nc i (hrtfInit f i c)
      else .ok (hrtfInit f i c)) = .ok h1)
    (hramp : hrtfRamp E smp data nc inc i n h1 = .ok (rest, h2)) :
    rest = n - (max c.mem.Source.HrtfCounter c.OutPos - c.OutPos) ∧
    h2.Counter = 0 ∧
    (∀ k e, k < E.HRIR_LENGTH → e < 2 →
      h2.Coeffs k e = c.mem.Source.Params.HrtfCoeffs i k e) ∧
    h2.Delay0 = u32 (c.mem.Source.Params.HrtfDelay i 0 + 32768) ∧
    h2.Delay1 = u32 (c.mem.Source.Params.HrtfDelay i 1 + 32768) ∧
    h2.Delay0 >>> 16 = u32 (c.mem.Source.Params.HrtfDelay i 0 + 32768) >>> 16 ∧
    h2.Delay1 >>> 16 = u32 (c.mem.Source.Params.HrtfDelay i 1 + 32768) >>> 16 ∧
    (max c.mem.Source.HrtfCounter c.OutPos - c.OutPos = 0 → rest = n ∧ h2 = h1) := by
  obtain ⟨K, hKdef⟩ : ∃ K, K = max c.mem.Source.HrtfCounter c.OutPos - c.OutPos := ⟨_, rfl⟩
  rw [← hKdef] at hK hn ⊢
  have hmax : c.OutPos ≤ max c.mem.Source.HrtfCounter c.OutPos := le_max_right _ _
  have hmax2 : max c.mem.Source.HrtfCounter c.OutPos < 4294967296 := max_lt hHC ho
  have hus : usub (max c.mem.Source.HrtfCounter c.OutPos) c.OutPos = K := by
    rw [usub_of_le hmax hmax2, hKdef]
  have hcnt : (hrtfInit f i c).Counter = (K : Int) := by
    simp only [hrtfInit]
    rw [hus]
    unfold toI32
    rw [if_pos (by omega)]
    omega
  -- the leading block keeps the locals of the ramp
  have hkeep : h1.Counter = (hrtfInit f i c).Counter ∧ h1.Coeffs = (hrtfInit f i c).Coeffs ∧
      h1.Delay0 = (hrtfInit f i c).Delay0 ∧ h1.Delay1 = (hrtfInit f i c).Delay1 ∧
      h1.cur.mem.fixed = c.mem.fixed := by
    split at hlead
    · have hfix := hrtfLead_fixed hlead
      unfold hrtfLead at hlead
      split at hlead
      · simp at hlead
      · simp only [Except.ok.injEq] at hlead
        rw [← hlead]
        exact ⟨rfl, rfl, rfl, rfl, rfl⟩
    · simp only [Except.ok.injEq] at hlead
      rw [← hlead]
      exact ⟨rfl, rfl, rfl, rfl, rfl⟩
  obtain ⟨k1, k2, k3, k4, k5⟩ := hkeep
  have hCS : h1.cur.mem.Source.Params.HrtfCoeffStep = c.mem.Source.Params.HrtfCoeffStep :=
    congrArg Fixed.HrtfCoeffStep k5
  have hDS : h1.cur.mem.Source.Params.HrtfDelayStep = c.mem.Source.Params.HrtfDelayStep :=
    congrArg Fixed.HrtfDelayStep k5
  have hti : toI32 K = (K : Int) := by
    unfold toI32
    rw [if_pos (by omega)]
    omega
  have hi0 : (hrtfInit f i c).Delay0 < 4294967296 := by
    simp only [hrtfInit]; unfold toU32; omega
  have hi1 : (hrtfInit f i c).Delay1 < 4294967296 := by
    simp only [hrtfInit]; unfold toU32; omega
  obtain ⟨a1, a2, a3, a4, a5, a6⟩ :=
    hrtfRamp_reaches n K h1 h2 rest (by rw [k1, hcnt]) hn (by rw [k3]; exact hi0)
      (by rw [k4]; exact hi1) hramp
  have hD0 : h2.Delay0 = u32 (c.mem.Source.Params.HrtfDelay i 0 + 32768) := by
    rw [a4, k3, hDS]
    simp only [hrtfInit]
    rw [hus, hti, toU32_add_toU32]
    generalize c.mem.Source.Params.HrtfDelayStep 0 * (K : Int) = x
    unfold toU32 u32
    omega
  have hD1 : h2.Delay1 = u32 (c.mem.Source.Params.HrtfDelay i 1 + 32768) := by
    rw [a5, k4, hDS]
    simp only [hrtfInit]
    rw [hus, hti, toU32_add_toU32]
    generalize c.mem.Source.Params.HrtfDelayStep 1 * (K : Int) = x
    unfold toU32 u32
    omega
  refine ⟨a1, a2, ?_, hD0, hD1, by rw [hD0], by rw [hD1], fun hK0 => ⟨by omega, a6 hK0⟩⟩
  intro k e hk he
  rw [a3 k e hk he, k2, hCS]
  simp only [hrtfInit]
  rw [hus, hti, Int.cast_natCast]
  ring

theorem okOr_of_ok {β : Type} (d : β) (x : Except Fault β) (h : ∃ r, x = .ok r) :
    x = .ok (okOr d x) := by
  obtain ⟨r, hr⟩ := h
  rw [hr]
  rfl

theorem exRampResult_ok :
    hrtfRamp (exEnv 16384) .point8 { bytes := [10, 20, 30], off := 0 } 1 16384 0 1
      (hrtfInit 0 0 (exRampCur 2)) = .ok exRampResult :=
  okOr_of_ok _ _ ⟨_, rfl⟩

/-- C29 at a concrete ramp: `exRampMem 2` entered at `OutPos = 1` has `K = 1` pass of the
ramp to go, and one pass is allowed.  The ramp uses it, the counter ends at 0, the
coefficient of tap 0 ends at its target 1 and the left delay at `0 + 32768`. -/
theorem C29_back_projection_witness :
    exRampResult.1 = 1 - (max 2 1 - 1) ∧ exRampResult.2.Counter = 0 ∧
    exRampResult.2.Coeffs 0 0 = 1 ∧ exRampResult.2.Delay0 = 32768 :=
  have h := C29_back_projection (exEnv 16384) .point8 { bytes := [10, 20, 30], off := 0 }
    1 16384 0 1 0 (exRampCur 2) (hrtfInit 0 0 (exRampCur 2)) exRampResult.2 exRampResult.1
    (by decide) (by decide) (by decide) (by decide) (by rfl)
    exRampResult_ok
  ⟨h.1, h.2.1, h.2.2.1 0 0 (by decide) (by decide), h.2.2.2.1⟩

/-- C29 fails when the ramp length does not fit the signed `Counter`.  `exRampMem` with
`HrtfCounter = 2^31 + 1`, entered at `OutPos = 1` (so that the leading block is skipped), has
`max(HrtfCounter, OutPos) - OutPos = 2^31`, and `BufferSize = 2^31` is not less.  The code
holds the ramp length in an `ALint`, where it is `-2^31`: the local coefficient of tap 0 is
set to `1 - 1 * (-2^31) = 2^31 + 1`, the ramped loop makes no pass, and the steady phase
starts with that coefficient, not with the target `HrtfCoeffs[0][0][0] = 1`. -/
theorem C29_counterexample :
    max (exRampCur 2147483649).mem.Source.HrtfCounter (exRampCur 2147483649).OutPos
      - (exRampCur 2147483649).OutPos = 2147483648 ∧
    (if (hrtfInit 0 0 (exRampCur 2147483649)).cur.OutPos = 0
      then hrtfLead (exEnv 16384) .point8 { bytes := [], off := 0 } 1 0
        (hrtfInit 0 0 (exRampCur 2147483649))
      else .ok (hrtfInit 0 0 (exRampCur 2147483649)))
      = .ok (hrtfInit 0 0 (exRampCur 2147483649)) ∧
    hrtfRamp (exEnv 16384) .point8 { bytes := [], off := 0 } 1 16384 0 2147483648
      (hrtfInit 0 0 (exRampCur 2147483649))
      = .ok (2147483648, hrtfInit 0 0 (exRampCur 2147483649)) ∧
    (hrtfInit 0 0 (exRampCur 2147483649)).Coeffs 0 0 = 2147483649 ∧
    (exRampCur 2147483649).mem.Source.Params.HrtfCoeffs 0 0 0 = 1 ∧
    (hrtfInit 0 0 (exRampCur 2147483649)).Coeffs 0 0
      ≠ (exRampCur 2147483649).mem.Source.Params.HrtfCoeffs 0 0 0 := by
  have ht : toI32 (usub (max 2147483649 1) 1) = -2147483648 := by decide
  have hc : (hrtfInit 0 0 (exRampCur 2147483649)).Counter = -2147483648 := ht
  have hv : (hrtfInit 0 0 (exRampCur 2147483649)).Coeffs 0 0
      = (if (0 : ℕ) = 0 then (1 : ℚ) else 0)
        - 1 * ((toI32 (usub (max 2147483649 1) 1) : Int) : ℚ) := rfl
  have hv2 : (hrtfInit 0 0 (exRampCur 2147483649)).Coeffs 0 0 = 2147483649 := by
    rw [hv, ht]
    norm_num
  have hT : (exRampCur 2147483649).mem.Source.Params.HrtfCoeffs 0 0 0 = 1 := rfl
  refine ⟨by decide, rfl, hrtfRamp_idle _ _ (by rw [hc]; decide), hv2, hT, ?_⟩
  rw [hv2, hT]
  norm_num

end RampExact

/-! ## C22: the leading correction undoes the trailing correction -/

/-- A counted loop whose pass `j` takes an invariant of `j` to the invariant of `j + 1`. -/
theorem forLoop_count {σ : Type} (body : Nat → σ → Except Fault σ) (P : Nat → σ → Prop) :
    ∀ (n i : Nat) (s s1 : σ),
      (∀ j t t1, i ≤ j → j < i + n → P j t → body j t = .ok t1 → P (j + 1) t1) →
      P i s → forLoop body n i s = .ok s1 → P (i + n) s1 := by
  intro n
  induction n with
  | zero =>
    intro i s s1 _ hs hr
    simp [forLoop] at hr
    exact hr ▸ hs
  | succ n ih =>
    intro i s s1 h hs hr
    simp only [forLoop] at hr
    split at hr
    · next s2 h2 =>
      have := ih (i + 1) s2 s1 (fun j t t1 h1 h3 => h j t t1 (by omega) (by omega))
        (h i s s2 (Nat.le_refl _) (by omega) hs h2) hr
      rw [show i + (n + 1) = i + 1 + n by omega]
      exact this
    · simp at hr

section ClickBlocks

variable {α F : Type} [Field α]

/-- One pass of the channel loop of a plain mixer: what it does to the two click
accumulators.  `ClickRemoval` loses the leading amount when the pass is entered with
`OutPos = 0`, and `PendingClicks` gains the trailing amount when the pass ends at
`SamplesToDo`; otherwise they are left alone. -/
theorem mixDryChannel_clicks {E : Env α F} {smp : SamplerId} {data : SrcPtr}
    {nc inc f0 std n i : Nat} {c c1 : Cur α F} (ho : c.OutPos < 4294967296)
    (h : mixDryChannel E smp data nc inc f0 std n i c = .ok c1) :
    (∀ ch, c1.mem.Device.ClickRemoval ch =
      if c.OutPos = 0 then
        c.mem.Device.ClickRemoval ch
          - clickTerm E smp data nc 0 f0 c.mem.Source.Params.DryGains
              c.mem.Source.Params.iirFilter ch i
      else c.mem.Device.ClickRemoval ch) ∧
    (∀ ch, c1.mem.Device.PendingClicks ch =
      if u32 (c.OutPos + n) = std then
        c.mem.Device.PendingClicks ch
          + clickTerm E smp data nc ((phaseStep inc)^[n] (0, f0)).1
              ((phaseStep inc)^[n] (0, f0)).2 c.mem.Source.Params.DryGains
              c1.mem.Source.Params.iirFilter ch i
      else c.mem.Device.PendingClicks ch) := by
  have hph := mixDryChannel_ph h
  have hfix := mixDryChannel_fixed h
  unfold mixDryChannel at h
  simp only at h
  split at h
  · simp at h
  · next c2 h2 =>
    split at h
    · simp at h
    · next c3 h3 =>
      split at h
      · simp at h
      · next c4 h4 =>
        simp only [Except.ok.injEq] at h
        -- the leading block
        have e2 : (∀ ch, c2.mem.Device.ClickRemoval ch =
              if c.OutPos = 0 then
                c.mem.Device.ClickRemoval ch
                  - clickTerm E smp data nc 0 f0 c.mem.Source.Params.DryGains
                      c.mem.Source.Params.iirFilter ch i
              else c.mem.Device.ClickRemoval ch) ∧
            c2.mem.Device.PendingClicks = c.mem.Device.PendingClicks ∧
            c2.OutPos = c.OutPos ∧
            c2.mem.Source.Params.DryGains = c.mem.Source.Params.DryGains := by
          split at h2
          · next h0 =>
            have h0c : c.OutPos = 0 := h0
            unfold mixDryLead at h2
            split at h2
            · simp at h2
            · next x hx =>
              simp only [Except.ok.injEq] at h2
              rw [← h2]
              refine ⟨fun ch => ?_, rfl, rfl, rfl⟩
              rw [if_pos h0c]
              simp only [clickTerm]
              have hx2 : sample E smp data nc 0 f0 i = .ok x := hx
              rw [hx2]
              by_cases hch : ch < E.MAXCHANNELS
              · rw [if_pos hch, if_pos hch]
                rfl
              · rw [if_neg hch, if_neg hch, sub_zero]
          · next h0 =>
            have h0c : ¬ c.OutPos = 0 := h0
            simp only [Except.ok.injEq] at h2
            rw [← h2]
            refine ⟨fun ch => ?_, rfl, rfl, rfl⟩
            rw [if_neg h0c]
        -- the sample loop
        have e3 := forLoop_inv _ (fun s : Cur α F =>
            s.mem.Device.ClickRemoval = c2.mem.Device.ClickRemoval ∧
            s.mem.Device.PendingClicks = c2.mem.Device.PendingClicks ∧
            s.mem.Source.Params.DryGains = c2.mem.Source.Params.DryGains)
          (fun j s s1 hs hb => by
            unfold mixDryStep at hb
            split at hb
            · simp at hb
            · simp only [Except.ok.injEq] at hb
              rw [← hb]
              exact hs) n 0 c2 c3 ⟨rfl, rfl, rfl⟩ h3
        have e3o : c3.OutPos = u32 (c2.OutPos + n) :=
          forLoop_outpos _ Cur.OutPos (fun s s1 hb => mixDryStep_outpos hb) n 0 c2 c3
            (by rw [e2.2.2.1]; exact ho) h3
        -- the trailing block
        have e4 : c4.mem.Device.ClickRemoval = c3.mem.Device.ClickRemoval ∧
            c4.ph = c3.ph ∧
            (∀ ch, c4.mem.Device.PendingClicks ch =
              if u32 (c.OutPos + n) = std then
                c3.mem.Device.PendingClicks ch
                  + clickTerm E smp data nc c3.pos c3.frac c.mem.Source.Params.DryGains
                      c4.mem.Source.Params.iirFilter ch i
              else c3.mem.Device.PendingClicks ch) := by
          rw [e3o, e2.2.2.1] at h4
          split at h4
          · next h0 =>
            unfold mixDryTrail at h4
            split at h4
            · simp at h4
            · next x hx =>
              simp only [Except.ok.injEq] at h4
              rw [← h4]
              refine ⟨rfl, rfl, fun ch => ?_⟩
              rw [if_pos h0]
              simp only [clickTerm]
              rw [hx]
              by_cases hch : ch < E.MAXCHANNELS
              · rw [if_pos hch, if_pos hch]
                rfl
              · rw [if_neg hch, if_neg hch, add_zero]
          · next h0 =>
            simp only [Except.ok.injEq] at h4
            rw [← h4]
            refine ⟨rfl, rfl, fun ch => ?_⟩
            rw [if_neg h0]
        have hc1 : c1.mem = c4.mem := by rw [← h]
        have hph4 : c4.ph = (phaseStep inc)^[n] (0, f0) := by
          rw [← hph, ← h]
          rfl
        have hpos : c3.pos = ((phaseStep inc)^[n] (0, f0)).1 := by
          rw [← hph4, e4.2.1]; rfl
        have hfr : c3.frac = ((phaseStep inc)^[n] (0, f0)).2 := by
          rw [← hph4, e4.2.1]; rfl
        constructor
        · intro ch
          rw [hc1, e4.1, e3.1]
          exact e2.1 ch
        · intro ch
          rw [hc1, e4.2.2 ch, e3.2.1, e2.2.1, hpos, hfr]

/-- One pass of the channel loop of a plain mixer for source channel `i` leaves the view of
every other channel on the dry filter alone, when a filter step on one channel does. -/
theorem mixDryChannel_view {H : Type} {E : Env α F} {smp : SamplerId} {data : SrcPtr}
    {nc inc f0 std n i : Nat} {c c1 : Cur α F} (view : F → Nat → H)
    (hP : ∀ (Flt : F) (k j : Nat) (x : α), k ≠ j →
      view (E.lpFilter2P Flt j x).1 k = view Flt k)
    (h : mixDryChannel E smp data nc inc f0 std n i c = .ok c1) (k : Nat) (hk : k ≠ i) :
    view c1.mem.Source.Params.iirFilter k = view c.mem.Source.Params.iirFilter k := by
  refine mixDryChannel_keeps
    (fun mem : Mem α F => view mem.Source.Params.iirFilter k
      = view c.mem.Source.Params.iirFilter k) ?_ h rfl
  intro G s s1 hb hs
  rcases hb with hb | hb | hb
  · rw [(mixDryLead_dry hb).2.1]
    exact hs
  · unfold mixDryStep at hb
    split at hb
    · simp at hb
    · simp only [Except.ok.injEq] at hb
      rw [← hb]
      simp only [Cur.advance, Mem.setDryFilter]
      rw [hP _ _ _ _ hk]
      exact hs
  · rw [(mixDryTrail_dry hb).2.1]
    exact hs

theorem clickTerm_congr {H : Type} (E : Env α F) (smp : SamplerId) (data : SrcPtr)
    (nc p f : Nat) (G : Nat → Nat → α) (view : F → Nat → H)
    (hC : ∀ (F1 F2 : F) (i : Nat) (x : α), view F1 i = view F2 i →
      E.lpFilter2PC F1 i x = E.lpFilter2PC F2 i x)
    (F1 F2 : F) (ch i : Nat) (hv : view F1 i = view F2 i) :
    clickTerm E smp data nc p f G F1 ch i = clickTerm E smp data nc p f G F2 ch i := by
  unfold clickTerm
  rw [hC F1 F2 i _ hv]

/-- The dry path of a plain mixer call that ends a block: `PendingClicks` gains, for every
source channel, the trailing amount of the filter state the call leaves. -/
theorem dryChannels_trail {H : Type} {E : Env α F} {smp : SamplerId} {data : SrcPtr}
    {nc inc f0 std n o : Nat} {c0 c1 : Cur α F} (view : F → Nat → H)
    (hC : ∀ (F1 F2 : F) (i : Nat) (x : α), view F1 i = view F2 i →
      E.lpFilter2PC F1 i x = E.lpFilter2PC F2 i x)
    (hP : ∀ (Flt : F) (k j : Nat) (x : α), k ≠ j →
      view (E.lpFilter2P Flt j x).1 k = view Flt k)
    (ho : o < 4294967296) (hc0 : c0.OutPos = o) (hend : u32 (o + n) = std)
    (h : forLoop (mixDryChannel E smp data nc inc f0 std n) nc 0 c0 = .ok c1) :
    ∀ ch, c1.mem.Device.PendingClicks ch = c0.mem.Device.PendingClicks ch
      + ∑ i in Finset.range nc,
          clickTerm E smp data nc ((phaseStep inc)^[n] (0, f0)).1
            ((phaseStep inc)^[n] (0, f0)).2 c0.mem.Source.Params.DryGains
            c1.mem.Source.Params.iirFilter ch i := by
  have key := forLoop_count _ (fun (k : Nat) (s : Cur α F) =>
      s.OutPos = o ∧ s.mem.fixed = c0.mem.fixed ∧
      ∀ ch, s.mem.Device.PendingClicks ch = c0.mem.Device.PendingClicks ch
        + ∑ i in Finset.range k,
            clickTerm E smp data nc ((phaseStep inc)^[n] (0, f0)).1
              ((phaseStep inc)^[n] (0, f0)).2 c0.mem.Source.Params.DryGains
              s.mem.Source.Params.iirFilter ch i)
    nc 0 c0 c1 ?_ ⟨hc0, rfl, fun ch => by simp⟩ h
  · rw [Nat.zero_add] at key
    exact key.2.2
  · intro j t t1 _ _ ht hb
    obtain ⟨t1o, t1f, t1p⟩ := ht
    have hG : t.mem.Source.Params.DryGains = c0.mem.Source.Params.DryGains :=
      congrArg Fixed.DryGains t1f
    refine ⟨(mixDryChannel_outpos hb (by rw [t1o]; exact ho)).trans t1o,
      (mixDryChannel_fixed hb).trans t1f, fun ch => ?_⟩
    have hcl := (mixDryChannel_clicks (by rw [t1o]; exact ho) hb).2 ch
    rw [t1o, if_pos hend, hG, t1p ch] at hcl
    rw [hcl, Finset.sum_range_succ, add_assoc]
    congr 2
    apply Finset.sum_congr rfl
    intro i hi
    have hi2 : i ≠ j := by
      have := Finset.mem_range.1 hi
      omega
    exact clickTerm_congr E smp data nc _ _ _ view hC _ _ ch i
      (mixDryChannel_view view hP hb i hi2).symm

/-- The dry path of a plain mixer call that starts a block: `ClickRemoval` loses, for every
source channel, the leading amount of the filter state the call finds. -/
theorem dryChannels_lead {H : Type} {E : Env α F} {smp : SamplerId} {data : SrcPtr}
    {nc inc f0 std n : Nat} {c0 c1 : Cur α F} (view : F → Nat → H)
    (hC : ∀ (F1 F2 : F) (i : Nat) (x : α), view F1 i = view F2 i →
      E.lpFilter2PC F1 i x = E.lpFilter2PC F2 i x)
    (hP : ∀ (Flt : F) (k j : Nat) (x : α), k ≠ j →
      view (E.lpFilter2P Flt j x).1 k = view Flt k)
    (hc0 : c0.OutPos = 0)
    (h : forLoop (mixDryChannel E smp data nc inc f0 std n) nc 0 c0 = .ok c1) :
    ∀ ch, c1.mem.Device.ClickRemoval ch = c0.mem.Device.ClickRemoval ch
      - ∑ i in Finset.range nc,
          clickTerm E smp data nc 0 f0 c0.mem.Source.Params.DryGains
            c0.mem.Source.Params.iirFilter ch i := by
  have key := forLoop_count _ (fun (k : Nat) (s : Cur α F) =>
      s.OutPos = 0 ∧ s.mem.fixed = c0.mem.fixed ∧
      (∀ j, k ≤ j → view s.mem.Source.Params.iirFilter j
        = view c0.mem.Source.Params.iirFilter j) ∧
      ∀ ch, s.mem.Device.ClickRemoval ch = c0.mem.Device.ClickRemoval ch
        - ∑ i in Finset.range k,
            clickTerm E smp data nc 0 f0 c0.mem.Source.Params.DryGains
              c0.mem.Source.Params.iirFilter ch i)
    nc 0 c0 c1 ?_ ⟨hc0, rfl, fun _ _ => rfl, fun ch => by simp⟩ h
  · rw [Nat.zero_add] at key
    exact key.2.2.2
  · intro j t t1 _ _ ht hb
    obtain ⟨t1o, t1f, t1v, t1p⟩ := ht
    have hG : t.mem.Source.Params.DryGains = c0.mem.Source.Params.DryGains :=
      congrArg Fixed.DryGains t1f
    refine ⟨(mixDryChannel_outpos hb (by rw [t1o]; decide)).trans t1o,
      (mixDryChannel_fixed hb).trans t1f, fun k hk => ?_, fun ch => ?_⟩
    · rw [mixDryChannel_view view hP hb k (by omega)]
      exact t1v k (by omega)
    · have hcl := (mixDryChannel_clicks (by rw [t1o]; decide) hb).1 ch
      rw [if_pos t1o, hG, t1p ch] at hcl
      rw [hcl, Finset.sum_range_succ, sub_sub]
      congr 2
      exact clickTerm_congr E smp data nc _ _ _ view hC _ _ ch j (t1v j (Nat.le_refl _))

/-- The dry path of a plain mixer call changes `ClickRemoval` only when entered with
`OutPos = 0` and `PendingClicks` only when it ends at `SamplesToDo`. -/
theorem dryChannels_only {E : Env α F} {smp : SamplerId} {data : SrcPtr}
    {nc inc f0 std n o : Nat} {c0 c1 : Cur α F} (ho : o < 4294967296) (hc0 : c0.OutPos = o)
    (h : forLoop (mixDryChannel E smp data nc inc f0 std n) nc 0 c0 = .ok c1) :
    (o ≠ 0 → c1.mem.Device.ClickRemoval = c0.mem.Device.ClickRemoval) ∧
    (u32 (o + n) ≠ std → c1.mem.Device.PendingClicks = c0.mem.Device.PendingClicks) := by
  have key := forLoop_inv _ (fun (s : Cur α F) =>
      s.OutPos = o ∧
      (o ≠ 0 → s.mem.Device.ClickRemoval = c0.mem.Device.ClickRemoval) ∧
      (u32 (o + n) ≠ std → s.mem.Device.PendingClicks = c0.mem.Device.PendingClicks))
    ?_ nc 0 c0 c1 ⟨hc0, fun _ => rfl, fun _ => rfl⟩ h
  · exact key.2
  · intro j t t1 ht hb
    obtain ⟨t1o, t1c, t1p⟩ := ht
    obtain ⟨k1, k2⟩ := mixDryChannel_clicks (by rw [t1o]; exact ho) hb
    refine ⟨(mixDryChannel_outpos hb (by rw [t1o]; exact ho)).trans t1o, fun h0 => ?_,
      fun h0 => ?_⟩
    · funext ch
      rw [k1 ch, t1o, if_neg h0, t1c h0]
    · funext ch
      rw [k2 ch, t1o, if_neg h0, t1p h0]

/-- A plain mixer call is its dry channel loop followed by the sends, which leave the device
and the dry filter alone. -/
theorem Mix_dry_split {E : Env α F} {smp : SamplerId} {m : Mem α F} {data : SrcPtr}
    {p f o std n : Nat} {res : MixResult α F}
    (e : Mix E smp m data p f o std n = .ok res) :
    ∃ c1, forLoop (mixDryChannel E smp data m.Source.NumChannels m.Source.Params.Step f std n)
        m.Source.NumChannels 0 { mem := m, pos := 0, frac := f, OutPos := o } = .ok c1 ∧
      res.mem.Device = c1.mem.Device ∧
      res.mem.Source.Params.iirFilter = c1.mem.Source.Params.iirFilter := by
  unfold Mix at e
  simp only at e
  split at e
  · simp at e
  · next c1 e1 =>
    split at e
    · simp at e
    · next c2 e2 =>
      simp only [Except.ok.injEq] at e
      have k := forLoop_inv _ (fun s : Cur α F => s.mem.Device = c1.mem.Device ∧
          s.mem.Source.Params.iirFilter = c1.mem.Source.Params.iirFilter)
        (fun j s s1 hs hb => ⟨(mixSend_dry hb).1.trans hs.1, (mixSend_dry hb).2.trans hs.2⟩)
        _ _ _ _ ⟨rfl, rfl⟩ e2
      refine ⟨c1, e1, ?_, ?_⟩
      · rw [← e]; exact k.1
      · rw [← e]; exact k.2

/-- The sample at the start of a window advanced by `p` frames is the sample at position `p`
of the window. -/
theorem sample_shift (E : Env α F) (smp : SamplerId) (data : SrcPtr) (nc p f i : Nat) :
    sample E smp { bytes := data.bytes
                   off := data.off + ((u32 (p * nc) : Nat) : Int) * ((smp.sizeofT : Nat) : Int) }
      nc 0 f i = sample E smp data nc p f i := by
  unfold sample
  congr 1
  funext k
  unfold elemAt SrcPtr.read
  have e0 : u32 (0 * nc) = 0 := by rw [Nat.zero_mul]; rfl
  rw [e0]
  have he : data.off + ((u32 (p * nc) : Nat) : Int) * ((smp.sizeofT : Nat) : Int)
      + ((((0 : Nat) : Int)) + ((i : Nat) : Int) + k) * ((smp.sizeofT : Nat) : Int)
      = data.off + (((u32 (p * nc) : Nat) : Int) + ((i : Nat) : Int) + k)
        * ((smp.sizeofT : Nat) : Int) := by
    push_cast
    ring
  simp only
  rw [he]

/-- C22.  Let a filter step on one source channel leave the other channels' part of the
dry filter state (their `view`) alone, and let the step-correction value of a channel depend
only on that channel's part.  Let `A` be a call of a plain (non-HRTF) mixer that returns and
ends a block (`OutPos + BufferSize = SamplesToDo` as `ALuint`), and `B` a call of the same
mixer that returns, entered with `OutPos = 0` on the window of `A` advanced to the position
`A` reached, with the fraction `A` left, the channel count and the gains of `A`, and the dry
filter state `A` left.  Then for every output channel `ch`, what `B` takes from
`ClickRemoval[ch]` is what `A` added to `PendingClicks[ch]`.  Moreover any returning call
of a plain mixer leaves `ClickRemoval` as it was unless entered with `OutPos = 0`, and
`PendingClicks` as it was unless `OutPos + BufferSize = SamplesToDo`. -/
theorem C22_lead_undoes_trail {H : Type} (E : Env α F) (g : MixerFunc) (view : F → Nat → H)
    (mA mB : Mem α F) (dataA : SrcPtr) (pA fA oA std n pB stdB nB : Nat)
    (resA resB : MixResult α F) (hg : g.isHrtf = false)
    (hC : ∀ (F1 F2 : F) (i : Nat) (x : α), view F1 i = view F2 i →
      E.lpFilter2PC F1 i x = E.lpFilter2PC F2 i x)
    (hP : ∀ (Flt : F) (k j : Nat) (x : α), k ≠ j →
      view (E.lpFilter2P Flt j x).1 k = view Flt k)
    (hoA : oA < 4294967296) (hend : u32 (oA + n) = std)
    (hA : g.call E mA dataA pA fA oA std n = .ok resA)
    (hnc : mB.Source.NumChannels = mA.Source.NumChannels)
    (hG : mB.Source.Params.DryGains = mA.Source.Params.DryGains)
    (hF : mB.Source.Params.iirFilter = resA.mem.Source.Params.iirFilter)
    (hB : g.call E mB
      { bytes := dataA.bytes
        off := dataA.off
          + ((u32 (((phaseStep mA.Source.Params.Step)^[n] (0, fA)).1 * mA.Source.NumChannels)
              : Nat) : Int) * ((g.sampler.sizeofT : Nat) : Int) }
      pB resA.DataPosFrac 0 stdB nB = .ok resB) :
    (∀ ch, mB.Device.ClickRemoval ch - resB.mem.Device.ClickRemoval ch
      = resA.mem.Device.PendingClicks ch - mA.Device.PendingClicks ch) ∧
    (∀ (m : Mem α F) (data : SrcPtr) (p f o sd k : Nat) (res : MixResult α F),
      o < 4294967296 → g.call E m data p f o sd k = .ok res →
      (o ≠ 0 → res.mem.Device.ClickRemoval = m.Device.ClickRemoval) ∧
      (u32 (o + k) ≠ sd → res.mem.Device.PendingClicks = m.Device.PendingClicks)) := by
  have hcall : ∀ (m : Mem α F) (data : SrcPtr) (p f o sd k : Nat) (res : MixResult α F),
      g.call E m data p f o sd k = .ok res → Mix E g.sampler m data p f o sd k = .ok res := by
    intro m data p f o sd k res e
    unfold MixerFunc.call at e
    rw [hg] at e
    simpa using e
  constructor
  · intro ch
    have eA := hcall _ _ _ _ _ _ _ _ hA
    have eB := hcall _ _ _ _ _ _ _ _ hB
    obtain ⟨cA, lA, dA, fA1⟩ := Mix_dry_split eA
    obtain ⟨cB, lB, dB, -⟩ := Mix_dry_split eB
    have tA := dryChannels_trail view hC hP hoA rfl hend lA ch
    have tB := dryChannels_lead view hC hP rfl lB ch
    simp only at tA tB
    rw [dB, tB, dA, tA, hnc, hG, hF, ← fA1]
    have hsum : ∑ i in Finset.range mA.Source.NumChannels,
          clickTerm E g.sampler
            { bytes := dataA.bytes
              off := dataA.off
                + ((u32 (((phaseStep mA.Source.Params.Step)^[n] (0, fA)).1
                    * mA.Source.NumChannels) : Nat) : Int) * ((g.sampler.sizeofT : Nat) : Int) }
            mA.Source.NumChannels 0 resA.DataPosFrac mA.Source.Params.DryGains
            resA.mem.Source.Params.iirFilter ch i
        = ∑ i in Finset.range mA.Source.NumChannels,
          clickTerm E g.sampler dataA mA.Source.NumChannels
            ((phaseStep mA.Source.Params.Step)^[n] (0, fA)).1
            ((phaseStep mA.Source.Params.Step)^[n] (0, fA)).2 mA.Source.Params.DryGains
            resA.mem.Source.Params.iirFilter ch i := by
      apply Finset.sum_congr rfl
      intro i hi
      have hpos : 0 < mA.Source.NumChannels := by
        have := Finset.mem_range.1 hi
        omega
      have hfr : resA.DataPosFrac = ((phaseStep mA.Source.Params.Step)^[n] (0, fA)).2 := by
        rcases Mix_phase eA with ⟨h0, -, -⟩ | ⟨-, -, h2⟩
        · omega
        · exact h2
      unfold clickTerm
      rw [hfr, sample_shift]
    rw [hsum]
    ring
  · intro m data p f o sd k res ho e
    obtain ⟨c1, l1, d1, -⟩ := Mix_dry_split (hcall _ _ _ _ _ _ _ _ e)
    have := dryChannels_only ho rfl l1
    rw [d1]
    exact this

/-- C22 at two concrete calls with pass-through filters: `exBlockA` plays the frames 10 and
20 of the window `[10, 20, 30]` and ends its block, adding the sample `30/127` of the frame
it stops at to `PendingClicks[0]`; `exBlockB` starts the next block at that frame and takes
the same `30/127` from `ClickRemoval[0]`. -/
theorem C22_lead_undoes_trail_witness :
    (exStatic4 .AL_PLAYING 0).Device.ClickRemoval 0 - exBlockB.mem.Device.ClickRemoval 0
      = exBlockA.mem.Device.PendingClicks 0 - (exStatic4 .AL_PLAYING 0).Device.PendingClicks 0 ∧
    exBlockA.mem.Device.PendingClicks 0 = 30 / 127 :=
  have h := C22_lead_undoes_trail (exEnv 16384) .Mix_ALbyte_point8 (fun _ _ => ())
    (exStatic4 .AL_PLAYING 0) (exStatic4 .AL_PLAYING 0) { bytes := [10, 20, 30], off := 0 }
    0 0 0 2 2 2 2 1 exBlockA exBlockB rfl (fun _ _ _ _ _ => rfl) (fun _ _ _ _ _ => rfl)
    (by decide) (by decide) (by rfl) rfl rfl rfl (by rfl)
  ⟨h.1 0, by
    have e : exBlockA.mem.Device.PendingClicks 0
        = (0 : ℚ) + ((if (30 : ℕ) < 128 then ((30 : ℕ) : ℚ) else ((30 : ℕ) : ℚ) - 256)
            * recip ℚ 127) * (if (0 : ℕ) = 0 then 1 else 0) := by rfl
    rw [e]
    norm_num [recip]⟩

end ClickBlocks

/-! ## C30: the steady phase of the HRTF mixer is a convolution -/

/-- Two numbers less than a modulus apart that agree modulo it are equal. -/
theorem mod_window {L a b : Nat} (h : a % L = b % L) (hab : a ≤ b) (hlt : b < a + L) : a = b := by
  have h1 : (b - a) % L = 0 := Nat.sub_mod_eq_zero_of_mod_eq h.symm
  have h2 : (b - a) % L = b - a := Nat.mod_eq_of_lt (by omega)
  omega

/-- A shifted form of `mod_window`: positions counted from a common offset. -/
theorem mod_window_off {L O a b : Nat} (h : (O + a) % L = (O + b) % L) (hab : a ≤ b)
    (hlt : b < a + L) : a = b := by
  have := mod_window h (by omega) (by omega)
  omega

theorem u32_mod_pow (x b : Nat) (hb : b ≤ 32) : u32 x % 2 ^ b = x % 2 ^ b := by
  unfold u32
  exact Nat.mod_mod_of_dvd x (by
    have : (4294967296 : Nat) = 2 ^ 32 := by norm_num
    rw [this]
    exact pow_dvd_pow 2 hb)

theorem pow32_mod_pow (b : Nat) (hb : b ≤ 32) : 4294967296 % 2 ^ b = 0 := by
  have : (4294967296 : Nat) = 2 ^ 32 := by norm_num
  rw [this]
  exact Nat.mod_eq_zero_of_dvd (pow_dvd_pow 2 hb)

section SteadyMasks
variable {α F : Type}

theorem HRIR_LENGTH_eq (E : Env α F) : E.HRIR_LENGTH = 2 ^ E.HRIR_BITS := by
  unfold Env.HRIR_LENGTH
  rw [Nat.one_shiftLeft]

theorem and_HRIR_MASK (E : Env α F) (x : Nat) : x &&& E.HRIR_MASK = x % E.HRIR_LENGTH := by
  unfold Env.HRIR_MASK
  rw [HRIR_LENGTH_eq, Nat.and_pow_two_sub_one_eq_mod]

theorem and_SRC_HISTORY_MASK (E : Env α F) (x : Nat) :
    x &&& E.SRC_HISTORY_MASK = x % 2 ^ E.SRC_HISTORY_BITS := by
  unfold Env.SRC_HISTORY_MASK
  rw [Nat.one_shiftLeft, Nat.and_pow_two_sub_one_eq_mod]

/-- The history cell read `d` steps back from the offset `(O + n) mod 2^32`. -/
theorem history_read (b O n d : Nat) (hb : b ≤ 32) (hd : d < 2 ^ b) :
    usub (u32 (O + n)) d % 2 ^ b = (O + n + 4294967296 - d) % 2 ^ b := by
  have hd2 : d < 4294967296 := by
    have : 2 ^ b ≤ 2 ^ 32 := Nat.pow_le_pow_right (by norm_num) hb
    norm_num at this
    omega
  have e : usub (u32 (O + n)) d = u32 (u32 (O + n) + 4294967296 - d) := by
    unfold usub u32
    rw [Nat.mod_eq_of_lt hd2]
  rw [e, u32_mod_pow _ _ hb]
  have hle : d ≤ 4294967296 := by omega
  have e2 : u32 (O + n) + 4294967296 - d = u32 (O + n) + (4294967296 - d) := by omega
  have e3 : O + n + 4294967296 - d = (O + n) + (4294967296 - d) := by omega
  rw [e2, e3, Nat.add_mod, u32_mod_pow _ _ hb, ← Nat.add_mod]

end SteadyMasks

section SteadyExact

variable {α F : Type} [Field α]

/-- The portable `ApplyCoeffs` loop, cell by cell: every tap whose ring cell is `k` adds its
coefficient times the input of the ear. -/
theorem applyCoeffsLoop_sum (mask O : Nat) (C : Nat → Nat → α) (l r : α) :
    ∀ (n c : Nat) (V : Nat → Nat → α) (k e : Nat), e < 2 →
      applyCoeffsLoop mask O C l r n c V k e
        = V k e + ∑ j in Finset.range n,
            if u32 (O + (c + j)) &&& mask = k then C (c + j) e * (if e = 0 then l else r)
            else 0 := by
  intro n
  induction n with
  | zero =>
    intro c V k e _
    simp [applyCoeffsLoop]
  | succ n ih =>
    intro c V k e he
    simp only [applyCoeffsLoop]
    rw [ih (c + 1) _ k e he, Finset.sum_range_succ', Nat.add_zero]
    have hsum : ∑ j in Finset.range n,
          (if u32 (O + (c + 1 + j)) &&& mask = k then
            C (c + 1 + j) e * (if e = 0 then l else r) else 0)
        = ∑ j in Finset.range n,
          (if u32 (O + (c + (j + 1))) &&& mask = k then
            C (c + (j + 1)) e * (if e = 0 then l else r) else 0) := by
      apply Finset.sum_congr rfl
      intro j _
      rw [show c + 1 + j = c + (j + 1) by omega]
    rw [hsum]
    have he2 : e = 0 ∨ e = 1 := by omega
    by_cases hk : k = u32 (O + c) &&& mask
    · subst hk
      rcases he2 with h0 | h1
      · subst h0
        simp
        ring
      · subst h1
        simp
        ring
    · have hk2 : ¬ u32 (O + c) &&& mask = k := fun hh => hk hh.symm
      simp [hk, hk2]

/-- The portable `ApplyCoeffs`, cell by cell, with the ring cells as residues. -/
theorem ApplyCoeffs_sum (E : Env α F) (hb : E.HRIR_BITS ≤ 32) (O : Nat) (V C : Nat → Nat → α)
    (l r : α) (k e : Nat) (he : e < 2) :
    ApplyCoeffs E O V C l r k e
      = V k e + ∑ c in Finset.range E.HRIR_LENGTH,
          if (O + c) % E.HRIR_LENGTH = k then C c e * (if e = 0 then l else r) else 0 := by
  unfold ApplyCoeffs
  rw [applyCoeffsLoop_sum _ _ _ _ _ _ _ _ _ _ he]
  congr 1
  apply Finset.sum_congr rfl
  intro c _
  rw [Nat.zero_add, and_HRIR_MASK, HRIR_LENGTH_eq, u32_mod_pow _ _ hb]

end SteadyExact

section SteadySums

variable {α : Type} [Field α]

theorem delayed_update (X : Nat → α) (n d s : Nat) (x : α) (hs : s < n) :
    delayed (Function.update X n x) d s = delayed X d s := by
  unfold delayed
  split
  · rw [Function.update_noteq (by omega)]
  · rfl

theorem firOut_update (L : Nat) (C : Nat → Nat → α) (X : Nat → α) (n d m e : Nat) (x : α)
    (hm : m < n) :
    firOut L C (Function.update X n x) d m e = firOut L C X d m e := by
  unfold firOut
  apply Finset.sum_congr rfl
  intro s hs
  have hs2 := Finset.mem_range.1 hs
  apply Finset.sum_congr rfl
  intro c _
  rw [delayed_update X n d s x (by omega)]

/-- Writing the input of pass `n` to its history cell keeps the history invariant. -/
theorem hist_step (Hl O0 n : Nat) (hHl : 0 < Hl) (X : Nat → α) (x : α) (Hist : Nat → α)
    (hI : ∀ k, Hist k = ∑ s in Finset.range n,
      if n ≤ s + Hl ∧ (O0 + s) % Hl = k then X s else 0) (k : Nat) :
    (if k = (O0 + n) % Hl then x else Hist k)
      = ∑ s in Finset.range (n + 1),
          if n + 1 ≤ s + Hl ∧ (O0 + s) % Hl = k then Function.update X n x s else 0 := by
  rw [Finset.sum_range_succ, Function.update_same]
  have hfront : ∑ s in Finset.range n,
        (if n + 1 ≤ s + Hl ∧ (O0 + s) % Hl = k then Function.update X n x s else 0)
      = ∑ s in Finset.range n, (if n + 1 ≤ s + Hl ∧ (O0 + s) % Hl = k then X s else 0) := by
    apply Finset.sum_congr rfl
    intro s hs
    have hs2 := Finset.mem_range.1 hs
    rw [Function.update_noteq (by omega)]
  rw [hfront]
  by_cases hk : k = (O0 + n) % Hl
  · rw [if_pos hk, if_pos ⟨by omega, hk.symm⟩]
    have hz : ∑ s in Finset.range n,
        (if n + 1 ≤ s + Hl ∧ (O0 + s) % Hl = k then X s else 0) = 0 := by
      apply Finset.sum_eq_zero
      intro s hs
      have hs2 := Finset.mem_range.1 hs
      rw [if_neg]
      rintro ⟨h1, h2⟩
      have := mod_window_off (h2.trans hk) (Nat.le_of_lt hs2) (by omega)
      omega
    rw [hz, zero_add]
  · rw [if_neg hk, if_neg (fun hh => hk hh.2.symm), add_zero, hI k]
    apply Finset.sum_congr rfl
    intro s hs
    have hs2 := Finset.mem_range.1 hs
    by_cases hc : (O0 + s) % Hl = k
    · have hne : s + Hl ≠ n := by
        intro hh
        apply hk
        rw [← hc, ← hh, ← Nat.add_assoc, Nat.add_mod_right]
      by_cases h1 : n ≤ s + Hl
      · rw [if_pos ⟨h1, hc⟩, if_pos ⟨by omega, hc⟩]
      · rw [if_neg (fun hh => h1 hh.1), if_neg (fun hh => h1 (by omega))]
    · rw [if_neg (fun hh => hc hh.2), if_neg (fun hh => hc hh.2)]

/-- The history cell `d` steps back holds the input delayed by `d`. -/
theorem hist_read (Hl O0 n d : Nat) (hd : d < Hl) (hdiv : 4294967296 % Hl = 0)
    (hd32 : d ≤ 4294967296) (X : Nat → α) (Hist : Nat → α)
    (hI : ∀ k, Hist k = ∑ s in Finset.range (n + 1),
      if n + 1 ≤ s + Hl ∧ (O0 + s) % Hl = k then X s else 0) :
    Hist ((O0 + n + 4294967296 - d) % Hl) = delayed X d n := by
  rw [hI]
  unfold delayed
  by_cases hdn : d ≤ n
  · rw [if_pos hdn]
    have hcell : (O0 + n + 4294967296 - d) % Hl = (O0 + (n - d)) % Hl := by
      have e : O0 + n + 4294967296 - d = (O0 + (n - d)) + 4294967296 := by omega
      rw [e, Nat.add_mod, hdiv, Nat.add_zero, Nat.mod_mod]
    rw [hcell, Finset.sum_eq_single (n - d)]
    · rw [if_pos ⟨by omega, rfl⟩]
    · intro s hs hne
      have hs2 := Finset.mem_range.1 hs
      rw [if_neg]
      rintro ⟨h1, h2⟩
      rcases Nat.le_total s (n - d) with hle | hle
      · exact hne (mod_window_off h2 hle (by omega))
      · exact hne (mod_window_off h2.symm hle (by omega)).symm
    · intro hnot
      exact absurd (Finset.mem_range.2 (by omega)) hnot
  · rw [if_neg hdn]
    apply Finset.sum_eq_zero
    intro s hs
    have hs2 := Finset.mem_range.1 hs
    rw [if_neg]
    rintro ⟨h1, h2⟩
    have h3 : (O0 + (s + d)) % Hl = (O0 + n) % Hl := by
      have e1 : O0 + (s + d) = (O0 + s) + d := by omega
      have e2 : (O0 + n + 4294967296 - d) + d = (O0 + n) + 4294967296 := by omega
      rw [e1, Nat.add_mod, h2, ← Nat.add_mod, e2, Nat.add_mod, hdiv, Nat.add_zero, Nat.mod_mod]
    have := mod_window_off h3.symm (by omega) (by omega)
    omega

/-- Clearing the ring cell at the offset and applying the taps of pass `n` keeps the ring
invariant. -/
theorem ring_step (L O0 n d e : Nat) (C : Nat → Nat → α) (X : Nat → α) (x lr : α)
    (V : Nat → α)
    (hlr : lr = delayed (Function.update X n x) d n)
    (hI : ∀ k, V k = ∑ s in Finset.range n, ∑ c in Finset.range L,
      if n ≤ s + 1 + c ∧ (O0 + s + 1 + c) % L = k then C c e * delayed X d s else 0)
    (k : Nat) :
    (if k = (O0 + n) % L then 0 else V k)
        + ∑ c in Finset.range L, (if (O0 + n + 1 + c) % L = k then C c e * lr else 0)
      = ∑ s in Finset.range (n + 1), ∑ c in Finset.range L,
          if n + 1 ≤ s + 1 + c ∧ (O0 + s + 1 + c) % L = k then
            C c e * delayed (Function.update X n x) d s
          else 0 := by
  rw [Finset.sum_range_succ]
  have hlast : ∑ c in Finset.range L,
        (if n + 1 ≤ n + 1 + c ∧ (O0 + n + 1 + c) % L = k then
          C c e * delayed (Function.update X n x) d n else 0)
      = ∑ c in Finset.range L, (if (O0 + n + 1 + c) % L = k then C c e * lr else 0) := by
    apply Finset.sum_congr rfl
    intro c _
    rw [hlr]
    by_cases hc : (O0 + n + 1 + c) % L = k
    · rw [if_pos ⟨by omega, hc⟩, if_pos hc]
    · rw [if_neg (fun hh => hc hh.2), if_neg hc]
  rw [hlast]
  congr 1
  have hfront : ∑ s in Finset.range n, ∑ c in Finset.range L,
        (if n + 1 ≤ s + 1 + c ∧ (O0 + s + 1 + c) % L = k then
          C c e * delayed (Function.update X n x) d s else 0)
      = ∑ s in Finset.range n, ∑ c in Finset.range L,
        (if n + 1 ≤ s + 1 + c ∧ (O0 + s + 1 + c) % L = k then C c e * delayed X d s else 0) := by
    apply Finset.sum_congr rfl
    intro s hs
    have hs2 := Finset.mem_range.1 hs
    apply Finset.sum_congr rfl
    intro c _
    rw [delayed_update X n d s x hs2]
  rw [hfront]
  by_cases hk : k = (O0 + n) % L
  · rw [if_pos hk]
    symm
    apply Finset.sum_eq_zero
    intro s hs
    have hs2 := Finset.mem_range.1 hs
    apply Finset.sum_eq_zero
    intro c hc
    have hc2 := Finset.mem_range.1 hc
    rw [if_neg]
    rintro ⟨h1, h2⟩
    have e1 : O0 + s + 1 + c = O0 + (s + 1 + c) := by omega
    rw [e1, hk] at h2
    have := mod_window_off h2.symm (by omega) (by omega)
    omega
  · rw [if_neg hk, hI k]
    apply Finset.sum_congr rfl
    intro s hs
    apply Finset.sum_congr rfl
    intro c hc
    by_cases hcell : (O0 + s + 1 + c) % L = k
    · have hne : s + 1 + c ≠ n := by
        intro hh
        apply hk
        rw [← hcell, ← hh]
        congr 1
        omega
      by_cases h1 : n ≤ s + 1 + c
      · rw [if_pos ⟨h1, hcell⟩, if_pos ⟨by omega, hcell⟩]
      · rw [if_neg (fun hh => h1 hh.1), if_neg (fun hh => h1 (by omega))]
    · rw [if_neg (fun hh => hcell hh.2), if_neg (fun hh => hcell hh.2)]

/-- The ring cell that pass `n` sends to the dry buffer holds the convolution at step `n`. -/
theorem ring_out (L O0 n d e : Nat) (C : Nat → Nat → α) (X : Nat → α) :
    (∑ s in Finset.range (n + 1), ∑ c in Finset.range L,
        if n + 1 ≤ s + 1 + c ∧ (O0 + s + 1 + c) % L = (O0 + n + 1) % L then
          C c e * delayed X d s
        else 0)
      = firOut L C X d n e := by
  unfold firOut
  apply Finset.sum_congr rfl
  intro s hs
  have hs2 := Finset.mem_range.1 hs
  apply Finset.sum_congr rfl
  intro c hc
  have hc2 := Finset.mem_range.1 hc
  by_cases h : s + c = n
  · rw [if_pos h, if_pos ⟨by omega, by rw [← h]; congr 1; omega⟩]
  · rw [if_neg h, if_neg]
    rintro ⟨h1, h2⟩
    have e1 : O0 + s + 1 + c = O0 + (s + 1 + c) := by omega
    have e2 : O0 + n + 1 = O0 + (n + 1) := by omega
    rw [e1, e2] at h2
    have := mod_window_off h2.symm (by omega) (by omega)
    omega

end SteadySums

section SteadyLoop

variable {α F : Type} [Field α]

/-- One pass of the steady loop of the HRTF template, read off the code: the new history
row, ring row and dry buffer of source channel `i` in terms of the old ones. -/
theorem hrtfSteadyStep_raw {E : Env α F} {smp : SamplerId} {data : SrcPtr} {nc inc i : Nat}
    {h h1 : HrtfCur α F} (e : hrtfSteadyStep E smp data nc inc i h = .ok h1) :
    ∃ v, sample E smp data nc h.cur.pos h.cur.frac i = .ok v ∧
      h1.cur.mem.Source.Params.iirFilter
        = (E.lpFilter2P h.cur.mem.Source.Params.iirFilter i v).1 ∧
      h1.cur.ph = phaseStep inc h.cur.ph ∧
      h1.Offset = u32 (h.Offset + 1) ∧ h1.cur.OutPos = u32 (h.cur.OutPos + 1) ∧
      h1.Coeffs = h.Coeffs ∧ h1.Delay0 = h.Delay0 ∧ h1.Delay1 = h.Delay1 ∧
      (∀ k, h1.cur.mem.Source.HrtfHistory i k
        = if k = h.Offset &&& E.SRC_HISTORY_MASK then
            (E.lpFilter2P h.cur.mem.Source.Params.iirFilter i v).2
          else h.cur.mem.Source.HrtfHistory i k) ∧
      (∀ k e, h1.cur.mem.Source.HrtfValues i k e
        = ApplyCoeffs E (u32 (h.Offset + 1))
            (clearCell (h.cur.mem.Source.HrtfValues i) (h.Offset &&& E.HRIR_MASK)) h.Coeffs
            (h1.cur.mem.Source.HrtfHistory i (usub h.Offset h.Delay0 &&& E.SRC_HISTORY_MASK))
            (h1.cur.mem.Source.HrtfHistory i (usub h.Offset h.Delay1 &&& E.SRC_HISTORY_MASK))
            k e) ∧
      h1.cur.mem.Device.DryBuffer
        = addFront E h.cur.mem.Device.DryBuffer h.cur.OutPos
            (h1.cur.mem.Source.HrtfValues i (u32 (h.Offset + 1) &&& E.HRIR_MASK) 0)
            (h1.cur.mem.Source.HrtfValues i (u32 (h.Offset + 1) &&& E.HRIR_MASK) 1) := by
  unfold hrtfSteadyStep at e
  split at e
  · simp at e
  · next v hv =>
    simp only [Except.ok.injEq] at e
    refine ⟨v, hv, ?_⟩
    rw [← e]
    refine ⟨rfl, rfl, rfl, rfl, rfl, rfl, rfl, ?_, ?_, ?_⟩
    · intro k
      simp only [Cur.advance, Mem.setValues, Mem.setHistory, Mem.setDryFilter, true_and]
    · intro k e
      simp only [Cur.advance, Mem.setValues, Mem.setHistory, Mem.setDryFilter, true_and,
        if_true]
    · simp only [Cur.advance, Mem.setValues, Mem.setHistory, Mem.setDryFilter, true_and,
        if_true]

/-- One pass of the steady loop takes the invariant of `n` passes to the invariant of
`n + 1` passes, the input of the pass being the filtered sample of its phase. -/
theorem hrtfSteadyStep_fir {E : Env α F} {smp : SamplerId} {data : SrcPtr} {nc inc i : Nat}
    {C : Nat → Nat → α} {d0 d1 O0 o0 : Nat} {D0 : Nat → Nat → α} {X : Nat → α} {n : Nat}
    {h h1 : HrtfCur α F}
    (hb1 : E.HRIR_BITS ≤ 32) (hb2 : E.SRC_HISTORY_BITS ≤ 32)
    (hFL : E.FRONT_LEFT ≠ E.FRONT_RIGHT)
    (hd0 : d0 < 2 ^ E.SRC_HISTORY_BITS) (hd1 : d1 < 2 ^ E.SRC_HISTORY_BITS)
    (hon : o0 + n + 1 < 4294967296)
    (hI : SteadyInv E i C d0 d1 O0 o0 D0 X n h)
    (e : hrtfSteadyStep E smp data nc inc i h = .ok h1) :
    ∃ v, sample E smp data nc h.cur.pos h.cur.frac i = .ok v ∧
      h1.cur.mem.Source.Params.iirFilter
        = (E.lpFilter2P h.cur.mem.Source.Params.iirFilter i v).1 ∧
      h1.cur.ph = phaseStep inc h.cur.ph ∧
      SteadyInv E i C d0 d1 O0 o0 D0
        (Function.update X n (E.lpFilter2P h.cur.mem.Source.Params.iirFilter i v).2) (n + 1)
        h1 := by
  obtain ⟨v, hv, r1, r2, r3, r4, r5, r6, r7, r8, r9, r10⟩ := hrtfSteadyStep_raw e
  refine ⟨v, hv, r1, r2, ?_⟩
  obtain ⟨x, hx⟩ : ∃ x, x = (E.lpFilter2P h.cur.mem.Source.Params.iirFilter i v).2 := ⟨_, rfl⟩
  rw [← hx] at r8 ⊢
  have hHl : 0 < 2 ^ E.SRC_HISTORY_BITS := Nat.two_pow_pos _
  have hle32 : 2 ^ E.SRC_HISTORY_BITS ≤ 4294967296 := by
    have : 2 ^ E.SRC_HISTORY_BITS ≤ 2 ^ 32 := Nat.pow_le_pow_right (by norm_num) hb2
    norm_num at this
    exact this
  -- the history row
  have hcellH : h.Offset &&& E.SRC_HISTORY_MASK = (O0 + n) % 2 ^ E.SRC_HISTORY_BITS := by
    rw [and_SRC_HISTORY_MASK, hI.offset, u32_mod_pow _ _ hb2]
  have hhist : ∀ k, h1.cur.mem.Source.HrtfHistory i k
      = ∑ s in Finset.range (n + 1),
          if n + 1 ≤ s + 2 ^ E.SRC_HISTORY_BITS ∧ (O0 + s) % 2 ^ E.SRC_HISTORY_BITS = k then
            Function.update X n x s else 0 := by
    intro k
    rw [r8 k, hcellH]
    exact hist_step _ O0 n hHl X x _ hI.hist k
  -- the two delayed inputs
  have hread : ∀ d, d < 2 ^ E.SRC_HISTORY_BITS →
      h1.cur.mem.Source.HrtfHistory i (usub h.Offset d &&& E.SRC_HISTORY_MASK)
        = delayed (Function.update X n x) d n := by
    intro d hd
    rw [and_SRC_HISTORY_MASK, hI.offset, history_read _ _ _ _ hb2 hd]
    exact hist_read _ O0 n d hd (pow32_mod_pow _ hb2) (by omega) _ _ hhist
  have hleft := hread d0 hd0
  have hright := hread d1 hd1
  rw [← hI.delay0] at hleft
  rw [← hI.delay1] at hright
  -- the ring row
  have hcellV : h.Offset &&& E.HRIR_MASK = (O0 + n) % E.HRIR_LENGTH := by
    rw [and_HRIR_MASK, HRIR_LENGTH_eq, hI.offset, u32_mod_pow _ _ hb1]
  have hring : ∀ k e, e < 2 → h1.cur.mem.Source.HrtfValues i k e
      = ∑ s in Finset.range (n + 1), ∑ c in Finset.range E.HRIR_LENGTH,
          if n + 1 ≤ s + 1 + c ∧ (O0 + s + 1 + c) % E.HRIR_LENGTH = k then
            C c e * delayed (Function.update X n x) (if e = 0 then d0 else d1) s
          else 0 := by
    intro k e he
    rw [r9 k e, ApplyCoeffs_sum E hb1 _ _ _ _ _ k e he, hleft, hright, hcellV, hI.coeffs]
    have hclear : clearCell (h.cur.mem.Source.HrtfValues i) ((O0 + n) % E.HRIR_LENGTH) k e
        = if k = (O0 + n) % E.HRIR_LENGTH then 0 else h.cur.mem.Source.HrtfValues i k e := by
      unfold clearCell
      have he2 : e = 0 ∨ e = 1 := by omega
      by_cases hk : k = (O0 + n) % E.HRIR_LENGTH
      · rw [if_pos ⟨hk, he2⟩, if_pos hk, Int.cast_zero]
      · rw [if_neg (fun hh => hk hh.1), if_neg hk]
    rw [hclear]
    have hsum : ∑ c in Finset.range E.HRIR_LENGTH,
          (if (u32 (h.Offset + 1) + c) % E.HRIR_LENGTH = k then
            C c e * (if e = 0 then delayed (Function.update X n x) h.Delay0 n
              else delayed (Function.update X n x) h.Delay1 n) else 0)
        = ∑ c in Finset.range E.HRIR_LENGTH,
          (if (O0 + n + 1 + c) % E.HRIR_LENGTH = k then
            C c e * delayed (Function.update X n x) (if e = 0 then d0 else d1) n else 0) := by
      apply Finset.sum_congr rfl
      intro c _
      have ecell : (u32 (h.Offset + 1) + c) % E.HRIR_LENGTH
          = (O0 + n + 1 + c) % E.HRIR_LENGTH := by
        rw [HRIR_LENGTH_eq, Nat.add_mod, u32_mod_pow _ _ hb1, hI.offset, Nat.add_mod (u32 _) 1,
          u32_mod_pow _ _ hb1, ← Nat.add_mod (O0 + n) 1, ← Nat.add_mod]
      rw [ecell, hI.delay0, hI.delay1]
      by_cases he0 : e = 0
      · simp only [he0, if_true]
      · simp only [he0, if_false]
    rw [hsum]
    exact ring_step E.HRIR_LENGTH O0 n (if e = 0 then d0 else d1) e C X x _
      (fun k => h.cur.mem.Source.HrtfValues i k e) rfl (fun k => hI.ring k e he) k
  -- the cell sent to the dry buffer
  have hkk : u32 (h.Offset + 1) &&& E.HRIR_MASK = (O0 + n + 1) % E.HRIR_LENGTH := by
    rw [and_HRIR_MASK, HRIR_LENGTH_eq, u32_mod_pow _ _ hb1, hI.offset, Nat.add_mod,
      u32_mod_pow _ _ hb1, ← Nat.add_mod]
  have hout : ∀ e, e < 2 →
      h1.cur.mem.Source.HrtfValues i (u32 (h.Offset + 1) &&& E.HRIR_MASK) e
        = firOut E.HRIR_LENGTH C (Function.update X n x) (if e = 0 then d0 else d1) n e := by
    intro e he
    rw [hkk, hring _ e he]
    exact ring_out E.HRIR_LENGTH O0 n _ e C _
  have hout0 := hout 0 (by decide)
  have hout1 := hout 1 (by decide)
  simp only [if_true, Nat.one_ne_zero, if_false] at hout0 hout1
  refine ⟨?_, ?_, r5.trans hI.coeffs, r6.trans hI.delay0, r7.trans hI.delay1, hhist, hring, ?_⟩
  · rw [r3, hI.offset]
    unfold u32
    omega
  · rw [r4, hI.outpos]
    exact u32_small _ (by omega)
  · intro r ch
    rw [r10, hout0, hout1, hI.outpos]
    unfold addFront
    simp only
    rw [hI.dry (o0 + n) E.FRONT_LEFT, hI.dry (o0 + n) E.FRONT_RIGHT, hI.dry r ch]
    by_cases hr : r = o0 + n
    · subst hr
      have e1 : o0 + n - o0 = n := by omega
      have l1 : ¬ (o0 ≤ o0 + n ∧ o0 + n < o0 + n ∧ ch = E.FRONT_LEFT) := by omega
      have l2 : ¬ (o0 ≤ o0 + n ∧ o0 + n < o0 + n ∧ ch = E.FRONT_RIGHT) := by omega
      have l3 : ¬ (o0 ≤ o0 + n ∧ o0 + n < o0 + n ∧ E.FRONT_LEFT = E.FRONT_LEFT) := by omega
      have l4 : ¬ (o0 ≤ o0 + n ∧ o0 + n < o0 + n ∧ E.FRONT_LEFT = E.FRONT_RIGHT) := by omega
      have l5 : ¬ (o0 ≤ o0 + n ∧ o0 + n < o0 + n ∧ E.FRONT_RIGHT = E.FRONT_LEFT) := by omega
      have l6 : ¬ (o0 ≤ o0 + n ∧ o0 + n < o0 + n ∧ E.FRONT_RIGHT = E.FRONT_RIGHT) := by omega
      rw [if_neg l1, if_neg l2, if_neg l3, if_neg l4, if_neg l5, if_neg l6, e1]
      by_cases hR : ch = E.FRONT_RIGHT
      · subst hR
        have hLR : ¬ E.FRONT_RIGHT = E.FRONT_LEFT := fun hh => hFL hh.symm
        simp [hLR]
      · by_cases hL : ch = E.FRONT_LEFT
        · subst hL
          simp [hFL]
        · simp [hR, hL]
    · rw [if_neg (fun hh => hr hh.1), if_neg (fun hh => hr hh.1)]
      have key : ∀ (d e tgt : Nat),
          (if o0 ≤ r ∧ r < o0 + (n + 1) ∧ ch = tgt then
            firOut E.HRIR_LENGTH C (Function.update X n x) d (r - o0) e else 0)
          = (if o0 ≤ r ∧ r < o0 + n ∧ ch = tgt then
            firOut E.HRIR_LENGTH C X d (r - o0) e else 0) := by
        intro d e tgt
        by_cases hc : o0 ≤ r ∧ r < o0 + n ∧ ch = tgt
        · rw [if_pos hc, if_pos ⟨hc.1, by omega, hc.2.2⟩,
            firOut_update _ _ _ _ _ _ _ _ (by omega)]
        · rw [if_neg hc, if_neg (fun hh => hc ⟨hh.1, by omega, hh.2.2⟩)]
      rw [key, key]

end SteadyLoop

section SteadyClaim

variable {α F : Type} [Field α]

theorem delayed_congr (X X1 : Nat → α) (n d s : Nat) (hs : s < n) (hX : ∀ t, t < n → X t = X1 t) :
    delayed X d s = delayed X1 d s := by
  unfold delayed
  split
  · rw [hX _ (by omega)]
  · rfl

theorem firOut_congr (L : Nat) (C : Nat → Nat → α) (X X1 : Nat → α) (n d m e : Nat)
    (hm : m < n) (hX : ∀ t, t < n → X t = X1 t) :
    firOut L C X d m e = firOut L C X1 d m e := by
  unfold firOut
  apply Finset.sum_congr rfl
  intro s hs
  have hs2 := Finset.mem_range.1 hs
  apply Finset.sum_congr rfl
  intro c _
  rw [delayed_congr X X1 n d s (by omega) hX]

/-- The invariant of the steady loop after `n` passes only looks at the first `n` inputs. -/
theorem SteadyInv_congr {E : Env α F} {i : Nat} {C : Nat → Nat → α} {d0 d1 O0 o0 : Nat}
    {D0 : Nat → Nat → α} {X X1 : Nat → α} {n n1 : Nat} {h : HrtfCur α F} (hn : n = n1)
    (hX : ∀ t, t < n → X t = X1 t) (hI : SteadyInv E i C d0 d1 O0 o0 D0 X n h) :
    SteadyInv E i C d0 d1 O0 o0 D0 X1 n1 h := by
  subst hn
  refine ⟨hI.offset, hI.outpos, hI.coeffs, hI.delay0, hI.delay1, ?_, ?_, ?_⟩
  · intro k
    rw [hI.hist k]
    apply Finset.sum_congr rfl
    intro s hs
    rw [hX s (Finset.mem_range.1 hs)]
  · intro k e he
    rw [hI.ring k e he]
    apply Finset.sum_congr rfl
    intro s hs
    apply Finset.sum_congr rfl
    intro c _
    rw [delayed_congr X X1 n _ s (Finset.mem_range.1 hs) hX]
  · intro r ch
    rw [hI.dry r ch]
    have key : ∀ (d e tgt : Nat),
        (if o0 ≤ r ∧ r < o0 + n ∧ ch = tgt then firOut E.HRIR_LENGTH C X d (r - o0) e else 0)
        = (if o0 ≤ r ∧ r < o0 + n ∧ ch = tgt then firOut E.HRIR_LENGTH C X1 d (r - o0) e
            else 0) := by
      intro d e tgt
      by_cases hc : o0 ≤ r ∧ r < o0 + n ∧ ch = tgt
      · rw [if_pos hc, if_pos hc, firOut_congr _ _ X X1 n d _ e (by omega) hX]
      · rw [if_neg hc, if_neg hc]
    rw [key, key]

/-- The steady loop of the HRTF template from a state that satisfies the invariant of `n`
passes: its `N` passes take the filtered samples of their phases as inputs, and lead to the
invariant of `n + N` passes. -/
theorem steadyLoop_fir {E : Env α F} {smp : SamplerId} {data : SrcPtr} {nc inc i : Nat}
    {C : Nat → Nat → α} {d0 d1 O0 o0 : Nat} {D0 : Nat → Nat → α}
    (hb1 : E.HRIR_BITS ≤ 32) (hb2 : E.SRC_HISTORY_BITS ≤ 32)
    (hFL : E.FRONT_LEFT ≠ E.FRONT_RIGHT)
    (hd0 : d0 < 2 ^ E.SRC_HISTORY_BITS) (hd1 : d1 < 2 ^ E.SRC_HISTORY_BITS) :
    ∀ (N n i0 : Nat) (X : Nat → α) (h h1 : HrtfCur α F), o0 + n + N < 4294967296 →
      SteadyInv E i C d0 d1 O0 o0 D0 X n h →
      forLoop (fun _ => hrtfSteadyStep E smp data nc inc i) N i0 h = .ok h1 →
      ∃ xs, specStream E smp data nc inc i E.lpFilter2P N h.cur.ph
              h.cur.mem.Source.Params.iirFilter
            = .ok (h1.cur.mem.Source.Params.iirFilter, xs) ∧
        xs.length = N ∧
        SteadyInv E i C d0 d1 O0 o0 D0 (fun s => if s < n then X s else xs.getD (s - n) 0)
          (n + N) h1 := by
  intro N
  induction N with
  | zero =>
    intro n i0 X h h1 _ hI hrun
    simp only [forLoop, Except.ok.injEq] at hrun
    subst hrun
    refine ⟨[], rfl, rfl, SteadyInv_congr rfl (fun t ht => ?_) hI⟩
    beta_reduce
    rw [if_pos (show t < n by omega)]
  | succ N ih =>
    intro n i0 X h h1 hon hI hrun
    simp only [forLoop] at hrun
    split at hrun
    · next h2 e2 =>
      obtain ⟨v, hv, hflt, hph, hI2⟩ :=
        hrtfSteadyStep_fir hb1 hb2 hFL hd0 hd1 (by omega) hI e2
      obtain ⟨xs, hxs, hlen, hI3⟩ := ih (n + 1) (i0 + 1) _ h2 h1 (by omega) hI2 hrun
      refine ⟨(E.lpFilter2P h.cur.mem.Source.Params.iirFilter i v).2 :: xs, ?_, ?_, ?_⟩
      · simp only [specStream]
        have hv2 : sample E smp data nc h.cur.ph.1 h.cur.ph.2 i = .ok v := hv
        rw [hv2]
        simp only
        rw [← hph, ← hflt, hxs]
      · rw [List.length_cons, hlen]
      · refine SteadyInv_congr (by omega) (fun t _ => ?_) hI3
        beta_reduce
        by_cases h1 : t < n
        · rw [if_pos (by omega), if_pos h1, Function.update_noteq (by omega)]
        · by_cases h2 : t = n
          · subst h2
            rw [if_pos (by omega), if_neg h1, Function.update_same, Nat.sub_self]
            rfl
          · rw [if_neg (by omega), if_neg h1]
            have e3 : t - n = (t - (n + 1)) + 1 := by omega
            rw [e3]
            rfl
    · simp at hrun

/-- The convolution as the sum over the taps up to `min(n, L - 1)`. -/
theorem firOut_taps (L : Nat) (hL : 0 < L) (C : Nat → Nat → α) (X : Nat → α) (d n e : Nat) :
    firOut L C X d n e
      = ∑ c in Finset.range (min n (L - 1) + 1),
          C c e * (if c + d ≤ n then X (n - c - d) else 0) := by
  unfold firOut
  rw [Finset.sum_comm]
  have hinner : ∀ c, c ∈ Finset.range L →
      (∑ s in Finset.range (n + 1), if s + c = n then C c e * delayed X d s else 0)
        = if c ≤ n then C c e * (if c + d ≤ n then X (n - c - d) else 0) else 0 := by
    intro c _
    by_cases hc : c ≤ n
    · rw [if_pos hc, Finset.sum_eq_single (n - c)]
      · rw [if_pos (by omega)]
        unfold delayed
        by_cases hd : c + d ≤ n
        · rw [if_pos hd, if_pos (by omega), Nat.sub_sub]
        · rw [if_neg hd, if_neg (by omega)]
      · intro s _ hne
        rw [if_neg (by omega)]
      · intro hnot
        exact absurd (Finset.mem_range.2 (by omega)) hnot
    · rw [if_neg hc]
      apply Finset.sum_eq_zero
      intro s _
      rw [if_neg (by omega)]
  rw [Finset.sum_congr rfl hinner]
  symm
  have hsub : Finset.range (min n (L - 1) + 1) ⊆ Finset.range L := by
    intro c hc
    have := Finset.mem_range.1 hc
    have : min n (L - 1) ≤ L - 1 := min_le_right _ _
    exact Finset.mem_range.2 (by omega)
  rw [← Finset.sum_subset hsub]
  · apply Finset.sum_congr rfl
    intro c hc
    have h1 := Finset.mem_range.1 hc
    have h2 : min n (L - 1) ≤ n := min_le_left _ _
    rw [if_pos (show c ≤ n by omega)]
  · intro c hc hnot
    have h1 := Finset.mem_range.1 hc
    have h2 : ¬ c < min n (L - 1) + 1 := fun hh => hnot (Finset.mem_range.2 hh)
    rw [if_neg]
    intro hcn
    rcases Nat.le_total n (L - 1) with h3 | h3
    · rw [Nat.min_eq_left h3] at h2
      omega
    · rw [Nat.min_eq_right h3] at h2
      omega

end SteadyClaim

section SteadyTheorem

variable {α F : Type} [Field α]

/-- C30.  Take the steady loop of an HRTF mixer for source channel `i`, entered with the
coefficients `C`, whole delays `d0` (left) and `d1` (right) below the history length
`2^SRC_HISTORY_BITS`, a zero history row and a zero `HrtfValues` ring for the channel, at
the row `OutPos` with `OutPos + N < 2^32` for its `N` passes (`FRONT_LEFT` and `FRONT_RIGHT`
being different channels, and the two ring sizes at most `2^32`).  If the loop returns, the
filtered inputs `xs` of its passes are those of the sample loop the specification describes,
and for every pass `n < N` the value added to `DryBuffer[OutPos + n]` at `FRONT_LEFT` is the
sum over the taps `c = 0 .. min(n, HRIR_LENGTH - 1)` of `C[c][0] * x(n - c - d0)`, and at
`FRONT_RIGHT` the same with `C[c][1]` and `d1`, where `x(m)` is input `m` of the loop and 0
for `m < 0`: every contribution that is due is there, the zeroing of the ring cell has
discarded none.  No other cell of the dry buffer changes. -/
theorem C30_steady_fir (E : Env α F) (smp : SamplerId) (data : SrcPtr) (nc inc i N : Nat)
    (h0 h1 : HrtfCur α F)
    (hb1 : E.HRIR_BITS ≤ 32) (hb2 : E.SRC_HISTORY_BITS ≤ 32)
    (hFL : E.FRONT_LEFT ≠ E.FRONT_RIGHT)
    (hd0 : h0.Delay0 < 2 ^ E.SRC_HISTORY_BITS) (hd1 : h0.Delay1 < 2 ^ E.SRC_HISTORY_BITS)
    (hO : h0.Offset < 4294967296) (ho : h0.cur.OutPos + N < 4294967296)
    (hH : ∀ k, h0.cur.mem.Source.HrtfHistory i k = 0)
    (hV : ∀ k e, h0.cur.mem.Source.HrtfValues i k e = 0)
    (hrun : forLoop (fun _ => hrtfSteadyStep E smp data nc inc i) N 0 h0 = .ok h1) :
    ∃ xs : List α,
      specStream E smp data nc inc i E.lpFilter2P N (h0.cur.pos, h0.cur.frac)
          h0.cur.mem.Source.Params.iirFilter
        = .ok (h1.cur.mem.Source.Params.iirFilter, xs) ∧
      xs.length = N ∧
      (∀ n, n < N →
        h1.cur.mem.Device.DryBuffer (h0.cur.OutPos + n) E.FRONT_LEFT
          = h0.cur.mem.Device.DryBuffer (h0.cur.OutPos + n) E.FRONT_LEFT
            + ∑ c in Finset.range (min n (E.HRIR_LENGTH - 1) + 1),
                h0.Coeffs c 0 * inputAt xs ((n : Int) - (c : Int) - (h0.Delay0 : Int)) ∧
        h1.cur.mem.Device.DryBuffer (h0.cur.OutPos + n) E.FRONT_RIGHT
          = h0.cur.mem.Device.DryBuffer (h0.cur.OutPos + n) E.FRONT_RIGHT
            + ∑ c in Finset.range (min n (E.HRIR_LENGTH - 1) + 1),
                h0.Coeffs c 1 * inputAt xs ((n : Int) - (c : Int) - (h0.Delay1 : Int))) ∧
      (∀ r ch, (r < h0.cur.OutPos ∨ h0.cur.OutPos + N ≤ r ∨
          (ch ≠ E.FRONT_LEFT ∧ ch ≠ E.FRONT_RIGHT)) →
        h1.cur.mem.Device.DryBuffer r ch = h0.cur.mem.Device.DryBuffer r ch) := by
  have hI0 : SteadyInv E i h0.Coeffs h0.Delay0 h0.Delay1 h0.Offset h0.cur.OutPos
      h0.cur.mem.Device.DryBuffer (fun _ => (0 : α)) 0 h0 := by
    refine ⟨(u32_small _ (by omega)).symm, rfl, rfl, rfl, rfl, ?_, ?_, ?_⟩
    · intro k
      rw [hH k, Finset.sum_range_zero]
    · intro k e _
      rw [hV k e, Finset.sum_range_zero]
    · intro r ch
      rw [if_neg (by omega), if_neg (by omega), add_zero, add_zero]
  obtain ⟨xs, hxs, hlen, hI⟩ := steadyLoop_fir hb1 hb2 hFL hd0 hd1 N 0 0 _ h0 h1
    (by omega) hI0 hrun
  refine ⟨xs, hxs, hlen, ?_, ?_⟩
  · intro n hn
    have hconv : ∀ (d e : Nat),
        firOut E.HRIR_LENGTH h0.Coeffs
            (fun s => if s < 0 then (0 : α) else xs.getD (s - 0) 0) d n e
          = ∑ c in Finset.range (min n (E.HRIR_LENGTH - 1) + 1),
              h0.Coeffs c e * inputAt xs ((n : Int) - (c : Int) - (d : Int)) := by
      intro d e
      rw [firOut_taps _ (HRIR_LENGTH_pos E)]
      apply Finset.sum_congr rfl
      intro c _
      congr 1
      unfold inputAt
      by_cases hcd : c + d ≤ n
      · rw [if_pos hcd, if_neg (by omega), if_neg (by omega), Nat.sub_zero]
        congr 1
        omega
      · rw [if_neg hcd, if_pos (by omega)]
    have e1 : h0.cur.OutPos + n - h0.cur.OutPos = n := by omega
    constructor
    · rw [hI.dry, if_pos ⟨by omega, by omega, rfl⟩, if_neg (fun hh => hFL hh.2.2), add_zero, e1,
        hconv]
    · rw [hI.dry, if_neg (fun hh => hFL hh.2.2.symm), if_pos ⟨by omega, by omega, rfl⟩,
        add_zero, e1, hconv]
  · intro r ch hcase
    rw [hI.dry, if_neg, if_neg, add_zero, add_zero]
    · rintro ⟨a1, a2, a3⟩
      rcases hcase with hc | hc | hc
      · omega
      · omega
      · exact hc.2 a3
    · rintro ⟨a1, a2, a3⟩
      rcases hcase with hc | hc | hc
      · omega
      · omega
      · exact hc.1 a3

theorem exSteadyResult_ok :
    forLoop (fun _ => hrtfSteadyStep (exEnv 16384) .point8 { bytes := [127, 0, 0], off := 0 }
      1 16384 0) 2 0 exSteady = .ok exSteadyResult :=
  okOr_of_ok _ _ ⟨_, rfl⟩

/-- C30 at a concrete run: two passes of the steady loop from `exSteady` (taps `1, 2`, left
delay 1, right delay 0) on the unit impulse.  The inputs are the two filtered samples, and
the rows 0 and 1 receive the convolution sums of the claim at `FRONT_LEFT` and
`FRONT_RIGHT`. -/
theorem C30_steady_fir_witness :
    ∃ xs : List ℚ,
      specStream (exEnv 16384) .point8 { bytes := [127, 0, 0], off := 0 } 1 16384 0
          (exEnv 16384).lpFilter2P 2 (0, 0) ()
        = .ok (exSteadyResult.cur.mem.Source.Params.iirFilter, xs) ∧
      xs.length = 2 ∧
      ∀ n, n < 2 →
        exSteadyResult.cur.mem.Device.DryBuffer (0 + n) 0
          = 0 + ∑ c in Finset.range (min n ((exEnv 16384).HRIR_LENGTH - 1) + 1),
                exSteady.Coeffs c 0 * inputAt xs ((n : Int) - (c : Int) - ((1 : Nat) : Int)) ∧
        exSteadyResult.cur.mem.Device.DryBuffer (0 + n) 1
          = 0 + ∑ c in Finset.range (min n ((exEnv 16384).HRIR_LENGTH - 1) + 1),
                exSteady.Coeffs c 1 * inputAt xs ((n : Int) - (c : Int) - ((0 : Nat) : Int)) :=
  have h := C30_steady_fir (exEnv 16384) .point8 { bytes := [127, 0, 0], off := 0 } 1 16384 0 2
    exSteady exSteadyResult (by decide) (by decide) (by decide) (by decide) (by decide)
    (by decide) (by decide) (fun _ => rfl) (fun _ _ => rfl) exSteadyResult_ok
  let ⟨xs, h1, h2, h3, _⟩ := h
  ⟨xs, h1, h2, h3⟩

end SteadyTheorem

/-! ## C23: splitting a mix -/

section SplitCalls

variable {α F : Type} [Add α] [Sub α] [Mul α] [Div α] [IntCast α]

/-- A read that stays inside a window reads the same bytes from every extension of it. -/
theorem read_append {W T : List Nat} {off : Int} {sz : Nat} {e : Int} {v : List Nat}
    (h : SrcPtr.read { bytes := W, off := off } sz e = .ok v) :
    SrcPtr.read { bytes := W ++ T, off := off } sz e = .ok v := by
  unfold SrcPtr.read at h ⊢
  simp only at h ⊢
  split at h
  · next hc =>
    simp only [Except.ok.injEq] at h
    rw [if_pos ⟨hc.1, by rw [List.length_append]; omega⟩]
    congr 1
    rw [← h, List.drop_append_of_le_length (by omega), List.take_append_of_le_length]
    rw [List.length_drop]
    omega
  · simp at h

/-- A kernel that returns on an accessor returns the same on any accessor that extends it. -/
theorem run_mono (E : Env α F) (smp : SamplerId) {v1 v2 : Int → Except Fault (List Nat)}
    (h : ∀ k x, v1 k = .ok x → v2 k = .ok x) (s f : Int) {y : α}
    (hr : smp.run E v1 s f = .ok y) : smp.run E v2 s f = .ok y := by
  cases smp <;> simp only [SamplerId.run, point32, point16, point8, lerp32, lerp16, lerp8,
    cubic32, cubic16, cubic8] at hr ⊢
  all_goals
    split at hr
  all_goals first
    | (simp at hr; done)
    | (rename_i v0 e0; rw [h _ _ e0]; exact hr)
    | (rename_i v0 w1 e0 e1; rw [h _ _ e0, h _ _ e1]; exact hr)
    | (rename_i vm v0 w1 w2 em e0 e1 e2; rw [h _ _ em, h _ _ e0, h _ _ e1, h _ _ e2]; exact hr)

/-- A sample that a window serves is served the same by every extension of the window. -/
theorem sample_append (E : Env α F) (smp : SamplerId) {W T : List Nat} {off : Int}
    {nc pos frac i : Nat} {y : α}
    (h : sample E smp { bytes := W, off := off } nc pos frac i = .ok y) :
    sample E smp { bytes := W ++ T, off := off } nc pos frac i = .ok y := by
  unfold sample at h ⊢
  refine run_mono E smp (fun k x hk => ?_) _ _ h
  unfold elemAt at hk ⊢
  exact read_append hk

/-- Two counted loops run side by side keep a relation between their states that each pair
of passes keeps. -/
theorem forLoop_couple {σ τ : Type} (bA : Nat → σ → Except Fault σ)
    (bB : Nat → τ → Except Fault τ) (R : Nat → σ → τ → Prop)
    (h : ∀ j a b a1 b1, R j a b → bA j a = .ok a1 → bB j b = .ok b1 → R (j + 1) a1 b1) :
    ∀ (n i : Nat) (a : σ) (b : τ) (a1 : σ) (b1 : τ), R i a b →
      forLoop bA n i a = .ok a1 → forLoop bB n i b = .ok b1 → R (i + n) a1 b1 := by
  intro n
  induction n with
  | zero =>
    intro i a b a1 b1 hR hA hB
    simp only [forLoop, Except.ok.injEq] at hA hB
    subst hA
    subst hB
    exact hR
  | succ n ih =>
    intro i a b a1 b1 hR hA hB
    simp only [forLoop] at hA hB
    split at hA
    · next a2 hA2 =>
      split at hB
      · next b2 hB2 =>
        have := ih (i + 1) a2 b2 a1 b1 (h _ _ _ _ _ hR hA2 hB2) hA hB
        rw [show i + (n + 1) = i + 1 + n by omega]
        exact this
      · simp at hB
    · simp at hA

/-- One pass of the dry sample loop on a window and one on an extension of it, from states
that agree below row `lim` at the same phase, leave states that agree below row `lim` at
the same phase. -/
theorem mixDryStep_couple {H : Type} {E : Env α F} {smp : SamplerId} (view : F → Nat → H)
    (hV : ∀ (F1 F2 : F) (i : Nat) (x : α), view F1 i = view F2 i →
      (E.lpFilter2P F1 i x).2 = (E.lpFilter2P F2 i x).2 ∧
      view (E.lpFilter2P F1 i x).1 i = view (E.lpFilter2P F2 i x).1 i)
    (hK : ∀ (Flt : F) (k j : Nat) (x : α), k ≠ j →
      view (E.lpFilter2P Flt j x).1 k = view Flt k)
    {W T : List Nat} {off : Int} {nc inc i lim : Nat} {G : Nat → α} {a b a1 b1 : Cur α F}
    (hR : DryAgree view lim i a b) (hph : a.pos = b.pos ∧ a.frac = b.frac)
    (hA : mixDryStep E smp { bytes := W, off := off } nc inc i G a = .ok a1)
    (hB : mixDryStep E smp { bytes := W ++ T, off := off } nc inc i G b = .ok b1) :
    DryAgree view lim i a1 b1 ∧ a1.pos = b1.pos ∧ a1.frac = b1.frac := by
  obtain ⟨r1, r2, r3, r4⟩ := hR
  unfold mixDryStep at hA hB
  split at hA
  · simp at hA
  · next va hva =>
    have hvb := sample_append E smp (T := T) hva
    rw [hph.1, hph.2] at hvb
    rw [hvb] at hB
    simp only [Except.ok.injEq] at hA hB
    obtain ⟨q1, q2⟩ := hV _ _ i va (r2 i (Nat.le_refl i))
    subst hA
    subst hB
    refine ⟨⟨?_, ?_, ?_, ?_⟩, ?_, ?_⟩
    · intro r hr
      funext ch
      simp only [Cur.advance, Mem.setDryFilter]
      rw [r1 r hr, q1, r4]
    · intro k hk
      simp only [Cur.advance, Mem.setDryFilter]
      by_cases hki : k = i
      · subst hki
        exact q2
      · rw [hK _ _ _ _ hki, hK _ _ _ _ hki]
        exact r2 k hk
    · simp only [Cur.advance, Mem.setDryFilter]
      exact r3
    · simp only [Cur.advance]
      rw [r4]
    · simp only [Cur.advance]
      rw [hph.1, hph.2]
    · simp only [Cur.advance]
      rw [hph.2]

/-- The dry sample loop on a window and the one on an extension of it, run for the same
number of passes from states that agree below row `lim` at the same phase, leave states that
agree below row `lim`. -/
theorem dryLoop_couple {H : Type} {E : Env α F} {smp : SamplerId} (view : F → Nat → H)
    (hV : ∀ (F1 F2 : F) (i : Nat) (x : α), view F1 i = view F2 i →
      (E.lpFilter2P F1 i x).2 = (E.lpFilter2P F2 i x).2 ∧
      view (E.lpFilter2P F1 i x).1 i = view (E.lpFilter2P F2 i x).1 i)
    (hK : ∀ (Flt : F) (k j : Nat) (x : α), k ≠ j →
      view (E.lpFilter2P Flt j x).1 k = view Flt k)
    {W T : List Nat} {off : Int} {nc inc i lim : Nat} {G : Nat → α} (n i0 : Nat)
    {a b a1 b1 : Cur α F}
    (hR : DryAgree view lim i a b) (hph : a.pos = b.pos ∧ a.frac = b.frac)
    (hA : forLoop (fun _ => mixDryStep E smp { bytes := W, off := off } nc inc i G) n i0 a
      = .ok a1)
    (hB : forLoop (fun _ => mixDryStep E smp { bytes := W ++ T, off := off } nc inc i G) n i0 b
      = .ok b1) :
    DryAgree view lim i a1 b1 :=
  (forLoop_couple _ _
    (fun _ (x y : Cur α F) => DryAgree view lim i x y ∧ x.pos = y.pos ∧ x.frac = y.frac)
    (fun j x y x1 y1 h hx hy => mixDryStep_couple view hV hK h.1 h.2 hx hy)
    n i0 a b a1 b1 ⟨hR, hph⟩ hA hB).1

/-- The dry sample loop leaves every row outside the rows it is run for alone, while `OutPos`
does not wrap. -/
theorem dryLoop_outside {E : Env α F} {smp : SamplerId} {data : SrcPtr} {nc inc i : Nat}
    {G : Nat → α} (r : Nat) :
    ∀ (j a i0 : Nat) (s s1 : Cur α F), s.OutPos = u32 a → (r < a ∨ a + j ≤ r) →
      a + j ≤ 4294967296 →
      forLoop (fun _ => mixDryStep E smp data nc inc i G) j i0 s = .ok s1 →
      s1.mem.Device.DryBuffer r = s.mem.Device.DryBuffer r := by
  intro j
  induction j with
  | zero =>
    intro a i0 s s1 ha hr hj h
    simp only [forLoop, Except.ok.injEq] at h
    subst h
    rfl
  | succ j ih =>
    intro a i0 s s1 ha hr hj h
    simp only [forLoop] at h
    split at h
    · next s2 h2 =>
      have ho := mixDryStep_outpos h2
      unfold mixDryStep at h2
      split at h2
      · simp at h2
      · next v hv =>
        simp only [Except.ok.injEq] at h2
        have ho2 : s2.OutPos = u32 (a + 1) := by
          rw [ho, ha]
          unfold u32
          omega
        have hne : ¬ r = s.OutPos := by
          rw [ha, u32_small a (by omega)]
          omega
        rw [ih (a + 1) (i0 + 1) s2 s1 ho2 (by omega) (by omega) h, ← h2]
        funext ch
        simp only [Cur.advance, Mem.setDryFilter]
        rw [if_neg (fun hh => hne hh.1)]
    · simp at h

/-- The parts of one pass of the channel loop of a plain mixer: the leading click block, the
sample loop and the trailing click block. -/
theorem mixDryChannel_parts {E : Env α F} {smp : SamplerId} {data : SrcPtr}
    {nc inc f std n i : Nat} {c c1 : Cur α F}
    (h : mixDryChannel E smp data nc inc f std n i c = .ok c1) :
    ∃ c2 c3 : Cur α F,
      c2.mem.Device.DryBuffer = c.mem.Device.DryBuffer ∧
      c2.mem.Source.Params.iirFilter = c.mem.Source.Params.iirFilter ∧
      c2.mem.fixed = c.mem.fixed ∧
      c2.OutPos = c.OutPos ∧ c2.pos = 0 ∧ c2.frac = f ∧
      forLoop (fun _ => mixDryStep E smp data nc inc i (c.mem.Source.Params.DryGains i)) n 0 c2
        = .ok c3 ∧
      c1.mem.Device.DryBuffer = c3.mem.Device.DryBuffer ∧
      c1.mem.Source.Params.iirFilter = c3.mem.Source.Params.iirFilter ∧
      c1.mem.fixed = c3.mem.fixed := by
  unfold mixDryChannel at h
  simp only at h
  split at h
  · simp at h
  · next c2 h2 =>
    split at h
    · simp at h
    · next c3 h3 =>
      split at h
      · simp at h
      · next c4 h4 =>
        simp only [Except.ok.injEq] at h
        have e2 : c2.mem.Device.DryBuffer = c.mem.Device.DryBuffer ∧
            c2.mem.Source.Params.iirFilter = c.mem.Source.Params.iirFilter ∧
            c2.mem.fixed = c.mem.fixed ∧ c2.OutPos = c.OutPos ∧ c2.pos = 0 ∧ c2.frac = f := by
          split at h2
          · have k1 := mixDryLead_dry h2
            have k2 := mixDryLead_ph h2
            refine ⟨k1.1, k1.2.1, ?_, k1.2.2, congrArg Prod.fst k2, congrArg Prod.snd k2⟩
            rw [mixDryLead_fixed h2]
          · simp only [Except.ok.injEq] at h2
            rw [← h2]
            exact ⟨rfl, rfl, rfl, rfl, rfl, rfl⟩
        have e4 : c4.mem.Device.DryBuffer = c3.mem.Device.DryBuffer ∧
            c4.mem.Source.Params.iirFilter = c3.mem.Source.Params.iirFilter ∧
            c4.mem.fixed = c3.mem.fixed := by
          split at h4
          · have k1 := mixDryTrail_dry h4
            exact ⟨k1.1, k1.2.1, mixDryTrail_fixed h4⟩
          · simp only [Except.ok.injEq] at h4
            rw [← h4]
            exact ⟨rfl, rfl, rfl⟩
        rw [← h]
        exact ⟨c2, c3, e2.1, e2.2.1, e2.2.2.1, e2.2.2.2.1, e2.2.2.2.2.1, e2.2.2.2.2.2, h3,
          e4.1, e4.2.1, e4.2.2⟩

/-- One pass of the dry sample loop for source channel `i` leaves the view of every other
channel on the dry filter alone, when a filter step on one channel does. -/
theorem mixDryStep_view {H : Type} {E : Env α F} {smp : SamplerId} {data : SrcPtr}
    {nc inc i : Nat} {G : Nat → α} {c c1 : Cur α F} (view : F → Nat → H)
    (hK : ∀ (Flt : F) (k j : Nat) (x : α), k ≠ j →
      view (E.lpFilter2P Flt j x).1 k = view Flt k)
    (h : mixDryStep E smp data nc inc i G c = .ok c1) (k : Nat) (hk : k ≠ i) :
    view c1.mem.Source.Params.iirFilter k = view c.mem.Source.Params.iirFilter k := by
  unfold mixDryStep at h
  split at h
  · simp at h
  · simp only [Except.ok.injEq] at h
    rw [← h]
    simp only [Cur.advance, Mem.setDryFilter]
    exact hK _ _ _ _ hk

/-- One pass of the channel loop of a plain mixer on a window for `nA` samples and one on an
extension of the window for at least as many, from states that agree below row
`OutPos + nA`, leave states that agree below that row. -/
theorem mixDryChannel_couple {H : Type} {E : Env α F} {smp : SamplerId} (view : F → Nat → H)
    (hV : ∀ (F1 F2 : F) (i : Nat) (x : α), view F1 i = view F2 i →
      (E.lpFilter2P F1 i x).2 = (E.lpFilter2P F2 i x).2 ∧
      view (E.lpFilter2P F1 i x).1 i = view (E.lpFilter2P F2 i x).1 i)
    (hK : ∀ (Flt : F) (k j : Nat) (x : α), k ≠ j →
      view (E.lpFilter2P Flt j x).1 k = view Flt k)
    {W T : List Nat} {off : Int} {nc inc f stdA stdB nA nB i o : Nat} {a b a1 b1 : Cur α F}
    (hR : DryAgree view (o + nA) i a b) (ho : a.OutPos = o) (ho2 : o < 4294967296)
    (hn : nA ≤ nB) (hb : o + nB ≤ 4294967296)
    (hA : mixDryChannel E smp { bytes := W, off := off } nc inc f stdA nA i a = .ok a1)
    (hB : mixDryChannel E smp { bytes := W ++ T, off := off } nc inc f stdB nB i b = .ok b1) :
    DryAgree view (o + nA) (i + 1) a1 b1 := by
  obtain ⟨r1, r2, r3, r4⟩ := hR
  have hoA := mixDryChannel_outpos hA (by rw [ho]; exact ho2)
  have hoB := mixDryChannel_outpos hB (by rw [← r4, ho]; exact ho2)
  obtain ⟨a2, a3, x1, x2, x3, x4, x5, x6, x7, x8, x9, x10⟩ := mixDryChannel_parts hA
  obtain ⟨b2, b3, y1, y2, y3, y4, y5, y6, y7, y8, y9, y10⟩ := mixDryChannel_parts hB
  rw [← r3, show nB = nA + (nB - nA) by omega] at y7
  obtain ⟨bm, z1, z2⟩ := forLoop_split _ _ _ _ _ _ y7
  have hR2 : DryAgree view (o + nA) i a2 b2 := by
    refine ⟨fun r hr => ?_, fun k hk => ?_, ?_, ?_⟩
    · rw [x1, y1]
      exact r1 r hr
    · rw [x2, y2]
      exact r2 k hk
    · have e1 := congrArg Fixed.DryGains x3
      have e2 := congrArg Fixed.DryGains y3
      exact e1.trans (r3.trans e2.symm)
    · rw [x4, y4]
      exact r4
  obtain ⟨s1, s2, s3, s4⟩ := dryLoop_couple view hV hK nA 0 hR2 ⟨x5.trans y5.symm, x6.trans y6.symm⟩
    x7 z1
  have hbm : bm.OutPos = u32 (o + nA) := by
    rw [s4.symm, forLoop_outpos _ Cur.OutPos (fun _ _ hb => mixDryStep_outpos hb) _ _ _ _
      (by rw [x4, ho]; exact ho2) x7, x4, ho]
  have hrow : ∀ r, r < o + nA → b3.mem.Device.DryBuffer r = bm.mem.Device.DryBuffer r :=
    fun r hr => (dryLoop_rows r (nB - nA) (o + nA) _ bm b3 hbm hr (by omega) z2).1
  have hview : ∀ k, k ≠ i →
      view b3.mem.Source.Params.iirFilter k = view bm.mem.Source.Params.iirFilter k :=
    fun k hk => forLoop_inv _
      (fun s : Cur α F => view s.mem.Source.Params.iirFilter k
        = view bm.mem.Source.Params.iirFilter k)
      (fun _ s t hs hb => (mixDryStep_view view hK hb k hk).trans hs) _ _ _ _ rfl z2
  have hfix : b3.mem.fixed = bm.mem.fixed :=
    forLoop_inv _ (fun s : Cur α F => s.mem.fixed = bm.mem.fixed)
      (fun _ s t hs hb => (mixDryStep_fixed hb).trans hs) _ _ _ _ rfl z2
  refine ⟨fun r hr => ?_, fun k hk => ?_, ?_, ?_⟩
  · rw [x8, y8, hrow r hr]
    exact s1 r hr
  · rw [x9, y9, hview k (by omega)]
    exact s2 k (by omega)
  · have e1 := congrArg Fixed.DryGains x10
    have e2 := congrArg Fixed.DryGains y10
    have e3 := congrArg Fixed.DryGains hfix
    exact e1.trans (s3.trans (e3.symm.trans e2.symm))
  · rw [hoA, hoB]
    exact r4

/-- A plain mixer call is its dry channel loop followed by the sends, which leave the dry
buffer alone. -/
theorem Mix_dry_parts {E : Env α F} {smp : SamplerId} {m : Mem α F} {data : SrcPtr}
    {p f o std n : Nat} {res : MixResult α F}
    (e : Mix E smp m data p f o std n = .ok res) :
    ∃ c1, forLoop (mixDryChannel E smp data m.Source.NumChannels m.Source.Params.Step f std n)
        m.Source.NumChannels 0 { mem := m, pos := 0, frac := f, OutPos := o } = .ok c1 ∧
      res.mem.Device = c1.mem.Device := by
  unfold Mix at e
  simp only at e
  split at e
  · simp at e
  · next c1 e1 =>
    split at e
    · simp at e
    · next c2 e2 =>
      simp only [Except.ok.injEq] at e
      have k := forLoop_inv _ (fun s : Cur α F => s.mem.Device = c1.mem.Device)
        (fun j s s1 hs hb => (mixSend_dry hb).1.trans hs) _ _ _ _ rfl e2
      refine ⟨c1, e1, ?_⟩
      rw [← e]
      exact k

/-- A plain mixer call on a window for `nA` samples and one on an extension of the window for
at least as many samples, from the same memory at the same phase, leave the same rows of the
dry buffer below `OutPos + nA`. -/
theorem Mix_couple {H : Type} {E : Env α F} {smp : SamplerId} (view : F → Nat → H)
    (hV : ∀ (F1 F2 : F) (i : Nat) (x : α), view F1 i = view F2 i →
      (E.lpFilter2P F1 i x).2 = (E.lpFilter2P F2 i x).2 ∧
      view (E.lpFilter2P F1 i x).1 i = view (E.lpFilter2P F2 i x).1 i)
    (hK : ∀ (Flt : F) (k j : Nat) (x : α), k ≠ j →
      view (E.lpFilter2P Flt j x).1 k = view Flt k)
    {m : Mem α F} {W T : List Nat} {off : Int} {pA pB f o stdA stdB nA nB : Nat}
    {resA resB : MixResult α F} (ho : o < 4294967296) (hn : nA ≤ nB)
    (hb : o + nB ≤ 4294967296)
    (hA : Mix E smp m { bytes := W, off := off } pA f o stdA nA = .ok resA)
    (hB : Mix E smp m { bytes := W ++ T, off := off } pB f o stdB nB = .ok resB) (r : Nat)
    (hr : r < o + nA) :
    resA.mem.Device.DryBuffer r = resB.mem.Device.DryBuffer r := by
  obtain ⟨cA, lA, dA⟩ := Mix_dry_parts hA
  obtain ⟨cB, lB, dB⟩ := Mix_dry_parts hB
  have key := forLoop_couple _ _
    (fun j (x y : Cur α F) => DryAgree view (o + nA) j x y ∧ x.OutPos = o)
    (fun j x y x1 y1 h hx hy =>
      ⟨mixDryChannel_couple view hV hK h.1 h.2 ho hn hb hx hy,
        (mixDryChannel_outpos hx (by rw [h.2]; exact ho)).trans h.2⟩)
    _ _ _ _ _ _ ⟨⟨fun _ _ => rfl, fun _ _ => rfl, rfl, rfl⟩, rfl⟩ lA lB
  rw [dA, dB]
  exact key.1.1 r hr

/-- One pass of the channel loop of a plain mixer leaves every row of the dry buffer outside
the rows from `OutPos` to `OutPos + BufferSize` alone. -/
theorem mixDryChannel_outside {E : Env α F} {smp : SamplerId} {data : SrcPtr}
    {nc inc f std n i o : Nat} {c c1 : Cur α F} (ho : c.OutPos = o) (hb : o + n ≤ 4294967296)
    (ho2 : o < 4294967296)
    (h : mixDryChannel E smp data nc inc f std n i c = .ok c1) (r : Nat)
    (hr : r < o ∨ o + n ≤ r) :
    c1.mem.Device.DryBuffer r = c.mem.Device.DryBuffer r := by
  obtain ⟨a2, a3, x1, x2, x3, x4, x5, x6, x7, x8, x9, x10⟩ := mixDryChannel_parts h
  rw [x8, dryLoop_outside r n o 0 a2 a3 (by rw [x4, ho, u32_small o ho2]) hr hb x7, x1]

/-- A plain mixer call leaves every row of the dry buffer outside the rows from `OutPos` to
`OutPos + BufferSize` alone. -/
theorem Mix_outside {E : Env α F} {smp : SamplerId} {m : Mem α F} {data : SrcPtr}
    {p f o std n : Nat} {res : MixResult α F} (ho : o < 4294967296) (hb : o + n ≤ 4294967296)
    (h : Mix E smp m data p f o std n = .ok res) (r : Nat) (hr : r < o ∨ o + n ≤ r) :
    res.mem.Device.DryBuffer r = m.Device.DryBuffer r := by
  obtain ⟨c1, l1, d1⟩ := Mix_dry_parts h
  have key := forLoop_inv _
    (fun s : Cur α F => s.mem.Device.DryBuffer r = m.Device.DryBuffer r ∧ s.OutPos = o)
    (fun j s s1 hs hb1 =>
      ⟨(mixDryChannel_outside hs.2 hb ho hb1 r hr).trans hs.1,
        (mixDryChannel_outpos hb1 (by rw [hs.2]; exact ho)).trans hs.2⟩)
    _ _ _ _ ⟨rfl, rfl⟩ l1
  rw [d1]
  exact key.1

end SplitCalls
section SplitWindow

/-- Side by side, the windows are such that the second extends the first. -/
theorem Grows.ext {S1 S2 : List Nat} {B1 B2 : Nat} (h : Grows S1 B1 S2 B2) :
    ∃ T, S2 = S1 ++ T := by
  rcases h with ⟨h, -⟩ | ⟨-, h⟩
  · exact ⟨[], by rw [h, List.append_nil]⟩
  · exact h

/-- Copying up to `c` bytes of `X` into both windows, as far as each request allows, keeps
them side by side. -/
theorem Grows.copy {S1 S2 : List Nat} {B1 B2 : Nat} (h : Grows S1 B1 S2 B2) (X : List Nat)
    (c : Nat) :
    Grows (S1 ++ X.take (min B1 c)) (B1 - min B1 c) (S2 ++ X.take (min B2 c))
      (B2 - min B2 c) := by
  rcases h with ⟨h, hB⟩ | ⟨h0, T, hT⟩
  · subst h
    by_cases hc : min B1 c = min B2 c
    · left
      rw [hc]
      exact ⟨rfl, by omega⟩
    · right
      have h1 : min B1 c = B1 := by omega
      have h2 : B1 ≤ min B2 c := by omega
      refine ⟨by omega, (X.take (min B2 c)).drop B1, ?_⟩
      rw [h1, List.append_assoc]
      congr 1
      have : X.take B1 = (X.take (min B2 c)).take B1 := by
        rw [List.take_take, Nat.min_eq_left h2]
      rw [this, List.take_append_drop]
  · right
    subst h0
    refine ⟨by omega, T ++ X.take (min B2 c), ?_⟩
    rw [hT]
    simp

/-- Filling what is left of both windows with zeros leaves the second an extension of the
first. -/
theorem Grows.fill {S1 S2 : List Nat} {B1 B2 : Nat} (h : Grows S1 B1 S2 B2) :
    ∃ T, memset S2 B2 = memset S1 B1 ++ T := by
  rcases h with ⟨h, hB⟩ | ⟨h0, T, hT⟩
  · subst h
    refine ⟨List.replicate (B2 - B1) 0, ?_⟩
    unfold memset
    rw [List.append_assoc]
    congr 1
    rw [← List.replicate_add]
    congr 1
    omega
  · subst h0
    refine ⟨T ++ List.replicate B2 0, ?_⟩
    unfold memset
    rw [hT]
    simp

/-- The call `memcpy` as a copy of the first bytes of the rest of `Data`. -/
theorem memcpy_take {S Data : List Nat} {pos n : Nat} {R : List Nat}
    (h : memcpy S Data pos n = .ok R) : R = S ++ (Data.drop pos).take n := by
  unfold memcpy at h
  split at h
  · simp only [Except.ok.injEq] at h
    exact h.symm
  · simp at h

/-- The call `memset` as a copy of the first zeros of a run of zeros. -/
theorem memset_take (S : List Nat) (B Z : Nat) :
    memset S (min B Z) = S ++ (List.replicate Z 0).take (min B Z) := by
  unfold memset
  rw [List.take_replicate, Nat.min_eq_left (Nat.min_le_right _ _)]

/-- The tiling loop only appends to the window. -/
theorem tileLoop_extends {Data : List Nat} {start : Nat} :
    ∀ (fuel : Nat) (S : List Nat) (B D : Nat) (R : List Nat),
      tileLoop Data start fuel S B D = .ok R → ∃ T, R = S ++ T := by
  intro fuel
  induction fuel with
  | zero =>
    intro S B D R h
    simp [tileLoop] at h
  | succ fuel ih =>
    intro S B D R h
    unfold tileLoop at h
    split at h
    · split at h
      · simp at h
      · next S1 h1 =>
        obtain ⟨T, hT⟩ := ih _ _ _ _ h
        refine ⟨(Data.drop start).take (min B D) ++ T, ?_⟩
        rw [hT, memcpy_take h1, List.append_assoc]
    · simp only [Except.ok.injEq] at h
      exact ⟨[], by rw [h, List.append_nil]⟩

/-- The tiling loop run side by side for two requests leaves the window of the larger
request an extension of the other. -/
theorem tileLoop_grows {Data : List Nat} {start : Nat} :
    ∀ (fuel : Nat) (S1 S2 : List Nat) (B1 B2 D1 D2 : Nat) (R1 R2 : List Nat),
      Grows S1 B1 S2 B2 → (B1 ≠ 0 → D1 = D2) →
      tileLoop Data start fuel S1 B1 D1 = .ok R1 →
      tileLoop Data start fuel S2 B2 D2 = .ok R2 → ∃ T, R2 = R1 ++ T := by
  intro fuel
  induction fuel with
  | zero =>
    intro S1 S2 B1 B2 D1 D2 R1 R2 hG hD h1 h2
    simp [tileLoop] at h1
  | succ fuel ih =>
    intro S1 S2 B1 B2 D1 D2 R1 R2 hG hD h1 h2
    by_cases hB : 0 < B1
    · rcases hG with ⟨hS, hle⟩ | ⟨h0, -⟩
      · subst hS
        have hDD := hD (by omega)
        subst hDD
        unfold tileLoop at h1 h2
        rw [if_pos hB] at h1
        rw [if_pos (by omega)] at h2
        split at h1
        · simp at h1
        · next X1 e1 =>
          split at h2
          · simp at h2
          · next X2 e2 =>
            have hG2 := Grows.copy (Or.inl ⟨rfl, hle⟩ : Grows S1 B1 S1 B2) (Data.drop start) D1
            rw [← memcpy_take e1, ← memcpy_take e2] at hG2
            exact ih _ _ _ _ _ _ _ _ hG2 (fun hne => by omega) h1 h2
      · omega
    · obtain ⟨T2, hT2⟩ := tileLoop_extends _ _ _ _ _ h2
      obtain ⟨T, hT⟩ := hG.ext
      unfold tileLoop at h1
      rw [if_neg hB] at h1
      simp only [Except.ok.injEq] at h1
      refine ⟨T ++ T2, ?_⟩
      rw [hT2, hT, ← h1, List.append_assoc]

/-- The forward crawl only appends to the window. -/
theorem fwdLoop_extends (q : Queue) (Lp : Bool) :
    ∀ (fuel : Nat) (it : Option Nat) (pos : Nat) (S : List Nat) (B : Nat) (R : List Nat),
      fwdLoop q Lp fuel it pos S B = .ok R → ∃ T, R = S ++ T := by
  intro fuel
  induction fuel with
  | zero =>
    intro it pos S B R h
    simp [fwdLoop] at h
  | succ fuel ih =>
    intro it pos S B R h
    unfold fwdLoop at h
    split at h
    · simp only [Except.ok.injEq] at h
      exact ⟨[], by rw [h, List.append_nil]⟩
    · next i =>
      split at h
      · simp only at h
        split at h
        · simp at h
        · next pos1 X1 C1 hc =>
          have hX : ∃ T, X1 = S ++ T := by
            split at hc
            · simp only [Except.ok.injEq, Prod.mk.injEq] at hc
              exact ⟨[], by rw [hc.2.1, List.append_nil]⟩
            · split at hc
              · simp only [Except.ok.injEq, Prod.mk.injEq] at hc
                exact ⟨[], by rw [hc.2.1, List.append_nil]⟩
              · split at hc
                · simp at hc
                · next Y hY =>
                  simp only [Except.ok.injEq, Prod.mk.injEq] at hc
                  rw [← hc.2.1]
                  exact ⟨_, memcpy_take hY⟩
          obtain ⟨T1, hT1⟩ := hX
          split at h
          · obtain ⟨T, hT⟩ := ih _ _ _ _ _ h
            exact ⟨T1 ++ T, by rw [hT, hT1, List.append_assoc]⟩
          · split at h
            · obtain ⟨T, hT⟩ := ih _ _ _ _ _ h
              exact ⟨T1 ++ T, by rw [hT, hT1, List.append_assoc]⟩
            · simp only [Except.ok.injEq] at h
              refine ⟨T1 ++ List.replicate C1 0, ?_⟩
              rw [← h, hT1]
              simp [memset]
      · simp only [Except.ok.injEq] at h
        exact ⟨[], by rw [h, List.append_nil]⟩

/-- The forward crawl run side by side for two requests leaves the window of the larger
request an extension of the other. -/
theorem fwdLoop_grows (q : Queue) (Lp : Bool) :
    ∀ (fuel : Nat) (it : Option Nat) (pos : Nat) (S1 S2 : List Nat) (B1 B2 : Nat)
      (R1 R2 : List Nat), Grows S1 B1 S2 B2 →
      fwdLoop q Lp fuel it pos S1 B1 = .ok R1 →
      fwdLoop q Lp fuel it pos S2 B2 = .ok R2 → ∃ T, R2 = R1 ++ T := by
  intro fuel
  induction fuel with
  | zero =>
    intro it pos S1 S2 B1 B2 R1 R2 hG h1 h2
    simp [fwdLoop] at h1
  | succ fuel ih =>
    intro it pos S1 S2 B1 B2 R1 R2 hG h1 h2
    by_cases hB : it.isSome ∧ 0 < B1
    · obtain ⟨i, hi⟩ := Option.isSome_iff_exists.1 hB.1
      subst hi
      rcases hG with ⟨hS, hle⟩ | ⟨h0, -⟩
      · subst hS
        unfold fwdLoop at h1 h2
        simp only at h1 h2
        rw [if_pos hB.2] at h1
        rw [if_pos (by omega)] at h2
        split at h1
        · simp at h1
        · next p1 X1 C1 hc1 =>
          split at h2
          · simp at h2
          · next p2 X2 C2 hc2 =>
            have key : p1 = p2 ∧ Grows X1 C1 X2 C2 := by
              cases hb : itemBuffer q i with
              | none =>
                simp only [hb, Except.ok.injEq, Prod.mk.injEq] at hc1 hc2
                rw [← hc1.1, ← hc1.2.1, ← hc1.2.2, ← hc2.1, ← hc2.2.1, ← hc2.2.2]
                exact ⟨rfl, Or.inl ⟨rfl, hle⟩⟩
              | some b =>
                simp only [hb] at hc1 hc2
                by_cases hsz : b.size ≤ pos
                · rw [if_pos hsz] at hc1 hc2
                  simp only [Except.ok.injEq, Prod.mk.injEq] at hc1 hc2
                  rw [← hc1.1, ← hc1.2.1, ← hc1.2.2, ← hc2.1, ← hc2.2.1, ← hc2.2.2]
                  exact ⟨rfl, Or.inl ⟨rfl, hle⟩⟩
                · rw [if_neg hsz] at hc1 hc2
                  split at hc1
                  · simp at hc1
                  · next Y1 hY1 =>
                    split at hc2
                    · simp at hc2
                    · next Y2 hY2 =>
                      simp only [Except.ok.injEq, Prod.mk.injEq] at hc1 hc2
                      rw [← hc1.1, ← hc1.2.1, ← hc1.2.2, ← hc2.1, ← hc2.2.1, ← hc2.2.2,
                        memcpy_take hY1, memcpy_take hY2]
                      exact ⟨rfl, Grows.copy (Or.inl ⟨rfl, hle⟩) _ _⟩
            obtain ⟨hp, hG2⟩ := key
            subst hp
            cases hnx : itemNext q i with
            | some nx =>
              simp only [hnx] at h1 h2
              exact ih _ _ _ _ _ _ _ _ hG2 h1 h2
            | none =>
              simp only [hnx] at h1 h2
              by_cases hL : Lp = true
              · rw [if_pos hL] at h1 h2
                exact ih _ _ _ _ _ _ _ _ hG2 h1 h2
              · rw [if_neg hL] at h1 h2
                simp only [Except.ok.injEq] at h1 h2
                rw [← h1, ← h2]
                exact hG2.fill
      · omega
    · obtain ⟨T2, hT2⟩ := fwdLoop_extends q Lp _ _ _ _ _ _ h2
      obtain ⟨T, hT⟩ := hG.ext
      have e1 : R1 = S1 := by
        unfold fwdLoop at h1
        split at h1
        · simp only [Except.ok.injEq] at h1
          exact h1.symm
        · next i =>
          rw [if_neg (fun hh => hB ⟨rfl, hh⟩)] at h1
          simp only [Except.ok.injEq] at h1
          exact h1.symm
      refine ⟨T ++ T2, ?_⟩
      rw [hT2, hT, e1, List.append_assoc]

/-- The backward crawl run side by side for two requests reaches the same item and offset
and keeps the windows side by side. -/
theorem backLoop_grows (q : Queue) (Lp : Bool) :
    ∀ (fuel it pos : Nat) (S1 S2 : List Nat) (B1 B2 : Nat) (r1 r2 : Nat × Nat × List Nat × Nat),
      Grows S1 B1 S2 B2 →
      backLoop q Lp fuel it pos S1 B1 = .ok r1 →
      backLoop q Lp fuel it pos S2 B2 = .ok r2 →
      r1.1 = r2.1 ∧ r1.2.1 = r2.2.1 ∧ Grows r1.2.2.1 r1.2.2.2 r2.2.2.1 r2.2.2.2 := by
  intro fuel
  induction fuel with
  | zero =>
    intro it pos S1 S2 B1 B2 r1 r2 hG h1 h2
    simp [backLoop] at h1
  | succ fuel ih =>
    intro it pos S1 S2 B1 B2 r1 r2 hG h1 h2
    unfold backLoop at h1 h2
    split at h1
    · next hpos =>
      rw [if_pos hpos] at h2
      split at h1
      · next hhead =>
        rw [if_pos hhead] at h2
        simp only [Except.ok.injEq] at h1 h2
        rw [← h1, ← h2]
        refine ⟨rfl, rfl, ?_⟩
        simp only
        rw [memset_take, memset_take]
        exact hG.copy _ _
      · next hhead =>
        rw [if_neg hhead] at h2
        simp only at h1 h2
        split at h1
        · next b hb =>
          simp only [hb] at h2
          split at h1
          · next hlt =>
            rw [if_pos hlt] at h2
            simp only [Except.ok.injEq] at h1 h2
            rw [← h1, ← h2]
            exact ⟨rfl, rfl, hG⟩
          · next hlt =>
            rw [if_neg hlt] at h2
            exact ih _ _ _ _ _ _ _ _ hG h1 h2
        · next hb =>
          simp only [hb] at h2
          exact ih _ _ _ _ _ _ _ _ hG h1 h2
    · next hpos =>
      rw [if_neg hpos] at h2
      simp only [Except.ok.injEq] at h1 h2
      rw [← h1, ← h2]
      exact ⟨rfl, rfl, hG⟩

/-- The window of a source that is not static, assembled for two requests: the larger
window extends the smaller. -/
theorem assembleStream_grows {fuel : Nat} {q : Queue} {Lp : Bool} {item : Option Nat}
    {p pre FS B1 B2 : Nat} {S1 S2 : List Nat} (hB : B1 ≤ B2)
    (h1 : assembleStream fuel q Lp item p pre FS B1 = .ok S1)
    (h2 : assembleStream fuel q Lp item p pre FS B2 = .ok S2) : ∃ T, S2 = S1 ++ T := by
  unfold assembleStream at h1 h2
  by_cases hp : pre ≤ p
  · rw [if_pos hp] at h1 h2
    exact fwdLoop_grows q Lp _ _ _ _ _ _ _ _ _ (Or.inl ⟨rfl, hB⟩) h1 h2
  · rw [if_neg hp] at h1 h2
    cases item with
    | none => simp at h1
    | some it =>
      simp only at h1 h2
      split at h1
      · simp at h1
      · next I1 p1 X1 C1 e1 =>
        split at h2
        · simp at h2
        · next I2 p2 X2 C2 e2 =>
          obtain ⟨k1, k2, k3⟩ := backLoop_grows q Lp _ _ _ _ _ _ _ _ _ (Or.inl ⟨rfl, hB⟩) e1 e2
          simp only at k1 k2 k3
          subst k1
          subst k2
          exact fwdLoop_grows q Lp _ _ _ _ _ _ _ _ _ k3 h1 h2

/-- The window of a static source, assembled for two requests: the larger window extends the
smaller. -/
theorem assembleStatic_grows {fuel : Nat} {b : ALbuffer} {Lp : Bool}
    {p pre FS B1 B2 : Nat} {S1 S2 : List Nat} {L1 L2 : Bool} (hB : B1 ≤ B2)
    (h1 : assembleStatic fuel b Lp p pre FS B1 = .ok (S1, L1))
    (h2 : assembleStatic fuel b Lp p pre FS B2 = .ok (S2, L2)) : ∃ T, S2 = S1 ++ T := by
  unfold assembleStatic at h1 h2
  by_cases hc : Lp = false ∨ b.LoopEnd ≤ p
  · rw [if_pos hc] at h1 h2
    simp only at h1 h2
    have hG0 : Grows (if pre ≤ p then [] else memset [] (min B1 (u32 ((pre - p) * FS))))
        (if pre ≤ p then B1 else B1 - min B1 (u32 ((pre - p) * FS)))
        (if pre ≤ p then [] else memset [] (min B2 (u32 ((pre - p) * FS))))
        (if pre ≤ p then B2 else B2 - min B2 (u32 ((pre - p) * FS))) := by
      by_cases hp : pre ≤ p
      · simp only [if_pos hp]
        exact Or.inl ⟨rfl, hB⟩
      · simp only [if_neg hp]
        rw [memset_take, memset_take]
        exact Grows.copy (Or.inl ⟨rfl, hB⟩) _ _
    split at h1
    · simp at h1
    · next X1 e1 =>
      split at h2
      · simp at h2
      · next X2 e2 =>
        simp only [Except.ok.injEq, Prod.mk.injEq] at h1 h2
        rw [← h1.1, ← h2.1]
        have hG1 := hG0.copy (b.data.drop
          (if pre ≤ p then u32 ((p - pre) * FS) else 0))
          (usub b.size (if pre ≤ p then u32 ((p - pre) * FS) else 0))
        rw [← memcpy_take e1, ← memcpy_take e2] at hG1
        exact hG1.fill
  · rw [if_neg hc] at h1 h2
    simp only at h1 h2
    have hG0 : Grows
        (if ¬ b.LoopStart ≤ p ∧ ¬ pre ≤ p then memset [] (min B1 (u32 ((pre - p) * FS))) else [])
        (if ¬ b.LoopStart ≤ p ∧ ¬ pre ≤ p then B1 - min B1 (u32 ((pre - p) * FS)) else B1)
        (if ¬ b.LoopStart ≤ p ∧ ¬ pre ≤ p then memset [] (min B2 (u32 ((pre - p) * FS))) else [])
        (if ¬ b.LoopStart ≤ p ∧ ¬ pre ≤ p then B2 - min B2 (u32 ((pre - p) * FS)) else B2) := by
      by_cases hp : ¬ b.LoopStart ≤ p ∧ ¬ pre ≤ p
      · simp only [if_pos hp]
        rw [memset_take, memset_take]
        exact Grows.copy (Or.inl ⟨rfl, hB⟩) _ _
      · simp only [if_neg hp]
        exact Or.inl ⟨rfl, hB⟩
    split at h1
    · simp at h1
    · next pos epos =>
      rw [epos] at h2
      simp only at h2
      split at h1
      · simp at h1
      · next X1 e1 =>
        split at h2
        · simp at h2
        · next X2 e2 =>
          split at h1
          · simp at h1
          · next R1 t1 =>
            split at h2
            · simp at h2
            · next R2 t2 =>
              simp only [Except.ok.injEq, Prod.mk.injEq] at h1 h2
              rw [← h1.1, ← h2.1]
              have hG1 := hG0.copy (b.data.drop pos) (usub (u32 (b.LoopEnd * FS)) pos)
              rw [← memcpy_take e1, ← memcpy_take e2] at hG1
              exact tileLoop_grows _ _ _ _ _ _ _ _ _ hG1 (fun _ => rfl) t1 t2

end SplitWindow

section SplitAssemble

variable {α F : Type}

/-- The window of one iteration, assembled for two requests: the larger window extends the
smaller, and the local `Looping` comes out the same. -/
theorem assemble_grows {fuel : Nat} {Source : ALsource α F} {Lp : Bool} {item : Option Nat}
    {p pre FS B1 B2 : Nat} {S1 S2 : List Nat} {L1 L2 : Bool} (hB : B1 ≤ B2)
    (h1 : assemble fuel Source Lp item p pre FS B1 = .ok (S1, L1))
    (h2 : assemble fuel Source Lp item p pre FS B2 = .ok (S2, L2)) : ∃ T, S2 = S1 ++ T := by
  unfold assemble at h1 h2
  by_cases hs : Source.lSourceType = .AL_STATIC
  · rw [if_pos hs] at h1 h2
    split at h1
    · simp at h1
    · simp at h1
    · next b rest hq =>
      rw [hq] at h2
      exact assembleStatic_grows hB h1 h2
  · rw [if_neg hs] at h1 h2
    split at h1
    · simp at h1
    · next X1 e1 =>
      split at h2
      · simp at h2
      · next X2 e2 =>
        simp only [Except.ok.injEq, Prod.mk.injEq] at h1 h2
        rw [← h1.1, ← h2.1]
        exact assembleStream_grows hB e1 e2

end SplitAssemble
section SplitSame

variable {α F : Type} [Add α] [Sub α] [Mul α] [Div α] [IntCast α]

/-- Two counted loops whose bodies agree on the states that satisfy an invariant of the first
agree on such a state. -/
theorem forLoop_congr {σ : Type} (bA bB : Nat → σ → Except Fault σ) (P : σ → Prop)
    (h : ∀ j s, P s → bA j s = bB j s) (hP : ∀ j s s1, P s → bA j s = .ok s1 → P s1) :
    ∀ (n i : Nat) (s : σ), P s → forLoop bA n i s = forLoop bB n i s := by
  intro n
  induction n with
  | zero =>
    intro i s hs
    rfl
  | succ n ih =>
    intro i s hs
    simp only [forLoop]
    rw [← h i s hs]
    cases hb : bA i s with
    | error e => rfl
    | ok s1 => exact ih _ _ (hP _ _ _ hs hb)

/-- One pass of the channel loop of a plain mixer does not depend on `SamplesToDo` when the
call does not end the block. -/
theorem mixDryChannel_std {E : Env α F} {smp : SamplerId} {data : SrcPtr}
    {nc inc f n i o : Nat} (s1 s2 : Nat) {c : Cur α F} (ho : c.OutPos = o)
    (hb : o + n < 4294967296) (h1 : o + n ≠ s1) (h2 : o + n ≠ s2) :
    mixDryChannel E smp data nc inc f s1 n i c = mixDryChannel E smp data nc inc f s2 n i c := by
  unfold mixDryChannel
  simp only
  cases hl : (if c.OutPos = 0 then
      mixDryLead E smp data nc i (c.mem.Source.Params.DryGains i)
        { mem := c.mem, pos := 0, frac := f, OutPos := c.OutPos }
    else Except.ok { mem := c.mem, pos := 0, frac := f, OutPos := c.OutPos }) with
  | error e => rfl
  | ok c1 =>
    simp only
    have e1 : c1.OutPos = o := by
      split at hl
      · exact (mixDryLead_dry hl).2.2.trans ho
      · simp only [Except.ok.injEq] at hl
        rw [← hl]
        exact ho
    cases hf : forLoop (fun _ => mixDryStep E smp data nc inc i (c.mem.Source.Params.DryGains i))
        n 0 c1 with
    | error e => rfl
    | ok c2 =>
      simp only
      have e2 : c2.OutPos = o + n := by
        rw [forLoop_outpos _ Cur.OutPos (fun _ _ hb => mixDryStep_outpos hb) _ _ _ _
          (by rw [e1]; omega) hf, e1]
        exact u32_small _ hb
      rw [if_neg (by rw [e2]; exact h1), if_neg (by rw [e2]; exact h2)]

/-- One pass of the channel loop of a send does not depend on `SamplesToDo` when the call
does not end the block. -/
theorem mixWetChannel_std {E : Env α F} {smp : SamplerId} {data : SrcPtr}
    {nc inc f n out a i o : Nat} (s1 s2 : Nat) {c : Cur α F} (ho : c.OutPos = o)
    (hb : o + n < 4294967296) (h1 : o + n ≠ s1) (h2 : o + n ≠ s2) :
    mixWetChannel E smp data nc inc f s1 n out a i c
      = mixWetChannel E smp data nc inc f s2 n out a i c := by
  unfold mixWetChannel
  simp only
  cases hl : (if c.OutPos = 0 then
      mixWetLead E smp data nc out a i
        { mem := c.mem, pos := 0, frac := f, OutPos := c.OutPos }
    else Except.ok { mem := c.mem, pos := 0, frac := f, OutPos := c.OutPos }) with
  | error e => rfl
  | ok c1 =>
    simp only
    have e1 : c1.OutPos = o := by
      split at hl
      · exact (mixWetClick_outpos (Or.inl hl)).trans ho
      · simp only [Except.ok.injEq] at hl
        rw [← hl]
        exact ho
    cases hf : forLoop (fun _ => mixWetStep E smp data nc inc out a i) n 0 c1 with
    | error e => rfl
    | ok c2 =>
      simp only
      have e2 : c2.OutPos = o + n := by
        rw [forLoop_outpos _ Cur.OutPos (fun _ _ hb => mixWetStep_outpos hb) _ _ _ _
          (by rw [e1]; omega) hf, e1]
        exact u32_small _ hb
      rw [if_neg (by rw [e2]; exact h1), if_neg (by rw [e2]; exact h2)]

/-- The pass of a send does not depend on `SamplesToDo` when the call does not end the
block. -/
theorem mixSend_std {E : Env α F} {smp : SamplerId} {data : SrcPtr}
    {nc inc f n out o : Nat} (s1 s2 : Nat) {c : Cur α F} (ho : c.OutPos = o)
    (hb : o + n < 4294967296) (h1 : o + n ≠ s1) (h2 : o + n ≠ s2) :
    mixSend E smp data nc inc f s1 n out c = mixSend E smp data nc inc f s2 n out c := by
  unfold mixSend
  split
  · rfl
  · split
    · rfl
    · exact forLoop_congr _ _ (fun s : Cur α F => s.OutPos = o)
        (fun j s hs => mixWetChannel_std s1 s2 hs hb h1 h2)
        (fun j s t hs hb1 => (mixWetChannel_outpos hb1 (by rw [hs]; omega)).trans hs) _ _ _ ho

/-- A plain mixer call does not depend on `SamplesToDo` when it does not end the block. -/
theorem Mix_std {E : Env α F} {smp : SamplerId} {m : Mem α F} {data : SrcPtr}
    {p f o n : Nat} (s1 s2 : Nat) (hb : o + n < 4294967296) (h1 : o + n ≠ s1)
    (h2 : o + n ≠ s2) :
    Mix E smp m data p f o s1 n = Mix E smp m data p f o s2 n := by
  unfold Mix
  simp only
  rw [forLoop_congr _ (mixDryChannel E smp data m.Source.NumChannels m.Source.Params.Step f s2 n)
    (fun s : Cur α F => s.OutPos = o)
    (fun j s hs => mixDryChannel_std s1 s2 hs hb h1 h2)
    (fun j s t hs hb1 => (mixDryChannel_outpos hb1 (by rw [hs]; omega)).trans hs) _ _ _ rfl]
  cases hd : forLoop (mixDryChannel E smp data m.Source.NumChannels m.Source.Params.Step f s2 n)
      m.Source.NumChannels 0 { mem := m, pos := 0, frac := f, OutPos := o } with
  | error e => rfl
  | ok c1 =>
    simp only
    have e1 : c1.OutPos = o :=
      forLoop_inv _ (fun s : Cur α F => s.OutPos = o)
        (fun j s t hs hb1 => (mixDryChannel_outpos hb1 (by rw [hs]; omega)).trans hs)
        _ _ _ _ rfl hd
    rw [forLoop_congr _ (mixSend E smp data m.Source.NumChannels m.Source.Params.Step f s2 n)
      (fun s : Cur α F => s.OutPos = o)
      (fun j s hs => mixSend_std s1 s2 hs hb h1 h2)
      (fun j s t hs hb1 => (mixSend_outpos hb1 (by rw [hs]; omega)).trans hs) _ _ _ e1]

end SplitSame
section SplitCount

/-- The window of an iteration grows with `SamplesToDo`. -/
theorem iterFrames_mono (STACK FS o inc f pre post : Nat) {std1 std2 : Nat} (h : std1 ≤ std2) :
    iterFrames STACK FS std1 o inc f pre post ≤ iterFrames STACK FS std2 o inc f pre post := by
  unfold iterFrames
  have h1 : (std1 - o + 1) * inc ≤ (std2 - o + 1) * inc := Nat.mul_le_mul_right _ (by omega)
  have h2 : ((std1 - o + 1) * inc + f + 16383) / 16384
      ≤ ((std2 - o + 1) * inc + f + 16383) / 16384 := Nat.div_le_div_right (by omega)
  omega

/-- An iteration for the smaller of two values of `SamplesToDo` either mixes all the samples
left to do, or has the window and the sample count of the iteration for the larger value; and
it never mixes more samples than that one. -/
theorem iterCount_split (STACK FS o inc f pre post : Nat) {std1 std2 : Nat} (h : std1 ≤ std2)
    (hinc : 1 ≤ inc) (hcap : STACK / FS ≤ 131072) :
    (iterCount (iterFrames STACK FS std1 o inc f pre post) std1 o inc f pre post < std1 - o →
      iterFrames STACK FS std1 o inc f pre post = iterFrames STACK FS std2 o inc f pre post ∧
      iterCount (iterFrames STACK FS std1 o inc f pre post) std1 o inc f pre post
        = iterCount (iterFrames STACK FS std2 o inc f pre post) std2 o inc f pre post) ∧
    iterCount (iterFrames STACK FS std1 o inc f pre post) std1 o inc f pre post
      ≤ iterCount (iterFrames STACK FS std2 o inc f pre post) std2 o inc f pre post := by
  have hm := iterFrames_mono STACK FS o inc f pre post h
  have hc1 : iterFrames STACK FS std1 o inc f pre post ≤ 131072 := by
    unfold iterFrames
    omega
  have hc2 : iterFrames STACK FS std2 o inc f pre post ≤ 131072 := by
    unfold iterFrames
    omega
  generalize hF1 : iterFrames STACK FS std1 o inc f pre post = Fr1 at hm hc1
  generalize hF2 : iterFrames STACK FS std2 o inc f pre post = Fr2 at hm hc2
  have q1 : ((Fr1 - (post + pre)) * 16384 - f - 1) / inc ≤ 2147483648 :=
    le_trans (Nat.div_le_self _ _) (by omega)
  have q2 : ((Fr2 - (post + pre)) * 16384 - f - 1) / inc ≤ 2147483648 :=
    le_trans (Nat.div_le_self _ _) (by omega)
  have q12 : ((Fr1 - (post + pre)) * 16384 - f - 1) / inc
      ≤ ((Fr2 - (post + pre)) * 16384 - f - 1) / inc := Nat.div_le_div_right (by omega)
  unfold iterCount
  rw [Nat.mod_eq_of_lt (show ((Fr1 - (post + pre)) * 16384 - f - 1) / inc < 4294967296 by omega),
    Nat.mod_eq_of_lt (show ((Fr2 - (post + pre)) * 16384 - f - 1) / inc < 4294967296 by omega)]
  refine ⟨fun hlt => ?_, by omega⟩
  have hQ : ((Fr1 - (post + pre)) * 16384 - f - 1) / inc < std1 - o := by omega
  have hFr : Fr1 = Fr2 := by
    by_contra hne
    have e1 : Fr1 = ((std1 - o + 1) * inc + f + 16383) / 16384 + post + pre := by
      rw [← hF1, ← hF2] at hne hm
      rw [← hF1]
      unfold iterFrames at hne hm ⊢
      omega
    have e2 : (std1 - o + 1) * inc = (std1 - o) * inc + inc := by
      rw [Nat.add_mul, Nat.one_mul]
    have e3 : (std1 - o) * inc ≤ (Fr1 - (post + pre)) * 16384 - f - 1 := by
      rw [e1, e2]
      omega
    have := (Nat.le_div_iff_mul_le (by omega)).2 e3
    omega
  subst hFr
  exact ⟨rfl, by omega⟩

end SplitCount
section SplitFeed

variable {α F : Type} [Add α] [Sub α] [Mul α] [Div α] [IntCast α]

/-- A source that is playable for a slice is playable for every shorter slice. -/
theorem Playable.shorter {E : Env α F} {m : Mem α F} {std std1 : Nat} {g : MixerFunc}
    {pre post : Nat} (hP : Playable E m std g pre post) (h : std1 ≤ std) :
    Playable E m std1 g pre post :=
  { do_mix := hP.do_mix
    selected := hP.selected
    pre_pad := hP.pre_pad
    post_pad := hP.post_pad
    sample_size := hP.sample_size
    channels := hP.channels
    stack := hP.stack
    step_pos := hP.step_pos
    step_le := hP.step_le
    frac := hP.frac
    todo := lt_of_le_of_lt h hP.todo
    played := hP.played
    static := hP.static
    stream := hP.stream }

/-- The invariant of the loop of `MixSource` for a slice holds for every longer slice. -/
theorem FeedInv.longer {m : Mem α F} {std std2 : Nat} {st : FeedSt α F}
    (hI : FeedInv m std st) (h : std ≤ std2) : FeedInv m std2 st :=
  { fixed := hI.fixed
    frac := hI.frac
    out := le_trans hI.out h
    item := hI.item
    loop := hI.loop
    inside := hI.inside }

/-- The call through the pointer of a plain mixer is the plain template. -/
theorem call_plain {E : Env α F} {g : MixerFunc} (hg : g.isHrtf = false) (m : Mem α F)
    (data : SrcPtr) (p f o std n : Nat) :
    g.call E m data p f o std n = Mix E g.sampler m data p f o std n := by
  unfold MixerFunc.call
  rw [hg]
  rfl

/-- One iteration of the loop of `MixSource` with a plain mixer moves `OutPos` forward, not
beyond `SamplesToDo`, and leaves the rows of the dry buffer outside the ones in between
alone. -/
theorem feedIter_rows {E : Env α F} {m : Mem α F} {std : Nat} {g : MixerFunc}
    {pre post : Nat} (hP : Playable E m std g pre post) (hg : g.isHrtf = false)
    {st st1 : FeedSt α F} (hI : FeedInv m std st) {fuel : Nat}
    (h : feedIter E fuel std m.Source.Params.Step m.Source.Resampler
      (u32 (m.Source.NumChannels * m.Source.SampleSize)) st = .ok st1) :
    st.OutPos ≤ st1.OutPos ∧ st1.OutPos ≤ std ∧
    ∀ r, (r < st.OutPos ∨ st1.OutPos ≤ r) →
      st1.mem.Device.DryBuffer r = st.mem.Device.DryBuffer r := by
  obtain ⟨S, L, n, res, -, -, -, -, -, hnle, -, -, hcall, -, -, -, hadv⟩ := feedIter_facts hP hI h
  obtain ⟨a1, a2, -, -, -⟩ := advanceLoop_spec _ _ _ _ hadv
  simp only at a1 a2
  have hout := hI.out
  have hstd := hP.todo
  norm_num at hstd
  rw [call_plain hg] at hcall
  refine ⟨by omega, by omega, fun r hr => ?_⟩
  rw [a1]
  exact Mix_outside (by omega) (by omega) hcall r (by omega)

/-- The loop of `MixSource` with a plain mixer leaves alone the rows of the dry buffer below
the `OutPos` it is entered with and from `SamplesToDo` on. -/
theorem feedLoop_rows {E : Env α F} {m : Mem α F} {std : Nat} {g : MixerFunc}
    {pre post : Nat} (hP : Playable E m std g pre post) (hg : g.isHrtf = false)
    {inner fuel : Nat} {st st1 : FeedSt α F} (hI : FeedInv m std st)
    (h : feedLoop E inner std m.Source.Params.Step m.Source.Resampler
      (u32 (m.Source.NumChannels * m.Source.SampleSize)) fuel st = .ok st1) (r : Nat)
    (hr : r < st.OutPos ∨ std ≤ r) :
    st1.mem.Device.DryBuffer r = st.mem.Device.DryBuffer r := by
  have key := feedLoop_ind
    (fun s : FeedSt α F => FeedInv m std s ∧ st.OutPos ≤ s.OutPos ∧
      s.mem.Device.DryBuffer r = st.mem.Device.DryBuffer r)
    (fun s : FeedSt α F => FeedInv m std s ∧ st.OutPos ≤ s.OutPos ∧
      s.mem.Device.DryBuffer r = st.mem.Device.DryBuffer r)
    (fun s s1 hs hb => by
      obtain ⟨k1, k2, k3⟩ := feedIter_rows hP hg hs.1 hb
      exact ⟨(feedIter_keeps hP hs.1 hb).1, by omega, (k3 r (by omega)).trans hs.2.2⟩)
    (fun s hs _ _ => hs) fuel st st1 ⟨hI, Nat.le_refl _, rfl⟩ h
  exact key.1.2.2

/-- One iteration of the loop of `MixSource` with a plain mixer, run from the same locals for
two values of `SamplesToDo`: either the iteration for the smaller value does not reach it,
and the two iterations leave the same locals; or it reaches it, the iteration for the larger
value goes at least as far, and the two leave the same rows of the dry buffer below the
smaller value. -/
theorem feedIter_couple {H : Type} {E : Env α F} (view : F → Nat → H)
    (hV : ∀ (F1 F2 : F) (i : Nat) (x : α), view F1 i = view F2 i →
      (E.lpFilter2P F1 i x).2 = (E.lpFilter2P F2 i x).2 ∧
      view (E.lpFilter2P F1 i x).1 i = view (E.lpFilter2P F2 i x).1 i)
    (hK : ∀ (Flt : F) (k j : Nat) (x : α), k ≠ j →
      view (E.lpFilter2P Flt j x).1 k = view Flt k)
    {m : Mem α F} {std1 std2 : Nat} {g : MixerFunc}
    {pre post : Nat} (hP : Playable E m std2 g pre post) (hle : std1 ≤ std2)
    (hg : g.isHrtf = false) {st stA stB : FeedSt α F} (hI : FeedInv m std1 st) {fuel : Nat}
    (hA : feedIter E fuel std1 m.Source.Params.Step m.Source.Resampler
      (u32 (m.Source.NumChannels * m.Source.SampleSize)) st = .ok stA)
    (hB : feedIter E fuel std2 m.Source.Params.Step m.Source.Resampler
      (u32 (m.Source.NumChannels * m.Source.SampleSize)) st = .ok stB) :
    (stA = stB ∧ stA.OutPos < std1) ∨
    (stA.OutPos = std1 ∧ std1 ≤ stB.OutPos ∧
      ∀ r, r < std1 → stA.mem.Device.DryBuffer r = stB.mem.Device.DryBuffer r) := by
  obtain ⟨hFS, hFSle, hpads, hS⟩ := hP.frame
  have hstd := hP.todo
  norm_num at hstd
  have hout := hI.out
  obtain ⟨SA, LA, nA, resA, asmA, -, -, -, cntA, nleA, -, -, callA, -, -, -, advA⟩ :=
    feedIter_facts (hP.shorter hle) hI hA
  obtain ⟨SB, LB, nB, resB, asmB, -, -, -, cntB, nleB, -, -, callB, -, -, -, advB⟩ :=
    feedIter_facts hP (hI.longer hle) hB
  obtain ⟨a1, a2, -, -, -⟩ := advanceLoop_spec _ _ _ _ advA
  obtain ⟨b1, b2, -, -, -⟩ := advanceLoop_spec _ _ _ _ advB
  simp only at a1 a2 b1 b2
  have hcap : E.STACK_DATA_SIZE / (m.Source.NumChannels * m.Source.SampleSize) ≤ 131072 :=
    le_trans (Nat.div_le_self _ _) hS
  obtain ⟨s1, s2⟩ := iterCount_split E.STACK_DATA_SIZE (m.Source.NumChannels * m.Source.SampleSize)
    st.OutPos m.Source.Params.Step st.DataPosFrac pre post hle hP.step_pos hcap
  rw [← cntA, ← cntB] at s1 s2
  rw [call_plain hg] at callA callB
  by_cases hlt : nA < std1 - st.OutPos
  · left
    obtain ⟨e1, e2⟩ := s1 hlt
    rw [← e1] at asmB
    have e3 := asmA.symm.trans asmB
    simp only [Except.ok.injEq, Prod.mk.injEq] at e3
    obtain ⟨e4, e5⟩ := e3
    subst e4
    subst e5
    subst e2
    rw [Mix_std std1 std2 (by omega) (by omega) (by omega)] at callA
    have e6 := callA.symm.trans callB
    simp only [Except.ok.injEq] at e6
    subst e6
    have e7 := advA.symm.trans advB
    simp only [Except.ok.injEq] at e7
    exact ⟨e7, by omega⟩
  · right
    have hn : nA = std1 - st.OutPos := by omega
    obtain ⟨T, hT⟩ := assemble_grows (Nat.mul_le_mul_right _
      (iterFrames_mono E.STACK_DATA_SIZE (m.Source.NumChannels * m.Source.SampleSize)
        st.OutPos m.Source.Params.Step st.DataPosFrac pre post hle)) asmA asmB
    rw [hT] at callB
    refine ⟨by omega, by omega, fun r hr => ?_⟩
    rw [a1, b1]
    exact Mix_couple view hV hK (by omega) s2 (by omega) callA callB r (by omega)

/-- The loop of `MixSource` with a plain mixer, run from the same locals for two values of
`SamplesToDo`, leaves the same rows of the dry buffer below the smaller value. -/
theorem feedLoop_couple {H : Type} {E : Env α F} (view : F → Nat → H)
    (hV : ∀ (F1 F2 : F) (i : Nat) (x : α), view F1 i = view F2 i →
      (E.lpFilter2P F1 i x).2 = (E.lpFilter2P F2 i x).2 ∧
      view (E.lpFilter2P F1 i x).1 i = view (E.lpFilter2P F2 i x).1 i)
    (hK : ∀ (Flt : F) (k j : Nat) (x : α), k ≠ j →
      view (E.lpFilter2P Flt j x).1 k = view Flt k)
    {m : Mem α F} {std1 std2 : Nat} {g : MixerFunc}
    {pre post : Nat} (hP : Playable E m std2 g pre post) (hle : std1 ≤ std2)
    (hg : g.isHrtf = false) {inner : Nat} :
    ∀ (fuelA fuelB : Nat) (st sA sB : FeedSt α F), FeedInv m std1 st →
      feedLoop E inner std1 m.Source.Params.Step m.Source.Resampler
        (u32 (m.Source.NumChannels * m.Source.SampleSize)) fuelA st = .ok sA →
      feedLoop E inner std2 m.Source.Params.Step m.Source.Resampler
        (u32 (m.Source.NumChannels * m.Source.SampleSize)) fuelB st = .ok sB →
      ∀ r, r < std1 → sA.mem.Device.DryBuffer r = sB.mem.Device.DryBuffer r := by
  intro fuelA
  induction fuelA with
  | zero =>
    intro fuelB st sA sB hI hA hB
    simp [feedLoop] at hA
  | succ fuelA ih =>
    intro fuelB st sA sB hI hA hB r hr
    cases fuelB with
    | zero => simp [feedLoop] at hB
    | succ fuelB =>
      simp only [feedLoop] at hA hB
      split at hA
      · simp at hA
      · next stA eA =>
        split at hB
        · simp at hB
        · next stB eB =>
          have kA := (feedIter_keeps (hP.shorter hle) hI eA).1
          have kB := (feedIter_keeps hP (hI.longer hle) eB).1
          rcases feedIter_couple view hV hK hP hle hg hI eA eB with ⟨c1, c2⟩ | ⟨c1, c2, c3⟩
          · subst c1
            by_cases hpl : stA.State = .AL_PLAYING
            · rw [if_pos ⟨hpl, c2⟩] at hA
              rw [if_pos ⟨hpl, by omega⟩] at hB
              exact ih fuelB stA sA sB kA hA hB r hr
            · rw [if_neg (fun hh => hpl hh.1)] at hA hB
              simp only [Except.ok.injEq] at hA hB
              rw [← hA, ← hB]
          · rw [if_neg (fun hh => by omega)] at hA
            simp only [Except.ok.injEq] at hA
            rw [← hA, c3 r hr]
            split at hB
            · exact (feedLoop_rows hP hg kB hB r (Or.inl (by omega))).symm
            · simp only [Except.ok.injEq] at hB
              rw [← hB]

end SplitFeed

section SplitAdvance

variable {α F : Type}

/-- The loop under "Handle looping sources" returns the same with more fuel. -/
theorem advanceLoop_more (FS : Nat) :
    ∀ (fuel : Nat) (st r : FeedSt α F), advanceLoop FS fuel st = .ok r →
      advanceLoop FS (fuel + 1) st = .ok r := by
  intro fuel
  induction fuel with
  | zero =>
    intro st r h
    simp [advanceLoop] at h
  | succ fuel ih =>
    intro st r h
    rw [advanceLoop] at h ⊢
    split at h
    · simp at h
    · next it hit =>
      simp only at h ⊢
      split at h
      · simp at h
      · next h1 =>
        rw [if_neg h1]
        split at h
        · next h2 =>
          rw [if_pos h2]
          exact h
        · next h2 =>
          rw [if_neg h2]
          split at h
          · next h3 =>
            rw [if_pos h3]
            exact h
          · next h3 =>
            rw [if_neg h3]
            split at h
            · next h4 =>
              rw [if_pos h4]
              exact h
            · next h4 =>
              rw [if_neg h4]
              split at h
              · next nx hnx =>
                exact ih _ _ h
              · next hnx =>
                split at h
                · next h5 =>
                  rw [if_pos h5]
                  exact ih _ _ h
                · next h5 =>
                  rw [if_neg h5]
                  exact h

/-- The loop under "Handle looping sources" returns the same with any more fuel. -/
theorem advanceLoop_fuel (FS : Nat) {fuel : Nat} {st r : FeedSt α F}
    (h : advanceLoop FS fuel st = .ok r) : ∀ k, advanceLoop FS (fuel + k) st = .ok r := by
  intro k
  induction k with
  | zero => exact h
  | succ k ih => exact advanceLoop_more FS _ _ _ ih

/-- What the loop under "Handle looping sources" returns does not depend on the fuel. -/
theorem advanceLoop_det (FS : Nat) {f1 f2 : Nat} {st r1 r2 : FeedSt α F}
    (h1 : advanceLoop FS f1 st = .ok r1) (h2 : advanceLoop FS f2 st = .ok r2) : r1 = r2 := by
  have e1 := advanceLoop_fuel FS h1 f2
  have e2 := advanceLoop_fuel FS h2 f1
  rw [Nat.add_comm] at e2
  rw [e1] at e2
  exact Except.ok.inj e2

/-- The position a looping static source wraps to, for a position moved on by `y` frames:
wrapping the sum is wrapping the wrapped position moved on by `y`, when that leaves the loop
region at all. -/
theorem wrap_add (LS LE a y : Nat) (hlt : LS < LE) (ha : LE ≤ a) :
    ((a - LS) % (LE - LS) + LS + y < LE →
      (a + y - LS) % (LE - LS) + LS = (a - LS) % (LE - LS) + LS + y) ∧
    (¬ (a - LS) % (LE - LS) + LS + y < LE →
      (a + y - LS) % (LE - LS) + LS
        = ((a - LS) % (LE - LS) + LS + y - LS) % (LE - LS) + LS) := by
  have hpos : 0 < LE - LS := by omega
  have hm := Nat.mod_lt (a - LS) hpos
  have e1 : a + y - LS = (a - LS) + y := by omega
  have e2 : ((a - LS) + y) % (LE - LS) = ((a - LS) % (LE - LS) + y) % (LE - LS) := by
    rw [Nat.add_mod (a - LS) y, Nat.add_mod ((a - LS) % (LE - LS)) y, Nat.mod_mod]
  constructor
  · intro h
    rw [e1, e2, Nat.mod_eq_of_lt (by omega)]
    omega
  · intro h
    rw [e1, e2]
    congr 2
    omega

/-- Moving a position on by `y` frames and taking off the frames of a buffer it has passed
is taking them off first, in 32 bits. -/
theorem usub_add (a y D : Nat) (hD : D ≤ a) (hay : a + y < 4294967296) :
    usub (a + y) D = usub a D + y ∧ usub a D + y < 4294967296 := by
  rw [usub_of_le (show D ≤ a + y by omega) hay, usub_of_le hD (by omega)]
  omega

/-- The loop under "Handle looping sources" taken from a position `a + y` that leaves the
source playing is the loop taken from `a`, followed by the loop taken from `y` frames past
where that one leaves the source. -/
theorem advanceLoop_split (FS : Nat) (hFS : 0 < FS) :
    ∀ (fuel : Nat) (st r : FeedSt α F) (a y : Nat),
      (st.Looping = true → st.mem.Source.lSourceType = .AL_STATIC →
        ∀ it b, itemBuffer st.mem.Source.queue it = some b →
          b.LoopStart < b.LoopEnd ∧ b.LoopEnd < 4294967296) →
      a + y < 4294967296 → r.State = .AL_PLAYING → st.State = .AL_PLAYING →
      advanceLoop FS fuel { st with DataPosInt := a + y } = .ok r →
      ∃ s1, advanceLoop FS fuel { st with DataPosInt := a } = .ok s1 ∧
        s1.State = .AL_PLAYING ∧ s1.mem = st.mem ∧ s1.Looping = st.Looping ∧
        advanceLoop FS fuel { s1 with DataPosInt := s1.DataPosInt + y } = .ok r := by
  intro fuel
  induction fuel with
  | zero =>
    intro st r a y hwf hay hr hst h
    simp [advanceLoop] at h
  | succ fuel ih =>
    intro st r a y hwf hay hr hst h
    by_cases hnone : st.BufferListItem = none
    · rw [advanceLoop] at h
      simp only [hnone] at h
      simp at h
    · obtain ⟨it, hit⟩ : ∃ it, st.BufferListItem = some it :=
        Option.isSome_iff_exists.1 (Option.ne_none_iff_isSome.1 hnone)
      by_cases hs : st.Looping = true ∧ st.mem.Source.lSourceType = .AL_STATIC
      · cases hb : itemBuffer st.mem.Source.queue it with
        | none =>
          rw [advanceLoop] at h
          simp only [hit, hb] at h
          simp [hs.1, hs.2, usub] at h
        | some b =>
          obtain ⟨hlt, hE⟩ := hwf hs.1 hs.2 it b hb
          rw [advanceLoop_static FS fuel _ it b hFS (by exact hit) (by exact hb) (by exact hs) hlt hE] at h
          simp only at h
          by_cases h1 : a < b.LoopEnd
          · refine ⟨{ st with DataPosInt := a }, ?_, hst, rfl, rfl, ?_⟩
            · rw [advanceLoop_static FS fuel _ it b hFS (by exact hit) (by exact hb) (by exact hs) hlt hE]
              simp only
              rw [if_pos h1]
            · rw [advanceLoop_static FS fuel _ it b hFS (by exact hit) (by exact hb) (by exact hs) hlt hE]
              exact h
          · rw [if_neg (by omega)] at h
            obtain ⟨w1, w2⟩ := wrap_add b.LoopStart b.LoopEnd a y hlt (by omega)
            have hm := Nat.mod_lt (a - b.LoopStart) (show 0 < b.LoopEnd - b.LoopStart by omega)
            refine ⟨{ st with DataPosInt := usub a b.LoopStart % (b.LoopEnd - b.LoopStart)
              + b.LoopStart }, ?_, hst, rfl, rfl, ?_⟩
            · rw [advanceLoop_static FS fuel _ it b hFS (by exact hit) (by exact hb) (by exact hs) hlt hE]
              simp only
              rw [if_neg h1]
            · rw [advanceLoop_static FS fuel _ it b hFS (by exact hit) (by exact hb) (by exact hs) hlt hE]
              simp only
              rw [usub_of_le (show b.LoopStart ≤ a + y by omega) (by omega)] at h
              rw [usub_of_le (show b.LoopStart ≤ a by omega) (by omega)]
              by_cases h2 : (a - b.LoopStart) % (b.LoopEnd - b.LoopStart) + b.LoopStart + y
                  < b.LoopEnd
              · rw [if_pos h2, ← h, w1 h2]
              · rw [if_neg h2, ← h, w2 h2, usub_of_le (by omega) (by omega)]
      · rw [advanceLoop_step FS fuel _ it hFS (by exact hit) (by exact hs)] at h
        simp only at h
        by_cases h1 : a < bufLoopEnd st.mem.Source.queue it ∨
            a < bufSize st.mem.Source.queue it / FS
        · refine ⟨{ st with DataPosInt := a }, ?_, hst, rfl, rfl, ?_⟩
          · rw [advanceLoop_step FS fuel _ it hFS (by exact hit) (by exact hs)]
            simp only
            rw [if_pos h1]
          · rw [advanceLoop_step FS fuel _ it hFS (by exact hit) (by exact hs)]
            exact h
        · rw [if_neg (by omega)] at h
          obtain ⟨hu, hua⟩ := usub_add a y (bufSize st.mem.Source.queue it / FS)
            (by omega) hay
          rw [hu] at h
          by_cases h2 : it + 1 < st.mem.Source.queue.length
          · rw [if_pos h2] at h
            obtain ⟨s1, k1, k2, k3, k4, k5⟩ := ih
              { st with BufferListItem := some (it + 1)
                        BuffersPlayed := u32 (st.BuffersPlayed + 1) } r
              (usub a (bufSize st.mem.Source.queue it / FS)) y hwf hua hr hst h
            refine ⟨s1, ?_, k2, k3, k4, advanceLoop_more FS _ _ _ k5⟩
            rw [advanceLoop_step FS fuel _ it hFS (by exact hit) (by exact hs)]
            simp only
            rw [if_neg h1, if_pos h2]
            exact k1
          · rw [if_neg h2] at h
            by_cases h3 : st.Looping = true
            · rw [if_pos h3] at h
              obtain ⟨s1, k1, k2, k3, k4, k5⟩ := ih
                { st with BufferListItem := queueHead st.mem.Source.queue
                          BuffersPlayed := 0 } r
                (usub a (bufSize st.mem.Source.queue it / FS)) y hwf hua hr hst h
              refine ⟨s1, ?_, k2, k3, k4, advanceLoop_more FS _ _ _ k5⟩
              rw [advanceLoop_step FS fuel _ it hFS (by exact hit) (by exact hs)]
              simp only
              rw [if_neg h1, if_neg h2, if_pos h3]
              exact k1
            · rw [if_neg h3] at h
              simp only [Except.ok.injEq] at h
              rw [← h] at hr
              simp at hr

/-- The loop under "Handle looping sources" only looks at where the source is: on the
locals put on a memory with the same queue and source type it does the same, as long as it
leaves the source playing. -/
theorem advanceLoop_place (FS : Nat) (m : Mem α F) :
    ∀ (fuel : Nat) (st st1 : FeedSt α F), advanceLoop FS fuel st = .ok st1 →
      st.mem.Source.queue = m.Source.queue →
      st.mem.Source.lSourceType = m.Source.lSourceType → st1.State = .AL_PLAYING →
      advanceLoop FS fuel (st.place m) = .ok (st1.place m) := by
  intro fuel
  induction fuel with
  | zero =>
    intro st st1 h
    simp [advanceLoop] at h
  | succ fuel ih =>
    intro st st1 h hq hty hpl
    rw [advanceLoop] at h ⊢
    simp only [FeedSt.place] at ih ⊢
    rw [hq, hty] at h
    split at h
    · simp at h
    · next it hit =>
      simp only at h ⊢
      split at h
      · simp at h
      · next h1 =>
        rw [if_neg h1]
        split at h
        · next h2 =>
          rw [if_pos h2]
          simp only [Except.ok.injEq] at h
          rw [← h]
        · next h2 =>
          rw [if_neg h2]
          split at h
          · next h3 =>
            rw [if_pos h3]
            split at h
            · simp at h
            · next h4 =>
              rw [if_neg h4]
              simp only [Except.ok.injEq] at h
              rw [← h]
          · next h3 =>
            rw [if_neg h3]
            split at h
            · next h4 =>
              rw [if_pos h4]
              simp only [Except.ok.injEq] at h
              rw [← h]
            · next h4 =>
              rw [if_neg h4]
              split at h
              · next nx hnx =>
                exact ih _ _ h hq hty hpl
              · next hnx =>
                split at h
                · next h5 =>
                  rw [if_pos h5]
                  exact ih _ _ h hq hty hpl
                · next h5 =>
                  simp only [Except.ok.injEq] at h
                  rw [← h] at hpl
                  simp at hpl

end SplitAdvance
section SplitWalk

variable {α F : Type} [Add α] [Sub α] [Mul α] [Div α] [IntCast α]

/-- The whole frames of one output step taken after `a + b` steps from the fraction `f0`
are those of the step taken after `b` steps from the fraction left after `a` steps. -/
theorem phase_shift (inc f0 a b : Nat) :
    (f0 + (a + b + 1) * inc) / 16384 - (f0 + (a + b) * inc) / 16384
      = ((f0 + a * inc) % 16384 + (b + 1) * inc) / 16384
        - ((f0 + a * inc) % 16384 + b * inc) / 16384 := by
  have e1 : f0 + (a + b + 1) * inc = (f0 + a * inc) + (b + 1) * inc := by ring
  have e2 : f0 + (a + b) * inc = (f0 + a * inc) + b * inc := by ring
  rw [e1, e2]
  generalize f0 + a * inc = P
  generalize (b + 1) * inc = u
  generalize b * inc = v
  omega

/-- The fraction left after `a + b` steps from `f0` is the one left after `b` steps from
the fraction left after `a` steps. -/
theorem frac_shift (inc f0 a b : Nat) :
    (f0 + (a + b) * inc) % 16384 = ((f0 + a * inc) % 16384 + b * inc) % 16384 := by
  have e2 : f0 + (a + b) * inc = (f0 + a * inc) + b * inc := by ring
  rw [e2]
  generalize f0 + a * inc = P
  generalize b * inc = v
  omega

/-- The loop under "Handle looping sources" changes nothing where it has left a playing
source. -/
theorem advanceLoop_fix (FS : Nat) (hFS : 0 < FS) :
    ∀ (fuel : Nat) (st r : FeedSt α F), advanceLoop FS fuel st = .ok r →
      (st.Looping = true → st.mem.Source.lSourceType = .AL_STATIC →
        ∀ it b, itemBuffer st.mem.Source.queue it = some b →
          b.LoopStart < b.LoopEnd ∧ b.LoopEnd < 4294967296) →
      r.State = .AL_PLAYING → advanceLoop FS fuel r = .ok r := by
  intro fuel
  induction fuel with
  | zero =>
    intro st r h
    simp [advanceLoop] at h
  | succ fuel ih =>
    intro st r h hwf hr
    by_cases hnone : st.BufferListItem = none
    · rw [advanceLoop] at h
      simp only [hnone] at h
      simp at h
    · obtain ⟨it, hit⟩ : ∃ it, st.BufferListItem = some it :=
        Option.isSome_iff_exists.1 (Option.ne_none_iff_isSome.1 hnone)
      by_cases hs : st.Looping = true ∧ st.mem.Source.lSourceType = .AL_STATIC
      · cases hb : itemBuffer st.mem.Source.queue it with
        | none =>
          rw [advanceLoop] at h
          simp only [hit, hb] at h
          simp [hs.1, hs.2, usub] at h
        | some b =>
          obtain ⟨hlt, hE⟩ := hwf hs.1 hs.2 it b hb
          rw [advanceLoop_static FS fuel _ it b hFS hit hb hs hlt hE] at h
          by_cases h1 : st.DataPosInt < b.LoopEnd
          · rw [if_pos h1] at h
            simp only [Except.ok.injEq] at h
            subst h
            rw [advanceLoop_static FS fuel _ it b hFS hit hb hs hlt hE, if_pos h1]
          · rw [if_neg h1] at h
            simp only [Except.ok.injEq] at h
            subst h
            have hm := Nat.mod_lt (usub st.DataPosInt b.LoopStart)
              (show 0 < b.LoopEnd - b.LoopStart by omega)
            rw [advanceLoop_static FS fuel _ it b hFS (by exact hit) (by exact hb)
              (by exact hs) hlt hE]
            simp only
            rw [if_pos (by omega)]
      · rw [advanceLoop_step FS fuel _ it hFS hit hs] at h
        by_cases h1 : st.DataPosInt < bufLoopEnd st.mem.Source.queue it ∨
            st.DataPosInt < bufSize st.mem.Source.queue it / FS
        · rw [if_pos h1] at h
          simp only [Except.ok.injEq] at h
          subst h
          rw [advanceLoop_step FS fuel _ it hFS hit hs, if_pos h1]
        · rw [if_neg h1] at h
          by_cases h2 : it + 1 < st.mem.Source.queue.length
          · rw [if_pos h2] at h
            exact advanceLoop_more FS _ _ _ (ih _ r h hwf hr)
          · rw [if_neg h2] at h
            by_cases h3 : st.Looping = true
            · rw [if_pos h3] at h
              exact advanceLoop_more FS _ _ _ (ih _ r h hwf hr)
            · rw [if_neg h3] at h
              simp only [Except.ok.injEq] at h
              rw [← h] at hr
              simp at hr

/-- The steps of a walk keep the memory and the local `Looping`. -/
theorem Walk.keeps {FS inc f0 : Nat} :
    ∀ (k : Nat) (s t : FeedSt α F), Walk FS inc f0 k s t →
      t.mem = s.mem ∧ t.Looping = s.Looping := by
  intro k
  induction k with
  | zero =>
    intro s t h
    obtain ⟨fuel, h⟩ := h
    obtain ⟨a1, -, -, a4, -⟩ := advanceLoop_spec FS fuel s t h
    exact ⟨a1, a4⟩
  | succ k ih =>
    intro s t h
    obtain ⟨u, fuel, h1, h2⟩ := h
    obtain ⟨a1, -, -, a4, -⟩ := advanceLoop_spec FS fuel _ t h2
    obtain ⟨b1, b2⟩ := ih s u h1
    exact ⟨a1.trans b1, a4.trans b2⟩

/-- A walk of `k` steps leads to one place only. -/
theorem Walk.det {FS inc f0 : Nat} :
    ∀ (k : Nat) (s t t1 : FeedSt α F), Walk FS inc f0 k s t → Walk FS inc f0 k s t1 →
      t = t1 := by
  intro k
  induction k with
  | zero =>
    intro s t t1 h h1
    obtain ⟨fuel, h⟩ := h
    obtain ⟨fuel1, h1⟩ := h1
    exact advanceLoop_det FS h h1
  | succ k ih =>
    intro s t t1 h h1
    obtain ⟨u, fuel, a1, a2⟩ := h
    obtain ⟨u1, fuel1, b1, b2⟩ := h1
    have e := ih s u u1 a1 b1
    subst e
    exact advanceLoop_det FS a2 b2

/-- The loop under "Handle looping sources", run on the position moved on by the whole
frames of `n` steps at once, leads where the walk of `n` steps leads, while the position
does not wrap and the source keeps playing. -/
theorem Walk.of_advance (FS : Nat) (hFS : 0 < FS) (inc f0 : Nat) (hf0 : f0 < 16384) :
    ∀ (n : Nat) (st r : FeedSt α F),
      (st.Looping = true → st.mem.Source.lSourceType = .AL_STATIC →
        ∀ it b, itemBuffer st.mem.Source.queue it = some b →
          b.LoopStart < b.LoopEnd ∧ b.LoopEnd < 4294967296) →
      st.State = .AL_PLAYING → r.State = .AL_PLAYING →
      st.DataPosInt + (f0 + n * inc) / 16384 < 4294967296 →
      (∃ fuel, advanceLoop FS fuel
        { st with DataPosInt := st.DataPosInt + (f0 + n * inc) / 16384 } = .ok r) →
      Walk FS inc f0 n st r := by
  intro n
  induction n with
  | zero =>
    intro st r hwf hst hr hb h
    obtain ⟨fuel, h⟩ := h
    have e : (f0 + 0 * inc) / 16384 = 0 := by
      rw [Nat.zero_mul]
      omega
    rw [e] at h
    exact ⟨fuel, h⟩
  | succ n ih =>
    intro st r hwf hst hr hb h
    obtain ⟨fuel, h⟩ := h
    have hm : (f0 + n * inc) / 16384 ≤ (f0 + (n + 1) * inc) / 16384 :=
      Nat.div_le_div_right (by
        rw [Nat.add_mul]
        omega)
    have e : st.DataPosInt + (f0 + (n + 1) * inc) / 16384
        = st.DataPosInt + (f0 + n * inc) / 16384
          + ((f0 + (n + 1) * inc) / 16384 - (f0 + n * inc) / 16384) := by omega
    rw [e] at h hb
    obtain ⟨s1, k1, k2, -, -, k5⟩ := advanceLoop_split FS hFS fuel st r _ _ hwf hb hr hst h
    exact ⟨s1, fuel, ih st s1 hwf hst k2 (by omega) ⟨fuel, k1⟩, k5⟩

/-- A walk of `a` steps followed by a walk of `b` steps from the fraction the first one
leaves is a walk of `a + b` steps. -/
theorem Walk.add (FS : Nat) (hFS : 0 < FS) (inc f0 a : Nat) {s u : FeedSt α F}
    (hwf : s.Looping = true → s.mem.Source.lSourceType = .AL_STATIC →
      ∀ it b, itemBuffer s.mem.Source.queue it = some b →
        b.LoopStart < b.LoopEnd ∧ b.LoopEnd < 4294967296)
    (h1 : Walk FS inc f0 a s u) (hu : u.State = .AL_PLAYING) :
    ∀ (b : Nat) (t : FeedSt α F), Walk FS inc ((f0 + a * inc) % 16384) b u t →
      Walk FS inc f0 (a + b) s t := by
  obtain ⟨m1, m2⟩ := Walk.keeps a s u h1
  intro b
  induction b with
  | zero =>
    intro t h2
    obtain ⟨fuel, h2⟩ := h2
    have hfix : ∃ fuel1, advanceLoop FS fuel1 u = .ok u := by
      cases a with
      | zero =>
        obtain ⟨f1, e1⟩ := h1
        exact ⟨f1, advanceLoop_fix FS hFS f1 s u e1 hwf hu⟩
      | succ a =>
        obtain ⟨v, f1, e0, e1⟩ := h1
        obtain ⟨n1, n2⟩ := Walk.keeps a s v e0
        exact ⟨f1, advanceLoop_fix FS hFS f1 _ u e1 (by
          simp only
          rw [n1, n2]
          exact hwf) hu⟩
    obtain ⟨fuel1, e1⟩ := hfix
    have e := advanceLoop_det FS e1 h2
    subst e
    exact h1
  | succ b ih =>
    intro t h2
    obtain ⟨v, fuel, e0, e1⟩ := h2
    rw [← phase_shift] at e1
    exact ⟨v, fuel, ih v e0, e1⟩

end SplitWalk
section SplitPlace

variable {α F : Type} [Add α] [Sub α] [Mul α] [Div α] [IntCast α]

/-- The local `Looping` that the window assembly leaves. -/
theorem assemble_loopAfter {fuel : Nat} {Source : ALsource α F} {Lp : Bool}
    {item : Option Nat} {p pre FS B : Nat} {S : List Nat} {L : Bool}
    (h : assemble fuel Source Lp item p pre FS B = .ok (S, L)) :
    L = loopAfter Source Lp p := by
  unfold assemble at h
  unfold loopAfter
  by_cases hs : Source.lSourceType = .AL_STATIC
  · rw [if_pos hs] at h ⊢
    split at h
    · simp at h
    · simp at h
    · next b rest hq =>
      rw [hq]
      simp only
      unfold assembleStatic at h
      by_cases hc : Lp = false ∨ b.LoopEnd ≤ p
      · rw [if_pos hc] at h ⊢
        simp only at h
        split at h
        · simp at h
        · simp only [Except.ok.injEq, Prod.mk.injEq] at h
          exact h.2.symm
      · rw [if_neg hc] at h ⊢
        simp only at h
        split at h
        · simp at h
        · split at h
          · simp at h
          · split at h
            · simp at h
            · simp only [Except.ok.injEq, Prod.mk.injEq] at h
              exact h.2.symm
  · rw [if_neg hs] at h ⊢
    split at h
    · simp at h
    · simp only [Except.ok.injEq, Prod.mk.injEq] at h
      exact h.2.symm

/-- The local `Looping` after the window assembly depends on the source type and the queue
only. -/
theorem loopAfter_congr {S1 S2 : ALsource α F} (hq : S1.queue = S2.queue)
    (hty : S1.lSourceType = S2.lSourceType) (Lp : Bool) (p : Nat) :
    loopAfter S1 Lp p = loopAfter S2 Lp p := by
  unfold loopAfter
  rw [hq, hty]

/-- Where the loop under "Handle looping sources" leaves a playing source: the current item
is the one `BuffersPlayed` counts to, inside the queue, and the position is below `2^31`. -/
theorem advanceLoop_link (FS : Nat) (hFS : 0 < FS) :
    ∀ (fuel : Nat) (st st1 : FeedSt α F), advanceLoop FS fuel st = .ok st1 →
      (st.Looping = true → st.mem.Source.lSourceType = .AL_STATIC →
        ∀ it b, itemBuffer st.mem.Source.queue it = some b →
          b.LoopStart < b.LoopEnd ∧ b.LoopEnd < 4294967296) →
      (∀ it, bufSize st.mem.Source.queue it < 2147483648) →
      (∀ it, bufLoopEnd st.mem.Source.queue it < 2147483648) →
      st.mem.Source.queue.length < 4294967296 →
      st.BufferListItem = some st.BuffersPlayed →
      st.BuffersPlayed < st.mem.Source.queue.length →
      st1.State = .AL_PLAYING →
      st1.BufferListItem = some st1.BuffersPlayed ∧
      st1.BuffersPlayed < st.mem.Source.queue.length ∧ st1.DataPosInt < 2147483648 := by
  intro fuel
  induction fuel with
  | zero =>
    intro st st1 h
    simp [advanceLoop] at h
  | succ fuel ih =>
    intro st st1 h hwf hbs hle hlen hit hpl hr
    by_cases hs : st.Looping = true ∧ st.mem.Source.lSourceType = .AL_STATIC
    · cases hb : itemBuffer st.mem.Source.queue st.BuffersPlayed with
      | none =>
        rw [advanceLoop] at h
        simp only [hit, hb] at h
        simp [hs.1, hs.2, usub] at h
      | some b =>
        obtain ⟨hlt, hE⟩ := hwf hs.1 hs.2 _ b hb
        have hL := hle st.BuffersPlayed
        unfold bufLoopEnd at hL
        rw [hb] at hL
        simp only at hL
        rw [advanceLoop_static FS fuel _ _ b hFS hit hb hs hlt hE] at h
        by_cases h1 : st.DataPosInt < b.LoopEnd
        · rw [if_pos h1] at h
          simp only [Except.ok.injEq] at h
          subst h
          exact ⟨hit, hpl, by omega⟩
        · rw [if_neg h1] at h
          simp only [Except.ok.injEq] at h
          subst h
          have hm := Nat.mod_lt (usub st.DataPosInt b.LoopStart)
            (show 0 < b.LoopEnd - b.LoopStart by omega)
          exact ⟨hit, hpl, by simp only; omega⟩
    · rw [advanceLoop_step FS fuel _ _ hFS hit hs] at h
      have hL := hle st.BuffersPlayed
      have hB := hbs st.BuffersPlayed
      have hD : bufSize st.mem.Source.queue st.BuffersPlayed / FS
          ≤ bufSize st.mem.Source.queue st.BuffersPlayed := Nat.div_le_self _ _
      by_cases h1 : st.DataPosInt < bufLoopEnd st.mem.Source.queue st.BuffersPlayed ∨
          st.DataPosInt < bufSize st.mem.Source.queue st.BuffersPlayed / FS
      · rw [if_pos h1] at h
        simp only [Except.ok.injEq] at h
        subst h
        exact ⟨hit, hpl, by omega⟩
      · rw [if_neg h1] at h
        by_cases h2 : st.BuffersPlayed + 1 < st.mem.Source.queue.length
        · rw [if_pos h2] at h
          have k := ih _ st1 h
          simp only at k
          rw [u32_small _ (show st.BuffersPlayed + 1 < 4294967296 by omega)] at k
          exact k hwf hbs hle hlen rfl h2 hr
        · rw [if_neg h2] at h
          by_cases h3 : st.Looping = true
          · rw [if_pos h3] at h
            have k := ih _ st1 h
            simp only [queueHead] at k
            rw [if_pos (show 0 < st.mem.Source.queue.length by omega)] at k
            exact k hwf hbs hle hlen rfl (by omega) hr
          · rw [if_neg h3] at h
            simp only [Except.ok.injEq] at h
            rw [← h] at hr
            simp at hr

/-- Where the loop under "Handle looping sources" leaves a playing static source: inside
the loop region if it loops, and where it was if it does not. -/
theorem advanceLoop_static_facts (FS : Nat) (hFS : 0 < FS) {fuel : Nat} {st st1 : FeedSt α F}
    {b : ALbuffer} (h : advanceLoop FS fuel st = .ok st1)
    (hq : st.mem.Source.queue = [some b]) (hty : st.mem.Source.lSourceType = .AL_STATIC)
    (hit : st.BufferListItem = some 0)
    (hwf : st.Looping = true → b.LoopStart < b.LoopEnd) (hE : b.LoopEnd < 4294967296)
    (hr : st1.State = .AL_PLAYING) :
    (st.Looping = true → st1.DataPosInt < b.LoopEnd) ∧
    (st.Looping = false → st1.DataPosInt = st.DataPosInt) := by
  have hb : itemBuffer st.mem.Source.queue 0 = some b := by
    rw [hq]
    rfl
  cases fuel with
  | zero => simp [advanceLoop] at h
  | succ fuel =>
    by_cases hL : st.Looping = true
    · have hlt := hwf hL
      rw [advanceLoop_static FS fuel _ 0 b hFS hit hb ⟨hL, hty⟩ hlt hE] at h
      refine ⟨fun _ => ?_, fun hf => by rw [hL] at hf; simp at hf⟩
      by_cases h1 : st.DataPosInt < b.LoopEnd
      · rw [if_pos h1] at h
        simp only [Except.ok.injEq] at h
        rw [← h]
        exact h1
      · rw [if_neg h1] at h
        simp only [Except.ok.injEq] at h
        rw [← h]
        have hm := Nat.mod_lt (usub st.DataPosInt b.LoopStart)
          (show 0 < b.LoopEnd - b.LoopStart by omega)
        simp only
        omega
    · rw [advanceLoop_step FS fuel _ 0 hFS hit (fun hh => hL hh.1)] at h
      refine ⟨fun ht => absurd ht hL, fun _ => ?_⟩
      by_cases h1 : st.DataPosInt < bufLoopEnd st.mem.Source.queue 0 ∨
          st.DataPosInt < bufSize st.mem.Source.queue 0 / FS
      · rw [if_pos h1] at h
        simp only [Except.ok.injEq] at h
        rw [← h]
      · rw [if_neg h1, if_neg (by rw [hq]; simp), if_neg hL] at h
        simp only [Except.ok.injEq] at h
        rw [← h] at hr
        simp at hr

end SplitPlace

section SplitIter

variable {α F : Type} [Add α] [Sub α] [Mul α] [Div α] [IntCast α]

/-- The loop region of a playable source is not empty where the source loops. -/
theorem Playable.loop_ok {E : Env α F} {m : Mem α F} {std : Nat} {g : MixerFunc}
    {pre post : Nat} (hP : Playable E m std g pre post) {L : Bool}
    (hL : L = true → m.Source.bLooping = true) :
    L = true → m.Source.lSourceType = .AL_STATIC →
      ∀ it b, itemBuffer m.Source.queue it = some b →
        b.LoopStart < b.LoopEnd ∧ b.LoopEnd < 4294967296 := by
  intro h1 hs it b hb
  obtain ⟨hFS, -, -, -⟩ := hP.frame
  obtain ⟨b0, hq, hsz, hLE, -, hlp⟩ := hP.static hs
  rw [hq] at hb
  have hbb : b = b0 := by
    cases it with
    | zero =>
      simp only [itemBuffer, List.getD_cons_zero] at hb
      exact (Option.some.inj hb).symm
    | succ k => simp [itemBuffer] at hb
  subst hbb
  have h2 : b.LoopEnd ≤ b.LoopEnd * (m.Source.NumChannels * m.Source.SampleSize) :=
    Nat.le_mul_of_pos_right _ hFS
  norm_num at hsz
  exact ⟨hlp (hL h1), by omega⟩

/-- The local `Looping` after the window assembly of a static source over the buffer `b`. -/
theorem loopAfter_static {Source : ALsource α F} {b : ALbuffer}
    (hs : Source.lSourceType = .AL_STATIC) (hq : Source.queue = [some b]) (Lp : Bool)
    (p : Nat) :
    loopAfter Source Lp p = if Lp = false ∨ b.LoopEnd ≤ p then false else true := by
  unfold loopAfter
  rw [if_pos hs, hq]

/-- The local `Looping` after the window assembly of a source that is not static. -/
theorem loopAfter_stream {Source : ALsource α F} (hs : Source.lSourceType ≠ .AL_STATIC)
    (Lp : Bool) (p : Nat) : loopAfter Source Lp p = Lp := by
  unfold loopAfter
  rw [if_neg hs]

/-- One iteration of the loop of `MixSource` that leaves the source playing, as a walk: the
locals it leaves are where the walk of the samples it has mixed leads from the locals it was
entered with, and they keep what the loop keeps true of where the source is. -/
theorem feedIter_walk {E : Env α F} {m m0 : Mem α F} {std : Nat} {g : MixerFunc}
    {pre post : Nat} (hP : Playable E m std g pre post)
    (hq0 : m.Source.queue = m0.Source.queue)
    (hty0 : m.Source.lSourceType = m0.Source.lSourceType)
    (hlen : m.Source.queue.length < 4294967296)
    (hbs : ∀ it, bufSize m.Source.queue it < 2147483648)
    (hle : ∀ it, bufLoopEnd m.Source.queue it < 2147483648)
    {st st1 : FeedSt α F} (hI : FeedInv m std st) (hW : WalkInv m st) {fuel : Nat}
    (h : feedIter E fuel std m.Source.Params.Step m.Source.Resampler
      (u32 (m.Source.NumChannels * m.Source.SampleSize)) st = .ok st1)
    (hpl : st1.State = .AL_PLAYING) :
    ∃ n, st1.OutPos = st.OutPos + n ∧
      st1.DataPosFrac = (st.DataPosFrac + n * m.Source.Params.Step) % 16384 ∧
      Walk (m.Source.NumChannels * m.Source.SampleSize) m.Source.Params.Step st.DataPosFrac n
        (FeedSt.place m0 { st with Looping := loopAfter m.Source st.Looping st.DataPosInt })
        (st1.place m0) ∧
      WalkInv m st1 ∧ loopAfter m.Source st1.Looping st1.DataPosInt = st1.Looping := by
  obtain ⟨hFS, hFSle, hpads, hS⟩ := hP.frame
  have hfr := hI.frac
  rw [FRACTIONONE_eq] at hfr
  have hqq : st.mem.Source.queue = m.Source.queue := congrArg Fixed.queue hI.fixed
  have htt : st.mem.Source.lSourceType = m.Source.lSourceType :=
    congrArg Fixed.lSourceType hI.fixed
  obtain ⟨S, L, n, res, asm, -, -, c3, -, -, -, c2, -, hfix, hpI, hpF, hadv⟩ :=
    feedIter_facts hP hI h
  have hrq : res.mem.Source.queue = m.Source.queue := congrArg Fixed.queue hfix
  have hrt : res.mem.Source.lSourceType = m.Source.lSourceType :=
    congrArg Fixed.lSourceType hfix
  have hL : L = loopAfter m.Source st.Looping st.DataPosInt :=
    (assemble_loopAfter asm).trans (loopAfter_congr hqq htt _ _)
  obtain ⟨a1, a2, -, a4, a5⟩ := advanceLoop_spec _ _ _ _ hadv
  simp only at a1 a2 a4 a5
  have hst : st.State = .AL_PLAYING ∧ st1.DataPosFrac = res.DataPosFrac := by
    rcases a5 with ⟨e1, e2⟩ | ⟨e1, -⟩
    · exact ⟨by rw [← e1]; exact hpl, e2⟩
    · rw [e1] at hpl
      simp at hpl
  have hp := hW.pos
  have hu : u32 (st.DataPosInt + (st.DataPosFrac + n * m.Source.Params.Step) / 16384)
      = st.DataPosInt + (st.DataPosFrac + n * m.Source.Params.Step) / 16384 :=
    u32_small _ (by omega)
  rw [hu] at hpI
  have hLb : L = true → m.Source.bLooping = true := fun hh => hI.loop (assemble_looping asm hh)
  obtain ⟨it, hit, hitlt⟩ := hI.item
  have hplayed : st.BuffersPlayed < m.Source.queue.length := by
    have := hW.link
    rw [hit] at this
    rw [← Option.some.inj this]
    exact hitlt
  -- the walk
  have hwalk : Walk (m.Source.NumChannels * m.Source.SampleSize) m.Source.Params.Step
      st.DataPosFrac n
      (FeedSt.place m0 { st with Looping := loopAfter m.Source st.Looping st.DataPosInt })
      (st1.place m0) := by
    have e := advanceLoop_place _ m0 _ _ _ hadv (hrq.trans hq0) (hrt.trans hty0) hpl
    simp only [FeedSt.place] at e
    rw [hpI, hL] at e
    refine Walk.of_advance _ hFS _ _ hfr n _ _ ?_ rfl rfl ?_ ⟨fuel, e⟩
    · intro h1 h2 i b hb
      simp only [FeedSt.place] at h1 h2 hb
      rw [← hL] at h1
      rw [← hq0] at hb
      rw [← hty0] at h2
      exact hP.loop_ok hLb h1 h2 i b hb
    · simp only [FeedSt.place]
      omega
  -- where the source is left
  have hwfX : L = true → res.mem.Source.lSourceType = .AL_STATIC →
      ∀ i b, itemBuffer res.mem.Source.queue i = some b →
        b.LoopStart < b.LoopEnd ∧ b.LoopEnd < 4294967296 := by
    intro h1 h2 i b hb
    rw [hrq] at hb
    rw [hrt] at h2
    exact hP.loop_ok hLb h1 h2 i b hb
  obtain ⟨l1, l2, l3⟩ := advanceLoop_link _ hFS _ _ _ hadv hwfX
    (by simp only; rw [hrq]; exact hbs) (by simp only; rw [hrq]; exact hle)
    (by simp only; rw [hrq]; exact hlen) hW.link (by simp only; rw [hrq]; exact hplayed) hpl
  have hstat : m.Source.lSourceType = .AL_STATIC → ∀ b, m.Source.queue = [some b] →
      (L = true → st1.DataPosInt < b.LoopEnd) ∧
      (L = false → st1.DataPosInt = res.DataPosInt) := by
    intro hs b hq
    have hp0 : st.BuffersPlayed = 0 := by
      rw [hq] at hplayed
      simp only [List.length_singleton] at hplayed
      omega
    have hb0 : itemBuffer m.Source.queue 0 = some b := by
      rw [hq]
      rfl
    exact advanceLoop_static_facts _ hFS hadv (hrq.trans hq) (hrt.trans hs)
      (by simp only; rw [hW.link, hp0])
      (fun h1 => (hP.loop_ok hLb h1 hs 0 b hb0).1)
      (by
        have := hle 0
        unfold bufLoopEnd at this
        rw [hb0] at this
        simp only at this
        omega)
      hpl
  refine ⟨n, a2, by rw [hst.2, hpF], hwalk, ⟨l1, l3, ?_, ?_⟩, ?_⟩
  · intro hs hbl hlf b hq
    rw [a4] at hlf
    have e1 := (hstat hs b hq).2 hlf
    rw [e1, hpI]
    have e2 := hL
    rw [loopAfter_static hs hq, hlf] at e2
    have hcond : st.Looping = false ∨ b.LoopEnd ≤ st.DataPosInt := by
      by_contra hc
      rw [if_neg hc] at e2
      simp at e2
    rcases hcond with hc | hc
    · have := hW.past hs hbl hc b hq
      omega
    · omega
  · intro hs
    rw [a4, hL, loopAfter_stream hs]
    exact hW.stream hs
  · by_cases hs : m.Source.lSourceType = .AL_STATIC
    · obtain ⟨b, hq, -⟩ := hP.static hs
      rw [loopAfter_static hs hq]
      cases hl1 : st1.Looping with
      | false => simp
      | true =>
        have := (hstat hs b hq).1 (a4.symm.trans hl1)
        rw [if_neg (by
          rintro (hc | hc)
          · simp at hc
          · omega)]
    · exact loopAfter_stream hs _ _

/-- The window assembly leaves the local `Looping` set only if it was. -/
theorem loopAfter_true {Source : ALsource α F} {Lp : Bool} {p : Nat}
    (h : loopAfter Source Lp p = true) : Lp = true := by
  unfold loopAfter at h
  split at h
  · split at h
    · split at h
      · simp at h
      · next hc =>
        cases Lp with
        | false => exact absurd (Or.inl rfl) hc
        | true => rfl
    · exact h
  · exact h

/-- The loop of `MixSource` that leaves the source playing, as a walk: the locals it leaves
are where the walk of the samples it has mixed leads from the locals it was entered with. -/
theorem feedLoop_walk {E : Env α F} {m m0 : Mem α F} {std : Nat} {g : MixerFunc}
    {pre post : Nat} (hP : Playable E m std g pre post)
    (hq0 : m.Source.queue = m0.Source.queue)
    (hty0 : m.Source.lSourceType = m0.Source.lSourceType)
    (hlen : m.Source.queue.length < 4294967296)
    (hbs : ∀ it, bufSize m.Source.queue it < 2147483648)
    (hle : ∀ it, bufLoopEnd m.Source.queue it < 2147483648) {inner : Nat} :
    ∀ (fuel : Nat) (st s : FeedSt α F), FeedInv m std st → WalkInv m st →
      feedLoop E inner std m.Source.Params.Step m.Source.Resampler
        (u32 (m.Source.NumChannels * m.Source.SampleSize)) fuel st = .ok s →
      s.State = .AL_PLAYING →
      ∃ k, s.OutPos = st.OutPos + k ∧
        s.DataPosFrac = (st.DataPosFrac + k * m.Source.Params.Step) % 16384 ∧
        Walk (m.Source.NumChannels * m.Source.SampleSize) m.Source.Params.Step st.DataPosFrac k
          (FeedSt.place m0 { st with Looping := loopAfter m.Source st.Looping st.DataPosInt })
          (s.place m0) ∧
        WalkInv m s ∧ loopAfter m.Source s.Looping s.DataPosInt = s.Looping ∧
        FeedInv m std s ∧ s.OutPos = std := by
  obtain ⟨hFS, -, -, -⟩ := hP.frame
  intro fuel
  induction fuel with
  | zero =>
    intro st s hI hW h
    simp [feedLoop] at h
  | succ fuel ih =>
    intro st s hI hW h hpl
    simp only [feedLoop] at h
    split at h
    · simp at h
    · next st1 e1 =>
      have kI := (feedIter_keeps hP hI e1).1
      split at h
      · next hc =>
        obtain ⟨n, w1, w2, w3, w4, w5⟩ :=
          feedIter_walk hP hq0 hty0 hlen hbs hle hI hW e1 hc.1
        obtain ⟨k, v1, v2, v3, v4, v5, v6, v7⟩ := ih st1 s kI w4 h hpl
        rw [w5] at v3
        rw [w2] at v3 v2
        refine ⟨n + k, by omega, ?_, ?_, v4, v5, v6, v7⟩
        · rw [v2, ← frac_shift]
        · refine Walk.add _ hFS _ _ n ?_ w3 rfl k _ v3
          intro h1 h2 i b hb
          simp only [FeedSt.place] at h1 h2 hb
          rw [← hq0] at hb
          rw [← hty0] at h2
          exact hP.loop_ok (fun hh => hI.loop (loopAfter_true hh)) h1 h2 i b hb
      · next hc =>
        simp only [Except.ok.injEq] at h
        subst h
        obtain ⟨n, w1, w2, w3, w4, w5⟩ :=
          feedIter_walk hP hq0 hty0 hlen hbs hle hI hW e1 hpl
        have := kI.out
        exact ⟨n, w1, w2, w3, w4, w5, kI, by
          by_contra hne
          exact hc ⟨hpl, by omega⟩⟩

/-- The locals of `MixSource` on entry satisfy what the loop keeps true of where the source
is. -/
theorem walkInv_init (m : Mem α F) (hpos : m.Source.position < 2147483648) :
    WalkInv m
      ({ mem := m
         State := m.Source.state
         BuffersPlayed := m.Source.BuffersPlayed
         DataPosInt := m.Source.position
         DataPosFrac := m.Source.position_fraction
         Looping := m.Source.bLooping
         BufferListItem := some m.Source.BuffersPlayed
         OutPos := 0
         calls := [] } : FeedSt α F) :=
  { link := rfl
    pos := hpos
    past := fun _ h1 h2 => by
      simp only at h2
      rw [h1] at h2
      simp at h2
    stream := fun _ => rfl }

/-- A source as `MixSource` leaves it playing is playable again: only its position, its
fraction and the count of buffers played have changed. -/
theorem Playable.next {E : Env α F} {m m1 : Mem α F} {std : Nat} {g : MixerFunc}
    {pre post : Nat} (hP : Playable E m std g pre post)
    (hDo : m1.Source.Params.DoMix = m.Source.Params.DoMix)
    (hStep : m1.Source.Params.Step = m.Source.Params.Step)
    (hRes : m1.Source.Resampler = m.Source.Resampler)
    (hNC : m1.Source.NumChannels = m.Source.NumChannels)
    (hSS : m1.Source.SampleSize = m.Source.SampleSize)
    (hq : m1.Source.queue = m.Source.queue)
    (hty : m1.Source.lSourceType = m.Source.lSourceType)
    (hbl : m1.Source.bLooping = m.Source.bLooping)
    (hfrac : m1.Source.position_fraction < FRACTIONONE)
    (hplayed : m1.Source.BuffersPlayed < m.Source.queue.length)
    (hin : m.Source.lSourceType = .AL_STATIC → ∀ b, m.Source.queue = [some b] →
      m1.Source.position * (m.Source.NumChannels * m.Source.SampleSize) ≤ b.size) :
    Playable E m1 std g pre post :=
  { do_mix := hDo.trans hP.do_mix
    selected := by
      rw [hRes]
      exact hP.selected
    pre_pad := by
      rw [hRes]
      exact hP.pre_pad
    post_pad := by
      rw [hRes]
      exact hP.post_pad
    sample_size := hSS.trans hP.sample_size
    channels := by
      rw [hNC]
      exact hP.channels
    stack := hP.stack
    step_pos := by
      rw [hStep]
      exact hP.step_pos
    step_le := by
      rw [hStep, hNC, hSS]
      exact hP.step_le
    frac := hfrac
    todo := hP.todo
    played := by
      rw [hq]
      exact hplayed
    static := fun hs => by
      rw [hty] at hs
      obtain ⟨b, h1, h2, h3, -, h5⟩ := hP.static hs
      refine ⟨b, by rw [hq]; exact h1, h2, by rw [hNC, hSS]; exact h3, ?_, ?_⟩
      · rw [hNC, hSS]
        exact hin hs b h1
      · rw [hbl]
        exact h5
    stream := fun hs hl => by
      rw [hty] at hs
      rw [hbl] at hl
      rw [hq, hNC, hSS]
      exact hP.stream hs hl }

end SplitIter

section SplitFuel

/-- The loop `while(pos < BufferPrePadding)` returns the same with more fuel. -/
theorem wrapPre_more (len pre : Nat) :
    ∀ (fuel pos r : Nat), wrapPre len pre fuel pos = .ok r →
      wrapPre len pre (fuel + 1) pos = .ok r := by
  intro fuel
  induction fuel with
  | zero =>
    intro pos r h
    simp [wrapPre] at h
  | succ fuel ih =>
    intro pos r h
    rw [wrapPre] at h ⊢
    split at h
    · next hc =>
      rw [if_pos hc]
      exact ih _ _ h
    · next hc =>
      rw [if_neg hc]
      exact h

/-- The tiling loop returns the same with more fuel. -/
theorem tileLoop_more (Data : List Nat) (start : Nat) :
    ∀ (fuel : Nat) (S : List Nat) (B D : Nat) (R : List Nat),
      tileLoop Data start fuel S B D = .ok R → tileLoop Data start (fuel + 1) S B D = .ok R := by
  intro fuel
  induction fuel with
  | zero =>
    intro S B D R h
    simp [tileLoop] at h
  | succ fuel ih =>
    intro S B D R h
    rw [tileLoop] at h ⊢
    split at h
    · next hc =>
      rw [if_pos hc]
      split at h
      · simp at h
      · next X hX => exact ih _ _ _ _ h
    · next hc =>
      rw [if_neg hc]
      exact h

/-- The backward crawl returns the same with more fuel. -/
theorem backLoop_more (q : Queue) (Lp : Bool) :
    ∀ (fuel it pos : Nat) (S : List Nat) (B : Nat) (r : Nat × Nat × List Nat × Nat),
      backLoop q Lp fuel it pos S B = .ok r → backLoop q Lp (fuel + 1) it pos S B = .ok r := by
  intro fuel
  induction fuel with
  | zero =>
    intro it pos S B r h
    simp [backLoop] at h
  | succ fuel ih =>
    intro it pos S B r h
    rw [backLoop] at h ⊢
    split at h
    · next hc =>
      rw [if_pos hc]
      split at h
      · next hd =>
        rw [if_pos hd]
        exact h
      · next hd =>
        rw [if_neg hd]
        simp only at h ⊢
        split at h
        · next b hb =>
          split at h
          · next he =>
            rw [if_pos he]
            exact h
          · next he =>
            rw [if_neg he]
            exact ih _ _ _ _ _ h
        · exact ih _ _ _ _ _ h
    · next hc =>
      rw [if_neg hc]
      exact h

/-- The forward crawl returns the same with more fuel. -/
theorem fwdLoop_more (q : Queue) (Lp : Bool) :
    ∀ (fuel : Nat) (it : Option Nat) (pos : Nat) (S : List Nat) (B : Nat) (R : List Nat),
      fwdLoop q Lp fuel it pos S B = .ok R → fwdLoop q Lp (fuel + 1) it pos S B = .ok R := by
  intro fuel
  induction fuel with
  | zero =>
    intro it pos S B R h
    simp [fwdLoop] at h
  | succ fuel ih =>
    intro it pos S B R h
    unfold fwdLoop at h
    unfold fwdLoop
    split at h
    · exact h
    · next i =>
      simp only at h ⊢
      split at h
      · next hc =>
        rw [if_pos hc]
        split at h
        · simp at h
        · next p1 X1 C1 hcp =>
          split at h
          · exact ih _ _ _ _ _ h
          · split at h
            · next hl =>
              rw [if_pos hl]
              exact ih _ _ _ _ _ h
            · next hl =>
              rw [if_neg hl]
              exact h
      · next hc =>
        rw [if_neg hc]
        exact h

/-- The window assembly of a static source returns the same with more fuel. -/
theorem assembleStatic_more {fuel : Nat} {b : ALbuffer} {Lp : Bool} {p pre FS B : Nat}
    {r : List Nat × Bool} (h : assembleStatic fuel b Lp p pre FS B = .ok r) :
    assembleStatic (fuel + 1) b Lp p pre FS B = .ok r := by
  unfold assembleStatic at h ⊢
  split at h
  · next hc =>
    rw [if_pos hc]
    exact h
  · next hc =>
    rw [if_neg hc]
    simp only at h ⊢
    by_cases h1 : b.LoopStart ≤ p
    · rw [if_pos h1] at h ⊢
      cases hw : wrapPre (usub b.LoopEnd b.LoopStart) pre fuel (p - b.LoopStart) with
      | error e =>
        rw [hw] at h
        simp at h
      | ok x =>
        rw [hw] at h
        rw [wrapPre_more _ _ _ _ _ hw]
        simp only at h ⊢
        split at h
        · simp at h
        · next X hX =>
          split at h
          · simp at h
          · next R hR =>
            rw [tileLoop_more _ _ _ _ _ _ _ hR]
            exact h
    · rw [if_neg h1] at h ⊢
      split at h
      · simp at h
      · next pos hpos =>
        split at h
        · simp at h
        · next X hX =>
          split at h
          · simp at h
          · next R hR =>
            rw [tileLoop_more _ _ _ _ _ _ _ hR]
            exact h

/-- The window assembly of a source that is not static returns the same with more fuel. -/
theorem assembleStream_more {fuel : Nat} {q : Queue} {Lp : Bool} {item : Option Nat}
    {p pre FS B : Nat} {S : List Nat} (h : assembleStream fuel q Lp item p pre FS B = .ok S) :
    assembleStream (fuel + 1) q Lp item p pre FS B = .ok S := by
  unfold assembleStream at h ⊢
  split at h
  · next hc =>
    rw [if_pos hc]
    exact fwdLoop_more q Lp _ _ _ _ _ _ h
  · next hc =>
    rw [if_neg hc]
    split at h
    · simp at h
    · next it =>
      split at h
      · simp at h
      · next I1 p1 X1 C1 e1 =>
        rw [backLoop_more q Lp _ _ _ _ _ _ e1]
        exact fwdLoop_more q Lp _ _ _ _ _ _ h

end SplitFuel

section SplitFuelFeed

variable {α F : Type} [Add α] [Sub α] [Mul α] [Div α] [IntCast α]

/-- The window assembly of one iteration returns the same with more fuel. -/
theorem assemble_more {fuel : Nat} {Source : ALsource α F} {Lp : Bool} {item : Option Nat}
    {p pre FS B : Nat} {r : List Nat × Bool}
    (h : assemble fuel Source Lp item p pre FS B = .ok r) :
    assemble (fuel + 1) Source Lp item p pre FS B = .ok r := by
  unfold assemble at h ⊢
  split at h
  · next hs =>
    rw [if_pos hs]
    split at h
    · simp at h
    · simp at h
    · exact assembleStatic_more h
  · next hs =>
    rw [if_neg hs]
    split at h
    · simp at h
    · next S hS =>
      rw [assembleStream_more hS]
      exact h

/-- The body of the loop of `MixSource` returns the same with more fuel for the loops inside
it. -/
theorem feedIter_more {E : Env α F} {fuel std inc : Nat} {r : Resampler} {FS : Nat}
    {st st1 : FeedSt α F} (h : feedIter E fuel std inc r FS st = .ok st1) :
    feedIter E (fuel + 1) std inc r FS st = .ok st1 := by
  obtain ⟨pre, post, B0, S, L, n, g, res, h1, h2, h3, h4, h5, h6, h7, h8⟩ := feedIter_inv h
  unfold feedIter
  rw [h1, h2]
  simp only
  rw [h3]
  simp only
  rw [assemble_more h4]
  simp only
  rw [h5]
  simp only
  rw [h6]
  simp only
  rw [h7]
  simp only
  exact advanceLoop_more FS _ _ _ h8

/-- The loop of `MixSource` returns the same with more fuel for the loops inside its body. -/
theorem feedLoop_inner {E : Env α F} {inner std inc : Nat} {r : Resampler} {FS : Nat} :
    ∀ (fuel : Nat) (st st1 : FeedSt α F), feedLoop E inner std inc r FS fuel st = .ok st1 →
      feedLoop E (inner + 1) std inc r FS fuel st = .ok st1 := by
  intro fuel
  induction fuel with
  | zero =>
    intro st st1 h
    simp [feedLoop] at h
  | succ fuel ih =>
    intro st st1 h
    simp only [feedLoop] at h ⊢
    split at h
    · simp at h
    · next st2 h2 =>
      rw [feedIter_more h2]
      simp only
      split at h
      · next hc =>
        rw [if_pos hc]
        exact ih _ _ h
      · next hc =>
        rw [if_neg hc]
        exact h

/-- The loop of `MixSource` returns the same with more fuel. -/
theorem feedLoop_more {E : Env α F} {inner std inc : Nat} {r : Resampler} {FS : Nat} :
    ∀ (fuel : Nat) (st st1 : FeedSt α F), feedLoop E inner std inc r FS fuel st = .ok st1 →
      feedLoop E inner std inc r FS (fuel + 1) st = .ok st1 := by
  intro fuel
  induction fuel with
  | zero =>
    intro st st1 h
    simp [feedLoop] at h
  | succ fuel ih =>
    intro st st1 h
    rw [feedLoop] at h ⊢
    split at h
    · simp at h
    · next st2 h2 =>
      split at h
      · next hc =>
        rw [if_pos hc]
        exact ih _ _ h
      · next hc =>
        rw [if_neg hc]
        exact h

/-- The function `MixSource` returns the same with more fuel. -/
theorem MixSource_more {E : Env α F} {fuel : Nat} {m : Mem α F} {std : Nat}
    {r : Mem α F × List MixCall} (h : MixSource E fuel m std = .ok r) :
    MixSource E (fuel + 1) m std = .ok r := by
  unfold MixSource at h ⊢
  simp only at h ⊢
  split at h
  · simp at h
  · next item hitem =>
    split at h
    · simp at h
    · next st hst =>
      rw [feedLoop_more _ _ _ (feedLoop_inner _ _ _ hst)]
      exact h

/-- What `MixSource` returns does not depend on the fuel. -/
theorem MixSource_det {E : Env α F} {f1 f2 : Nat} {m : Mem α F} {std : Nat}
    {r1 r2 : Mem α F × List MixCall} (h1 : MixSource E f1 m std = .ok r1)
    (h2 : MixSource E f2 m std = .ok r2) : r1 = r2 := by
  have k : ∀ (f : Nat) (r : Mem α F × List MixCall), MixSource E f m std = .ok r →
      ∀ j, MixSource E (f + j) m std = .ok r := by
    intro f r h j
    induction j with
    | zero => exact h
    | succ j ih => exact MixSource_more ih
  have e1 := k f1 r1 h1 f2
  have e2 := k f2 r2 h2 f1
  rw [Nat.add_comm] at e2
  rw [e1] at e2
  exact Except.ok.inj e2

end SplitFuelFeed
section SplitMix

variable {α F : Type} [Add α] [Sub α] [Mul α] [Div α] [IntCast α]

/-- The local `Looping` that the window assembly leaves when `MixSource` is entered again
where its loop has left a playing source is the one the loop has left. -/
theorem loopAfter_reset {E : Env α F} {m : Mem α F} {std : Nat} {g : MixerFunc}
    {pre post : Nat} (hP : Playable E m std g pre post) {s : FeedSt α F}
    (hI : FeedInv m std s) (hW : WalkInv m s)
    (hst : loopAfter m.Source s.Looping s.DataPosInt = s.Looping) :
    loopAfter m.Source m.Source.bLooping s.DataPosInt = s.Looping := by
  by_cases hs : m.Source.lSourceType = .AL_STATIC
  · obtain ⟨b, hq, -⟩ := hP.static hs
    rw [loopAfter_static hs hq] at hst ⊢
    cases hl : s.Looping with
    | false =>
      cases hbl : m.Source.bLooping with
      | false => simp
      | true =>
        have := hW.past hs hbl hl b hq
        rw [if_pos (Or.inr this)]
    | true =>
      rw [hl] at hst
      have hc : ¬ ((true = false) ∨ b.LoopEnd ≤ s.DataPosInt) := by
        intro hc
        rw [if_pos hc] at hst
        simp at hst
      rw [hI.loop hl, if_neg hc]
  · rw [loopAfter_stream hs]
    exact (hW.stream hs).symm

/-- On a playable source `MixSource` returns, given enough fuel, what its loop leaves, the
fields it writes back apart. -/
theorem MixSource_run {E : Env α F} {m : Mem α F} {std : Nat} {g : MixerFunc}
    {pre post : Nat} (hP : Playable E m std g pre post) :
    ∃ (f0 : Nat) (s : FeedSt α F) (r : Mem α F × List MixCall),
      (∀ inner, f0 ≤ inner → ∀ fuel, f0 ≤ fuel →
        feedLoop E inner std m.Source.Params.Step m.Source.Resampler
          (u32 (m.Source.NumChannels * m.Source.SampleSize)) fuel
          { mem := m
            State := m.Source.state
            BuffersPlayed := m.Source.BuffersPlayed
            DataPosInt := m.Source.position
            DataPosFrac := m.Source.position_fraction
            Looping := m.Source.bLooping
            BufferListItem := some m.Source.BuffersPlayed
            OutPos := 0
            calls := [] } = .ok s) ∧
      (∀ fuel, f0 ≤ fuel → MixSource E fuel m std = .ok r) ∧
      r.1.Device = s.mem.Device ∧
      r.1.Source.state = s.State ∧
      r.1.Source.BuffersPlayed = s.BuffersPlayed ∧
      r.1.Source.position = s.DataPosInt ∧
      r.1.Source.position_fraction = s.DataPosFrac ∧
      r.1.Source.Params = s.mem.Source.Params ∧
      r.1.Source.Resampler = s.mem.Source.Resampler ∧
      r.1.Source.NumChannels = s.mem.Source.NumChannels ∧
      r.1.Source.SampleSize = s.mem.Source.SampleSize ∧
      r.1.Source.queue = s.mem.Source.queue ∧
      r.1.Source.lSourceType = s.mem.Source.lSourceType ∧
      r.1.Source.bLooping = s.mem.Source.bLooping := by
  have hw := walkQueue_head hP.played
  obtain ⟨A, B, s, hs⟩ := feedLoop_returns hP std _ (feedInv_init hP)
    (Nat.le_of_eq (Nat.sub_zero std))
  exact ⟨max A B, s, _,
    fun inner hi fuel hf => hs inner (le_trans (le_max_left _ _) hi) fuel
      (le_trans (le_max_right _ _) hf),
    fun fuel hf => MixSource_loop_ok E m hw
      (hs fuel (le_trans (le_max_left _ _) hf) fuel (le_trans (le_max_right _ _) hf)),
    rfl, rfl, rfl, rfl, rfl, rfl, rfl, rfl, rfl, rfl, rfl, rfl⟩

/-- C23.  Take a source `m` that is `Playable` for a slice of `2N` samples with a plain
(non-HRTF) mixer, whose queue and buffers fit their 32-bit types (fewer than `2^32` items,
buffers shorter than `2^31` bytes with loop ends below `2^31`) and whose position is below
`2^31`, as any position inside a buffer is; and let the dry filter keep a part of its state
for each source channel (its `view`): a filter step on a channel gives a value and a new part
for that channel that depend on that channel's part only, and leaves the other channels'
parts alone.  Then `MixSource` returns for `2N` samples and for `N` samples, given enough
fuel; the two calls leave the same rows `0` to `N - 1` of the dry buffer, so they add the same
values to them; the call for `N` samples leaves the rows from `N` on as they were; and if the
call for `N` samples leaves the source playing, `MixSource` returns for `N` more samples, and
when the source is still playing after them and after the call for `2N` samples, the two
calls for `N` samples leave the `BuffersPlayed`, the position and the fraction that the call
for `2N` samples leaves. -/
theorem C23_split_mix {H : Type} (E : Env α F) (view : F → Nat → H) (m : Mem α F) (N : Nat)
    (g : MixerFunc) (pre post : Nat) (hP : Playable E m (2 * N) g pre post)
    (hg : g.isHrtf = false)
    (hV : ∀ (F1 F2 : F) (i : Nat) (x : α), view F1 i = view F2 i →
      (E.lpFilter2P F1 i x).2 = (E.lpFilter2P F2 i x).2 ∧
      view (E.lpFilter2P F1 i x).1 i = view (E.lpFilter2P F2 i x).1 i)
    (hK : ∀ (Flt : F) (k j : Nat) (x : α), k ≠ j →
      view (E.lpFilter2P Flt j x).1 k = view Flt k)
    (hlen : m.Source.queue.length < 4294967296)
    (hbs : ∀ it, bufSize m.Source.queue it < 2147483648)
    (hle : ∀ it, bufLoopEnd m.Source.queue it < 2147483648)
    (hpos : m.Source.position < 2147483648) :
    ∃ (f0 : Nat) (r2 r1 : Mem α F × List MixCall),
      (∀ fuel, f0 ≤ fuel → MixSource E fuel m (2 * N) = .ok r2) ∧
      (∀ fuel, f0 ≤ fuel → MixSource E fuel m N = .ok r1) ∧
      (∀ k, k < N → r2.1.Device.DryBuffer k = r1.1.Device.DryBuffer k ∧
        ∀ c, r2.1.Device.DryBuffer k c - m.Device.DryBuffer k c
          = r1.1.Device.DryBuffer k c - m.Device.DryBuffer k c) ∧
      (∀ k, N ≤ k → r1.1.Device.DryBuffer k = m.Device.DryBuffer k) ∧
      (r1.1.Source.state = .AL_PLAYING →
        ∃ (f1 : Nat) (r11 : Mem α F × List MixCall),
          (∀ fuel, f1 ≤ fuel → MixSource E fuel r1.1 N = .ok r11) ∧
          (r2.1.Source.state = .AL_PLAYING → r11.1.Source.state = .AL_PLAYING →
            r11.1.Source.BuffersPlayed = r2.1.Source.BuffersPlayed ∧
            r11.1.Source.position = r2.1.Source.position ∧
            r11.1.Source.position_fraction = r2.1.Source.position_fraction)) := by
  have hN : N ≤ 2 * N := by omega
  have hP1 := hP.shorter hN
  obtain ⟨hFS, -, -, -⟩ := hP.frame
  obtain ⟨A2, s2, r2, l2, x2, d2, y2⟩ := MixSource_run hP
  obtain ⟨A1, s1, r1, l1, x1, d1, y1⟩ := MixSource_run hP1
  have e2 := l2 (max A2 A1) (le_max_left _ _) (max A2 A1) (le_max_left _ _)
  have e1 := l1 (max A2 A1) (le_max_right _ _) (max A2 A1) (le_max_right _ _)
  have hrow : ∀ k, k < N → r2.1.Device.DryBuffer k = r1.1.Device.DryBuffer k := by
    intro k hk
    rw [d2, d1]
    exact (feedLoop_couple view hV hK hP hN hg _ _ _ _ _ (feedInv_init hP1) e1 e2 k hk).symm
  refine ⟨max A2 A1, r2, r1, fun fuel hf => x2 fuel (le_trans (le_max_left _ _) hf),
    fun fuel hf => x1 fuel (le_trans (le_max_right _ _) hf),
    fun k hk => ⟨hrow k hk, fun c => by rw [hrow k hk]⟩,
    fun k hk => ?_, fun hpl1 => ?_⟩
  · rw [d1]
    exact feedLoop_rows hP1 hg (feedInv_init hP1) e1 k (Or.inr hk)
  · obtain ⟨q1, q2, q3, q4, q5, q6, q7, q8, q9, q10, q11⟩ := y1
    rw [q1] at hpl1
    obtain ⟨k1, o1, w1, v1, i1, t1, I1, z1⟩ :=
      feedLoop_walk hP1 rfl rfl hlen hbs hle _ _ _ (feedInv_init hP1) (walkInv_init m hpos)
        e1 hpl1
    simp only at o1 w1 v1
    have hk1 : N = k1 := by omega
    subst hk1
    have fQ : r1.1.Source.queue = m.Source.queue := q9.trans (congrArg Fixed.queue I1.fixed)
    have fT : r1.1.Source.lSourceType = m.Source.lSourceType :=
      q10.trans (congrArg Fixed.lSourceType I1.fixed)
    have fN : r1.1.Source.NumChannels = m.Source.NumChannels :=
      q7.trans (congrArg Fixed.NumChannels I1.fixed)
    have fS : r1.1.Source.SampleSize = m.Source.SampleSize :=
      q8.trans (congrArg Fixed.SampleSize I1.fixed)
    have fR : r1.1.Source.Resampler = m.Source.Resampler :=
      q6.trans (congrArg Fixed.Resampler I1.fixed)
    have fL : r1.1.Source.bLooping = m.Source.bLooping :=
      q11.trans (congrArg Fixed.bLooping I1.fixed)
    have fStep : r1.1.Source.Params.Step = m.Source.Params.Step := by
      rw [q5]
      exact congrArg Fixed.Step I1.fixed
    have fDo : r1.1.Source.Params.DoMix = m.Source.Params.DoMix := by
      rw [q5]
      exact congrArg Fixed.DoMix I1.fixed
    have hplayed : s1.BuffersPlayed < m.Source.queue.length := by
      obtain ⟨it, hit, hlt⟩ := I1.item
      have := i1.link
      rw [hit] at this
      rw [← Option.some.inj this]
      exact hlt
    have hP3 : Playable E r1.1 N g pre post :=
      hP1.next fDo fStep fR fN fS fQ fT fL (by rw [q4]; exact I1.frac)
        (by rw [q2]; exact hplayed) (fun hs b hq => by rw [q3]; exact I1.inside hs b hq)
    obtain ⟨A3, s3, r3, l3, x3, d3, y3⟩ := MixSource_run hP3
    refine ⟨A3, r3, x3, fun hpl2 hpl3 => ?_⟩
    obtain ⟨p1, p2, p3, p4, -⟩ := y3
    obtain ⟨u1, u2, u3, u4, -⟩ := y2
    rw [p1] at hpl3
    rw [u1] at hpl2
    obtain ⟨k3, o3, w3, v3, -, -, -, z3⟩ :=
      feedLoop_walk hP3 fQ fT (by rw [fQ]; exact hlen) (by rw [fQ]; exact hbs)
        (by rw [fQ]; exact hle) _ _ _ (feedInv_init hP3)
        (walkInv_init r1.1 (by rw [q3]; exact i1.pos)) (l3 A3 (Nat.le_refl _) A3 (Nat.le_refl _))
        hpl3
    simp only at o3 w3 v3
    have hk3 : N = k3 := by omega
    subst hk3
    obtain ⟨k2, o2, w2, v2, -, -, -, z2⟩ :=
      feedLoop_walk hP rfl rfl hlen hbs hle _ _ _ (feedInv_init hP) (walkInv_init m hpos)
        e2 hpl2
    simp only at o2 w2 v2
    have hk2 : N + N = k2 := by omega
    subst hk2
    have hstart : FeedSt.place m
        ({ mem := r1.1
           State := r1.1.Source.state
           BuffersPlayed := r1.1.Source.BuffersPlayed
           DataPosInt := r1.1.Source.position
           DataPosFrac := r1.1.Source.position_fraction
           Looping := loopAfter r1.1.Source r1.1.Source.bLooping r1.1.Source.position
           BufferListItem := some r1.1.Source.BuffersPlayed
           OutPos := 0
           calls := [] } : FeedSt α F) = s1.place m := by
      simp only [FeedSt.place]
      rw [loopAfter_congr fQ fT, fL, q2, q3, loopAfter_reset hP1 I1 i1 t1, i1.link]
    rw [hstart, fN, fS, fStep, q4, w1] at v3
    have hall := Walk.add _ hFS _ _ N (by
      intro h1 h2 i b hb
      simp only [FeedSt.place] at h1 h2 hb
      exact hP.loop_ok (fun hh => loopAfter_true hh) h1 h2 i b hb) v1 rfl N _ v3
    have heq := Walk.det _ _ _ _ hall v2
    refine ⟨?_, ?_, ?_⟩
    · rw [p2, u2]
      show (FeedSt.place m s3).BuffersPlayed = (FeedSt.place m s2).BuffersPlayed
      rw [heq]
    · rw [p3, u3]
      show (FeedSt.place m s3).DataPosInt = (FeedSt.place m s2).DataPosInt
      rw [heq]
    · rw [p4, u4, w3, w2, q4, w1, fStep, ← frac_shift]

end SplitMix
theorem exSplit1_ok : MixSource (exEnv 6) 16 exStream 2 = .ok exSplit1 :=
  okOr_of_ok (exStream, []) _ ⟨_, rfl⟩

theorem exSplit2_ok : MixSource (exEnv 6) 16 exStream (2 * 2) = .ok exSplit2 :=
  okOr_of_ok (exStream, []) _ ⟨_, rfl⟩

theorem exSplit11_ok : MixSource (exEnv 6) 16 exSplit1.1 2 = .ok exSplit11 :=
  okOr_of_ok (exSplit1.1, []) _ ⟨_, rfl⟩

/-- C23 at a concrete source: the looping queue `exStream` (cubic resampler, three quarters
of a frame per step, an item without a buffer) with a stack buffer of 6 bytes and `N = 2`.
The slice of 2 samples takes one mixer call and the slice of 4 samples two; the source is
playing after each call; the rows 0 and 1 of the dry buffer are the same after the call for 4
samples and after the call for 2 samples, which leaves the rows from 2 on as they were; and
two calls for 2 samples leave the `BuffersPlayed`, the position and the fraction of the call
for 4 samples. -/
theorem C23_split_mix_witness :
    Playable (exEnv 6) exStream (2 * 2) .Mix_ALbyte_cubic8 1 2 ∧
    exSplit1.2.length = 1 ∧ exSplit2.2.length = 2 ∧
    exSplit1.1.Source.state = .AL_PLAYING ∧ exSplit2.1.Source.state = .AL_PLAYING ∧
    exSplit11.1.Source.state = .AL_PLAYING ∧
    (∀ k, k < 2 → exSplit2.1.Device.DryBuffer k = exSplit1.1.Device.DryBuffer k) ∧
    (∀ k, 2 ≤ k → exSplit1.1.Device.DryBuffer k = exStream.Device.DryBuffer k) ∧
    exSplit11.1.Source.BuffersPlayed = exSplit2.1.Source.BuffersPlayed ∧
    exSplit11.1.Source.position = exSplit2.1.Source.position ∧
    exSplit11.1.Source.position_fraction = exSplit2.1.Source.position_fraction := by
  have hP : Playable (exEnv 6) exStream (2 * 2) .Mix_ALbyte_cubic8 1 2 :=
    { do_mix := rfl
      selected := ⟨exBuffer [], Or.inl rfl⟩
      pre_pad := rfl
      post_pad := rfl
      sample_size := rfl
      channels := by decide
      stack := by decide
      step_pos := by decide
      step_le := by decide
      frac := by decide
      todo := by decide
      played := by decide
      static := fun h => absurd h (by decide)
      stream := fun _ _ => ⟨0, by decide, by decide⟩ }
  have hsz : ∀ it, bufSize exStream.Source.queue it < 2147483648 ∧
      bufLoopEnd exStream.Source.queue it < 2147483648 := fun it =>
    match it with
    | 0 => by decide
    | 1 => by decide
    | 2 => by decide
    | _ + 3 => ⟨show 0 < 2147483648 by decide, show 0 < 2147483648 by decide⟩
  obtain ⟨f0, r2, r1, h2, h1, hrows, hrest, hnext⟩ :=
    C23_split_mix (exEnv 6) (fun _ _ => ()) exStream 2 .Mix_ALbyte_cubic8 1 2 hP rfl
      (fun _ _ _ _ _ => ⟨rfl, rfl⟩) (fun _ _ _ _ _ => rfl) (by decide)
      (fun it => (hsz it).1) (fun it => (hsz it).2) (by decide)
  have e1 : r1 = exSplit1 := MixSource_det (h1 f0 (Nat.le_refl _)) exSplit1_ok
  have e2 : r2 = exSplit2 := MixSource_det (h2 f0 (Nat.le_refl _)) exSplit2_ok
  subst e1
  subst e2
  obtain ⟨f1, r11, h11, htrip⟩ := hnext (by rfl)
  have e3 : r11 = exSplit11 := MixSource_det (h11 f1 (Nat.le_refl _)) exSplit11_ok
  subst e3
  exact ⟨hP, by rfl, by rfl, by rfl, by rfl, by rfl, fun k hk => (hrows k hk).1, hrest,
    htrip (by rfl) (by rfl)⟩

/-! ## C32: a playing source is inside its current buffer -/

section Inside

variable {α F : Type} [Add α] [Sub α] [Mul α] [Div α] [IntCast α]

/-- The walk to the current item does not return an item from a null pointer. -/
theorem walkQueue_null (q : Queue) (n it : Nat) : walkQueue q n none ≠ .ok (some it) := by
  cases n with
  | zero => simp [walkQueue]
  | succ n => simp [walkQueue]

/-- The walk to the current item, when it returns an item, returns the one `n` places on,
inside the queue. -/
theorem walkQueue_link (q : Queue) :
    ∀ (n i it : Nat), walkQueue q n (some i) = .ok (some it) → i < q.length →
      it = i + n ∧ it < q.length := by
  intro n
  induction n with
  | zero =>
    intro i it h hi
    simp only [walkQueue, Except.ok.injEq, Option.some.injEq] at h
    subst h
    exact ⟨rfl, hi⟩
  | succ n ih =>
    intro i it h hi
    simp only [walkQueue] at h
    unfold itemNext at h
    by_cases h1 : i + 1 < q.length
    · rw [if_pos h1] at h
      obtain ⟨e1, e2⟩ := ih _ _ h h1
      exact ⟨by omega, e2⟩
    · rw [if_neg h1] at h
      exact absurd h (walkQueue_null q n it)

/-- The walk from the head of the queue, when it returns an item, returns item
`BuffersPlayed`, inside the queue. -/
theorem walkQueue_played (q : Queue) (n it : Nat)
    (h : walkQueue q n (queueHead q) = .ok (some it)) : it = n ∧ n < q.length := by
  unfold queueHead at h
  by_cases h0 : 0 < q.length
  · rw [if_pos h0] at h
    obtain ⟨e1, e2⟩ := walkQueue_link q n 0 it h h0
    omega
  · rw [if_neg h0] at h
    exact absurd h (walkQueue_null q n it)

/-- The loop under "Handle looping sources" needs a current item. -/
theorem advanceLoop_needs_item (FS : Nat) (fuel : Nat) (st st1 : FeedSt α F)
    (h : advanceLoop FS fuel st = .ok st1) : ∃ it, st.BufferListItem = some it := by
  cases fuel with
  | zero => simp [advanceLoop] at h
  | succ fuel =>
    cases hi : st.BufferListItem with
    | none =>
      rw [advanceLoop] at h
      simp [hi] at h
    | some it => exact ⟨it, rfl⟩

/-- Where the loop under "Handle looping sources" leaves a playing source, when every loop
end is inside its buffer: the current item is the one `BuffersPlayed` counts to, it is
inside the queue, it has a buffer, and the position is inside that buffer. -/
theorem advanceLoop_inside (FS : Nat) (hFS : 0 < FS) :
    ∀ (fuel : Nat) (st st1 : FeedSt α F), advanceLoop FS fuel st = .ok st1 →
      (st.Looping = true → st.mem.Source.lSourceType = .AL_STATIC →
        ∀ it b, itemBuffer st.mem.Source.queue it = some b →
          b.LoopStart < b.LoopEnd ∧ b.LoopEnd < 4294967296) →
      (∀ it b, itemBuffer st.mem.Source.queue it = some b → b.LoopEnd ≤ b.size / FS) →
      st.mem.Source.queue.length ≤ 4294967296 →
      st.BufferListItem = some st.BuffersPlayed →
      st.BuffersPlayed < st.mem.Source.queue.length →
      st1.State = .AL_PLAYING →
      st1.BufferListItem = some st1.BuffersPlayed ∧
      st1.BuffersPlayed < st.mem.Source.queue.length ∧
      ∃ b, itemBuffer st.mem.Source.queue st1.BuffersPlayed = some b ∧
        st1.DataPosInt < b.size / FS := by
  intro fuel
  induction fuel with
  | zero =>
    intro st st1 h
    simp [advanceLoop] at h
  | succ fuel ih =>
    intro st st1 h hwf hle hlen hit hpl hr
    by_cases hs : st.Looping = true ∧ st.mem.Source.lSourceType = .AL_STATIC
    · cases hb : itemBuffer st.mem.Source.queue st.BuffersPlayed with
      | none =>
        rw [advanceLoop] at h
        simp only [hit, hb] at h
        simp [hs.1, hs.2, usub] at h
      | some b =>
        obtain ⟨hlt, hE⟩ := hwf hs.1 hs.2 _ b hb
        have hL := hle _ b hb
        rw [advanceLoop_static FS fuel _ _ b hFS hit hb hs hlt hE] at h
        by_cases h1 : st.DataPosInt < b.LoopEnd
        · rw [if_pos h1] at h
          simp only [Except.ok.injEq] at h
          subst h
          exact ⟨hit, hpl, b, hb, by omega⟩
        · rw [if_neg h1] at h
          simp only [Except.ok.injEq] at h
          subst h
          have hm := Nat.mod_lt (usub st.DataPosInt b.LoopStart)
            (show 0 < b.LoopEnd - b.LoopStart by omega)
          exact ⟨hit, hpl, b, hb, by simp only; omega⟩
    · rw [advanceLoop_step FS fuel _ _ hFS hit hs] at h
      by_cases h1 : st.DataPosInt < bufLoopEnd st.mem.Source.queue st.BuffersPlayed ∨
          st.DataPosInt < bufSize st.mem.Source.queue st.BuffersPlayed / FS
      · rw [if_pos h1] at h
        simp only [Except.ok.injEq] at h
        subst h
        refine ⟨hit, hpl, ?_⟩
        unfold bufLoopEnd bufSize at h1
        cases hb : itemBuffer st.mem.Source.queue st.BuffersPlayed with
        | none =>
          rw [hb] at h1
          simp at h1
        | some b =>
          rw [hb] at h1
          simp only at h1
          have hL := hle _ b hb
          exact ⟨b, rfl, by omega⟩
      · rw [if_neg h1] at h
        by_cases h2 : st.BuffersPlayed + 1 < st.mem.Source.queue.length
        · rw [if_pos h2] at h
          have k := ih _ st1 h
          simp only at k
          rw [u32_small _ (show st.BuffersPlayed + 1 < 4294967296 by omega)] at k
          exact k hwf hle hlen rfl h2 hr
        · rw [if_neg h2] at h
          by_cases h3 : st.Looping = true
          · rw [if_pos h3] at h
            have k := ih _ st1 h
            simp only [queueHead] at k
            rw [if_pos (show 0 < st.mem.Source.queue.length by omega)] at k
            exact k hwf hle hlen rfl (by omega) hr
          · rw [if_neg h3] at h
            simp only [Except.ok.injEq] at h
            rw [← h] at hr
            simp at hr

end Inside
section Inside2

variable {α F : Type} [Add α] [Sub α] [Mul α] [Div α] [IntCast α]

/-- An iteration that computes its sample count has a frame size and a step that are not
zero. -/
theorem mixCount_divisors {len std o inc f post pre FS n : Nat}
    (h : mixCount len std o inc f post pre FS = .ok n) : 0 < FS ∧ 0 < inc := by
  unfold mixCount at h
  by_cases h0 : FS = 0 ∨ inc = 0
  · rw [if_pos h0] at h
    exact Except.noConfusion h
  · constructor <;> omega

/-- One iteration of the loop of `MixSource`, when every loop end is inside its buffer:
the current item stays the one `BuffersPlayed` counts to, and a source left playing is
inside the buffer of its current item. -/
theorem feedIter_inside {E : Env α F} {m : Mem α F} {fuel std inc : Nat} {r : Resampler}
    {FS : Nat} {st st1 : FeedSt α F}
    (h : feedIter E fuel std inc r FS st = .ok st1)
    (hfix : st.mem.fixed = m.fixed)
    (hlp : st.Looping = true → m.Source.bLooping = true)
    (hitem : ∀ it, st.BufferListItem = some it →
      it = st.BuffersPlayed ∧ it < m.Source.queue.length)
    (hwf : m.Source.lSourceType = .AL_STATIC → m.Source.bLooping = true →
      ∀ it b, itemBuffer m.Source.queue it = some b →
        b.LoopStart < b.LoopEnd ∧ b.LoopEnd < 4294967296)
    (hle : ∀ it b, itemBuffer m.Source.queue it = some b → b.LoopEnd ≤ b.size / FS)
    (hlen : m.Source.queue.length ≤ 4294967296) :
    st1.mem.fixed = m.fixed ∧ (st1.Looping = true → m.Source.bLooping = true) ∧
    (st1.State = .AL_PLAYING →
      st1.BufferListItem = some st1.BuffersPlayed ∧
      st1.BuffersPlayed < m.Source.queue.length ∧
      ∃ b, itemBuffer m.Source.queue st1.BuffersPlayed = some b ∧
        st1.DataPosInt < b.size / FS) := by
  obtain ⟨pre, post, B0, S, L, n, g, res, hpre, hpost, hB, hA, hC, hg, hcall, hadv⟩ :=
    feedIter_inv h
  have hFS := (mixCount_divisors hC).1
  have hfr : res.mem.fixed = m.fixed := (call_fixed hcall).trans hfix
  have hL : L = true → m.Source.bLooping = true := fun hh => hlp (assemble_looping hA hh)
  obtain ⟨st2, hst2, hadv⟩ : ∃ st2 : FeedSt α F, st2 = { st with
      mem := res.mem
      DataPosInt := res.DataPosInt
      DataPosFrac := res.DataPosFrac
      Looping := L
      OutPos := u32 (st.OutPos + n)
      calls := st.calls ++ [{ SrcData := S
                              base := u32 (pre * FS)
                              DataPosInt := st.DataPosInt
                              DataPosFrac := st.DataPosFrac
                              OutPos := st.OutPos
                              BufferSize := n }] } ∧
      advanceLoop FS fuel st2 = .ok st1 := ⟨_, rfl, hadv⟩
  have g1 : st2.mem = res.mem := by rw [hst2]
  have g2 : st2.Looping = L := by rw [hst2]
  have g3 : st2.BufferListItem = st.BufferListItem := by rw [hst2]
  have g4 : st2.BuffersPlayed = st.BuffersPlayed := by rw [hst2]
  have hq : st2.mem.Source.queue = m.Source.queue := by
    rw [g1]
    exact congrArg Fixed.queue hfr
  have hty : st2.mem.Source.lSourceType = m.Source.lSourceType := by
    rw [g1]
    exact congrArg Fixed.lSourceType hfr
  obtain ⟨hm, -, -, hlo, -⟩ := advanceLoop_spec FS fuel _ _ hadv
  obtain ⟨it, hit⟩ := advanceLoop_needs_item FS fuel _ _ hadv
  rw [g3] at hit
  obtain ⟨e1, e2⟩ := hitem it hit
  refine ⟨by rw [hm, g1]; exact hfr, fun hh => hL (by rw [← g2, ← hlo]; exact hh), ?_⟩
  intro hplay
  have key := advanceLoop_inside FS hFS fuel st2 st1 hadv
    (by
      rw [g2, hty, hq]
      intro a1 a2
      exact hwf a2 (hL a1))
    (by rw [hq]; exact hle) (by rw [hq]; exact hlen)
    (by rw [g3, g4, hit, e1]) (by rw [g4, hq, ← e1]; exact e2) hplay
  rw [hq] at key
  exact key

end Inside2
section Inside3

variable {α F : Type} [Add α] [Sub α] [Mul α] [Div α] [IntCast α]

/-- What `MixSource` never writes: the queue, its length, the source type, the loop flag
and the frame layout are on return what they were on entry. -/
theorem MixSource_kept {E : Env α F} {fuel : Nat} {m : Mem α F} {std : Nat}
    {r : Mem α F × List MixCall} (h : MixSource E fuel m std = .ok r) :
    r.1.Source.queue = m.Source.queue ∧
    r.1.Source.BuffersInQueue = m.Source.BuffersInQueue ∧
    r.1.Source.NumChannels = m.Source.NumChannels ∧
    r.1.Source.SampleSize = m.Source.SampleSize ∧
    r.1.Source.lSourceType = m.Source.lSourceType ∧
    r.1.Source.bLooping = m.Source.bLooping := by
  unfold MixSource at h
  simp only at h
  split at h
  · simp at h
  · next item hitem =>
    split at h
    · simp at h
    · next st hst =>
      simp only [Except.ok.injEq] at h
      subst h
      have hfix := (feedLoop_ind (fun s : FeedSt α F => s.mem.fixed = m.fixed)
        (fun s : FeedSt α F => s.mem.fixed = m.fixed)
        (fun s s1 hI hit => (feedIter_state hI hit).1) (fun s hR _ _ => hR) fuel _ _ rfl hst).1
      exact ⟨congrArg Fixed.queue hfix, congrArg Fixed.BuffersInQueue hfix,
        congrArg Fixed.NumChannels hfix, congrArg Fixed.SampleSize hfix,
        congrArg Fixed.lSourceType hfix, congrArg Fixed.bLooping hfix⟩

/-- C32 (amended): the position stays inside the current buffer when every loop end does.
Take a source whose queue length is its `BuffersInQueue` (an `ALuint`), whose buffers (of
less than `2^31` bytes) all have their loop end at or before their sample count
`size / FrameSize`, with `LoopStart < LoopEnd` if the source is static and looping.  Whenever
`MixSource` returns with state Playing - for every `SamplesToDo`, step and entry position -
`BuffersPlayed < BuffersInQueue`, the queue item at index `BuffersPlayed` carries a buffer,
and the position is below that buffer's sample count. -/
theorem C32_position_inside (E : Env α F) (fuel : Nat) (m : Mem α F) (N : Nat)
    (r : Mem α F × List MixCall)
    (h : MixSource E fuel m N = .ok r)
    (hcount : m.Source.BuffersInQueue = m.Source.queue.length)
    (htyp : m.Source.BuffersInQueue < 4294967296)
    (hsize : ∀ it b, itemBuffer m.Source.queue it = some b → b.size < 2147483648)
    (hle : ∀ it b, itemBuffer m.Source.queue it = some b →
      b.LoopEnd ≤ b.size / u32 (m.Source.NumChannels * m.Source.SampleSize))
    (hwf : m.Source.lSourceType = .AL_STATIC → m.Source.bLooping = true →
      ∀ it b, itemBuffer m.Source.queue it = some b → b.LoopStart < b.LoopEnd)
    (hr : r.1.Source.state = .AL_PLAYING) :
    r.1.Source.BuffersPlayed < r.1.Source.BuffersInQueue ∧
    ∃ b, itemBuffer r.1.Source.queue r.1.Source.BuffersPlayed = some b ∧
      r.1.Source.position < b.size / u32 (r.1.Source.NumChannels * r.1.Source.SampleSize) := by
  obtain ⟨k1, k2, k3, k4, -, -⟩ := MixSource_kept h
  obtain ⟨item, st, hw, hfeed, -, -, -, hs, hbp, hpos, -⟩ := MixSource_inv h
  have hwf2 : m.Source.lSourceType = .AL_STATIC → m.Source.bLooping = true →
      ∀ it b, itemBuffer m.Source.queue it = some b →
        b.LoopStart < b.LoopEnd ∧ b.LoopEnd < 4294967296 := by
    intro a1 a2 it b hb
    have e1 := hle it b hb
    have e2 := hsize it b hb
    have e3 : b.size / u32 (m.Source.NumChannels * m.Source.SampleSize) ≤ b.size :=
      Nat.div_le_self _ _
    exact ⟨hwf a1 a2 it b hb, by omega⟩
  have hlen : m.Source.queue.length ≤ 4294967296 := by omega
  obtain ⟨⟨-, -, hfin⟩, -⟩ := feedLoop_ind
    (fun s : FeedSt α F => s.mem.fixed = m.fixed ∧
      (s.Looping = true → m.Source.bLooping = true) ∧
      (∀ it, s.BufferListItem = some it → it = s.BuffersPlayed ∧ it < m.Source.queue.length))
    (fun s : FeedSt α F => s.mem.fixed = m.fixed ∧
      (s.Looping = true → m.Source.bLooping = true) ∧
      (s.State = .AL_PLAYING →
        s.BufferListItem = some s.BuffersPlayed ∧
        s.BuffersPlayed < m.Source.queue.length ∧
        ∃ b, itemBuffer m.Source.queue s.BuffersPlayed = some b ∧
          s.DataPosInt < b.size / u32 (m.Source.NumChannels * m.Source.SampleSize)))
    (fun s s1 hI hit => feedIter_inside hit hI.1 hI.2.1 hI.2.2 hwf2 hle hlen)
    (fun s hR hpl _ => ⟨hR.1, hR.2.1, fun it hit => by
      obtain ⟨q1, q2, -⟩ := hR.2.2 hpl
      rw [q1] at hit
      have := Option.some.inj hit
      omega⟩)
    fuel _ _
    ⟨rfl, fun hh => hh, fun it hit => by
      have hit2 : item = some it := hit
      rw [hit2] at hw
      obtain ⟨e1, e2⟩ := walkQueue_played _ _ _ hw
      exact ⟨e1, by omega⟩⟩ hfeed
  rw [hs] at hr
  obtain ⟨-, q2, b, q3, q4⟩ := hfin hr
  rw [k1, k2, k3, k4, hbp, hpos, hcount]
  exact ⟨q2, b, q3, q4⟩

end Inside3

/-- A looping static source played for six samples returns Playing at frame 2. -/
theorem exLoopRun_ok : MixSource (exEnv 16384) 8 exLoop4 6 = .ok exLoopRun :=
  okOr_of_ok (exLoop4, []) _ ⟨_, rfl⟩

/-- C32 at scenario B: the looping source `exLoop4`, whose loop `[1, 3)` is inside its
four-sample buffer, played for six samples, returns Playing at item 0 of one, at frame 2 of
four. -/
theorem C32_position_inside_witness :
    MixSource (exEnv 16384) 8 exLoop4 6 = .ok exLoopRun ∧
    exLoopRun.1.Source.state = .AL_PLAYING ∧
    exLoopRun.1.Source.BuffersPlayed < exLoopRun.1.Source.BuffersInQueue ∧
    ∃ b, itemBuffer exLoopRun.1.Source.queue exLoopRun.1.Source.BuffersPlayed = some b ∧
      exLoopRun.1.Source.position
        < b.size / u32 (exLoopRun.1.Source.NumChannels * exLoopRun.1.Source.SampleSize) :=
  have hb : ∀ (it : Nat) (b : ALbuffer), itemBuffer exLoop4.Source.queue it = some b →
      b = { data := [10, 11, 12, 13], LoopStart := 1, LoopEnd := 3, FmtType := .FmtByte } := by
    intro it b hb
    cases it with
    | zero => exact (Option.some.inj hb).symm
    | succ k => simp [itemBuffer, exLoop4, exMem, exSource] at hb
  ⟨exLoopRun_ok, by rfl, C32_position_inside (exEnv 16384) 8 exLoop4 6 exLoopRun exLoopRun_ok rfl
    (by decide) (fun it b h => by rw [hb it b h]; decide)
    (fun it b h => by rw [hb it b h]; decide)
    (fun _ _ it b h => by rw [hb it b h]; decide) (by rfl)⟩

/-- The source `exLongLoop` played for five samples returns. -/
theorem exLongRun_ok : MixSource (exEnv 16384) 8 exLongLoop 5 = .ok exLongRun :=
  okOr_of_ok (exLongLoop, []) _ ⟨_, rfl⟩

/-- C32 fails for a buffer whose loop end lies beyond its samples.  The static source
`exLongLoop` is entered Playing at frame 0 of its four-sample buffer, whose `LoopEnd` is 10.
`MixSource` for five samples mixes them from the window `[10, 11, 12, 13, 0, 0]`; the loop
under "Handle looping sources" then finds `LoopEnd > DataPosInt` and leaves: the source is
still Playing, at item 0, at position 5, which is not below the sample count 4. -/
theorem C32_counterexample :
    exLongLoop.Source.state = .AL_PLAYING ∧
    itemBuffer exLongLoop.Source.queue exLongLoop.Source.BuffersPlayed
      = some { data := [10, 11, 12, 13], LoopStart := 0, LoopEnd := 10, FmtType := .FmtByte } ∧
    exLongLoop.Source.position
      < [10, 11, 12, 13].length / u32 (exLongLoop.Source.NumChannels * exLongLoop.Source.SampleSize) ∧
    MixSource (exEnv 16384) 8 exLongLoop 5 = .ok exLongRun ∧
    exLongRun.2.map (fun c => (c.SrcData, c.BufferSize)) = [([10, 11, 12, 13, 0, 0], 5)] ∧
    exLongRun.1.Source.state = .AL_PLAYING ∧
    exLongRun.1.Source.BuffersPlayed = 0 ∧
    itemBuffer exLongRun.1.Source.queue exLongRun.1.Source.BuffersPlayed
      = some { data := [10, 11, 12, 13], LoopStart := 0, LoopEnd := 10, FmtType := .FmtByte } ∧
    exLongRun.1.Source.position = 5 ∧
    ¬ exLongRun.1.Source.position
      < [10, 11, 12, 13].length
        / u32 (exLongRun.1.Source.NumChannels * exLongRun.1.Source.SampleSize) :=
  ⟨rfl, rfl, by decide, exLongRun_ok, by rfl, by rfl, by rfl, by rfl, by rfl, by decide⟩

/-! ## C31: a request below the cap serves the whole remainder -/

section Uncapped

variable {α F : Type} [Add α] [Sub α] [Mul α] [Div α] [IntCast α]

/-- The request before the cap is what `requestSize` caps. -/
theorem requestSize_needed {STACK std o inc f post pre FS B0 : Nat}
    (h : requestSize STACK std o inc f post pre FS = .ok B0) :
    B0 = u32 (if STACK < neededBytes std o inc f post pre FS then STACK
              else neededBytes std o inc f post pre FS)
         - u32 (if STACK < neededBytes std o inc f post pre FS then STACK
                else neededBytes std o inc f post pre FS) % FS := by
  unfold requestSize at h
  simp only at h
  split at h
  · simp at h
  · split at h
    · simp at h
    · simp only [Except.ok.injEq] at h
      rw [← h]
      rfl

/-- The request before the cap, while `SamplesToDo - OutPos + 1` does not wrap. -/
theorem neededBytes_eq {std o inc f post pre FS : Nat} (hstd : std < 4294967295)
    (ho : o ≤ std) (hf : f < 16384) (hp : post + pre < 4294967296) :
    neededBytes std o inc f post pre FS
      = (((std - o + 1) * inc + f + 16383) / 16384 + post + pre) * FS := by
  unfold neededBytes
  rw [shr_fb, FRACTIONMASK_eq, usub_of_le ho (by omega), u32_small _ (by omega),
    u32_small _ (by omega), u32_small _ hp, Nat.add_assoc ((std - o + 1) * inc), Nat.add_assoc]

/-- The arithmetic of an iteration whose request is below the cap: the window has the
frames asked for, and they support every sample that is left. -/
theorem uncapped_count {STACK FS std o inc f pre post : Nat} (hFS : 0 < FS)
    (hS : STACK ≤ 131072) (hinc : 1 ≤ inc) (hf : f < 16384)
    (hu : (((std - o + 1) * inc + f + 16383) / 16384 + post + pre) * FS ≤ STACK) :
    iterFrames STACK FS std o inc f pre post
      = ((std - o + 1) * inc + f + 16383) / 16384 + post + pre ∧
    iterCount (iterFrames STACK FS std o inc f pre post) std o inc f pre post = std - o := by
  have h1 : ((std - o + 1) * inc + f + 16383) / 16384 + post + pre ≤ STACK / FS :=
    (Nat.le_div_iff_mul_le hFS).mpr hu
  have h2 : STACK / FS ≤ STACK := Nat.div_le_self _ _
  have e1 : iterFrames STACK FS std o inc f pre post
      = ((std - o + 1) * inc + f + 16383) / 16384 + post + pre := by
    unfold iterFrames
    exact Nat.min_eq_right h1
  refine ⟨e1, ?_⟩
  rw [e1]
  unfold iterCount
  have e2 : ((std - o + 1) * inc + f + 16383) / 16384 + post + pre - (post + pre)
      = ((std - o + 1) * inc + f + 16383) / 16384 := by omega
  rw [e2]
  have e3 : (std - o + 1) * inc = (std - o) * inc + inc := by
    rw [Nat.add_mul, Nat.one_mul]
  generalize hY : ((std - o + 1) * inc + f + 16383) / 16384 = Y at *
  have hdm := Nat.div_add_mod ((std - o + 1) * inc + f + 16383) 16384
  have hml := Nat.mod_lt ((std - o + 1) * inc + f + 16383) (show 0 < 16384 by omega)
  rw [hY] at hdm
  have hq1 : std - o ≤ (Y * 16384 - f - 1) / inc := by
    apply (Nat.le_div_iff_mul_le (by omega)).mpr
    omega
  have hq2 : (Y * 16384 - f - 1) / inc ≤ Y * 16384 - f - 1 := Nat.div_le_self _ _
  rw [Nat.mod_eq_of_lt (by omega)]
  exact Nat.min_eq_right hq1

end Uncapped
section Uncapped2

variable {α F : Type} [Add α] [Sub α] [Mul α] [Div α] [IntCast α]

/-- One iteration of the loop of `MixSource` on a playable source makes one mixer call, at
the `OutPos` and the fraction of the iteration, and adds its sample count to `OutPos`.  If
the request of the iteration is below the cap, the window has the bytes asked for and the
call is handed every sample that is left. -/
theorem feedIter_uncapped {E : Env α F} {m : Mem α F} {std : Nat} {g : MixerFunc}
    {pre post : Nat} (hP : Playable E m std g pre post) {st st1 : FeedSt α F}
    (hI : FeedInv m std st) {fuel : Nat}
    (h : feedIter E fuel std m.Source.Params.Step m.Source.Resampler
      (u32 (m.Source.NumChannels * m.Source.SampleSize)) st = .ok st1) :
    ∃ c : MixCall, st1.calls = st.calls ++ [c] ∧ c.OutPos = st.OutPos ∧
      c.DataPosFrac = st.DataPosFrac ∧ st1.OutPos = st.OutPos + c.BufferSize ∧
      (neededBytes std st.OutPos m.Source.Params.Step st.DataPosFrac post pre
          (u32 (m.Source.NumChannels * m.Source.SampleSize)) ≤ E.STACK_DATA_SIZE →
        c.SrcData.length = neededBytes std st.OutPos m.Source.Params.Step st.DataPosFrac
          post pre (u32 (m.Source.NumChannels * m.Source.SampleSize)) ∧
        c.BufferSize = std - st.OutPos) := by
  obtain ⟨hFS, hFSle, hpads, hS⟩ := hP.frame
  obtain ⟨S, L, n, res, hasm, hlen, f1, f2, f3, f4, f5, f6, hcall, hfix, hpi, hpf, hadv⟩ :=
    feedIter_facts hP hI h
  obtain ⟨-, ho, hc, -, -⟩ := advanceLoop_spec _ fuel _ _ hadv
  have hpp := padding_small hP.pre_pad hP.post_pad
  have hstd := hP.todo
  norm_num at hstd
  have hfr := hI.frac
  rw [FRACTIONONE_eq] at hfr
  refine ⟨_, hc, rfl, rfl, ho, ?_⟩
  intro hu
  rw [u32_small _ (show m.Source.NumChannels * m.Source.SampleSize < 4294967296 by omega),
    neededBytes_eq hstd hI.out hfr (by omega)] at hu ⊢
  obtain ⟨e1, e2⟩ := uncapped_count hFS hS hP.step_pos hfr hu
  show S.length = _ ∧ n = _
  rw [hlen, e1, f3, e2]
  exact ⟨rfl, rfl⟩

/-- C31 (amended).  Take a source and a slice `SamplesToDo < 2^32 - 1` that are `Playable`
(the mixer selected for the sample type, a step of at least 1 that the stack buffer of at
most `2^17` bytes can hold, a fraction below `FRACTIONONE`, a current queue item, a static
source inside its buffer).  `MixSource` returns given enough fuel.  Every mixer call it
makes in an iteration whose request `neededBytes` is not above `STACK_DATA_SIZE` has a
window of exactly the bytes asked for, is handed `BufferSize = SamplesToDo - OutPos`
samples, and is the last call.  In particular, if the request on entry is not capped,
`MixSource` makes one call, for all `SamplesToDo` samples. -/
theorem C31_uncapped_single (E : Env α F) (m : Mem α F) (N : Nat) (g : MixerFunc)
    (pre post : Nat) (hP : Playable E m N g pre post) :
    ∃ (f0 : Nat) (r : Mem α F × List MixCall),
      (∀ fuel, f0 ≤ fuel → MixSource E fuel m N = .ok r) ∧
      (∀ i c, r.2[i]? = some c →
        neededBytes N c.OutPos m.Source.Params.Step c.DataPosFrac post pre
          (u32 (m.Source.NumChannels * m.Source.SampleSize)) ≤ E.STACK_DATA_SIZE →
        c.SrcData.length = neededBytes N c.OutPos m.Source.Params.Step c.DataPosFrac post pre
          (u32 (m.Source.NumChannels * m.Source.SampleSize)) ∧
        c.BufferSize = N - c.OutPos ∧ i + 1 = r.2.length) ∧
      (neededBytes N 0 m.Source.Params.Step m.Source.position_fraction post pre
          (u32 (m.Source.NumChannels * m.Source.SampleSize)) ≤ E.STACK_DATA_SIZE →
        ∃ c, r.2 = [c] ∧ c.OutPos = 0 ∧ c.BufferSize = N) := by
  obtain ⟨f0, s, r, -, hret, -⟩ := MixSource_run hP
  obtain ⟨item, st, hw, hfeed, hcalls, -⟩ := MixSource_inv (hret f0 (Nat.le_refl _))
  rw [walkQueue_head hP.played] at hw
  simp only [Except.ok.injEq] at hw
  subst hw
  obtain ⟨⟨-, hall, hfirst⟩, -⟩ := feedLoop_ind
    (fun s : FeedSt α F => FeedInv m N s ∧
      (∀ c, c ∈ s.calls →
        ¬ neededBytes N c.OutPos m.Source.Params.Step c.DataPosFrac post pre
          (u32 (m.Source.NumChannels * m.Source.SampleSize)) ≤ E.STACK_DATA_SIZE) ∧
      ((s.calls = [] ∧ s.OutPos = 0 ∧ s.DataPosFrac = m.Source.position_fraction) ∨
        ∃ c, s.calls[0]? = some c ∧ c.OutPos = 0 ∧
          c.DataPosFrac = m.Source.position_fraction))
    (fun s : FeedSt α F => FeedInv m N s ∧
      (∀ i c, s.calls[i]? = some c →
        neededBytes N c.OutPos m.Source.Params.Step c.DataPosFrac post pre
          (u32 (m.Source.NumChannels * m.Source.SampleSize)) ≤ E.STACK_DATA_SIZE →
        (c.SrcData.length = neededBytes N c.OutPos m.Source.Params.Step c.DataPosFrac post pre
          (u32 (m.Source.NumChannels * m.Source.SampleSize)) ∧
        c.BufferSize = N - c.OutPos ∧ i + 1 = s.calls.length) ∧ s.OutPos = N) ∧
      ∃ c, s.calls[0]? = some c ∧ c.OutPos = 0 ∧ c.DataPosFrac = m.Source.position_fraction)
    (fun s s1 hI hit => by
      obtain ⟨c0, k1, k2, k3, k4, k5⟩ := feedIter_uncapped hP hI.1 hit
      refine ⟨(feedIter_keeps hP hI.1 hit).1, ?_, ?_⟩
      · intro i c hic hu
        rw [k1] at hic
        by_cases hlt : i < s.calls.length
        · rw [List.getElem?_append_left hlt] at hic
          exact absurd hu (hI.2.1 c (List.getElem?_mem hic))
        · rw [List.getElem?_append_right (by omega)] at hic
          have hi0 : i - s.calls.length = 0 := by
            by_contra hne
            obtain ⟨j, hj⟩ : ∃ j, i - s.calls.length = j + 1 :=
              ⟨i - s.calls.length - 1, by omega⟩
            rw [hj] at hic
            simp at hic
          rw [hi0] at hic
          simp only [List.getElem?_cons_zero, Option.some.injEq] at hic
          subst hic
          rw [k2, k3] at hu ⊢
          obtain ⟨q1, q2⟩ := k5 hu
          have ho := hI.1.out
          refine ⟨⟨q1, q2, ?_⟩, ?_⟩
          · rw [k1, List.length_append, List.length_singleton]
            omega
          · rw [k4, q2]
            omega
      · rcases hI.2.2 with ⟨e1, e2, e3⟩ | ⟨c, e1, e2, e3⟩
        · refine ⟨c0, ?_, by rw [k2, e2], by rw [k3, e3]⟩
          rw [k1, e1]
          rfl
        · refine ⟨c, ?_, e2, e3⟩
          rw [k1]
          have hpos : 0 < s.calls.length := by
            cases hs : s.calls with
            | nil => rw [hs] at e1; simp at e1
            | cons a l => simp
          rw [List.getElem?_append_left hpos]
          exact e1)
    (fun s hR hpl hlt => ⟨hR.1, fun c hc hu => by
      obtain ⟨i, hi⟩ := List.getElem?_of_mem hc
      have := (hR.2.1 i c hi hu).2
      omega, Or.inr hR.2.2⟩)
    f0 _ _ ⟨feedInv_init hP, fun c hc => by simp at hc, Or.inl ⟨rfl, rfl, rfl⟩⟩ hfeed
  refine ⟨f0, r, hret, ?_, ?_⟩
  · intro i c hic hu
    rw [hcalls] at hic ⊢
    exact (hall i c hic hu).1
  · intro hu
    obtain ⟨c, e1, e2, e3⟩ := hfirst
    rw [← e2, ← e3] at hu
    obtain ⟨⟨-, q2, q3⟩, -⟩ := hall 0 c e1 hu
    refine ⟨c, ?_, e2, by rw [q2, e2]; rfl⟩
    rw [hcalls]
    cases hs : st.calls with
    | nil => rw [hs] at e1; simp at e1
    | cons a l =>
      rw [hs] at e1 q3
      simp only [List.getElem?_cons_zero, Option.some.injEq] at e1
      simp only [List.length_cons] at q3
      have hl : l = [] := List.length_eq_zero.mp (by omega)
      rw [hl, e1]

end Uncapped2
/-- With a stack buffer of four bytes the looping source `exLoop4` played for six samples
returns. -/
theorem exCapRun_ok : MixSource (exEnv 4) 8 exLoop4 6 = .ok exCapRun :=
  okOr_of_ok (exLoop4, []) _ ⟨_, rfl⟩

/-- C31 on the looping source `exLoop4` (one-byte frames, no padding, unit step) played for
six samples.  With a stack buffer of four bytes the first request, seven bytes, is capped
and its call mixes three samples; the second request, four bytes, is not, and its call is
handed the three samples left and is the last.  With a stack buffer of 16384 bytes the
request on entry is not capped and `MixSource` makes one call, for all six samples. -/
theorem C31_uncapped_single_witness :
    Playable (exEnv 4) exLoop4 6 .Mix_ALbyte_point8 0 0 ∧
    exCapRun.2.map (fun c => (c.OutPos, c.BufferSize, c.SrcData.length))
      = [(0, 3, 4), (3, 3, 4)] ∧
    ¬ neededBytes 6 0 16384 0 0 0 1 ≤ 4 ∧ neededBytes 6 3 16384 0 0 0 1 ≤ 4 ∧
    (∀ i c, exCapRun.2[i]? = some c →
      neededBytes 6 c.OutPos exLoop4.Source.Params.Step c.DataPosFrac 0 0
        (u32 (exLoop4.Source.NumChannels * exLoop4.Source.SampleSize))
        ≤ (exEnv 4).STACK_DATA_SIZE →
      c.SrcData.length = neededBytes 6 c.OutPos exLoop4.Source.Params.Step c.DataPosFrac 0 0
        (u32 (exLoop4.Source.NumChannels * exLoop4.Source.SampleSize)) ∧
      c.BufferSize = 6 - c.OutPos ∧ i + 1 = exCapRun.2.length) ∧
    Playable (exEnv 16384) exLoop4 6 .Mix_ALbyte_point8 0 0 ∧
    neededBytes 6 0 16384 0 0 0 1 ≤ 16384 ∧
    ∃ c, exLoopRun.2 = [c] ∧ c.OutPos = 0 ∧ c.BufferSize = 6 :=
  have hP4 : Playable (exEnv 4) exLoop4 6 .Mix_ALbyte_point8 0 0 :=
    { do_mix := rfl
      selected := ⟨exBuffer [], Or.inl rfl⟩
      pre_pad := rfl
      post_pad := rfl
      sample_size := rfl
      channels := by decide
      stack := by decide
      step_pos := by decide
      step_le := by decide
      frac := by decide
      todo := by decide
      played := by decide
      static := fun _ => ⟨_, rfl, by decide, by decide, by decide, fun _ => by decide⟩
      stream := fun h => absurd rfl h }
  have hP : Playable (exEnv 16384) exLoop4 6 .Mix_ALbyte_point8 0 0 :=
    { do_mix := rfl
      selected := ⟨exBuffer [], Or.inl rfl⟩
      pre_pad := rfl
      post_pad := rfl
      sample_size := rfl
      channels := by decide
      stack := by decide
      step_pos := by decide
      step_le := by decide
      frac := by decide
      todo := by decide
      played := by decide
      static := fun _ => ⟨_, rfl, by decide, by decide, by decide, fun _ => by decide⟩
      stream := fun h => absurd rfl h }
  ⟨hP4, by rfl, by decide, by decide,
    (by
      obtain ⟨f0, r, h1, h2, -⟩ :=
        C31_uncapped_single (exEnv 4) exLoop4 6 .Mix_ALbyte_point8 0 0 hP4
      have e : r = exCapRun := MixSource_det (h1 f0 (Nat.le_refl _)) exCapRun_ok
      subst e
      exact h2),
    hP, by decide,
    (by
      obtain ⟨f0, r, h1, -, h3⟩ :=
        C31_uncapped_single (exEnv 16384) exLoop4 6 .Mix_ALbyte_point8 0 0 hP
      have e : r = exLoopRun := MixSource_det (h1 f0 (Nat.le_refl _)) exLoopRun_ok
      subst e
      exact h3 (by decide))⟩

/-- C31 fails for `SamplesToDo = 2^32 - 1`.  On the static source `exStatic4` (unit step,
fraction 0, one-byte frames, no padding, a stack buffer of 16384 bytes) the 32-bit
`SamplesToDo - OutPos + 1` is 0: the request is 0 bytes, which is not capped, the window is
empty, and `BufferSize` is 0, not `SamplesToDo - OutPos = 2^32 - 1`.  The mixer then reads
frame 0 outside the window and `OutPos` does not advance: `MixSource` does not finish the
slice. -/
theorem C31_counterexample :
    1 ≤ (exStatic4 .AL_PLAYING 0).Source.Params.Step ∧
    (exStatic4 .AL_PLAYING 0).Source.position_fraction < FRACTIONONE ∧
    neededBytes 4294967295 0 16384 0 0 0 1 = 0 ∧
    neededBytes 4294967295 0 16384 0 0 0 1 ≤ (exEnv 16384).STACK_DATA_SIZE ∧
    requestSize (exEnv 16384).STACK_DATA_SIZE 4294967295 0 16384 0 0 0 1 = .ok 0 ∧
    assemble 8 (exStatic4 .AL_PLAYING 0).Source false (some 0) 0 0 1 0 = .ok ([], false) ∧
    mixCount 0 4294967295 0 16384 0 0 0 1 = .ok 0 ∧
    (0 : Nat) ≠ 4294967295 - 0 ∧
    ∀ fuel, ∀ r, MixSource (exEnv 16384) fuel (exStatic4 .AL_PLAYING 0) 4294967295 ≠ .ok r := by
  refine ⟨by decide, by decide, by decide, by decide, by rfl, by rfl, by rfl, by decide,
    fun fuel r => ?_⟩
  cases fuel with
  | zero =>
    intro h
    have e : MixSource (exEnv 16384) 0 (exStatic4 .AL_PLAYING 0) 4294967295
        = .error .outOfFuel := by rfl
    rw [e] at h
    exact Except.noConfusion h
  | succ k =>
    intro h
    have e : MixSource (exEnv 16384) (k + 1) (exStatic4 .AL_PLAYING 0) 4294967295
        = .error .badRead := by rfl
    rw [e] at h
    exact Except.noConfusion h

/-! ## C33: a static looping source inside and beyond its loop -/

section LoopFlag

variable {α F : Type} [Add α] [Sub α] [Mul α] [Div α] [IntCast α]

/-- A loop whose body commutes with a map of the state commutes with it. -/
theorem forLoop_map {σ : Type} (T : σ → σ) (body : Nat → σ → Except Fault σ)
    (hb : ∀ i s, body i (T s) = (body i s).map T) :
    ∀ (n i : Nat) (s : σ), forLoop body n i (T s) = (forLoop body n i s).map T := by
  intro n
  induction n with
  | zero => intro i s; rfl
  | succ n ih =>
    intro i s
    simp only [forLoop]
    rw [hb]
    cases body i s with
    | error e => rfl
    | ok s1 => exact ih _ _

theorem mixDryStep_flag (E : Env α F) (smp : SamplerId) (data : SrcPtr) (nc inc i : Nat)
    (G : Nat → α) (x : Bool) (c : Cur α F) :
    mixDryStep E smp data nc inc i G { c with mem := c.mem.setLooping x }
      = (mixDryStep E smp data nc inc i G c).map
          (fun c1 => { c1 with mem := c1.mem.setLooping x }) := by
  unfold mixDryStep
  dsimp only
  cases sample E smp data nc c.pos c.frac i <;> rfl

theorem mixDryLead_flag (E : Env α F) (smp : SamplerId) (data : SrcPtr) (nc i : Nat)
    (G : Nat → α) (x : Bool) (c : Cur α F) :
    mixDryLead E smp data nc i G { c with mem := c.mem.setLooping x }
      = (mixDryLead E smp data nc i G c).map
          (fun c1 => { c1 with mem := c1.mem.setLooping x }) := by
  unfold mixDryLead
  dsimp only
  cases sample E smp data nc c.pos c.frac i <;> rfl

theorem mixDryTrail_flag (E : Env α F) (smp : SamplerId) (data : SrcPtr) (nc i : Nat)
    (G : Nat → α) (x : Bool) (c : Cur α F) :
    mixDryTrail E smp data nc i G { c with mem := c.mem.setLooping x }
      = (mixDryTrail E smp data nc i G c).map
          (fun c1 => { c1 with mem := c1.mem.setLooping x }) := by
  unfold mixDryTrail
  dsimp only
  cases sample E smp data nc c.pos c.frac i <;> rfl

end LoopFlag
section LoopFlag2

variable {α F : Type} [Add α] [Sub α] [Mul α] [Div α] [IntCast α]

theorem mixDryChannel_flag (E : Env α F) (smp : SamplerId) (data : SrcPtr)
    (nc inc f std n : Nat) (x : Bool) (i : Nat) (c : Cur α F) :
    mixDryChannel E smp data nc inc f std n i { c with mem := c.mem.setLooping x }
      = (mixDryChannel E smp data nc inc f std n i c).map
          (fun c1 => { c1 with mem := c1.mem.setLooping x }) := by
  unfold mixDryChannel
  dsimp only
  have eG : (c.mem.setLooping x).Source.Params.DryGains i = c.mem.Source.Params.DryGains i :=
    rfl
  rw [eG]
  have e1 := mixDryLead_flag E smp data nc i (c.mem.Source.Params.DryGains i) x
    { c with pos := 0, frac := f }
  dsimp only at e1
  have e0 : (if c.OutPos = 0 then
        mixDryLead E smp data nc i (c.mem.Source.Params.DryGains i)
          { mem := c.mem.setLooping x, pos := 0, frac := f, OutPos := c.OutPos }
      else .ok { mem := c.mem.setLooping x, pos := 0, frac := f, OutPos := c.OutPos })
      = (if c.OutPos = 0 then
          mixDryLead E smp data nc i (c.mem.Source.Params.DryGains i)
            { mem := c.mem, pos := 0, frac := f, OutPos := c.OutPos }
        else .ok { mem := c.mem, pos := 0, frac := f, OutPos := c.OutPos }).map
          (fun c1 : Cur α F => { c1 with mem := c1.mem.setLooping x }) := by
    by_cases h0 : c.OutPos = 0
    · rw [if_pos h0, if_pos h0, e1]
    · rw [if_neg h0, if_neg h0]
      rfl
  rw [e0]
  cases (if c.OutPos = 0 then
          mixDryLead E smp data nc i (c.mem.Source.Params.DryGains i)
            { mem := c.mem, pos := 0, frac := f, OutPos := c.OutPos }
        else .ok { mem := c.mem, pos := 0, frac := f, OutPos := c.OutPos }) with
  | error e => rfl
  | ok c1 =>
    dsimp only [Except.map]
    rw [forLoop_map (fun c1 : Cur α F => { c1 with mem := c1.mem.setLooping x }) _
      (fun _ s => mixDryStep_flag E smp data nc inc i (c.mem.Source.Params.DryGains i) x s)]
    cases forLoop (fun _ => mixDryStep E smp data nc inc i (c.mem.Source.Params.DryGains i))
        n 0 c1 with
    | error e => rfl
    | ok c2 =>
      simp only [Except.map]
      by_cases h2 : c2.OutPos = std
      · rw [if_pos h2, if_pos h2]
        have e3 := mixDryTrail_flag E smp data nc i (c.mem.Source.Params.DryGains i) x c2
        rw [e3]
        cases mixDryTrail E smp data nc i (c.mem.Source.Params.DryGains i) c2 <;> rfl
      · rw [if_neg h2, if_neg h2]

end LoopFlag2
section LoopFlag3

variable {α F : Type} [Add α] [Sub α] [Mul α] [Div α] [IntCast α]

theorem mixWetStep_flag (E : Env α F) (smp : SamplerId) (data : SrcPtr) (nc inc : Nat)
    (out a i : Nat) (x : Bool) (c : Cur α F) :
    mixWetStep E smp data nc inc out a i { c with mem := c.mem.setLooping x }
      = (mixWetStep E smp data nc inc out a i c).map
          (fun c1 => { c1 with mem := c1.mem.setLooping x }) := by
  unfold mixWetStep
  dsimp only
  cases sample E smp data nc c.pos c.frac i <;> rfl

theorem mixWetLead_flag (E : Env α F) (smp : SamplerId) (data : SrcPtr) (nc : Nat)
    (out a i : Nat) (x : Bool) (c : Cur α F) :
    mixWetLead E smp data nc out a i { c with mem := c.mem.setLooping x }
      = (mixWetLead E smp data nc out a i c).map
          (fun c1 => { c1 with mem := c1.mem.setLooping x }) := by
  unfold mixWetLead
  dsimp only
  cases sample E smp data nc c.pos c.frac i <;> rfl

theorem mixWetTrail_flag (E : Env α F) (smp : SamplerId) (data : SrcPtr) (nc : Nat)
    (out a i : Nat) (x : Bool) (c : Cur α F) :
    mixWetTrail E smp data nc out a i { c with mem := c.mem.setLooping x }
      = (mixWetTrail E smp data nc out a i c).map
          (fun c1 => { c1 with mem := c1.mem.setLooping x }) := by
  unfold mixWetTrail
  dsimp only
  cases sample E smp data nc c.pos c.frac i <;> rfl

theorem mixWetChannel_flag (E : Env α F) (smp : SamplerId) (data : SrcPtr)
    (nc inc f std n : Nat) (out a : Nat) (x : Bool) (i : Nat) (c : Cur α F) :
    mixWetChannel E smp data nc inc f std n out a i { c with mem := c.mem.setLooping x }
      = (mixWetChannel E smp data nc inc f std n out a i c).map
          (fun c1 => { c1 with mem := c1.mem.setLooping x }) := by
  unfold mixWetChannel
  dsimp only
  have e1 := mixWetLead_flag E smp data nc out a i x { c with pos := 0, frac := f }
  dsimp only at e1
  have e0 : (if c.OutPos = 0 then
        mixWetLead E smp data nc out a i
          { mem := c.mem.setLooping x, pos := 0, frac := f, OutPos := c.OutPos }
      else .ok { mem := c.mem.setLooping x, pos := 0, frac := f, OutPos := c.OutPos })
      = (if c.OutPos = 0 then
          mixWetLead E smp data nc out a i
            { mem := c.mem, pos := 0, frac := f, OutPos := c.OutPos }
        else .ok { mem := c.mem, pos := 0, frac := f, OutPos := c.OutPos }).map
          (fun c1 : Cur α F => { c1 with mem := c1.mem.setLooping x }) := by
    by_cases h0 : c.OutPos = 0
    · rw [if_pos h0, if_pos h0, e1]
    · rw [if_neg h0, if_neg h0]
      rfl
  rw [e0]
  cases (if c.OutPos = 0 then
          mixWetLead E smp data nc out a i
            { mem := c.mem, pos := 0, frac := f, OutPos := c.OutPos }
        else .ok { mem := c.mem, pos := 0, frac := f, OutPos := c.OutPos }) with
  | error e => rfl
  | ok c1 =>
    dsimp only [Except.map]
    rw [forLoop_map (fun c1 : Cur α F => { c1 with mem := c1.mem.setLooping x }) _
      (fun _ s => mixWetStep_flag E smp data nc inc out a i x s)]
    cases forLoop (fun _ => mixWetStep E smp data nc inc out a i) n 0 c1 with
    | error e => rfl
    | ok c2 =>
      simp only [Except.map]
      by_cases h2 : c2.OutPos = std
      · rw [if_pos h2, if_pos h2]
        have e3 := mixWetTrail_flag E smp data nc out a i x c2
        rw [e3]
        cases mixWetTrail E smp data nc out a i c2 <;> rfl
      · rw [if_neg h2, if_neg h2]

theorem mixSend_flag (E : Env α F) (smp : SamplerId) (data : SrcPtr)
    (nc inc f std n : Nat) (x : Bool) (out : Nat) (c : Cur α F) :
    mixSend E smp data nc inc f std n out { c with mem := c.mem.setLooping x }
      = (mixSend E smp data nc inc f std n out c).map
          (fun c1 => { c1 with mem := c1.mem.setLooping x }) := by
  unfold mixSend
  dsimp only
  have eS : ((c.mem.setLooping x).Source.Params.Send out).Slot
      = (c.mem.Source.Params.Send out).Slot := rfl
  rw [eS]
  cases (c.mem.Source.Params.Send out).Slot with
  | none => rfl
  | some a =>
    dsimp only
    have eT : ((c.mem.setLooping x).Slot a).effectType = (c.mem.Slot a).effectType := rfl
    rw [eT]
    by_cases h0 : (c.mem.Slot a).effectType = E.AL_EFFECT_NULL
    · rw [if_pos h0, if_pos h0]
      rfl
    · rw [if_neg h0, if_neg h0]
      exact forLoop_map (fun c1 : Cur α F => { c1 with mem := c1.mem.setLooping x }) _
        (fun i s => mixWetChannel_flag E smp data nc inc f std n out a x i s) _ _ _

theorem Mix_flag (E : Env α F) (smp : SamplerId) (m : Mem α F) (data : SrcPtr)
    (p f o std n : Nat) (x : Bool) :
    Mix E smp (m.setLooping x) data p f o std n
      = (Mix E smp m data p f o std n).map
          (fun res => { res with mem := res.mem.setLooping x }) := by
  unfold Mix
  dsimp only
  have eN : (m.setLooping x).Source.NumChannels = m.Source.NumChannels := rfl
  have eP : (m.setLooping x).Source.Params.Step = m.Source.Params.Step := rfl
  rw [eN, eP]
  have e1 := forLoop_map (fun c1 : Cur α F => { c1 with mem := c1.mem.setLooping x })
    (mixDryChannel E smp data m.Source.NumChannels m.Source.Params.Step f std n)
    (fun i s => mixDryChannel_flag E smp data _ _ f std n x i s) m.Source.NumChannels 0
    { mem := m, pos := 0, frac := f, OutPos := o }
  dsimp only at e1
  rw [e1]
  cases forLoop (mixDryChannel E smp data m.Source.NumChannels m.Source.Params.Step f std n)
      m.Source.NumChannels 0 { mem := m, pos := 0, frac := f, OutPos := o } with
  | error e => rfl
  | ok c1 =>
    simp only [Except.map]
    have eA : (c1.mem.setLooping x).Device.NumAuxSends = c1.mem.Device.NumAuxSends := rfl
    rw [eA]
    have e2 := forLoop_map (fun c1 : Cur α F => { c1 with mem := c1.mem.setLooping x })
      (mixSend E smp data m.Source.NumChannels m.Source.Params.Step f std n)
      (fun i s => mixSend_flag E smp data _ _ f std n x i s) c1.mem.Device.NumAuxSends 0 c1
    rw [e2]
    cases forLoop (mixSend E smp data m.Source.NumChannels m.Source.Params.Step f std n)
        c1.mem.Device.NumAuxSends 0 c1 <;> rfl

end LoopFlag3
section LoopFlag4

variable {α F : Type} [Add α] [Sub α] [Mul α] [Div α] [IntCast α]

theorem hrtfLead_flag (E : Env α F) (smp : SamplerId) (data : SrcPtr) (nc i : Nat)
    (x : Bool) (h : HrtfCur α F) :
    hrtfLead E smp data nc i { h with cur := { h.cur with mem := h.cur.mem.setLooping x } }
      = (hrtfLead E smp data nc i h).map
          (fun h1 => { h1 with cur := { h1.cur with mem := h1.cur.mem.setLooping x } }) := by
  unfold hrtfLead
  dsimp only
  cases sample E smp data nc h.cur.pos h.cur.frac i <;> rfl

theorem hrtfRampStep_flag (E : Env α F) (smp : SamplerId) (data : SrcPtr) (nc inc i : Nat)
    (x : Bool) (h : HrtfCur α F) :
    hrtfRampStep E smp data nc inc i
        { h with cur := { h.cur with mem := h.cur.mem.setLooping x } }
      = (hrtfRampStep E smp data nc inc i h).map
          (fun h1 => { h1 with cur := { h1.cur with mem := h1.cur.mem.setLooping x } }) := by
  unfold hrtfRampStep
  dsimp only
  cases sample E smp data nc h.cur.pos h.cur.frac i <;> rfl

theorem hrtfSteadyStep_flag (E : Env α F) (smp : SamplerId) (data : SrcPtr)
    (nc inc i : Nat) (x : Bool) (h : HrtfCur α F) :
    hrtfSteadyStep E smp data nc inc i
        { h with cur := { h.cur with mem := h.cur.mem.setLooping x } }
      = (hrtfSteadyStep E smp data nc inc i h).map
          (fun h1 => { h1 with cur := { h1.cur with mem := h1.cur.mem.setLooping x } }) := by
  unfold hrtfSteadyStep
  dsimp only
  cases sample E smp data nc h.cur.pos h.cur.frac i <;> rfl

theorem hrtfTrail_flag (E : Env α F) (smp : SamplerId) (data : SrcPtr) (nc i : Nat)
    (x : Bool) (h : HrtfCur α F) :
    hrtfTrail E smp data nc i { h with cur := { h.cur with mem := h.cur.mem.setLooping x } }
      = (hrtfTrail E smp data nc i h).map
          (fun h1 => { h1 with cur := { h1.cur with mem := h1.cur.mem.setLooping x } }) := by
  unfold hrtfTrail
  dsimp only
  cases sample E smp data nc h.cur.pos h.cur.frac i <;> rfl

theorem hrtfRamp_flag (E : Env α F) (smp : SamplerId) (data : SrcPtr) (nc inc i : Nat)
    (x : Bool) :
    ∀ (n : Nat) (h : HrtfCur α F),
      hrtfRamp E smp data nc inc i n
          { h with cur := { h.cur with mem := h.cur.mem.setLooping x } }
        = (hrtfRamp E smp data nc inc i n h).map
            (fun r => (r.1, { r.2 with cur := { r.2.cur with mem := r.2.cur.mem.setLooping x } }))
    := by
  intro n
  induction n with
  | zero => intro h; rfl
  | succ n ih =>
    intro h
    simp only [hrtfRamp]
    by_cases hc : 0 < h.Counter
    · rw [if_pos hc, if_pos hc, hrtfRampStep_flag]
      cases hrtfRampStep E smp data nc inc i h with
      | error e => rfl
      | ok h1 => exact ih h1
    · rw [if_neg hc, if_neg hc]
      rfl

end LoopFlag4
section LoopFlag5

variable {α F : Type} [Add α] [Sub α] [Mul α] [Div α] [IntCast α]

theorem hrtfChannel_flag (E : Env α F) (smp : SamplerId) (data : SrcPtr)
    (nc inc f std n : Nat) (x : Bool) (i : Nat) (c : Cur α F) :
    hrtfChannel E smp data nc inc f std n i { c with mem := c.mem.setLooping x }
      = (hrtfChannel E smp data nc inc f std n i c).map
          (fun c1 => { c1 with mem := c1.mem.setLooping x }) := by
  unfold hrtfChannel
  dsimp only
  have eI : hrtfInit f i (Cur.mk (c.mem.setLooping x) c.pos c.frac c.OutPos)
      = { hrtfInit f i c with
          cur := { (hrtfInit f i c).cur with mem := (hrtfInit f i c).cur.mem.setLooping x } } :=
    rfl
  rw [eI]
  generalize hrtfInit f i c = h0
  dsimp only
  have e0 : (if h0.cur.OutPos = 0 then
        hrtfLead E smp data nc i
          { h0 with cur := { h0.cur with mem := h0.cur.mem.setLooping x } }
      else .ok { h0 with cur := { h0.cur with mem := h0.cur.mem.setLooping x } })
      = (if h0.cur.OutPos = 0 then hrtfLead E smp data nc i h0 else .ok h0).map
          (fun h1 : HrtfCur α F =>
            { h1 with cur := { h1.cur with mem := h1.cur.mem.setLooping x } }) := by
    by_cases hz : h0.cur.OutPos = 0
    · rw [if_pos hz, if_pos hz, hrtfLead_flag]
    · rw [if_neg hz, if_neg hz]
      rfl
  dsimp only at e0
  rw [e0]
  cases (if h0.cur.OutPos = 0 then hrtfLead E smp data nc i h0 else .ok h0) with
  | error e => rfl
  | ok h1 =>
    simp only [Except.map]
    have e1 := hrtfRamp_flag E smp data nc inc i x n h1
    dsimp only at e1
    rw [e1]
    cases hrtfRamp E smp data nc inc i n h1 with
    | error e => rfl
    | ok r =>
      obtain ⟨rest, h2⟩ := r
      simp only [Except.map]
      have e2 := forLoop_map
        (fun h1 : HrtfCur α F =>
          { h1 with cur := { h1.cur with mem := h1.cur.mem.setLooping x } })
        (fun _ => hrtfSteadyStep E smp data nc inc i)
        (fun _ s => hrtfSteadyStep_flag E smp data nc inc i x s) rest 0
        { h2 with Delay0 := h2.Delay0 >>> 16, Delay1 := h2.Delay1 >>> 16 }
      dsimp only at e2
      rw [e2]
      cases forLoop (fun _ => hrtfSteadyStep E smp data nc inc i) rest 0
          { h2 with Delay0 := h2.Delay0 >>> 16, Delay1 := h2.Delay1 >>> 16 } with
      | error e => rfl
      | ok h4 =>
        simp only [Except.map]
        by_cases h5 : h4.cur.OutPos = std
        · rw [if_pos h5, if_pos h5]
          have e3 := hrtfTrail_flag E smp data nc i x h4
          dsimp only at e3
          rw [e3]
          cases hrtfTrail E smp data nc i h4 <;> rfl
        · rw [if_neg h5, if_neg h5]

theorem Mix_Hrtf_flag (E : Env α F) (smp : SamplerId) (m : Mem α F) (data : SrcPtr)
    (p f o std n : Nat) (x : Bool) :
    Mix_Hrtf E smp (m.setLooping x) data p f o std n
      = (Mix_Hrtf E smp m data p f o std n).map
          (fun res => { res with mem := res.mem.setLooping x }) := by
  unfold Mix_Hrtf
  dsimp only
  have eN : (m.setLooping x).Source.NumChannels = m.Source.NumChannels := rfl
  have eP : (m.setLooping x).Source.Params.Step = m.Source.Params.Step := rfl
  rw [eN, eP]
  have e1 := forLoop_map (fun c1 : Cur α F => { c1 with mem := c1.mem.setLooping x })
    (hrtfChannel E smp data m.Source.NumChannels m.Source.Params.Step f std n)
    (fun i s => hrtfChannel_flag E smp data _ _ f std n x i s) m.Source.NumChannels 0
    { mem := m, pos := 0, frac := f, OutPos := o }
  dsimp only at e1
  rw [e1]
  cases forLoop (hrtfChannel E smp data m.Source.NumChannels m.Source.Params.Step f std n)
      m.Source.NumChannels 0 { mem := m, pos := 0, frac := f, OutPos := o } with
  | error e => rfl
  | ok c1 =>
    simp only [Except.map]
    have eA : (c1.mem.setLooping x).Device.NumAuxSends = c1.mem.Device.NumAuxSends := rfl
    rw [eA]
    have e2 := forLoop_map (fun c1 : Cur α F => { c1 with mem := c1.mem.setLooping x })
      (mixSend E smp data m.Source.NumChannels m.Source.Params.Step f std n)
      (fun i s => mixSend_flag E smp data _ _ f std n x i s) c1.mem.Device.NumAuxSends 0 c1
    rw [e2]
    cases forLoop (mixSend E smp data m.Source.NumChannels m.Source.Params.Step f std n)
        c1.mem.Device.NumAuxSends 0 c1 <;> rfl

/-- No mixer reads the attribute `Source->bLooping`: a call on the memory with the attribute
set to `x` does what the call on the memory itself does. -/
theorem call_flag (E : Env α F) (g : MixerFunc) (m : Mem α F) (data : SrcPtr)
    (p f o std n : Nat) (x : Bool) :
    g.call E (m.setLooping x) data p f o std n
      = (g.call E m data p f o std n).map
          (fun res => { res with mem := res.mem.setLooping x }) := by
  unfold MixerFunc.call
  by_cases hh : g.isHrtf = true
  · rw [if_pos hh, if_pos hh]
    exact Mix_Hrtf_flag E _ m data p f o std n x
  · rw [if_neg hh, if_neg hh]
    exact Mix_flag E _ m data p f o std n x

end LoopFlag5
section LoopFlag6

variable {α F : Type} [Add α] [Sub α] [Mul α] [Div α] [IntCast α]

/-- The loop under "Handle looping sources" does not read the attribute `Source->bLooping`. -/
theorem advanceLoop_flag (FS : Nat) (x : Bool) :
    ∀ (fuel : Nat) (st : FeedSt α F),
      advanceLoop FS fuel { st with mem := st.mem.setLooping x }
        = (advanceLoop FS fuel st).map (fun s => { s with mem := s.mem.setLooping x }) := by
  intro fuel
  induction fuel with
  | zero => intro st; rfl
  | succ fuel ih =>
    intro st
    obtain ⟨mem, State, played, pos, frac, Lp, item, o, calls⟩ := st
    unfold advanceLoop
    dsimp only
    cases item with
    | none => rfl
    | some it =>
      dsimp only
      have eq1 : (mem.setLooping x).Source.queue = mem.Source.queue := rfl
      have eq2 : (mem.setLooping x).Source.lSourceType = mem.Source.lSourceType := rfl
      have eq3 : (mem.setLooping x).Source.BuffersInQueue = mem.Source.BuffersInQueue := rfl
      rw [eq1, eq2, eq3]
      split_ifs
      all_goals first
        | rfl
        | (cases itemNext mem.Source.queue it <;> dsimp only <;> first | exact ih (FeedSt.mk mem State _ _ frac Lp _ o calls) | rfl)

/-- The window assembly does not read the attribute `Source->bLooping`, only the local
`Looping`. -/
theorem assemble_flag (fuel : Nat) (m : Mem α F) (x L : Bool) (item : Option Nat)
    (p pre FS B : Nat) :
    assemble fuel (m.setLooping x).Source L item p pre FS B
      = assemble fuel m.Source L item p pre FS B := rfl

end LoopFlag6
section LoopFlag7

variable {α F : Type} [Add α] [Sub α] [Mul α] [Div α] [IntCast α]

/-- An iteration of the loop of `MixSource` does not read the attribute `Source->bLooping`,
only the local `Looping`. -/
theorem feedIter_flag (E : Env α F) (fuel std inc : Nat) (r : Resampler) (FS : Nat) (x : Bool)
    (st : FeedSt α F) :
    feedIter E fuel std inc r FS { st with mem := st.mem.setLooping x }
      = (feedIter E fuel std inc r FS st).map
          (fun s => { s with mem := s.mem.setLooping x }) := by
  obtain ⟨mem, State, played, pos, frac, Lp, item, o, calls⟩ := st
  unfold feedIter
  dsimp only
  cases ResamplerPrePadding r with
  | none => rfl
  | some pre =>
    cases ResamplerPadding r with
    | none => rfl
    | some post =>
      dsimp only
      cases requestSize E.STACK_DATA_SIZE std o inc frac post pre FS with
      | error e => rfl
      | ok B0 =>
        dsimp only
        rw [assemble_flag]
        cases assemble fuel mem.Source Lp item pos pre FS B0 with
        | error e => rfl
        | ok SL =>
          obtain ⟨S, L⟩ := SL
          dsimp only
          cases mixCount S.length std o inc frac post pre FS with
          | error e => rfl
          | ok n =>
            dsimp only
            have eD : (mem.setLooping x).Source.Params.DoMix = mem.Source.Params.DoMix := rfl
            rw [eD]
            cases mem.Source.Params.DoMix with
            | none => rfl
            | some g =>
              dsimp only
              rw [call_flag]
              cases g.call E mem { bytes := S, off := ((u32 (pre * FS) : Nat) : Int) }
                  pos frac o std n with
              | error e => rfl
              | ok res =>
                simp only [Except.map]
                exact advanceLoop_flag FS x fuel (FeedSt.mk res.mem State played res.DataPosInt
                  res.DataPosFrac L item (u32 (o + n))
                  (calls ++ [MixCall.mk S (u32 (pre * FS)) pos frac o n]))

/-- The loop of `MixSource` does not read the attribute `Source->bLooping`, only the local
`Looping`. -/
theorem feedLoop_flag (E : Env α F) (inner std inc : Nat) (r : Resampler) (FS : Nat)
    (x : Bool) :
    ∀ (fuel : Nat) (st : FeedSt α F),
      feedLoop E inner std inc r FS fuel { st with mem := st.mem.setLooping x }
        = (feedLoop E inner std inc r FS fuel st).map
            (fun s => { s with mem := s.mem.setLooping x }) := by
  intro fuel
  induction fuel with
  | zero => intro st; rfl
  | succ fuel ih =>
    intro st
    simp only [feedLoop]
    rw [feedIter_flag]
    cases feedIter E inner std inc r FS st with
    | error e => rfl
    | ok st1 =>
      simp only [Except.map]
      by_cases hc : st1.State = .AL_PLAYING ∧ st1.OutPos < std
      · rw [if_pos hc, if_pos hc]
        exact ih st1
      · rw [if_neg hc, if_neg hc]

end LoopFlag7
section PastLoop

variable {α F : Type} [Add α] [Sub α] [Mul α] [Div α] [IntCast α]

/-- At a position at or beyond the loop end, the window assembly of a static source does
what it does with the local `Looping` false. -/
theorem assemble_past {fuel : Nat} {Source : ALsource α F} {b : ALbuffer}
    {rest : List (Option ALbuffer)} (hs : Source.lSourceType = .AL_STATIC)
    (hq : Source.queue = some b :: rest) (L : Bool) (item : Option Nat) {p : Nat}
    (hp : b.LoopEnd ≤ p) (pre FS B : Nat) :
    assemble fuel Source L item p pre FS B = assemble fuel Source false item p pre FS B := by
  unfold assemble
  rw [if_pos hs, if_pos hs, hq]
  dsimp only
  unfold assembleStatic
  rw [if_pos (Or.inr hp), if_pos (Or.inl rfl)]

/-- At a position at or beyond the loop end, an iteration of the loop of `MixSource` on a
static source does what it does with the local `Looping` false. -/
theorem feedIter_past (E : Env α F) (fuel std inc : Nat) (r : Resampler) (FS : Nat)
    (st : FeedSt α F) {b : ALbuffer} {rest : List (Option ALbuffer)}
    (hs : st.mem.Source.lSourceType = .AL_STATIC) (hq : st.mem.Source.queue = some b :: rest)
    (hp : b.LoopEnd ≤ st.DataPosInt) :
    feedIter E fuel std inc r FS st = feedIter E fuel std inc r FS { st with Looping := false }
    := by
  unfold feedIter
  dsimp only
  cases ResamplerPrePadding r with
  | none => rfl
  | some pre =>
    cases ResamplerPadding r with
    | none => rfl
    | some post =>
      dsimp only
      cases requestSize E.STACK_DATA_SIZE std st.OutPos inc st.DataPosFrac post pre FS with
      | error e => rfl
      | ok B0 =>
        dsimp only
        rw [assemble_past hs hq st.Looping st.BufferListItem hp pre FS B0]

/-- At a position at or beyond the loop end, the loop of `MixSource` on a static source
does what it does with the local `Looping` false. -/
theorem feedLoop_past (E : Env α F) (inner std inc : Nat) (r : Resampler) (FS : Nat)
    (st : FeedSt α F) {b : ALbuffer} {rest : List (Option ALbuffer)}
    (hs : st.mem.Source.lSourceType = .AL_STATIC) (hq : st.mem.Source.queue = some b :: rest)
    (hp : b.LoopEnd ≤ st.DataPosInt) (fuel : Nat) :
    feedLoop E inner std inc r FS fuel st
      = feedLoop E inner std inc r FS fuel { st with Looping := false } := by
  cases fuel with
  | zero => rfl
  | succ fuel =>
    simp only [feedLoop]
    rw [feedIter_past E inner std inc r FS st hs hq hp]

/-- The loop flag is ignored beyond the loop.  `MixSource` on a static source whose
position is at or beyond the loop end of its buffer does what it does on the same source
with the attribute `bLooping` cleared, and leaves the attribute as it found it. -/
theorem MixSource_past (E : Env α F) (fuel : Nat) (m : Mem α F) (std : Nat) {b : ALbuffer}
    {rest : List (Option ALbuffer)} (hs : m.Source.lSourceType = .AL_STATIC)
    (hq : m.Source.queue = some b :: rest) (hp : b.LoopEnd ≤ m.Source.position) :
    MixSource E fuel m std
      = (MixSource E fuel (m.setLooping false) std).map
          (fun r => (r.1.setLooping m.Source.bLooping, r.2)) := by
  unfold MixSource
  dsimp only
  have eq1 : (m.setLooping false).Source.queue = m.Source.queue := rfl
  have eq2 : (m.setLooping false).Source.BuffersPlayed = m.Source.BuffersPlayed := rfl
  have eq3 : (m.setLooping false).Source.Params = m.Source.Params := rfl
  have eq4 : (m.setLooping false).Source.Resampler = m.Source.Resampler := rfl
  have eq5 : (m.setLooping false).Source.NumChannels = m.Source.NumChannels := rfl
  have eq6 : (m.setLooping false).Source.SampleSize = m.Source.SampleSize := rfl
  have eq7 : (m.setLooping false).Source.state = m.Source.state := rfl
  have eq8 : (m.setLooping false).Source.position = m.Source.position := rfl
  have eq9 : (m.setLooping false).Source.position_fraction = m.Source.position_fraction := rfl
  have eq10 : (m.setLooping false).Source.bLooping = false := rfl
  rw [eq1, eq2, eq3, eq4, eq5, eq6, eq7, eq8, eq9, eq10]
  cases walkQueue m.Source.queue m.Source.BuffersPlayed (queueHead m.Source.queue) with
  | error e => rfl
  | ok item =>
    dsimp only
    have e1 := feedLoop_past E fuel std m.Source.Params.Step m.Source.Resampler
      (u32 (m.Source.NumChannels * m.Source.SampleSize))
      (FeedSt.mk m m.Source.state m.Source.BuffersPlayed m.Source.position
        m.Source.position_fraction m.Source.bLooping item 0 []) hs hq hp fuel
    have e2 := feedLoop_flag E fuel std m.Source.Params.Step m.Source.Resampler
      (u32 (m.Source.NumChannels * m.Source.SampleSize)) m.Source.bLooping fuel
      (FeedSt.mk (m.setLooping false) m.Source.state m.Source.BuffersPlayed m.Source.position
        m.Source.position_fraction false item 0 [])
    have key := e1.trans e2
    rw [key]
    cases feedLoop E fuel std m.Source.Params.Step m.Source.Resampler
        (u32 (m.Source.NumChannels * m.Source.SampleSize)) fuel
        (FeedSt.mk (m.setLooping false) m.Source.state m.Source.BuffersPlayed
          m.Source.position m.Source.position_fraction false item 0 []) with
    | error e => rfl
    | ok st => rfl

end PastLoop
section PastEnd

variable {α F : Type} [Add α] [Sub α] [Mul α] [Div α] [IntCast α]

/-- A playing static source that does not loop, at a position inside its buffer of `L`
frames: `MixSource` returns, Stopped exactly when the advanced phase has reached the end of
the buffer, and otherwise Playing at the advanced position and fraction. -/
theorem static_end_run (E : Env α F) (m : Mem α F) (N : Nat) (g : MixerFunc)
    (pre post : Nat) (b : ALbuffer) (hP : Playable E m N g pre post)
    (hplay : m.Source.state = .AL_PLAYING)
    (hty : m.Source.lSourceType = .AL_STATIC) (hloop : m.Source.bLooping = false)
    (hq : m.Source.queue = [some b])
    (hp : m.Source.position < b.size / (m.Source.NumChannels * m.Source.SampleSize)) :
    ∃ N0 r, (∀ fuel, N0 ≤ fuel → MixSource E fuel m N = .ok r) ∧
      (r.1.Source.state = .AL_STOPPED ↔
        b.size / (m.Source.NumChannels * m.Source.SampleSize) * FRACTIONONE
          ≤ m.Source.position * FRACTIONONE + m.Source.position_fraction
            + N * m.Source.Params.Step) ∧
      (¬ b.size / (m.Source.NumChannels * m.Source.SampleSize) * FRACTIONONE
          ≤ m.Source.position * FRACTIONONE + m.Source.position_fraction
            + N * m.Source.Params.Step →
        r.1.Source.state = .AL_PLAYING ∧
        r.1.Source.position
          = (m.Source.position * FRACTIONONE + m.Source.position_fraction
              + N * m.Source.Params.Step) / FRACTIONONE ∧
        r.1.Source.position_fraction
          = (m.Source.position * FRACTIONONE + m.Source.position_fraction
              + N * m.Source.Params.Step) % FRACTIONONE) := by
  obtain ⟨N0, r, hret⟩ : ∃ N0 r, ∀ fuel, N0 ≤ fuel → MixSource E fuel m N = .ok r := by
    obtain ⟨N1, M, st1, h⟩ := feedLoop_returns hP N _ (feedInv_init hP)
      (Nat.le_of_eq (Nat.sub_zero N))
    exact ⟨max N1 M, _, fun fuel hf => MixSource_loop_ok E m (walkQueue_head hP.played)
      (h fuel (le_trans (le_max_left _ _) hf) fuel (le_trans (le_max_right _ _) hf))⟩
  have hrun := hret N0 (Nat.le_refl _)
  obtain ⟨item, st, hw, hfeed, hcalls, -, -, hs, -, hpos, hfr, -⟩ := MixSource_inv hrun
  rw [walkQueue_head hP.played] at hw
  simp only [Except.ok.injEq] at hw
  subst hw
  obtain ⟨⟨hIf, hJf⟩, hexit⟩ := feedLoop_ind
    (fun s : FeedSt α F => FeedInv m N s ∧ s.State = .AL_PLAYING ∧
      StaticInv (b.size / (m.Source.NumChannels * m.Source.SampleSize))
        (m.Source.position * 16384 + m.Source.position_fraction) m.Source.Params.Step s)
    (fun s : FeedSt α F => FeedInv m N s ∧
      StaticInv (b.size / (m.Source.NumChannels * m.Source.SampleSize))
        (m.Source.position * 16384 + m.Source.position_fraction) m.Source.Params.Step s)
    (fun s s1 hI hit =>
      ⟨(feedIter_keeps hP hI.1 hit).1, feedIter_static hP hty hq hI.1 hI.2.2 hI.2.1 hit⟩)
    (fun s hR hpl _ => ⟨hR.1, hpl, hR.2⟩) N0 _ _
    ⟨feedInv_init hP, hplay,
      { looping := hloop
        playing := fun _ => ⟨by
          show m.Source.position * 16384 + m.Source.position_fraction
            = m.Source.position * 16384 + m.Source.position_fraction
              + 0 * m.Source.Params.Step
          omega, hp⟩
        stopped := fun hne => absurd hplay hne }⟩ hfeed
  have hout := hIf.out
  have hfrac := hIf.frac
  rw [FRACTIONONE_eq] at hfrac ⊢
  refine ⟨N0, r, hret, ?_, ?_⟩
  · rw [hs]
    constructor
    · intro hst
      have := (hJf.stopped (by rw [hst]; exact fun hh => ALstate.noConfusion hh)).2
      have hmul : st.OutPos * m.Source.Params.Step ≤ N * m.Source.Params.Step :=
        Nat.mul_le_mul_right _ hout
      omega
    · intro hge
      by_cases hpl : st.State = .AL_PLAYING
      · exfalso
        obtain ⟨q1, q2⟩ := hJf.playing hpl
        have hO : st.OutPos = N := by
          have : ¬ st.OutPos < N := fun hh => hexit ⟨hpl, hh⟩
          omega
        rw [hO] at q1
        omega
      · exact (hJf.stopped hpl).1
  · intro hlt
    have hpl : st.State = .AL_PLAYING := by
      by_contra hne
      have := (hJf.stopped hne).2
      have hmul : st.OutPos * m.Source.Params.Step ≤ N * m.Source.Params.Step :=
        Nat.mul_le_mul_right _ hout
      omega
    obtain ⟨q1, q2⟩ := hJf.playing hpl
    have hO : st.OutPos = N := by
      have : ¬ st.OutPos < N := fun hh => hexit ⟨hpl, hh⟩
      omega
    rw [hO] at q1
    rw [hs, hpos, hfr]
    refine ⟨hpl, ?_, ?_⟩ <;> omega

/-- A playable source stays playable when its attribute `bLooping` is cleared. -/
theorem Playable.cleared {E : Env α F} {m : Mem α F} {std : Nat} {g : MixerFunc}
    {pre post : Nat} (hP : Playable E m std g pre post) :
    Playable E (m.setLooping false) std g pre post :=
  { do_mix := hP.do_mix
    selected := hP.selected
    pre_pad := hP.pre_pad
    post_pad := hP.post_pad
    sample_size := hP.sample_size
    channels := hP.channels
    stack := hP.stack
    step_pos := hP.step_pos
    step_le := hP.step_le
    frac := hP.frac
    todo := hP.todo
    played := hP.played
    static := fun h =>
      let ⟨b, h1, h2, h3, h4, _⟩ := hP.static h
      ⟨b, h1, h2, h3, h4, fun hh => Bool.noConfusion hh⟩
    stream := fun _ hh => Bool.noConfusion hh }

end PastEnd
section InLoop

variable {α F : Type} [Add α] [Sub α] [Mul α] [Div α] [IntCast α]

/-- One iteration of the loop of `MixSource` on a static source that loops, entered below
the loop end: the state is not touched, the local `Looping` stays set and the position is
left below the loop end. -/
theorem feedIter_within {E : Env α F} {m : Mem α F} {fuel std inc : Nat} {r : Resampler}
    {FS : Nat} {st st1 : FeedSt α F} {b : ALbuffer}
    (h : feedIter E fuel std inc r FS st = .ok st1)
    (hty : m.Source.lSourceType = .AL_STATIC) (hq : m.Source.queue = [some b])
    (hLS : b.LoopStart < b.LoopEnd) (hE : b.LoopEnd < 4294967296)
    (hfix : st.mem.fixed = m.fixed) (hL : st.Looping = true)
    (hp : st.DataPosInt < b.LoopEnd)
    (hitem : ∀ it, st.BufferListItem = some it → it = 0) :
    st1.mem.fixed = m.fixed ∧ st1.State = st.State ∧ st1.Looping = true ∧
    st1.DataPosInt < b.LoopEnd ∧ (∀ it, st1.BufferListItem = some it → it = 0) := by
  obtain ⟨pre, post, B0, S, L, n, g, res, hpre, hpost, hB, hA, hC, hg, hcall, hadv⟩ :=
    feedIter_inv h
  have hFS := (mixCount_divisors hC).1
  have hfr : res.mem.fixed = m.fixed := (call_fixed hcall).trans hfix
  have hsq : st.mem.Source.queue = [some b] := (congrArg Fixed.queue hfix).trans hq
  have hst : st.mem.Source.lSourceType = .AL_STATIC :=
    (congrArg Fixed.lSourceType hfix).trans hty
  have hLt : L = true := by
    rw [assemble_loopAfter hA, loopAfter_static hst hsq, hL, if_neg]
    intro hh
    rcases hh with hh | hh
    · exact Bool.noConfusion hh
    · omega
  obtain ⟨st2, hst2, hadv⟩ : ∃ st2 : FeedSt α F, st2 = { st with
      mem := res.mem
      DataPosInt := res.DataPosInt
      DataPosFrac := res.DataPosFrac
      Looping := L
      OutPos := u32 (st.OutPos + n)
      calls := st.calls ++ [{ SrcData := S
                              base := u32 (pre * FS)
                              DataPosInt := st.DataPosInt
                              DataPosFrac := st.DataPosFrac
                              OutPos := st.OutPos
                              BufferSize := n }] } ∧
      advanceLoop FS fuel st2 = .ok st1 := ⟨_, rfl, hadv⟩
  have g1 : st2.mem = res.mem := by rw [hst2]
  have g2 : st2.Looping = true := by rw [hst2]; exact hLt
  have g3 : st2.BufferListItem = st.BufferListItem := by rw [hst2]
  have g4 : st2.State = st.State := by rw [hst2]
  have hq2 : st2.mem.Source.queue = [some b] := by
    rw [g1]
    exact (congrArg Fixed.queue hfr).trans hq
  have hty2 : st2.mem.Source.lSourceType = .AL_STATIC := by
    rw [g1]
    exact (congrArg Fixed.lSourceType hfr).trans hty
  obtain ⟨it, hit⟩ := advanceLoop_needs_item FS fuel _ _ hadv
  have hit0 : it = 0 := hitem it (by rw [← g3]; exact hit)
  subst hit0
  have hb : itemBuffer st2.mem.Source.queue 0 = some b := by
    rw [hq2]
    rfl
  cases fuel with
  | zero => simp [advanceLoop] at hadv
  | succ fuel =>
    rw [advanceLoop_static FS fuel _ 0 b hFS hit hb ⟨g2, hty2⟩ hLS hE] at hadv
    by_cases h1 : st2.DataPosInt < b.LoopEnd
    · rw [if_pos h1] at hadv
      simp only [Except.ok.injEq] at hadv
      subst hadv
      exact ⟨by rw [g1]; exact hfr, g4, g2, h1, fun it hh => by
        rw [hit] at hh
        exact (Option.some.inj hh).symm⟩
    · rw [if_neg h1] at hadv
      simp only [Except.ok.injEq] at hadv
      subst hadv
      have hm := Nat.mod_lt (usub st2.DataPosInt b.LoopStart)
        (show 0 < b.LoopEnd - b.LoopStart by omega)
      refine ⟨by show st2.mem.fixed = _; rw [g1]; exact hfr, g4, g2, ?_, fun it hh => ?_⟩
      · show usub st2.DataPosInt b.LoopStart % (b.LoopEnd - b.LoopStart) + b.LoopStart
          < b.LoopEnd
        omega
      · have hh2 : st2.BufferListItem = some it := hh
        rw [hit] at hh2
        exact (Option.some.inj hh2).symm

/-- A static source that loops, entered below the loop end: whenever `MixSource` returns,
the state is the one it found and the position is below the loop end. -/
theorem MixSource_within {E : Env α F} {fuel : Nat} {m : Mem α F} {std : Nat}
    {r : Mem α F × List MixCall} {b : ALbuffer} (h : MixSource E fuel m std = .ok r)
    (hty : m.Source.lSourceType = .AL_STATIC) (hloop : m.Source.bLooping = true)
    (hq : m.Source.queue = [some b])
    (hLS : b.LoopStart < b.LoopEnd) (hE : b.LoopEnd < 4294967296)
    (hp : m.Source.position < b.LoopEnd) :
    r.1.Source.state = m.Source.state ∧ r.1.Source.position < b.LoopEnd := by
  obtain ⟨item, st, hw, hfeed, -, -, -, hs, -, hpos, -⟩ := MixSource_inv h
  obtain ⟨⟨-, q2, -, q4, -⟩, -⟩ := feedLoop_ind
    (fun s : FeedSt α F => s.mem.fixed = m.fixed ∧ s.State = m.Source.state ∧
      s.Looping = true ∧ s.DataPosInt < b.LoopEnd ∧
      (∀ it, s.BufferListItem = some it → it = 0))
    (fun s : FeedSt α F => s.mem.fixed = m.fixed ∧ s.State = m.Source.state ∧
      s.Looping = true ∧ s.DataPosInt < b.LoopEnd ∧
      (∀ it, s.BufferListItem = some it → it = 0))
    (fun s s1 hI hit => by
      obtain ⟨k1, k2, k3, k4, k5⟩ :=
        feedIter_within hit hty hq hLS hE hI.1 hI.2.2.1 hI.2.2.2.1 hI.2.2.2.2
      exact ⟨k1, k2.trans hI.2.1, k3, k4, k5⟩)
    (fun s hR _ _ => hR)
    fuel _ _
    ⟨rfl, rfl, hloop, hp, fun it hit => by
      have hit2 : item = some it := hit
      rw [hit2] at hw
      obtain ⟨e1, e2⟩ := walkQueue_played _ _ _ hw
      rw [hq] at e2
      simp only [List.length_singleton] at e2
      omega⟩ hfeed
  rw [hs, hpos]
  exact ⟨q2, q4⟩

end InLoop
section StaticLoop

variable {α F : Type} [Add α] [Sub α] [Mul α] [Div α] [IntCast α]

/-- C33: a static looping source never stops inside its loop, and ignores the loop flag
beyond it.  Take a static source with `bLooping` set over one buffer `b` (of less than
`2^31` bytes) with `LoopStart < LoopEnd ≤ size / FrameSize`, any `SamplesToDo` and any step.

Entered at a position below `LoopEnd`: whenever `MixSource` returns, the state is the one it
found (it is never set to Stopped), the position is below `LoopEnd` and `bLooping` is still
set; and `MixSource` does return, given enough fuel, when the slice is `Playable`.

Entered at a position at or beyond `LoopEnd`: `MixSource` does exactly what it does on the
same source with `bLooping` cleared, except that it leaves `bLooping` set; so when the slice
is `Playable` and the source is playing inside its buffer of `L` frames, `MixSource` returns
Stopped if and only if the advanced phase has reached `L * FRACTIONONE`, the end of the
buffer, and otherwise Playing at the advanced position and fraction, without wrapping to
`LoopStart`. -/
theorem C33_static_loop (E : Env α F) (m : Mem α F) (N : Nat) (b : ALbuffer)
    (hty : m.Source.lSourceType = .AL_STATIC) (hloop : m.Source.bLooping = true)
    (hq : m.Source.queue = [some b])
    (hLS : b.LoopStart < b.LoopEnd)
    (hLE : b.LoopEnd ≤ b.size / u32 (m.Source.NumChannels * m.Source.SampleSize))
    (hsz : b.size < 2147483648) :
    (m.Source.position < b.LoopEnd →
      (∀ fuel r, MixSource E fuel m N = .ok r →
        r.1.Source.state = m.Source.state ∧ r.1.Source.position < b.LoopEnd ∧
        r.1.Source.bLooping = true) ∧
      (∀ (g : MixerFunc) (pre post : Nat), Playable E m N g pre post →
        ∃ f0 r, (∀ fuel, f0 ≤ fuel → MixSource E fuel m N = .ok r) ∧
          r.1.Source.state = m.Source.state ∧ r.1.Source.position < b.LoopEnd)) ∧
    (b.LoopEnd ≤ m.Source.position →
      (∀ fuel, MixSource E fuel m N
        = (MixSource E fuel (m.setLooping false) N).map
            (fun r => (r.1.setLooping true, r.2))) ∧
      (∀ fuel r, MixSource E fuel m N = .ok r → r.1.Source.bLooping = true) ∧
      (∀ (g : MixerFunc) (pre post : Nat), Playable E m N g pre post →
        m.Source.state = .AL_PLAYING →
        m.Source.position < b.size / (m.Source.NumChannels * m.Source.SampleSize) →
        ∃ f0 r, (∀ fuel, f0 ≤ fuel → MixSource E fuel m N = .ok r) ∧
          (r.1.Source.state = .AL_STOPPED ↔
            b.size / (m.Source.NumChannels * m.Source.SampleSize) * FRACTIONONE
              ≤ m.Source.position * FRACTIONONE + m.Source.position_fraction
                + N * m.Source.Params.Step) ∧
          (¬ b.size / (m.Source.NumChannels * m.Source.SampleSize) * FRACTIONONE
              ≤ m.Source.position * FRACTIONONE + m.Source.position_fraction
                + N * m.Source.Params.Step →
            r.1.Source.state = .AL_PLAYING ∧
            r.1.Source.position
              = (m.Source.position * FRACTIONONE + m.Source.position_fraction
                  + N * m.Source.Params.Step) / FRACTIONONE ∧
            r.1.Source.position_fraction
              = (m.Source.position * FRACTIONONE + m.Source.position_fraction
                  + N * m.Source.Params.Step) % FRACTIONONE))) := by
  have hE : b.LoopEnd < 4294967296 := by
    have e3 : b.size / u32 (m.Source.NumChannels * m.Source.SampleSize) ≤ b.size :=
      Nat.div_le_self _ _
    omega
  have hkeep : ∀ fuel r, MixSource E fuel m N = .ok r → r.1.Source.bLooping = true := by
    intro fuel r h
    obtain ⟨-, -, -, -, -, k6⟩ := MixSource_kept h
    rw [k6, hloop]
  refine ⟨fun hp => ⟨fun fuel r h => ?_, fun g pre post hP => ?_⟩,
    fun hp => ⟨fun fuel => ?_, hkeep, fun g pre post hP hplay hin => ?_⟩⟩
  · obtain ⟨k1, k2⟩ := MixSource_within h hty hloop hq hLS hE hp
    exact ⟨k1, k2, hkeep fuel r h⟩
  · obtain ⟨f0, s, r, -, hret, -⟩ := MixSource_run hP
    obtain ⟨k1, k2⟩ := MixSource_within (hret f0 (Nat.le_refl _)) hty hloop hq hLS hE hp
    exact ⟨f0, r, hret, k1, k2⟩
  · have key := MixSource_past E fuel m N hty hq hp
    rw [hloop] at key
    exact key
  · obtain ⟨N0, r1, hret, h1, h2⟩ := static_end_run E (m.setLooping false) N g pre post b
      hP.cleared hplay hty rfl hq hin
    refine ⟨N0, (r1.1.setLooping true, r1.2), fun fuel hf => ?_, h1, h2⟩
    have key := MixSource_past E fuel m N hty hq hp
    rw [hloop, hret fuel hf] at key
    exact key

end StaticLoop

/-- The source `exBeyond` played for two samples returns. -/
theorem exBeyondRun_ok : MixSource (exEnv 16384) 8 exBeyond 2 = .ok exBeyondRun :=
  okOr_of_ok (exBeyond, []) _ ⟨_, rfl⟩

/-- C33 on two sources over one-byte buffers with the loop `[1, 3)`.  Scenario B, entered
at frame 0 and played for six samples, returns Playing at frame 2, below the loop end.  The
source `exBeyond`, entered at frame 3 of six, at the loop end: played for two samples it does
what the source with `bLooping` cleared does and returns Playing at frame 5, past the loop,
with `bLooping` still set; played for five samples it reaches the end of the buffer and
returns Stopped. -/
theorem C33_static_loop_witness :
    (∃ f0 r, (∀ fuel, f0 ≤ fuel → MixSource (exEnv 16384) fuel exLoop4 6 = .ok r) ∧
      r.1.Source.state = exLoop4.Source.state ∧ r.1.Source.position < 3) ∧
    exLoopRun.1.Source.state = .AL_PLAYING ∧ exLoopRun.1.Source.position = 2 ∧
    MixSource (exEnv 16384) 8 exBeyond 2
      = (MixSource (exEnv 16384) 8 (exBeyond.setLooping false) 2).map
          (fun r => (r.1.setLooping true, r.2)) ∧
    exBeyondRun.1.Source.state = .AL_PLAYING ∧ exBeyondRun.1.Source.position = 5 ∧
    exBeyondRun.1.Source.bLooping = true ∧
    exBeyondRun.2.map MixCall.SrcData = [[13, 14, 15]] ∧
    (∃ f0 r, (∀ fuel, f0 ≤ fuel → MixSource (exEnv 16384) fuel exBeyond 5 = .ok r) ∧
      r.1.Source.state = .AL_STOPPED) :=
  have hP : Playable (exEnv 16384) exLoop4 6 .Mix_ALbyte_point8 0 0 :=
    { do_mix := rfl
      selected := ⟨exBuffer [], Or.inl rfl⟩
      pre_pad := rfl
      post_pad := rfl
      sample_size := rfl
      channels := by decide
      stack := by decide
      step_pos := by decide
      step_le := by decide
      frac := by decide
      todo := by decide
      played := by decide
      static := fun _ => ⟨_, rfl, by decide, by decide, by decide, fun _ => by decide⟩
      stream := fun h => absurd rfl h }
  have hB : Playable (exEnv 16384) exBeyond 5 .Mix_ALbyte_point8 0 0 :=
    { do_mix := rfl
      selected := ⟨exBuffer [], Or.inl rfl⟩
      pre_pad := rfl
      post_pad := rfl
      sample_size := rfl
      channels := by decide
      stack := by decide
      step_pos := by decide
      step_le := by decide
      frac := by decide
      todo := by decide
      played := by decide
      static := fun _ => ⟨_, rfl, by decide, by decide, by decide, fun _ => by decide⟩
      stream := fun h => absurd rfl h }
  have h1 := C33_static_loop (exEnv 16384) exLoop4 6
    { data := [10, 11, 12, 13], LoopStart := 1, LoopEnd := 3, FmtType := .FmtByte }
    rfl rfl rfl (by decide) (by decide) (by decide)
  have h2 := C33_static_loop (exEnv 16384) exBeyond 2
    { data := [10, 11, 12, 13, 14, 15], LoopStart := 1, LoopEnd := 3, FmtType := .FmtByte }
    rfl rfl rfl (by decide) (by decide) (by decide)
  have h5 := C33_static_loop (exEnv 16384) exBeyond 5
    { data := [10, 11, 12, 13, 14, 15], LoopStart := 1, LoopEnd := 3, FmtType := .FmtByte }
    rfl rfl rfl (by decide) (by decide) (by decide)
  ⟨(h1.1 (by decide)).2 .Mix_ALbyte_point8 0 0 hP, by rfl, by rfl,
    (h2.2 (by decide)).1 8, by rfl, by rfl, by rfl, by rfl,
    (let ⟨f0, r, k1, k2, _⟩ := (h5.2 (by decide)).2.2 .Mix_ALbyte_point8 0 0 hB rfl (by decide)
     ⟨f0, r, k1, k2.mpr (by decide)⟩)⟩

/-! ## C26: the number of samples handed to the mixer, with the stack buffer that bounds
the window -/

section BufferSizeClaim
variable {α F : Type} [Add α] [Sub α] [Mul α] [Div α] [IntCast α]

/-- The request of an iteration never exceeds the stack buffer. -/
theorem requestSize_le {STACK std o inc f post pre FS B0 : Nat}
    (h : requestSize STACK std o inc f post pre FS = .ok B0) : B0 ≤ STACK := by
  unfold requestSize at h
  simp only at h
  split at h
  · simp at h
  · split at h
    · simp at h
    · simp only [Except.ok.injEq] at h
      rw [← h]
      have h1 : ∀ x, u32 x ≤ x := fun x => Nat.mod_le _ _
      split_ifs with hc
      · exact le_trans (Nat.sub_le _ _) (h1 _)
      · exact le_trans (Nat.sub_le _ _) (le_trans (h1 _) (by omega))

/-- C26.  Take an iteration of the loop of `MixSource` that returns, on a source whose queue
is not empty, with a step of at least 1 (an `ALuint`), a fraction below `FRACTIONONE`,
`OutPos ≤ SamplesToDo < 2^32` and a stack buffer of at most `2^18` bytes, so that the
quotient below fits the `ALuint` it is cast to.  It makes one
mixer call `c`, at the `OutPos` and the fraction of the iteration, on a window of at most
`STACK_DATA_SIZE` bytes.  If `usable = SrcDataSize / FrameSize - pre_pad - post_pad` is at
least 1, then `floor((usable * FRACTIONONE - step - fraction + (step - 1)) / step)` is the
natural number `(usable * FRACTIONONE - fraction - 1) / step`, the `BufferSize` of the call is
the minimum of `SamplesToDo - OutPos` and this quotient, and it is the greatest
`n ≤ SamplesToDo - OutPos` with `fraction + n * step < usable * FRACTIONONE`. -/
theorem C26_buffer_size (E : Env α F) (fuel std inc : Nat) (r : Resampler) (FS : Nat)
    (st st1 : FeedSt α F) (h : feedIter E fuel std inc r FS st = .ok st1)
    (hinc : 1 ≤ inc) (hincu : inc < 4294967296) (hf : st.DataPosFrac < FRACTIONONE)
    (ho : st.OutPos ≤ std) (hstd : std < 4294967296)
    (hS : E.STACK_DATA_SIZE ≤ 262144)
    (hq : st.mem.Source.lSourceType = .AL_STATIC ∨ 0 < st.mem.Source.queue.length) :
    ∃ (pre post : Nat) (c : MixCall),
      ResamplerPrePadding r = some pre ∧ ResamplerPadding r = some post ∧
      st1.calls = st.calls ++ [c] ∧ c.OutPos = st.OutPos ∧ c.DataPosFrac = st.DataPosFrac ∧
      c.SrcData.length ≤ E.STACK_DATA_SIZE ∧
      ∀ usable : Nat, usable = c.SrcData.length / FS - pre - post → 1 ≤ usable →
        (((usable * FRACTIONONE - st.DataPosFrac - 1) / inc : Nat) : Int)
          = ((usable : Int) * (FRACTIONONE : Int) - (inc : Int) - (st.DataPosFrac : Int)
            + ((inc : Int) - 1)) / (inc : Int) ∧
        c.BufferSize
          = min (std - st.OutPos) ((usable * FRACTIONONE - st.DataPosFrac - 1) / inc) ∧
        c.BufferSize ≤ std - st.OutPos ∧
        st.DataPosFrac + c.BufferSize * inc < usable * FRACTIONONE ∧
        ∀ n, n ≤ std - st.OutPos → st.DataPosFrac + n * inc < usable * FRACTIONONE →
          n ≤ c.BufferSize := by
  obtain ⟨pre, post, B0, S, L, n, g, res, hpre, hpost, hB, hA, hC, hg, hcall, hadv⟩ :=
    feedIter_inv h
  have hs := advanceLoop_spec FS fuel _ _ hadv
  obtain ⟨it, hit⟩ := advanceLoop_needs_item FS fuel _ _ hadv
  have hit2 : st.BufferListItem = some it := hit
  have hlen : S.length = B0 := assemble_length (by
    rcases hq with hq | hq
    · exact Or.inl hq
    · exact Or.inr ⟨by rw [hit2]; rfl, hq⟩) hA
  have hB0 : B0 ≤ E.STACK_DATA_SIZE := requestSize_le hB
  obtain ⟨c, hc⟩ : ∃ c : MixCall, c = MixCall.mk S (u32 (pre * FS)) st.DataPosInt
      st.DataPosFrac st.OutPos n := ⟨_, rfl⟩
  refine ⟨pre, post, c, hpre, hpost, by rw [hc]; exact hs.2.2.1, by rw [hc], by rw [hc],
    by rw [hc]; show S.length ≤ _; omega, ?_⟩
  have hcS : c.SrcData = S := by rw [hc]
  have hcn : c.BufferSize = n := by rw [hc]
  rw [hcS, hcn]
  clear hcS hcn hc
  intro usable hu h1
  obtain ⟨Q, hQ⟩ : ∃ Q, Q = (usable * FRACTIONONE - st.DataPosFrac - 1) / inc := ⟨_, rfl⟩
  rw [← hQ]
  rw [FRACTIONONE_eq] at *
  have hpp := padding_small hpre hpost
  rw [hu] at h1
  have hn := mixCount_usable hinc hincu hf h1 (by omega) hC
  rw [← hu] at hn h1
  rw [← hQ] at hn
  have hus : usub std st.OutPos = std - st.OutPos := by unfold usub; omega
  rw [hus] at hn
  have hQi : (Q : Int) = ((usable : Int) * ((16384 : Nat) : Int) - (inc : Int)
      - (st.DataPosFrac : Int) + ((inc : Int) - 1)) / (inc : Int) := by
    have e : (usable : Int) * ((16384 : Nat) : Int) - (inc : Int) - (st.DataPosFrac : Int)
        + ((inc : Int) - 1) = ((usable * 16384 - st.DataPosFrac - 1 : Nat) : Int) := by
      omega
    rw [e, hQ]
    exact Int.natCast_div _ _
  have hmul : Q * inc ≤ usable * 16384 - st.DataPosFrac - 1 := by
    rw [hQ]
    exact Nat.div_mul_le_self _ _
  have hQs : Q < 4294967296 := by
    have h2 : S.length / FS ≤ 262144 := le_trans (Nat.div_le_self _ _) (by omega)
    have h3 : usable * 16384 - st.DataPosFrac - 1 < 4294967296 := by omega
    rw [hQ]
    exact lt_of_le_of_lt (Nat.div_le_self _ _) h3
  rw [Nat.mod_eq_of_lt hQs] at hn
  have hle : n ≤ Q := by rw [hn]; exact Nat.min_le_left _ _
  have hmul2 : n * inc ≤ Q * inc := Nat.mul_le_mul_right _ hle
  refine ⟨hQi, by rw [hn, Nat.min_comm], by rw [hn]; exact Nat.min_le_right _ _, by omega, ?_⟩
  intro k hk hkf
  have hkQ : k ≤ Q := by
    rw [hQ]
    exact (Nat.le_div_iff_mul_le hinc).2 (by omega)
  rw [hn]
  exact Nat.le_min.2 ⟨hkQ, hk⟩

end BufferSizeClaim

/-- The first iteration on `exStatic4`, asked for six samples with a stack buffer of four
bytes, returns. -/
theorem exIter4_ok :
    feedIter (exEnv 4) 8 6 16384 .POINT_RESAMPLER 1 (exFeed (exStatic4 .AL_PLAYING 0))
      = .ok exIter4 :=
  okOr_of_ok (exFeed (exStatic4 .AL_PLAYING 0)) _ ⟨_, rfl⟩

/-- C26 at a concrete iteration: the static source `exStatic4` (four one-byte frames, point
resampler, unit step, no padding) asked for six samples with a stack buffer of four bytes.
The iteration makes one call, on the window of the four frames, all usable; the quotient is
`(4 * 16384 - 0 - 1) / 16384 = 3`, below the six samples left, and the call is handed
`BufferSize = 3`, the greatest `n ≤ 6` with `n * 16384 < 4 * 16384`. -/
theorem C26_buffer_size_witness :
    feedIter (exEnv 4) 8 6 16384 .POINT_RESAMPLER 1 (exFeed (exStatic4 .AL_PLAYING 0))
      = .ok exIter4 ∧
    exIter4.calls = [{ SrcData := [10, 11, 12, 13], base := 0, DataPosInt := 0,
                       DataPosFrac := 0, OutPos := 0, BufferSize := 3 }] ∧
    (3 : Nat) = min (6 - 0) ((4 * FRACTIONONE - 0 - 1) / 16384) ∧
    ∃ c : MixCall, exIter4.calls = [c] ∧ c.SrcData.length ≤ 4 ∧
      c.BufferSize = min (6 - 0) ((4 * FRACTIONONE - 0 - 1) / 16384) ∧
      c.BufferSize ≤ 6 - 0 ∧ 0 + c.BufferSize * 16384 < 4 * FRACTIONONE ∧
      ∀ n, n ≤ 6 - 0 → 0 + n * 16384 < 4 * FRACTIONONE → n ≤ c.BufferSize :=
  have h := C26_buffer_size (exEnv 4) 8 6 16384 .POINT_RESAMPLER 1
    (exFeed (exStatic4 .AL_PLAYING 0)) exIter4 exIter4_ok
    (by decide) (by decide) (by decide) (by decide) (by decide) (by decide) (Or.inl rfl)
  ⟨exIter4_ok, by rfl, by decide, by
    obtain ⟨pre, post, c, hpre, hpost, hc, _, _, hlen, hall⟩ := h
    have hc1 : [MixCall.mk [10, 11, 12, 13] 0 0 0 0 3] = [c] := hc
    have hc2 : MixCall.mk [10, 11, 12, 13] 0 0 0 0 3 = c := (List.cons.inj hc1).1
    subst hc2
    have hp : pre = 0 := by simpa [ResamplerPrePadding] using hpre.symm
    have hq : post = 0 := by simpa [ResamplerPadding] using hpost.symm
    subst hp hq
    have h3 := (hall 4 (by decide) (by decide)).2
    exact ⟨_, rfl, hlen, h3⟩⟩

end OpenAL
